import Mathlib

/-!
# CEquation: a shallow embedding of `CLCEqtn.cpp` / `CLCEqtn.h`

The parser (`ParseEquation`, `_ParseEquationUnits`, `_StringToUnit`, `_ProcessOps`), the
evaluator (`DoEquation`) and the answer formatter (`_AnswerUnitString`) are transcribed as
pure functions over explicit state.

Modelling conventions.
* A C string is a `List Char` without the terminating NUL; `cstr` cuts a list at its first NUL.
* `int` values are `Int`; no value in the program comes near the 32-bit range.
* `double` is a type parameter `D` together with a record `Dbl D` holding the arithmetic of the
  machine and the C library routines the code calls (`sscanf`, `sprintf`, `pow`, `sin`, ...).
  `ratDbl` is the instance of exact rational arithmetic; `ieeeDbl` is the instance of IEEE 754
  binary64 on finite values, which rounds every result to the nearest `double`.
* `TEqStack<T>` is a `List T` whose head is the top of the stack.  `malloc` is taken to
  succeed, so `Push` never returns `-1`.
* `m_szUnit` is a `List Char`; the 32 byte bound of the buffer is not modelled.
-/

namespace CEquation

/-! ## Constants of `CLCEqtn.h` -/

abbrev OP_NULL : Int := 0
abbrev OP_PSH : Int := 1
abbrev OP_POP : Int := 2
abbrev OP_SET : Int := 3
abbrev OP_BINARYMIN : Int := 4
abbrev OP_OR : Int := 4
abbrev OP_AND : Int := 5
abbrev OP_RELOPMIN : Int := 6
abbrev OP_LTE : Int := 6
abbrev OP_GTE : Int := 7
abbrev OP_LT : Int := 8
abbrev OP_GT : Int := 9
abbrev OP_NEQ : Int := 10
abbrev OP_EQ : Int := 11
abbrev OP_RELOPMAX : Int := 11
abbrev OP_ADD : Int := 12
abbrev OP_SUB : Int := 13
abbrev OP_MUL : Int := 14
abbrev OP_DIV : Int := 15
abbrev OP_POW : Int := 16
abbrev OP_BINARYMAX : Int := 16

abbrev OP_UNARY : Int := 20
abbrev OP_ABS : Int := 0
abbrev OP_SQRT : Int := 1
abbrev OP_EXP : Int := 2
abbrev OP_LOG : Int := 3
abbrev OP_LOG10 : Int := 4
abbrev OP_CEIL : Int := 5
abbrev OP_FLOOR : Int := 6
abbrev OP_COS : Int := 7
abbrev OP_SIN : Int := 8
abbrev OP_TAN : Int := 9
abbrev OP_ACOS : Int := 10
abbrev OP_ASIN : Int := 11
abbrev OP_ATAN : Int := 12
abbrev OP_COSH : Int := 13
abbrev OP_SINH : Int := 14
abbrev OP_TANH : Int := 15
abbrev OP_SIND : Int := 16
abbrev OP_COSD : Int := 17
abbrev OP_TAND : Int := 18
abbrev OP_ASIND : Int := 19
abbrev OP_ACOSD : Int := 20
abbrev OP_ATAND : Int := 21
abbrev OP_NOT : Int := 22
abbrev OP_SIGN : Int := 23
abbrev OP_ROUND : Int := 24
abbrev NUM_UNARYOP : Int := 25

abbrev OP_NARG : Int := 50
abbrev OP_NARG_MOD : Int := 0
abbrev OP_NARG_REM : Int := 1
abbrev OP_NARG_ATAN2 : Int := 2
abbrev OP_NARG_ATAN2D : Int := 3
abbrev OP_NARG_MAX : Int := 4
abbrev OP_NARG_MIN : Int := 5
abbrev OP_NARG_IF : Int := 6
abbrev NUM_NARGOP : Int := 7

abbrev OP_BRACKETOFFSET : Int := 100

abbrev EQSI_NUMUNIT_BASE : Nat := 7
abbrev EQSI_NUMUNIT : Nat := 16
abbrev EQSI_NUMUNIT_INPUT : Nat := 26
abbrev EQSI_NUMUNIT_CONST : Nat := 8
abbrev EQSI_NUMUNIT_PREFIX : Nat := 11
abbrev EQSI_NUMCONST : Nat := 17

abbrev EQERR_NONE : Int := 0
abbrev EQERR_PARSE_ALLOCFAIL : Int := -1
abbrev EQERR_PARSE_NOEQUATION : Int := -2
abbrev EQERR_PARSE_NUMBEREXPECTED : Int := 1
abbrev EQERR_PARSE_UNKNOWNFUNCVAR : Int := 2
abbrev EQERR_PARSE_BRACKETEXPECTED : Int := 3
abbrev EQERR_PARSE_BINARYOPEXPECTED : Int := 4
abbrev EQERR_PARSE_BRACKETSOPEN : Int := 5
abbrev EQERR_PARSE_UNOPENEDBRACKET : Int := 6
abbrev EQERR_PARSE_NOADVANCE : Int := 7
abbrev EQERR_PARSE_CONTAINSVAR : Int := 8
abbrev EQERR_PARSE_NARGBADCOUNT : Int := 9
abbrev EQERR_PARSE_STACKOVERFLOW : Int := 10
abbrev EQERR_PARSE_ASSIGNNOTVAR : Int := 11
abbrev EQERR_PARSE_UNITEXPECTED : Int := 12
abbrev EQERR_PARSE_UNITALREADYDEF : Int := 13
abbrev EQERR_PARSE_UNITINCOMPATIBLE : Int := 14
abbrev EQERR_PARSE_ILLEGALCHAR : Int := 99
abbrev EQERR_EVAL_UNKNOWNBINARYOP : Int := 101
abbrev EQERR_EVAL_UNKNOWNUNARYOP : Int := 102
abbrev EQERR_EVAL_UNKNOWNNARGOP : Int := 103
abbrev EQERR_EVAL_UNKNOWNVALOP : Int := 104
abbrev EQERR_EVAL_STACKNOTEMPTY : Int := 105
abbrev EQERR_EVAL_STACKUNDERFLOW : Int := 106
abbrev EQERR_EVAL_CONTAINSVAR : Int := 108
abbrev EQERR_EVAL_BADTOKEN : Int := 109
abbrev EQERR_EVAL_ASSIGNNOTALLOWED : Int := 110
abbrev EQERR_EVAL_UNITMISMATCH : Int := 111
abbrev EQERR_EVAL_UNITNOTDIMLESS : Int := 112
abbrev EQERR_EVAL_NOEQUATION : Int := 199
abbrev EQERR_MATH_DIV_ZERO : Int := 201
abbrev EQERR_MATH_DOMAIN : Int := 202
abbrev EQERR_MATH_SQRT_NEG : Int := 203
abbrev EQERR_MATH_LOG_ZERO : Int := 204
abbrev EQERR_MATH_LOG_NEG : Int := 205
abbrev EQERR_MATH_OVERFLOW : Int := 206

abbrev LOOKFOR_NUMBER : Nat := 1
abbrev LOOKFOR_BINARYOP : Nat := 2
abbrev LOOKFOR_BRACKET : Nat := 3

abbrev VOTYP_UNDEFINED : Nat := 0
abbrev VOTYP_VAL : Nat := 1
abbrev VOTYP_OP : Nat := 2
abbrev VOTYP_REF : Nat := 3
abbrev VOTYP_UNIT : Nat := 4
abbrev VOTYP_NARGC : Nat := 5
abbrev VOTYP_PREFIX : Nat := 6

/-- The characters of `EQ_ILLEGALCHAR`.  In the C literal the sequence backslash-semicolon is
an escape that stands for the semicolon alone, so the backslash is not a member. -/
def EQ_ILLEGALCHAR : List Char := "\x60~@$%[]\x7b\x7d?;:".toList

/-- Valid first characters of a variable name. -/
def EQ_VALIDCHAR : List Char :=
  "abcdefghijklmnopqrstuvwxyz_ABCDEFGHIJKLMNOPQRSTUVWXYZ".toList

/-- Valid variable name symbols. -/
def EQ_VALIDSYMB : List Char :=
  "abcdefghijklmnopqrstuvwxyz_ABCDEFGHIJKLMNOPQRSTUVWXYZ1234567890\x27\x22".toList

/-- Valid characters in units. -/
def EQ_VALIDUNIT : List Char :=
  "abcdefghijklmnopqrstuvwxyzABCDEFGHIJKLMNOPQRSTUVWXYZ".toList

/-- The names of `CEquationUnaryOpStr`, in order. -/
def CEquationUnaryOpStr : List (List Char) :=
  ["abs", "sqrt", "exp", "log", "log10", "ceil", "floor", "cos", "sin", "tan",
   "acos", "asin", "atan", "cosh", "sinh", "tanh", "sind", "cosd", "tand", "asind",
   "acosd", "atand", "!", "sign", "round"].map String.toList

/-- The names of `CEquationNArgOpStr`, in order. -/
def CEquationNArgOpStr : List (List Char) :=
  ["mod", "rem", "atan2", "atan2d", "max", "min", "if"].map String.toList

/-- Declared argument counts of the n-arg operators (negative: minimum count). -/
def CEquationNArgOpArgc : List Int := [2, 2, 2, 2, -2, -2, 3]

/-- Array read `CEquationNArgOpArgc[i]` for an index inside the table. -/
def nargArgc (i : Int) : Int := CEquationNArgOpArgc.getD i.toNat 0

/-- The names of `CEquationSIUnitStr`, in order (base, derived, input only, constants). -/
def CEquationSIUnitStr : List (List Char) :=
  ["kg", "m", "A", "s", "K", "mol", "cd", "W", "J", "Pa", "N", "Hz", "C", "V", "F", "Ohm",
   "g", "L", "degC", "degF", "mi", "nmi", "yd", "ft", "in", "eV",
   "m/s", "F/m", "N/A2", "m3/kg s2", "J s", "/mol", "J/K", "J/K mol"].map String.toList

/-- The characters of `CEquationSIUnitPrefixStr`. -/
def CEquationSIUnitPrefixStr : List Char := "TGMkhcmunpf".toList

/-- The names of `CEquationSIUnitConstStr`, in order. -/
def CEquationSIUnitConstStr : List (List Char) :=
  ["pi", "c", "Z0", "e0", "mu0", "G", "h", "hbar", "e", "m_alpha", "m_e", "m_n", "m_p",
   "m_u", "N_A", "kB", "R"].map String.toList

/-- Unit index of each named constant (`-1`: dimensionless). -/
def CEquationSIConstUnitIndx : List Int :=
  [-1, 26, 15, 27, 28, 29, 30, 30, 12, 0, 0, 0, 0, 0, 31, 32, 33]

/-! ## C strings -/

/-- The C string held in a buffer: the characters before the first NUL. -/
def cstr (s : List Char) : List Char := s.takeWhile (fun c => c != '\x00')

/-- The character `s[i]`; the terminating NUL at and past the end. -/
def charAt (s : List Char) (i : Int) : Char :=
  if i < 0 then '\x00' else s.getD i.toNat '\x00'

/-- The string `s + i`. -/
def strFrom (s : List Char) (i : Int) : List Char := s.drop i.toNat

/-- Test `strchr(set, c) != NULL` for a character `c` that is not NUL. -/
def strchr (set : List Char) (c : Char) : Bool := set.contains c

/-- Test `strncmp(a, b, n) == 0`. -/
def strncmpEq : List Char → List Char → Nat → Bool
  | _, _, 0 => true
  | [], [], _ + 1 => true
  | [], _ :: _, _ + 1 => false
  | _ :: _, [], _ + 1 => false
  | x :: xs, y :: ys, n + 1 => x == y && strncmpEq xs ys n

/-- Skip blanks: the loop `while(s[i] == ' ') i++`, run on the rest of the string. -/
def skipBlanks : List Char → Int → Int
  | [], i => i
  | c :: cs, i => if c == ' ' then skipBlanks cs (i + 1) else i

/-- Length of the run of characters of `set` at the head of a string. -/
def spanLen (set : List Char) : List Char → Int
  | [] => 0
  | c :: cs => if strchr set c then 1 + spanLen set cs else 0

/-- Index of the first name of a table that `strncmp` matches at the head of `s`, comparing
`MAX(strlen(name), iTokLen)` characters, together with that name. -/
def findName (s : List Char) (iTokLen : Int) : List (List Char) → Nat → Option (Nat × List Char)
  | [], _ => none
  | nm :: rest, k =>
    if strncmpEq s nm (max (nm.length : Int) iTokLen).toNat then some (k, nm)
    else findName s iTokLen rest (k + 1)

/-- The lookup in the variable list: as `findName`, but the scan stops at the first empty
name (the double NUL that ends the list). -/
def findVar (s : List Char) (iTokLen : Int) : List (List Char) → Nat → Option (Nat × List Char)
  | [], _ => none
  | nm :: rest, k =>
    if nm.isEmpty then none
    else if strncmpEq s nm (max (nm.length : Int) iTokLen).toNat then some (k, nm)
    else findVar s iTokLen rest (k + 1)

/-! ## Stacks -/

/-- Pop of `TEqStack`: the value (the zeroed `tNul` on an empty stack) and the rest. -/
def Pop {T : Type} (tNul : T) : List T → T × List T
  | [] => (tNul, [])
  | t :: ts => (t, ts)

/-- Peek of `TEqStack`. -/
def Peek {T : Type} (tNul : T) : List T → T
  | [] => tNul
  | t :: _ => t

/-- PeekBack of `TEqStack` for a negative offset: the element `tStck[iTop + iOffs]`, or `tNul`
when that index is negative. -/
def PeekBack {T : Type} (tNul : T) (s : List T) (iOffs : Int) : T :=
  if (s.length : Int) + iOffs < 0 then tNul
  else if iOffs ≥ 0 then tNul
  else s.getD (-iOffs - 1).toNat tNul

/-- InsertBack of `TEqStack` for a negative offset: the new value lands at index
`iTop + iOffs`, the `-iOffs` values above it move up by one. -/
def InsertBack {T : Type} (s : List T) (t : T) (iOffs : Int) : List T :=
  s.take (-iOffs).toNat ++ t :: s.drop (-iOffs).toNat

/-! ## The arithmetic of `double` and the C library -/

/-- The machine arithmetic on `double` and the C library routines used by the code. -/
structure Dbl (D : Type) where
  /-- The `double` a decimal constant of the source text is compiled to. -/
  lit : ℚ → D
  /-- The value of `M_PI` (from `math.h`, or the fallback of `CLCEqtn.h`). -/
  M_PI : D
  add : D → D → D
  sub : D → D → D
  mul : D → D → D
  div : D → D → D
  neg : D → D
  /-- Comparison `==`. -/
  eq : D → D → Bool
  /-- Comparison `<`. -/
  lt : D → D → Bool
  /-- Comparison `<=`. -/
  le : D → D → Bool
  floor : D → D
  ceil : D → D
  fabs : D → D
  sqrt : D → D
  exp : D → D
  log : D → D
  log10 : D → D
  cos : D → D
  sin : D → D
  tan : D → D
  acos : D → D
  asin : D → D
  atan : D → D
  cosh : D → D
  sinh : D → D
  tanh : D → D
  pow : D → D → D
  atan2 : D → D → D
  /-- The call `sscanf(s, "%lg%n", &d, &n)`: the value and the number of characters read,
  `none` when no conversion takes place. -/
  scanf_lg : List Char → Option (D × Nat)
  /-- The text `sprintf` writes for the conversion `%g` (and `%lg`). -/
  fmt_g : D → List Char

/-- Token of the compiled equation (`VALOP`).  The members `uOp`, `iRef`, `iUnit` and `iArgc`
of the union are one field `iVal`; the member that a token type does not use is zero. -/
structure VALOP (D : Type) where
  uTyp : Nat
  dVal : D
  iVal : Int
  iPos : Int
deriving DecidableEq

variable {D : Type}

/-- The zeroed `tNul` of a `TEqStack<VALOP>`. -/
def voNul (F : Dbl D) : VALOP D := ⟨VOTYP_UNDEFINED, F.lit 0, 0, 0⟩

/-- A token with a `double` payload (`VOTYP_VAL`, `VOTYP_PREFIX`). -/
def voD (t : Nat) (d : D) (p : Int) : VALOP D := ⟨t, d, 0, p⟩

/-- A token with an `int` payload (`VOTYP_OP`, `VOTYP_REF`, `VOTYP_UNIT`, `VOTYP_NARGC`). -/
def voI (F : Dbl D) (t : Nat) (i : Int) (p : Int) : VALOP D := ⟨t, F.lit 0, i, p⟩

/-- The loop `while(x >= OP_BRACKETOFFSET) x -= OP_BRACKETOFFSET`. -/
def stripGE (x : Int) : Int := if x ≥ OP_BRACKETOFFSET then x % OP_BRACKETOFFSET else x

/-- The loop `while(x > OP_BRACKETOFFSET) x -= OP_BRACKETOFFSET`. -/
def stripGT (x : Int) : Int :=
  if x > OP_BRACKETOFFSET then (x - 1) % OP_BRACKETOFFSET + 1 else x

/-- Test that a stripped operator code is an n-arg operator of negative declared count. -/
def isVarArg (o : Int) : Bool :=
  decide (o ≥ OP_NARG) && decide (o < OP_NARG + NUM_NARGOP) && decide (nargArgc (o - OP_NARG) < 0)

/-- State of the three parse stacks. -/
structure Stacks (D : Type) where
  vosParsEqn : List (VALOP D)
  isOps : List Int
  isPos : List Int

/-- The exit tests at the head of a round of `_ProcessOps`: the operator stack is empty, the
operator on top has lower precedence (unless both are relational codes), or both are the push
of the current bracket level. -/
def poStop (iThisOp iBrktOff : Int) (st : Stacks D) : Prop :=
  st.isOps.length ≤ 0 ∨
  (Peek 0 st.isOps < iThisOp ∧
    ((Peek 0 st.isOps < OP_RELOPMIN ∨ Peek 0 st.isOps > OP_RELOPMAX) ∨
     (iThisOp < OP_RELOPMIN ∨ iThisOp > OP_RELOPMAX))) ∨
  (iThisOp = OP_PSH + iBrktOff ∧ Peek 0 st.isOps = iThisOp)

instance (iThisOp iBrktOff : Int) (st : Stacks D) : Decidable (poStop iThisOp iBrktOff st) := by
  unfold poStop; infer_instance

/-- The stacks after the operator token of a round has been pushed and, for `OP_SET`, the
variable reference that was stored below it. -/
def poSet (F : Dbl D) (st : Stacks D) : Stacks D :=
  let iPrevOp := stripGE (Pop 0 st.isOps).1
  let ops1 := (Pop 0 st.isOps).2
  let out1 := voI F VOTYP_OP iPrevOp (Pop 0 st.isPos).1 :: st.vosParsEqn
  let pos1 := (Pop 0 st.isPos).2
  if iPrevOp = OP_SET then
    ⟨voI F VOTYP_REF (Pop 0 ops1).1 (Pop 0 pos1).1 :: out1, (Pop 0 ops1).2, (Pop 0 pos1).2⟩
  else ⟨out1, ops1, pos1⟩

/-- One round of `_ProcessOps` past the exit tests: the operator on top is popped and stored
as a token, followed by the reference (`OP_SET`) or the argument count (n-arg operator of
negative declared count) stored below it. -/
def poStep (F : Dbl D) (st : Stacks D) : Stacks D :=
  let st2 := poSet F st
  let iNArg := stripGE (Pop 0 st.isOps).1 - OP_NARG
  if iNArg ≥ 0 ∧ iNArg < NUM_NARGOP ∧ nargArgc iNArg < 0 then
    ⟨voI F VOTYP_NARGC (Pop 0 st2.isOps).1 (Pop 0 st2.isPos).1 :: st2.vosParsEqn,
      (Pop 0 st2.isOps).2, (Pop 0 st2.isPos).2⟩
  else st2

/-- The loop of `_ProcessOps`; every round pops at least one operator, `fuel` bounds the
rounds. -/
def processOpsLoop (F : Dbl D) (iThisOp iBrktOff : Int) : Nat → Stacks D → Stacks D
  | 0, st => st
  | fuel + 1, st =>
    if poStop iThisOp iBrktOff st then st
    else processOpsLoop F iThisOp iBrktOff fuel (poStep F st)

/-- The function `_ProcessOps`: drain the operator stack into the equation stack down to the
first operator of lower precedence than `iThisOp`.  The error code it returns is always
`EQERR_NONE`, because `Push` does not fail. -/
def _ProcessOps (F : Dbl D) (st : Stacks D) (iThisOp iBrktOff : Int) : Stacks D :=
  processOpsLoop F iThisOp iBrktOff (st.isOps.length + 1) st

/-! ## Unit tables -/

/-- One row of `CEquationSIUnit`: seven exponents, scale, offset. -/
def unitRow (F : Dbl D) (kg m A s K mol cd : ℚ) (scale offset : D) : List D :=
  [F.lit kg, F.lit m, F.lit A, F.lit s, F.lit K, F.lit mol, F.lit cd, scale, offset]

/-- The table `CEquationSIUnit` (input units, then the units of the constants). -/
def CEquationSIUnit (F : Dbl D) : List (List D) :=
  let one := F.lit 1
  let z := F.lit 0
  [ unitRow F 1 0 0 0 0 0 0 one z,
    unitRow F 0 1 0 0 0 0 0 one z,
    unitRow F 0 0 1 0 0 0 0 one z,
    unitRow F 0 0 0 1 0 0 0 one z,
    unitRow F 0 0 0 0 1 0 0 one z,
    unitRow F 0 0 0 0 0 1 0 one z,
    unitRow F 0 0 0 0 0 0 1 one z,
    unitRow F 1 2 0 (-3) 0 0 0 one z,
    unitRow F 1 2 0 (-2) 0 0 0 one z,
    unitRow F 1 (-1) 0 (-2) 0 0 0 one z,
    unitRow F 1 1 0 (-2) 0 0 0 one z,
    unitRow F 0 0 0 (-1) 0 0 0 one z,
    unitRow F 0 0 1 1 0 0 0 one z,
    unitRow F 1 2 (-1) (-3) 0 0 0 one z,
    unitRow F (-1) (-2) 2 4 0 0 0 one z,
    unitRow F 1 2 (-2) (-3) 0 0 0 one z,
    unitRow F 1 0 0 0 0 0 0 (F.lit (1 / 1000)) z,
    unitRow F 0 3 0 0 0 0 0 (F.lit (1 / 1000)) z,
    unitRow F 0 0 0 0 1 0 0 one (F.lit (27315 / 100)),
    unitRow F 0 0 0 0 1 0 0 (F.div (F.lit 5) (F.lit 9))
      (F.sub (F.lit (27315 / 100)) (F.mul (F.div (F.lit 5) (F.lit 9)) (F.lit 32))),
    unitRow F 0 1 0 0 0 0 0 (F.lit (1609344 / 1000)) z,
    unitRow F 0 1 0 0 0 0 0 (F.lit 1852) z,
    unitRow F 0 1 0 0 0 0 0 (F.lit (9144 / 10000)) z,
    unitRow F 0 1 0 0 0 0 0 (F.lit (3048 / 10000)) z,
    unitRow F 0 1 0 0 0 0 0 (F.lit (254 / 10000)) z,
    unitRow F 1 2 0 (-2) 0 0 0 (F.lit (160217646 / 10 ^ 27)) z,
    unitRow F 0 1 0 (-1) 0 0 0 one z,
    unitRow F (-1) (-3) 2 4 0 0 0 one z,
    unitRow F 1 1 (-2) (-2) 0 0 0 one z,
    unitRow F (-1) 3 0 (-2) 0 0 0 one z,
    unitRow F 1 2 0 (-1) 0 0 0 one z,
    unitRow F 0 0 0 0 0 (-1) 0 one z,
    unitRow F 1 2 0 (-2) (-1) 0 0 one z,
    unitRow F 1 2 0 (-2) (-1) (-1) 0 one z ]

/-- The entry `CEquationSIUnit[i][j]`. -/
def SIUnit (F : Dbl D) (i : Int) (j : Nat) : D :=
  ((CEquationSIUnit F).getD i.toNat []).getD j (F.lit 0)

/-- The seven exponents of row `i` of `CEquationSIUnit`. -/
def SIUnitBase (F : Dbl D) (i : Int) : List D :=
  (List.range EQSI_NUMUNIT_BASE).map (fun j => SIUnit F i j)

/-- The table `CEquationSIUnitPrefix`. -/
def CEquationSIUnitPrefix (F : Dbl D) : List D :=
  [F.lit (10 ^ 12), F.lit (10 ^ 9), F.lit (10 ^ 6), F.lit (10 ^ 3), F.lit 100, F.lit (1 / 100),
   F.lit (1 / 10 ^ 3), F.lit (1 / 10 ^ 6), F.lit (1 / 10 ^ 9), F.lit (1 / 10 ^ 12),
   F.lit (1 / 10 ^ 15)]

/-- The table `CEquationSIConst`. -/
def CEquationSIConst (F : Dbl D) : List D :=
  [F.M_PI,
   F.lit 299792458,
   F.lit (376730313461 / 10 ^ 9),
   F.lit (8854187817 / 10 ^ 21),
   F.mul (F.lit (4 / 10 ^ 7)) F.M_PI,
   F.lit (667428 / 10 ^ 16),
   F.lit (662606896 / 10 ^ 42),
   F.div (F.lit (662606896 / 10 ^ 42)) (F.mul (F.lit 2) F.M_PI),
   F.lit (1602176487 / 10 ^ 28),
   F.lit (664465620 / 10 ^ 35),
   F.lit (910938215 / 10 ^ 39),
   F.lit (1674927211 / 10 ^ 36),
   F.lit (1672621637 / 10 ^ 36),
   F.lit (1660538782 / 10 ^ 36),
   F.lit (602214179 * 10 ^ 15),
   F.lit (13806504 / 10 ^ 30),
   F.lit (8314472 / 10 ^ 6)]

/-- A dimension vector (`UNITBASE`): the list of its seven exponents. -/
abbrev UNITBASE (D : Type) := List D

/-- The zeroed `UNITBASE`. -/
def uUnitZero (F : Dbl D) : UNITBASE D := List.replicate EQSI_NUMUNIT_BASE (F.lit 0)

/-- Index of a character in `CEquationSIUnitPrefixStr`, as found by the scan loop. -/
def findPrefixIdx (c : Char) : Option Nat :=
  let i := CEquationSIUnitPrefixStr.indexOf c
  if i < EQSI_NUMUNIT_PREFIX then some i else none

/-! ## `_ParseEquationUnits` -/

/-- Result of `_ParseEquationUnits`: the scan length, the stacks and the member `iError`. -/
structure UnitsResult (D : Type) where
  iThisScan : Int
  st : Stacks D
  iError : Int

/-- The block "hanging" of `_ParseEquationUnits`: the stacks and the bracket offset after it,
`none` when the block sets `EQERR_PARSE_NUMBEREXPECTED` and returns. -/
def unitHang (F : Dbl D) (uLookFor : Nat) (iBrktOff iThisPt : Int) (st : Stacks D) :
    Option (Stacks D × Int) :=
  if uLookFor = LOOKFOR_NUMBER then
    if stripGT (Peek 0 st.isOps) = OP_DIV then
      some (⟨voD VOTYP_PREFIX (F.lit 1) iThisPt :: st.vosParsEqn, st.isOps, st.isPos⟩,
            iBrktOff + OP_BRACKETOFFSET)
    else if stripGT (Peek 0 st.isOps) = OP_MUL then
      some (⟨st.vosParsEqn, (Pop 0 st.isOps).2, (Pop 0 st.isPos).2⟩, iBrktOff)
    else none
  else
    some (_ProcessOps F st (iBrktOff + OP_BRACKETOFFSET) iBrktOff, iBrktOff)

/-- The block "prefix" of `_ParseEquationUnits` for a prefix index `iPrfx >= 0`. -/
def unitPrefix (F : Dbl D) (iBrktOff iThisPt iPrfx : Int) (st : Stacks D) : Stacks D :=
  ⟨voD VOTYP_PREFIX ((CEquationSIUnitPrefix F).getD iPrfx.toNat (F.lit 0)) iThisPt
      :: st.vosParsEqn,
    (OP_MUL + iBrktOff) :: st.isOps, iThisPt :: st.isPos⟩

/-- The block "unit" of `_ParseEquationUnits`. -/
def unitPush (F : Dbl D) (iBrktOff iThisPt : Int) (iUnit : Nat) (st : Stacks D) : Stacks D :=
  _ProcessOps F ⟨voI F VOTYP_UNIT iUnit iThisPt :: st.vosParsEqn, st.isOps, st.isPos⟩
    (OP_MUL + iBrktOff + (if stripGT (Peek 0 st.isOps) = OP_DIV then OP_BRACKETOFFSET else 0))
    iBrktOff

/-- The body of the unit search of `_ParseEquationUnits` once the name `nm` of the unit
`iUnit` has matched at `iThisPt`. -/
def unitEmit (F : Dbl D) (uLookFor : Nat) (iBrktOff iThisPt iPrfx : Int) (st : Stacks D)
    (iError : Int) (iUnit : Nat) (nm : List Char) : UnitsResult D :=
  match unitHang F uLookFor iBrktOff iThisPt st with
  | none => ⟨0, st, EQERR_PARSE_NUMBEREXPECTED⟩
  | some (st1, iBrktOff1) =>
    if iPrfx ≥ 0 ∧ iError ≠ EQERR_NONE then ⟨0, st1, iError⟩
    else
      ⟨(nm.length : Int) + (if iPrfx ≥ 0 then 1 else 0),
        unitPush F iBrktOff1 iThisPt iUnit
          (if iPrfx ≥ 0 then unitPrefix F iBrktOff1 iThisPt iPrfx st1 else st1),
        iError⟩

/-- The search loop of `_ParseEquationUnits`.  `rest` is the source from `iThisPt` on; a round
that finds no unit but a prefix character goes on one character further. -/
def parseUnitsLoop (F : Dbl D) (uLookFor : Nat) (iBrktOff : Int) (st : Stacks D) (iError : Int) :
    List Char → Int → Int → Int → UnitsResult D
  | [], iThisPt, iTokLen, iPrfx =>
    match findName [] iTokLen (CEquationSIUnitStr.take EQSI_NUMUNIT_INPUT) 0 with
    | some r => unitEmit F uLookFor iBrktOff iThisPt iPrfx st iError r.1 r.2
    | none => ⟨0, st, iError⟩
  | c :: rest1, iThisPt, iTokLen, iPrfx =>
    match findName (c :: rest1) iTokLen (CEquationSIUnitStr.take EQSI_NUMUNIT_INPUT) 0 with
    | some r => unitEmit F uLookFor iBrktOff iThisPt iPrfx st iError r.1 r.2
    | none =>
      match findPrefixIdx c with
      | none => ⟨0, st, iError⟩
      | some k => parseUnitsLoop F uLookFor iBrktOff st iError rest1 (iThisPt + 1) (iTokLen - 1) k

/-- The function `_ParseEquationUnits`. -/
def _ParseEquationUnits (F : Dbl D) (szEqtn : List Char) (iThisPt iBrktOff : Int)
    (st : Stacks D) (uLookFor : Nat) (iError : Int) : UnitsResult D :=
  let iTokLen := 1 + spanLen EQ_VALIDUNIT (strFrom szEqtn (iThisPt + 1))
  parseUnitsLoop F uLookFor iBrktOff st iError (strFrom szEqtn iThisPt) iThisPt iTokLen (-1)

/-! ## `_StringToUnit` -/

/-- The target unit members of the instance: `m_szUnit`, `m_uUnitTarget`, `m_dScleTarget`,
`m_dOffsTarget`. -/
structure Target (D : Type) where
  m_szUnit : List Char
  m_uUnitTarget : UNITBASE D
  m_dScleTarget : D
  m_dOffsTarget : D

/-- Local variables of `_StringToUnit`.  `psz` is the text from `pszEqtn` on and `iOff` the
distance `pszEqtn - _szEqtnOffset`. -/
structure S2U (D : Type) where
  szUnitOut : List Char
  dScale : D
  dOffset : D
  uUnit : UNITBASE D
  uUnitCur : UNITBASE D
  dPwrCur : D
  dSclCur : D
  psz : List Char
  iOff : Int
  iUnit : Int
  iSign : Int
  iError : Int

/-- Advance `pszEqtn` over blanks. -/
def s2uSkip (s : S2U D) : S2U D :=
  { s with psz := s.psz.dropWhile (fun c => c == ' '),
           iOff := skipBlanks s.psz s.iOff }

/-- The block "Apply current" at the head of the scan loop. -/
def s2uApply (F : Dbl D) (s : S2U D) : S2U D :=
  if s.iUnit ≥ 0 then
    { s with
      uUnit := List.zipWith (fun u c => F.add u (F.mul (F.mul (F.lit s.iSign) s.dPwrCur) c))
        s.uUnit s.uUnitCur,
      uUnitCur := SIUnitBase F s.iUnit,
      dScale := if s.iSign > 0 then F.mul s.dScale (F.pow s.dSclCur s.dPwrCur)
                else F.div s.dScale (F.pow s.dSclCur s.dPwrCur),
      dSclCur := F.lit 1,
      dPwrCur := F.lit 1 }
  else s

/-- The `for` loop over the unit names inside the unit search of `_StringToUnit`; the flag
tells that a unit was taken (`iPrfx = -999`). -/
def s2uMatch (F : Dbl D) (s : S2U D) (iTokLen : Int) : S2U D × Bool :=
  match findName s.psz iTokLen (CEquationSIUnitStr.take EQSI_NUMUNIT_INPUT) 0 with
  | some (iUnit, nm) =>
    if (!(F.eq (SIUnit F iUnit EQSI_NUMUNIT_BASE) (F.lit 1)) && !(F.eq s.dOffset (F.lit 0)))
        || (!(F.eq (SIUnit F iUnit (EQSI_NUMUNIT_BASE + 1)) (F.lit 0))
              && !(F.eq s.dScale (F.lit 1)))
        || (!(F.eq (SIUnit F iUnit (EQSI_NUMUNIT_BASE + 1)) (F.lit 0)) && decide (s.iSign < 0))
    then ({ s with iUnit := iUnit, iError := EQERR_PARSE_UNITINCOMPATIBLE }, false)
    else
      ({ s with
          iUnit := iUnit,
          uUnitCur := SIUnitBase F iUnit,
          dSclCur := F.mul s.dSclCur (SIUnit F iUnit EQSI_NUMUNIT_BASE),
          dOffset := F.add s.dOffset (SIUnit F iUnit (EQSI_NUMUNIT_BASE + 1)),
          szUnitOut := s.szUnitOut ++ nm,
          psz := s.psz.drop nm.length,
          iOff := s.iOff + nm.length }, true)
  | none => ({ s with iUnit := EQSI_NUMUNIT_INPUT }, false)

/-- The unit search of `_StringToUnit` (the inner `do` loop): one round without a prefix and,
when a prefix character is found, a second round after it. -/
def s2uUnit (F : Dbl D) (s : S2U D) : S2U D :=
  let iTokLen := spanLen EQ_VALIDUNIT s.psz
  let r1 := s2uMatch F s iTokLen
  if r1.2 || decide (r1.1.iError ≠ EQERR_NONE) then r1.1
  else if iTokLen ≤ 1 then { r1.1 with iError := EQERR_PARSE_UNITEXPECTED }
  else
    match r1.1.psz with
    | [] => { r1.1 with iError := EQERR_PARSE_UNITEXPECTED }
    | c :: rest =>
      match findPrefixIdx c with
      | none => { r1.1 with iError := EQERR_PARSE_UNITEXPECTED }
      | some k =>
        let s2 : S2U D := s2uSkip
          { r1.1 with
            dSclCur := F.mul r1.1.dSclCur ((CEquationSIUnitPrefix F).getD k (F.lit 0)),
            szUnitOut := r1.1.szUnitOut ++ [c],
            psz := rest,
            iOff := r1.1.iOff + 1 }
        let r2 := s2uMatch F s2 (iTokLen - 1)
        if r2.2 || decide (r2.1.iError ≠ EQERR_NONE) then r2.1
        else { r2.1 with iError := EQERR_PARSE_UNITEXPECTED }

/-- The block "Power" of the scan loop. -/
def s2uPower (F : Dbl D) (s0 : S2U D) : S2U D :=
  let s := s2uSkip s0
  match F.scanf_lg s.psz with
  | some (dVal, _) =>
    if F.lt dVal (F.lit 0) && decide (s.iSign < 0) then
      { s with iError := EQERR_PARSE_UNITEXPECTED }
    else if !(F.eq s.dOffset (F.lit 0)) then
      { s with iError := EQERR_PARSE_UNITINCOMPATIBLE }
    else
      { s with
        dPwrCur := dVal,
        szUnitOut := s.szUnitOut ++ F.fmt_g dVal,
        psz := s.psz.dropWhile (fun c => strchr "-+0123456789".toList c),
        iOff := s.iOff + spanLen "-+0123456789".toList s.psz }
  | none => s

/-- The scan loop of `_StringToUnit`; every round that goes on consumes a character, `fuel`
bounds the rounds. -/
def s2uLoop (F : Dbl D) : Nat → S2U D → S2U D
  | 0, s => s
  | fuel + 1, s0 =>
    let s := s2uSkip (s2uApply F s0)
    match s.psz with
    | [] => s
    | c :: rest =>
      let s1 : S2U D :=
        if s.szUnitOut.length > 0 ∧ s.szUnitOut.getLast? ≠ some '/' then
          { s with szUnitOut := s.szUnitOut ++ [' '] }
        else s
      if c = '/' then
        if s1.iSign < 1 then { s1 with iError := EQERR_PARSE_ILLEGALCHAR }
        else
          s2uLoop F fuel
            { s1 with szUnitOut := s1.szUnitOut ++ ['/'], iUnit := -1, iSign := -1,
                      psz := rest, iOff := s1.iOff + 1 }
      else
        let s2 := s2uPower F (s2uUnit F s1)
        if s2.iError = EQERR_NONE then s2uLoop F fuel s2 else s2

/-- Result of `_StringToUnit`: the code returned (also left in `iError`), the member
`iErrorLocation`, and the output arguments. -/
structure S2UResult (D : Type) where
  iError : Int
  iErrorLocation : Int
  tgt : Target D

/-- The function `_StringToUnit`, called with the target members of the instance as output
arguments and `iLen = 32`.  When the formatted text is empty the final test reads
`szUnitOut[-1]`; the model takes that byte not to be a solidus. -/
def _StringToUnit (F : Dbl D) (szEqtnOffset : List Char) (tgt : Target D) : S2UResult D :=
  if szEqtnOffset.length ≤ 0 then ⟨EQERR_PARSE_UNITEXPECTED, 0, tgt⟩
  else
    let s0 : S2U D :=
      s2uSkip
        { szUnitOut := [], dScale := F.lit 1, dOffset := F.lit 0, uUnit := uUnitZero F,
          uUnitCur := uUnitZero F, dPwrCur := F.lit 1, dSclCur := F.lit 1,
          psz := szEqtnOffset, iOff := 0, iUnit := -1, iSign := 1, iError := EQERR_NONE }
    let s1 : S2U D :=
      match s0.psz with
      | c :: rest => if c = '1' then { s0 with psz := rest, iOff := s0.iOff + 1 } else s0
      | [] => s0
    let s2 := s2uLoop F (szEqtnOffset.length + 2) s1
    let iError := if s2.szUnitOut.getLast? = some '/' then EQERR_PARSE_UNITEXPECTED else s2.iError
    ⟨iError, if iError ≠ EQERR_NONE then s2.iOff else 0,
      ⟨s2.szUnitOut.take 32, s2.uUnit, s2.dScale, s2.dOffset⟩⟩

/-! ## `ParseEquation` -/

/-- Local variables of `ParseEquation` that live across the scan loop, with the members of
the instance the loop writes. -/
structure PState (D : Type) where
  st : Stacks D
  uLookFor : Nat
  iThisPt : Int
  iBrktOff : Int
  iError : Int
  iErrorLocation : Int
  tgt : Target D

/-- The scan of a binary operator symbol: `(iThisOp, iThisScan)`, `OP_NULL` when none of
the comparisons matches. -/
def scanBinaryOp : List Char → Int × Int
  | ',' :: _ => (OP_PSH, 1)
  | '+' :: _ => (OP_ADD, 1)
  | '-' :: _ => (OP_SUB, 1)
  | '*' :: _ => (OP_MUL, 1)
  | '/' :: _ => (OP_DIV, 1)
  | '^' :: _ => (OP_POW, 1)
  | '|' :: '|' :: _ => (OP_OR, 2)
  | '&' :: '&' :: _ => (OP_AND, 2)
  | '|' :: _ => (OP_OR, 1)
  | '&' :: _ => (OP_AND, 1)
  | '<' :: '=' :: _ => (OP_LTE, 2)
  | '>' :: '=' :: _ => (OP_GTE, 2)
  | '<' :: _ => (OP_LT, 1)
  | '>' :: _ => (OP_GT, 1)
  | '!' :: '=' :: _ => (OP_NEQ, 2)
  | '=' :: '=' :: _ => (OP_EQ, 2)
  | '=' :: _ => (OP_SET, 1)
  | _ => (OP_NULL, 0)

/-- The look-back loops of the comma and of the closing bracket: walk down the operator stack
from the top to the first entry that is not above `iBrktOff`.  Returns the entry found
(`iNArgOp`, not stripped), the offset `iCnst` it was read at, and the number `iVrbl` of
`OP_PSH` entries of the current bracket level passed on the way (the comma does not use the
count). -/
def lookBackLoop (isOps : List Int) (iBrktOff : Int) : Nat → Int → Int → Int × Int × Int
  | 0, iCnst, iVrbl => (PeekBack 0 isOps (iCnst - 1), iCnst - 1, iVrbl)
  | fuel + 1, iCnst, iVrbl =>
    let iCnst1 := iCnst - 1
    let iNArgOp := PeekBack 0 isOps iCnst1
    if iNArgOp ≤ iBrktOff then (iNArgOp, iCnst1, iVrbl)
    else
      let iVrbl1 := if iNArgOp - iBrktOff = OP_PSH then iVrbl + 1 else iVrbl
      let o := stripGT iNArgOp
      let iCnst2 := if isVarArg o then iCnst1 - 1 else iCnst1
      let iCnst3 := if o = OP_SET then iCnst2 - 1 else iCnst2
      lookBackLoop isOps iBrktOff fuel iCnst3 iVrbl1

/-- The look-back from the top of the operator stack. -/
def lookBack (isOps : List Int) (iBrktOff : Int) : Int × Int × Int :=
  lookBackLoop isOps iBrktOff (isOps.length + 1) 0 0

/-- The macro `ABS` on `int`. -/
def ABS (x : Int) : Int := if x < 0 then -x else x

/-- The case `LOOKFOR_NUMBER` for a token that starts with a character of `EQ_VALIDCHAR`:
variable, constant, unary function, n-arg function, hanging unit, in this order. -/
def parseIdent (F : Dbl D) (szEqtn : List Char) (pszVars : Option (List (List Char)))
    (s : PState D) : PState D × Int :=
  let rest := strFrom szEqtn s.iThisPt
  let iTokLen := 1 + spanLen EQ_VALIDSYMB (strFrom szEqtn (s.iThisPt + 1))
  match (match pszVars with
         | some vars => findVar rest iTokLen vars 0
         | none => none) with
  | some (iVrbl, nm) =>
    ({ s with st := { s.st with vosParsEqn := voI F VOTYP_REF iVrbl s.iThisPt :: s.st.vosParsEqn },
              uLookFor := LOOKFOR_BINARYOP }, nm.length)
  | none =>
    match findName rest iTokLen CEquationSIUnitConstStr 0 with
    | some (iCnst, nm) =>
      let out1 := voD VOTYP_VAL ((CEquationSIConst F).getD iCnst (F.lit 0)) s.iThisPt
                    :: s.st.vosParsEqn
      let out2 :=
        if CEquationSIConstUnitIndx.getD iCnst 0 ≥ 0 then
          voI F VOTYP_UNIT (CEquationSIConstUnitIndx.getD iCnst 0) s.iThisPt :: out1
        else out1
      ({ s with st := { s.st with vosParsEqn := out2 }, uLookFor := LOOKFOR_BINARYOP },
        nm.length)
    | none =>
      match findName rest iTokLen CEquationUnaryOpStr 0 with
      | some (iUnOp, _) =>
        ({ s with st := { s.st with isPos := s.iThisPt :: s.st.isPos,
                                    isOps := (OP_UNARY + iUnOp + s.iBrktOff) :: s.st.isOps },
                  uLookFor := LOOKFOR_BRACKET }, iTokLen)
      | none =>
        match findName rest iTokLen CEquationNArgOpStr 0 with
        | some (iNArgOp, _) =>
          ({ s with st := { s.st with isPos := s.iThisPt :: s.st.isPos,
                                      isOps := (OP_NARG + iNArgOp + s.iBrktOff) :: s.st.isOps },
                    uLookFor := LOOKFOR_BRACKET }, iTokLen)
        | none =>
          let r := _ParseEquationUnits F szEqtn s.iThisPt s.iBrktOff s.st s.uLookFor s.iError
          if r.iThisScan > 0 then
            ({ s with st := r.st, iError := r.iError, uLookFor := LOOKFOR_BINARYOP }, r.iThisScan)
          else
            ({ s with st := r.st, iError := EQERR_PARSE_UNKNOWNFUNCVAR }, r.iThisScan)

/-- The branches "Number", "Bracket" and "Fall-through error" of the case
`LOOKFOR_NUMBER`. -/
def parseLiteral (F : Dbl D) (szEqtn : List Char) (s : PState D) : PState D × Int :=
  match F.scanf_lg (strFrom szEqtn s.iThisPt) with
  | some r =>
    ({ s with st := { s.st with vosParsEqn := voD VOTYP_VAL r.1 s.iThisPt :: s.st.vosParsEqn },
              uLookFor := LOOKFOR_BINARYOP }, r.2)
  | none =>
    if charAt szEqtn s.iThisPt = '(' then
      ({ s with iBrktOff := s.iBrktOff + OP_BRACKETOFFSET, uLookFor := LOOKFOR_NUMBER }, 1)
    else ({ s with iError := EQERR_PARSE_NUMBEREXPECTED }, 0)

/-- The case `LOOKFOR_NUMBER` of the scan loop; returns the new state and `iThisScan`. -/
def parseNumber (F : Dbl D) (szEqtn : List Char) (pszVars : Option (List (List Char)))
    (s : PState D) : PState D × Int :=
  if strchr EQ_VALIDCHAR (charAt szEqtn s.iThisPt) then parseIdent F szEqtn pszVars s
  else if charAt szEqtn s.iThisPt = '-' then
    ({ s with st := ⟨voD VOTYP_VAL (F.lit (-1)) s.iThisPt :: s.st.vosParsEqn,
                      (OP_MUL + s.iBrktOff) :: s.st.isOps, s.iThisPt :: s.st.isPos⟩,
              uLookFor := LOOKFOR_NUMBER }, 1)
  else if charAt szEqtn s.iThisPt = '+' then ({ s with uLookFor := LOOKFOR_NUMBER }, 1)
  else parseLiteral F szEqtn s

/-- The block "Assignment" of the operator branch: for `OP_SET` the reference on top of the
equation stack is popped and its index and position are pushed on the operator stacks. -/
def opAssign (F : Dbl D) (st : Stacks D) (iThisOp : Int) : Stacks D :=
  if iThisOp = OP_SET then
    ⟨(Pop (voNul F) st.vosParsEqn).2,
      (Pop (voNul F) st.vosParsEqn).1.iVal :: st.isOps,
      (Pop (voNul F) st.vosParsEqn).1.iPos :: st.isPos⟩
  else st

/-- The block "Push / Pops" of the operator branch: the code a comma is given. -/
def opComma (isOps : List Int) (iBrktOff iThisOp : Int) : Int :=
  if iThisOp = OP_PSH then
    if (lookBack isOps iBrktOff).1 - iBrktOff + OP_BRACKETOFFSET = 0
        ∨ (lookBack isOps iBrktOff).1 < iBrktOff - OP_BRACKETOFFSET + OP_BINARYMIN then OP_POP
    else if iBrktOff ≤ 0 then OP_POP else OP_PSH
  else iThisOp

/-- The built-in operator branch of the case `LOOKFOR_BINARYOP` (binary symbols, comma and
assignment). -/
def parseOperator (F : Dbl D) (szEqtn : List Char) (s : PState D) : PState D × Int :=
  let sc := scanBinaryOp (strFrom szEqtn s.iThisPt)
  if sc.1 = OP_NULL then ({ s with iError := EQERR_PARSE_BINARYOPEXPECTED }, sc.2)
  else if sc.1 = OP_SET ∧ (Peek (voNul F) s.st.vosParsEqn).uTyp ≠ VOTYP_REF then
    ({ s with iError := EQERR_PARSE_ASSIGNNOTVAR, iThisPt := s.iThisPt - 1 }, sc.2)
  else
    let st1 := opAssign F s.st sc.1
    let iThisOp := opComma st1.isOps s.iBrktOff sc.1 + s.iBrktOff
    let st2 := _ProcessOps F st1 iThisOp s.iBrktOff
    ({ s with st := { st2 with isOps := iThisOp :: st2.isOps, isPos := s.iThisPt :: st2.isPos },
              iError := EQERR_NONE, uLookFor := LOOKFOR_NUMBER }, sc.2)

/-- The closing bracket branch of the case `LOOKFOR_BINARYOP`. -/
def parseClose (s : PState D) : PState D × Int :=
  let lb := lookBack s.st.isOps s.iBrktOff
  let iCnst := lb.2.1
  let iBrktOff := s.iBrktOff - OP_BRACKETOFFSET
  let iError := if iBrktOff < 0 then EQERR_PARSE_UNOPENEDBRACKET else s.iError
  let iThisScan : Int := if iBrktOff < 0 then 0 else 1
  let iNArgOp := lb.1 - (iBrktOff + OP_NARG)
  let iVrbl := lb.2.2 + 1
  let s1 : PState D :=
    { s with iBrktOff := iBrktOff, iError := iError, uLookFor := LOOKFOR_BINARYOP }
  let bad : PState D :=
    { s1 with iThisPt := PeekBack 0 s.st.isPos iCnst - 1, iError := EQERR_PARSE_NARGBADCOUNT }
  if iNArgOp ≥ 0 ∧ iNArgOp < NUM_NARGOP then
    if iVrbl < ABS (nargArgc iNArgOp) ∨ (nargArgc iNArgOp > 0 ∧ iVrbl > nargArgc iNArgOp) then
      (bad, iThisScan)
    else if nargArgc iNArgOp < 0 then
      ({ s1 with st := { s.st with
            isOps := InsertBack s.st.isOps iVrbl iCnst,
            isPos := InsertBack s.st.isPos (PeekBack 0 s.st.isPos iCnst) iCnst } }, iThisScan)
    else (s1, iThisScan)
  else if iVrbl > 1 then (bad, iThisScan)
  else (s1, iThisScan)

/-- The default branch of the case `LOOKFOR_BINARYOP`: a unit, or the target unit clause. -/
def parseUnitOrTarget (F : Dbl D) (szEqtn : List Char) (s : PState D) : PState D × Int :=
  let r := _ParseEquationUnits F szEqtn s.iThisPt s.iBrktOff s.st s.uLookFor s.iError
  if r.iThisScan > 0 then
    ({ s with st := r.st, iError := r.iError, uLookFor := LOOKFOR_BINARYOP }, r.iThisScan)
  else if charAt szEqtn s.iThisPt = '#' then
    let u := _StringToUnit F (strFrom szEqtn (s.iThisPt + 1)) s.tgt
    ({ s with st := r.st, tgt := u.tgt, iError := u.iError, iErrorLocation := u.iErrorLocation,
              iThisPt := if u.iError ≠ EQERR_NONE then s.iThisPt + 1 + u.iErrorLocation
                         else szEqtn.length }, 1)
  else ({ s with st := r.st, iError := EQERR_PARSE_BINARYOPEXPECTED }, r.iThisScan)

/-- The case `LOOKFOR_BINARYOP` of the scan loop. -/
def parseBinaryOp (F : Dbl D) (szEqtn : List Char) (s : PState D) : PState D × Int :=
  let c := charAt szEqtn s.iThisPt
  if c = '+' ∨ c = '-' ∨ c = '*' ∨ c = '/' ∨ c = '^' ∨ c = '<' ∨ c = '>' ∨ c = '!' ∨ c = '='
      ∨ c = '|' ∨ c = '&' ∨ c = ',' then parseOperator F szEqtn s
  else if c = ')' then parseClose s
  else parseUnitOrTarget F szEqtn s

/-- The case `LOOKFOR_BRACKET` of the scan loop. -/
def parseBracket (szEqtn : List Char) (s : PState D) : PState D × Int :=
  if charAt szEqtn s.iThisPt = '(' then
    ({ s with iBrktOff := s.iBrktOff + OP_BRACKETOFFSET, uLookFor := LOOKFOR_NUMBER }, 1)
  else ({ s with iError := EQERR_PARSE_BRACKETEXPECTED }, 0)

/-- The `switch(uLookFor)` of the scan loop. -/
def parseToken (F : Dbl D) (szEqtn : List Char) (pszVars : Option (List (List Char)))
    (s : PState D) : PState D × Int :=
  if s.uLookFor = LOOKFOR_NUMBER then parseNumber F szEqtn pszVars s
  else if s.uLookFor = LOOKFOR_BINARYOP then parseBinaryOp F szEqtn s
  else if s.uLookFor = LOOKFOR_BRACKET then parseBracket szEqtn s
  else (s, 0)

/-- The end of a round of the scan loop: a scan of length zero without an error becomes
`EQERR_PARSE_NOADVANCE`, and `iThisPt` moves on by `iThisScan`. -/
def parseAdvance (r : PState D × Int) : PState D :=
  { r.1 with
    iError := if r.2 = 0 ∧ r.1.iError = EQERR_NONE then EQERR_PARSE_NOADVANCE else r.1.iError,
    iThisPt := r.1.iThisPt + r.2 }

/-- One round of the scan loop of `ParseEquation`.  The two `break` statements leave a state
in which the loop test fails. -/
def parseStep (F : Dbl D) (szEqtn : List Char) (pszVars : Option (List (List Char)))
    (s : PState D) : PState D :=
  if skipBlanks (strFrom szEqtn s.iThisPt) s.iThisPt ≥ szEqtn.length then
    { s with iThisPt := skipBlanks (strFrom szEqtn s.iThisPt) s.iThisPt }
  else if strchr EQ_ILLEGALCHAR
      (charAt szEqtn (skipBlanks (strFrom szEqtn s.iThisPt) s.iThisPt)) then
    { s with iThisPt := skipBlanks (strFrom szEqtn s.iThisPt) s.iThisPt,
             iError := EQERR_PARSE_ILLEGALCHAR }
  else
    parseAdvance (parseToken F szEqtn pszVars
      { s with iThisPt := skipBlanks (strFrom szEqtn s.iThisPt) s.iThisPt })

/-- The scan loop of `ParseEquation`.  A round that goes on has advanced `iThisPt`, so
`strlen + 1` rounds of `fuel` are enough. -/
def parseLoop (F : Dbl D) (szEqtn : List Char) (pszVars : Option (List (List Char))) :
    Nat → PState D → PState D
  | 0, s => s
  | fuel + 1, s =>
    if s.iThisPt < szEqtn.length ∧ s.iError = EQERR_NONE then
      parseLoop F szEqtn pszVars fuel (parseStep F szEqtn pszVars s)
    else s

/-- The members of a `CEquation` object.  `pvoEquation` is the token array in index order
(the empty list when the pointer is `NULL`); `pszSrcEquation` is `none` when `NULL`. -/
structure Instance (D : Type) where
  pszSrcEquation : Option (List Char)
  iEqnLength : Int
  pvoEquation : List (VALOP D)
  iError : Int
  iErrorLocation : Int
  tgt : Target D

/-- Test `(vo.uTyp == VOTYP_OP) && (vo.uOp == OP_PSH)`. -/
def isPSH (vo : VALOP D) : Bool := vo.uTyp == VOTYP_OP && vo.iVal == OP_PSH

/-- The first loop of "Save finished equation": the tokens `PeekBack(-iThisOp-1)` for
`iThisOp = Top() .. 1` that are not `OP_PSH` are counted. -/
def countNotPSH (F : Dbl D) (vos : List (VALOP D)) : Nat :=
  ((List.range vos.length).filter
    (fun (k : Nat) => !isPSH (PeekBack (voNul F) vos (-((k : Int) + 1) - 1)))).length

/-- The statement `vo = Pop(); while(vo is OP_PSH) vo = Pop();` of the copy loop. -/
def popSkipPSH (F : Dbl D) : List (VALOP D) → VALOP D × List (VALOP D)
  | [] => (voNul F, [])
  | vo :: rest => if isPSH vo then popSkipPSH F rest else (vo, rest)

/-- The copy loop: fills `pvoEquation[n-1]` down to `pvoEquation[0]`; `acc` holds the entries
written so far. -/
def copyEquation (F : Dbl D) : Nat → List (VALOP D) → List (VALOP D) → List (VALOP D)
  | 0, _, acc => acc
  | n + 1, vos, acc => copyEquation F n (popSkipPSH F vos).2 ((popSkipPSH F vos).1 :: acc)

/-- The state of the scan at the start of `ParseEquation`, after the target members have been
cleared. -/
def parseInit (F : Dbl D) : PState D :=
  { st := ⟨[], [], []⟩, uLookFor := LOOKFOR_NUMBER, iThisPt := 0, iBrktOff := 0,
    iError := EQERR_NONE, iErrorLocation := 0,
    tgt := ⟨[], uUnitZero F, F.lit 0, F.lit 0⟩ }

/-- The block "Parse completion errors" with the final call of `_ProcessOps`. -/
def parseFinish (F : Dbl D) (s : PState D) : PState D :=
  if s.iError ≠ EQERR_NONE then { s with iErrorLocation := s.iThisPt }
  else if s.iBrktOff > 0 then
    { s with iErrorLocation := s.iThisPt, iError := EQERR_PARSE_BRACKETSOPEN }
  else if s.uLookFor = LOOKFOR_BRACKET then
    { s with iErrorLocation := s.iThisPt, iError := EQERR_PARSE_BRACKETEXPECTED }
  else if s.uLookFor = LOOKFOR_NUMBER then
    { s with iErrorLocation := s.iThisPt, iError := EQERR_PARSE_NUMBEREXPECTED }
  else
    { s with iErrorLocation := s.iThisPt, st := _ProcessOps F s.st (-1) s.iBrktOff,
             iError := EQERR_NONE }

/-- The scan of the whole source followed by the block "Parse completion errors". -/
def parseScan (F : Dbl D) (szEqtn : List Char) (pszVars : Option (List (List Char))) :
    PState D :=
  parseFinish F (parseLoop F szEqtn pszVars (szEqtn.length + 1) (parseInit F))

/-- The method `ParseEquation`: the code returned and the object after the call.  `szEqtn` is
the buffer the first argument points to, `pszVars` the list of names of the second argument
(`none` for `NULL`). -/
def ParseEquation (F : Dbl D) (this : Instance D) (szEqtn : List Char)
    (pszVars : Option (List (List Char))) : Int × Instance D :=
  let s := parseScan F (cstr szEqtn) pszVars
  if s.iError ≠ EQERR_NONE then
    (s.iError, { this with iError := s.iError, iErrorLocation := s.iErrorLocation, tgt := s.tgt })
  else
    let iCnst := countNotPSH F s.st.vosParsEqn
    (EQERR_NONE,
      { pszSrcEquation := some (cstr szEqtn),
        iEqnLength := iCnst,
        pvoEquation := copyEquation F iCnst s.st.vosParsEqn [],
        iError := EQERR_NONE,
        iErrorLocation := s.iErrorLocation,
        tgt := s.tgt })

/-- The object after the constructor `CEquation::CEquation`.  The constructor leaves the
target members unset; `tgt` stands for their content. -/
def newInstance (tgt : Target D) : Instance D :=
  { pszSrcEquation := none, iEqnLength := 0, pvoEquation := [], iError := EQERR_NONE,
    iErrorLocation := 0, tgt := tgt }

/-! ## Exact rational arithmetic -/

/-- The C library functions that have no exact rational counterpart. -/
structure Libm where
  M_PI : ℚ
  sqrt : ℚ → ℚ
  exp : ℚ → ℚ
  log : ℚ → ℚ
  log10 : ℚ → ℚ
  cos : ℚ → ℚ
  sin : ℚ → ℚ
  tan : ℚ → ℚ
  acos : ℚ → ℚ
  asin : ℚ → ℚ
  atan : ℚ → ℚ
  cosh : ℚ → ℚ
  sinh : ℚ → ℚ
  tanh : ℚ → ℚ
  pow : ℚ → ℚ → ℚ
  atan2 : ℚ → ℚ → ℚ
  fmt_g : ℚ → List Char

/-- Value of a run of decimal digits at the head of a string, with the length of the run. -/
def scanDigits : List Char → Nat → Nat → Nat × Nat
  | [], v, n => (v, n)
  | c :: cs, v, n =>
    if c.isDigit then scanDigits cs (10 * v + (c.toNat - '0'.toNat)) (n + 1) else (v, n)

/-- The conversion `%lg` on an unsigned decimal integer literal: the run of digits at the head
of the string.  Other forms of number (fraction, exponent) are not converted. -/
def scanNat (s : List Char) : Option (ℚ × Nat) :=
  let r := scanDigits s 0 0
  if r.2 = 0 then none else some ((r.1 : ℚ), r.2)

/-- Exact rational arithmetic as a model of `double`: exact where the `double` operation is
exact. -/
def ratDbl (L : Libm) : Dbl ℚ :=
  { lit := fun q => q, M_PI := L.M_PI,
    add := fun a b => a + b, sub := fun a b => a - b, mul := fun a b => a * b,
    div := fun a b => a / b, neg := fun a => -a,
    eq := fun a b => decide (a = b), lt := fun a b => decide (a < b),
    le := fun a b => decide (a ≤ b),
    floor := fun a => (Int.floor a : ℚ), ceil := fun a => (Int.ceil a : ℚ),
    fabs := fun a => |a|,
    sqrt := L.sqrt, exp := L.exp, log := L.log, log10 := L.log10, cos := L.cos, sin := L.sin,
    tan := L.tan, acos := L.acos, asin := L.asin, atan := L.atan, cosh := L.cosh,
    sinh := L.sinh, tanh := L.tanh, pow := L.pow, atan2 := L.atan2,
    scanf_lg := scanNat, fmt_g := L.fmt_g }

/-! ## `_AnswerUnitString` -/

/-- The macro `ABS` on `double`. -/
def dABS (F : Dbl D) (x : D) : D := if F.lt x (F.lit 0) then F.neg x else x

/-- The macro `SIGN` on `double`. -/
def dSIGN (F : Dbl D) (x : D) : Int :=
  if F.eq x (F.lit 0) then 0 else if F.lt (F.lit 0) x then 1 else -1

/-- Running minimum of the search in `_AnswerUnitString`. -/
structure UnitMin (D : Type) where
  iNumUnitMin : Int
  indxUnitMin : Int
  dPwrUnitMin : D
  dSclUnitMin : D

/-- The innermost loop over `k`: the pair `(iNum, dPwr)` of a candidate. -/
def unitScore (F : Dbl D) (ddUnit : List D) (iUnit : Nat) (iBase : Nat) (dScl : D) : Int × D :=
  (List.range EQSI_NUMUNIT_BASE).foldl
    (fun (acc : Int × D) k =>
      if k = iBase then acc
      else
        let dVal := F.sub (ddUnit.getD k (F.lit 0)) (F.mul dScl (SIUnit F iUnit k))
        if F.eq dVal (F.lit 0) then acc
        else
          let dPwr1 := F.add acc.2 (F.ceil (dABS F dVal))
          (acc.1 + 1,
            if !(F.eq (F.sub dVal (F.floor dVal)) (F.lit 0)) then F.add dPwr1 (F.lit 10)
            else dPwr1))
    (1, dABS F dScl)

/-- One round of the loop over `iBase` for the candidate unit `iUnit`. -/
def unitTry (F : Dbl D) (ddUnit : List D) (iUnit : Nat) (m : UnitMin D) (iBase : Nat) :
    UnitMin D :=
  if F.eq (ddUnit.getD iBase (F.lit 0)) (F.lit 0) || F.eq (SIUnit F iUnit iBase) (F.lit 0) then m
  else
    let dScl := F.div (ddUnit.getD iBase (F.lit 0)) (SIUnit F iUnit iBase)
    let sc := unitScore F ddUnit iUnit iBase dScl
    if (decide (sc.1 < m.iNumUnitMin) || F.lt sc.2 m.dPwrUnitMin)
        || (decide (sc.1 = m.iNumUnitMin) && F.lt (F.lit 0) dScl
              && F.lt m.dSclUnitMin (F.lit 0)) then
      ⟨sc.1, iUnit, sc.2, dScl⟩
    else m

/-- The search "Find Closest Unit Power". -/
def unitSearch (F : Dbl D) (ddUnit : List D) (tfAllowDerived : Bool) : UnitMin D :=
  (List.range (if tfAllowDerived then EQSI_NUMUNIT else EQSI_NUMUNIT_BASE)).foldl
    (fun m iUnit => (List.range EQSI_NUMUNIT_BASE).foldl (unitTry F ddUnit iUnit) m)
    ⟨9999, -1, F.lit (999999 / 1000), F.lit (-999999 / 1000)⟩

/-- The loop "Base" of the formatting, for the line `k` (`1`: numerator, `-1`: denominator). -/
def fmtBase (F : Dbl D) (ddUnit : List D) (k : Int) (sz : List Char) : List Char :=
  (List.range EQSI_NUMUNIT_BASE).foldl
    (fun (sz : List Char) iBase =>
      let v := F.mul (F.lit k) (ddUnit.getD iBase (F.lit 0))
      if F.le v (F.lit 0) then sz
      else
        let sz1 := if sz.length > 0 ∧ sz.getLast? ≠ some '/' then sz ++ [' '] else sz
        let sz2 := sz1 ++ CEquationSIUnitStr.getD iBase []
        if !(F.eq v (F.lit 1)) then sz2 ++ F.fmt_g v else sz2)
    sz

/-- One line of the formatting: the solidus, the matched unit, the base units. -/
def fmtLine (F : Dbl D) (m : UnitMin D) (ddUnit : List D) (k : Int) (sz : List Char) :
    List Char :=
  let sz1 := if k = -1 then sz ++ ['/'] else sz
  let sz2 :=
    if m.indxUnitMin ≥ 0 ∧ dSIGN F m.dSclUnitMin = k then
      let sz3 := sz1 ++ CEquationSIUnitStr.getD m.indxUnitMin.toNat []
      if !(F.eq (F.fabs m.dSclUnitMin) (F.lit 1)) then
        sz3 ++ F.fmt_g (F.mul (F.lit k) m.dSclUnitMin)
      else sz3
    else sz1
  fmtBase F ddUnit k sz2

/-- The function `_AnswerUnitString`: the new content of `m_szUnit`.  The text is appended
to what `m_szUnit` holds on entry. -/
def _AnswerUnitString (F : Dbl D) (m_szUnit : List Char) (puUnit : UNITBASE D)
    (tfAllowDerived : Bool) : List Char :=
  let ddUnit0 : List D := (List.range EQSI_NUMUNIT_BASE).map (fun i => puUnit.getD i (F.lit 0))
  let m := unitSearch F ddUnit0 tfAllowDerived
  let ddUnit : List D :=
    if m.indxUnitMin ≥ 0 then
      (List.range EQSI_NUMUNIT_BASE).map
        (fun i => F.sub (ddUnit0.getD i (F.lit 0)) (F.mul m.dSclUnitMin (SIUnit F m.indxUnitMin i)))
    else ddUnit0
  let sz := fmtLine F m ddUnit (-1) (fmtLine F m ddUnit 1 m_szUnit)
  if sz.getLast? = some '/' then sz.dropLast else sz

/-! ## `DoEquation` -/

/-- Test that two dimension vectors agree in all seven components (the loops
`for(iBase=0; (iBase<EQSI_NUMUNIT_BASE) && (u1.d[iBase]==u2.d[iBase]); iBase++)`). -/
def unitsEq (F : Dbl D) (u1 u2 : UNITBASE D) : Bool :=
  (List.range EQSI_NUMUNIT_BASE).all
    (fun i => F.eq (u1.getD i (F.lit 0)) (u2.getD i (F.lit 0)))

/-- Test that a dimension vector is zero in all seven components. -/
def unitIsZero (F : Dbl D) (u : UNITBASE D) : Bool :=
  (List.range EQSI_NUMUNIT_BASE).all (fun i => F.eq (u.getD i (F.lit 0)) (F.lit 0))

/-- Componentwise operation on dimension vectors. -/
def unitMap2 (F : Dbl D) (f : D → D → D) (u1 u2 : UNITBASE D) : UNITBASE D :=
  (List.range EQSI_NUMUNIT_BASE).map (fun i => f (u1.getD i (F.lit 0)) (u2.getD i (F.lit 0)))

/-- The unit loop of `OP_POW`: components are overwritten with `uUnit1.d[i] * dArg2` up to
the first non-zero component of `uUnit2`, the others keep what `uUnit` held. -/
def powUnit (F : Dbl D) (uUnit uUnit1 uUnit2 : UNITBASE D) (dArg2 : D) : UNITBASE D :=
  let n := ((List.range EQSI_NUMUNIT_BASE).takeWhile
    (fun i => F.eq (uUnit2.getD i (F.lit 0)) (F.lit 0))).length
  (List.range EQSI_NUMUNIT_BASE).map
    (fun i => if i < n then F.mul (uUnit1.getD i (F.lit 0)) dArg2 else uUnit.getD i (F.lit 0))

/-- Local variables of `DoEquation` that live across the token loop, with the array `dVar`
of the caller.  `dVal` and `uUnit` keep their content from one token to the next.
`nullRead` records that `dVar[..]` was read while `dVar` was `NULL`. -/
structure EState (D : Type) where
  dsVals : List D
  usUnits : List (UNITBASE D)
  iThisPt : Int
  iError : Int
  dVar : Option (List D)
  dVal : D
  uUnit : UNITBASE D
  nullRead : Bool

/-- Push of the result `dVal`, `uUnit` at the end of the case `VOTYP_OP`. -/
def pushResult (e : EState D) : EState D :=
  { e with dsVals := e.dVal :: e.dsVals, usUnits := e.uUnit :: e.usUnits }

/-- The block "Binary Operators". -/
def evalBinary (F : Dbl D) (uOp : Int) (e : EState D) : EState D :=
  let err0 := if (e.dsVals.length : Int) < 2 then EQERR_EVAL_STACKUNDERFLOW else e.iError
  let dArg2a := (Pop (F.lit 0) e.dsVals).1
  let vals1 := (Pop (F.lit 0) e.dsVals).2
  let uUnit2 := (Pop (uUnitZero F) e.usUnits).1
  let units1 := (Pop (uUnitZero F) e.usUnits).2
  let dArg1a := (Pop (F.lit 0) vals1).1
  let vals2 := (Pop (F.lit 0) vals1).2
  let uUnit1 := (Pop (uUnitZero F) units1).1
  let units2 := (Pop (uUnitZero F) units1).2
  -- easy math errors
  let dArg2b :=
    if uOp = OP_DIV then (if F.eq dArg2a (F.lit 0) then F.lit 1 else dArg2a)
    else if uOp = OP_POW then
      (if F.lt dArg1a (F.lit 0) then F.floor (F.add dArg2a (F.lit (1 / 2))) else dArg2a)
    else dArg2a
  let powZero : Bool :=
    decide (uOp = OP_POW) && F.eq dArg1a (F.lit 0) && F.lt dArg2b (F.lit 0)
  let dArg1 := if powZero then F.lit 1 else dArg1a
  let err1 :=
    if uOp = OP_DIV ∧ F.eq dArg2a (F.lit 0) = true then EQERR_MATH_DIV_ZERO
    else if powZero then EQERR_MATH_DIV_ZERO
    else err0
  let dArg2 := dArg2b
  -- units
  let isCmp : Bool := decide (uOp = OP_OR ∨ uOp = OP_AND ∨ (OP_LTE ≤ uOp ∧ uOp ≤ OP_EQ))
  let isAdd : Bool := decide (uOp = OP_ADD ∨ uOp = OP_SUB)
  let err2 :=
    if (isCmp || isAdd) && !unitsEq F uUnit1 uUnit2 then EQERR_EVAL_UNITMISMATCH
    else if decide (uOp = OP_POW) && !unitIsZero F uUnit2 then EQERR_EVAL_UNITNOTDIMLESS
    else err1
  let uUnitA : UNITBASE D :=
    if isCmp || isAdd then
      (if !unitsEq F uUnit1 uUnit2 then e.uUnit
       else if isAdd then uUnit2 else uUnitZero F)
    else if uOp = OP_MUL then unitMap2 F F.add uUnit1 uUnit2
    else if uOp = OP_DIV then unitMap2 F F.sub uUnit1 uUnit2
    else if uOp = OP_POW then powUnit F e.uUnit uUnit1 uUnit2 dArg2
    else e.uUnit
  -- perform
  let b (t : Bool) : D := if t then F.lit 1 else F.lit 0
  let e1 : EState D := { e with dsVals := vals2, usUnits := units2 }
  if uOp = OP_PSH then
    pushResult { e1 with dsVals := dArg1 :: vals2, usUnits := uUnit1 :: units2,
                         dVal := dArg2, uUnit := uUnit2, iError := err2 }
  else if uOp = OP_POP then pushResult { e1 with dVal := dArg2, uUnit := uUnit2, iError := err2 }
  else
    let r : Option D :=
      if uOp = OP_ADD then some (F.add dArg1 dArg2)
      else if uOp = OP_SUB then some (F.sub dArg1 dArg2)
      else if uOp = OP_MUL then some (F.mul dArg1 dArg2)
      else if uOp = OP_DIV then some (F.div dArg1 dArg2)
      else if uOp = OP_POW then
        some (if F.eq dArg1 (F.lit 0) && F.eq dArg2 (F.lit 0) then F.lit 1
              else F.pow dArg1 dArg2)
      else if uOp = OP_OR then some (b (!(F.eq dArg1 (F.lit 0)) || !(F.eq dArg2 (F.lit 0))))
      else if uOp = OP_AND then some (b (!(F.eq dArg1 (F.lit 0)) && !(F.eq dArg2 (F.lit 0))))
      else if uOp = OP_LTE then some (b (F.le dArg1 dArg2))
      else if uOp = OP_GTE then some (b (F.le dArg2 dArg1))
      else if uOp = OP_LT then some (b (F.lt dArg1 dArg2))
      else if uOp = OP_GT then some (b (F.lt dArg2 dArg1))
      else if uOp = OP_NEQ then some (b (!(F.eq dArg1 dArg2)))
      else if uOp = OP_EQ then some (b (F.eq dArg1 dArg2))
      else none
    match r with
    | some v => pushResult { e1 with dVal := v, uUnit := uUnitA, iError := err2 }
    | none => pushResult { e1 with uUnit := uUnitA, iError := EQERR_EVAL_UNKNOWNBINARYOP }

/-- The constant `M_PI_180`. -/
def M_PI_180 (F : Dbl D) : D := F.lit (1745329251994 / 10 ^ 14)

/-- The constant `M_180_PI`. -/
def M_180_PI (F : Dbl D) : D := F.lit (5729577951308232 / 10 ^ 14)

/-- The block "Unary Operators"; `o` is `uOp - OP_UNARY`. -/
def evalUnary (F : Dbl D) (o : Int) (e : EState D) : EState D :=
  let err0 := if (e.dsVals.length : Int) < 1 then EQERR_EVAL_STACKUNDERFLOW else e.iError
  let dArg1a := (Pop (F.lit 0) e.dsVals).1
  let vals1 := (Pop (F.lit 0) e.dsVals).2
  let uUnit0 := (Pop (uUnitZero F) e.usUnits).1
  let units1 := (Pop (uUnitZero F) e.usUnits).2
  -- limits
  let chk : D × Int :=
    if o = OP_ACOS ∨ o = OP_ASIN then
      (if F.lt (F.lit 1) (F.fabs dArg1a) then (F.lit 0, EQERR_MATH_DOMAIN) else (dArg1a, err0))
    else if o = OP_LOG10 ∨ o = OP_LOG then
      (if F.eq dArg1a (F.lit 0) then (F.lit 1, EQERR_MATH_LOG_ZERO)
       else if F.lt dArg1a (F.lit 0) then (F.lit 1, EQERR_MATH_LOG_NEG)
       else (dArg1a, err0))
    else if o = OP_SQRT then
      (if F.lt dArg1a (F.lit 0) then (F.lit 0, EQERR_MATH_SQRT_NEG) else (dArg1a, err0))
    else if o = OP_EXP then
      (if F.lt (F.lit 709) dArg1a then (F.lit 0, EQERR_MATH_OVERFLOW) else (dArg1a, err0))
    else (dArg1a, err0)
  let dArg1 := chk.1
  -- units
  let same : Bool := decide (o = OP_ABS ∨ o = OP_CEIL ∨ o = OP_FLOOR ∨ o = OP_ROUND)
  let dimless : Bool :=
    decide (o = OP_EXP ∨ o = OP_LOG10 ∨ o = OP_LOG ∨ (OP_COS ≤ o ∧ o ≤ OP_SIGN))
  let uUnit : UNITBASE D :=
    if o = OP_SQRT then
      (List.range EQSI_NUMUNIT_BASE).map (fun i => F.mul (uUnit0.getD i (F.lit 0)) (F.lit (1 / 2)))
    else uUnit0
  let err1 :=
    if !same && dimless && !unitIsZero F uUnit0 then EQERR_EVAL_UNITNOTDIMLESS else chk.2
  -- evaluate
  let r : Option D :=
    if o = OP_ABS then some (F.fabs dArg1)
    else if o = OP_SQRT then some (F.sqrt dArg1)
    else if o = OP_EXP then some (F.exp dArg1)
    else if o = OP_LOG10 then some (F.log10 dArg1)
    else if o = OP_LOG then some (F.log dArg1)
    else if o = OP_CEIL then some (F.ceil dArg1)
    else if o = OP_FLOOR then some (F.floor dArg1)
    else if o = OP_ROUND then some (F.floor (F.add dArg1 (F.lit (1 / 2))))
    else if o = OP_COS then some (F.cos dArg1)
    else if o = OP_SIN then some (F.sin dArg1)
    else if o = OP_TAN then some (F.tan dArg1)
    else if o = OP_ACOS then some (F.acos dArg1)
    else if o = OP_ASIN then some (F.asin dArg1)
    else if o = OP_ATAN then some (F.atan dArg1)
    else if o = OP_COSH then some (F.cosh dArg1)
    else if o = OP_SINH then some (F.sinh dArg1)
    else if o = OP_TANH then some (F.tanh dArg1)
    else if o = OP_SIND then some (F.sin (F.mul dArg1 (M_PI_180 F)))
    else if o = OP_COSD then some (F.cos (F.mul dArg1 (M_PI_180 F)))
    else if o = OP_TAND then some (F.tan (F.mul dArg1 (M_PI_180 F)))
    else if o = OP_ASIND then some (F.mul (M_180_PI F) (F.asin dArg1))
    else if o = OP_ACOSD then some (F.mul (M_180_PI F) (F.acos dArg1))
    else if o = OP_ATAND then some (F.mul (M_180_PI F) (F.atan dArg1))
    else if o = OP_NOT then some (if F.eq dArg1 (F.lit 0) then F.lit 1 else F.lit 0)
    else if o = OP_SIGN then
      some (if F.eq dArg1 (F.lit 0) then F.lit 0
            else if F.lt dArg1 (F.lit 0) then F.lit (-1) else F.lit 1)
    else none
  let e1 : EState D := { e with dsVals := vals1, usUnits := units1, uUnit := uUnit }
  match r with
  | some v => pushResult { e1 with dVal := v, iError := err1 }
  | none => pushResult { e1 with iError := EQERR_EVAL_UNKNOWNUNARYOP }

/-- The fold of `OP_NARG_MAX` / `OP_NARG_MIN` over the further arguments (`iArg = 1 ..`);
`n` is the number of rounds. -/
def evalMaxMin (F : Dbl D) (isMax : Bool) : Nat → EState D → EState D
  | 0, e => e
  | n + 1, e =>
    let dArg1 := (Pop (F.lit 0) e.dsVals).1
    let uUnit1 := (Pop (uUnitZero F) e.usUnits).1
    let err := if !unitsEq F uUnit1 e.uUnit then EQERR_EVAL_UNITMISMATCH else e.iError
    let dVal :=
      if isMax then (if F.lt e.dVal dArg1 then dArg1 else e.dVal)
      else (if F.lt dArg1 e.dVal then dArg1 else e.dVal)
    evalMaxMin F isMax n
      { e with dsVals := (Pop (F.lit 0) e.dsVals).2, usUnits := (Pop (uUnitZero F) e.usUnits).2,
               iError := err, dVal := dVal }

/-- The block "N-Argument Operators"; `o` is `uOp - OP_NARG` and `pvo` the token array. -/
def evalNArg (F : Dbl D) (pvo : List (VALOP D)) (iEqnLength : Int) (o : Int) (e : EState D) :
    EState D :=
  let err0 :=
    if (e.dsVals.length : Int) < ABS (nargArgc o) then EQERR_EVAL_STACKUNDERFLOW else e.iError
  if nargArgc o = 2 then
    let dArg2 := (Pop (F.lit 0) e.dsVals).1
    let vals1 := (Pop (F.lit 0) e.dsVals).2
    let uUnit2 := (Pop (uUnitZero F) e.usUnits).1
    let units1 := (Pop (uUnitZero F) e.usUnits).2
    let dArg1 := (Pop (F.lit 0) vals1).1
    let vals2 := (Pop (F.lit 0) vals1).2
    let uUnit1 := (Pop (uUnitZero F) units1).1
    let units2 := (Pop (uUnitZero F) units1).2
    let e1 : EState D := { e with dsVals := vals2, usUnits := units2, iError := err0 }
    if o = OP_NARG_MOD ∨ o = OP_NARG_REM then
      if F.eq dArg2 (F.lit 0) then
        if o = OP_NARG_MOD then pushResult { e1 with dVal := dArg1 }
        else pushResult { e1 with iError := EQERR_MATH_DIV_ZERO }
      else
        let ok := unitsEq F uUnit1 uUnit2
        let dVal0 := F.sub dArg1 (F.mul dArg2 (F.floor (F.div dArg1 dArg2)))
        let dVal :=
          if o = OP_NARG_REM ∧ dSIGN F dArg1 ≠ dSIGN F dArg2 then F.sub dVal0 dArg2 else dVal0
        pushResult { e1 with dVal := dVal,
                             uUnit := if ok then uUnit2 else e.uUnit,
                             iError := if ok then err0 else EQERR_EVAL_UNITMISMATCH }
    else if o = OP_NARG_ATAN2 ∨ o = OP_NARG_ATAN2D then
      let ok := unitsEq F uUnit1 uUnit2
      let dVal0 :=
        if F.eq dArg2 (F.lit 0) then
          (if F.eq dArg1 (F.lit 0) then F.lit 0
           else if F.lt (F.lit 0) dArg1 then F.div F.M_PI (F.lit 2)
           else F.div (F.neg F.M_PI) (F.lit 2))
        else F.atan2 dArg1 dArg2
      let dVal := if o = OP_NARG_ATAN2D then F.mul dVal0 (M_180_PI F) else dVal0
      pushResult { e1 with dVal := dVal,
                           uUnit := if ok then uUnitZero F else e.uUnit,
                           iError := if ok then err0 else EQERR_EVAL_UNITMISMATCH }
    else pushResult { e1 with iError := EQERR_EVAL_UNKNOWNNARGOP }
  else if nargArgc o < 0 then
    let iThisPt := e.iThisPt + 1
    if iThisPt ≥ iEqnLength then
      { e with iThisPt := iThisPt, iError := EQERR_EVAL_STACKUNDERFLOW }
    else if (pvo.getD iThisPt.toNat (voNul F)).uTyp ≠ VOTYP_NARGC then
      { e with iThisPt := iThisPt, iError := EQERR_EVAL_UNKNOWNNARGOP }
    else if o = OP_NARG_MAX ∨ o = OP_NARG_MIN then
      let e1 : EState D :=
        { e with iThisPt := iThisPt, iError := err0,
                 dVal := (Pop (F.lit 0) e.dsVals).1, dsVals := (Pop (F.lit 0) e.dsVals).2,
                 uUnit := (Pop (uUnitZero F) e.usUnits).1,
                 usUnits := (Pop (uUnitZero F) e.usUnits).2 }
      pushResult
        (evalMaxMin F (decide (o = OP_NARG_MAX))
          ((pvo.getD iThisPt.toNat (voNul F)).iVal - 1).toNat e1)
    else pushResult { e with iThisPt := iThisPt, iError := EQERR_EVAL_UNKNOWNNARGOP }
  else if o = OP_NARG_IF then
    let dArg2 := (Pop (F.lit 0) e.dsVals).1
    let vals1 := (Pop (F.lit 0) e.dsVals).2
    let uUnit2 := (Pop (uUnitZero F) e.usUnits).1
    let units1 := (Pop (uUnitZero F) e.usUnits).2
    let dArg1 := (Pop (F.lit 0) vals1).1
    let vals2 := (Pop (F.lit 0) vals1).2
    let uUnit1 := (Pop (uUnitZero F) units1).1
    let units2 := (Pop (uUnitZero F) units1).2
    let dTest := (Pop (F.lit 0) vals2).1
    let uTest := (Pop (uUnitZero F) units2).1
    pushResult
      { e with dsVals := (Pop (F.lit 0) vals2).2, usUnits := (Pop (uUnitZero F) units2).2,
               iError := if !unitIsZero F uTest then EQERR_EVAL_UNITNOTDIMLESS else err0,
               uUnit := if F.eq dTest (F.lit 0) then uUnit2 else uUnit1,
               dVal := if F.eq dTest (F.lit 0) then dArg2 else dArg1 }
  else pushResult { e with iError := EQERR_EVAL_UNKNOWNNARGOP }

/-- The body of the token loop of `DoEquation` for the token at `iThisPt` (without the
increment of the `for` statement). -/
def evalToken (F : Dbl D) (pvo : List (VALOP D)) (iEqnLength : Int) (tfAllowAssign : Bool)
    (e : EState D) : EState D :=
  let vo := pvo.getD e.iThisPt.toNat (voNul F)
  if vo.uTyp = VOTYP_VAL ∨ vo.uTyp = VOTYP_PREFIX then
    { e with dsVals := vo.dVal :: e.dsVals, usUnits := uUnitZero F :: e.usUnits }
  else if vo.uTyp = VOTYP_REF then
    match e.dVar with
    | none =>
      { e with dsVals := F.lit 0 :: F.lit 0 :: e.dsVals,
               usUnits := uUnitZero F :: uUnitZero F :: e.usUnits,
               iError := EQERR_EVAL_CONTAINSVAR, nullRead := true }
    | some dVar =>
      { e with dsVals := dVar.getD vo.iVal.toNat (F.lit 0) :: e.dsVals,
               usUnits := uUnitZero F :: e.usUnits }
  else if vo.uTyp = VOTYP_UNIT then
    let uUnit := unitMap2 F F.add (Pop (uUnitZero F) e.usUnits).1 (SIUnitBase F vo.iVal)
    let dVal := F.add (SIUnit F vo.iVal (EQSI_NUMUNIT_BASE + 1))
      (F.mul (Pop (F.lit 0) e.dsVals).1 (SIUnit F vo.iVal EQSI_NUMUNIT_BASE))
    { e with usUnits := uUnit :: (Pop (uUnitZero F) e.usUnits).2,
             dsVals := dVal :: (Pop (F.lit 0) e.dsVals).2,
             uUnit := uUnit, dVal := dVal }
  else if vo.uTyp = VOTYP_OP then
    if vo.iVal = OP_SET then
      match e.dVar with
      | none => { e with iError := EQERR_EVAL_ASSIGNNOTALLOWED }
      | some dVar =>
        if tfAllowAssign = false then { e with iError := EQERR_EVAL_ASSIGNNOTALLOWED }
        else if (e.dsVals.length : Int) < 1 then { e with iError := EQERR_EVAL_STACKUNDERFLOW }
        else if e.iThisPt + 1 ≥ iEqnLength then
          { e with iThisPt := e.iThisPt + 1, iError := EQERR_EVAL_STACKUNDERFLOW }
        else if (pvo.getD (e.iThisPt + 1).toNat (voNul F)).uTyp ≠ VOTYP_REF then
          { e with iThisPt := e.iThisPt + 1, iError := EQERR_EVAL_BADTOKEN }
        else
          { e with iThisPt := e.iThisPt + 1,
                   dVar := some (dVar.set (pvo.getD (e.iThisPt + 1).toNat (voNul F)).iVal.toNat
                                   (Peek (F.lit 0) e.dsVals)) }
    else if vo.iVal < OP_UNARY then evalBinary F vo.iVal e
    else if vo.iVal < OP_NARG then evalUnary F (vo.iVal - OP_UNARY) e
    else evalNArg F pvo iEqnLength (vo.iVal - OP_NARG) e
  else { e with iError := EQERR_EVAL_UNKNOWNVALOP }

/-- The token loop of `DoEquation`; every round advances `iThisPt`, `fuel` bounds the
rounds. -/
def evalLoop (F : Dbl D) (pvo : List (VALOP D)) (iEqnLength : Int) (tfAllowAssign : Bool) :
    Nat → EState D → EState D
  | 0, e => e
  | fuel + 1, e =>
    if e.iThisPt < iEqnLength ∧ e.iError = EQERR_NONE then
      let e1 := evalToken F pvo iEqnLength tfAllowAssign e
      evalLoop F pvo iEqnLength tfAllowAssign fuel { e1 with iThisPt := e1.iThisPt + 1 }
    else e

/-- The state of `DoEquation` after the token loop.  `dVal0` and `uUnit0` are what the
locals `dVal` and `uUnit` hold before their first assignment. -/
def evalWalk (F : Dbl D) (this : Instance D) (dVar : Option (List D)) (tfAllowAssign : Bool)
    (dVal0 : D) (uUnit0 : UNITBASE D) : EState D :=
  evalLoop F this.pvoEquation this.iEqnLength tfAllowAssign this.iEqnLength.toNat
    { dsVals := [], usUnits := [], iThisPt := 0, iError := EQERR_NONE, dVar := dVar,
      dVal := dVal0, uUnit := uUnit0, nullRead := false }

/-- Outcome of `DoEquation`: the code returned, the object, the value stored through `pdAns`
(`none` when nothing is stored), the array `dVar`, and the record of a read through a `NULL`
array. -/
structure DoResult (D : Type) where
  ret : Int
  this : Instance D
  dAns : Option D
  dVar : Option (List D)
  nullRead : Bool

/-- The method `DoEquation`. -/
def DoEquation (F : Dbl D) (this : Instance D) (dVar : Option (List D)) (tfAllowAssign : Bool)
    (tfAllowDerived : Bool) (dVal0 : D) (uUnit0 : UNITBASE D) : DoResult D :=
  if this.iEqnLength ≤ 0 then
    ⟨EQERR_EVAL_NOEQUATION, { this with iError := EQERR_EVAL_NOEQUATION }, none, dVar, false⟩
  else
    let e := evalWalk F this dVar tfAllowAssign dVal0 uUnit0
    let iError :=
      if e.iError = EQERR_NONE ∧ (e.dsVals.length : Int) > 1 then EQERR_EVAL_STACKNOTEMPTY
      else e.iError
    if iError ≠ EQERR_NONE then
      ⟨iError,
        { this with
          iError := iError,
          iErrorLocation :=
            if e.iThisPt - 1 < this.iEqnLength then
              (this.pvoEquation.getD (e.iThisPt - 1).toNat (voNul F)).iPos
            else 0 },
        none, e.dVar, e.nullRead⟩
    else
      let dVal := (Pop (F.lit 0) e.dsVals).1
      let uUnit := (Pop (uUnitZero F) e.usUnits).1
      if !(F.eq this.tgt.m_dScleTarget (F.lit 0)) then
        if !unitsEq F this.tgt.m_uUnitTarget uUnit then
          ⟨EQERR_EVAL_UNITMISMATCH,
            { this with iError := EQERR_EVAL_UNITMISMATCH,
                        iErrorLocation := ((this.pszSrcEquation.getD []).length : Int) },
            none, e.dVar, e.nullRead⟩
        else
          ⟨EQERR_NONE, { this with iError := EQERR_NONE },
            some (F.div (F.sub dVal this.tgt.m_dOffsTarget) this.tgt.m_dScleTarget),
            e.dVar, e.nullRead⟩
      else
        ⟨EQERR_NONE,
          { this with
            iError := EQERR_NONE,
            tgt := { this.tgt with
              m_szUnit := _AnswerUnitString F this.tgt.m_szUnit uUnit tfAllowDerived } },
          some dVal, e.dVar, e.nullRead⟩

/-- Text of an integer as `%g` prints it. -/
def fmtInt (i : Int) : List Char :=
  if i < 0 then '-' :: (Nat.repr i.natAbs).toList else (Nat.repr i.natAbs).toList

/-- The C library over the rationals used for closed evaluations.  `pow` is exact for an
integer exponent.  None of the expressions evaluated in closed form below calls `pow` with
another exponent, a transcendental function or `atan2`; these entries are constantly zero.
`%g` is exact on integers below `10 ^ 6` in magnitude; another value is written as a
fraction. -/
def libm0 : Libm :=
  { M_PI := 3141592653589793 / 10 ^ 15,
    sqrt := fun _ => 0, exp := fun _ => 0, log := fun _ => 0, log10 := fun _ => 0,
    cos := fun _ => 0, sin := fun _ => 0, tan := fun _ => 0, acos := fun _ => 0,
    asin := fun _ => 0, atan := fun _ => 0, cosh := fun _ => 0, sinh := fun _ => 0,
    tanh := fun _ => 0, pow := fun a b => if b.den = 1 then a ^ b.num else 0,
    atan2 := fun _ _ => 0,
    fmt_g := fun q =>
      if q.den = 1 then fmtInt q.num else fmtInt q.num ++ '/' :: (Nat.repr q.den).toList }

/-- Exact rational arithmetic with `libm0`. -/
def Q : Dbl ℚ := ratDbl libm0

/-- A freshly constructed object. -/
def fresh : Instance ℚ := newInstance ⟨[], [], 0, 0⟩

/-- The triple `(uTyp, integer payload, iPos)` of a token. -/
def tokI (vo : VALOP D) : Nat × Int × Int := (vo.uTyp, vo.iVal, vo.iPos)

/-- The triple `(uTyp, double payload, iPos)` of a token. -/
def tokD (vo : VALOP D) : Nat × D × Int := (vo.uTyp, vo.dVal, vo.iPos)

/-! ## Predicates on token lists -/

/-- Adjacency in a list: every element with `P` is immediately followed by one with `Q`. -/
def Follows {α : Type} (P Q : α → Prop) : List α → Prop
  | [] => True
  | a :: l => (P a → ∃ b, l.head? = some b ∧ Q b) ∧ Follows P Q l

/-- An `OP` token of an n-arg operator whose declared count is negative (`max`, `min`). -/
def IsVarArgOp (vo : VALOP D) : Prop :=
  vo.uTyp = VOTYP_OP ∧ (vo.iVal = OP_NARG + OP_NARG_MAX ∨ vo.iVal = OP_NARG + OP_NARG_MIN)

/-- An `OP` token of any of the seven n-arg operators (`mod` .. `if`). -/
def IsNArgOp (vo : VALOP D) : Prop :=
  vo.uTyp = VOTYP_OP ∧ OP_NARG ≤ vo.iVal ∧ vo.iVal < OP_NARG + NUM_NARGOP

/-- An argument count token. -/
def IsNARGC (vo : VALOP D) : Prop := vo.uTyp = VOTYP_NARGC

/-- An assignment token. -/
def IsSET (vo : VALOP D) : Prop := vo.uTyp = VOTYP_OP ∧ vo.iVal = OP_SET

/-- A variable reference token. -/
def IsREF (vo : VALOP D) : Prop := vo.uTyp = VOTYP_REF

/-- One change of the equation stack during the parse: a value, unit or reference is pushed;
`_ProcessOps` pushes an operator with the reference or the count that belongs to it; the
assignment takes the reference off the top. -/
inductive Move (F : Dbl D) : List (VALOP D) → List (VALOP D) → Prop
  | plain (x : VALOP D) (out : List (VALOP D)) :
      (x.uTyp = VOTYP_VAL ∨ x.uTyp = VOTYP_REF ∨ x.uTyp = VOTYP_UNIT ∨ x.uTyp = VOTYP_PREFIX) →
      Move F out (x :: out)
  | op (o p : Int) (out : List (VALOP D)) :
      o ≠ OP_SET → ¬ (o = OP_NARG + OP_NARG_MAX ∨ o = OP_NARG + OP_NARG_MIN) →
      Move F out (voI F VOTYP_OP o p :: out)
  | opSet (p r pr : Int) (out : List (VALOP D)) :
      Move F out (voI F VOTYP_REF r pr :: voI F VOTYP_OP OP_SET p :: out)
  | opVar (o p c pc : Int) (out : List (VALOP D)) :
      (o = OP_NARG + OP_NARG_MAX ∨ o = OP_NARG + OP_NARG_MIN) →
      Move F out (voI F VOTYP_NARGC c pc :: voI F VOTYP_OP o p :: out)
  | pop (x : VALOP D) (out : List (VALOP D)) : x.uTyp = VOTYP_REF → Move F (x :: out) out

/-- A sequence of changes of the equation stack. -/
def Moves (F : Dbl D) : List (VALOP D) → List (VALOP D) → Prop :=
  Relation.ReflTransGen (Move F)

/-- Link between a token `a` of the equation stack and the token `b` pushed just before it:
`b` is an `OP` of `max` or `min` exactly when `a` is an argument count. -/
def NargLink (a b : VALOP D) : Prop := IsVarArgOp b ↔ IsNARGC a

/-- Invariant of the equation stack (top first): argument counts sit exactly on the `OP`
tokens of `max` and `min`. -/
def StackInv (out : List (VALOP D)) : Prop :=
  List.Chain' NargLink out ∧ (∀ a ∈ out.head?, ¬ IsVarArgOp a) ∧
    (∀ a ∈ out.getLast?, ¬ IsNARGC a)

/-- The same invariant on a token array (first token first). -/
def ArrayInv (tok : List (VALOP D)) : Prop :=
  List.Chain' (fun a b => IsVarArgOp a ↔ IsNARGC b) tok ∧ (∀ a ∈ tok.getLast?, ¬ IsVarArgOp a) ∧
    (∀ a ∈ tok.head?, ¬ IsNARGC a)

/-- The equation stack without its `OP_PSH` tokens. -/
def dropPSH (out : List (VALOP D)) : List (VALOP D) := out.filter (fun v => !isPSH v)

/-- The variable list `a`, `b`, `c`, `d`. -/
def varsABCD : Option (List (List Char)) :=
  some ["a".toList, "b".toList, "c".toList, "d".toList]

/-- The object after a successful parse of `100 degC # degF`. -/
def parsedDegF : Instance ℚ := (ParseEquation Q fresh "100 degC # degF".toList none).2

/-- The object after a successful parse of `1 m`. -/
def parsedMetre : Instance ℚ := (ParseEquation Q fresh "1 m".toList none).2

/-! ## Numeric literals -/

/-- The characters a plain numeric literal starts with. -/
def litStart : List Char := ['0', '1', '2', '3', '4', '5', '6', '7', '8', '9', '.']

/-- The text `l` is a numeric literal of value `v` for the `sscanf` of `F`: it starts with a
digit or a point, holds no NUL, and `%lg` converts exactly the characters of `l` to `v` when
the text ends after `l` or goes on with a blank. -/
def IsLiteral (F : Dbl D) (l : List Char) (v : D) : Prop :=
  (∃ c t, l = c :: t ∧ c ∈ litStart) ∧ (∀ c ∈ l, c ≠ '\x00') ∧
  ∀ rest, (rest = [] ∨ ∃ t, rest = ' ' :: t) → F.scanf_lg (l ++ rest) = some (v, l.length)

/-- The symbols `+` and `-` with their operator codes. -/
def IsAddSym (c : Char) (op : Int) : Prop := (c = '+' ∧ op = OP_ADD) ∨ (c = '-' ∧ op = OP_SUB)

/-- The symbols `*` and `/` with their operator codes. -/
def IsMulSym (c : Char) (op : Int) : Prop := (c = '*' ∧ op = OP_MUL) ∨ (c = '/' ∧ op = OP_DIV)

/-- The source text `a x b y c` of three literals and two operator symbols, separated by
single blanks. -/
def srcBin (la : List Char) (x : Char) (lb : List Char) (y : Char) (lc : List Char) :
    List Char :=
  la ++ (' ' :: x :: ' ' :: (lb ++ (' ' :: y :: ' ' :: lc)))

/-! ## A long variable list -/

/-- The two-letter name number `i`: `aa`, `ab`, ..., `az`, `ba`, ... -/
def varName (i : Nat) : List Char := [Char.ofNat (97 + i / 26), Char.ofNat (97 + i % 26)]

/-- The variable list of the 204 names `aa` (index 0), ..., `ao` (index 14), ..., `hv`
(index 203). -/
def vars204 : Option (List (List Char)) := some ((List.range 204).map varName)

/-- The variable list of the one name `x`. -/
def varsX : Option (List (List Char)) := some ["x".toList]

/-- The method `Answer`: the value returned, with the outcome of the call of `DoEquation`
(`tfAllowDerived` has its default `FALSE`).  `dAns0` is what the local `dAns` holds before
`DoEquation` stores the result in it. -/
def Answer (F : Dbl D) (this : Instance D) (dVar : Option (List D)) (tfAllowAssign : Bool)
    (dVal0 : D) (uUnit0 : UNITBASE D) (dAns0 : D) : D × DoResult D :=
  let r := DoEquation F this dVar tfAllowAssign false dVal0 uUnit0
  (if r.this.iError ≠ EQERR_NONE then F.lit 0 else r.dAns.getD dAns0, r)

/-- A result `r` of a branch of the scan loop entered in the state `s`: the mode is one of the
three modes or the mode of `s`, and when no error is set the bracket offset has stayed
non-negative, `iThisPt` has not moved back and the scan length is not negative. -/
def StepGood (len : Int) (s : PState D) (r : PState D × Int) : Prop :=
  (r.1.uLookFor = LOOKFOR_NUMBER ∨ r.1.uLookFor = LOOKFOR_BINARYOP ∨
    r.1.uLookFor = LOOKFOR_BRACKET ∨ r.1.uLookFor = s.uLookFor) ∧
  (r.1.iError = EQERR_NONE →
    (0 ≤ s.iBrktOff → 0 ≤ r.1.iBrktOff) ∧ (s.iThisPt < len → s.iThisPt ≤ r.1.iThisPt) ∧ 0 ≤ r.2)

/-- The source `la )` followed by `rest`: a literal, a blank, a closing bracket. -/
def srcClose (la rest : List Char) : List Char := la ++ (' ' :: ')' :: rest)

/-- The state in which the scan loop of `ParseEquation` ends on the source `szEqtn`. -/
def scanEnd (F : Dbl D) (szEqtn : List Char) (pszVars : Option (List (List Char))) : PState D :=
  parseLoop F (cstr szEqtn) pszVars ((cstr szEqtn).length + 1) (parseInit F)

/-- The state of the token loop of `DoEquation` after `k` rounds (or at its end when the loop
stops earlier). -/
def evalRounds (F : Dbl D) (this : Instance D) (dVar : Option (List D)) (tfAllowAssign : Bool)
    (dVal0 : D) (uUnit0 : UNITBASE D) (k : Nat) : EState D :=
  evalLoop F this.pvoEquation this.iEqnLength tfAllowAssign k
    { dsVals := [], usUnits := [], iThisPt := 0, iError := EQERR_NONE, dVar := dVar,
      dVal := dVal0, uUnit := uUnit0, nullRead := false }

/-- The operators whose operands must agree in dimension: `+`, `-`, the six relational and
the two logical operators. -/
def IsAddOp (o : Int) : Prop := o = OP_ADD ∨ o = OP_SUB

/-- The six relational and the two logical operators. -/
def IsCmpOp (o : Int) : Prop := o = OP_OR ∨ o = OP_AND ∨ (OP_LTE ≤ o ∧ o ≤ OP_EQ)

/-- Two dimension vectors differ in one of the seven components. -/
def UnitsDiffer (F : Dbl D) (u1 u2 : UNITBASE D) : Prop :=
  ∃ i : Nat, i < EQSI_NUMUNIT_BASE ∧ F.eq (u1.getD i (F.lit 0)) (u2.getD i (F.lit 0)) = false

/-- The exponent that `^` uses: rounded to `floor(b + 0.5)` under a negative base. -/
def powExponent (F : Dbl D) (a b : D) : D :=
  if F.lt a (F.lit 0) then F.floor (F.add b (F.lit (1 / 2))) else b

/-- The unary functions that keep the dimension vector of their argument. -/
def IsSameUnitOp (o : Int) : Prop := o = OP_ABS ∨ o = OP_CEIL ∨ o = OP_FLOOR ∨ o = OP_ROUND

/-- The twenty unary functions that want a dimensionless argument. -/
def IsDimlessOp (o : Int) : Prop :=
  o = OP_EXP ∨ o = OP_LOG10 ∨ o = OP_LOG ∨ (OP_COS ≤ o ∧ o ≤ OP_SIGN)

/-- The method `ParseDoubleEquation`: the code returned and the object after the call.
`snprintf` stands for the formatting of one `double` under the caller's format; without a
format (`none`) the format is `%lg`.  At most 255 characters are stored.  The members
`m_szUnit`, `m_uUnitTarget`, `m_dScleTarget` and `m_dOffsTarget` are not written. -/
def ParseDoubleEquation (F : Dbl D) (snprintf : List Char → D → List Char) (this : Instance D)
    (dVal : D) (pszFmt : Option (List Char)) : Int × Instance D :=
  let szBuf : List Char :=
    match pszFmt with
    | some fmt => (snprintf fmt dVal).take 255
    | none => (F.fmt_g dVal).take 255
  (EQERR_NONE,
    { this with
      iError := EQERR_NONE,
      iEqnLength := 1,
      pvoEquation := [voD VOTYP_VAL dVal 0],
      pszSrcEquation := some (cstr szBuf) })

/-- The loop `for(iThisPt=0; iThisPt<iEqnLength; iThisPt++)` with a `return` at the first
token that passes the test `p`: the index of that token. -/
def firstToken (F : Dbl D) (this : Instance D) (p : VALOP D → Bool) : Option Nat :=
  (List.range this.iEqnLength.toNat).find? (fun i => p (this.pvoEquation.getD i (voNul F)))

/-- The method `ContainsVariables`: the code returned and the object after the call. -/
def ContainsVariables (F : Dbl D) (this : Instance D) : Int × Instance D :=
  if this.iEqnLength ≤ 0 then
    (EQERR_PARSE_NOEQUATION, { this with iError := EQERR_PARSE_NOEQUATION })
  else
    match firstToken F this (fun vo => vo.uTyp == VOTYP_REF) with
    | some i =>
      (EQERR_PARSE_CONTAINSVAR,
        { this with iErrorLocation := (this.pvoEquation.getD i (voNul F)).iPos,
                    iError := EQERR_PARSE_CONTAINSVAR })
    | none => (EQERR_NONE, { this with iError := EQERR_NONE })

/-- The method `ContainsVariable`: the code returned and the object after the call. -/
def ContainsVariable (F : Dbl D) (this : Instance D) (iVar : Int) : Int × Instance D :=
  if this.iEqnLength ≤ 0 then (0, this)
  else
    match firstToken F this (fun vo => vo.uTyp == VOTYP_REF && vo.iVal == iVar) with
    | some i =>
      (EQERR_PARSE_CONTAINSVAR,
        { this with iErrorLocation := (this.pvoEquation.getD i (voNul F)).iPos,
                    iError := EQERR_PARSE_CONTAINSVAR })
    | none => (EQERR_NONE, { this with iError := EQERR_NONE })

/-- The code and the output arguments of a call of `_StringToUnit`: formatted text, dimension
vector, scale and offset. -/
def s2uOut (r : S2UResult D) : Int × List Char × UNITBASE D × D × D :=
  (r.iError, r.tgt.m_szUnit, r.tgt.m_uUnitTarget, r.tgt.m_dScleTarget, r.tgt.m_dOffsTarget)

/-- An atom recognised by the scan of `_StringToUnit`: the side of the solidus (`iSign`), the
unit index (`iUnit`), the product of prefix and unit scale (`dSclCur`) and the power
(`dPwrCur`), as they stand at the end of the round that read the atom. -/
structure UnitAtom (D : Type) where
  iSign : Int
  iUnit : Int
  dScl : D
  dPwr : D

/-- The state of `_StringToUnit` in front of the scan loop, behind the leading blanks and the
leading `1`. -/
def s2uStart (F : Dbl D) (szEqtnOffset : List Char) : S2U D :=
  let s0 : S2U D :=
    s2uSkip
      { szUnitOut := [], dScale := F.lit 1, dOffset := F.lit 0, uUnit := uUnitZero F,
        uUnitCur := uUnitZero F, dPwrCur := F.lit 1, dSclCur := F.lit 1,
        psz := szEqtnOffset, iOff := 0, iUnit := -1, iSign := 1, iError := EQERR_NONE }
  match s0.psz with
  | c :: rest => if c = '1' then { s0 with psz := rest, iOff := s0.iOff + 1 } else s0
  | [] => s0

/-- The current atom of a state of the scan loop. -/
def s2uCur (s : S2U D) : UnitAtom D := ⟨s.iSign, s.iUnit, s.dSclCur, s.dPwrCur⟩

/-- The atom that the block "Apply current" is about to apply, if any. -/
def s2uPending (s : S2U D) : List (UnitAtom D) := if s.iUnit ≥ 0 then [s2uCur s] else []

/-- The atoms read by the scan loop of `_StringToUnit`, in the order of the text: the rounds
of `s2uLoop`, each round that reads a unit without an error yielding its current atom. -/
def s2uAtoms (F : Dbl D) : Nat → S2U D → List (UnitAtom D)
  | 0, _ => []
  | fuel + 1, s0 =>
    let s := s2uSkip (s2uApply F s0)
    match s.psz with
    | [] => []
    | c :: rest =>
      let s1 : S2U D :=
        if s.szUnitOut.length > 0 ∧ s.szUnitOut.getLast? ≠ some '/' then
          { s with szUnitOut := s.szUnitOut ++ [' '] }
        else s
      if c = '/' then
        if s1.iSign < 1 then []
        else
          s2uAtoms F fuel
            { s1 with szUnitOut := s1.szUnitOut ++ ['/'], iUnit := -1, iSign := -1,
                      psz := rest, iOff := s1.iOff + 1 }
      else
        let s2 := s2uPower F (s2uUnit F s1)
        if s2.iError = EQERR_NONE then s2uCur s2 :: s2uAtoms F fuel s2 else []

/-- The atoms that `_StringToUnit` reads in a unit string. -/
def unitAtoms (F : Dbl D) (szEqtnOffset : List Char) : List (UnitAtom D) :=
  s2uAtoms F (szEqtnOffset.length + 2) (s2uStart F szEqtnOffset)

/-- The statement `uUnit.d[j] += iSign * dPwrCur * uUnitCur.d[j]` for an atom. -/
def applyVec (F : Dbl D) (j : Nat) (x : D) (a : UnitAtom D) : D :=
  F.add x (F.mul (F.mul (F.lit a.iSign) a.dPwr) (SIUnit F a.iUnit j))

/-- The statement `dScale *= pow(dSclCur, dPwrCur)`, or `/=` in the denominator, for an
atom. -/
def applyScale (F : Dbl D) (x : D) (a : UnitAtom D) : D :=
  if a.iSign > 0 then F.mul x (F.pow a.dScl a.dPwr) else F.div x (F.pow a.dScl a.dPwr)

/-- The statement `dOffset += CEquationSIUnit[iUnit][EQSI_NUMUNIT_BASE+1]` for an atom. -/
def applyOffset (F : Dbl D) (x : D) (a : UnitAtom D) : D :=
  F.add x (SIUnit F a.iUnit (EQSI_NUMUNIT_BASE + 1))

/-- The vector with the components `g 0 .. g 6`. -/
def vecOf (g : Nat → D) : UNITBASE D := (List.range EQSI_NUMUNIT_BASE).map g

/-- Exact arithmetic on the rationals: literals, sums, products and quotients carry no
rounding. -/
def ExactArith (F : Dbl ℚ) : Prop :=
  (∀ q, F.lit q = q) ∧ (∀ a b, F.add a b = a + b) ∧ (∀ a b, F.mul a b = a * b) ∧
    (∀ a b, F.div a b = a / b)

/-- The atoms in front of the solidus. -/
def numerator (l : List (UnitAtom D)) : List (UnitAtom D) :=
  l.filter (fun a => decide (0 < a.iSign))

/-- The atoms behind the solidus. -/
def denominator (l : List (UnitAtom D)) : List (UnitAtom D) :=
  l.filter (fun a => decide (a.iSign < 0))

/-- The dimension vector of the specification: componentwise, the sum over the numerator atoms
of power times atom vector, minus the same sum over the denominator atoms. -/
def unitVector (F : Dbl ℚ) (num den : List (UnitAtom ℚ)) : UNITBASE ℚ :=
  vecOf (fun j =>
    (num.map (fun a => a.dPwr * SIUnit F a.iUnit j)).sum
      - (den.map (fun a => a.dPwr * SIUnit F a.iUnit j)).sum)

/-- The scale of the specification: the product over the numerator atoms of the power of
prefix times unit scale, divided by the same product over the denominator atoms. -/
def unitScale (F : Dbl ℚ) (num den : List (UnitAtom ℚ)) : ℚ :=
  (num.map (fun a => F.pow a.dScl a.dPwr)).prod / (den.map (fun a => F.pow a.dScl a.dPwr)).prod

/-- The offset of the specification: the sum of the offsets of the atoms. -/
def unitOffset (F : Dbl ℚ) (l : List (UnitAtom ℚ)) : ℚ :=
  (l.map (fun a => SIUnit F a.iUnit (EQSI_NUMUNIT_BASE + 1))).sum

/-- The scale of an atom is the scale of its unit, times the value of a prefix if the atom
has one. -/
def IsPrefixedScale (F : Dbl D) (a : UnitAtom D) : Prop :=
  a.dScl = F.mul (F.lit 1) (SIUnit F a.iUnit EQSI_NUMUNIT_BASE) ∨
  ∃ k : Nat, k < EQSI_NUMUNIT_PREFIX ∧
    a.dScl = F.mul (F.mul (F.lit 1) ((CEquationSIUnitPrefix F).getD k (F.lit 0)))
      (SIUnit F a.iUnit EQSI_NUMUNIT_BASE)

/-- Rejection by `_StringToUnit` as seen on the state behind the scan loop: an error code, or
a formatted text that ends in a solidus. -/
def s2uRejects (s : S2U D) : Prop :=
  s.iError ≠ EQERR_NONE ∨ s.szUnitOut.getLast? = some '/'

/-- The text `b` is the text `a` without some leading characters, none of them a solidus. -/
def CleanDrop (a b : List Char) : Prop := ∃ d : List Char, a = d ++ b ∧ '/' ∉ d

/-- The statement of the scan loop that puts a blank between two units of the formatted
text. -/
def s2uSpace (s : S2U D) : S2U D :=
  if s.szUnitOut.length > 0 ∧ s.szUnitOut.getLast? ≠ some '/' then
    { s with szUnitOut := s.szUnitOut ++ [' '] }
  else s

/-- The state behind the first solidus: the scan is in the denominator and no unit is
current. -/
def s2uSlash (s : S2U D) (rest : List Char) : S2U D :=
  { s with szUnitOut := s.szUnitOut ++ ['/'], iUnit := -1, iSign := -1,
           psz := rest, iOff := s.iOff + 1 }

/-- The invariant of the scan loop of `_StringToUnit`: the sign is one or minus one; with no
current unit the current scale is one; a current unit is a row of the input table, and the
current scale is its scale, times the value of a prefix if one was read. -/
def S2UInv (F : Dbl D) (s : S2U D) : Prop :=
  (s.iSign = 1 ∨ s.iSign = -1) ∧ (s.iUnit < 0 → s.dSclCur = F.lit 1) ∧
  (0 ≤ s.iUnit → s.uUnitCur = SIUnitBase F s.iUnit)

/-- What the scan guarantees of an atom it has read. -/
def GoodAtom (F : Dbl D) (a : UnitAtom D) : Prop :=
  (a.iSign = 1 ∨ a.iSign = -1) ∧ 0 ≤ a.iUnit ∧ a.iUnit < EQSI_NUMUNIT_INPUT ∧
    IsPrefixedScale F a

/-- The fields of an atom as a tuple: sign, unit index, prefix times unit scale, power. -/
def atomOut (a : UnitAtom D) : Int × Int × D × D := (a.iSign, a.iUnit, a.dScl, a.dPwr)

/-- A `double` with the special values of IEEE 754: a finite value, held as an exact rational,
plus or minus infinity, or not-a-number. -/
inductive Ext where
  | fin (q : ℚ)
  | pinf
  | ninf
  | nan
deriving DecidableEq

/-- The largest finite `double`, `DBL_MAX`. -/
def DBL_MAX : ℚ := (((2 ^ 53 - 1) * 2 ^ 971 : Nat) : ℚ)

/-- The power of a rational with a natural exponent, computed on numerator and
denominator. -/
def natPowQ (a : ℚ) (n : Nat) : ℚ :=
  mkRat ((if a.num < 0 ∧ n % 2 = 1 then -1 else 1) * ((a.num.natAbs ^ n : Nat) : Int)) (a.den ^ n)

/-- The power of a rational with an integer exponent. -/
def intPowQ (a : ℚ) (k : Int) : ℚ :=
  if k ≥ 0 then natPowQ a k.toNat else (natPowQ a (-k).toNat)⁻¹

/-- A rational result as a `double`: beyond `DBL_MAX` it overflows to an infinity.  Rounding
inside the finite range is not modelled. -/
def Ext.ofRat (q : ℚ) : Ext :=
  if q > DBL_MAX then Ext.pinf else if q < -DBL_MAX then Ext.ninf else Ext.fin q

/-- Sign of a `double` as seen by a product or a quotient: 1, -1, or 0 for zero. -/
def Ext.sgn : Ext → Int
  | Ext.fin q => if q > 0 then 1 else if q < 0 then -1 else 0
  | Ext.pinf => 1
  | Ext.ninf => -1
  | Ext.nan => 0

/-- The infinity of a sign. -/
def Ext.inf (s : Int) : Ext := if s < 0 then Ext.ninf else Ext.pinf

/-- IEEE 754 negation. -/
def Ext.neg : Ext → Ext
  | Ext.fin q => Ext.fin (-q)
  | Ext.pinf => Ext.ninf
  | Ext.ninf => Ext.pinf
  | Ext.nan => Ext.nan

/-- IEEE 754 addition: the sum of opposite infinities is not a number. -/
def Ext.add : Ext → Ext → Ext
  | Ext.nan, _ => Ext.nan
  | _, Ext.nan => Ext.nan
  | Ext.fin a, Ext.fin b => Ext.ofRat (a + b)
  | Ext.pinf, Ext.ninf => Ext.nan
  | Ext.ninf, Ext.pinf => Ext.nan
  | Ext.pinf, _ => Ext.pinf
  | Ext.ninf, _ => Ext.ninf
  | _, Ext.pinf => Ext.pinf
  | _, Ext.ninf => Ext.ninf

/-- IEEE 754 multiplication: zero times an infinity is not a number. -/
def Ext.mul : Ext → Ext → Ext
  | Ext.nan, _ => Ext.nan
  | _, Ext.nan => Ext.nan
  | Ext.fin a, Ext.fin b => Ext.ofRat (a * b)
  | x, y => if x.sgn * y.sgn = 0 then Ext.nan else Ext.inf (x.sgn * y.sgn)

/-- IEEE 754 division: zero by zero and infinity by infinity are not numbers, a finite value
by zero is an infinity. -/
def Ext.div : Ext → Ext → Ext
  | Ext.nan, _ => Ext.nan
  | _, Ext.nan => Ext.nan
  | Ext.fin a, Ext.fin b =>
    if b = 0 then (if a = 0 then Ext.nan else Ext.inf (Ext.sgn (Ext.fin a))) else Ext.ofRat (a / b)
  | Ext.fin _, _ => Ext.fin 0
  | x, Ext.fin b => Ext.inf (x.sgn * (if b < 0 then -1 else 1))
  | _, _ => Ext.nan

/-- IEEE 754 comparison `==`: not-a-number equals nothing. -/
def Ext.eq : Ext → Ext → Bool
  | Ext.fin a, Ext.fin b => decide (a = b)
  | Ext.pinf, Ext.pinf => true
  | Ext.ninf, Ext.ninf => true
  | _, _ => false

/-- IEEE 754 comparison `<`. -/
def Ext.lt : Ext → Ext → Bool
  | Ext.nan, _ => false
  | _, Ext.nan => false
  | Ext.fin a, Ext.fin b => decide (a < b)
  | Ext.ninf, Ext.ninf => false
  | Ext.ninf, _ => true
  | Ext.pinf, _ => false
  | _, Ext.pinf => true
  | _, Ext.ninf => false

/-- The function `pow` of C99 on the arguments the model covers: an integer exponent is
exact up to overflow, an infinite exponent gives infinity for a base beyond one in size, one
for a base of size one and zero below it (the other way round for minus infinity); other
exponents are not modelled. -/
def Ext.pow : Ext → Ext → Ext
  | _, Ext.fin 0 => Ext.fin 1
  | Ext.fin 1, _ => Ext.fin 1
  | Ext.nan, _ => Ext.nan
  | _, Ext.nan => Ext.nan
  | Ext.fin a, Ext.fin b =>
    if b.den = 1 then (if a = 0 ∧ b < 0 then Ext.pinf else Ext.ofRat (intPowQ a b.num)) else Ext.fin 0
  | Ext.fin a, Ext.pinf => if |a| > 1 then Ext.pinf else if |a| = 1 then Ext.fin 1 else Ext.fin 0
  | Ext.fin a, Ext.ninf => if |a| > 1 then Ext.fin 0 else if |a| = 1 then Ext.fin 1 else Ext.pinf
  | Ext.pinf, Ext.fin b => if b > 0 then Ext.pinf else Ext.fin 0
  | Ext.pinf, Ext.pinf => Ext.pinf
  | Ext.pinf, Ext.ninf => Ext.fin 0
  | Ext.ninf, Ext.fin b => if b > 0 then (if b.den = 1 ∧ b.num % 2 = 1 then Ext.ninf else Ext.pinf) else Ext.fin 0
  | Ext.ninf, Ext.pinf => Ext.pinf
  | Ext.ninf, Ext.ninf => Ext.fin 0

/-- A function of one argument that the model does not cover outside the finite range. -/
def Ext.lift (f : ℚ → ℚ) : Ext → Ext
  | Ext.fin q => Ext.ofRat (f q)
  | x => x

/-- Exact rational arithmetic with the overflow and the special values of IEEE 754 as a model
of `double`. -/
def extDbl (L : Libm) : Dbl Ext :=
  { lit := fun q => Ext.ofRat q, M_PI := Ext.fin L.M_PI,
    add := Ext.add, sub := fun a b => Ext.add a (Ext.neg b), mul := Ext.mul,
    div := Ext.div, neg := Ext.neg,
    eq := Ext.eq, lt := Ext.lt, le := fun a b => Ext.lt a b || Ext.eq a b,
    floor := Ext.lift (fun a => (Int.floor a : ℚ)), ceil := Ext.lift (fun a => (Int.ceil a : ℚ)),
    fabs := fun a => if a.sgn < 0 then Ext.neg a else a,
    sqrt := Ext.lift L.sqrt, exp := Ext.lift L.exp, log := Ext.lift L.log,
    log10 := Ext.lift L.log10, cos := Ext.lift L.cos, sin := Ext.lift L.sin,
    tan := Ext.lift L.tan, acos := Ext.lift L.acos, asin := Ext.lift L.asin,
    atan := Ext.lift L.atan, cosh := Ext.lift L.cosh, sinh := Ext.lift L.sinh,
    tanh := Ext.lift L.tanh, pow := Ext.pow, atan2 := fun _ _ => Ext.fin 0,
    scanf_lg := fun s => (scanNat s).map (fun r => (Ext.ofRat r.1, r.2)),
    fmt_g := fun a =>
      match a with
      | Ext.fin q => L.fmt_g q
      | Ext.pinf => "inf".toList
      | Ext.ninf => "-inf".toList
      | Ext.nan => "nan".toList }

/-- The model `extDbl` with `libm0`. -/
def QInf : Dbl Ext := extDbl libm0

/-- An object after the constructor, over `QInf`. -/
def freshInf : Instance Ext := newInstance ⟨[], [], Ext.fin 0, Ext.fin 0⟩

/-- The object after the parse of `2^(10^400)+1` over `QInf`. -/
def parsedPower : Instance Ext := (ParseEquation QInf freshInf "2^(10^400)+1".toList none).2

/-- The method `ParseConstantEquation`: the code returned, the object after the call, the
answer written through `pdAns` (`none` when nothing is written) and the record of a read
through the null array.  `dVal0` and `uUnit0` stand for the uninitialised locals of
`DoEquation`. -/
def ParseConstantEquation (F : Dbl D) (this : Instance D) (szEqtn : List Char) (dVal0 : D)
    (uUnit0 : UNITBASE D) : Int × Instance D × Option D × Bool :=
  let p := ParseEquation F this szEqtn none
  if p.2.iError ≠ EQERR_NONE then (p.2.iError, p.2, none, false)
  else
    let d := DoEquation F p.2 none false false dVal0 uUnit0
    if d.this.iError ≠ EQERR_NONE then (d.this.iError, d.this, none, d.nullRead)
    else (d.this.iError, d.this, d.dAns, d.nullRead)

/-- The conversion `%lg` on an unsigned decimal literal with an optional fraction: a run of
digits, and behind it a point with a further run of digits.  Signs and exponents are not
converted. -/
def scanDec (s : List Char) : Option (ℚ × Nat) :=
  let r := scanDigits s 0 0
  if r.2 = 0 then none
  else
    match s.drop r.2 with
    | '.' :: t => some ((r.1 : ℚ) + ((scanDigits t 0 0).1 : ℚ) / 10 ^ (scanDigits t 0 0).2,
        r.2 + 1 + (scanDigits t 0 0).2)
    | _ => some ((r.1 : ℚ), r.2)

/-- Exact rational arithmetic with `libm0`, reading decimal literals with a fraction. -/
def Qd : Dbl ℚ := { Q with scanf_lg := scanDec }

/-- The initial record of the search in `_AnswerUnitString`. -/
def unitInit (F : Dbl D) : UnitMin D :=
  ⟨9999, -1, F.lit (999999 / 1000), F.lit (-999999 / 1000)⟩

/-- The pairs (candidate unit, matched axis) in the order of the two nested loops of the
search. -/
def unitPairs (tfAllowDerived : Bool) : List (Nat × Nat) :=
  (List.range (if tfAllowDerived then EQSI_NUMUNIT else EQSI_NUMUNIT_BASE)).flatMap
    (fun iUnit => (List.range EQSI_NUMUNIT_BASE).map (fun iBase => (iUnit, iBase)))

/-- The test "this base unit not used" of the search, negated: the pair is scored. -/
def unitValid (F : Dbl D) (ddUnit : List D) (p : Nat × Nat) : Bool :=
  !(F.eq (ddUnit.getD p.2 (F.lit 0)) (F.lit 0) || F.eq (SIUnit F p.1 p.2) (F.lit 0))

/-- The record of a pair: number of units, unit index, power sum, and scale `dScl`. -/
def unitCand (F : Dbl D) (ddUnit : List D) (p : Nat × Nat) : UnitMin D :=
  let dScl := F.div (ddUnit.getD p.2 (F.lit 0)) (SIUnit F p.1 p.2)
  let sc := unitScore F ddUnit p.1 p.2 dScl
  ⟨sc.1, p.1, sc.2, dScl⟩

/-- The test "Keep if better" of the search, of the record `c` against the running record
`m`. -/
def unitKeep (F : Dbl D) (c m : UnitMin D) : Bool :=
  (decide (c.iNumUnitMin < m.iNumUnitMin) || F.lt c.dPwrUnitMin m.dPwrUnitMin)
    || (decide (c.iNumUnitMin = m.iNumUnitMin) && F.lt (F.lit 0) c.dSclUnitMin
          && F.lt m.dSclUnitMin (F.lit 0))

/-- The search over a list of pairs, from a running record. -/
def unitFold (F : Dbl D) (ddUnit : List D) (m : UnitMin D) (ps : List (Nat × Nat)) :
    UnitMin D :=
  ps.foldl (fun m p => unitTry F ddUnit p.1 m p.2) m

/-- The characters that start a built-in binary operator or the comma. -/
def IsOpChar (c : Char) : Prop :=
  c = '+' ∨ c = '-' ∨ c = '*' ∨ c = '/' ∨ c = '^' ∨ c = '<' ∨ c = '>' ∨ c = '!' ∨ c = '='
    ∨ c = '|' ∨ c = '&' ∨ c = ','

/-- Characters that end a numeric literal in the sources considered. -/
def litStop : List Char := [' ', ',', ')', '^', '*', '/']

/-- The text `l` is a numeric literal of value `v` for the `sscanf` of `F`: it starts with a
digit or a point, holds no NUL, and `%lg` converts exactly the characters of `l` to `v` when
the text ends after `l` or goes on with a blank, a comma, a closing bracket or one of `^`,
`*`, `/`. -/
def IsNumber (F : Dbl D) (l : List Char) (v : D) : Prop :=
  (∃ c t, l = c :: t ∧ c ∈ litStart) ∧ (∀ c ∈ l, c ≠ '\x00') ∧
  ∀ rest, (∀ c, rest.head? = some c → c ∈ litStop) → F.scanf_lg (l ++ rest) = some (v, l.length)

/-- The source text `-a^b` of a minus sign and two literals around `^`, without blanks. -/
def srcNegPow (la lb : List Char) : List Char := '-' :: (la ++ '^' :: lb)

/-- The source text `a, b`: two literals around a comma and a blank. -/
def srcComma (la lb : List Char) : List Char := la ++ ',' :: ' ' :: lb

/-- The source text `(a, b)`. -/
def srcCommaBr (la lb : List Char) : List Char := '(' :: (la ++ ',' :: ' ' :: (lb ++ [')']))

/-- The name of the input unit number `i`. -/
def unitName (i : Nat) : List Char :=
  (CEquationSIUnitStr.take EQSI_NUMUNIT_INPUT).getD i []

/-- Two tokens that the evaluator treats alike: the same payload, and the same type or two of
the value types `VOTYP_VAL`, `VOTYP_PREFIX` (one `case` of the `switch`). -/
def SameForEval (a b : VALOP D) : Prop :=
  a.dVal = b.dVal ∧ a.iVal = b.iVal ∧
  (a.uTyp = b.uTyp ∨
    ((a.uTyp = VOTYP_VAL ∨ a.uTyp = VOTYP_PREFIX) ∧ (b.uTyp = VOTYP_VAL ∨ b.uTyp = VOTYP_PREFIX)))

/-- The source text `v U1/U2`: a literal, a blank, and the names of two input units around a
solidus. -/
def srcHang (lv : List Char) (i1 i2 : Nat) : List Char :=
  lv ++ ' ' :: (unitName i1 ++ '/' :: unitName i2)

/-- The source text `v U1 / 1 U2`. -/
def srcHangOne (lv : List Char) (i1 i2 : Nat) : List Char :=
  lv ++ ' ' :: (unitName i1 ++ ' ' :: '/' :: ' ' :: '1' :: ' ' :: unitName i2)

/-- An entry of the formatted unit text: the line (`1` numerator, `-1` denominator), the index
of the unit name, and the exponent handed to `%g`. -/
structure UnitItem (D : Type) where
  k : Int
  iName : Nat
  dPwr : D

/-- The entries of the loop "Base" of the formatting for the line `k`: the axes with
`k*ddUnit[iBase] > 0`, each with that product as exponent. -/
def fmtBaseItems (F : Dbl D) (ddUnit : List D) (k : Int) : List (UnitItem D) :=
  (List.range EQSI_NUMUNIT_BASE).filterMap
    (fun iBase =>
      if F.le (F.mul (F.lit k) (ddUnit.getD iBase (F.lit 0))) (F.lit 0) then none
      else some ⟨k, iBase, F.mul (F.lit k) (ddUnit.getD iBase (F.lit 0))⟩)

/-- The text the loop "Base" appends for an entry: a blank unless the text is empty or ends
with the solidus, the name, and the exponent unless it is 1. -/
def fmtBaseAppend (F : Dbl D) (sz : List Char) (it : UnitItem D) : List Char :=
  let sz1 := if sz.length > 0 ∧ sz.getLast? ≠ some '/' then sz ++ [' '] else sz
  let sz2 := sz1 ++ CEquationSIUnitStr.getD it.iName []
  if !(F.eq it.dPwr (F.lit 1)) then sz2 ++ F.fmt_g it.dPwr else sz2

/-- The entry of the block "Matched" of the formatting for the line `k`: the chosen unit,
when one was chosen and the sign of its scale is `k`. -/
def fmtMatchedItems (F : Dbl D) (m : UnitMin D) (k : Int) : List (UnitItem D) :=
  if m.indxUnitMin ≥ 0 ∧ dSIGN F m.dSclUnitMin = k then
    [⟨k, m.indxUnitMin.toNat, F.mul (F.lit k) m.dSclUnitMin⟩]
  else []

/-- The text of the blocks "Solidus" and "Matched" of the formatting for the line `k`. -/
def fmtMatched (F : Dbl D) (m : UnitMin D) (k : Int) (sz : List Char) : List Char :=
  let sz1 := if k = -1 then sz ++ ['/'] else sz
  if m.indxUnitMin ≥ 0 ∧ dSIGN F m.dSclUnitMin = k then
    let sz3 := sz1 ++ CEquationSIUnitStr.getD m.indxUnitMin.toNat []
    if !(F.eq (F.fabs m.dSclUnitMin) (F.lit 1)) then
      sz3 ++ F.fmt_g (F.mul (F.lit k) m.dSclUnitMin)
    else sz3
  else sz1

/-- The vector `ddUnit` after the block "Scale Unit": the input less the scale times the
chosen unit. -/
def unitResidual (F : Dbl D) (ddUnit0 : List D) (m : UnitMin D) : List D :=
  if m.indxUnitMin ≥ 0 then
    (List.range EQSI_NUMUNIT_BASE).map
      (fun i => F.sub (ddUnit0.getD i (F.lit 0)) (F.mul m.dSclUnitMin (SIUnit F m.indxUnitMin i)))
  else ddUnit0

/-- The copy `ddUnit` of the seven exponents at the head of `_AnswerUnitString`. -/
def unitCopy (F : Dbl D) (puUnit : UNITBASE D) : List D :=
  (List.range EQSI_NUMUNIT_BASE).map (fun i => puUnit.getD i (F.lit 0))

/-- The entries of the text `_AnswerUnitString` formats: the numerator line, then the
denominator line; on each the chosen unit comes first. -/
def answerItems (F : Dbl D) (puUnit : UNITBASE D) (tfAllowDerived : Bool) :
    List (UnitItem D) :=
  let m := unitSearch F (unitCopy F puUnit) tfAllowDerived
  let dd := unitResidual F (unitCopy F puUnit) m
  (fmtMatchedItems F m 1 ++ fmtBaseItems F dd 1)
    ++ (fmtMatchedItems F m (-1) ++ fmtBaseItems F dd (-1))

/-- The exponent of the unit name `j` that a list of entries stands for: the sum of the
exponents of its entries, those of the denominator line negated. -/
def itemsPower (items : List (UnitItem ℚ)) (j : Nat) : ℚ :=
  ((items.filter (fun it => it.iName = j)).map (fun it => (it.k : ℚ) * it.dPwr)).sum

/-- A text that is got from the text `s` by appending blanks, solidi, names of base units and
outputs of `%g`, and by cutting a trailing solidus. -/
inductive OnlyBase (F : Dbl D) (s : List Char) : List Char → Prop
  | start : OnlyBase F s s
  | blank (t : List Char) : OnlyBase F s t → OnlyBase F s (t ++ [' '])
  | solidus (t : List Char) : OnlyBase F s t → OnlyBase F s (t ++ ['/'])
  | name (t : List Char) (i : Nat) : i < EQSI_NUMUNIT_BASE → OnlyBase F s t →
      OnlyBase F s (t ++ CEquationSIUnitStr.getD i [])
  | number (t : List Char) (d : D) : OnlyBase F s t → OnlyBase F s (t ++ F.fmt_g d)
  | cut (t : List Char) : t.getLast? = some '/' → OnlyBase F s t → OnlyBase F s t.dropLast

/-- The text of the two lines of the formatting, before the trailing solidus is cut: on each
line the blocks "Solidus" and "Matched", then the entries of the loop "Base". -/
def answerLines (F : Dbl D) (m_szUnit : List Char) (puUnit : UNITBASE D)
    (tfAllowDerived : Bool) : List Char :=
  let m := unitSearch F (unitCopy F puUnit) tfAllowDerived
  let dd := unitResidual F (unitCopy F puUnit) m
  (fmtBaseItems F dd (-1)).foldl (fmtBaseAppend F)
    (fmtMatched F m (-1)
      ((fmtBaseItems F dd 1).foldl (fmtBaseAppend F) (fmtMatched F m 1 m_szUnit)))

/-- Nearest integer to the quotient `n / d` of two naturals, a tie going to the even
neighbour. -/
def roundDiv (n d : Nat) : Nat :=
  if 2 * (n % d) < d then n / d
  else if d < 2 * (n % d) then n / d + 1
  else if (n / d) % 2 = 0 then n / d else n / d + 1

/-- The number of halvings that bring `n` below two, at most `fuel`. -/
def log2Fuel : Nat → Nat → Nat
  | 0, _ => 0
  | fuel + 1, n => if n < 2 then 0 else log2Fuel fuel (n / 2) + 1

/-- The integer part of the binary logarithm of a positive natural. -/
def ilog2 (n : Nat) : Nat := log2Fuel n n

/-- The binary exponent of a positive quotient: the integer `e` with
`2 ^ e ≤ n / d < 2 ^ (e + 1)`. -/
def binExp (n d : Nat) : Int :=
  let e0 : Int := (ilog2 n : Int) - (ilog2 d : Int)
  if (if e0 ≥ 0 then d * 2 ^ e0.toNat ≤ n else d ≤ n * 2 ^ (-e0).toNat) then e0 else e0 - 1

/-- Rounding to the nearest `double` of IEEE 754 (`binary64`: 53 significant bits, ties to
even).  The exponent range is not bounded: overflow and subnormal numbers are not
modelled. -/
def rnd64 (q : ℚ) : ℚ :=
  if q = 0 then 0
  else
    let n := q.num.natAbs
    let d := q.den
    let s : Int := binExp n d - 52
    let r : ℚ :=
      if s ≥ 0 then ((roundDiv n (d * 2 ^ s.toNat) * 2 ^ s.toNat : Nat) : ℚ)
      else mkRat (roundDiv (n * 2 ^ (-s).toNat) d : Nat) (2 ^ (-s).toNat)
    if q < 0 then -r else r

/-- The number of times a positive rational below one is multiplied by ten until it reaches
one. -/
def decShift : Nat → ℚ → Nat → Nat
  | 0, _, k => k
  | fuel + 1, a, k => if a ≥ 1 then k else decShift fuel (a * 10) (k + 1)

/-- A text without its trailing zeros. -/
def stripZeros (l : List Char) : List Char := (l.reverse.dropWhile (fun c => c == '0')).reverse

/-- The conversion `%g` of `printf` (precision 6, no flags) of a finite value: the value is
rounded to six significant decimal digits; with `X` the decimal exponent of the rounded value,
the fixed style is used when `-4 ≤ X < 6` and the exponent style otherwise; trailing zeros of
the fraction, and a decimal point without a fraction, are removed. -/
def fmtG (v : ℚ) : List Char :=
  if v = 0 then ['0']
  else
    let a : ℚ := |v|
    let X0 : Int :=
      if a ≥ 1 then ((Nat.repr (Int.floor a).toNat).length : Int) - 1
      else -(decShift 400 a 0 : Int)
    let sc : ℚ := a * intPowQ 10 (5 - X0)
    let m0 : Nat := roundDiv sc.num.natAbs sc.den
    let X : Int := if m0 ≥ 10 ^ 6 then X0 + 1 else X0
    let m : Nat := if m0 ≥ 10 ^ 6 then m0 / 10 else m0
    let ds : List Char := (Nat.repr m).toList
    let sign : List Char := if v < 0 then ['-'] else []
    if X < -4 ∨ X ≥ 6 then
      let frac := stripZeros (ds.drop 1)
      sign ++ ds.take 1 ++ (if frac = [] then [] else '.' :: frac) ++
        'e' :: (if X < 0 then '-' else '+') ::
          (if X.natAbs < 10 then '0' :: (Nat.repr X.natAbs).toList
           else (Nat.repr X.natAbs).toList)
    else if X ≥ 0 then
      let frac := stripZeros (ds.drop (X.toNat + 1))
      sign ++ ds.take (X.toNat + 1) ++ (if frac = [] then [] else '.' :: frac)
    else
      sign ++ '0' :: '.' :: stripZeros (List.replicate ((-X).toNat - 1) '0' ++ ds)

/-- The arithmetic of IEEE 754 `double` on finite values: every literal, sum, difference,
product and quotient is the exact result rounded to the nearest `double`; comparisons, `floor`,
`ceil`, `fabs` and the negation are exact; the functions of the mathematical library are those
of `L`, rounded; `sscanf` reads decimal literals with an optional fraction, and `%g` is
`fmtG`. -/
def ieeeDbl (L : Libm) : Dbl ℚ :=
  { lit := rnd64, M_PI := rnd64 L.M_PI,
    add := fun a b => rnd64 (a + b), sub := fun a b => rnd64 (a - b),
    mul := fun a b => rnd64 (a * b), div := fun a b => rnd64 (a / b), neg := fun a => -a,
    eq := fun a b => decide (a = b), lt := fun a b => decide (a < b),
    le := fun a b => decide (a ≤ b),
    floor := fun a => (Int.floor a : ℚ), ceil := fun a => (Int.ceil a : ℚ),
    fabs := fun a => |a|,
    sqrt := fun a => rnd64 (L.sqrt a), exp := fun a => rnd64 (L.exp a),
    log := fun a => rnd64 (L.log a), log10 := fun a => rnd64 (L.log10 a),
    cos := fun a => rnd64 (L.cos a), sin := fun a => rnd64 (L.sin a),
    tan := fun a => rnd64 (L.tan a), acos := fun a => rnd64 (L.acos a),
    asin := fun a => rnd64 (L.asin a), atan := fun a => rnd64 (L.atan a),
    cosh := fun a => rnd64 (L.cosh a), sinh := fun a => rnd64 (L.sinh a),
    tanh := fun a => rnd64 (L.tanh a), pow := fun a b => rnd64 (L.pow a b),
    atan2 := fun a b => rnd64 (L.atan2 a b),
    scanf_lg := fun s => (scanDec s).map (fun r => (rnd64 r.1, r.2)),
    fmt_g := fmtG }

/-- The arithmetic of `double` with `libm0`. -/
def R64 : Dbl ℚ := ieeeDbl libm0

/-- The state of the scan loop of `ParseEquation` after `n` rounds, or at its end when the
loop stops earlier. -/
def scanAfter (F : Dbl D) (szEqtn : List Char) (pszVars : Option (List (List Char))) (n : Nat) :
    PState D :=
  parseLoop F (cstr szEqtn) pszVars n (parseInit F)

/-- The texts of the built-in binary operators, the comma and the assignment, with their
codes, in the order of the comparisons of the operator branch. -/
def binaryOpText : List (List Char × Int) :=
  [([','], OP_PSH), (['+'], OP_ADD), (['-'], OP_SUB), (['*'], OP_MUL), (['/'], OP_DIV),
   (['^'], OP_POW), (['|', '|'], OP_OR), (['&', '&'], OP_AND), (['|'], OP_OR), (['&'], OP_AND),
   (['<', '='], OP_LTE), (['>', '='], OP_GTE), (['<'], OP_LT), (['>'], OP_GT),
   (['!', '='], OP_NEQ), (['=', '='], OP_EQ), (['='], OP_SET)]

/-- The name of the unary function number `i`. -/
def unaryName (i : Nat) : List Char := CEquationUnaryOpStr.getD i []

/-- The name of the function of several arguments number `j`. -/
def nargName (j : Nat) : List Char := CEquationNArgOpStr.getD j []

/-- The text `nm` is the name of a built-in function written with letters, and `code` is the
operator code the parser pushes for it outside every bracket: a unary function (all but the
`!` of the table) or a function of several arguments. -/
def IsFunc (nm : List Char) (code : Int) : Prop :=
  (∃ i : Nat, i < 25 ∧ i ≠ 22 ∧ nm = unaryName i ∧ code = OP_UNARY + i) ∨
  (∃ j : Nat, j < 7 ∧ nm = nargName j ∧ code = OP_NARG + j)

/-- The text of the arguments that follow the first one: each literal behind a comma. -/
def srcMore : List (List Char) → List Char
  | [] => []
  | l :: ls => ',' :: (l ++ srcMore ls)

/-- The text of a list of arguments: the literals separated by commas. -/
def srcArgs : List (List Char) → List Char
  | [] => []
  | l :: ls => l ++ srcMore ls

/-- The type and the payloads of a token, without its position in the source. -/
def tokV (vo : VALOP D) : Nat × D × Int := (vo.uTyp, vo.dVal, vo.iVal)

/-- The argument-count test of the closing bracket, for the operator-stack entry `fc` of the
level below that the look-back stops at and the count `k` of arguments: the outcome "wrong
number of arguments". -/
def countBad (fc k : Int) : Prop :=
  if fc - OP_NARG ≥ 0 ∧ fc - OP_NARG < NUM_NARGOP then
    k < ABS (nargArgc (fc - OP_NARG)) ∨
      (nargArgc (fc - OP_NARG) > 0 ∧ k > nargArgc (fc - OP_NARG))
  else k > 1

instance (fc k : Int) : Decidable (countBad fc k) := by
  unfold countBad; infer_instance

/-- The entry `fc` is a function of several arguments with a negative declared count. -/
def ownerVarArg (fc : Int) : Prop :=
  fc - OP_NARG ≥ 0 ∧ fc - OP_NARG < NUM_NARGOP ∧ nargArgc (fc - OP_NARG) < 0

instance (fc : Int) : Decidable (ownerVarArg fc) := by
  unfold ownerVarArg; infer_instance

/-- The source text `nm(l1,...,lk)` of a call. -/
def srcCall (nm : List Char) (args : List (List Char)) : List Char :=
  nm ++ '(' :: (srcArgs args ++ [')'])

/-- The tokens of `m` pushes with the positions `ps`, as `_ProcessOps` stores them. -/
def pushTokens (F : Dbl D) : List Int → List (VALOP D) → List (VALOP D)
  | [], out => out
  | q :: ps, out => pushTokens F ps (voI F VOTYP_OP OP_PSH q :: out)

/-- An arithmetic on the rationals that does not round where the formatting of a unit
computes, on the values that satisfy `Rep`: the constants 0, 1 and -1 are themselves, the
comparisons are those of the rationals, and for a value `x` with `Rep x` the quotient `x / 1`,
the products `x * 1`, `1 * x`, `x * 0` and `-1 * x` and the differences `x - 0` and `x - x`
are exact.  Exact arithmetic is of this kind on all values, the arithmetic of `double` on the
values that are a `double`. -/
def UnitArith (F : Dbl ℚ) (Rep : ℚ → Prop) : Prop :=
  F.lit 0 = 0 ∧ F.lit 1 = 1 ∧ F.lit (-1) = -1 ∧ Rep 0 ∧
  (∀ a b, F.eq a b = decide (a = b)) ∧ (∀ a b, F.lt a b = decide (a < b)) ∧
  (∀ a b, F.le a b = decide (a ≤ b)) ∧
  (∀ x, Rep x → F.div x 1 = x ∧ F.mul x 1 = x ∧ F.mul x 0 = 0 ∧ F.sub x 0 = x ∧
    F.sub x x = 0 ∧ F.mul 1 x = x ∧ F.mul (-1) x = -x)

/-- The character of the prefix number `k` of `CEquationSIUnitPrefixStr`. -/
def prefixChar (k : Nat) : Char := CEquationSIUnitPrefixStr.getD k ' '

/-- A unit of a unit string as it is written: an optional prefix (its index in the table of
prefixes), a unit of the input table (its index), and an optional power, given by its text
and its value. -/
structure UnitWord (D : Type) where
  pfx : Option Nat
  iUnit : Nat
  pw : Option (List Char × D)

/-- The text of an optional prefix: its character. -/
def pfxText : Option Nat → List Char
  | some k => [prefixChar k]
  | none => []

/-- The text of an optional power. -/
def pwText : Option (List Char × D) → List Char
  | some p => p.1
  | none => []

/-- The value of an optional power, `d` when none is written. -/
def pwValue (d : D) : Option (List Char × D) → D
  | some p => p.2
  | none => d

/-- The text of a written unit: the prefix character, the name, the power. -/
def wordText (w : UnitWord D) : List Char :=
  pfxText w.pfx ++ (unitName w.iUnit ++ pwText w.pw)

/-- The text of a list of written units: the units separated by one blank. -/
def wordsText : List (UnitWord D) → List Char
  | [] => []
  | [w] => wordText w
  | w :: v :: ws => wordText w ++ ' ' :: wordsText (v :: ws)

/-- The text of a denominator: nothing when it is empty, or else a solidus and its units. -/
def denText : List (UnitWord D) → List Char
  | [] => []
  | v :: vs => '/' :: wordsText (v :: vs)

/-- The unit string of a numerator and a denominator: the units of the numerator and, when
there is a denominator, a solidus and its units. -/
def unitText (num den : List (UnitWord D)) : List Char :=
  wordsText num ++ denText den

/-- The atom a written unit stands for, on the side `sign` of the solidus: the scale is one
times the value of the prefix, if any, times the scale of the unit, and the power is the value
written, or one. -/
def wordAtom (F : Dbl D) (sign : Int) (w : UnitWord D) : UnitAtom D :=
  ⟨sign, (w.iUnit : Int),
    (match w.pfx with
      | some k => F.mul (F.mul (F.lit 1) ((CEquationSIUnitPrefix F).getD k (F.lit 0)))
          (SIUnit F (w.iUnit : Int) EQSI_NUMUNIT_BASE)
      | none => F.mul (F.lit 1) (SIUnit F (w.iUnit : Int) EQSI_NUMUNIT_BASE)),
    pwValue (F.lit 1) w.pw⟩

/-- The text `pw` is a power of value `v` for the `sscanf` of `F`, on the side `sign` of the
solidus: it is a run of digits that `%lg` converts to `v` when the text ends after it or goes
on with a blank or a solidus; in the denominator `v` is not negative; and the text `%g`
writes for `v` does not end in a solidus. -/
def IsPower (F : Dbl D) (sign : Int) (pw : List Char) (v : D) : Prop :=
  pw ≠ [] ∧ (∀ c ∈ pw, c ∈ "0123456789".toList) ∧
  (∀ tl : List Char, (∀ x, tl.head? = some x → x = ' ' ∨ x = '/') →
    ∃ n, F.scanf_lg (pw ++ tl) = some (v, n)) ∧
  (sign < 0 → F.lt v (F.lit 0) = false) ∧ (F.fmt_g v).getLast? ≠ some '/'

/-- A written unit that the scan of `_StringToUnit` reads as it stands: the unit is a unit of
the input table without an offset (not `degC`, `degF`); a prefix is a prefix of the table, and
prefix and name together are not the name of a unit (as they are in `kg` and `nmi`); a power is
a power in the sense of `IsPower`. -/
def GoodWord (F : Dbl D) (sign : Int) (w : UnitWord D) : Prop :=
  w.iUnit < EQSI_NUMUNIT_INPUT ∧ w.iUnit ≠ 18 ∧ w.iUnit ≠ 19 ∧
  (∀ k, w.pfx = some k → k < EQSI_NUMUNIT_PREFIX ∧
    prefixChar k :: unitName w.iUnit ∉ CEquationSIUnitStr.take EQSI_NUMUNIT_INPUT) ∧
  (∀ p, w.pw = some p → IsPower F sign p.1 p.2)

/-- What the scan needs of the arithmetic: zero equals zero, zero plus zero is zero, and `%lg`
converts nothing at the end of the text, at a letter or at a solidus. -/
def UnitScanArith (F : Dbl D) : Prop :=
  F.eq (F.lit 0) (F.lit 0) = true ∧ F.add (F.lit 0) (F.lit 0) = F.lit 0 ∧
  F.scanf_lg [] = none ∧
  ∀ c rest, (strchr EQ_VALIDUNIT c = true ∨ c = '/') → F.scanf_lg (c :: rest) = none

/-- The state at the head of a round of the scan loop on the side `sign` of the solidus, with
no error and no offset read. -/
def HeadOK (F : Dbl D) (sign : Int) (s : S2U D) : Prop :=
  s.iError = EQERR_NONE ∧ s.dOffset = F.lit 0 ∧ s.iSign = sign ∧
  (s.iUnit < 0 → s.dSclCur = F.lit 1 ∧ s.dPwrCur = F.lit 1)

/-- The parse stacks hold no negative entry and no entry equal to `OP_PSH`: every entry of the
operator stack is 0 or at least 2, and so is the index of every reference token of the
equation stack. -/
def OpsClean (st : Stacks D) : Prop :=
  (∀ x ∈ st.isOps, 0 ≤ x ∧ x ≠ OP_PSH) ∧
  (∀ t ∈ st.vosParsEqn, t.uTyp = VOTYP_REF → 0 ≤ t.iVal ∧ t.iVal ≠ OP_PSH)

/-! ## Output invariants of `ParseEquation` -/

theorem isPSH_voNul (F : Dbl D) : isPSH (voNul F) = false := by
  simp [isPSH, voNul]

theorem popSkipPSH_fst (F : Dbl D) (vos : List (VALOP D)) :
    isPSH (popSkipPSH F vos).1 = false := by
  induction vos with
  | nil => simp [popSkipPSH, isPSH_voNul]
  | cons vo rest ih =>
    unfold popSkipPSH
    by_cases h : isPSH vo = true
    · simp [h, ih]
    · simp [h]

theorem copyEquation_noPSH (F : Dbl D) (n : Nat) :
    ∀ (vos acc : List (VALOP D)), (∀ v ∈ acc, isPSH v = false) →
      ∀ v ∈ copyEquation F n vos acc, isPSH v = false := by
  induction n with
  | zero => intro vos acc h; simpa [copyEquation] using h
  | succ n ih =>
    intro vos acc h
    unfold copyEquation
    apply ih
    intro v hv
    rcases List.mem_cons.mp hv with rfl | hv
    · exact popSkipPSH_fst F vos
    · exact h v hv

/-- C1: when `ParseEquation` succeeds, no token of the installed array is an `OP` token
with opcode `OP_PSH`. -/
theorem C1_no_PSH_in_output (F : Dbl D) (this : Instance D) (szEqtn : List Char)
    (pszVars : Option (List (List Char)))
    (h : (ParseEquation F this szEqtn pszVars).1 = EQERR_NONE) :
    ∀ vo ∈ (ParseEquation F this szEqtn pszVars).2.pvoEquation,
      ¬ (vo.uTyp = VOTYP_OP ∧ vo.iVal = OP_PSH) := by
  intro vo hvo
  unfold ParseEquation at h hvo
  by_cases he : (parseScan F (cstr szEqtn) pszVars).iError ≠ EQERR_NONE
  · rw [if_pos he] at h
    exact absurd h he
  · rw [if_neg he] at hvo
    have := copyEquation_noPSH F _ _ [] (by simp) vo hvo
    intro ⟨h1, h2⟩
    simp [isPSH, h1, h2] at this

/-- Witness of C1 on `max(1,2)`, whose equation stack holds an `OP_PSH` before the copy. -/
theorem C1_witness :
    (ParseEquation Q fresh "max(1,2)".toList none).1 = EQERR_NONE ∧
    ∀ vo ∈ (ParseEquation Q fresh "max(1,2)".toList none).2.pvoEquation,
      ¬ (vo.uTyp = VOTYP_OP ∧ vo.iVal = OP_PSH) :=
  ⟨by decide!, C1_no_PSH_in_output Q fresh "max(1,2)".toList none (by decide!)⟩

/-! ## The equation stack changes by `Move`s -/

theorem Moves.refl_ (F : Dbl D) (out : List (VALOP D)) : Moves F out out :=
  Relation.ReflTransGen.refl

theorem Moves.step (F : Dbl D) {a b c : List (VALOP D)} (h : Moves F a b) (m : Move F b c) :
    Moves F a c :=
  Relation.ReflTransGen.tail h m

theorem Moves.trans_ (F : Dbl D) {a b c : List (VALOP D)} (h : Moves F a b) (h2 : Moves F b c) :
    Moves F a c :=
  Relation.ReflTransGen.trans h h2

theorem isVarArg_iff (o : Int) :
    (o - OP_NARG ≥ 0 ∧ o - OP_NARG < NUM_NARGOP ∧ nargArgc (o - OP_NARG) < 0) ↔
      (o = OP_NARG + OP_NARG_MAX ∨ o = OP_NARG + OP_NARG_MIN) := by
  constructor
  · rintro ⟨h1, h2, h3⟩
    have : o = 50 ∨ o = 51 ∨ o = 52 ∨ o = 53 ∨ o = 54 ∨ o = 55 ∨ o = 56 := by
      simp only [OP_NARG, NUM_NARGOP] at h1 h2; omega
    rcases this with rfl | rfl | rfl | rfl | rfl | rfl | rfl <;> revert h3 <;> decide
  · rintro (rfl | rfl) <;> decide

theorem poStep_moves (F : Dbl D) (st : Stacks D) :
    Moves F st.vosParsEqn (poStep F st).vosParsEqn := by
  unfold poStep poSet
  simp only []
  by_cases hs : stripGE (Pop 0 st.isOps).1 = OP_SET
  · have hv : ¬ (stripGE (Pop 0 st.isOps).1 - OP_NARG ≥ 0 ∧
        stripGE (Pop 0 st.isOps).1 - OP_NARG < NUM_NARGOP ∧
        nargArgc (stripGE (Pop 0 st.isOps).1 - OP_NARG) < 0) := by
      rw [isVarArg_iff, hs]; decide
    rw [if_neg hv, if_pos hs, hs]
    exact Relation.ReflTransGen.single (Move.opSet _ _ _ _)
  · rw [if_neg hs]
    by_cases hv : (stripGE (Pop 0 st.isOps).1 - OP_NARG ≥ 0 ∧
        stripGE (Pop 0 st.isOps).1 - OP_NARG < NUM_NARGOP ∧
        nargArgc (stripGE (Pop 0 st.isOps).1 - OP_NARG) < 0)
    · rw [if_pos hv]
      exact Relation.ReflTransGen.single (Move.opVar _ _ _ _ _ ((isVarArg_iff _).mp hv))
    · rw [if_neg hv]
      exact Relation.ReflTransGen.single
        (Move.op _ _ _ hs (fun h => hv ((isVarArg_iff _).mpr h)))

theorem processOpsLoop_moves (F : Dbl D) (iThisOp iBrktOff : Int) (fuel : Nat) :
    ∀ st : Stacks D,
      Moves F st.vosParsEqn (processOpsLoop F iThisOp iBrktOff fuel st).vosParsEqn := by
  induction fuel with
  | zero => intro st; exact Moves.refl_ F _
  | succ n ih =>
    intro st
    unfold processOpsLoop
    by_cases h : poStop iThisOp iBrktOff st
    · rw [if_pos h]; exact Moves.refl_ F _
    · rw [if_neg h]; exact Moves.trans_ F (poStep_moves F st) (ih _)

theorem ProcessOps_moves (F : Dbl D) (st : Stacks D) (iThisOp iBrktOff : Int) :
    Moves F st.vosParsEqn (_ProcessOps F st iThisOp iBrktOff).vosParsEqn :=
  processOpsLoop_moves F iThisOp iBrktOff _ st

theorem unitPush_moves (F : Dbl D) (iBrktOff iThisPt : Int) (iUnit : Nat) (st : Stacks D) :
    Moves F st.vosParsEqn (unitPush F iBrktOff iThisPt iUnit st).vosParsEqn := by
  unfold unitPush
  refine Moves.trans_ F ?_ (ProcessOps_moves F _ _ _)
  exact Relation.ReflTransGen.single (Move.plain _ _ (by simp [voI]))

theorem unitPrefix_moves (F : Dbl D) (iBrktOff iThisPt iPrfx : Int) (st : Stacks D) :
    Moves F st.vosParsEqn (unitPrefix F iBrktOff iThisPt iPrfx st).vosParsEqn := by
  unfold unitPrefix
  exact Relation.ReflTransGen.single (Move.plain _ _ (by simp [voD]))

theorem unitHang_moves (F : Dbl D) (uLookFor : Nat) (iBrktOff iThisPt : Int) (st st1 : Stacks D)
    (b : Int) (h : unitHang F uLookFor iBrktOff iThisPt st = some (st1, b)) :
    Moves F st.vosParsEqn st1.vosParsEqn := by
  unfold unitHang at h
  split_ifs at h with h1 h2 h3
  · simp only [Option.some.injEq, Prod.mk.injEq] at h
    rw [← h.1]
    exact Relation.ReflTransGen.single (Move.plain _ _ (by simp [voD]))
  · simp only [Option.some.injEq, Prod.mk.injEq] at h
    rw [← h.1]
    exact Moves.refl_ F _
  · simp only [Option.some.injEq, Prod.mk.injEq] at h
    rw [← h.1]
    exact ProcessOps_moves F _ _ _

theorem unitEmit_moves (F : Dbl D) (uLookFor : Nat) (iBrktOff iThisPt iPrfx : Int)
    (st : Stacks D) (iError : Int) (iUnit : Nat) (nm : List Char) :
    Moves F st.vosParsEqn
      (unitEmit F uLookFor iBrktOff iThisPt iPrfx st iError iUnit nm).st.vosParsEqn := by
  unfold unitEmit
  cases hh : unitHang F uLookFor iBrktOff iThisPt st with
  | none => exact Moves.refl_ F _
  | some r =>
    obtain ⟨st1, b⟩ := r
    have h1 := unitHang_moves F uLookFor iBrktOff iThisPt st st1 b hh
    simp only []
    split_ifs with h2 h3
    · exact h1
    · exact Moves.trans_ F h1 (Moves.trans_ F (unitPrefix_moves F _ _ _ _) (unitPush_moves F _ _ _ _))
    · exact Moves.trans_ F h1 (unitPush_moves F _ _ _ _)

theorem parseUnitsLoop_moves (F : Dbl D) (uLookFor : Nat) (iBrktOff : Int) (st : Stacks D)
    (iError : Int) (rest : List Char) :
    ∀ iThisPt iTokLen iPrfx : Int,
      Moves F st.vosParsEqn
        (parseUnitsLoop F uLookFor iBrktOff st iError rest iThisPt iTokLen iPrfx).st.vosParsEqn := by
  induction rest with
  | nil =>
    intro iThisPt iTokLen iPrfx
    unfold parseUnitsLoop
    cases findName [] iTokLen (CEquationSIUnitStr.take EQSI_NUMUNIT_INPUT) 0 with
    | none => exact Moves.refl_ F _
    | some r => exact unitEmit_moves F _ _ _ _ _ _ _ _
  | cons c rest1 ih =>
    intro iThisPt iTokLen iPrfx
    unfold parseUnitsLoop
    cases findName (c :: rest1) iTokLen (CEquationSIUnitStr.take EQSI_NUMUNIT_INPUT) 0 with
    | some r => exact unitEmit_moves F _ _ _ _ _ _ _ _
    | none =>
      simp only []
      cases findPrefixIdx c with
      | none => exact Moves.refl_ F _
      | some k => exact ih _ _ _

theorem ParseEquationUnits_moves (F : Dbl D) (szEqtn : List Char) (iThisPt iBrktOff : Int)
    (st : Stacks D) (uLookFor : Nat) (iError : Int) :
    Moves F st.vosParsEqn
      (_ParseEquationUnits F szEqtn iThisPt iBrktOff st uLookFor iError).st.vosParsEqn := by
  unfold _ParseEquationUnits
  exact parseUnitsLoop_moves F _ _ _ _ _ _ _ _

theorem parseIdent_moves (F : Dbl D) (szEqtn : List Char) (pszVars : Option (List (List Char)))
    (s : PState D) :
    Moves F s.st.vosParsEqn (parseIdent F szEqtn pszVars s).1.st.vosParsEqn := by
  unfold parseIdent
  simp only []
  split
  · exact Relation.ReflTransGen.single (Move.plain _ _ (by simp [voI]))
  · split
    · split_ifs
      · exact Moves.step F (Relation.ReflTransGen.single (Move.plain _ _ (by simp [voD])))
          (Move.plain _ _ (by simp [voI]))
      · exact Relation.ReflTransGen.single (Move.plain _ _ (by simp [voD]))
    · split
      · exact Moves.refl_ F _
      · split
        · exact Moves.refl_ F _
        · split_ifs <;> exact ParseEquationUnits_moves F _ _ _ _ _ _

theorem parseLiteral_moves (F : Dbl D) (szEqtn : List Char) (s : PState D) :
    Moves F s.st.vosParsEqn (parseLiteral F szEqtn s).1.st.vosParsEqn := by
  unfold parseLiteral
  split
  · exact Relation.ReflTransGen.single (Move.plain _ _ (by simp [voD]))
  · split_ifs <;> exact Moves.refl_ F _

theorem parseNumber_moves (F : Dbl D) (szEqtn : List Char) (pszVars : Option (List (List Char)))
    (s : PState D) :
    Moves F s.st.vosParsEqn (parseNumber F szEqtn pszVars s).1.st.vosParsEqn := by
  unfold parseNumber
  split_ifs
  · exact parseIdent_moves F _ _ _
  · exact Relation.ReflTransGen.single (Move.plain _ _ (by simp [voD]))
  · exact Moves.refl_ F _
  · exact parseLiteral_moves F _ _

theorem opAssign_moves (F : Dbl D) (st : Stacks D) (iThisOp : Int)
    (h : ¬ (iThisOp = OP_SET ∧ (Peek (voNul F) st.vosParsEqn).uTyp ≠ VOTYP_REF)) :
    Moves F st.vosParsEqn (opAssign F st iThisOp).vosParsEqn := by
  unfold opAssign
  split_ifs with h3
  · have hR : (Peek (voNul F) st.vosParsEqn).uTyp = VOTYP_REF := by
      by_contra hne; exact h ⟨h3, hne⟩
    cases hout : st.vosParsEqn with
    | nil => rw [hout] at hR; simp [Peek, voNul] at hR
    | cons x rest =>
      rw [hout] at hR
      simp only [Pop]
      exact Relation.ReflTransGen.single (Move.pop x rest (by simpa [Peek] using hR))
  · exact Moves.refl_ F _

theorem parseOperator_moves (F : Dbl D) (szEqtn : List Char) (s : PState D) :
    Moves F s.st.vosParsEqn (parseOperator F szEqtn s).1.st.vosParsEqn := by
  unfold parseOperator
  simp only []
  split_ifs with h1 h2
  · exact Moves.refl_ F _
  · exact Moves.refl_ F _
  · exact Moves.trans_ F (opAssign_moves F _ _ h2) (ProcessOps_moves F _ _ _)

theorem parseClose_moves (F : Dbl D) (s : PState D) :
    Moves F s.st.vosParsEqn (parseClose s).1.st.vosParsEqn := by
  unfold parseClose
  simp only []
  split_ifs <;> exact Moves.refl_ F _

theorem parseUnitOrTarget_moves (F : Dbl D) (szEqtn : List Char) (s : PState D) :
    Moves F s.st.vosParsEqn (parseUnitOrTarget F szEqtn s).1.st.vosParsEqn := by
  unfold parseUnitOrTarget
  simp only []
  split_ifs <;> exact ParseEquationUnits_moves F _ _ _ _ _ _

theorem parseToken_moves (F : Dbl D) (szEqtn : List Char) (pszVars : Option (List (List Char)))
    (s : PState D) :
    Moves F s.st.vosParsEqn (parseToken F szEqtn pszVars s).1.st.vosParsEqn := by
  unfold parseToken parseBinaryOp parseBracket
  simp only []
  split_ifs
  · exact parseNumber_moves F _ _ _
  · exact parseOperator_moves F _ _
  · exact parseClose_moves F _
  · exact parseUnitOrTarget_moves F _ _
  · exact Moves.refl_ F _
  · exact Moves.refl_ F _
  · exact Moves.refl_ F _

theorem parseStep_moves (F : Dbl D) (szEqtn : List Char) (pszVars : Option (List (List Char)))
    (s : PState D) :
    Moves F s.st.vosParsEqn (parseStep F szEqtn pszVars s).st.vosParsEqn := by
  unfold parseStep
  split_ifs
  · exact Moves.refl_ F _
  · exact Moves.refl_ F _
  · exact parseToken_moves F szEqtn pszVars
      { s with iThisPt := skipBlanks (strFrom szEqtn s.iThisPt) s.iThisPt }

theorem parseLoop_moves (F : Dbl D) (szEqtn : List Char) (pszVars : Option (List (List Char)))
    (fuel : Nat) :
    ∀ s : PState D,
      Moves F s.st.vosParsEqn (parseLoop F szEqtn pszVars fuel s).st.vosParsEqn := by
  induction fuel with
  | zero => intro s; exact Moves.refl_ F _
  | succ n ih =>
    intro s
    unfold parseLoop
    split_ifs
    · exact Moves.trans_ F (parseStep_moves F szEqtn pszVars s) (ih _)
    · exact Moves.refl_ F _

theorem parseFinish_moves (F : Dbl D) (s : PState D) :
    Moves F s.st.vosParsEqn (parseFinish F s).st.vosParsEqn := by
  unfold parseFinish
  split_ifs
  · exact Moves.refl_ F _
  · exact Moves.refl_ F _
  · exact Moves.refl_ F _
  · exact Moves.refl_ F _
  · exact ProcessOps_moves F _ _ _

theorem parseScan_moves (F : Dbl D) (szEqtn : List Char) (pszVars : Option (List (List Char))) :
    Moves F [] (parseScan F szEqtn pszVars).st.vosParsEqn := by
  unfold parseScan
  exact Moves.trans_ F (parseLoop_moves F szEqtn pszVars (szEqtn.length + 1) (parseInit F))
    (parseFinish_moves F _)

/-! ## Argument counts follow `max` and `min` -/

theorem StackInv_push (x : VALOP D) (out : List (VALOP D)) (hP : ¬ IsVarArgOp x)
    (hQ : ¬ IsNARGC x) (h : StackInv out) : StackInv (x :: out) := by
  obtain ⟨hc, hh, hl⟩ := h
  refine ⟨List.Chain'.cons' hc ?_, ?_, ?_⟩
  · intro b hb
    unfold NargLink
    exact ⟨fun hb2 => absurd hb2 (hh b hb), fun hx => absurd hx hQ⟩
  · intro a ha
    simp only [List.head?_cons, Option.mem_def, Option.some.injEq] at ha
    rw [← ha]; exact hP
  · intro a ha
    cases out with
    | nil =>
      simp only [List.getLast?_singleton, Option.mem_def, Option.some.injEq] at ha
      rw [← ha]; exact hQ
    | cons b l =>
      rw [List.getLast?_cons_cons] at ha
      exact hl a ha

theorem StackInv_pushVar (o n : VALOP D) (out : List (VALOP D)) (ho : IsVarArgOp o)
    (hn : IsNARGC n) (h : StackInv out) : StackInv (n :: o :: out) := by
  obtain ⟨hc, hh, hl⟩ := h
  have hoQ : ¬ IsNARGC o := by
    unfold IsNARGC; rw [ho.1]; decide
  have hnP : ¬ IsVarArgOp n := by
    unfold IsVarArgOp; unfold IsNARGC at hn; rw [hn]; simp
  refine ⟨List.Chain'.cons' (List.Chain'.cons' hc ?_) ?_, ?_, ?_⟩
  · intro b hb
    unfold NargLink
    exact ⟨fun hb2 => absurd hb2 (hh b hb), fun hx => absurd hx hoQ⟩
  · intro b hb
    simp only [List.head?_cons, Option.mem_def, Option.some.injEq] at hb
    rw [← hb]
    exact ⟨fun _ => hn, fun _ => ho⟩
  · intro a ha
    simp only [List.head?_cons, Option.mem_def, Option.some.injEq] at ha
    rw [← ha]; exact hnP
  · intro a ha
    rw [List.getLast?_cons_cons] at ha
    cases out with
    | nil =>
      simp only [List.getLast?_singleton, Option.mem_def, Option.some.injEq] at ha
      rw [← ha]; exact hoQ
    | cons b l =>
      rw [List.getLast?_cons_cons] at ha
      exact hl a ha

theorem StackInv_pop (x : VALOP D) (out : List (VALOP D)) (hQ : ¬ IsNARGC x)
    (h : StackInv (x :: out)) : StackInv out := by
  obtain ⟨hc, _, hl⟩ := h
  refine ⟨List.Chain'.tail hc, ?_, ?_⟩
  · intro b hb hbP
    have := List.Chain'.rel_head? hc hb
    exact hQ (this.mp hbP)
  · intro a ha
    cases out with
    | nil => simp at ha
    | cons b l =>
      apply hl a
      rw [List.getLast?_cons_cons]; exact ha

theorem dropPSH_cons_keep (x : VALOP D) (out : List (VALOP D)) (h : isPSH x = false) :
    dropPSH (x :: out) = x :: dropPSH out := by
  simp [dropPSH, List.filter_cons, h]

theorem dropPSH_cons_drop (x : VALOP D) (out : List (VALOP D)) (h : isPSH x = true) :
    dropPSH (x :: out) = dropPSH out := by
  simp [dropPSH, List.filter_cons, h]

theorem Move_StackInv (F : Dbl D) {a b : List (VALOP D)} (m : Move F a b)
    (h : StackInv (dropPSH a)) : StackInv (dropPSH b) := by
  cases m with
  | plain x out hx =>
    have hk : isPSH x = false := by
      unfold isPSH; rcases hx with hx | hx | hx | hx <;> rw [hx] <;> simp
    rw [dropPSH_cons_keep x _ hk]
    refine StackInv_push x _ ?_ ?_ h
    · unfold IsVarArgOp; rcases hx with hx | hx | hx | hx <;> rw [hx] <;> simp
    · unfold IsNARGC; rcases hx with hx | hx | hx | hx <;> rw [hx] <;> simp
  | op o p out h1 h2 =>
    by_cases hk : isPSH (voI F VOTYP_OP o p) = true
    · rw [dropPSH_cons_drop _ _ hk]; exact h
    · rw [dropPSH_cons_keep _ _ (by simpa using hk)]
      refine StackInv_push _ _ ?_ ?_ h
      · unfold IsVarArgOp voI; simpa using h2
      · unfold IsNARGC voI; simp
  | opSet p r pr out =>
    rw [dropPSH_cons_keep _ _ (by simp [isPSH, voI]), dropPSH_cons_keep _ _ (by simp [isPSH, voI])]
    refine StackInv_push _ _ ?_ ?_ (StackInv_push _ _ ?_ ?_ h)
    · unfold IsVarArgOp voI; simp
    · unfold IsNARGC voI; simp
    · unfold IsVarArgOp voI; simp only [true_and]; decide
    · unfold IsNARGC voI; simp
  | opVar o p c pc out ho =>
    rw [dropPSH_cons_keep _ _ (by simp [isPSH, voI]),
      dropPSH_cons_keep _ _ (by rcases ho with rfl | rfl <;> simp [isPSH, voI] <;> decide)]
    refine StackInv_pushVar _ _ _ ?_ ?_ h
    · unfold IsVarArgOp voI; simpa using ho
    · unfold IsNARGC voI; simp
  | pop x out hx =>
    rw [dropPSH_cons_keep x _ (by unfold isPSH; rw [hx]; simp)] at h
    refine StackInv_pop x _ ?_ h
    unfold IsNARGC; rw [hx]; simp

theorem Moves_StackInv (F : Dbl D) {a b : List (VALOP D)} (m : Moves F a b)
    (h : StackInv (dropPSH a)) : StackInv (dropPSH b) := by
  induction m with
  | refl => exact h
  | tail _ m ih => exact Move_StackInv F m ih

/-! ### The copy into the token array -/

theorem popSkipPSH_fst_eq (F : Dbl D) (vos : List (VALOP D)) :
    (popSkipPSH F vos).1 = (dropPSH vos).headD (voNul F) := by
  induction vos with
  | nil => simp [popSkipPSH, dropPSH]
  | cons vo rest ih =>
    unfold popSkipPSH
    by_cases h : isPSH vo = true
    · rw [if_pos h, ih, dropPSH_cons_drop _ _ h]
    · rw [if_neg h, dropPSH_cons_keep _ _ (by simpa using h)]; rfl

theorem popSkipPSH_snd_eq (F : Dbl D) (vos : List (VALOP D)) :
    dropPSH (popSkipPSH F vos).2 = (dropPSH vos).tail := by
  induction vos with
  | nil => simp [popSkipPSH, dropPSH]
  | cons vo rest ih =>
    unfold popSkipPSH
    by_cases h : isPSH vo = true
    · rw [if_pos h, ih, dropPSH_cons_drop _ _ h]
    · rw [if_neg h, dropPSH_cons_keep _ _ (by simpa using h)]; rfl

theorem copyEquation_shape (F : Dbl D) (n : Nat) :
    ∀ vos acc : List (VALOP D),
      copyEquation F n vos acc =
        List.replicate (n - (dropPSH vos).length) (voNul F) ++
          ((dropPSH vos).take n).reverse ++ acc := by
  induction n with
  | zero => intro vos acc; simp [copyEquation]
  | succ n ih =>
    intro vos acc
    unfold copyEquation
    rw [ih, popSkipPSH_snd_eq, popSkipPSH_fst_eq]
    cases hK : dropPSH vos with
    | nil =>
      simp only [List.tail_nil, List.length_nil, Nat.sub_zero, List.take_nil, List.reverse_nil,
        List.append_nil, List.headD_nil, List.nil_append]
      rw [List.replicate_succ', List.append_assoc]; rfl
    | cons k K =>
      simp only [List.tail_cons, List.length_cons, List.headD_cons, List.take_succ_cons,
        List.reverse_cons, List.append_assoc, List.singleton_append, Nat.add_sub_add_right]

theorem filter_range_getD_length {α : Type} (p : α → Bool) (d : α) (l : List α) :
    ((List.range l.length).filter (fun k => p (l.getD k d))).length = (l.filter p).length := by
  induction l with
  | nil => simp
  | cons a l ih =>
    rw [List.length_cons, List.range_succ_eq_map, List.filter_cons, List.filter_cons,
      List.filter_map]
    have h2 : ((fun k => p ((a :: l).getD k d)) ∘ Nat.succ) = (fun k => p (l.getD k d)) := by
      funext k; simp
    rw [h2]
    by_cases hp : p a = true
    · simp only [List.getD_cons_zero, hp, if_true, List.length_cons, List.length_map, ih]
    · have hp2 : p a = false := by simpa using hp
      simp only [List.getD_cons_zero, hp2, Bool.false_eq_true, if_false, List.length_map, ih]

theorem countNotPSH_cons (F : Dbl D) (x : VALOP D) (t : List (VALOP D)) :
    countNotPSH F (x :: t) = (dropPSH t).length + 1 := by
  unfold countNotPSH dropPSH
  rw [List.length_cons, List.range_succ, List.filter_append]
  have h1 : (List.range t.length).filter
      (fun (k : Nat) => !isPSH (PeekBack (voNul F) (x :: t) (-((k : Int) + 1) - 1))) =
      (List.range t.length).filter (fun k => !isPSH (t.getD k (voNul F))) := by
    apply List.filter_congr
    intro k hk
    have hk2 : k < t.length := List.mem_range.mp hk
    unfold PeekBack
    have e1 : ¬ (((x :: t).length : Int) + (-((k : Int) + 1) - 1) < 0) := by
      simp only [List.length_cons]; push_cast; omega
    have e2 : ¬ (-((k : Int) + 1) - 1 ≥ 0) := by omega
    have e3 : (-(-((k : Int) + 1) - 1) - 1).toNat = k + 1 := by omega
    rw [if_neg e1, if_neg e2, e3]
    simp
  have h2 : [t.length].filter
      (fun (k : Nat) => !isPSH (PeekBack (voNul F) (x :: t) (-((k : Int) + 1) - 1))) =
      [t.length] := by
    have e1 : (((x :: t).length : Int) + (-((t.length : Int) + 1) - 1) < 0) := by
      simp only [List.length_cons]; push_cast; omega
    simp [PeekBack, e1, isPSH_voNul]
  rw [h1, h2, List.length_append, filter_range_getD_length (fun v => !isPSH v) (voNul F) t]
  simp

theorem dropPSH_length_le_count (F : Dbl D) (vos : List (VALOP D)) :
    (dropPSH vos).length ≤ countNotPSH F vos := by
  cases vos with
  | nil => simp [dropPSH]
  | cons x t =>
    rw [countNotPSH_cons]
    by_cases h : isPSH x = true
    · rw [dropPSH_cons_drop _ _ h]; omega
    · rw [dropPSH_cons_keep _ _ (by simpa using h)]; simp

/-- The token array installed by a successful parse: the equation stack without its `OP_PSH`
tokens in the order of pushing, with zeroed tokens in front when the count of the first loop
exceeds the number of tokens kept. -/
theorem copyEquation_eq (F : Dbl D) (vos : List (VALOP D)) :
    copyEquation F (countNotPSH F vos) vos [] =
      List.replicate (countNotPSH F vos - (dropPSH vos).length) (voNul F) ++
        (dropPSH vos).reverse := by
  rw [copyEquation_shape, List.append_nil, List.take_of_length_le (dropPSH_length_le_count F vos)]

theorem ArrayInv_of_StackInv (K : List (VALOP D)) (h : StackInv K) : ArrayInv K.reverse := by
  obtain ⟨hc, hh, hl⟩ := h
  refine ⟨?_, ?_, ?_⟩
  · rw [List.chain'_reverse]
    exact hc
  · intro a ha
    rw [List.getLast?_reverse] at ha
    exact hh a ha
  · intro a ha
    rw [List.head?_reverse] at ha
    exact hl a ha

theorem ArrayInv_cons_voNul (F : Dbl D) (l : List (VALOP D)) (h : ArrayInv l) :
    ArrayInv (voNul F :: l) := by
  obtain ⟨hc, hl, hh⟩ := h
  have hP : ¬ IsVarArgOp (voNul F) := by simp [IsVarArgOp, voNul]
  have hQ : ¬ IsNARGC (voNul F) := by simp [IsNARGC, voNul]
  refine ⟨List.Chain'.cons' hc ?_, ?_, ?_⟩
  · intro b hb
    exact ⟨fun hx => absurd hx hP, fun hb2 => absurd hb2 (hh b hb)⟩
  · intro a ha
    cases l with
    | nil =>
      simp only [List.getLast?_singleton, Option.mem_def, Option.some.injEq] at ha
      rw [← ha]; exact hP
    | cons b l =>
      rw [List.getLast?_cons_cons] at ha
      exact hl a ha
  · intro a ha
    simp only [List.head?_cons, Option.mem_def, Option.some.injEq] at ha
    rw [← ha]; exact hQ

theorem ArrayInv_replicate_voNul (F : Dbl D) (n : Nat) (l : List (VALOP D)) (h : ArrayInv l) :
    ArrayInv (List.replicate n (voNul F) ++ l) := by
  induction n with
  | zero => simpa using h
  | succ n ih =>
    rw [List.replicate_succ, List.cons_append]
    exact ArrayInv_cons_voNul F _ ih

/-- The token array of a successful parse satisfies `ArrayInv`. -/
theorem ParseEquation_ArrayInv (F : Dbl D) (this : Instance D) (szEqtn : List Char)
    (pszVars : Option (List (List Char)))
    (h : (ParseEquation F this szEqtn pszVars).1 = EQERR_NONE) :
    ArrayInv (ParseEquation F this szEqtn pszVars).2.pvoEquation := by
  unfold ParseEquation at h ⊢
  by_cases he : (parseScan F (cstr szEqtn) pszVars).iError ≠ EQERR_NONE
  · rw [if_pos he] at h
    exact absurd h he
  · rw [if_neg he]
    simp only []
    rw [copyEquation_eq]
    apply ArrayInv_replicate_voNul
    apply ArrayInv_of_StackInv
    exact Moves_StackInv F (parseScan_moves F (cstr szEqtn) pszVars) (by simp [dropPSH, StackInv])

/-- The tokens of `mod(1,2)`: the `OP` token of `mod` is the last one. -/
theorem parse_mod_tokens :
    (ParseEquation Q fresh "mod(1,2)".toList none).2.pvoEquation =
      [voD VOTYP_VAL 1 4, voD VOTYP_VAL 2 6, voI Q VOTYP_OP (OP_NARG + OP_NARG_MOD) 0] := by
  decide!

/-- C2, counterexample: `mod(1,2)` parses, and the `OP` token of the n-arg function `mod`
in its token array is not followed by an `NARGC` token. -/
theorem C2_counterexample :
    (ParseEquation Q fresh "mod(1,2)".toList none).1 = EQERR_NONE ∧
    ¬ (∀ (i : Nat) (vo : VALOP ℚ),
        (ParseEquation Q fresh "mod(1,2)".toList none).2.pvoEquation[i]? = some vo →
        IsNArgOp vo →
        ∃ c, (ParseEquation Q fresh "mod(1,2)".toList none).2.pvoEquation[i + 1]? = some c ∧
          IsNARGC c) := by
  refine ⟨by decide!, fun h => ?_⟩
  rw [parse_mod_tokens] at h
  obtain ⟨c, hc, _⟩ := h 2 (voI Q VOTYP_OP (OP_NARG + OP_NARG_MOD) 0) rfl
    (by unfold IsNArgOp voI; decide)
  simp at hc

theorem ArrayInv_getElem (tok : List (VALOP D)) (h : ArrayInv tok) (i : Nat) (a b : VALOP D)
    (ha : tok[i]? = some a) (hb : tok[i + 1]? = some b) : IsVarArgOp a ↔ IsNARGC b := by
  have hi : i + 1 < tok.length := by
    by_contra hn
    rw [List.getElem?_eq_none (by omega)] at hb
    exact absurd hb (by simp)
  have hc := (List.chain'_iff_get.mp h.1) i (by omega)
  rw [List.getElem?_eq_getElem (by omega)] at ha hb
  simp only [Option.some.injEq] at ha hb
  rw [← ha, ← hb]
  exact hc

/-- C2, amended: when `ParseEquation` succeeds, every `OP` token of `max` or `min` (the
n-arg functions of negative declared count) in the token array is immediately followed by
an `NARGC` token, and by one only: the token after that `NARGC` is not an `NARGC`.  An
`OP` token of a function of fixed count (`mod`, `rem`, `atan2`, `atan2d`, `if`), like any
token that is not an `OP` of `max` or `min`, is not followed by an `NARGC`. -/
theorem C2_nargc_after_max_min (F : Dbl D) (this : Instance D) (szEqtn : List Char)
    (pszVars : Option (List (List Char)))
    (h : (ParseEquation F this szEqtn pszVars).1 = EQERR_NONE) (i : Nat) (vo : VALOP D)
    (hvo : (ParseEquation F this szEqtn pszVars).2.pvoEquation[i]? = some vo) :
    (IsVarArgOp vo →
      (∃ c, (ParseEquation F this szEqtn pszVars).2.pvoEquation[i + 1]? = some c ∧ IsNARGC c) ∧
      (∀ c2, (ParseEquation F this szEqtn pszVars).2.pvoEquation[i + 2]? = some c2 →
        ¬ IsNARGC c2)) ∧
    (¬ IsVarArgOp vo →
      ∀ c, (ParseEquation F this szEqtn pszVars).2.pvoEquation[i + 1]? = some c →
        ¬ IsNARGC c) := by
  have hA := ParseEquation_ArrayInv F this szEqtn pszVars h
  generalize (ParseEquation F this szEqtn pszVars).2.pvoEquation = tok at hA hvo
  have hlt : i < tok.length := by
    by_contra hn
    rw [List.getElem?_eq_none (by omega)] at hvo
    exact absurd hvo (by simp)
  refine ⟨fun hP => ⟨?_, ?_⟩, fun hP c hc hQ => hP ((ArrayInv_getElem tok hA i vo c hvo hc).mpr hQ)⟩
  · by_cases hi : i + 1 < tok.length
    · refine ⟨tok[i + 1], List.getElem?_eq_getElem hi, ?_⟩
      exact (ArrayInv_getElem tok hA i vo _ hvo (List.getElem?_eq_getElem hi)).mp hP
    · -- the last token is not an `OP` of `max` or `min`
      exfalso
      have hlast : tok.getLast? = some vo := by
        rw [List.getLast?_eq_getElem?]
        have : tok.length - 1 = i := by omega
        rw [this]; exact hvo
      exact hA.2.1 vo hlast hP
  · intro c2 hc2 hQ2
    have hi2 : i + 2 < tok.length := by
      by_contra hn
      rw [List.getElem?_eq_none (by omega)] at hc2
      exact absurd hc2 (by simp)
    have h1 : tok[i + 1]? = some tok[i + 1] := List.getElem?_eq_getElem (by omega)
    have hP1 : IsVarArgOp tok[i + 1] :=
      (ArrayInv_getElem tok hA (i + 1) _ c2 h1 hc2).mpr hQ2
    have hQ1 : IsNARGC tok[i + 1] := (ArrayInv_getElem tok hA i vo _ hvo h1).mp hP
    unfold IsVarArgOp at hP1
    unfold IsNARGC at hQ1
    rw [hQ1] at hP1
    exact absurd hP1.1 (by decide)

/-- Witness of C2 (amended) on `max(1,2,3)`: the `OP` token of `max` stands at index 3. -/
theorem C2_witness :
    (ParseEquation Q fresh "max(1,2,3)".toList none).1 = EQERR_NONE ∧
    (ParseEquation Q fresh "max(1,2,3)".toList none).2.pvoEquation[3]? =
      some (voI Q VOTYP_OP (OP_NARG + OP_NARG_MAX) 0) ∧
    ((IsVarArgOp (voI Q VOTYP_OP (OP_NARG + OP_NARG_MAX) 0) →
      (∃ c, (ParseEquation Q fresh "max(1,2,3)".toList none).2.pvoEquation[3 + 1]? = some c ∧
        IsNARGC c) ∧
      (∀ c2, (ParseEquation Q fresh "max(1,2,3)".toList none).2.pvoEquation[3 + 2]? = some c2 →
        ¬ IsNARGC c2)) ∧
    (¬ IsVarArgOp (voI Q VOTYP_OP (OP_NARG + OP_NARG_MAX) 0) →
      ∀ c, (ParseEquation Q fresh "max(1,2,3)".toList none).2.pvoEquation[3 + 1]? = some c →
        ¬ IsNARGC c)) :=
  ⟨by decide!, by decide!,
    C2_nargc_after_max_min Q fresh "max(1,2,3)".toList none (by decide!) 3 _ (by decide!)⟩

/-! ## Assignment placement -/

/-- C3, evaluation at the failing input: with the 204 variable names `aa`, ..., `hv` the source
`(aa = ao = sin(hv = 1)) m = 5` parses with `EQERR_NONE`, and in the token array the `OP_SET`
token at index 7 is followed by the `VAL` token of the literal 5, not by a `REF` token.  The
index 203 of `hv`, stored on the operator stack at the innermost `=`, is drained there as an
operator and takes the code of `sin` as its reference; the `OP_SET` pushed next covers the
`OP_SET` of `ao =`, so that the index 14 of `ao` is drained as an operator after the unit `m`,
together with the `OP_SET` of `aa =`, whose `REF 0` the last `=` then removes. -/
theorem C3_set_followed_by_value :
    (ParseEquation Q fresh "(aa = ao = sin(hv = 1)) m = 5".toList vars204).1 = EQERR_NONE ∧
    (ParseEquation Q fresh "(aa = ao = sin(hv = 1)) m = 5".toList vars204).2.pvoEquation =
      [voI Q VOTYP_OP OP_SET 15, voI Q VOTYP_REF 128 11, voD VOTYP_VAL 1 20,
       voI Q VOTYP_OP OP_SET 18, voI Q VOTYP_REF 103 9, voI Q VOTYP_UNIT 1 24,
       voI Q VOTYP_OP OP_MUL 6, voI Q VOTYP_OP OP_SET 4, voD VOTYP_VAL 5 28,
       voI Q VOTYP_OP OP_SET 26, voI Q VOTYP_REF 0 1] := by
  decide!

/-! ## Assignment to a variable of index three -/

/-- C4, evaluation at the failing input: with the names `a`, `b`, `c`, `d` the source `c = 5`
(index 2) compiles to `[VAL 5, OP OP_SET, REF 2]`, but `d = 5` (index 3) compiles to
`[OP OP_SET, REF 0, VAL 5, OP OP_SET, REF 0]`: the index 3, stored on the operator stack,
is drained as an operator of the code `OP_SET`, and no `REF 3` is emitted. -/
theorem C4_assign_index_three :
    (ParseEquation Q fresh "c = 5".toList varsABCD).1 = EQERR_NONE ∧
    (ParseEquation Q fresh "c = 5".toList varsABCD).2.pvoEquation =
      [voD VOTYP_VAL 5 4, voI Q VOTYP_OP OP_SET 2, voI Q VOTYP_REF 2 0] ∧
    (ParseEquation Q fresh "d = 5".toList varsABCD).1 = EQERR_NONE ∧
    (ParseEquation Q fresh "d = 5".toList varsABCD).2.pvoEquation =
      [voI Q VOTYP_OP OP_SET 0, voI Q VOTYP_REF 0 0, voD VOTYP_VAL 5 4,
       voI Q VOTYP_OP OP_SET 2, voI Q VOTYP_REF 0 0] := by
  decide!

/-! ## Determinism of the parse -/

/-- C5: the code returned by `ParseEquation` does not depend on the object it is called on,
and after a success neither do the token array, its length, the stored source and the target
unit members. -/
theorem C5_parse_deterministic (F : Dbl D) (this1 this2 : Instance D) (szEqtn : List Char)
    (pszVars : Option (List (List Char))) :
    (ParseEquation F this1 szEqtn pszVars).1 = (ParseEquation F this2 szEqtn pszVars).1 ∧
    ((ParseEquation F this1 szEqtn pszVars).1 = EQERR_NONE →
      (ParseEquation F this1 szEqtn pszVars).2.pvoEquation =
        (ParseEquation F this2 szEqtn pszVars).2.pvoEquation ∧
      (ParseEquation F this1 szEqtn pszVars).2.iEqnLength =
        (ParseEquation F this2 szEqtn pszVars).2.iEqnLength ∧
      (ParseEquation F this1 szEqtn pszVars).2.pszSrcEquation =
        (ParseEquation F this2 szEqtn pszVars).2.pszSrcEquation ∧
      (ParseEquation F this1 szEqtn pszVars).2.tgt =
        (ParseEquation F this2 szEqtn pszVars).2.tgt) := by
  unfold ParseEquation
  by_cases he : (parseScan F (cstr szEqtn) pszVars).iError ≠ EQERR_NONE
  · rw [if_pos he, if_pos he]
    exact ⟨rfl, fun h => absurd h he⟩
  · rw [if_neg he, if_neg he]
    exact ⟨rfl, fun _ => ⟨rfl, rfl, rfl, rfl⟩⟩

/-- Witness of C5: `100 degC # degF` parsed on a fresh object and on an object that holds
`1 m`. -/
theorem C5_witness :
    (ParseEquation Q fresh "100 degC # degF".toList none).1 =
      (ParseEquation Q parsedMetre "100 degC # degF".toList none).1 ∧
    ((ParseEquation Q fresh "100 degC # degF".toList none).1 = EQERR_NONE →
      (ParseEquation Q fresh "100 degC # degF".toList none).2.pvoEquation =
        (ParseEquation Q parsedMetre "100 degC # degF".toList none).2.pvoEquation ∧
      (ParseEquation Q fresh "100 degC # degF".toList none).2.iEqnLength =
        (ParseEquation Q parsedMetre "100 degC # degF".toList none).2.iEqnLength ∧
      (ParseEquation Q fresh "100 degC # degF".toList none).2.pszSrcEquation =
        (ParseEquation Q parsedMetre "100 degC # degF".toList none).2.pszSrcEquation ∧
      (ParseEquation Q fresh "100 degC # degF".toList none).2.tgt =
        (ParseEquation Q parsedMetre "100 degC # degF".toList none).2.tgt) :=
  C5_parse_deterministic Q fresh parsedMetre "100 degC # degF".toList none

/-! ## State of the object after a failed parse -/

/-- C6, evaluation at the failing input: an object holds `100 degC # degF` (target scale
`5/9`, unit text `degF`, answer 212).  The parse of `1 +` on it fails with
`EQERR_PARSE_NUMBEREXPECTED` and leaves source and token array as they were, but the target
scale is now 0 and the unit text empty, and the same tokens evaluate to 373.15 `K`. -/
theorem C6_failed_parse_clears_target :
    parsedDegF.tgt.m_dScleTarget = 5 / 9 ∧ parsedDegF.tgt.m_szUnit = "degF".toList ∧
    (DoEquation Q parsedDegF none false false 0 []).dAns = some 212 ∧
    (ParseEquation Q parsedDegF "1 +".toList none).1 = EQERR_PARSE_NUMBEREXPECTED ∧
    (ParseEquation Q parsedDegF "1 +".toList none).2.pvoEquation = parsedDegF.pvoEquation ∧
    (ParseEquation Q parsedDegF "1 +".toList none).2.iEqnLength = parsedDegF.iEqnLength ∧
    (ParseEquation Q parsedDegF "1 +".toList none).2.pszSrcEquation =
      parsedDegF.pszSrcEquation ∧
    (ParseEquation Q parsedDegF "1 +".toList none).2.tgt.m_dScleTarget = 0 ∧
    (ParseEquation Q parsedDegF "1 +".toList none).2.tgt.m_szUnit = [] ∧
    (DoEquation Q (ParseEquation Q parsedDegF "1 +".toList none).2 none false false 0 []).dAns =
      some (37315 / 100) ∧
    (DoEquation Q (ParseEquation Q parsedDegF "1 +".toList none).2 none false false
      0 []).this.tgt.m_szUnit = "K".toList := by
  decide!

/-! ## Relational operators inside brackets -/

/-- C8, evaluation at the failing input: at top level `1<2>3` compiles to
`[1, 2, <, 3, >]`, but inside brackets `(1<2>3)` compiles to `[1, 2, 3, >, <]`: the test for
two relational codes compares the operator codes with the bracket offset still added. -/
theorem C8_relational_in_brackets :
    (ParseEquation Q fresh "1<2>3".toList none).1 = EQERR_NONE ∧
    (ParseEquation Q fresh "1<2>3".toList none).2.pvoEquation =
      [voD VOTYP_VAL 1 0, voD VOTYP_VAL 2 2, voI Q VOTYP_OP OP_LT 1, voD VOTYP_VAL 3 4,
       voI Q VOTYP_OP OP_GT 3] ∧
    (ParseEquation Q fresh "(1<2>3)".toList none).1 = EQERR_NONE ∧
    (ParseEquation Q fresh "(1<2>3)".toList none).2.pvoEquation =
      [voD VOTYP_VAL 1 1, voD VOTYP_VAL 2 3, voD VOTYP_VAL 3 5, voI Q VOTYP_OP OP_GT 4,
       voI Q VOTYP_OP OP_LT 2] := by
  decide!

/-! ## Repeated evaluation -/

/-- C10, evaluation at the failing input: two calls of `DoEquation` in a row on the compiled
`1 m` return the same value 1, but the unit text is `m` after the first call and `mm` after the
second: `_AnswerUnitString` appends to `m_szUnit`, which only `ParseEquation` clears. -/
theorem C10_unit_text_accumulates :
    (DoEquation Q parsedMetre none false false 0 []).ret = EQERR_NONE ∧
    (DoEquation Q parsedMetre none false false 0 []).dAns = some 1 ∧
    (DoEquation Q parsedMetre none false false 0 []).this.tgt.m_szUnit = "m".toList ∧
    (DoEquation Q (DoEquation Q parsedMetre none false false 0 []).this none false false
      0 []).ret = EQERR_NONE ∧
    (DoEquation Q (DoEquation Q parsedMetre none false false 0 []).this none false false
      0 []).dAns = some 1 ∧
    (DoEquation Q (DoEquation Q parsedMetre none false false 0 []).this none false false
      0 []).this.tgt.m_szUnit = "mm".toList := by
  decide!

/-! ## Precedence of multiplication over addition -/

theorem litStart_props (c : Char) (h : c ∈ litStart) :
    strchr EQ_VALIDCHAR c = false ∧ strchr EQ_ILLEGALCHAR c = false ∧ c ≠ '-' ∧ c ≠ '+' ∧
      c ≠ ' ' ∧ c ≠ '\x00' := by
  simp only [litStart, List.mem_cons, List.mem_singleton, List.not_mem_nil, or_false] at h
  rcases h with rfl | rfl | rfl | rfl | rfl | rfl | rfl | rfl | rfl | rfl | rfl <;> decide

theorem cstr_of_noNul (s : List Char) (h : ∀ c ∈ s, c ≠ '\x00') : cstr s = s := by
  unfold cstr
  rw [List.takeWhile_eq_self_iff]
  intro c hc
  have := h c hc
  simp [this]

theorem strFrom_zero (s : List Char) : strFrom s 0 = s := by
  simp [strFrom]

theorem strFrom_add (s x : List Char) (p : Int) (n : Nat) (hp : 0 ≤ p) (h : strFrom s p = x) :
    strFrom s (p + n) = x.drop n := by
  unfold strFrom at h ⊢
  have : (p + (n : Int)).toNat = p.toNat + n := by omega
  rw [this, ← h, List.drop_drop]

theorem charAt_of_strFrom (s : List Char) (p : Int) (c : Char) (r : List Char) (hp : 0 ≤ p)
    (h : strFrom s p = c :: r) : charAt s p = c := by
  unfold charAt
  rw [if_neg (by omega)]
  unfold strFrom at h
  have h2 : (s.drop p.toNat)[0]? = some c := by rw [h]; simp
  rw [List.getElem?_drop] at h2
  simp only [add_zero] at h2
  simp [List.getD_eq_getElem?_getD, h2]

theorem lt_length_of_strFrom (s : List Char) (p : Int) (c : Char) (r : List Char) (hp : 0 ≤ p)
    (h : strFrom s p = c :: r) : p < s.length := by
  unfold strFrom at h
  by_contra hn
  have : s.length ≤ p.toNat := by omega
  rw [List.drop_of_length_le this] at h
  exact absurd h (by simp)

theorem skipBlanks_notBlank (c : Char) (r : List Char) (p : Int) (h : c ≠ ' ') :
    skipBlanks (c :: r) p = p := by
  unfold skipBlanks
  simp [h]

theorem skipBlanks_blank (r : List Char) (p : Int) :
    skipBlanks (' ' :: r) p = skipBlanks r (p + 1) := by
  rw [skipBlanks]
  simp

theorem parseLoop_step (F : Dbl D) (szEqtn : List Char) (pszVars : Option (List (List Char)))
    (n : Nat) (s : PState D) (h : s.iThisPt < szEqtn.length ∧ s.iError = EQERR_NONE) :
    parseLoop F szEqtn pszVars (n + 1) s =
      parseLoop F szEqtn pszVars n (parseStep F szEqtn pszVars s) := by
  rw [parseLoop, if_pos h]

theorem parseLoop_done (F : Dbl D) (szEqtn : List Char) (pszVars : Option (List (List Char)))
    (n : Nat) (s : PState D) (h : ¬ (s.iThisPt < szEqtn.length ∧ s.iError = EQERR_NONE)) :
    parseLoop F szEqtn pszVars n s = s := by
  cases n with
  | zero => rfl
  | succ n => rw [parseLoop, if_neg h]

theorem skipBlanks_replicate (k : Nat) (c : Char) (r : List Char) (p : Int) (h : c ≠ ' ') :
    skipBlanks (List.replicate k ' ' ++ c :: r) p = p + k := by
  induction k generalizing p with
  | zero => simp [skipBlanks_notBlank c r p h]
  | succ k ih =>
    rw [List.replicate_succ, List.cons_append, skipBlanks_blank, ih]
    push_cast
    ring

theorem strFrom_skip (s : List Char) (p : Int) (k : Nat) (x : List Char) (hp : 0 ≤ p)
    (h : strFrom s p = List.replicate k ' ' ++ x) : strFrom s (p + k) = x := by
  rw [strFrom_add s _ p k hp h]
  simp

/-- A round of the scan loop at a numeric literal, after `k` blanks, in the state
`LOOKFOR_NUMBER`. -/
theorem parseStep_literal (F : Dbl D) (src : List Char) (vars : Option (List (List Char)))
    (st : Stacks D) (p B e : Int) (tg : Target D) (k : Nat) (l rest : List Char) (v : D)
    (hL : IsLiteral F l v) (hr : rest = [] ∨ ∃ t, rest = ' ' :: t) (hp : 0 ≤ p)
    (hs : strFrom src p = List.replicate k ' ' ++ (l ++ rest)) :
    parseStep F src vars ⟨st, LOOKFOR_NUMBER, p, B, EQERR_NONE, e, tg⟩ =
      ⟨{ st with vosParsEqn := voD VOTYP_VAL v (p + k) :: st.vosParsEqn }, LOOKFOR_BINARYOP,
        p + k + l.length, B, EQERR_NONE, e, tg⟩ := by
  obtain ⟨⟨c, t, rfl, hc⟩, _, hscan⟩ := hL
  obtain ⟨h1, h2, h3, h4, h5, _⟩ := litStart_props c hc
  have hsk : skipBlanks (strFrom src p) p = p + k := by
    rw [hs, List.cons_append, skipBlanks_replicate k c _ p h5]
  have hsf : strFrom src (p + k) = (c :: t) ++ rest := strFrom_skip src p k _ hp hs
  have hpk : (0 : Int) ≤ p + k := by omega
  have hch : charAt src (p + k) = c := charAt_of_strFrom src (p + k) c (t ++ rest) hpk hsf
  have hlt : p + k < src.length := lt_length_of_strFrom src (p + k) c (t ++ rest) hpk hsf
  unfold parseStep
  simp only [hsk]
  rw [if_neg (by omega), hch, h2]
  simp only [Bool.false_eq_true, if_false]
  unfold parseToken
  simp only [if_true]
  unfold parseNumber
  simp only [hch, h1, Bool.false_eq_true, if_false, if_neg h3, if_neg h4]
  unfold parseLiteral
  simp only [hsf, hscan rest hr]
  unfold parseAdvance
  simp only [EQERR_NONE, List.length_cons, and_true, Int.add_def]
  rw [if_neg (by push_cast; omega)]

theorem scanBinaryOp_sym (c : Char) (op : Int) (r : List Char)
    (h : IsAddSym c op ∨ IsMulSym c op) : scanBinaryOp (c :: r) = (op, 1) := by
  rcases h with (⟨rfl, rfl⟩ | ⟨rfl, rfl⟩) | (⟨rfl, rfl⟩ | ⟨rfl, rfl⟩) <;> rfl

theorem sym_props (c : Char) (op : Int) (h : IsAddSym c op ∨ IsMulSym c op) :
    c ≠ ' ' ∧ strchr EQ_ILLEGALCHAR c = false ∧ (c = '+' ∨ c = '-' ∨ c = '*' ∨ c = '/') ∧
      ¬ op = OP_NULL ∧ ¬ op = OP_SET ∧ ¬ op = OP_PSH := by
  rcases h with (⟨rfl, rfl⟩ | ⟨rfl, rfl⟩) | (⟨rfl, rfl⟩ | ⟨rfl, rfl⟩) <;> decide

theorem parseOperator_sym (F : Dbl D) (src : List Char) (st : Stacks D) (p B e : Int)
    (tg : Target D) (op : Int) (hsc : scanBinaryOp (strFrom src p) = (op, 1))
    (h1 : ¬ op = OP_NULL) (h2 : ¬ op = OP_SET) (h3 : ¬ op = OP_PSH) :
    parseOperator F src ⟨st, LOOKFOR_BINARYOP, p, B, EQERR_NONE, e, tg⟩ =
      (⟨⟨(_ProcessOps F st (op + B) B).vosParsEqn,
          (op + B) :: (_ProcessOps F st (op + B) B).isOps,
          p :: (_ProcessOps F st (op + B) B).isPos⟩,
        LOOKFOR_NUMBER, p, B, EQERR_NONE, e, tg⟩, 1) := by
  unfold parseOperator
  simp only [hsc, if_neg h1, h2, false_and, if_false]
  unfold opAssign opComma
  simp only [if_neg h2, if_neg h3]

/-- A round of the scan loop at one of the symbols `+`, `-`, `*`, `/`, after `k` blanks, in
the state `LOOKFOR_BINARYOP`. -/
theorem parseStep_operator (F : Dbl D) (src : List Char) (vars : Option (List (List Char)))
    (st : Stacks D) (p B e : Int) (tg : Target D) (k : Nat) (c : Char) (op : Int)
    (rest : List Char) (hc : IsAddSym c op ∨ IsMulSym c op) (hp : 0 ≤ p)
    (hs : strFrom src p = List.replicate k ' ' ++ c :: rest) :
    parseStep F src vars ⟨st, LOOKFOR_BINARYOP, p, B, EQERR_NONE, e, tg⟩ =
      ⟨⟨(_ProcessOps F st (op + B) B).vosParsEqn, (op + B) :: (_ProcessOps F st (op + B) B).isOps,
          (p + k) :: (_ProcessOps F st (op + B) B).isPos⟩,
        LOOKFOR_NUMBER, p + k + 1, B, EQERR_NONE, e, tg⟩ := by
  obtain ⟨h5, h2, h6, g1, g2, g3⟩ := sym_props c op hc
  have hsk : skipBlanks (strFrom src p) p = p + k := by
    rw [hs, skipBlanks_replicate k c _ p h5]
  have hsf : strFrom src (p + k) = c :: rest := strFrom_skip src p k _ hp hs
  have hpk : (0 : Int) ≤ p + k := by omega
  have hch : charAt src (p + k) = c := charAt_of_strFrom src (p + k) c rest hpk hsf
  have hlt : p + k < src.length := lt_length_of_strFrom src (p + k) c rest hpk hsf
  have h7 : c = '+' ∨ c = '-' ∨ c = '*' ∨ c = '/' ∨ c = '^' ∨ c = '<' ∨ c = '>' ∨ c = '!'
      ∨ c = '=' ∨ c = '|' ∨ c = '&' ∨ c = ',' := by
    rcases h6 with h | h | h | h <;> simp [h]
  unfold parseStep
  simp only [hsk]
  rw [if_neg (by omega), hch, h2]
  simp only [Bool.false_eq_true, if_false]
  unfold parseToken
  have hne : ¬ (LOOKFOR_BINARYOP = LOOKFOR_NUMBER) := by decide
  simp only [hne, if_false, if_true]
  unfold parseBinaryOp
  simp only [hch]
  rw [if_pos h7,
    parseOperator_sym F src st (p + k) B e tg op (by rw [hsf, scanBinaryOp_sym c op rest hc])
      g1 g2 g3]
  unfold parseAdvance
  simp [EQERR_NONE]

theorem poStep_plain (F : Dbl D) (out : List (VALOP D)) (o q : Int) (ops pos : List Int)
    (ho : o = OP_ADD ∨ o = OP_SUB ∨ o = OP_MUL ∨ o = OP_DIV) :
    poStep F ⟨out, o :: ops, q :: pos⟩ = ⟨voI F VOTYP_OP o q :: out, ops, pos⟩ := by
  rcases ho with rfl | rfl | rfl | rfl
  · simp [poStep, poSet, Pop, stripGE, OP_ADD, OP_SET, OP_NARG, OP_BRACKETOFFSET]
  · simp [poStep, poSet, Pop, stripGE, OP_SUB, OP_SET, OP_NARG, OP_BRACKETOFFSET]
  · simp [poStep, poSet, Pop, stripGE, OP_MUL, OP_SET, OP_NARG, OP_BRACKETOFFSET]
  · simp [poStep, poSet, Pop, stripGE, OP_DIV, OP_SET, OP_NARG, OP_BRACKETOFFSET]

theorem processOpsLoop_stop (F : Dbl D) (op B : Int) (n : Nat) (st : Stacks D)
    (h : poStop op B st) : processOpsLoop F op B n st = st := by
  cases n with
  | zero => rfl
  | succ n => rw [processOpsLoop, if_pos h]

theorem processOpsLoop_go (F : Dbl D) (op B : Int) (n : Nat) (st : Stacks D)
    (h : ¬ poStop op B st) :
    processOpsLoop F op B (n + 1) st = processOpsLoop F op B n (poStep F st) := by
  rw [processOpsLoop, if_neg h]

theorem ProcessOps_empty (F : Dbl D) (out : List (VALOP D)) (op : Int) :
    _ProcessOps F ⟨out, [], []⟩ op 0 = ⟨out, [], []⟩ :=
  processOpsLoop_stop F op 0 _ _ (Or.inl (by simp))

theorem ProcessOps_mul_on_add (F : Dbl D) (out : List (VALOP D)) (q a m : Int)
    (ha : a = OP_ADD ∨ a = OP_SUB) (hm : m = OP_MUL ∨ m = OP_DIV) :
    _ProcessOps F ⟨out, [a], [q]⟩ m 0 = ⟨out, [a], [q]⟩ :=
  processOpsLoop_stop F m 0 _ _ (Or.inr (Or.inl (by
    rcases ha with rfl | rfl <;> rcases hm with rfl | rfl <;>
      simp [Peek, OP_ADD, OP_SUB, OP_MUL, OP_DIV, OP_RELOPMIN, OP_RELOPMAX])))

theorem ProcessOps_add_on_mul (F : Dbl D) (out : List (VALOP D)) (q a m : Int)
    (ha : a = OP_ADD ∨ a = OP_SUB) (hm : m = OP_MUL ∨ m = OP_DIV) :
    _ProcessOps F ⟨out, [m], [q]⟩ a 0 = ⟨voI F VOTYP_OP m q :: out, [], []⟩ := by
  have h : ¬ poStop a 0 (⟨out, [m], [q]⟩ : Stacks D) := by
    rcases ha with rfl | rfl <;> rcases hm with rfl | rfl <;>
      simp [poStop, Peek, OP_ADD, OP_SUB, OP_MUL, OP_DIV, OP_PSH]
  unfold _ProcessOps
  rw [processOpsLoop_go F _ _ _ _ h,
    poStep_plain F out _ q [] [] (by rcases hm with rfl | rfl <;> simp)]
  exact processOpsLoop_stop F _ _ _ _ (Or.inl (by simp))

theorem ProcessOps_final_one (F : Dbl D) (out : List (VALOP D)) (q a : Int)
    (ha : a = OP_ADD ∨ a = OP_SUB) :
    _ProcessOps F ⟨out, [a], [q]⟩ (-1) 0 = ⟨voI F VOTYP_OP a q :: out, [], []⟩ := by
  have h : ¬ poStop (-1) 0 (⟨out, [a], [q]⟩ : Stacks D) := by
    rcases ha with rfl | rfl <;> simp [poStop, Peek, OP_ADD, OP_SUB, OP_PSH]
  unfold _ProcessOps
  rw [processOpsLoop_go F _ _ _ _ h,
    poStep_plain F out _ q [] [] (by rcases ha with rfl | rfl <;> simp)]
  exact processOpsLoop_stop F _ _ _ _ (Or.inl (by simp))

theorem ProcessOps_final_two (F : Dbl D) (out : List (VALOP D)) (q1 q2 a m : Int)
    (ha : a = OP_ADD ∨ a = OP_SUB) (hm : m = OP_MUL ∨ m = OP_DIV) :
    _ProcessOps F ⟨out, [m, a], [q1, q2]⟩ (-1) 0 =
      ⟨voI F VOTYP_OP a q2 :: voI F VOTYP_OP m q1 :: out, [], []⟩ := by
  have h1 : ¬ poStop (-1) 0 (⟨out, [m, a], [q1, q2]⟩ : Stacks D) := by
    rcases hm with rfl | rfl <;> simp [poStop, Peek, OP_MUL, OP_DIV, OP_PSH]
  have h2 : ¬ poStop (-1) 0 (⟨voI F VOTYP_OP m q1 :: out, [a], [q2]⟩ : Stacks D) := by
    rcases ha with rfl | rfl <;> simp [poStop, Peek, OP_ADD, OP_SUB, OP_PSH]
  unfold _ProcessOps
  rw [processOpsLoop_go F _ _ _ _ h1,
    poStep_plain F out _ q1 _ _ (by rcases hm with rfl | rfl <;> simp)]
  show processOpsLoop F (-1) 0 (1 + 1) _ = _
  rw [processOpsLoop_go F _ _ _ _ h2,
    poStep_plain F _ _ q2 [] [] (by rcases ha with rfl | rfl <;> simp)]
  exact processOpsLoop_stop F _ _ _ _ (Or.inl (by simp))

theorem strFrom_append (pre suf : List Char) (p : Int) (hp : p = pre.length) :
    strFrom (pre ++ suf) p = suf := by
  subst hp
  simp [strFrom]

theorem parseStep_literal_at (F : Dbl D) (src : List Char) (vars : Option (List (List Char)))
    (out : List (VALOP D)) (ops pos : List Int) (p B e : Int) (tg : Target D) (k : Nat)
    (l rest : List Char) (v : D) (r q : Int)
    (hL : IsLiteral F l v) (hr : rest = [] ∨ ∃ t, rest = ' ' :: t) (hp : 0 ≤ p)
    (hs : strFrom src p = List.replicate k ' ' ++ (l ++ rest))
    (h1 : r = p + k) (h2 : q = p + k + l.length) :
    parseStep F src vars ⟨⟨out, ops, pos⟩, LOOKFOR_NUMBER, p, B, EQERR_NONE, e, tg⟩ =
      ⟨⟨voD VOTYP_VAL v r :: out, ops, pos⟩, LOOKFOR_BINARYOP, q, B, EQERR_NONE, e, tg⟩ := by
  subst h1 h2
  exact parseStep_literal F src vars ⟨out, ops, pos⟩ p B e tg k l rest v hL hr hp hs

theorem parseStep_operator_at (F : Dbl D) (src : List Char) (vars : Option (List (List Char)))
    (st st2 : Stacks D) (p e : Int) (tg : Target D) (k : Nat) (c : Char) (op : Int)
    (rest : List Char) (r q : Int) (hc : IsAddSym c op ∨ IsMulSym c op) (hp : 0 ≤ p)
    (hs : strFrom src p = List.replicate k ' ' ++ c :: rest)
    (h1 : r = p + k) (h2 : q = p + k + 1) (h3 : _ProcessOps F st op 0 = st2) :
    parseStep F src vars ⟨st, LOOKFOR_BINARYOP, p, 0, EQERR_NONE, e, tg⟩ =
      ⟨⟨st2.vosParsEqn, op :: st2.isOps, r :: st2.isPos⟩, LOOKFOR_NUMBER, q, 0, EQERR_NONE, e,
        tg⟩ := by
  subst h1 h2 h3
  have h := parseStep_operator F src vars st p 0 e tg k c op rest hc hp hs
  rw [add_zero] at h
  exact h

theorem parseLoop_unroll (F : Dbl D) (src : List Char) (vars : Option (List (List Char)))
    (n : Nat) (s t : PState D) (h1 : s.iThisPt < src.length) (h2 : s.iError = EQERR_NONE)
    (h3 : parseStep F src vars s = t) :
    parseLoop F src vars (n + 1) s = parseLoop F src vars n t := by
  rw [parseLoop_step F src vars n s ⟨h1, h2⟩, h3]

theorem srcBin_length (la : List Char) (x : Char) (lb : List Char) (y : Char) (lc : List Char) :
    (srcBin la x lb y lc).length = la.length + lb.length + lc.length + 6 := by
  simp [srcBin]
  omega

/-- The scan of `a x b y c` for an additive `x` and a multiplicative `y`. -/
theorem parseScan_add_mul (F : Dbl D) (vars : Option (List (List Char)))
    (la lb lc : List Char) (x y : Char) (va vb vc : D) (a m : Int)
    (hx : IsAddSym x a) (hy : IsMulSym y m)
    (ha : IsLiteral F la va) (hb : IsLiteral F lb vb) (hc : IsLiteral F lc vc) :
    parseScan F (srcBin la x lb y lc) vars =
      ⟨⟨[voI F VOTYP_OP a (la.length + 1), voI F VOTYP_OP m (la.length + lb.length + 4),
          voD VOTYP_VAL vc (la.length + lb.length + 6), voD VOTYP_VAL vb (la.length + 3),
          voD VOTYP_VAL va 0], [], []⟩,
        LOOKFOR_BINARYOP, la.length + lb.length + lc.length + 6, 0, EQERR_NONE,
        la.length + lb.length + lc.length + 6, ⟨[], uUnitZero F, F.lit 0, F.lit 0⟩⟩ := by
  have hA : a = OP_ADD ∨ a = OP_SUB := by rcases hx with ⟨_, h⟩ | ⟨_, h⟩ <;> simp [h]
  have hM : m = OP_MUL ∨ m = OP_DIV := by rcases hy with ⟨_, h⟩ | ⟨_, h⟩ <;> simp [h]
  have hlen := srcBin_length la x lb y lc
  have e1 := parseStep_literal_at F (srcBin la x lb y lc) vars [] [] [] 0 0 0
    ⟨[], uUnitZero F, F.lit 0, F.lit 0⟩ 0 la
    (' ' :: x :: ' ' :: (lb ++ (' ' :: y :: ' ' :: lc))) va 0 la.length ha (Or.inr ⟨_, rfl⟩)
    le_rfl (by rw [strFrom_zero]; rfl) (by simp) (by simp)
  have e2 := parseStep_operator_at F (srcBin la x lb y lc) vars ⟨[voD VOTYP_VAL va 0], [], []⟩ _
    la.length 0 ⟨[], uUnitZero F, F.lit 0, F.lit 0⟩ 1 x a
    (' ' :: (lb ++ (' ' :: y :: ' ' :: lc))) (la.length + 1) (la.length + 2) (Or.inl hx)
    (by omega) (strFrom_append la _ _ rfl) rfl (by omega) (ProcessOps_empty F _ a)
  have e3 := parseStep_literal_at F (srcBin la x lb y lc) vars [voD VOTYP_VAL va 0] [a]
    [la.length + 1] (la.length + 2) 0 0 ⟨[], uUnitZero F, F.lit 0, F.lit 0⟩ 1 lb
    (' ' :: y :: ' ' :: lc) vb (la.length + 3) (la.length + lb.length + 3) hb
    (Or.inr ⟨_, rfl⟩) (by omega)
    (by
      have h := strFrom_append (la ++ [' ', x]) (' ' :: (lb ++ (' ' :: y :: ' ' :: lc)))
        (la.length + 2) (by simp)
      simpa [srcBin] using h)
    (by push_cast; omega) (by push_cast; omega)
  have e4 := parseStep_operator_at F (srcBin la x lb y lc) vars
    ⟨[voD VOTYP_VAL vb (la.length + 3), voD VOTYP_VAL va 0], [a], [la.length + 1]⟩ _
    (la.length + lb.length + 3) 0 ⟨[], uUnitZero F, F.lit 0, F.lit 0⟩ 1 y m
    (' ' :: lc) (la.length + lb.length + 4) (la.length + lb.length + 5) (Or.inr hy)
    (by omega)
    (by
      have h := strFrom_append (la ++ ' ' :: x :: ' ' :: lb) (' ' :: y :: ' ' :: lc)
        (la.length + lb.length + 3) (by simp; omega)
      simpa [srcBin] using h)
    (by push_cast; omega) (by push_cast; omega) (ProcessOps_mul_on_add F _ _ a m hA hM)
  have e5 := parseStep_literal_at F (srcBin la x lb y lc) vars
    [voD VOTYP_VAL vb (la.length + 3), voD VOTYP_VAL va 0] [m, a]
    [la.length + lb.length + 4, la.length + 1] (la.length + lb.length + 5) 0 0
    ⟨[], uUnitZero F, F.lit 0, F.lit 0⟩ 1 lc [] vc (la.length + lb.length + 6)
    (la.length + lb.length + lc.length + 6) hc (Or.inl rfl) (by omega)
    (by
      have h := strFrom_append (la ++ ' ' :: x :: ' ' :: (lb ++ [' ', y])) (' ' :: lc)
        (la.length + lb.length + 5) (by simp; omega)
      simpa [srcBin] using h)
    (by push_cast; omega) (by push_cast; omega)
  have hf : (srcBin la x lb y lc).length + 1
      = (la.length + lb.length + lc.length + 2) + 1 + 1 + 1 + 1 + 1 := by omega
  unfold parseScan
  rw [hf, parseInit,
    parseLoop_unroll F _ vars _ _ _ (by simp [hlen]; omega) rfl e1,
    parseLoop_unroll F _ vars _ _ _ (by simp [hlen]; omega) rfl e2,
    parseLoop_unroll F _ vars _ _ _ (by simp [hlen]; omega) rfl e3,
    parseLoop_unroll F _ vars _ _ _ (by simp [hlen]; omega) rfl e4,
    parseLoop_unroll F _ vars _ _ _ (by simp [hlen]; omega) rfl e5,
    parseLoop_done F _ vars _ _ (by simp [hlen])]
  unfold parseFinish
  simp only [ProcessOps_final_two F _ _ _ a m hA hM]
  simp [EQERR_NONE, LOOKFOR_BINARYOP, LOOKFOR_BRACKET, LOOKFOR_NUMBER]
/-- The scan of `a x b y c` for a multiplicative `x` and an additive `y`. -/
theorem parseScan_mul_add (F : Dbl D) (vars : Option (List (List Char)))
    (la lb lc : List Char) (x y : Char) (va vb vc : D) (a m : Int)
    (hx : IsMulSym x m) (hy : IsAddSym y a)
    (ha : IsLiteral F la va) (hb : IsLiteral F lb vb) (hc : IsLiteral F lc vc) :
    parseScan F (srcBin la x lb y lc) vars =
      ⟨⟨[voI F VOTYP_OP a (la.length + lb.length + 4),
          voD VOTYP_VAL vc (la.length + lb.length + 6), voI F VOTYP_OP m (la.length + 1),
          voD VOTYP_VAL vb (la.length + 3), voD VOTYP_VAL va 0], [], []⟩,
        LOOKFOR_BINARYOP, la.length + lb.length + lc.length + 6, 0, EQERR_NONE,
        la.length + lb.length + lc.length + 6, ⟨[], uUnitZero F, F.lit 0, F.lit 0⟩⟩ := by
  have hA : a = OP_ADD ∨ a = OP_SUB := by rcases hy with ⟨_, h⟩ | ⟨_, h⟩ <;> simp [h]
  have hM : m = OP_MUL ∨ m = OP_DIV := by rcases hx with ⟨_, h⟩ | ⟨_, h⟩ <;> simp [h]
  have hlen := srcBin_length la x lb y lc
  have e1 := parseStep_literal_at F (srcBin la x lb y lc) vars [] [] [] 0 0 0
    ⟨[], uUnitZero F, F.lit 0, F.lit 0⟩ 0 la
    (' ' :: x :: ' ' :: (lb ++ (' ' :: y :: ' ' :: lc))) va 0 la.length ha (Or.inr ⟨_, rfl⟩)
    le_rfl (by rw [strFrom_zero]; rfl) (by simp) (by simp)
  have e2 := parseStep_operator_at F (srcBin la x lb y lc) vars ⟨[voD VOTYP_VAL va 0], [], []⟩ _
    la.length 0 ⟨[], uUnitZero F, F.lit 0, F.lit 0⟩ 1 x m
    (' ' :: (lb ++ (' ' :: y :: ' ' :: lc))) (la.length + 1) (la.length + 2) (Or.inr hx)
    (by omega) (strFrom_append la _ _ rfl) rfl (by omega) (ProcessOps_empty F _ m)
  have e3 := parseStep_literal_at F (srcBin la x lb y lc) vars [voD VOTYP_VAL va 0] [m]
    [la.length + 1] (la.length + 2) 0 0 ⟨[], uUnitZero F, F.lit 0, F.lit 0⟩ 1 lb
    (' ' :: y :: ' ' :: lc) vb (la.length + 3) (la.length + lb.length + 3) hb
    (Or.inr ⟨_, rfl⟩) (by omega)
    (by
      have h := strFrom_append (la ++ [' ', x]) (' ' :: (lb ++ (' ' :: y :: ' ' :: lc)))
        (la.length + 2) (by simp)
      simpa [srcBin] using h)
    (by push_cast; omega) (by push_cast; omega)
  have e4 := parseStep_operator_at F (srcBin la x lb y lc) vars
    ⟨[voD VOTYP_VAL vb (la.length + 3), voD VOTYP_VAL va 0], [m], [la.length + 1]⟩ _
    (la.length + lb.length + 3) 0 ⟨[], uUnitZero F, F.lit 0, F.lit 0⟩ 1 y a
    (' ' :: lc) (la.length + lb.length + 4) (la.length + lb.length + 5) (Or.inl hy)
    (by omega)
    (by
      have h := strFrom_append (la ++ ' ' :: x :: ' ' :: lb) (' ' :: y :: ' ' :: lc)
        (la.length + lb.length + 3) (by simp; omega)
      simpa [srcBin] using h)
    (by push_cast; omega) (by push_cast; omega) (ProcessOps_add_on_mul F _ _ a m hA hM)
  have e5 := parseStep_literal_at F (srcBin la x lb y lc) vars
    [voI F VOTYP_OP m (la.length + 1), voD VOTYP_VAL vb (la.length + 3), voD VOTYP_VAL va 0]
    [a] [la.length + lb.length + 4] (la.length + lb.length + 5) 0 0
    ⟨[], uUnitZero F, F.lit 0, F.lit 0⟩ 1 lc [] vc (la.length + lb.length + 6)
    (la.length + lb.length + lc.length + 6) hc (Or.inl rfl) (by omega)
    (by
      have h := strFrom_append (la ++ ' ' :: x :: ' ' :: (lb ++ [' ', y])) (' ' :: lc)
        (la.length + lb.length + 5) (by simp; omega)
      simpa [srcBin] using h)
    (by push_cast; omega) (by push_cast; omega)
  have hf : (srcBin la x lb y lc).length + 1
      = (la.length + lb.length + lc.length + 2) + 1 + 1 + 1 + 1 + 1 := by omega
  unfold parseScan
  rw [hf, parseInit,
    parseLoop_unroll F _ vars _ _ _ (by simp [hlen]; omega) rfl e1,
    parseLoop_unroll F _ vars _ _ _ (by simp [hlen]; omega) rfl e2,
    parseLoop_unroll F _ vars _ _ _ (by simp [hlen]; omega) rfl e3,
    parseLoop_unroll F _ vars _ _ _ (by simp [hlen]; omega) rfl e4,
    parseLoop_unroll F _ vars _ _ _ (by simp [hlen]; omega) rfl e5,
    parseLoop_done F _ vars _ _ (by simp [hlen])]
  unfold parseFinish
  simp only [ProcessOps_final_one F _ _ a hA]
  simp [EQERR_NONE, LOOKFOR_BINARYOP, LOOKFOR_BRACKET, LOOKFOR_NUMBER]

theorem srcBin_cstr (F : Dbl D) (la lb lc : List Char) (x y : Char) (va vb vc : D) (o1 o2 : Int)
    (hx : IsAddSym x o1 ∨ IsMulSym x o1) (hy : IsAddSym y o2 ∨ IsMulSym y o2)
    (ha : IsLiteral F la va) (hb : IsLiteral F lb vb) (hc : IsLiteral F lc vc) :
    cstr (srcBin la x lb y lc) = srcBin la x lb y lc := by
  apply cstr_of_noNul
  have hx0 : x ≠ '\x00' := by
    rcases hx with (⟨rfl, _⟩ | ⟨rfl, _⟩) | (⟨rfl, _⟩ | ⟨rfl, _⟩) <;> decide
  have hy0 : y ≠ '\x00' := by
    rcases hy with (⟨rfl, _⟩ | ⟨rfl, _⟩) | (⟨rfl, _⟩ | ⟨rfl, _⟩) <;> decide
  intro c hm
  simp only [srcBin, List.mem_append, List.mem_cons] at hm
  rcases hm with h | rfl | rfl | rfl | h | rfl | rfl | rfl | h
  · exact ha.2.1 c h
  · decide
  · exact hx0
  · decide
  · exact hb.2.1 c h
  · decide
  · exact hy0
  · decide
  · exact hc.2.1 c h

theorem ParseEquation_of_scan (F : Dbl D) (this : Instance D) (src : List Char)
    (vars : Option (List (List Char))) (t1 t2 t3 t4 t5 : VALOP D) (p : Int) (tg : Target D)
    (hsrc : cstr src = src)
    (hscan : parseScan F src vars =
      ⟨⟨[t5, t4, t3, t2, t1], [], []⟩, LOOKFOR_BINARYOP, p, 0, EQERR_NONE, p, tg⟩)
    (h1 : isPSH t1 = false) (h2 : isPSH t2 = false) (h3 : isPSH t3 = false)
    (h4 : isPSH t4 = false) (h5 : isPSH t5 = false) :
    (ParseEquation F this src vars).1 = EQERR_NONE ∧
      (ParseEquation F this src vars).2.pvoEquation = [t1, t2, t3, t4, t5] := by
  have hd : dropPSH [t5, t4, t3, t2, t1] = [t5, t4, t3, t2, t1] := by
    simp [dropPSH, h1, h2, h3, h4, h5]
  have hn : countNotPSH F [t5, t4, t3, t2, t1] = 5 := by
    rw [countNotPSH_cons]
    have hd4 : dropPSH [t4, t3, t2, t1] = [t4, t3, t2, t1] := by
      simp [dropPSH, h1, h2, h3, h4]
    rw [hd4]
    rfl
  have hcp := copyEquation_eq F [t5, t4, t3, t2, t1]
  rw [hd, hn] at hcp
  unfold ParseEquation
  simp only [hsrc, hscan, ne_eq, not_true_eq_false, if_false]
  rw [hn, hcp]
  simp

theorem IsLiteral_Q_123 : IsLiteral Q ['1'] 1 ∧ IsLiteral Q ['2'] 2 ∧ IsLiteral Q ['3'] 3 := by
  refine ⟨⟨⟨_, _, rfl, by decide⟩, by decide, ?_⟩, ⟨⟨_, _, rfl, by decide⟩, by decide, ?_⟩,
    ⟨⟨_, _, rfl, by decide⟩, by decide, ?_⟩⟩
  all_goals
    rintro rest (rfl | ⟨t, rfl⟩)
    · decide!
    · simp [Q, ratDbl, scanNat, scanDigits]

/-- C7: multiplication and division bind tighter than addition and subtraction.  For numeric
literals `la`, `lb`, `lc` of values `va`, `vb`, `vc`, a symbol `x` of `+`, `-` and a symbol `y`
of `*`, `/`, on every object and with every variable list, the source `la x lb y lc` parses
with `EQERR_NONE` to the tokens `[va, vb, vc, y, x]` and the source `la y lb x lc` to
`[va, vb, y, vc, x]`; and in exact arithmetic `1 + 2 * 3` parses and evaluates with
`EQERR_NONE` to 7, leaving the unit text empty. -/
theorem C7_mul_binds_tighter (F : Dbl D) (this : Instance D)
    (vars : Option (List (List Char))) (la lb lc : List Char) (x y : Char) (va vb vc : D)
    (a m : Int) (hx : IsAddSym x a) (hy : IsMulSym y m)
    (ha : IsLiteral F la va) (hb : IsLiteral F lb vb) (hc : IsLiteral F lc vc) :
    ((ParseEquation F this (srcBin la x lb y lc) vars).1 = EQERR_NONE ∧
      (ParseEquation F this (srcBin la x lb y lc) vars).2.pvoEquation =
        [voD VOTYP_VAL va 0, voD VOTYP_VAL vb (la.length + 3),
          voD VOTYP_VAL vc (la.length + lb.length + 6),
          voI F VOTYP_OP m (la.length + lb.length + 4), voI F VOTYP_OP a (la.length + 1)]) ∧
    ((ParseEquation F this (srcBin la y lb x lc) vars).1 = EQERR_NONE ∧
      (ParseEquation F this (srcBin la y lb x lc) vars).2.pvoEquation =
        [voD VOTYP_VAL va 0, voD VOTYP_VAL vb (la.length + 3),
          voI F VOTYP_OP m (la.length + 1), voD VOTYP_VAL vc (la.length + lb.length + 6),
          voI F VOTYP_OP a (la.length + lb.length + 4)]) ∧
    (ParseEquation Q fresh "1 + 2 * 3".toList none).1 = EQERR_NONE ∧
    (DoEquation Q (ParseEquation Q fresh "1 + 2 * 3".toList none).2 none false false
      0 []).ret = EQERR_NONE ∧
    (DoEquation Q (ParseEquation Q fresh "1 + 2 * 3".toList none).2 none false false
      0 []).dAns = some 7 ∧
    (DoEquation Q (ParseEquation Q fresh "1 + 2 * 3".toList none).2 none false false
      0 []).this.tgt.m_szUnit = [] := by
  have hA : a = OP_ADD ∨ a = OP_SUB := by rcases hx with ⟨_, h⟩ | ⟨_, h⟩ <;> simp [h]
  have hM : m = OP_MUL ∨ m = OP_DIV := by rcases hy with ⟨_, h⟩ | ⟨_, h⟩ <;> simp [h]
  have pa : isPSH (voI F VOTYP_OP a (la.length + 1)) = false
      ∧ isPSH (voI F VOTYP_OP a (la.length + lb.length + 4)) = false := by
    rcases hA with rfl | rfl <;> simp [isPSH, voI, OP_ADD, OP_SUB, OP_PSH]
  have pm : isPSH (voI F VOTYP_OP m (la.length + 1)) = false
      ∧ isPSH (voI F VOTYP_OP m (la.length + lb.length + 4)) = false := by
    rcases hM with rfl | rfl <;> simp [isPSH, voI, OP_MUL, OP_DIV, OP_PSH]
  have pv : ∀ (v : D) (p : Int), isPSH (voD VOTYP_VAL v p) = false := by
    intro v p
    simp [isPSH, voD, VOTYP_VAL, VOTYP_OP]
  refine ⟨?_, ?_, ?_⟩
  · exact ParseEquation_of_scan F this _ vars _ _ _ _ _ _ _
      (srcBin_cstr F la lb lc x y va vb vc a m (Or.inl hx) (Or.inr hy) ha hb hc)
      (parseScan_add_mul F vars la lb lc x y va vb vc a m hx hy ha hb hc)
      (pv _ _) (pv _ _) (pv _ _) pm.2 pa.1
  · exact ParseEquation_of_scan F this _ vars _ _ _ _ _ _ _
      (srcBin_cstr F la lb lc y x va vb vc m a (Or.inr hy) (Or.inl hx) ha hb hc)
      (parseScan_mul_add F vars la lb lc y x va vb vc a m hy hx ha hb hc)
      (pv _ _) (pv _ _) pm.1 (pv _ _) pa.2
  · decide!

theorem C7_witness :
    IsAddSym '+' OP_ADD ∧ IsMulSym '*' OP_MUL ∧
    (IsLiteral Q ['1'] 1 ∧ IsLiteral Q ['2'] 2 ∧ IsLiteral Q ['3'] 3) ∧
    ((ParseEquation Q fresh (srcBin ['1'] '+' ['2'] '*' ['3']) none).1 = EQERR_NONE ∧
      (ParseEquation Q fresh (srcBin ['1'] '+' ['2'] '*' ['3']) none).2.pvoEquation =
        [voD VOTYP_VAL 1 0, voD VOTYP_VAL 2 4, voD VOTYP_VAL 3 8, voI Q VOTYP_OP OP_MUL 6,
          voI Q VOTYP_OP OP_ADD 2]) ∧
    ((ParseEquation Q fresh (srcBin ['1'] '*' ['2'] '+' ['3']) none).1 = EQERR_NONE ∧
      (ParseEquation Q fresh (srcBin ['1'] '*' ['2'] '+' ['3']) none).2.pvoEquation =
        [voD VOTYP_VAL 1 0, voD VOTYP_VAL 2 4, voI Q VOTYP_OP OP_MUL 2, voD VOTYP_VAL 3 8,
          voI Q VOTYP_OP OP_ADD 6]) :=
  ⟨Or.inl ⟨rfl, rfl⟩, Or.inl ⟨rfl, rfl⟩, IsLiteral_Q_123,
    (C7_mul_binds_tighter Q fresh none ['1'] ['2'] ['3'] '+' '*' 1 2 3 OP_ADD OP_MUL
      (Or.inl ⟨rfl, rfl⟩) (Or.inl ⟨rfl, rfl⟩) IsLiteral_Q_123.1 IsLiteral_Q_123.2.1
      IsLiteral_Q_123.2.2).1,
    (C7_mul_binds_tighter Q fresh none ['1'] ['2'] ['3'] '+' '*' 1 2 3 OP_ADD OP_MUL
      (Or.inl ⟨rfl, rfl⟩) (Or.inl ⟨rfl, rfl⟩) IsLiteral_Q_123.1 IsLiteral_Q_123.2.1
      IsLiteral_Q_123.2.2).2.1⟩

/-! ## Evaluation without assignment -/

theorem evalBinary_dVar (F : Dbl D) (uOp : Int) (e : EState D) :
    (evalBinary F uOp e).dVar = e.dVar ∧ (evalBinary F uOp e).iThisPt = e.iThisPt := by
  unfold evalBinary
  dsimp only
  by_cases h1 : uOp = OP_PSH
  · rw [if_pos h1]; exact ⟨rfl, rfl⟩
  · rw [if_neg h1]
    by_cases h2 : uOp = OP_POP
    · rw [if_pos h2]; exact ⟨rfl, rfl⟩
    · rw [if_neg h2]
      split <;> exact ⟨rfl, rfl⟩

theorem evalUnary_dVar (F : Dbl D) (o : Int) (e : EState D) :
    (evalUnary F o e).dVar = e.dVar ∧ (evalUnary F o e).iThisPt = e.iThisPt := by
  unfold evalUnary
  dsimp only
  split <;> exact ⟨rfl, rfl⟩

theorem evalMaxMin_dVar (F : Dbl D) (isMax : Bool) (n : Nat) (e : EState D) :
    (evalMaxMin F isMax n e).dVar = e.dVar ∧ (evalMaxMin F isMax n e).iThisPt = e.iThisPt := by
  induction n generalizing e with
  | zero => exact ⟨rfl, rfl⟩
  | succ n ih =>
    rw [evalMaxMin]
    exact ih _
theorem evalNArg_frame (F : Dbl D) (pvo : List (VALOP D)) (len : Int) (o : Int) (e : EState D) :
    (evalNArg F pvo len o e).dVar = e.dVar ∧
    ((evalNArg F pvo len o e).iThisPt = e.iThisPt ∨
      ((evalNArg F pvo len o e).iThisPt = e.iThisPt + 1 ∧
        ((evalNArg F pvo len o e).iError ≠ EQERR_NONE ∨
          (pvo.getD (e.iThisPt + 1).toNat (voNul F)).uTyp = VOTYP_NARGC))) := by
  unfold evalNArg
  dsimp only
  by_cases h1 : nargArgc o = 2
  · rw [if_pos h1]
    split_ifs <;> exact ⟨rfl, Or.inl rfl⟩
  · rw [if_neg h1]
    by_cases h2 : nargArgc o < 0
    · rw [if_pos h2]
      by_cases h3 : e.iThisPt + 1 ≥ len
      · rw [if_pos h3]
        exact ⟨rfl, Or.inr ⟨rfl, Or.inl (show EQERR_EVAL_STACKUNDERFLOW ≠ EQERR_NONE by decide)⟩⟩
      · rw [if_neg h3]
        by_cases h4 : (pvo.getD (e.iThisPt + 1).toNat (voNul F)).uTyp ≠ VOTYP_NARGC
        · rw [if_pos h4]
          exact ⟨rfl, Or.inr ⟨rfl, Or.inl (show EQERR_EVAL_UNKNOWNNARGOP ≠ EQERR_NONE by decide)⟩⟩
        · rw [if_neg h4]
          have h5 : (pvo.getD (e.iThisPt + 1).toNat (voNul F)).uTyp = VOTYP_NARGC := by
            simpa using h4
          by_cases h6 : o = OP_NARG_MAX ∨ o = OP_NARG_MIN
          · rw [if_pos h6]
            simp only [pushResult]
            exact ⟨(evalMaxMin_dVar F _ _ _).1, Or.inr ⟨(evalMaxMin_dVar F _ _ _).2, Or.inr h5⟩⟩
          · rw [if_neg h6]
            exact ⟨rfl, Or.inr ⟨rfl, Or.inr h5⟩⟩
    · rw [if_neg h2]
      split_ifs <;> exact ⟨rfl, Or.inl rfl⟩

theorem evalToken_frame (F : Dbl D) (pvo : List (VALOP D)) (len : Int) (e : EState D) :
    (evalToken F pvo len false e).dVar = e.dVar ∧
    ((evalToken F pvo len false e).iThisPt = e.iThisPt ∨
      ((evalToken F pvo len false e).iThisPt = e.iThisPt + 1 ∧
        ((evalToken F pvo len false e).iError ≠ EQERR_NONE ∨
          (pvo.getD (e.iThisPt + 1).toNat (voNul F)).uTyp = VOTYP_NARGC))) := by
  unfold evalToken
  dsimp only
  by_cases h1 : (pvo.getD e.iThisPt.toNat (voNul F)).uTyp = VOTYP_VAL ∨
      (pvo.getD e.iThisPt.toNat (voNul F)).uTyp = VOTYP_PREFIX
  · rw [if_pos h1]; exact ⟨rfl, Or.inl rfl⟩
  rw [if_neg h1]
  by_cases h2 : (pvo.getD e.iThisPt.toNat (voNul F)).uTyp = VOTYP_REF
  · rw [if_pos h2]
    cases hd : e.dVar with
    | none => exact ⟨rfl, Or.inl rfl⟩
    | some dv => exact ⟨rfl, Or.inl rfl⟩
  rw [if_neg h2]
  by_cases h3 : (pvo.getD e.iThisPt.toNat (voNul F)).uTyp = VOTYP_UNIT
  · rw [if_pos h3]; exact ⟨rfl, Or.inl rfl⟩
  rw [if_neg h3]
  by_cases h4 : (pvo.getD e.iThisPt.toNat (voNul F)).uTyp = VOTYP_OP
  · rw [if_pos h4]
    by_cases h5 : (pvo.getD e.iThisPt.toNat (voNul F)).iVal = OP_SET
    · rw [if_pos h5]
      cases hd : e.dVar with
      | none => exact ⟨rfl, Or.inl rfl⟩
      | some dv => simp
    · rw [if_neg h5]
      by_cases h6 : (pvo.getD e.iThisPt.toNat (voNul F)).iVal < OP_UNARY
      · rw [if_pos h6]
        exact ⟨(evalBinary_dVar F (pvo.getD e.iThisPt.toNat (voNul F)).iVal e).1,
          Or.inl (evalBinary_dVar F (pvo.getD e.iThisPt.toNat (voNul F)).iVal e).2⟩
      · rw [if_neg h6]
        by_cases h7 : (pvo.getD e.iThisPt.toNat (voNul F)).iVal < OP_NARG
        · rw [if_pos h7]
          exact ⟨(evalUnary_dVar F ((pvo.getD e.iThisPt.toNat (voNul F)).iVal - OP_UNARY) e).1,
            Or.inl (evalUnary_dVar F ((pvo.getD e.iThisPt.toNat (voNul F)).iVal - OP_UNARY) e).2⟩
        · rw [if_neg h7]
          exact evalNArg_frame F pvo len ((pvo.getD e.iThisPt.toNat (voNul F)).iVal - OP_NARG) e
  · rw [if_neg h4]; exact ⟨rfl, Or.inl rfl⟩

theorem evalToken_set_refused (F : Dbl D) (pvo : List (VALOP D)) (len : Int) (e : EState D)
    (h1 : (pvo.getD e.iThisPt.toNat (voNul F)).uTyp = VOTYP_OP)
    (h2 : (pvo.getD e.iThisPt.toNat (voNul F)).iVal = OP_SET) :
    (evalToken F pvo len false e).iError = EQERR_EVAL_ASSIGNNOTALLOWED := by
  unfold evalToken
  simp only [h1, h2, VOTYP_OP, VOTYP_VAL, VOTYP_PREFIX, VOTYP_REF, VOTYP_UNIT,
    show ¬ ((2 : Nat) = 1 ∨ (2 : Nat) = 6) by decide, show ¬ ((2 : Nat) = 3) by decide,
    show ¬ ((2 : Nat) = 4) by decide, if_false, if_true]
  split <;> rfl
theorem evalLoop_dVar (F : Dbl D) (pvo : List (VALOP D)) (len : Int) (fuel : Nat)
    (e : EState D) : (evalLoop F pvo len false fuel e).dVar = e.dVar := by
  induction fuel generalizing e with
  | zero => rfl
  | succ n ih =>
    rw [evalLoop]
    split_ifs with h
    · rw [ih]
      exact (evalToken_frame F pvo len e).1
    · rfl

theorem evalLoop_error (F : Dbl D) (pvo : List (VALOP D)) (len : Int) (allow : Bool)
    (fuel : Nat) (e : EState D) (h : e.iError ≠ EQERR_NONE) :
    evalLoop F pvo len allow fuel e = e := by
  cases fuel with
  | zero => rfl
  | succ n => rw [evalLoop, if_neg (fun hc => h hc.2)]

theorem evalLoop_set_error (F : Dbl D) (pvo : List (VALOP D)) (len : Int) (i : Int)
    (h1 : (pvo.getD i.toNat (voNul F)).uTyp = VOTYP_OP)
    (h2 : (pvo.getD i.toNat (voNul F)).iVal = OP_SET) (hi : i < len) (fuel : Nat) :
    ∀ e : EState D, 0 ≤ e.iThisPt → e.iThisPt ≤ i → i + 1 ≤ e.iThisPt + fuel →
      (evalLoop F pvo len false fuel e).iError ≠ EQERR_NONE := by
  induction fuel with
  | zero =>
    intro e h0 hle hf
    simp at hf
    omega
  | succ n ih =>
    intro e h0 hle hf
    by_cases he : e.iError = EQERR_NONE
    · rw [evalLoop, if_pos ⟨by omega, he⟩]
      by_cases heq : e.iThisPt = i
      · have hs := evalToken_set_refused F pvo len e (by rw [heq]; exact h1) (by rw [heq]; exact h2)
        rw [evalLoop_error]
        · simp only [hs]; decide
        · simp only [hs]; decide
      · obtain ⟨-, hp | ⟨hp, hq⟩⟩ := evalToken_frame F pvo len e
        · apply ih
          · simp only [hp]; omega
          · simp only [hp]; omega
          · simp only [hp]; push_cast at hf; omega
        · by_cases hne : (evalToken F pvo len false e).iError = EQERR_NONE
          · have hq2 : (pvo.getD (e.iThisPt + 1).toNat (voNul F)).uTyp = VOTYP_NARGC := by
              rcases hq with hq | hq
              · exact absurd hne hq
              · exact hq
            have hne2 : e.iThisPt + 1 ≠ i := by
              intro hc
              rw [hc, h1] at hq2
              exact absurd hq2 (by decide)
            apply ih
            · simp only [hp]; omega
            · simp only [hp]; omega
            · simp only [hp]; push_cast at hf; omega
          · rw [evalLoop_error]
            · exact hne
            · exact hne
    · rw [evalLoop_error _ _ _ _ _ _ he]
      exact he

theorem DoEquation_ret_of_walk (F : Dbl D) (this : Instance D) (dVar : Option (List D))
    (allow derived : Bool) (dVal0 : D) (uUnit0 : UNITBASE D) (h0 : 0 < this.iEqnLength)
    (h : (evalWalk F this dVar allow dVal0 uUnit0).iError ≠ EQERR_NONE) :
    (DoEquation F this dVar allow derived dVal0 uUnit0).ret =
      (evalWalk F this dVar allow dVal0 uUnit0).iError := by
  unfold DoEquation
  rw [if_neg (by omega)]
  simp only [h, false_and, if_false, ne_eq, not_false_eq_true, if_true]

theorem DoEquation_dVar (F : Dbl D) (this : Instance D) (dVar : Option (List D))
    (allow derived : Bool) (dVal0 : D) (uUnit0 : UNITBASE D) :
    (DoEquation F this dVar allow derived dVal0 uUnit0).dVar = dVar ∨
    (DoEquation F this dVar allow derived dVal0 uUnit0).dVar =
      (evalWalk F this dVar allow dVal0 uUnit0).dVar := by
  unfold DoEquation
  dsimp only
  split_ifs <;> first | exact Or.inl rfl | exact Or.inr rfl

/-- C11 (amended): with `tfAllowAssign` false the variable array that `DoEquation` hands back
is the one it was given, for every object; a token walk that reaches an `OP_SET` token sets
`EQERR_EVAL_ASSIGNNOTALLOWED`; and an object whose token array holds an `OP_SET` token below
`iEqnLength` never returns `EQERR_NONE`. -/
theorem C11_no_assign_is_pure (F : Dbl D) (this : Instance D) (dVar : Option (List D))
    (tfAllowDerived : Bool) (dVal0 : D) (uUnit0 : UNITBASE D) :
    (DoEquation F this dVar false tfAllowDerived dVal0 uUnit0).dVar = dVar ∧
    (∀ e : EState D,
      (this.pvoEquation.getD e.iThisPt.toNat (voNul F)).uTyp = VOTYP_OP →
      (this.pvoEquation.getD e.iThisPt.toNat (voNul F)).iVal = OP_SET →
      (evalToken F this.pvoEquation this.iEqnLength false e).iError =
        EQERR_EVAL_ASSIGNNOTALLOWED) ∧
    (∀ i : Nat, (i : Int) < this.iEqnLength →
      (this.pvoEquation.getD i (voNul F)).uTyp = VOTYP_OP →
      (this.pvoEquation.getD i (voNul F)).iVal = OP_SET →
      (DoEquation F this dVar false tfAllowDerived dVal0 uUnit0).ret ≠ EQERR_NONE) := by
  refine ⟨?_, ?_, ?_⟩
  · rcases DoEquation_dVar F this dVar false tfAllowDerived dVal0 uUnit0 with h | h
    · exact h
    · rw [h]
      unfold evalWalk
      rw [evalLoop_dVar]
  · intro e h1 h2
    exact evalToken_set_refused F _ _ e h1 h2
  · intro i hi h1 h2
    have hw : (evalWalk F this dVar false dVal0 uUnit0).iError ≠ EQERR_NONE := by
      unfold evalWalk
      apply evalLoop_set_error F this.pvoEquation this.iEqnLength (i : Int)
        (by simpa using h1) (by simpa using h2) hi
      · simp
      · simp
      · simp only []
        omega
    rw [DoEquation_ret_of_walk F this dVar false tfAllowDerived dVal0 uUnit0 (by omega) hw]
    exact hw

/-- C11, counterexample: `x = 1/0` with the name `x` compiles to a token array that holds an
`OP_SET` token, and `DoEquation` with `tfAllowAssign` false returns `EQERR_MATH_DIV_ZERO`, not
`EQERR_EVAL_ASSIGNNOTALLOWED`: the division is met first. -/
theorem C11_counterexample :
    (ParseEquation Q fresh "x = 1/0".toList varsX).1 = EQERR_NONE ∧
    (ParseEquation Q fresh "x = 1/0".toList varsX).2.pvoEquation =
      [voD VOTYP_VAL 1 4, voD VOTYP_VAL 0 6, voI Q VOTYP_OP OP_DIV 5, voI Q VOTYP_OP OP_SET 2,
       voI Q VOTYP_REF 0 0] ∧
    (DoEquation Q (ParseEquation Q fresh "x = 1/0".toList varsX).2 (some [7]) false false
      0 []).ret = EQERR_MATH_DIV_ZERO := by
  decide!

theorem C11_witness :
    (DoEquation Q (ParseEquation Q fresh "x = 1".toList varsX).2 (some [7]) false false
      0 []).dVar = some [7] ∧
    (DoEquation Q (ParseEquation Q fresh "x = 1".toList varsX).2 (some [7]) false false
      0 []).ret ≠ EQERR_NONE :=
  ⟨(C11_no_assign_is_pure Q (ParseEquation Q fresh "x = 1".toList varsX).2 (some [7]) false
      0 []).1,
    (C11_no_assign_is_pure Q (ParseEquation Q fresh "x = 1".toList varsX).2 (some [7]) false
      0 []).2.2 1 (by decide!) (by decide!) (by decide!)⟩

/-! ## Assignment -/

/-- C12: with `tfAllowAssign` true and an array of variables, the token `OP_SET` followed by
`REF i`, met with the value `v` on top of the value stack, stores `v` into `dVar[i]`, leaves
the value stack as it is (so `v` stays on top), sets no error and steps over the `REF` token;
and `(x = 3) + x` with the name `x` and `x = 0` evaluates to 6 and leaves `x = 3`. -/
theorem C12_assignment_writes (F : Dbl D) (pvo : List (VALOP D)) (len : Int) (e : EState D)
    (dv : List D) (v : D) (vs : List D) (i : Nat)
    (h1 : (pvo.getD e.iThisPt.toNat (voNul F)).uTyp = VOTYP_OP)
    (h2 : (pvo.getD e.iThisPt.toNat (voNul F)).iVal = OP_SET)
    (h3 : e.iThisPt + 1 < len)
    (h4 : (pvo.getD (e.iThisPt + 1).toNat (voNul F)).uTyp = VOTYP_REF)
    (h5 : (pvo.getD (e.iThisPt + 1).toNat (voNul F)).iVal = i)
    (hd : e.dVar = some dv) (hv : e.dsVals = v :: vs) (hi : i < dv.length) :
    (evalToken F pvo len true e).dVar = some (dv.set i v) ∧
    (dv.set i v)[i]? = some v ∧
    (evalToken F pvo len true e).dsVals = v :: vs ∧
    (evalToken F pvo len true e).iError = e.iError ∧
    (evalToken F pvo len true e).iThisPt = e.iThisPt + 1 ∧
    (DoEquation Q (ParseEquation Q fresh "(x = 3) + x".toList varsX).2 (some [0]) true false
      0 []).ret = EQERR_NONE ∧
    (DoEquation Q (ParseEquation Q fresh "(x = 3) + x".toList varsX).2 (some [0]) true false
      0 []).dAns = some 6 ∧
    (DoEquation Q (ParseEquation Q fresh "(x = 3) + x".toList varsX).2 (some [0]) true false
      0 []).dVar = some [3] := by
  have hl : ¬ ((e.dsVals.length : Int) < 1) := by rw [hv]; simp
  have h3n : ¬ (e.iThisPt + 1 ≥ len) := by omega
  have heq : evalToken F pvo len true e =
      { e with iThisPt := e.iThisPt + 1, dVar := some (dv.set i v) } := by
    unfold evalToken
    simp only [h1, h2, VOTYP_OP, VOTYP_VAL, VOTYP_PREFIX, VOTYP_REF, VOTYP_UNIT,
      show ¬ ((2 : Nat) = 1 ∨ (2 : Nat) = 6) by decide, show ¬ ((2 : Nat) = 3) by decide,
      show ¬ ((2 : Nat) = 4) by decide, if_false, if_true, hd, Bool.true_eq_false, hl, h3n]
    simp only [VOTYP_REF, List.getD_eq_getElem?_getD] at h4 h5
    simp [h4, h5, hv, Peek]
  rw [heq]
  refine ⟨rfl, ?_, hv, rfl, rfl, ?_, ?_, ?_⟩
  · simp [hi]
  · decide!
  · decide!
  · decide!

theorem C12_witness :
    (evalToken Q [voI Q VOTYP_OP OP_SET 3, voI Q VOTYP_REF 0 1] 2 true
      ⟨[3], [uUnitZero Q], 0, EQERR_NONE, some [0], 0, [], false⟩).dVar = some [3] ∧
    (evalToken Q [voI Q VOTYP_OP OP_SET 3, voI Q VOTYP_REF 0 1] 2 true
      ⟨[3], [uUnitZero Q], 0, EQERR_NONE, some [0], 0, [], false⟩).dsVals = [3] :=
  ⟨(C12_assignment_writes Q [voI Q VOTYP_OP OP_SET 3, voI Q VOTYP_REF 0 1] 2
      ⟨[3], [uUnitZero Q], 0, EQERR_NONE, some [0], 0, [], false⟩ [0] 3 [] 0
      (by decide) (by decide) (by decide) (by decide) (by decide) rfl rfl (by decide)).1,
    (C12_assignment_writes Q [voI Q VOTYP_OP OP_SET 3, voI Q VOTYP_REF 0 1] 2
      ⟨[3], [uUnitZero Q], 0, EQERR_NONE, some [0], 0, [], false⟩ [0] 3 [] 0
      (by decide) (by decide) (by decide) (by decide) (by decide) rfl rfl (by decide)).2.2.1⟩

/-! ## The method Answer -/

theorem DoEquation_iError (F : Dbl D) (this : Instance D) (dVar : Option (List D))
    (allow derived : Bool) (dVal0 : D) (uUnit0 : UNITBASE D) :
    (DoEquation F this dVar allow derived dVal0 uUnit0).this.iError =
      (DoEquation F this dVar allow derived dVal0 uUnit0).ret ∧
    ((DoEquation F this dVar allow derived dVal0 uUnit0).ret = EQERR_NONE →
      ∃ v, (DoEquation F this dVar allow derived dVal0 uUnit0).dAns = some v) := by
  unfold DoEquation
  dsimp only
  split_ifs with h1 h2 h3 h4 h5 h6 h7
  all_goals first
    | exact ⟨rfl, fun _ => ⟨_, rfl⟩⟩
    | exact ⟨rfl, fun h => absurd (show (EQERR_EVAL_NOEQUATION : Int) = EQERR_NONE from h)
        (by decide)⟩
    | exact ⟨rfl, fun h => absurd (show (EQERR_EVAL_STACKNOTEMPTY : Int) = EQERR_NONE from h)
        (by decide)⟩
    | exact ⟨rfl, fun h => absurd (show (EQERR_EVAL_UNITMISMATCH : Int) = EQERR_NONE from h)
        (by decide)⟩
    | exact ⟨rfl, fun h => absurd h (by assumption)⟩

/-- C13: `Answer` returns the value `DoEquation` stores when `DoEquation` returns
`EQERR_NONE`, whatever the local `dAns` held before, and returns 0 when `DoEquation` returns
an error code. -/
theorem C13_answer_swallows_errors (F : Dbl D) (this : Instance D) (dVar : Option (List D))
    (tfAllowAssign : Bool) (dVal0 : D) (uUnit0 : UNITBASE D) (dAns0 : D) :
    ((DoEquation F this dVar tfAllowAssign false dVal0 uUnit0).ret = EQERR_NONE →
      (DoEquation F this dVar tfAllowAssign false dVal0 uUnit0).dAns =
        some (Answer F this dVar tfAllowAssign dVal0 uUnit0 dAns0).1) ∧
    ((DoEquation F this dVar tfAllowAssign false dVal0 uUnit0).ret ≠ EQERR_NONE →
      (Answer F this dVar tfAllowAssign dVal0 uUnit0 dAns0).1 = F.lit 0) := by
  obtain ⟨h1, h2⟩ := DoEquation_iError F this dVar tfAllowAssign false dVal0 uUnit0
  unfold Answer
  dsimp only
  rw [h1]
  constructor
  · intro h
    obtain ⟨v, hv⟩ := h2 h
    rw [if_neg (by simp [h]), hv]
    rfl
  · intro h
    rw [if_pos h]

theorem C13_witness :
    (Answer Q (ParseEquation Q fresh "1 + 2 * 3".toList none).2 none false 0 [] 9).1 = 7 ∧
    (Answer Q (ParseEquation Q fresh "1/0".toList none).2 none false 0 [] 9).1 = 0 := by
  have h1 := (C13_answer_swallows_errors Q (ParseEquation Q fresh "1 + 2 * 3".toList none).2
    none false 0 [] 9).1 (by decide!)
  have h2 := (C13_answer_swallows_errors Q (ParseEquation Q fresh "1/0".toList none).2
    none false 0 [] 9).2 (by decide!)
  refine ⟨?_, h2⟩
  have h3 : (DoEquation Q (ParseEquation Q fresh "1 + 2 * 3".toList none).2 none false false
      0 []).dAns = some 7 := by decide!
  rw [h3] at h1
  exact (Option.some.inj h1).symm

/-! ## Location of a missing operand -/

theorem skipBlanks_blanks (k : Nat) (p : Int) : skipBlanks (List.replicate k ' ') p = p + k := by
  induction k generalizing p with
  | zero => simp [skipBlanks]
  | succ k ih =>
    rw [List.replicate_succ, skipBlanks_blank, ih]
    push_cast
    ring

/-- C14 (as stated, refuted): parsing `1 +` fails with `EQERR_PARSE_NUMBEREXPECTED`, and the
location recorded is 3, the end of the source, not 2, the offset of the operator. -/
theorem C14_counterexample :
    (ParseEquation Q fresh "1 +".toList none).1 = EQERR_PARSE_NUMBEREXPECTED ∧
    (ParseEquation Q fresh "1 +".toList none).2.iError = EQERR_PARSE_NUMBEREXPECTED ∧
    (ParseEquation Q fresh "1 +".toList none).2.iErrorLocation = 3 ∧
    (ParseEquation Q fresh "1 +".toList none).2.iErrorLocation ≠ 2 := by decide!

/-! ## Terminal state of a successful parse -/

theorem skipBlanks_ge (l : List Char) (p : Int) : p ≤ skipBlanks l p := by
  induction l generalizing p with
  | nil => simp [skipBlanks]
  | cons c t ih =>
    rw [skipBlanks]
    split_ifs
    · have := ih (p + 1)
      omega
    · omega

theorem spanLen_nonneg (set l : List Char) : 0 ≤ spanLen set l := by
  induction l with
  | nil => simp [spanLen]
  | cons c t ih =>
    rw [spanLen]
    split_ifs <;> omega

theorem parseIdent_good (F : Dbl D) (szEqtn : List Char) (pszVars : Option (List (List Char)))
    (s : PState D) : StepGood szEqtn.length s (parseIdent F szEqtn pszVars s) := by
  have hsp := spanLen_nonneg EQ_VALIDSYMB (strFrom szEqtn (s.iThisPt + 1))
  unfold parseIdent StepGood
  simp only []
  split
  · exact ⟨Or.inr (Or.inl rfl), fun _ => ⟨id, fun _ => le_rfl, Int.natCast_nonneg _⟩⟩
  · split
    · exact ⟨Or.inr (Or.inl rfl), fun _ => ⟨id, fun _ => le_rfl, Int.natCast_nonneg _⟩⟩
    · split
      · exact ⟨Or.inr (Or.inr (Or.inl rfl)), fun _ => ⟨id, fun _ => le_rfl, by dsimp only; omega⟩⟩
      · split
        · exact ⟨Or.inr (Or.inr (Or.inl rfl)),
            fun _ => ⟨id, fun _ => le_rfl, by dsimp only; omega⟩⟩
        · split_ifs with h
          · exact ⟨Or.inr (Or.inl rfl), fun _ => ⟨id, fun _ => le_rfl, by dsimp only; omega⟩⟩
          · refine ⟨Or.inr (Or.inr (Or.inr rfl)), fun h => ?_⟩
            dsimp only at h
            exact absurd h (by decide)

theorem parseLiteral_good (F : Dbl D) (szEqtn : List Char) (s : PState D) :
    StepGood szEqtn.length s (parseLiteral F szEqtn s) := by
  unfold parseLiteral StepGood
  split
  · exact ⟨Or.inr (Or.inl rfl), fun _ => ⟨id, fun _ => le_rfl, Int.natCast_nonneg _⟩⟩
  · split_ifs
    · exact ⟨Or.inl rfl, fun _ => ⟨fun h => by dsimp only [OP_BRACKETOFFSET]; omega,
        fun _ => le_rfl, (show (0 : Int) ≤ 1 by decide)⟩⟩
    · refine ⟨Or.inr (Or.inr (Or.inr rfl)), fun h => ?_⟩
      dsimp only at h
      exact absurd h (by decide)

theorem parseNumber_good (F : Dbl D) (szEqtn : List Char) (pszVars : Option (List (List Char)))
    (s : PState D) : StepGood szEqtn.length s (parseNumber F szEqtn pszVars s) := by
  unfold parseNumber
  split_ifs
  · exact parseIdent_good F szEqtn pszVars s
  · exact ⟨Or.inl rfl, fun _ => ⟨id, fun _ => le_rfl, (show (0 : Int) ≤ 1 by decide)⟩⟩
  · exact ⟨Or.inl rfl, fun _ => ⟨id, fun _ => le_rfl, (show (0 : Int) ≤ 1 by decide)⟩⟩
  · exact parseLiteral_good F szEqtn s

theorem scanBinaryOp_two (c d e : Char) (t : List Char)
    (h : (c = '|' ∧ e = '|') ∨ (c = '&' ∧ e = '&') ∨ (c = '<' ∧ e = '=') ∨ (c = '>' ∧ e = '=')
      ∨ (c = '!' ∧ e = '=') ∨ (c = '=' ∧ e = '=')) (g : d ≠ e) :
    0 ≤ (scanBinaryOp (c :: d :: t)).2 := by
  unfold scanBinaryOp scanBinaryOp.match_1
  rcases h with ⟨rfl, rfl⟩ | ⟨rfl, rfl⟩ | ⟨rfl, rfl⟩ | ⟨rfl, rfl⟩ | ⟨rfl, rfl⟩ | ⟨rfl, rfl⟩ <;>
    simp [g]

theorem scanBinaryOp_other (c : Char) (t : List Char)
    (h1 : c ≠ ',') (h2 : c ≠ '+') (h3 : c ≠ '-') (h4 : c ≠ '*') (h5 : c ≠ '/') (h6 : c ≠ '^')
    (h7 : c ≠ '|') (h8 : c ≠ '&') (h9 : c ≠ '<') (h10 : c ≠ '>') (h11 : c ≠ '!')
    (h12 : c ≠ '=') : scanBinaryOp (c :: t) = (OP_NULL, 0) := by
  unfold scanBinaryOp scanBinaryOp.match_1
  simp [h1, h2, h3, h4, h5, h6, h7, h8, h9, h10, h11, h12]

theorem scanBinaryOp_nonneg (l : List Char) : 0 ≤ (scanBinaryOp l).2 := by
  rcases l with _ | ⟨c, t⟩
  · exact (show (0 : Int) ≤ 0 from le_rfl)
  by_cases h1 : c = ','
  · subst h1; exact (show (0 : Int) ≤ 1 by decide)
  by_cases h2 : c = '+'
  · subst h2; exact (show (0 : Int) ≤ 1 by decide)
  by_cases h3 : c = '-'
  · subst h3; exact (show (0 : Int) ≤ 1 by decide)
  by_cases h4 : c = '*'
  · subst h4; exact (show (0 : Int) ≤ 1 by decide)
  by_cases h5 : c = '/'
  · subst h5; exact (show (0 : Int) ≤ 1 by decide)
  by_cases h6 : c = '^'
  · subst h6; exact (show (0 : Int) ≤ 1 by decide)
  by_cases h7 : c = '|'
  · subst h7
    rcases t with _ | ⟨d, t⟩
    · exact (show (0 : Int) ≤ 1 by decide)
    by_cases g : d = '|'
    · subst g; exact (show (0 : Int) ≤ 2 by decide)
    · exact scanBinaryOp_two _ d '|' t (Or.inl ⟨rfl, rfl⟩) g
  by_cases h8 : c = '&'
  · subst h8
    rcases t with _ | ⟨d, t⟩
    · exact (show (0 : Int) ≤ 1 by decide)
    by_cases g : d = '&'
    · subst g; exact (show (0 : Int) ≤ 2 by decide)
    · exact scanBinaryOp_two _ d '&' t (Or.inr (Or.inl ⟨rfl, rfl⟩)) g
  by_cases h9 : c = '<'
  · subst h9
    rcases t with _ | ⟨d, t⟩
    · exact (show (0 : Int) ≤ 1 by decide)
    by_cases g : d = '='
    · subst g; exact (show (0 : Int) ≤ 2 by decide)
    · exact scanBinaryOp_two _ d '=' t (Or.inr (Or.inr (Or.inl ⟨rfl, rfl⟩))) g
  by_cases h10 : c = '>'
  · subst h10
    rcases t with _ | ⟨d, t⟩
    · exact (show (0 : Int) ≤ 1 by decide)
    by_cases g : d = '='
    · subst g; exact (show (0 : Int) ≤ 2 by decide)
    · exact scanBinaryOp_two _ d '=' t (Or.inr (Or.inr (Or.inr (Or.inl ⟨rfl, rfl⟩)))) g
  by_cases h11 : c = '!'
  · subst h11
    rcases t with _ | ⟨d, t⟩
    · exact (show (0 : Int) ≤ 0 from le_rfl)
    by_cases g : d = '='
    · subst g; exact (show (0 : Int) ≤ 2 by decide)
    · exact scanBinaryOp_two _ d '=' t (Or.inr (Or.inr (Or.inr (Or.inr (Or.inl ⟨rfl, rfl⟩))))) g
  by_cases h12 : c = '='
  · subst h12
    rcases t with _ | ⟨d, t⟩
    · exact (show (0 : Int) ≤ 1 by decide)
    by_cases g : d = '='
    · subst g; exact (show (0 : Int) ≤ 2 by decide)
    · exact scanBinaryOp_two _ d '=' t (Or.inr (Or.inr (Or.inr (Or.inr (Or.inr ⟨rfl, rfl⟩))))) g
  rw [scanBinaryOp_other c t h1 h2 h3 h4 h5 h6 h7 h8 h9 h10 h11 h12]

theorem parseOperator_good (F : Dbl D) (szEqtn : List Char) (s : PState D) :
    StepGood szEqtn.length s (parseOperator F szEqtn s) := by
  have h0 := scanBinaryOp_nonneg (strFrom szEqtn s.iThisPt)
  unfold parseOperator StepGood
  simp only []
  split_ifs
  · refine ⟨Or.inr (Or.inr (Or.inr rfl)), fun h => ?_⟩
    dsimp only at h
    exact absurd h (by decide)
  · refine ⟨Or.inr (Or.inr (Or.inr rfl)), fun h => ?_⟩
    dsimp only at h
    exact absurd h (by decide)
  · exact ⟨Or.inl rfl, fun _ => ⟨id, fun _ => le_rfl, h0⟩⟩

theorem parseClose_good (len : Int) (s : PState D) : StepGood len s (parseClose s) := by
  unfold parseClose StepGood
  simp only []
  split_ifs with h1 h2 h3 h4 h5 h6 h7 h8
  all_goals
    refine ⟨Or.inr (Or.inl rfl), fun h => ?_⟩
    dsimp only at h
    first
    | exact absurd h (by decide)
    | exact ⟨fun _ => by dsimp only; omega, fun _ => le_rfl, (show (0 : Int) ≤ 1 by decide)⟩

theorem parseUnitOrTarget_good (F : Dbl D) (szEqtn : List Char) (s : PState D) :
    StepGood szEqtn.length s (parseUnitOrTarget F szEqtn s) := by
  unfold parseUnitOrTarget StepGood
  simp only []
  split_ifs with h1 h2 h3
  · exact ⟨Or.inr (Or.inl rfl), fun _ => ⟨id, fun _ => le_rfl, by dsimp only; omega⟩⟩
  · refine ⟨Or.inr (Or.inr (Or.inr rfl)), fun h => ?_⟩
    dsimp only at h
    exact absurd h h3
  · exact ⟨Or.inr (Or.inr (Or.inr rfl)),
      fun _ => ⟨id, fun hp => by dsimp only; omega, (show (0 : Int) ≤ 1 by decide)⟩⟩
  · refine ⟨Or.inr (Or.inr (Or.inr rfl)), fun h => ?_⟩
    dsimp only at h
    exact absurd h (by decide)

theorem parseToken_good (F : Dbl D) (szEqtn : List Char) (pszVars : Option (List (List Char)))
    (s : PState D) : StepGood szEqtn.length s (parseToken F szEqtn pszVars s) := by
  unfold parseToken parseBinaryOp parseBracket
  simp only []
  split_ifs
  · exact parseNumber_good F _ _ _
  · exact parseOperator_good F _ _
  · exact parseClose_good _ _
  · exact parseUnitOrTarget_good F _ _
  · exact ⟨Or.inl rfl, fun _ => ⟨fun h => by dsimp only [OP_BRACKETOFFSET]; omega,
      fun _ => le_rfl, (show (0 : Int) ≤ 1 by decide)⟩⟩
  · refine ⟨Or.inr (Or.inr (Or.inr rfl)), fun h => ?_⟩
    dsimp only at h
    exact absurd h (by decide)
  · exact ⟨Or.inr (Or.inr (Or.inr rfl)), fun _ => ⟨id, fun _ => le_rfl, le_rfl⟩⟩

/-- One round of the scan loop, entered below the end of the source: the mode stays one of the
three modes, and a round that sets no error keeps the bracket offset non-negative and moves
`iThisPt` forward. -/
theorem parseStep_good (F : Dbl D) (szEqtn : List Char) (pszVars : Option (List (List Char)))
    (s : PState D)
    (hL : s.uLookFor = LOOKFOR_NUMBER ∨ s.uLookFor = LOOKFOR_BINARYOP ∨
      s.uLookFor = LOOKFOR_BRACKET)
    (hB : 0 ≤ s.iBrktOff) (hp : s.iThisPt < szEqtn.length) :
    ((parseStep F szEqtn pszVars s).uLookFor = LOOKFOR_NUMBER ∨
      (parseStep F szEqtn pszVars s).uLookFor = LOOKFOR_BINARYOP ∨
      (parseStep F szEqtn pszVars s).uLookFor = LOOKFOR_BRACKET) ∧
    ((parseStep F szEqtn pszVars s).iError = EQERR_NONE →
      0 ≤ (parseStep F szEqtn pszVars s).iBrktOff ∧
      s.iThisPt < (parseStep F szEqtn pszVars s).iThisPt) := by
  have hsk := skipBlanks_ge (strFrom szEqtn s.iThisPt) s.iThisPt
  unfold parseStep
  split_ifs with h1 h2
  · exact ⟨hL, fun _ => ⟨hB, by simp only; omega⟩⟩
  · refine ⟨hL, fun h => ?_⟩
    dsimp only at h
    exact absurd h (by decide)
  · obtain ⟨g1, g2⟩ := parseToken_good F szEqtn pszVars
      { s with iThisPt := skipBlanks (strFrom szEqtn s.iThisPt) s.iThisPt }
    unfold parseAdvance
    simp only []
    refine ⟨?_, fun h => ?_⟩
    · rcases g1 with g | g | g | g
      · exact Or.inl g
      · exact Or.inr (Or.inl g)
      · exact Or.inr (Or.inr g)
      · dsimp only at g
        rw [g]
        exact hL
    · by_cases h0 : (parseToken F szEqtn pszVars
          { s with iThisPt := skipBlanks (strFrom szEqtn s.iThisPt) s.iThisPt }).2 = 0 ∧
          (parseToken F szEqtn pszVars
          { s with iThisPt := skipBlanks (strFrom szEqtn s.iThisPt) s.iThisPt }).1.iError
            = EQERR_NONE
      · rw [if_pos h0] at h
        exact absurd h (by decide)
      · rw [if_neg h0] at h
        obtain ⟨k1, k2, k3⟩ := g2 h
        have k4 := k2 (by simp only; omega)
        simp only at k4
        have k5 : (parseToken F szEqtn pszVars
          { s with iThisPt := skipBlanks (strFrom szEqtn s.iThisPt) s.iThisPt }).2 ≠ 0 :=
          fun h5 => h0 ⟨h5, h⟩
        exact ⟨k1 hB, by omega⟩

/-- The scan loop with enough fuel ends by its test: the mode is one of the three modes, and
when no error is set the bracket offset is not negative and `iThisPt` is at or past the end of
the source. -/
theorem parseLoop_good (F : Dbl D) (szEqtn : List Char) (pszVars : Option (List (List Char)))
    (fuel : Nat) :
    ∀ s : PState D,
      (s.uLookFor = LOOKFOR_NUMBER ∨ s.uLookFor = LOOKFOR_BINARYOP ∨
        s.uLookFor = LOOKFOR_BRACKET) →
      (s.iError = EQERR_NONE → 0 ≤ s.iBrktOff ∧ (szEqtn.length : Int) < s.iThisPt + fuel) →
      ((parseLoop F szEqtn pszVars fuel s).uLookFor = LOOKFOR_NUMBER ∨
        (parseLoop F szEqtn pszVars fuel s).uLookFor = LOOKFOR_BINARYOP ∨
        (parseLoop F szEqtn pszVars fuel s).uLookFor = LOOKFOR_BRACKET) ∧
      ((parseLoop F szEqtn pszVars fuel s).iError = EQERR_NONE →
        0 ≤ (parseLoop F szEqtn pszVars fuel s).iBrktOff ∧
        (szEqtn.length : Int) ≤ (parseLoop F szEqtn pszVars fuel s).iThisPt) := by
  induction fuel with
  | zero =>
    intro s hL h
    refine ⟨hL, fun he => ?_⟩
    have := h he
    simp only [parseLoop]
    exact ⟨this.1, by omega⟩
  | succ n ih =>
    intro s hL h
    unfold parseLoop
    split_ifs with hc
    · obtain ⟨g1, g2⟩ := parseStep_good F szEqtn pszVars s hL (h hc.2).1 hc.1
      refine ih _ g1 (fun he => ?_)
      have := g2 he
      have := (h hc.2).2
      push_cast at this
      exact ⟨(g2 he).1, by omega⟩
    · refine ⟨hL, fun he => ⟨(h he).1, ?_⟩⟩
      by_contra hlt
      exact hc ⟨by omega, he⟩

theorem srcClose_length (la rest : List Char) :
    (srcClose la rest).length = la.length + 2 + rest.length := by
  simp [srcClose]
  omega

theorem srcClose_cstr (F : Dbl D) (la rest : List Char) (va : D)
    (ha : IsLiteral F la va) (hr : ∀ c ∈ rest, c ≠ '\x00') :
    cstr (srcClose la rest) = srcClose la rest := by
  apply cstr_of_noNul
  intro c hm
  simp only [srcClose, List.mem_append, List.mem_cons] at hm
  rcases hm with h | rfl | rfl | h
  · exact ha.2.1 c h
  · decide
  · decide
  · exact hr c h

/-- A round of the scan loop at a closing bracket, after `k` blanks, in the state
`LOOKFOR_BINARYOP` with no bracket open and no operator waiting. -/
theorem parseStep_close (F : Dbl D) (src : List Char) (vars : Option (List (List Char)))
    (out : List (VALOP D)) (p e : Int) (tg : Target D) (k : Nat) (rest : List Char)
    (hp : 0 ≤ p) (hs : strFrom src p = List.replicate k ' ' ++ ')' :: rest) :
    parseStep F src vars ⟨⟨out, [], []⟩, LOOKFOR_BINARYOP, p, 0, EQERR_NONE, e, tg⟩ =
      ⟨⟨out, [], []⟩, LOOKFOR_BINARYOP, p + k, -100, EQERR_PARSE_UNOPENEDBRACKET, e, tg⟩ := by
  have hsk : skipBlanks (strFrom src p) p = p + k := by
    rw [hs, skipBlanks_replicate k ')' _ p (by decide)]
  have hsf : strFrom src (p + k) = ')' :: rest := strFrom_skip src p k _ hp hs
  have hpk : (0 : Int) ≤ p + k := by omega
  have hch : charAt src (p + k) = ')' := charAt_of_strFrom src (p + k) ')' rest hpk hsf
  have hlt : p + k < src.length := lt_length_of_strFrom src (p + k) ')' rest hpk hsf
  have h2 : strchr EQ_ILLEGALCHAR ')' = false := by decide
  have h7 : ¬ ((')' : Char) = '+' ∨ (')' : Char) = '-' ∨ (')' : Char) = '*' ∨ (')' : Char) = '/'
      ∨ (')' : Char) = '^' ∨ (')' : Char) = '<' ∨ (')' : Char) = '>' ∨ (')' : Char) = '!'
      ∨ (')' : Char) = '=' ∨ (')' : Char) = '|' ∨ (')' : Char) = '&' ∨ (')' : Char) = ',') := by
    decide
  unfold parseStep
  simp only [hsk]
  rw [if_neg (by omega), hch, h2]
  simp only [Bool.false_eq_true, if_false]
  unfold parseToken
  have hne : ¬ (LOOKFOR_BINARYOP = LOOKFOR_NUMBER) := by decide
  simp only [hne, if_false, if_true]
  unfold parseBinaryOp
  simp only [hch]
  rw [if_neg h7]
  simp only [if_true]
  have hlb : lookBack ([] : List Int) 0 = (0, -1, 0) := by decide
  unfold parseClose parseAdvance
  simp only [hlb]
  simp [nargArgc, NUM_NARGOP, OP_NARG, OP_BRACKETOFFSET, EQERR_NONE,
    EQERR_PARSE_UNOPENEDBRACKET]

/-- The scan of `la )` followed by anything stops at the bracket. -/
theorem parseScan_close (F : Dbl D) (vars : Option (List (List Char)))
    (la rest : List Char) (va : D) (ha : IsLiteral F la va) :
    (parseScan F (srcClose la rest) vars).iError = EQERR_PARSE_UNOPENEDBRACKET ∧
    (parseScan F (srcClose la rest) vars).iErrorLocation = la.length + 1 := by
  have hlen := srcClose_length la rest
  have e1 := parseStep_literal_at F (srcClose la rest) vars [] [] [] 0 0 0
    ⟨[], uUnitZero F, F.lit 0, F.lit 0⟩ 0 la (' ' :: ')' :: rest) va 0 la.length
    ha (Or.inr ⟨_, rfl⟩) le_rfl (by rw [strFrom_zero]; rfl) (by simp) (by simp)
  have e2 := parseStep_close F (srcClose la rest) vars [voD VOTYP_VAL va 0] la.length 0
    ⟨[], uUnitZero F, F.lit 0, F.lit 0⟩ 1 rest (by omega) (strFrom_append la _ _ rfl)
  have hf : (srcClose la rest).length + 1 = (la.length + rest.length) + 1 + 1 + 1 := by omega
  unfold parseScan
  rw [hf, parseInit,
    parseLoop_unroll F _ vars _ _ _ (by simp [hlen]; omega) rfl e1,
    parseLoop_unroll F _ vars _ _ _ (by simp [hlen]; omega) rfl e2,
    parseLoop_done F _ vars _ _ (by simp [EQERR_PARSE_UNOPENEDBRACKET, EQERR_NONE])]
  unfold parseFinish
  simp [EQERR_NONE, EQERR_PARSE_UNOPENEDBRACKET]

theorem parseFinish_ok_iff (F : Dbl D) (s : PState D)
    (hL : s.uLookFor = LOOKFOR_NUMBER ∨ s.uLookFor = LOOKFOR_BINARYOP ∨
      s.uLookFor = LOOKFOR_BRACKET)
    (hB : s.iError = EQERR_NONE → 0 ≤ s.iBrktOff) :
    (parseFinish F s).iError = EQERR_NONE ↔
      s.iError = EQERR_NONE ∧ s.uLookFor = LOOKFOR_BINARYOP ∧ s.iBrktOff = 0 := by
  unfold parseFinish
  split_ifs with h1 h2 h3 h4
  · exact ⟨fun h => absurd h h1, fun h => absurd h.1 h1⟩
  · refine ⟨fun h => ?_, fun h => ?_⟩
    · dsimp only at h
      exact absurd h (by decide)
    · omega
  · refine ⟨fun h => ?_, fun h => ?_⟩
    · dsimp only at h
      exact absurd h (by decide)
    · rw [h.2.1] at h3
      exact absurd h3 (by decide)
  · refine ⟨fun h => ?_, fun h => ?_⟩
    · dsimp only at h
      exact absurd h (by decide)
    · rw [h.2.1] at h4
      exact absurd h4 (by decide)
  · have h1 := not_not.mp h1
    refine ⟨fun _ => ⟨h1, ?_, ?_⟩, fun _ => rfl⟩
    · rcases hL with h | h | h
      · exact absurd h h4
      · exact h
      · exact absurd h h3
    · have := hB h1
      omega

theorem ParseEquation_code (F : Dbl D) (this : Instance D) (szEqtn : List Char)
    (vars : Option (List (List Char))) :
    (ParseEquation F this szEqtn vars).1 = (parseScan F (cstr szEqtn) vars).iError := by
  unfold ParseEquation
  dsimp only
  split_ifs with h
  · rfl
  · exact (not_not.mp h).symm

theorem scanEnd_good (F : Dbl D) (szEqtn : List Char) (vars : Option (List (List Char))) :
    ((scanEnd F szEqtn vars).uLookFor = LOOKFOR_NUMBER ∨
      (scanEnd F szEqtn vars).uLookFor = LOOKFOR_BINARYOP ∨
      (scanEnd F szEqtn vars).uLookFor = LOOKFOR_BRACKET) ∧
    ((scanEnd F szEqtn vars).iError = EQERR_NONE →
      0 ≤ (scanEnd F szEqtn vars).iBrktOff ∧
      ((cstr szEqtn).length : Int) ≤ (scanEnd F szEqtn vars).iThisPt) :=
  parseLoop_good F (cstr szEqtn) vars ((cstr szEqtn).length + 1) (parseInit F) (Or.inl rfl)
    (fun _ => ⟨le_rfl, by simp [parseInit]⟩)

/-! ## Division by zero -/

theorem evalLoop_halt (F : Dbl D) (pvo : List (VALOP D)) (len : Int) (allow : Bool)
    (fuel : Nat) (e : EState D) (h : ¬ (e.iThisPt < len ∧ e.iError = EQERR_NONE)) :
    evalLoop F pvo len allow fuel e = e := by
  cases fuel with
  | zero => rfl
  | succ n => rw [evalLoop, if_neg h]

theorem evalLoop_add (F : Dbl D) (pvo : List (VALOP D)) (len : Int) (allow : Bool)
    (a b : Nat) :
    ∀ e : EState D, evalLoop F pvo len allow (a + b) e =
      evalLoop F pvo len allow b (evalLoop F pvo len allow a e) := by
  induction a with
  | zero => intro e; simp [evalLoop]
  | succ n ih =>
    intro e
    rw [Nat.add_right_comm, evalLoop, evalLoop]
    split_ifs with h
    · exact ih _
    · exact (evalLoop_halt F pvo len allow b e h).symm

theorem evalToken_operator (F : Dbl D) (pvo : List (VALOP D)) (len : Int) (allow : Bool)
    (e : EState D) (ht : (pvo.getD e.iThisPt.toNat (voNul F)).uTyp = VOTYP_OP)
    (hns : ¬ ((pvo.getD e.iThisPt.toNat (voNul F)).iVal = OP_SET)) :
    evalToken F pvo len allow e =
      if (pvo.getD e.iThisPt.toNat (voNul F)).iVal < OP_UNARY then
        evalBinary F (pvo.getD e.iThisPt.toNat (voNul F)).iVal e
      else if (pvo.getD e.iThisPt.toNat (voNul F)).iVal < OP_NARG then
        evalUnary F ((pvo.getD e.iThisPt.toNat (voNul F)).iVal - OP_UNARY) e
      else evalNArg F pvo len ((pvo.getD e.iThisPt.toNat (voNul F)).iVal - OP_NARG) e := by
  unfold evalToken
  simp only [ht, VOTYP_OP, VOTYP_VAL, VOTYP_PREFIX, VOTYP_REF, VOTYP_UNIT,
    show ¬ ((2 : Nat) = 1 ∨ (2 : Nat) = 6) by decide, show ¬ ((2 : Nat) = 3) by decide,
    show ¬ ((2 : Nat) = 4) by decide, if_false, if_true, if_neg hns]

theorem evalToken_binary (F : Dbl D) (pvo : List (VALOP D)) (len : Int) (allow : Bool)
    (e : EState D) (o : Int) (ht : (pvo.getD e.iThisPt.toNat (voNul F)).uTyp = VOTYP_OP)
    (ho : (pvo.getD e.iThisPt.toNat (voNul F)).iVal = o) (h1 : o ≠ OP_SET) (h2 : o < OP_UNARY) :
    evalToken F pvo len allow e = evalBinary F o e := by
  rw [evalToken_operator F pvo len allow e ht (by rw [ho]; exact h1), ho, if_pos h2]

theorem evalBinary_div_zero (F : Dbl D) (e : EState D)
    (hz : F.eq (Pop (F.lit 0) e.dsVals).1 (F.lit 0) = true) :
    (evalBinary F OP_DIV e).iError = EQERR_MATH_DIV_ZERO := by
  unfold evalBinary
  simp [pushResult, hz, OP_DIV, OP_POW, OP_OR, OP_AND, OP_LTE, OP_EQ, OP_ADD, OP_SUB, OP_PSH,
    OP_POP, OP_MUL]

/-- A round of the token loop that sets an error is its last. -/
theorem evalLoop_fails (F : Dbl D) (pvo : List (VALOP D)) (len : Int) (allow : Bool)
    (m : Nat) (e : EState D) (c : Int) (h1 : e.iThisPt < len) (h2 : e.iError = EQERR_NONE)
    (h3 : (evalToken F pvo len allow e).iError = c) (hc : c ≠ EQERR_NONE) :
    (evalLoop F pvo len allow (m + 1) e).iError = c := by
  rw [evalLoop, if_pos ⟨h1, h2⟩]
  dsimp only
  rw [evalLoop_error]
  · exact h3
  · dsimp only
    rw [h3]
    exact hc

theorem DoEquation_error (F : Dbl D) (this : Instance D) (dVar : Option (List D))
    (allow derived : Bool) (dVal0 : D) (uUnit0 : UNITBASE D)
    (h : (DoEquation F this dVar allow derived dVal0 uUnit0).ret ≠ EQERR_NONE) :
    (DoEquation F this dVar allow derived dVal0 uUnit0).dAns = none := by
  revert h
  unfold DoEquation
  dsimp only
  split_ifs <;> intro h
  all_goals first
    | rfl
    | exact absurd rfl h

/-- The token loop fails with the code of the first round that sets one: when the state after
`k` rounds is inside the array without an error and its round sets the code `c`, `DoEquation`
returns `c` and stores no answer. -/
theorem DoEquation_fails_at (F : Dbl D) (this : Instance D) (dVar : Option (List D))
    (allow derived : Bool) (dVal0 : D) (uUnit0 : UNITBASE D) (k : Nat) (c : Int)
    (hk : k < this.iEqnLength.toNat)
    (h1 : (evalRounds F this dVar allow dVal0 uUnit0 k).iThisPt < this.iEqnLength)
    (h2 : (evalRounds F this dVar allow dVal0 uUnit0 k).iError = EQERR_NONE)
    (h3 : (evalToken F this.pvoEquation this.iEqnLength allow
      (evalRounds F this dVar allow dVal0 uUnit0 k)).iError = c) (hc : c ≠ EQERR_NONE) :
    (DoEquation F this dVar allow derived dVal0 uUnit0).ret = c ∧
    (DoEquation F this dVar allow derived dVal0 uUnit0).dAns = none := by
  obtain ⟨m, hm⟩ : ∃ m, this.iEqnLength.toNat = k + (m + 1) := ⟨this.iEqnLength.toNat - k - 1, by omega⟩
  have hw : (evalWalk F this dVar allow dVal0 uUnit0).iError = c := by
    unfold evalWalk
    rw [hm, evalLoop_add]
    exact evalLoop_fails F _ _ allow m _ c h1 h2 h3 hc
  have hr : (DoEquation F this dVar allow derived dVal0 uUnit0).ret = c := by
    rw [DoEquation_ret_of_walk F this dVar allow derived dVal0 uUnit0 (by omega)
      (by rw [hw]; exact hc), hw]
  exact ⟨hr, DoEquation_error F this dVar allow derived dVal0 uUnit0 (by rw [hr]; exact hc)⟩

/-- C16: a division token met with a zero on top of the value stack sets
`EQERR_MATH_DIV_ZERO`, whatever the dividend, the dimension vectors on the unit stack and the
error code so far are; and when the token loop of `DoEquation` reaches such a token without an
error, `DoEquation` returns `EQERR_MATH_DIV_ZERO` and stores no answer.  In exact arithmetic
`1/0`, `0/0`, `5/(3-3)` and `(2 m)/(0 s)` parse and evaluate to `EQERR_MATH_DIV_ZERO`. -/
theorem C16_division_by_zero (F : Dbl D) (this : Instance D) (dVar : Option (List D))
    (tfAllowAssign tfAllowDerived : Bool) (dVal0 : D) (uUnit0 : UNITBASE D) :
    (∀ e : EState D,
      (this.pvoEquation.getD e.iThisPt.toNat (voNul F)).uTyp = VOTYP_OP →
      (this.pvoEquation.getD e.iThisPt.toNat (voNul F)).iVal = OP_DIV →
      F.eq (Pop (F.lit 0) e.dsVals).1 (F.lit 0) = true →
      (evalToken F this.pvoEquation this.iEqnLength tfAllowAssign e).iError
        = EQERR_MATH_DIV_ZERO) ∧
    (∀ k : Nat, k < this.iEqnLength.toNat →
      (evalRounds F this dVar tfAllowAssign dVal0 uUnit0 k).iThisPt < this.iEqnLength →
      (evalRounds F this dVar tfAllowAssign dVal0 uUnit0 k).iError = EQERR_NONE →
      (this.pvoEquation.getD (evalRounds F this dVar tfAllowAssign dVal0 uUnit0 k).iThisPt.toNat
        (voNul F)).uTyp = VOTYP_OP →
      (this.pvoEquation.getD (evalRounds F this dVar tfAllowAssign dVal0 uUnit0 k).iThisPt.toNat
        (voNul F)).iVal = OP_DIV →
      F.eq (Pop (F.lit 0) (evalRounds F this dVar tfAllowAssign dVal0 uUnit0 k).dsVals).1
        (F.lit 0) = true →
      (DoEquation F this dVar tfAllowAssign tfAllowDerived dVal0 uUnit0).ret
        = EQERR_MATH_DIV_ZERO ∧
      (DoEquation F this dVar tfAllowAssign tfAllowDerived dVal0 uUnit0).dAns = none) ∧
    (ParseEquation Q fresh "1/0".toList none).1 = EQERR_NONE ∧
    (DoEquation Q (ParseEquation Q fresh "1/0".toList none).2 none false false 0 []).ret
      = EQERR_MATH_DIV_ZERO ∧
    (DoEquation Q (ParseEquation Q fresh "0/0".toList none).2 none false false 0 []).ret
      = EQERR_MATH_DIV_ZERO ∧
    (DoEquation Q (ParseEquation Q fresh "5/(3-3)".toList none).2 none false false 0 []).ret
      = EQERR_MATH_DIV_ZERO ∧
    (ParseEquation Q fresh "(2 m)/(0 s)".toList none).1 = EQERR_NONE ∧
    (DoEquation Q (ParseEquation Q fresh "(2 m)/(0 s)".toList none).2 none false false 0 []).ret
      = EQERR_MATH_DIV_ZERO := by
  have key : ∀ e : EState D,
      (this.pvoEquation.getD e.iThisPt.toNat (voNul F)).uTyp = VOTYP_OP →
      (this.pvoEquation.getD e.iThisPt.toNat (voNul F)).iVal = OP_DIV →
      F.eq (Pop (F.lit 0) e.dsVals).1 (F.lit 0) = true →
      (evalToken F this.pvoEquation this.iEqnLength tfAllowAssign e).iError
        = EQERR_MATH_DIV_ZERO := by
    intro e h1 h2 h3
    rw [evalToken_binary F _ _ _ e OP_DIV h1 h2 (by decide) (by decide)]
    exact evalBinary_div_zero F e h3
  refine ⟨key, fun k hk h1 h2 h3 h4 h5 => ?_, ?_⟩
  · exact DoEquation_fails_at F this dVar tfAllowAssign tfAllowDerived dVal0 uUnit0 k _ hk h1 h2
      (key _ h3 h4 h5) (by decide)
  · decide!

theorem C16_witness :
    (evalToken Q [voD VOTYP_VAL 1 0, voD VOTYP_VAL 0 2, voI Q VOTYP_OP OP_DIV 1] 3 false
      ⟨[0, 1], [uUnitZero Q, uUnitZero Q], 2, EQERR_NONE, none, 0, [], false⟩).iError
        = EQERR_MATH_DIV_ZERO ∧
    (DoEquation Q ⟨none, 3, [voD VOTYP_VAL 1 0, voD VOTYP_VAL 0 2, voI Q VOTYP_OP OP_DIV 1],
      EQERR_NONE, 0, ⟨[], uUnitZero Q, 0, 0⟩⟩ none false false 0 []).ret
        = EQERR_MATH_DIV_ZERO :=
  ⟨(C16_division_by_zero Q ⟨none, 3, [voD VOTYP_VAL 1 0, voD VOTYP_VAL 0 2,
      voI Q VOTYP_OP OP_DIV 1], EQERR_NONE, 0, ⟨[], uUnitZero Q, 0, 0⟩⟩ none false false 0 []).1
      ⟨[0, 1], [uUnitZero Q, uUnitZero Q], 2, EQERR_NONE, none, 0, [], false⟩
      (by decide!) (by decide!) (by decide!),
    ((C16_division_by_zero Q ⟨none, 3, [voD VOTYP_VAL 1 0, voD VOTYP_VAL 0 2,
      voI Q VOTYP_OP OP_DIV 1], EQERR_NONE, 0, ⟨[], uUnitZero Q, 0, 0⟩⟩ none false false 0 []).2.1
      2 (by decide!) (by decide!) (by decide!) (by decide!) (by decide!) (by decide!)).1⟩

/-! ## Agreement of dimensions -/

theorem unitsEq_false_iff (F : Dbl D) (u1 u2 : UNITBASE D) :
    unitsEq F u1 u2 = false ↔ UnitsDiffer F u1 u2 := by
  unfold unitsEq UnitsDiffer
  rw [List.all_eq_false]
  constructor
  · rintro ⟨i, hi, h⟩
    exact ⟨i, List.mem_range.mp hi, by simpa using h⟩
  · rintro ⟨i, hi, h⟩
    exact ⟨i, List.mem_range.mpr hi, fun hc => by rw [h] at hc; exact Bool.false_ne_true hc⟩

theorem evalBinary_units (F : Dbl D) (o : Int) (e : EState D) (a2 a1 : D) (vs : List D)
    (u2 u1 : UNITBASE D) (us : List (UNITBASE D)) (ho : IsAddOp o ∨ IsCmpOp o)
    (he : e.iError = EQERR_NONE) (hv : e.dsVals = a2 :: a1 :: vs)
    (hu : e.usUnits = u2 :: u1 :: us) :
    ((evalBinary F o e).iError = EQERR_EVAL_UNITMISMATCH ↔ unitsEq F u1 u2 = false) ∧
    (unitsEq F u1 u2 = true →
      (evalBinary F o e).iError = EQERR_NONE ∧
      (IsAddOp o → (evalBinary F o e).usUnits = u2 :: us) ∧
      (o = OP_ADD → (evalBinary F o e).dsVals = F.add a1 a2 :: vs) ∧
      (o = OP_SUB → (evalBinary F o e).dsVals = F.sub a1 a2 :: vs) ∧
      (IsCmpOp o → (evalBinary F o e).usUnits = uUnitZero F :: us ∧
        ((evalBinary F o e).dsVals = F.lit 1 :: vs ∨
          (evalBinary F o e).dsVals = F.lit 0 :: vs))) := by
  have hl : ¬ ((vs.length : Int) + 1 + 1 < 2) := by omega
  have ho2 : o = OP_ADD ∨ o = OP_SUB ∨ o = OP_OR ∨ o = OP_AND ∨ o = OP_LTE ∨ o = OP_GTE ∨
      o = OP_LT ∨ o = OP_GT ∨ o = OP_NEQ ∨ o = OP_EQ := by
    unfold IsAddOp IsCmpOp at ho
    simp only [OP_ADD, OP_SUB, OP_OR, OP_AND, OP_LTE, OP_GTE, OP_LT, OP_GT, OP_NEQ, OP_EQ] at *
    omega
  cases hq : unitsEq F u1 u2
  · refine ⟨⟨fun _ => rfl, fun _ => ?_⟩, fun h => absurd h (by simp)⟩
    rcases ho2 with rfl | rfl | rfl | rfl | rfl | rfl | rfl | rfl | rfl | rfl <;>
    · unfold evalBinary
      simp [pushResult, Pop, hv, hu, he, hq, hl, OP_OR, OP_AND, OP_LTE,
        OP_GTE, OP_LT, OP_GT, OP_NEQ, OP_EQ, OP_ADD, OP_SUB, OP_MUL, OP_DIV, OP_POW, OP_PSH, OP_POP]
  · have hne : ∀ x : Int, x = EQERR_NONE → ¬ (x = EQERR_EVAL_UNITMISMATCH) := by
      intro x hx
      rw [hx]
      decide
    have herr : (evalBinary F o e).iError = EQERR_NONE := by
      rcases ho2 with rfl | rfl | rfl | rfl | rfl | rfl | rfl | rfl | rfl | rfl <;>
      · unfold evalBinary
        simp [pushResult, Pop, hv, hu, he, hq, hl, OP_OR, OP_AND, OP_LTE,
          OP_GTE, OP_LT, OP_GT, OP_NEQ, OP_EQ, OP_ADD, OP_SUB, OP_MUL, OP_DIV, OP_POW, OP_PSH,
          OP_POP]
    refine ⟨⟨fun h => absurd h (hne _ herr), fun h => absurd h (by simp)⟩,
      fun _ => ⟨herr, ?_⟩⟩
    rcases ho2 with rfl | rfl | rfl | rfl | rfl | rfl | rfl | rfl | rfl | rfl <;>
    · unfold evalBinary IsAddOp IsCmpOp
      simp [pushResult, Pop, hv, hu, he, hq, hl, OP_OR, OP_AND, OP_LTE,
        OP_GTE, OP_LT, OP_GT, OP_NEQ, OP_EQ, OP_ADD, OP_SUB, OP_MUL, OP_DIV, OP_POW, OP_PSH,
        OP_POP]
      first
        | done
        | (cases F.eq a1 (F.lit 0) <;> cases F.eq a2 (F.lit 0) <;> simp)
        | (cases F.le a1 a2 <;> simp)
        | (cases F.le a2 a1 <;> simp)
        | (cases F.lt a1 a2 <;> simp)
        | (cases F.lt a2 a1 <;> simp)
        | (cases F.eq a1 a2 <;> simp)

/-- C17: for `+`, `-`, the six relational and the two logical operators, met by the token loop
without an error with the values `a1`, `a2` and the dimension vectors `u1`, `u2` on top of the
stacks, the token sets `EQERR_EVAL_UNITMISMATCH` exactly when `u1` and `u2` differ in one of
the seven components.  When they agree no error is set, `+` and `-` leave `a1 + a2` or
`a1 - a2` with the dimension vector of the operands, and the relational and logical operators
leave 1 or 0 with the zero vector.  When the token loop of `DoEquation` reaches such a token
with vectors that differ, `DoEquation` returns `EQERR_EVAL_UNITMISMATCH` and stores no answer.
In exact arithmetic `1 m + 1 s` and `1 m < 1 s` return `EQERR_EVAL_UNITMISMATCH`, `1 m + 2 m`
gives 3 with the unit text `m`, and `1 m < 2 m` gives 1 with an empty unit text. -/
theorem C17_unit_agreement (F : Dbl D) (this : Instance D) (dVar : Option (List D))
    (tfAllowAssign tfAllowDerived : Bool) (dVal0 : D) (uUnit0 : UNITBASE D) :
    (∀ (e : EState D) (o : Int) (a2 a1 : D) (vs : List D) (u2 u1 : UNITBASE D)
        (us : List (UNITBASE D)),
      (this.pvoEquation.getD e.iThisPt.toNat (voNul F)).uTyp = VOTYP_OP →
      (this.pvoEquation.getD e.iThisPt.toNat (voNul F)).iVal = o →
      (IsAddOp o ∨ IsCmpOp o) → e.iError = EQERR_NONE →
      e.dsVals = a2 :: a1 :: vs → e.usUnits = u2 :: u1 :: us →
      ((evalToken F this.pvoEquation this.iEqnLength tfAllowAssign e).iError
          = EQERR_EVAL_UNITMISMATCH ↔ UnitsDiffer F u1 u2) ∧
      (¬ UnitsDiffer F u1 u2 →
        (evalToken F this.pvoEquation this.iEqnLength tfAllowAssign e).iError = EQERR_NONE ∧
        (IsAddOp o →
          (evalToken F this.pvoEquation this.iEqnLength tfAllowAssign e).usUnits = u2 :: us) ∧
        (o = OP_ADD →
          (evalToken F this.pvoEquation this.iEqnLength tfAllowAssign e).dsVals
            = F.add a1 a2 :: vs) ∧
        (o = OP_SUB →
          (evalToken F this.pvoEquation this.iEqnLength tfAllowAssign e).dsVals
            = F.sub a1 a2 :: vs) ∧
        (IsCmpOp o →
          (evalToken F this.pvoEquation this.iEqnLength tfAllowAssign e).usUnits
            = uUnitZero F :: us ∧
          ((evalToken F this.pvoEquation this.iEqnLength tfAllowAssign e).dsVals
              = F.lit 1 :: vs ∨
            (evalToken F this.pvoEquation this.iEqnLength tfAllowAssign e).dsVals
              = F.lit 0 :: vs)))) ∧
    (∀ (k : Nat) (o : Int) (a2 a1 : D) (vs : List D) (u2 u1 : UNITBASE D)
        (us : List (UNITBASE D)),
      k < this.iEqnLength.toNat →
      (evalRounds F this dVar tfAllowAssign dVal0 uUnit0 k).iThisPt < this.iEqnLength →
      (evalRounds F this dVar tfAllowAssign dVal0 uUnit0 k).iError = EQERR_NONE →
      (this.pvoEquation.getD (evalRounds F this dVar tfAllowAssign dVal0 uUnit0 k).iThisPt.toNat
        (voNul F)).uTyp = VOTYP_OP →
      (this.pvoEquation.getD (evalRounds F this dVar tfAllowAssign dVal0 uUnit0 k).iThisPt.toNat
        (voNul F)).iVal = o →
      (IsAddOp o ∨ IsCmpOp o) →
      (evalRounds F this dVar tfAllowAssign dVal0 uUnit0 k).dsVals = a2 :: a1 :: vs →
      (evalRounds F this dVar tfAllowAssign dVal0 uUnit0 k).usUnits = u2 :: u1 :: us →
      UnitsDiffer F u1 u2 →
      (DoEquation F this dVar tfAllowAssign tfAllowDerived dVal0 uUnit0).ret
        = EQERR_EVAL_UNITMISMATCH ∧
      (DoEquation F this dVar tfAllowAssign tfAllowDerived dVal0 uUnit0).dAns = none) ∧
    (ParseEquation Q fresh "1 m + 1 s".toList none).1 = EQERR_NONE ∧
    (DoEquation Q (ParseEquation Q fresh "1 m + 1 s".toList none).2 none false false 0 []).ret
      = EQERR_EVAL_UNITMISMATCH ∧
    (DoEquation Q (ParseEquation Q fresh "1 m < 1 s".toList none).2 none false false 0 []).ret
      = EQERR_EVAL_UNITMISMATCH ∧
    (DoEquation Q (ParseEquation Q fresh "1 m + 2 m".toList none).2 none false false 0 []).ret
      = EQERR_NONE ∧
    (DoEquation Q (ParseEquation Q fresh "1 m + 2 m".toList none).2 none false false 0 []).dAns
      = some 3 ∧
    (DoEquation Q (ParseEquation Q fresh "1 m + 2 m".toList none).2 none false false
      0 []).this.tgt.m_szUnit = ['m'] ∧
    (DoEquation Q (ParseEquation Q fresh "1 m < 2 m".toList none).2 none false false 0 []).dAns
      = some 1 ∧
    (DoEquation Q (ParseEquation Q fresh "1 m < 2 m".toList none).2 none false false
      0 []).this.tgt.m_szUnit = [] := by
  have key : ∀ (e : EState D) (o : Int),
      (this.pvoEquation.getD e.iThisPt.toNat (voNul F)).uTyp = VOTYP_OP →
      (this.pvoEquation.getD e.iThisPt.toNat (voNul F)).iVal = o →
      (IsAddOp o ∨ IsCmpOp o) →
      evalToken F this.pvoEquation this.iEqnLength tfAllowAssign e = evalBinary F o e := by
    intro e o h1 h2 ho
    have hb : o ≠ OP_SET ∧ o < OP_UNARY := by
      unfold IsAddOp IsCmpOp at ho
      simp only [OP_ADD, OP_SUB, OP_OR, OP_AND, OP_LTE, OP_EQ, OP_SET, OP_UNARY] at *
      omega
    exact evalToken_binary F _ _ _ e o h1 h2 hb.1 hb.2
  have hiff : ∀ u1 u2 : UNITBASE D, ¬ UnitsDiffer F u1 u2 → unitsEq F u1 u2 = true := by
    intro u1 u2 h
    cases hq : unitsEq F u1 u2
    · exact absurd ((unitsEq_false_iff F u1 u2).mp hq) h
    · rfl
  refine ⟨fun e o a2 a1 vs u2 u1 us h1 h2 ho he hv hu => ?_,
    fun k o a2 a1 vs u2 u1 us hk h1 h2 h3 h4 ho hv hu hd => ?_, ?_⟩
  · rw [key e o h1 h2 ho]
    obtain ⟨g1, g2⟩ := evalBinary_units F o e a2 a1 vs u2 u1 us ho he hv hu
    exact ⟨g1.trans (unitsEq_false_iff F u1 u2), fun h => g2 (hiff u1 u2 h)⟩
  · refine DoEquation_fails_at F this dVar tfAllowAssign tfAllowDerived dVal0 uUnit0 k _ hk h1 h2
      ?_ (by decide)
    rw [key _ o h3 h4 ho]
    exact (evalBinary_units F o _ a2 a1 vs u2 u1 us ho h2 hv hu).1.mpr
      ((unitsEq_false_iff F u1 u2).mpr hd)
  · decide!

theorem C17_witness :
    (evalToken Q [voI Q VOTYP_OP OP_ADD 0] 1 false
      ⟨[1, 1], [[0, 0, 1, 0, 0, 0, 0], [0, 1, 0, 0, 0, 0, 0]], 0, EQERR_NONE, none, 0, [],
        false⟩).iError = EQERR_EVAL_UNITMISMATCH ∧
    (evalToken Q [voI Q VOTYP_OP OP_LT 0] 1 false
      ⟨[2, 1], [[0, 1, 0, 0, 0, 0, 0], [0, 1, 0, 0, 0, 0, 0]], 0, EQERR_NONE, none, 0, [],
        false⟩).usUnits = [uUnitZero Q] :=
  ⟨((C17_unit_agreement Q ⟨none, 1, [voI Q VOTYP_OP OP_ADD 0], EQERR_NONE, 0,
      ⟨[], uUnitZero Q, 0, 0⟩⟩ none false false 0 []).1
      ⟨[1, 1], [[0, 0, 1, 0, 0, 0, 0], [0, 1, 0, 0, 0, 0, 0]], 0, EQERR_NONE, none, 0, [],
        false⟩ OP_ADD 1 1 [] [0, 0, 1, 0, 0, 0, 0] [0, 1, 0, 0, 0, 0, 0] []
      (by decide!) (by decide!) (Or.inl (Or.inl rfl)) rfl rfl rfl).1.mpr
      ⟨1, by decide, by decide!⟩,
    ((((C17_unit_agreement Q ⟨none, 1, [voI Q VOTYP_OP OP_LT 0], EQERR_NONE, 0,
      ⟨[], uUnitZero Q, 0, 0⟩⟩ none false false 0 []).1
      ⟨[2, 1], [[0, 1, 0, 0, 0, 0, 0], [0, 1, 0, 0, 0, 0, 0]], 0, EQERR_NONE, none, 0, [],
        false⟩ OP_LT 2 1 [] [0, 1, 0, 0, 0, 0, 0] [0, 1, 0, 0, 0, 0, 0] []
      (by decide!) (by decide!) (Or.inr (Or.inr (Or.inr ⟨by decide, by decide⟩))) rfl rfl rfl).2
      (by
        rintro ⟨i, hi, h⟩
        have hi2 : i < 7 := hi
        interval_cases i <;> exact absurd h (by decide!))).2.2.2.2
      (Or.inr (Or.inr ⟨by decide, by decide⟩))).1⟩

/-! ## Argument counts at the closing bracket -/

/-- C19 (as stated, refuted): parsing `max()` and `min()` fails with
`EQERR_PARSE_NUMBEREXPECTED`, not with `EQERR_PARSE_NARGBADCOUNT`. -/
theorem C19_counterexample :
    (ParseEquation Q fresh "max()".toList none).1 = EQERR_PARSE_NUMBEREXPECTED ∧
    (ParseEquation Q fresh "max()".toList none).1 ≠ EQERR_PARSE_NARGBADCOUNT ∧
    (ParseEquation Q fresh "min()".toList none).1 = EQERR_PARSE_NUMBEREXPECTED ∧
    (ParseEquation Q fresh "min()".toList none).1 ≠ EQERR_PARSE_NARGBADCOUNT := by decide!

/-- C19 (amended): a closing bracket met where a number is expected is the fall-through error
of the mode `LOOKFOR_NUMBER`: in every state of that mode, at a `)` that `sscanf` does not
read as a number, the token sets `EQERR_PARSE_NUMBEREXPECTED` with a scan of length zero, so
the argument-count test of the closing bracket is not reached.  In exact arithmetic `max()`
and `min()` fail with `EQERR_PARSE_NUMBEREXPECTED` located at offset 4, the closing bracket,
and so do `max( )` (at offset 5), `mod()`, `if()`, `sin()` and `max(1,)` (at offset 6). -/
theorem C19_empty_call_number_expected (F : Dbl D) (szEqtn : List Char)
    (pszVars : Option (List (List Char))) (s : PState D)
    (hL : s.uLookFor = LOOKFOR_NUMBER) (hc : charAt szEqtn s.iThisPt = ')')
    (hn : F.scanf_lg (strFrom szEqtn s.iThisPt) = none) :
    (parseToken F szEqtn pszVars s).1.iError = EQERR_PARSE_NUMBEREXPECTED ∧
    (parseToken F szEqtn pszVars s).2 = 0 ∧
    (parseToken F szEqtn pszVars s).1.st = s.st ∧
    ((ParseEquation Q fresh "max()".toList none).1 = EQERR_PARSE_NUMBEREXPECTED ∧
      (ParseEquation Q fresh "max()".toList none).2.iErrorLocation = 4 ∧
      (ParseEquation Q fresh "min()".toList none).1 = EQERR_PARSE_NUMBEREXPECTED ∧
      (ParseEquation Q fresh "min()".toList none).2.iErrorLocation = 4 ∧
      (ParseEquation Q fresh "max( )".toList none).1 = EQERR_PARSE_NUMBEREXPECTED ∧
      (ParseEquation Q fresh "max( )".toList none).2.iErrorLocation = 5 ∧
      (ParseEquation Q fresh "mod()".toList none).1 = EQERR_PARSE_NUMBEREXPECTED ∧
      (ParseEquation Q fresh "if()".toList none).1 = EQERR_PARSE_NUMBEREXPECTED ∧
      (ParseEquation Q fresh "sin()".toList none).1 = EQERR_PARSE_NUMBEREXPECTED ∧
      (ParseEquation Q fresh "max(1,)".toList none).1 = EQERR_PARSE_NUMBEREXPECTED ∧
      (ParseEquation Q fresh "max(1,)".toList none).2.iErrorLocation = 6) := by
  have h1 : strchr EQ_VALIDCHAR ')' = false := by decide
  have h3 : ¬ ((')' : Char) = '-') := by decide
  have h4 : ¬ ((')' : Char) = '+') := by decide
  have h5 : ¬ ((')' : Char) = '(') := by decide
  have heq : parseToken F szEqtn pszVars s =
      ({ s with iError := EQERR_PARSE_NUMBEREXPECTED }, 0) := by
    unfold parseToken
    rw [if_pos hL]
    unfold parseNumber
    simp only [hc, h1, Bool.false_eq_true, if_false, if_neg h3, if_neg h4]
    unfold parseLiteral
    simp only [hn, hc, if_neg h5]
  rw [heq]
  exact ⟨rfl, rfl, rfl, by decide!⟩

theorem C19_witness :
    (parseToken Q "max()".toList none
      ⟨⟨[], [54], [0]⟩, LOOKFOR_NUMBER, 4, 100, EQERR_NONE, 0, ⟨[], uUnitZero Q, 0, 0⟩⟩).1.iError
      = EQERR_PARSE_NUMBEREXPECTED :=
  (C19_empty_call_number_expected Q "max()".toList none
    ⟨⟨[], [54], [0]⟩, LOOKFOR_NUMBER, 4, 100, EQERR_NONE, 0, ⟨[], uUnitZero Q, 0, 0⟩⟩
    rfl (by decide) (by decide!)).1

/-! ## The target unit clause -/

/-! ## The fold of max and min -/

theorem evalToken_narg (F : Dbl D) (pvo : List (VALOP D)) (len : Int) (allow : Bool)
    (e : EState D) (j : Int) (ht : (pvo.getD e.iThisPt.toNat (voNul F)).uTyp = VOTYP_OP)
    (ho : (pvo.getD e.iThisPt.toNat (voNul F)).iVal = OP_NARG + j) (hj : 0 ≤ j) :
    evalToken F pvo len allow e = evalNArg F pvo len j e := by
  have h1 : ¬ (OP_NARG + j = OP_SET) := by simp only [OP_NARG, OP_SET]; omega
  have h2 : ¬ (OP_NARG + j < OP_UNARY) := by simp only [OP_NARG, OP_UNARY]; omega
  have h3 : ¬ (OP_NARG + j < OP_NARG) := by omega
  have h4 : OP_NARG + j - OP_NARG = j := by omega
  rw [evalToken_operator F pvo len allow e ht (by rw [ho]; exact h1), ho, if_neg h2, if_neg h3,
    h4]

/-- The value and the error code that `mod` (`isRem = false`) and `rem` leave for the
arguments `a`, `b` with the dimension vectors `u1`, `u2`. -/
theorem evalNArg_mod_rem (F : Dbl D) (pvo : List (VALOP D)) (len : Int) (e : EState D)
    (j : Int) (a b : D) (vs : List D) (u1 u2 : UNITBASE D) (us : List (UNITBASE D))
    (hj : j = OP_NARG_MOD ∨ j = OP_NARG_REM) (he : e.iError = EQERR_NONE)
    (hv : e.dsVals = b :: a :: vs) (hu : e.usUnits = u2 :: u1 :: us) :
    (F.eq b (F.lit 0) = true → j = OP_NARG_MOD →
      (evalNArg F pvo len j e).dsVals = a :: vs ∧
      (evalNArg F pvo len j e).usUnits = e.uUnit :: us ∧
      (evalNArg F pvo len j e).iError = EQERR_NONE) ∧
    (F.eq b (F.lit 0) = true → j = OP_NARG_REM →
      (evalNArg F pvo len j e).iError = EQERR_MATH_DIV_ZERO) ∧
    (F.eq b (F.lit 0) = false →
      (evalNArg F pvo len j e).dsVals =
        (if j = OP_NARG_REM ∧ dSIGN F a ≠ dSIGN F b then
          F.sub (F.sub a (F.mul b (F.floor (F.div a b)))) b
         else F.sub a (F.mul b (F.floor (F.div a b)))) :: vs ∧
      (unitsEq F u1 u2 = true →
        (evalNArg F pvo len j e).iError = EQERR_NONE ∧
        (evalNArg F pvo len j e).usUnits = u2 :: us) ∧
      (unitsEq F u1 u2 = false →
        (evalNArg F pvo len j e).iError = EQERR_EVAL_UNITMISMATCH)) := by
  have hl : ¬ (((b :: a :: vs).length : Int) < 2) := by
    simp only [List.length_cons]
    push_cast
    omega
  have ha : ABS (nargArgc j) = 2 ∧ nargArgc j = 2 := by
    rcases hj with rfl | rfl <;> decide
  have a2 : ABS (2 : Int) = 2 := by decide
  have hl3 : (2 : Int) ≤ (vs.length : Int) + 1 + 1 := by omega
  refine ⟨fun hz hm => ?_, fun hz hr => ?_, fun hz => ?_⟩
  · subst hm
    unfold evalNArg
    simp [pushResult, Pop, hv, hu, he, hz, ha.1, ha.2, hl, OP_NARG_MOD, OP_NARG_REM, a2, hl3]
  · subst hr
    unfold evalNArg
    simp [pushResult, Pop, hv, hu, he, hz, ha.1, ha.2, hl, OP_NARG_MOD, OP_NARG_REM, a2, hl3]
  · unfold evalNArg
    simp only [ha.2, if_true, hv, hu, Pop, hj, hz, Bool.false_eq_true, if_false, pushResult,
      ha.1, if_neg hl, he]
    refine ⟨trivial, fun hq => ?_, fun hq => ?_⟩
    · simp [hq, a2, hl3]
    · simp [hq]

/-- C22: `mod` with a zero divisor does not compare the dimension vectors and does not give
the result the vector of the first argument.  A `mod` token met without an error with the
values `a`, `b` and the dimension vectors `u1`, `u2` on top of the stacks: when `b` is zero it
leaves `a` with whatever the local `uUnit` holds from an earlier token, and sets no error
whatever `u1` and `u2` are; when `b` is not zero it leaves `a - b * floor(a / b)`, sets
`EQERR_EVAL_UNITMISMATCH` when `u1` and `u2` differ, and otherwise gives the result the vector
`u2`.  In exact arithmetic `mod(5 m, 0 s)` returns `EQERR_NONE` with the answer 5 and the unit
text `s`; `mod(5, 0 m)` gives the unit text `m`; and `mod(5,0)` gives the unit text `kg` or
`m` when the local `uUnit`, which no statement has set, holds the vector of `kg` or of `m`. -/
theorem C22_mod_zero_divisor_unit (F : Dbl D) (pvo : List (VALOP D)) (len : Int)
    (allow : Bool) (e : EState D) (a b : D) (vs : List D) (u1 u2 : UNITBASE D)
    (us : List (UNITBASE D))
    (ht : (pvo.getD e.iThisPt.toNat (voNul F)).uTyp = VOTYP_OP)
    (ho : (pvo.getD e.iThisPt.toNat (voNul F)).iVal = OP_NARG + OP_NARG_MOD)
    (he : e.iError = EQERR_NONE)
    (hv : e.dsVals = b :: a :: vs) (hu : e.usUnits = u2 :: u1 :: us) :
    (F.eq b (F.lit 0) = true →
      (evalToken F pvo len allow e).dsVals = a :: vs ∧
      (evalToken F pvo len allow e).usUnits = e.uUnit :: us ∧
      (evalToken F pvo len allow e).iError = EQERR_NONE) ∧
    (F.eq b (F.lit 0) = false →
      (evalToken F pvo len allow e).dsVals =
        F.sub a (F.mul b (F.floor (F.div a b))) :: vs ∧
      (¬ UnitsDiffer F u1 u2 →
        (evalToken F pvo len allow e).iError = EQERR_NONE ∧
        (evalToken F pvo len allow e).usUnits = u2 :: us) ∧
      (UnitsDiffer F u1 u2 →
        (evalToken F pvo len allow e).iError = EQERR_EVAL_UNITMISMATCH)) ∧
    ((ParseEquation Q fresh "mod(5 m, 0 s)".toList none).1 = EQERR_NONE ∧
      (DoEquation Q (ParseEquation Q fresh "mod(5 m, 0 s)".toList none).2 none false false
        0 []).ret = EQERR_NONE ∧
      (DoEquation Q (ParseEquation Q fresh "mod(5 m, 0 s)".toList none).2 none false false
        0 []).dAns = some 5 ∧
      (DoEquation Q (ParseEquation Q fresh "mod(5 m, 0 s)".toList none).2 none false false
        0 []).this.tgt.m_szUnit = ['s'] ∧
      (DoEquation Q (ParseEquation Q fresh "mod(5, 0 m)".toList none).2 none false false
        0 []).this.tgt.m_szUnit = ['m'] ∧
      (DoEquation Q (ParseEquation Q fresh "mod(5,0)".toList none).2 none false false
        0 [1, 0, 0, 0, 0, 0, 0]).ret = EQERR_NONE ∧
      (DoEquation Q (ParseEquation Q fresh "mod(5,0)".toList none).2 none false false
        0 [1, 0, 0, 0, 0, 0, 0]).this.tgt.m_szUnit = ['k', 'g'] ∧
      (DoEquation Q (ParseEquation Q fresh "mod(5,0)".toList none).2 none false false
        0 [0, 1, 0, 0, 0, 0, 0]).this.tgt.m_szUnit = ['m'] ∧
      (DoEquation Q (ParseEquation Q fresh "mod(5 m, 2 s)".toList none).2 none false false
        0 []).ret = EQERR_EVAL_UNITMISMATCH ∧
      (DoEquation Q (ParseEquation Q fresh "mod(7 m, 2 m)".toList none).2 none false false
        0 []).dAns = some 1 ∧
      (DoEquation Q (ParseEquation Q fresh "mod(7 m, 2 m)".toList none).2 none false false
        0 []).this.tgt.m_szUnit = ['m']) := by
  rw [evalToken_narg F pvo len allow e OP_NARG_MOD ht ho (by decide)]
  obtain ⟨g1, -, g3⟩ := evalNArg_mod_rem F pvo len e OP_NARG_MOD a b vs u1 u2 us (Or.inl rfl)
    he hv hu
  refine ⟨fun hz => g1 hz rfl, fun hz => ?_, by decide!⟩
  obtain ⟨k1, k2, k3⟩ := g3 hz
  have hne : ¬ (OP_NARG_MOD = OP_NARG_REM ∧ dSIGN F a ≠ dSIGN F b) := fun h =>
    absurd h.1 (by decide)
  rw [if_neg hne] at k1
  refine ⟨k1, fun hd => ?_, fun hd => k3 ((unitsEq_false_iff F u1 u2).mpr hd)⟩
  apply k2
  cases hq : unitsEq F u1 u2
  · exact absurd ((unitsEq_false_iff F u1 u2).mp hq) hd
  · rfl

theorem C22_witness :
    (evalToken Q [voI Q VOTYP_OP (OP_NARG + OP_NARG_MOD) 0] 1 false
      ⟨[0, 5], [[0, 0, 1, 0, 0, 0, 0], [0, 1, 0, 0, 0, 0, 0]], 0, EQERR_NONE, none, 0,
        [0, 0, 1, 0, 0, 0, 0], false⟩).iError = EQERR_NONE ∧
    (evalToken Q [voI Q VOTYP_OP (OP_NARG + OP_NARG_MOD) 0] 1 false
      ⟨[0, 5], [[0, 0, 1, 0, 0, 0, 0], [0, 1, 0, 0, 0, 0, 0]], 0, EQERR_NONE, none, 0,
        [0, 0, 1, 0, 0, 0, 0], false⟩).usUnits = [[0, 0, 1, 0, 0, 0, 0]] :=
  ⟨((C22_mod_zero_divisor_unit Q [voI Q VOTYP_OP (OP_NARG + OP_NARG_MOD) 0] 1 false
      ⟨[0, 5], [[0, 0, 1, 0, 0, 0, 0], [0, 1, 0, 0, 0, 0, 0]], 0, EQERR_NONE, none, 0,
        [0, 0, 1, 0, 0, 0, 0], false⟩ 5 0 [] [0, 1, 0, 0, 0, 0, 0] [0, 0, 1, 0, 0, 0, 0] []
      (by decide!) (by decide!) rfl rfl rfl).1 (by decide!)).2.2,
    ((C22_mod_zero_divisor_unit Q [voI Q VOTYP_OP (OP_NARG + OP_NARG_MOD) 0] 1 false
      ⟨[0, 5], [[0, 0, 1, 0, 0, 0, 0], [0, 1, 0, 0, 0, 0, 0]], 0, EQERR_NONE, none, 0,
        [0, 0, 1, 0, 0, 0, 0], false⟩ 5 0 [] [0, 1, 0, 0, 0, 0, 0] [0, 0, 1, 0, 0, 0, 0] []
      (by decide!) (by decide!) rfl rfl rfl).1 (by decide!)).2.1⟩

/-- C23: `rem` is not the truncated-division remainder.  A `rem` token met without an error
with the values `a`, `b` on top of the value stack sets `EQERR_MATH_DIV_ZERO` when `b` is zero
and otherwise leaves `a - b * floor(a / b)`, less `b` when `SIGN(a)` and `SIGN(b)` differ.  In
exact arithmetic this gives `-b`, not zero, for every multiple `a = n * b` of a non-zero `b`
with `n ≤ 0`: `rem(0,3)` and `rem(-6,3)` evaluate to -3, `rem(0,-3)` and `rem(6,-3)` to 3.
`rem(6,3)` is 0, `rem(5,3)` is 2, `rem(-5,3)` is -2, `rem(5,-3)` is 2, and `rem(5,0)` returns
`EQERR_MATH_DIV_ZERO`. -/
theorem C23_rem_of_multiples (F : Dbl D) (pvo : List (VALOP D)) (len : Int)
    (allow : Bool) (e : EState D) (a b : D) (vs : List D) (u1 u2 : UNITBASE D)
    (us : List (UNITBASE D))
    (ht : (pvo.getD e.iThisPt.toNat (voNul F)).uTyp = VOTYP_OP)
    (ho : (pvo.getD e.iThisPt.toNat (voNul F)).iVal = OP_NARG + OP_NARG_REM)
    (he : e.iError = EQERR_NONE)
    (hv : e.dsVals = b :: a :: vs) (hu : e.usUnits = u2 :: u1 :: us) :
    (F.eq b (F.lit 0) = true →
      (evalToken F pvo len allow e).iError = EQERR_MATH_DIV_ZERO) ∧
    (F.eq b (F.lit 0) = false →
      (evalToken F pvo len allow e).dsVals =
        (if dSIGN F a ≠ dSIGN F b then F.sub (F.sub a (F.mul b (F.floor (F.div a b)))) b
         else F.sub a (F.mul b (F.floor (F.div a b)))) :: vs) ∧
    (∀ (q : ℚ) (n : Int) (vq : List ℚ) (e2 : EState ℚ), q ≠ 0 → n ≤ 0 →
      e2.iError = EQERR_NONE → e2.dsVals = q :: (n : ℚ) * q :: vq →
      (evalNArg Q [] 0 OP_NARG_REM e2).dsVals = -q :: vq) ∧
    ((DoEquation Q (ParseEquation Q fresh "rem(0,3)".toList none).2 none false false
        0 []).ret = EQERR_NONE ∧
      (DoEquation Q (ParseEquation Q fresh "rem(0,3)".toList none).2 none false false
        0 []).dAns = some (-3) ∧
      (DoEquation Q (ParseEquation Q fresh "rem(-6,3)".toList none).2 none false false
        0 []).dAns = some (-3) ∧
      (DoEquation Q (ParseEquation Q fresh "rem(0,-3)".toList none).2 none false false
        0 []).dAns = some 3 ∧
      (DoEquation Q (ParseEquation Q fresh "rem(6,-3)".toList none).2 none false false
        0 []).dAns = some 3 ∧
      (DoEquation Q (ParseEquation Q fresh "rem(6,3)".toList none).2 none false false
        0 []).dAns = some 0 ∧
      (DoEquation Q (ParseEquation Q fresh "rem(5,3)".toList none).2 none false false
        0 []).dAns = some 2 ∧
      (DoEquation Q (ParseEquation Q fresh "rem(-5,3)".toList none).2 none false false
        0 []).dAns = some (-2) ∧
      (DoEquation Q (ParseEquation Q fresh "rem(5,-3)".toList none).2 none false false
        0 []).dAns = some 2 ∧
      (DoEquation Q (ParseEquation Q fresh "rem(5,0)".toList none).2 none false false
        0 []).ret = EQERR_MATH_DIV_ZERO) := by
  rw [evalToken_narg F pvo len allow e OP_NARG_REM ht ho (by decide)]
  obtain ⟨-, g2, g3⟩ := evalNArg_mod_rem F pvo len e OP_NARG_REM a b vs u1 u2 us (Or.inr rfl)
    he hv hu
  refine ⟨fun hz => g2 hz rfl, fun hz => ?_, ?_, by decide!⟩
  · have k1 := (g3 hz).1
    simp only [true_and] at k1
    exact k1
  · intro q n vq e2 hq hn he2 hv2
    obtain ⟨us2, hus⟩ : ∃ l, e2.usUnits = l := ⟨_, rfl⟩
    have hz : Q.eq q (Q.lit 0) = false := by
      simp [Q, ratDbl, hq]
    have hfl : Q.floor (Q.div ((n : ℚ) * q) q) = (n : ℚ) := by
      simp [Q, ratDbl, hq]
    have hsg : dSIGN Q ((n : ℚ) * q) ≠ dSIGN Q q := by
      have hnq : (n : ℚ) ≤ 0 := by exact_mod_cast hn
      unfold dSIGN
      simp only [Q, ratDbl, decide_eq_true_eq]
      rcases lt_or_gt_of_ne hq with h | h
      · have h1 : ¬ (0 < q) := not_lt.mpr h.le
        have h2 : 0 ≤ (n : ℚ) * q := mul_nonneg_of_nonpos_of_nonpos hnq h.le
        rw [if_neg hq, if_neg h1]
        split_ifs with k1 k2
        · simp
        · simp
        · exact absurd (lt_of_le_of_ne h2 (Ne.symm k1)) k2
      · have h2 : (n : ℚ) * q ≤ 0 := mul_nonpos_of_nonpos_of_nonneg hnq h.le
        have h3 : ¬ (0 < (n : ℚ) * q) := not_lt.mpr h2
        rw [if_neg hq, if_pos h, if_neg h3]
        split_ifs <;> simp
    have hl : ¬ (((q :: (n : ℚ) * q :: vq).length : Int) < 2) := by
      simp only [List.length_cons]
      push_cast
      omega
    unfold evalNArg
    simp only [show nargArgc OP_NARG_REM = 2 from by decide, if_true, hv2, Pop,
      show (OP_NARG_REM = OP_NARG_MOD ∨ OP_NARG_REM = OP_NARG_REM) from Or.inr rfl, hz,
      Bool.false_eq_true, if_false, pushResult, hfl, true_and, if_pos hsg]
    simp [Q, ratDbl]
    ring

theorem C23_witness :
    (evalToken Q [voI Q VOTYP_OP (OP_NARG + OP_NARG_REM) 0] 1 false
      ⟨[3, -6], [uUnitZero Q, uUnitZero Q], 0, EQERR_NONE, none, 0, [], false⟩).dsVals
      = [-3] :=
  ((C23_rem_of_multiples Q [voI Q VOTYP_OP (OP_NARG + OP_NARG_REM) 0] 1 false
      ⟨[3, -6], [uUnitZero Q, uUnitZero Q], 0, EQERR_NONE, none, 0, [], false⟩ (-6) 3 []
      (uUnitZero Q) (uUnitZero Q) [] (by decide!) (by decide!) rfl rfl rfl).2.1
      (by decide!)).trans (by decide!)

/-! ## Power and the unary functions -/

theorem powUnit_dimless (F : Dbl D) (uU u1 u2 : UNITBASE D) (d : D)
    (hz : unitIsZero F u2 = true) :
    powUnit F uU u1 u2 d =
      (List.range EQSI_NUMUNIT_BASE).map (fun i => F.mul (u1.getD i (F.lit 0)) d) := by
  unfold unitIsZero at hz
  rw [List.all_eq_true] at hz
  have htw : (List.range EQSI_NUMUNIT_BASE).takeWhile
      (fun i => F.eq (u2.getD i (F.lit 0)) (F.lit 0)) = List.range EQSI_NUMUNIT_BASE :=
    List.takeWhile_eq_self_iff.mpr hz
  unfold powUnit
  simp only [htw, List.length_range]
  apply List.map_congr_left
  intro i hi
  rw [if_pos (List.mem_range.mp hi)]

theorem evalBinary_pow (F : Dbl D) (e : EState D) (a b : D) (vs : List D)
    (u1 u2 : UNITBASE D) (us : List (UNITBASE D))
    (he : e.iError = EQERR_NONE) (hv : e.dsVals = b :: a :: vs)
    (hu : e.usUnits = u2 :: u1 :: us) :
    (unitIsZero F u2 = false → (evalBinary F OP_POW e).iError = EQERR_EVAL_UNITNOTDIMLESS) ∧
    (unitIsZero F u2 = true →
      (F.eq a (F.lit 0) = true → F.lt (powExponent F a b) (F.lit 0) = true →
        (evalBinary F OP_POW e).iError = EQERR_MATH_DIV_ZERO) ∧
      (¬ (F.eq a (F.lit 0) = true ∧ F.lt (powExponent F a b) (F.lit 0) = true) →
        (evalBinary F OP_POW e).iError = EQERR_NONE ∧
        (evalBinary F OP_POW e).dsVals =
          (if F.eq a (F.lit 0) = true ∧ F.eq (powExponent F a b) (F.lit 0) = true then F.lit 1
            else F.pow a (powExponent F a b)) :: vs) ∧
      (evalBinary F OP_POW e).usUnits =
        (List.range EQSI_NUMUNIT_BASE).map
          (fun i => F.mul (u1.getD i (F.lit 0)) (powExponent F a b)) :: us) := by
  have hl : ¬ ((vs.length : Int) + 1 + 1 < 2) := by omega
  refine ⟨fun hz => ?_, fun hz => ⟨fun h1 h2 => ?_, fun h => ?_, ?_⟩⟩
  · unfold evalBinary
    simp [pushResult, Pop, hv, hu, he, hz, hl, OP_OR, OP_AND, OP_LTE, OP_GTE, OP_LT, OP_GT,
      OP_NEQ, OP_EQ, OP_ADD, OP_SUB, OP_MUL, OP_DIV, OP_POW, OP_PSH, OP_POP]
  · unfold powExponent at h2
    simp only [one_div] at h2
    unfold evalBinary
    simp [pushResult, Pop, hv, hu, he, hz, hl, h1, h2, OP_OR, OP_AND, OP_LTE, OP_GTE, OP_LT,
      OP_GT, OP_NEQ, OP_EQ, OP_ADD, OP_SUB, OP_MUL, OP_DIV, OP_POW, OP_PSH, OP_POP]
  · unfold powExponent at h ⊢
    have h' : (F.eq a (F.lit 0) && F.lt (if F.lt a (F.lit 0) = true
        then F.floor (F.add b (F.lit (1 / 2))) else b) (F.lit 0)) = false := by
      cases h1 : F.eq a (F.lit 0)
      · rfl
      · cases h2 : F.lt (if F.lt a (F.lit 0) = true
          then F.floor (F.add b (F.lit (1 / 2))) else b) (F.lit 0)
        · rfl
        · exact absurd ⟨h1, h2⟩ h
    unfold evalBinary
    simp only [pushResult, Pop, hv, hu, he, hz, OP_OR, OP_AND, OP_LTE, OP_GTE, OP_LT,
      OP_GT, OP_NEQ, OP_EQ, OP_ADD, OP_SUB, OP_MUL, OP_DIV, OP_POW, OP_PSH, OP_POP,
      List.length_cons, Nat.cast_add, Nat.cast_one, if_neg hl, decide_True, Bool.true_and, h',
      Bool.false_eq_true, if_false, Bool.not_true, Bool.and_false, Bool.or_false,
      decide_False, Bool.false_and, Bool.and_eq_true, false_and, and_false, if_true,
      show ¬ ((16 : Int) = 15) by decide, show ¬ ((16 : Int) = 1) by decide,
      show ¬ ((16 : Int) = 2) by decide, show ¬ ((16 : Int) = 12) by decide,
      show ¬ ((16 : Int) = 13) by decide, show ¬ ((16 : Int) = 14) by decide,
      show ¬ ((16 : Int) = 4) by decide, show ¬ ((16 : Int) = 5) by decide,
      show ¬ ((6 : Int) ≤ 16 ∧ (16 : Int) ≤ 11) by decide, or_self]
    exact ⟨trivial, trivial⟩
  · unfold powExponent
    unfold evalBinary
    simp only [pushResult, Pop, hv, hu, he, hz, OP_OR, OP_AND, OP_LTE, OP_GTE, OP_LT,
      OP_GT, OP_NEQ, OP_EQ, OP_ADD, OP_SUB, OP_MUL, OP_DIV, OP_POW, OP_PSH, OP_POP,
      if_true, Bool.not_true, Bool.and_false, Bool.or_false,
      decide_False, Bool.false_and, Bool.false_eq_true, if_false,
      show ¬ ((16 : Int) = 15) by decide, show ¬ ((16 : Int) = 1) by decide,
      show ¬ ((16 : Int) = 2) by decide, show ¬ ((16 : Int) = 12) by decide,
      show ¬ ((16 : Int) = 13) by decide, show ¬ ((16 : Int) = 14) by decide,
      show ¬ ((16 : Int) = 4) by decide, show ¬ ((16 : Int) = 5) by decide,
      show ¬ ((6 : Int) ≤ 16 ∧ (16 : Int) ≤ 11) by decide, or_self,
      powUnit_dimless F _ _ _ _ hz]

/-- C24: the edge cases of `^`.  A `^` token met without an error with the base `a` and the
exponent `b` on top of the value stack and their dimension vectors `u1`, `u2` on the unit
stack, where the exponent used is `b`, or `floor(b + 0.5)` when `a` is negative: an exponent
whose vector is not zero sets `EQERR_EVAL_UNITNOTDIMLESS`; under a dimensionless exponent a
zero base with a negative exponent sets `EQERR_MATH_DIV_ZERO`, and otherwise no error is set
and the value left is 1 when base and exponent are zero and `pow` of the base and the exponent
used in every other case; the vector left is `u1` multiplied componentwise by the exponent
used.  In exact arithmetic `0^0` is 1, `0^(0-1)` returns `EQERR_MATH_DIV_ZERO`, `(0-8)^(1/3)`
is 1 and `(0-2)^(5/2)` is -8 (exponents 0 and 3), `2^(1 m)` returns
`EQERR_EVAL_UNITNOTDIMLESS`, and `(2 m)^2` is 4 with the unit text `m2`. -/
theorem C24_power_edge_cases (F : Dbl D) (pvo : List (VALOP D)) (len : Int) (allow : Bool)
    (e : EState D) (a b : D) (vs : List D) (u1 u2 : UNITBASE D) (us : List (UNITBASE D))
    (ht : (pvo.getD e.iThisPt.toNat (voNul F)).uTyp = VOTYP_OP)
    (ho : (pvo.getD e.iThisPt.toNat (voNul F)).iVal = OP_POW)
    (he : e.iError = EQERR_NONE) (hv : e.dsVals = b :: a :: vs)
    (hu : e.usUnits = u2 :: u1 :: us) :
    (unitIsZero F u2 = false →
      (evalToken F pvo len allow e).iError = EQERR_EVAL_UNITNOTDIMLESS) ∧
    (unitIsZero F u2 = true →
      (F.eq a (F.lit 0) = true → F.lt (powExponent F a b) (F.lit 0) = true →
        (evalToken F pvo len allow e).iError = EQERR_MATH_DIV_ZERO) ∧
      (¬ (F.eq a (F.lit 0) = true ∧ F.lt (powExponent F a b) (F.lit 0) = true) →
        (evalToken F pvo len allow e).iError = EQERR_NONE ∧
        (evalToken F pvo len allow e).dsVals =
          (if F.eq a (F.lit 0) = true ∧ F.eq (powExponent F a b) (F.lit 0) = true then F.lit 1
            else F.pow a (powExponent F a b)) :: vs) ∧
      (evalToken F pvo len allow e).usUnits =
        (List.range EQSI_NUMUNIT_BASE).map
          (fun i => F.mul (u1.getD i (F.lit 0)) (powExponent F a b)) :: us) ∧
    ((F.lt a (F.lit 0) = true → powExponent F a b = F.floor (F.add b (F.lit (1 / 2)))) ∧
      (F.lt a (F.lit 0) = false → powExponent F a b = b)) ∧
    ((DoEquation Q (ParseEquation Q fresh "0^0".toList none).2 none false false
        0 []).ret = EQERR_NONE ∧
      (DoEquation Q (ParseEquation Q fresh "0^0".toList none).2 none false false
        0 []).dAns = some 1 ∧
      (DoEquation Q (ParseEquation Q fresh "0^(0-1)".toList none).2 none false false
        0 []).ret = EQERR_MATH_DIV_ZERO ∧
      (DoEquation Q (ParseEquation Q fresh "(0-8)^(1/3)".toList none).2 none false false
        0 []).dAns = some 1 ∧
      (DoEquation Q (ParseEquation Q fresh "(0-2)^(5/2)".toList none).2 none false false
        0 []).dAns = some (-8) ∧
      (DoEquation Q (ParseEquation Q fresh "2^(1 m)".toList none).2 none false false
        0 []).ret = EQERR_EVAL_UNITNOTDIMLESS ∧
      (DoEquation Q (ParseEquation Q fresh "(2 m)^2".toList none).2 none false false
        0 []).dAns = some 4 ∧
      (DoEquation Q (ParseEquation Q fresh "(2 m)^2".toList none).2 none false false
        0 []).this.tgt.m_szUnit = ['m', '2']) := by
  rw [evalToken_binary F pvo len allow e OP_POW ht ho (by decide) (by decide)]
  obtain ⟨g1, g2⟩ := evalBinary_pow F e a b vs u1 u2 us he hv hu
  refine ⟨g1, g2, ⟨fun h => ?_, fun h => ?_⟩, by decide!⟩
  · unfold powExponent
    rw [if_pos h]
  · unfold powExponent
    rw [if_neg (by rw [h]; simp)]

theorem C24_witness :
    (evalToken Q [voI Q VOTYP_OP OP_POW 0] 1 false
      ⟨[0, 0], [uUnitZero Q, uUnitZero Q], 0, EQERR_NONE, none, 0, [], false⟩).dsVals = [1] ∧
    (evalToken Q [voI Q VOTYP_OP OP_POW 0] 1 false
      ⟨[-1, 0], [uUnitZero Q, uUnitZero Q], 0, EQERR_NONE, none, 0, [], false⟩).iError
      = EQERR_MATH_DIV_ZERO ∧
    (evalToken Q [voI Q VOTYP_OP OP_POW 0] 1 false
      ⟨[2, 3], [[0, 1, 0, 0, 0, 0, 0], uUnitZero Q], 0, EQERR_NONE, none, 0, [], false⟩).iError
      = EQERR_EVAL_UNITNOTDIMLESS :=
  ⟨((((C24_power_edge_cases Q [voI Q VOTYP_OP OP_POW 0] 1 false
      ⟨[0, 0], [uUnitZero Q, uUnitZero Q], 0, EQERR_NONE, none, 0, [], false⟩ 0 0 []
      (uUnitZero Q) (uUnitZero Q) [] (by decide!) (by decide!) rfl rfl rfl).2.1
      (by decide!)).2.1 (by decide!)).2).trans (by decide!),
    ((C24_power_edge_cases Q [voI Q VOTYP_OP OP_POW 0] 1 false
      ⟨[-1, 0], [uUnitZero Q, uUnitZero Q], 0, EQERR_NONE, none, 0, [], false⟩ 0 (-1) []
      (uUnitZero Q) (uUnitZero Q) [] (by decide!) (by decide!) rfl rfl rfl).2.1
      (by decide!)).1 (by decide!) (by decide!),
    (C24_power_edge_cases Q [voI Q VOTYP_OP OP_POW 0] 1 false
      ⟨[2, 3], [[0, 1, 0, 0, 0, 0, 0], uUnitZero Q], 0, EQERR_NONE, none, 0, [], false⟩ 3 2 []
      (uUnitZero Q) [0, 1, 0, 0, 0, 0, 0] [] (by decide!) (by decide!) rfl rfl rfl).1
      (by decide!)⟩

theorem evalToken_unary (F : Dbl D) (pvo : List (VALOP D)) (len : Int) (allow : Bool)
    (e : EState D) (o : Int) (ht : (pvo.getD e.iThisPt.toNat (voNul F)).uTyp = VOTYP_OP)
    (ho : (pvo.getD e.iThisPt.toNat (voNul F)).iVal = OP_UNARY + o) (h0 : 0 ≤ o)
    (h1 : o < NUM_UNARYOP) :
    evalToken F pvo len allow e = evalUnary F o e := by
  have k1 : ¬ (OP_UNARY + o = OP_SET) := by simp only [OP_UNARY, OP_SET]; omega
  have k2 : ¬ (OP_UNARY + o < OP_UNARY) := by omega
  have k3 : OP_UNARY + o < OP_NARG := by
    simp only [OP_UNARY, OP_NARG, NUM_UNARYOP] at *
    omega
  have k4 : OP_UNARY + o - OP_UNARY = o := by omega
  rw [evalToken_operator F pvo len allow e ht (by rw [ho]; exact k1), ho, if_neg k2, if_pos k3,
    k4]

theorem evalUnary_units (F : Dbl D) (o : Int) (e : EState D) (a : D) (vs : List D)
    (u : UNITBASE D) (us : List (UNITBASE D))
    (he : e.iError = EQERR_NONE) (hv : e.dsVals = a :: vs) (hu : e.usUnits = u :: us) :
    (o = OP_SQRT →
      (evalUnary F o e).usUnits =
        (List.range EQSI_NUMUNIT_BASE).map
          (fun i => F.mul (u.getD i (F.lit 0)) (F.lit (1 / 2))) :: us ∧
      (evalUnary F o e).iError ≠ EQERR_EVAL_UNITNOTDIMLESS) ∧
    (IsSameUnitOp o →
      (evalUnary F o e).usUnits = u :: us ∧ (evalUnary F o e).iError = EQERR_NONE) ∧
    (IsDimlessOp o →
      (evalUnary F o e).usUnits = u :: us ∧
      (unitIsZero F u = false → (evalUnary F o e).iError = EQERR_EVAL_UNITNOTDIMLESS) ∧
      (unitIsZero F u = true → (evalUnary F o e).iError ≠ EQERR_EVAL_UNITNOTDIMLESS)) := by
  have hl : ¬ ((vs.length : Int) + 1 < 1) := by omega
  refine ⟨fun h => ?_, fun h => ?_, fun h => ?_⟩
  · subst h
    unfold evalUnary
    simp only [pushResult, Pop, hv, hu, he, List.length_cons, Nat.cast_add, Nat.cast_one,
      if_neg hl, OP_SQRT, OP_ABS, OP_CEIL, OP_FLOOR, OP_ROUND, OP_EXP, OP_LOG10, OP_LOG,
      OP_COS, OP_SIGN, OP_ACOS, OP_ASIN]
    simp only [show ¬ ((1 : Int) = 10 ∨ (1 : Int) = 11) by decide,
      show ¬ ((1 : Int) = 4 ∨ (1 : Int) = 3) by decide, if_false, if_true,
      show ¬ ((1 : Int) = 0) by decide,
      show decide ((1 : Int) = 2 ∨ (1 : Int) = 4 ∨ (1 : Int) = 3 ∨ (7 : Int) ≤ 1 ∧ (1 : Int) ≤ 23)
        = false by decide, Bool.and_false, Bool.false_and, Bool.false_eq_true, true_and]
    split_ifs <;> (dsimp only; decide)
  · unfold IsSameUnitOp at h
    rcases h with rfl | rfl | rfl | rfl <;>
    · unfold evalUnary
      simp [pushResult, Pop, hv, hu, he, hl, OP_SQRT, OP_ABS, OP_CEIL, OP_FLOOR, OP_ROUND,
        OP_EXP, OP_LOG10, OP_LOG, OP_COS, OP_SIGN, OP_ACOS, OP_ASIN]
  · unfold IsDimlessOp at h
    have ho : o = 2 ∨ o = 3 ∨ o = 4 ∨ o = 7 ∨ o = 8 ∨ o = 9 ∨ o = 10 ∨ o = 11 ∨ o = 12 ∨
        o = 13 ∨ o = 14 ∨ o = 15 ∨ o = 16 ∨ o = 17 ∨ o = 18 ∨ o = 19 ∨ o = 20 ∨ o = 21 ∨
        o = 22 ∨ o = 23 := by
      simp only [OP_EXP, OP_LOG10, OP_LOG, OP_COS, OP_SIGN] at h
      omega
    rcases ho with rfl | rfl | rfl | rfl | rfl | rfl | rfl | rfl | rfl | rfl | rfl | rfl | rfl |
      rfl | rfl | rfl | rfl | rfl | rfl | rfl <;>
    · cases hz : unitIsZero F u <;>
      · unfold evalUnary
        simp [pushResult, Pop, hv, hu, he, hl, hz, OP_SQRT, OP_ABS, OP_CEIL, OP_FLOOR,
          OP_ROUND, OP_EXP, OP_LOG10, OP_LOG, OP_COS, OP_SIGN, OP_ACOS, OP_ASIN,
          EQERR_EVAL_UNITNOTDIMLESS, EQERR_NONE, EQERR_MATH_DOMAIN, EQERR_MATH_LOG_ZERO,
          EQERR_MATH_LOG_NEG, EQERR_MATH_OVERFLOW]
        try (split_ifs <;> simp)

/-- C25: the unit rule of the unary functions.  A unary function token met without an error
with the dimension vector `u` on top of the unit stack: `sqrt` leaves `u` multiplied
componentwise by 1/2 and never sets `EQERR_EVAL_UNITNOTDIMLESS`; `abs`, `ceil`, `floor` and
`round` leave `u` and set no error; each of the other twenty functions (`exp`, `log10`, `log`
and the codes from `cos` to `sign`) sets `EQERR_EVAL_UNITNOTDIMLESS` exactly when `u` is not
the zero vector.  In exact arithmetic `abs(1 m)`, `ceil(1 m)`, `floor(1 m)` and `round(1 m)`
evaluate with the unit text `m`, `sqrt(4 m)*sqrt(1 m)` with the unit text `m`, and `exp`,
`log`, `log10`, `sin`, `acos`, `tanh`, `atand` and `sign` of `1 m` return
`EQERR_EVAL_UNITNOTDIMLESS`. -/
theorem C25_unary_unit_rule (F : Dbl D) (pvo : List (VALOP D)) (len : Int) (allow : Bool)
    (e : EState D) (o : Int) (a : D) (vs : List D) (u : UNITBASE D) (us : List (UNITBASE D))
    (ht : (pvo.getD e.iThisPt.toNat (voNul F)).uTyp = VOTYP_OP)
    (ho : (pvo.getD e.iThisPt.toNat (voNul F)).iVal = OP_UNARY + o)
    (he : e.iError = EQERR_NONE) (hv : e.dsVals = a :: vs) (hu : e.usUnits = u :: us) :
    (o = OP_SQRT →
      (evalToken F pvo len allow e).usUnits =
        (List.range EQSI_NUMUNIT_BASE).map
          (fun i => F.mul (u.getD i (F.lit 0)) (F.lit (1 / 2))) :: us ∧
      (evalToken F pvo len allow e).iError ≠ EQERR_EVAL_UNITNOTDIMLESS) ∧
    (IsSameUnitOp o →
      (evalToken F pvo len allow e).usUnits = u :: us ∧
      (evalToken F pvo len allow e).iError = EQERR_NONE) ∧
    (IsDimlessOp o →
      (evalToken F pvo len allow e).usUnits = u :: us ∧
      (unitIsZero F u = false →
        (evalToken F pvo len allow e).iError = EQERR_EVAL_UNITNOTDIMLESS) ∧
      (unitIsZero F u = true →
        (evalToken F pvo len allow e).iError ≠ EQERR_EVAL_UNITNOTDIMLESS)) ∧
    (∀ x : Int, 0 ≤ x → x < NUM_UNARYOP → (x = OP_SQRT ∨ IsSameUnitOp x ∨ IsDimlessOp x)) ∧
    ((DoEquation Q (ParseEquation Q fresh "abs(1 m)".toList none).2 none false false
        0 []).this.tgt.m_szUnit = ['m'] ∧
      (DoEquation Q (ParseEquation Q fresh "ceil(1 m)".toList none).2 none false false
        0 []).this.tgt.m_szUnit = ['m'] ∧
      (DoEquation Q (ParseEquation Q fresh "floor(1 m)".toList none).2 none false false
        0 []).this.tgt.m_szUnit = ['m'] ∧
      (DoEquation Q (ParseEquation Q fresh "round(1 m)".toList none).2 none false false
        0 []).this.tgt.m_szUnit = ['m'] ∧
      (DoEquation Q (ParseEquation Q fresh "sqrt(4 m)*sqrt(1 m)".toList none).2 none false
        false 0 []).ret = EQERR_NONE ∧
      (DoEquation Q (ParseEquation Q fresh "sqrt(4 m)*sqrt(1 m)".toList none).2 none false
        false 0 []).this.tgt.m_szUnit = ['m'] ∧
      (DoEquation Q (ParseEquation Q fresh "exp(1 m)".toList none).2 none false false
        0 []).ret = EQERR_EVAL_UNITNOTDIMLESS ∧
      (DoEquation Q (ParseEquation Q fresh "log(1 m)".toList none).2 none false false
        0 []).ret = EQERR_EVAL_UNITNOTDIMLESS ∧
      (DoEquation Q (ParseEquation Q fresh "log10(1 m)".toList none).2 none false false
        0 []).ret = EQERR_EVAL_UNITNOTDIMLESS ∧
      (DoEquation Q (ParseEquation Q fresh "sin(1 m)".toList none).2 none false false
        0 []).ret = EQERR_EVAL_UNITNOTDIMLESS ∧
      (DoEquation Q (ParseEquation Q fresh "acos(1 m)".toList none).2 none false false
        0 []).ret = EQERR_EVAL_UNITNOTDIMLESS ∧
      (DoEquation Q (ParseEquation Q fresh "tanh(1 m)".toList none).2 none false false
        0 []).ret = EQERR_EVAL_UNITNOTDIMLESS ∧
      (DoEquation Q (ParseEquation Q fresh "atand(1 m)".toList none).2 none false false
        0 []).ret = EQERR_EVAL_UNITNOTDIMLESS ∧
      (DoEquation Q (ParseEquation Q fresh "sign(1 m)".toList none).2 none false false
        0 []).ret = EQERR_EVAL_UNITNOTDIMLESS) := by
  have hall : ∀ x : Int, 0 ≤ x → x < NUM_UNARYOP →
      (x = OP_SQRT ∨ IsSameUnitOp x ∨ IsDimlessOp x) := by
    intro x h0 h1
    unfold IsSameUnitOp IsDimlessOp
    simp only [NUM_UNARYOP, OP_SQRT, OP_ABS, OP_CEIL, OP_FLOOR, OP_ROUND, OP_EXP, OP_LOG10,
      OP_LOG, OP_COS, OP_SIGN] at *
    omega
  have key : (o = OP_SQRT ∨ IsSameUnitOp o ∨ IsDimlessOp o) →
      evalToken F pvo len allow e = evalUnary F o e := by
    intro h
    have hb : 0 ≤ o ∧ o < NUM_UNARYOP := by
      unfold IsSameUnitOp IsDimlessOp at h
      simp only [NUM_UNARYOP, OP_SQRT, OP_ABS, OP_CEIL, OP_FLOOR, OP_ROUND, OP_EXP, OP_LOG10,
        OP_LOG, OP_COS, OP_SIGN] at *
      omega
    exact evalToken_unary F pvo len allow e o ht ho hb.1 hb.2
  obtain ⟨g1, g2, g3⟩ := evalUnary_units F o e a vs u us he hv hu
  refine ⟨fun h => ?_, fun h => ?_, fun h => ?_, hall, by decide!⟩
  · rw [key (Or.inl h)]
    exact g1 h
  · rw [key (Or.inr (Or.inl h))]
    exact g2 h
  · rw [key (Or.inr (Or.inr h))]
    exact g3 h

theorem C25_witness :
    (evalToken Q [voI Q VOTYP_OP (OP_UNARY + OP_SIN) 0] 1 false
      ⟨[1], [[0, 1, 0, 0, 0, 0, 0]], 0, EQERR_NONE, none, 0, [], false⟩).iError
      = EQERR_EVAL_UNITNOTDIMLESS ∧
    (evalToken Q [voI Q VOTYP_OP (OP_UNARY + OP_SQRT) 0] 1 false
      ⟨[4], [[0, 2, 0, 0, 0, 0, 0]], 0, EQERR_NONE, none, 0, [], false⟩).usUnits
      = [[0, 1, 0, 0, 0, 0, 0]] ∧
    (evalToken Q [voI Q VOTYP_OP (OP_UNARY + OP_ABS) 0] 1 false
      ⟨[4], [[0, 2, 0, 0, 0, 0, 0]], 0, EQERR_NONE, none, 0, [], false⟩).usUnits
      = [[0, 2, 0, 0, 0, 0, 0]] :=
  ⟨((C25_unary_unit_rule Q [voI Q VOTYP_OP (OP_UNARY + OP_SIN) 0] 1 false
      ⟨[1], [[0, 1, 0, 0, 0, 0, 0]], 0, EQERR_NONE, none, 0, [], false⟩ OP_SIN 1 []
      [0, 1, 0, 0, 0, 0, 0] [] (by decide!) (by decide!) rfl rfl rfl).2.2.1
      (Or.inr (Or.inr (Or.inr ⟨by decide, by decide⟩)))).2.1 (by decide!),
    (((C25_unary_unit_rule Q [voI Q VOTYP_OP (OP_UNARY + OP_SQRT) 0] 1 false
      ⟨[4], [[0, 2, 0, 0, 0, 0, 0]], 0, EQERR_NONE, none, 0, [], false⟩ OP_SQRT 4 []
      [0, 2, 0, 0, 0, 0, 0] [] (by decide!) (by decide!) rfl rfl rfl).1 rfl).1).trans
      (by decide!),
    ((C25_unary_unit_rule Q [voI Q VOTYP_OP (OP_UNARY + OP_ABS) 0] 1 false
      ⟨[4], [[0, 2, 0, 0, 0, 0, 0]], 0, EQERR_NONE, none, 0, [], false⟩ OP_ABS 4 []
      [0, 2, 0, 0, 0, 0, 0] [] (by decide!) (by decide!) rfl rfl rfl).2.1 (Or.inl rfl)).1⟩

/-! ## The value constructor ParseDoubleEquation -/

theorem evalWalk_single (F : Dbl D) (this : Instance D) (x : D) (dVar : Option (List D))
    (allow : Bool) (dVal0 : D) (uUnit0 : UNITBASE D)
    (h1 : this.iEqnLength = 1) (h2 : this.pvoEquation = [voD VOTYP_VAL x 0]) :
    evalWalk F this dVar allow dVal0 uUnit0 =
      ⟨[x], [uUnitZero F], 1, EQERR_NONE, dVar, dVal0, uUnit0, false⟩ := by
  unfold evalWalk
  rw [h1, h2]
  show evalLoop F _ 1 allow 1 _ = _
  rw [evalLoop, if_pos ⟨(show (0 : Int) < 1 by decide), rfl⟩]
  simp [evalLoop, evalToken, voD, VOTYP_VAL, VOTYP_PREFIX]

/-- C28: `ParseDoubleEquation` installs the single token `VAL x` at position 0 and leaves the
target members of the object as they are, so the evaluation that follows depends on them.
When the target scale is zero `DoEquation` returns `EQERR_NONE` with the answer `x` itself, and
the unit text is what `_AnswerUnitString` appends for the zero vector to the text already in
`m_szUnit`; when the target scale is not zero and the target vector is not the zero vector it
returns `EQERR_EVAL_UNITMISMATCH`.  In exact arithmetic, on the object that has parsed
`1 m # mm` the call with 5 is followed by `EQERR_EVAL_UNITMISMATCH`; on the object that has
evaluated `1 m` it is followed by the answer 5 with the unit text `m`; on an object whose
target members are zero by the answer 5 with an empty unit text. -/
theorem C28_double_round_trip (F : Dbl D) (snprintf : List Char → D → List Char)
    (this : Instance D) (x : D) (pszFmt : Option (List Char)) (dVar : Option (List D))
    (tfAllowAssign tfAllowDerived : Bool) (dVal0 : D) (uUnit0 : UNITBASE D) :
    (ParseDoubleEquation F snprintf this x pszFmt).1 = EQERR_NONE ∧
    (ParseDoubleEquation F snprintf this x pszFmt).2.pvoEquation = [voD VOTYP_VAL x 0] ∧
    (ParseDoubleEquation F snprintf this x pszFmt).2.iEqnLength = 1 ∧
    (ParseDoubleEquation F snprintf this x pszFmt).2.tgt = this.tgt ∧
    (F.eq this.tgt.m_dScleTarget (F.lit 0) = true →
      (DoEquation F (ParseDoubleEquation F snprintf this x pszFmt).2 dVar tfAllowAssign
        tfAllowDerived dVal0 uUnit0).ret = EQERR_NONE ∧
      (DoEquation F (ParseDoubleEquation F snprintf this x pszFmt).2 dVar tfAllowAssign
        tfAllowDerived dVal0 uUnit0).dAns = some x ∧
      (DoEquation F (ParseDoubleEquation F snprintf this x pszFmt).2 dVar tfAllowAssign
        tfAllowDerived dVal0 uUnit0).this.tgt.m_szUnit =
          _AnswerUnitString F this.tgt.m_szUnit (uUnitZero F) tfAllowDerived) ∧
    (F.eq this.tgt.m_dScleTarget (F.lit 0) = false →
      UnitsDiffer F this.tgt.m_uUnitTarget (uUnitZero F) →
      (DoEquation F (ParseDoubleEquation F snprintf this x pszFmt).2 dVar tfAllowAssign
        tfAllowDerived dVal0 uUnit0).ret = EQERR_EVAL_UNITMISMATCH ∧
      (DoEquation F (ParseDoubleEquation F snprintf this x pszFmt).2 dVar tfAllowAssign
        tfAllowDerived dVal0 uUnit0).dAns = none) ∧
    ((DoEquation Q (ParseDoubleEquation Q (fun _ d => Q.fmt_g d)
        (ParseEquation Q fresh "1 m # mm".toList none).2 5 (some "%lg".toList)).2
        none false false 0 []).ret = EQERR_EVAL_UNITMISMATCH ∧
      (DoEquation Q (ParseDoubleEquation Q (fun _ d => Q.fmt_g d)
        (DoEquation Q (ParseEquation Q fresh "1 m".toList none).2 none false false
          0 []).this 5 (some "%lg".toList)).2
        none false false 0 []).ret = EQERR_NONE ∧
      (DoEquation Q (ParseDoubleEquation Q (fun _ d => Q.fmt_g d)
        (DoEquation Q (ParseEquation Q fresh "1 m".toList none).2 none false false
          0 []).this 5 (some "%lg".toList)).2
        none false false 0 []).dAns = some 5 ∧
      (DoEquation Q (ParseDoubleEquation Q (fun _ d => Q.fmt_g d)
        (DoEquation Q (ParseEquation Q fresh "1 m".toList none).2 none false false
          0 []).this 5 (some "%lg".toList)).2
        none false false 0 []).this.tgt.m_szUnit = ['m'] ∧
      (DoEquation Q (ParseDoubleEquation Q (fun _ d => Q.fmt_g d) fresh 5
        (some "%lg".toList)).2 none false false 0 []).dAns = some 5 ∧
      (DoEquation Q (ParseDoubleEquation Q (fun _ d => Q.fmt_g d) fresh 5
        (some "%lg".toList)).2 none false false 0 []).this.tgt.m_szUnit = [] ∧
      (ParseDoubleEquation Q (fun _ d => Q.fmt_g d) fresh 5
        (some "%lg".toList)).2.pszSrcEquation = some ['5']) := by
  have hw := evalWalk_single F (ParseDoubleEquation F snprintf this x pszFmt).2 x dVar
    tfAllowAssign dVal0 uUnit0 rfl rfl
  refine ⟨rfl, rfl, rfl, rfl, fun hs => ?_, fun hs hd => ?_, by decide!⟩
  · unfold DoEquation
    rw [hw]
    simp [ParseDoubleEquation, hs, Pop]
  · have hq := (unitsEq_false_iff F _ _).mpr hd
    unfold DoEquation
    rw [hw]
    simp [ParseDoubleEquation, hs, hq, Pop]

theorem C28_witness :
    (DoEquation Q (ParseDoubleEquation Q (fun _ d => Q.fmt_g d) fresh 7 none).2 none false
      false 0 []).dAns = some 7 ∧
    (DoEquation Q (ParseDoubleEquation Q (fun _ d => Q.fmt_g d)
      (ParseEquation Q fresh "1 s # ms".toList none).2 7 none).2 none false
      false 0 []).ret = EQERR_EVAL_UNITMISMATCH :=
  ⟨((C28_double_round_trip Q (fun _ d => Q.fmt_g d) fresh 7 none none false false
      0 []).2.2.2.2.1 (by decide!)).2.1,
    ((C28_double_round_trip Q (fun _ d => Q.fmt_g d)
      (ParseEquation Q fresh "1 s # ms".toList none).2 7 none none false false
      0 []).2.2.2.2.2.1 (by decide!) ⟨3, by decide, by decide!⟩).1⟩

/-! ## The variable queries -/

theorem find_range_some (p : Nat → Bool) (n i : Nat)
    (h : (List.range n).find? p = some i) :
    i < n ∧ p i = true ∧ ∀ j, j < i → p j = false := by
  induction n with
  | zero => simp at h
  | succ n ih =>
    rw [List.range_succ, List.find?_append] at h
    cases hf : (List.range n).find? p with
    | some k =>
      rw [hf] at h
      simp only [Option.or] at h
      have hk : k = i := Option.some.inj h
      subst hk
      obtain ⟨g1, g2, g3⟩ := ih hf
      exact ⟨by omega, g2, g3⟩
    | none =>
      rw [hf] at h
      simp only [Option.or, List.find?_cons, List.find?_nil] at h
      cases hp : p n
      · rw [hp] at h
        simp at h
      · rw [hp] at h
        have hk : n = i := Option.some.inj h
        subst hk
        refine ⟨by omega, hp, fun j hj => ?_⟩
        have := List.find?_eq_none.mp hf j (List.mem_range.mpr hj)
        simpa using this

theorem find_range_none (p : Nat → Bool) (n : Nat) :
    (List.range n).find? p = none ↔ ∀ j, j < n → p j = false := by
  rw [List.find?_eq_none]
  constructor
  · intro h j hj
    have := h j (List.mem_range.mpr hj)
    simpa using this
  · intro h j hj
    have := h j (List.mem_range.mp hj)
    simp [this]

theorem firstToken_spec (F : Dbl D) (this : Instance D) (p : VALOP D → Bool) :
    (firstToken F this p = none ↔
      ∀ j : Nat, (j : Int) < this.iEqnLength → p (this.pvoEquation.getD j (voNul F)) = false) ∧
    (∀ i : Nat, firstToken F this p = some i →
      (i : Int) < this.iEqnLength ∧ p (this.pvoEquation.getD i (voNul F)) = true ∧
      ∀ j : Nat, j < i → p (this.pvoEquation.getD j (voNul F)) = false) := by
  unfold firstToken
  constructor
  · rw [find_range_none]
    constructor
    · intro h j hj
      exact h j (by omega)
    · intro h j hj
      exact h j (by omega)
  · intro i h
    obtain ⟨g1, g2, g3⟩ := find_range_some _ _ _ h
    exact ⟨by omega, g2, g3⟩

/-- The scan of the token array shared by `ContainsVariables` and `ContainsVariable`: with a
non-empty array the code is `EQERR_PARSE_CONTAINSVAR` exactly when a token below `iEqnLength`
passes the test, and then the error location is the source position of the first such
token. -/
theorem containsScan_spec (F : Dbl D) (this : Instance D) (p : VALOP D → Bool)
    (r : Int × Instance D)
    (hr : r = match firstToken F this p with
      | some i =>
        (EQERR_PARSE_CONTAINSVAR,
          { this with iErrorLocation := (this.pvoEquation.getD i (voNul F)).iPos,
                      iError := EQERR_PARSE_CONTAINSVAR })
      | none => (EQERR_NONE, { this with iError := EQERR_NONE })) :
    (r.1 = EQERR_PARSE_CONTAINSVAR ↔
      ∃ i : Nat, (i : Int) < this.iEqnLength ∧
        p (this.pvoEquation.getD i (voNul F)) = true) ∧
    (r.1 ≠ EQERR_PARSE_CONTAINSVAR → r.1 = EQERR_NONE ∧ r.2.iError = EQERR_NONE) ∧
    (r.1 = EQERR_PARSE_CONTAINSVAR →
      ∃ i : Nat, (i : Int) < this.iEqnLength ∧
        p (this.pvoEquation.getD i (voNul F)) = true ∧
        (∀ j : Nat, j < i → p (this.pvoEquation.getD j (voNul F)) = false) ∧
        r.2.iErrorLocation = (this.pvoEquation.getD i (voNul F)).iPos ∧
        r.2.iError = EQERR_PARSE_CONTAINSVAR) := by
  obtain ⟨g1, g2⟩ := firstToken_spec F this p
  cases hf : firstToken F this p with
  | none =>
    rw [hf] at hr
    subst hr
    have hn := g1.mp hf
    have hne : (EQERR_NONE : Int) ≠ EQERR_PARSE_CONTAINSVAR := by decide
    refine ⟨⟨fun h => absurd h hne, ?_⟩, fun _ => ⟨rfl, rfl⟩,
      fun h => absurd h hne⟩
    rintro ⟨i, hi, hp⟩
    rw [hn i hi] at hp
    exact absurd hp (by simp)
  | some i =>
    rw [hf] at hr
    subst hr
    obtain ⟨k1, k2, k3⟩ := g2 i hf
    exact ⟨⟨fun _ => ⟨i, k1, k2⟩, fun _ => rfl⟩, fun h => absurd rfl h,
      fun _ => ⟨i, k1, k2, k3, rfl, rfl⟩⟩

/-- C29: with an empty token array `ContainsVariables` returns `EQERR_PARSE_NOEQUATION` and
`ContainsVariable` returns 0 and leaves the object as it is.  With a non-empty array
`ContainsVariables` returns `EQERR_PARSE_CONTAINSVAR` exactly when a token below `iEqnLength`
is a `REF`, and `EQERR_NONE` otherwise; when it returns `EQERR_PARSE_CONTAINSVAR` the error
location is the source position of the first `REF` token.  `ContainsVariable(iVar)` does the
same for the `REF` tokens of index `iVar`.  For `1 + x*y` with the names `x`, `y`:
`ContainsVariables` gives the location 4, `ContainsVariable(1)` the location 6, and
`ContainsVariable(2)` returns `EQERR_NONE`; for `1+2` `ContainsVariables` returns
`EQERR_NONE`. -/
theorem C29_contains_variables (F : Dbl D) (this : Instance D) (iVar : Int) :
    (this.iEqnLength ≤ 0 →
      (ContainsVariables F this).1 = EQERR_PARSE_NOEQUATION ∧
      ContainsVariable F this iVar = (0, this)) ∧
    (0 < this.iEqnLength →
      ((ContainsVariables F this).1 = EQERR_PARSE_CONTAINSVAR ↔
        ∃ i : Nat, (i : Int) < this.iEqnLength ∧
          (this.pvoEquation.getD i (voNul F)).uTyp = VOTYP_REF) ∧
      ((ContainsVariables F this).1 ≠ EQERR_PARSE_CONTAINSVAR →
        (ContainsVariables F this).1 = EQERR_NONE) ∧
      ((ContainsVariables F this).1 = EQERR_PARSE_CONTAINSVAR →
        ∃ i : Nat, (i : Int) < this.iEqnLength ∧
          (this.pvoEquation.getD i (voNul F)).uTyp = VOTYP_REF ∧
          (∀ j : Nat, j < i → (this.pvoEquation.getD j (voNul F)).uTyp ≠ VOTYP_REF) ∧
          (ContainsVariables F this).2.iErrorLocation
            = (this.pvoEquation.getD i (voNul F)).iPos) ∧
      ((ContainsVariable F this iVar).1 = EQERR_PARSE_CONTAINSVAR ↔
        ∃ i : Nat, (i : Int) < this.iEqnLength ∧
          (this.pvoEquation.getD i (voNul F)).uTyp = VOTYP_REF ∧
          (this.pvoEquation.getD i (voNul F)).iVal = iVar) ∧
      ((ContainsVariable F this iVar).1 ≠ EQERR_PARSE_CONTAINSVAR →
        (ContainsVariable F this iVar).1 = EQERR_NONE) ∧
      ((ContainsVariable F this iVar).1 = EQERR_PARSE_CONTAINSVAR →
        ∃ i : Nat, (i : Int) < this.iEqnLength ∧
          (this.pvoEquation.getD i (voNul F)).uTyp = VOTYP_REF ∧
          (this.pvoEquation.getD i (voNul F)).iVal = iVar ∧
          (∀ j : Nat, j < i → ¬ ((this.pvoEquation.getD j (voNul F)).uTyp = VOTYP_REF ∧
            (this.pvoEquation.getD j (voNul F)).iVal = iVar)) ∧
          (ContainsVariable F this iVar).2.iErrorLocation
            = (this.pvoEquation.getD i (voNul F)).iPos)) ∧
    ((ContainsVariables Q fresh).1 = EQERR_PARSE_NOEQUATION ∧
      (ContainsVariable Q fresh 0).1 = 0 ∧
      (ContainsVariables Q (ParseEquation Q fresh "1 + x*y".toList
        (some ["x".toList, "y".toList])).2).1 = EQERR_PARSE_CONTAINSVAR ∧
      (ContainsVariables Q (ParseEquation Q fresh "1 + x*y".toList
        (some ["x".toList, "y".toList])).2).2.iErrorLocation = 4 ∧
      (ContainsVariable Q (ParseEquation Q fresh "1 + x*y".toList
        (some ["x".toList, "y".toList])).2 1).1 = EQERR_PARSE_CONTAINSVAR ∧
      (ContainsVariable Q (ParseEquation Q fresh "1 + x*y".toList
        (some ["x".toList, "y".toList])).2 1).2.iErrorLocation = 6 ∧
      (ContainsVariable Q (ParseEquation Q fresh "1 + x*y".toList
        (some ["x".toList, "y".toList])).2 2).1 = EQERR_NONE ∧
      (ContainsVariables Q (ParseEquation Q fresh "1+2".toList none).2).1 = EQERR_NONE) := by
  refine ⟨fun h => ?_, fun h => ?_, by decide!⟩
  · unfold ContainsVariables ContainsVariable
    rw [if_pos h, if_pos h]
    exact ⟨rfl, rfl⟩
  · have hn : ¬ (this.iEqnLength ≤ 0) := by omega
    obtain ⟨a1, a2, a3⟩ := containsScan_spec F this (fun vo => vo.uTyp == VOTYP_REF)
      (ContainsVariables F this) (by unfold ContainsVariables; rw [if_neg hn])
    obtain ⟨b1, b2, b3⟩ := containsScan_spec F this
      (fun vo => vo.uTyp == VOTYP_REF && vo.iVal == iVar)
      (ContainsVariable F this iVar) (by unfold ContainsVariable; rw [if_neg hn])
    refine ⟨?_, fun h => (a2 h).1, fun h => ?_, ?_, fun h => (b2 h).1, fun h => ?_⟩
    · rw [a1]
      simp only [beq_iff_eq]
    · obtain ⟨i, k1, k2, k3, k4, -⟩ := a3 h
      refine ⟨i, k1, by simpa using k2, fun j hj => ?_, k4⟩
      have := k3 j hj
      simpa using this
    · rw [b1]
      simp only [Bool.and_eq_true, beq_iff_eq]
    · obtain ⟨i, k1, k2, k3, k4, -⟩ := b3 h
      simp only [Bool.and_eq_true, beq_iff_eq] at k2
      refine ⟨i, k1, k2.1, k2.2, fun j hj => ?_, k4⟩
      have := k3 j hj
      simpa using this

theorem C29_witness :
    ContainsVariable Q fresh 3 = (0, fresh) ∧
    (ContainsVariables Q (ParseEquation Q fresh "2*x".toList (some ["x".toList])).2).1
      = EQERR_PARSE_CONTAINSVAR :=
  ⟨((C29_contains_variables Q fresh 3).1 (by decide)).2,
    ((C29_contains_variables Q (ParseEquation Q fresh "2*x".toList (some ["x".toList])).2
      0).2.1 (by decide!)).1.mpr ⟨1, by decide!, by decide!⟩⟩

/-! ## Variables before constants and functions -/

theorem validChar_props :
    ∀ c ∈ EQ_VALIDCHAR, c ≠ ' ' ∧ strchr EQ_ILLEGALCHAR c = false := by
  decide

theorem strchr_mem (set : List Char) (c : Char) (h : strchr set c = true) : c ∈ set := by
  unfold strchr at h
  simpa using h

theorem spanLen_ident (t rest : List Char) (ht : ∀ x ∈ t, strchr EQ_VALIDSYMB x = true)
    (hr : ∀ x, rest.head? = some x → strchr EQ_VALIDSYMB x = false) :
    spanLen EQ_VALIDSYMB (t ++ rest) = t.length := by
  induction t with
  | nil =>
    cases rest with
    | nil => rfl
    | cons x r =>
      have := hr x rfl
      simp [spanLen, this]
  | cons x xs ih =>
    have hx := ht x (List.mem_cons_self _ _)
    have := ih (fun y hy => ht y (List.mem_cons_of_mem _ hy))
    show (if strchr EQ_VALIDSYMB x then 1 + spanLen EQ_VALIDSYMB (xs ++ rest) else 0) = _
    rw [if_pos hx, this, List.length_cons]
    push_cast
    ring

theorem strncmpEq_self (nm rest : List Char) :
    strncmpEq (nm ++ rest) nm nm.length = true := by
  induction nm with
  | nil => simp [strncmpEq]
  | cons x xs ih => simp [strncmpEq, ih]

theorem strncmpEq_other (nm rest v : List Char) (n : Nat) (h1 : v.length ≤ n)
    (h2 : nm.length ≤ n) (hne : v ≠ nm) (hv : ∀ x ∈ v, strchr EQ_VALIDSYMB x = true)
    (hr : ∀ x, rest.head? = some x → strchr EQ_VALIDSYMB x = false) :
    strncmpEq (nm ++ rest) v n = false := by
  induction nm generalizing v n with
  | nil =>
    cases v with
    | nil => exact absurd rfl hne
    | cons y ys =>
      cases n with
      | zero => simp at h1
      | succ n =>
        cases rest with
        | nil => simp [strncmpEq]
        | cons x r =>
          have g1 := hr x rfl
          have g2 := hv y (List.mem_cons_self _ _)
          have : x ≠ y := fun e => by rw [e, g2] at g1; exact absurd g1 (by simp)
          simp [strncmpEq, this]
  | cons x xs ih =>
    cases n with
    | zero => simp at h2
    | succ n =>
      cases v with
      | nil => simp [strncmpEq]
      | cons y ys =>
        by_cases e : x = y
        · subst e
          have := ih ys n (by simpa using h1) (by simpa using h2)
            (fun k => hne (by rw [k])) (fun z hz => hv z (List.mem_cons_of_mem _ hz))
          simp [strncmpEq, this]
        · simp [strncmpEq, e]

theorem findVar_first (nm rest : List Char) (pre post : List (List Char)) (k : Nat)
    (hnm : nm ≠ [])
    (hpre : ∀ v ∈ pre, v ≠ [] ∧ v ≠ nm ∧ ∀ x ∈ v, strchr EQ_VALIDSYMB x = true)
    (hr : ∀ x, rest.head? = some x → strchr EQ_VALIDSYMB x = false) :
    findVar (nm ++ rest) nm.length (pre ++ nm :: post) k = some (k + pre.length, nm) := by
  induction pre generalizing k with
  | nil =>
    have e : (max (nm.length : Int) nm.length).toNat = nm.length := by simp
    have h0 : nm.isEmpty = false := by
      cases nm with
      | nil => exact absurd rfl hnm
      | cons _ _ => rfl
    simp only [List.nil_append, findVar, h0, e, strncmpEq_self, Bool.false_eq_true, if_false,
      if_true, List.length_nil, add_zero]
  | cons v vs ih =>
    obtain ⟨g1, g2, g3⟩ := hpre v (List.mem_cons_self _ _)
    have h0 : v.isEmpty = false := by
      cases v with
      | nil => exact absurd rfl g1
      | cons _ _ => rfl
    have hmax : (max (v.length : Int) (nm.length : Int)).toNat = max v.length nm.length := by
      rw [← Nat.cast_max]
      exact Int.toNat_natCast _
    have hm := strncmpEq_other nm rest v (max (v.length : Int) nm.length).toNat
      (by rw [hmax]; exact le_max_left _ _) (by rw [hmax]; exact le_max_right _ _) g2 g3 hr
    have := ih (k + 1) (fun w hw => hpre w (List.mem_cons_of_mem _ hw))
    rw [show k + 1 + vs.length = k + (v :: vs).length by simp only [List.length_cons]; omega]
      at this
    simp only [List.cons_append, findVar, h0, hm, Bool.false_eq_true, if_false]
    exact this

/-- A round of the scan loop at an identifier that is a name of the variable list, after `k`
blanks, in the state `LOOKFOR_NUMBER`: the token is the reference to the first such name,
whatever the tables of constants and functions hold. -/
theorem parseStep_variable (F : Dbl D) (src : List Char) (pre post : List (List Char))
    (st : Stacks D) (p B e : Int) (tg : Target D) (k : Nat) (c : Char) (t rest : List Char)
    (hc : strchr EQ_VALIDCHAR c = true) (ht : ∀ x ∈ t, strchr EQ_VALIDSYMB x = true)
    (hr : ∀ x, rest.head? = some x → strchr EQ_VALIDSYMB x = false)
    (hpre : ∀ v ∈ pre, v ≠ [] ∧ v ≠ c :: t ∧ ∀ x ∈ v, strchr EQ_VALIDSYMB x = true)
    (hp : 0 ≤ p) (hs : strFrom src p = List.replicate k ' ' ++ ((c :: t) ++ rest)) :
    parseStep F src (some (pre ++ (c :: t) :: post)) ⟨st, LOOKFOR_NUMBER, p, B, EQERR_NONE, e, tg⟩ =
      ⟨{ st with vosParsEqn := voI F VOTYP_REF pre.length (p + k) :: st.vosParsEqn },
        LOOKFOR_BINARYOP, p + k + (c :: t).length, B, EQERR_NONE, e, tg⟩ := by
  obtain ⟨h5, h2⟩ := validChar_props c (strchr_mem _ _ hc)
  have hsk : skipBlanks (strFrom src p) p = p + k := by
    rw [hs, List.cons_append, skipBlanks_replicate k c _ p h5]
  have hsf : strFrom src (p + k) = (c :: t) ++ rest := strFrom_skip src p k _ hp hs
  have hpk : (0 : Int) ≤ p + k := by omega
  have hch : charAt src (p + k) = c := charAt_of_strFrom src (p + k) c (t ++ rest) hpk hsf
  have hlt : p + k < src.length := lt_length_of_strFrom src (p + k) c (t ++ rest) hpk hsf
  have hsf1 : strFrom src (p + k + 1) = t ++ rest := by
    have := strFrom_add src _ (p + k) 1 hpk hsf
    simpa using this
  have htok : 1 + spanLen EQ_VALIDSYMB (t ++ rest) = ((c :: t).length : Int) := by
    rw [spanLen_ident t rest ht hr]
    simp only [List.length_cons]
    push_cast
    ring
  have hfv := findVar_first (c :: t) rest pre post 0 (by simp) hpre hr
  unfold parseStep
  simp only [hsk]
  rw [if_neg (by omega), hch, h2]
  simp only [Bool.false_eq_true, if_false]
  unfold parseToken
  simp only [if_true]
  unfold parseNumber
  simp only [hch, hc, if_true]
  unfold parseIdent
  simp only [hsf, hsf1, htok, hfv]
  unfold parseAdvance
  simp only [zero_add]
  have hz : ¬ (((c :: t).length : Int) = 0 ∧ True) := by
    simp only [List.length_cons]
    omega
  rw [if_neg hz]

/-- C30: in operand position (the state `LOOKFOR_NUMBER`) an identifier `c :: t` that is a
name of the variable list, followed by the end of the source or by a character that cannot go
on an identifier, and preceded in the list only by other non-empty names made of identifier
characters, compiles to the token `REF` with the index of that name and the position of the
identifier; the scan goes to the state `LOOKFOR_BINARYOP` behind the identifier.  The tables
of constants and functions are not consulted, so this holds for `pi`, `e` and `sin` as well:
`pi` with the names `pi` is `REF 0` and with no list the value token of the constant;
`2*e` with the names `x`, `e` holds `REF 1` and with no list the value and the unit of the
elementary charge; `sin + 1` with the name `sin` is `REF 0`, `1`, `OP_ADD`, while `sin(1)`
with no list is `1` followed by the operator of the sine. -/
theorem C30_variables_first (F : Dbl D) (src : List Char) (pre post : List (List Char))
    (st : Stacks D) (p B e : Int) (tg : Target D) (k : Nat) (c : Char) (t rest : List Char)
    (hc : strchr EQ_VALIDCHAR c = true) (ht : ∀ x ∈ t, strchr EQ_VALIDSYMB x = true)
    (hr : ∀ x, rest.head? = some x → strchr EQ_VALIDSYMB x = false)
    (hpre : ∀ v ∈ pre, v ≠ [] ∧ v ≠ c :: t ∧ ∀ x ∈ v, strchr EQ_VALIDSYMB x = true)
    (hp : 0 ≤ p) (hs : strFrom src p = List.replicate k ' ' ++ ((c :: t) ++ rest)) :
    parseStep F src (some (pre ++ (c :: t) :: post))
        ⟨st, LOOKFOR_NUMBER, p, B, EQERR_NONE, e, tg⟩ =
      ⟨{ st with vosParsEqn := voI F VOTYP_REF pre.length (p + k) :: st.vosParsEqn },
        LOOKFOR_BINARYOP, p + k + (c :: t).length, B, EQERR_NONE, e, tg⟩ ∧
    ((ParseEquation Q fresh "pi".toList (some ["pi".toList])).2.pvoEquation.map tokI
        = [(VOTYP_REF, 0, 0)] ∧
      (ParseEquation Q fresh "pi".toList none).2.pvoEquation.map tokI = [(VOTYP_VAL, 0, 0)] ∧
      (ParseEquation Q fresh "2*e".toList (some ["x".toList, "e".toList])).2.pvoEquation.map tokI
        = [(VOTYP_VAL, 0, 0), (VOTYP_REF, 1, 2), (VOTYP_OP, OP_MUL, 1)] ∧
      (ParseEquation Q fresh "2*e".toList none).2.pvoEquation.map tokI
        = [(VOTYP_VAL, 0, 0), (VOTYP_VAL, 0, 2), (VOTYP_UNIT, 12, 2), (VOTYP_OP, OP_MUL, 1)] ∧
      (ParseEquation Q fresh "sin + 1".toList (some ["sin".toList])).2.pvoEquation.map tokI
        = [(VOTYP_REF, 0, 0), (VOTYP_VAL, 0, 6), (VOTYP_OP, OP_ADD, 4)] ∧
      (ParseEquation Q fresh "sin(1)".toList none).2.pvoEquation.map tokI
        = [(VOTYP_VAL, 0, 4), (VOTYP_OP, OP_UNARY + OP_SIN, 0)]) :=
  ⟨parseStep_variable F src pre post st p B e tg k c t rest hc ht hr hpre hp hs, by decide!⟩

theorem C30_witness :
    parseStep Q "2* sin".toList (some ["x".toList, "sin".toList, "y".toList])
        ⟨⟨[voD VOTYP_VAL 2 0], [OP_MUL], [1]⟩, LOOKFOR_NUMBER, 2, 0, EQERR_NONE, 0,
          (parseInit Q).tgt⟩ =
      ⟨⟨[voI Q VOTYP_REF 1 3, voD VOTYP_VAL 2 0], [OP_MUL], [1]⟩, LOOKFOR_BINARYOP, 6, 0,
        EQERR_NONE, 0, (parseInit Q).tgt⟩ :=
  (C30_variables_first Q "2* sin".toList ["x".toList] ["y".toList]
    ⟨[voD VOTYP_VAL 2 0], [OP_MUL], [1]⟩ 2 0 0 (parseInit Q).tgt 1 's' ['i', 'n'] []
    (by decide) (by decide) (by simp) (by decide) (by decide) (by decide)).1

/-! ## The unit parser: offsets, atoms and the solidus -/

/-- C26: an offset-bearing unit in the denominator (`J/degC`) and an offset-bearing unit with a
power behind it (`degC2`, also the power one in `degC1`, and `degC m2`) are rejected.  An
offset-bearing unit next to a unit of scale one is accepted (`degC m`, `m degC`, `degC kg`,
`m2 degC`), also with a prefix in front of it (`kdegC`: scale 1000 with the offset 273.15)
and in front of a solidus (`degC/m`).  Next to a unit or prefix of another scale the outcome
depends on the order: `mm degC` is rejected and `degC mm` is accepted, `degC g` is rejected
and `degC kg` is accepted. -/
theorem C26_offset_unit_combinations :
    (_StringToUnit Q "J/degC".toList fresh.tgt).iError = EQERR_PARSE_UNITEXPECTED ∧
    (_StringToUnit Q "degC2".toList fresh.tgt).iError = EQERR_PARSE_UNITINCOMPATIBLE ∧
    (_StringToUnit Q "degC1".toList fresh.tgt).iError = EQERR_PARSE_UNITINCOMPATIBLE ∧
    (_StringToUnit Q "degC m2".toList fresh.tgt).iError = EQERR_PARSE_UNITINCOMPATIBLE ∧
    s2uOut (_StringToUnit Q "degC m".toList fresh.tgt)
      = (EQERR_NONE, "degC m".toList, [0, 1, 0, 0, 1, 0, 0], 1, 27315 / 100) ∧
    s2uOut (_StringToUnit Q "m degC".toList fresh.tgt)
      = (EQERR_NONE, "m degC".toList, [0, 1, 0, 0, 1, 0, 0], 1, 27315 / 100) ∧
    s2uOut (_StringToUnit Q "kdegC".toList fresh.tgt)
      = (EQERR_NONE, "kdegC".toList, [0, 0, 0, 0, 1, 0, 0], 1000, 27315 / 100) ∧
    s2uOut (_StringToUnit Q "m2 degC".toList fresh.tgt)
      = (EQERR_NONE, "m2 degC".toList, [0, 2, 0, 0, 1, 0, 0], 1, 27315 / 100) ∧
    s2uOut (_StringToUnit Q "degC/m".toList fresh.tgt)
      = (EQERR_NONE, "degC /m".toList, [0, -1, 0, 0, 1, 0, 0], 1, 27315 / 100) ∧
    (_StringToUnit Q "mm degC".toList fresh.tgt).iError = EQERR_PARSE_UNITINCOMPATIBLE ∧
    s2uOut (_StringToUnit Q "degC mm".toList fresh.tgt)
      = (EQERR_NONE, "degC mm".toList, [0, 1, 0, 0, 1, 0, 0], 1 / 1000, 27315 / 100) ∧
    (_StringToUnit Q "degC g".toList fresh.tgt).iError = EQERR_PARSE_UNITINCOMPATIBLE ∧
    s2uOut (_StringToUnit Q "degC kg".toList fresh.tgt)
      = (EQERR_NONE, "degC kg".toList, [1, 0, 0, 0, 1, 0, 0], 1, 27315 / 100) := by
  refine ⟨?_, ?_, ?_, ?_, ?_, ?_, ?_, ?_, ?_, ?_, ?_, ?_, ?_⟩ <;> decide!

theorem StringToUnit_start (F : Dbl D) (sz : List Char) (tgt : Target D)
    (h : ¬ sz.length ≤ 0) :
    _StringToUnit F sz tgt =
      ⟨if (s2uLoop F (sz.length + 2) (s2uStart F sz)).szUnitOut.getLast? = some '/'
          then EQERR_PARSE_UNITEXPECTED else (s2uLoop F (sz.length + 2) (s2uStart F sz)).iError,
        if (if (s2uLoop F (sz.length + 2) (s2uStart F sz)).szUnitOut.getLast? = some '/'
          then EQERR_PARSE_UNITEXPECTED
          else (s2uLoop F (sz.length + 2) (s2uStart F sz)).iError) ≠ EQERR_NONE
        then (s2uLoop F (sz.length + 2) (s2uStart F sz)).iOff else 0,
        ⟨(s2uLoop F (sz.length + 2) (s2uStart F sz)).szUnitOut.take 32,
          (s2uLoop F (sz.length + 2) (s2uStart F sz)).uUnit,
          (s2uLoop F (sz.length + 2) (s2uStart F sz)).dScale,
          (s2uLoop F (sz.length + 2) (s2uStart F sz)).dOffset⟩⟩ := by
  unfold _StringToUnit
  rw [if_neg h]
  rfl

theorem CleanDrop_trans {a b c : List Char} (h1 : CleanDrop a b) (h2 : CleanDrop b c) :
    CleanDrop a c := by
  obtain ⟨d1, e1, n1⟩ := h1
  obtain ⟨d2, e2, n2⟩ := h2
  refine ⟨d1 ++ d2, by rw [e1, e2, List.append_assoc], ?_⟩
  simp only [List.mem_append, not_or]
  exact ⟨n1, n2⟩

theorem CleanDrop_length_le {a b : List Char} (h : CleanDrop a b) : b.length ≤ a.length := by
  obtain ⟨d, e, _⟩ := h
  rw [e, List.length_append]
  omega

theorem CleanDrop_count {a b : List Char} (h : CleanDrop a b) :
    b.count '/' = a.count '/' := by
  obtain ⟨d, e, n⟩ := h
  rw [e, List.count_append, List.count_eq_zero.mpr n, zero_add]

theorem CleanDrop_dropWhile (a : List Char) (p : Char → Bool) (hp : p '/' = false) :
    CleanDrop a (a.dropWhile p) := by
  refine ⟨a.takeWhile p, (List.takeWhile_append_dropWhile p a).symm, fun hm => ?_⟩
  have := List.mem_takeWhile_imp hm
  rw [hp] at this
  exact absurd this (by simp)

theorem strncmpEq_head (s nm : List Char) (n : Nat) (h : strncmpEq s nm n = true)
    (hn : nm.length ≤ n) : s = nm ++ s.drop nm.length := by
  induction nm generalizing s n with
  | nil => simp
  | cons y ys ih =>
    cases n with
    | zero => simp at hn
    | succ n =>
      cases s with
      | nil => simp [strncmpEq] at h
      | cons x xs =>
        simp only [strncmpEq, Bool.and_eq_true, beq_iff_eq] at h
        obtain ⟨rfl, h2⟩ := h
        have := ih xs n h2 (by simpa using hn)
        simp only [List.cons_append, List.length_cons, List.drop_succ_cons]
        rw [← this]

theorem findName_some (s : List Char) (t : Int) (names : List (List Char)) (k i : Nat)
    (nm : List Char) (h : findName s t names k = some (i, nm)) :
    nm ∈ names ∧ k ≤ i ∧ i < k + names.length ∧
      strncmpEq s nm (max (nm.length : Int) t).toNat = true := by
  induction names generalizing k with
  | nil => simp [findName] at h
  | cons x xs ih =>
    unfold findName at h
    by_cases hc : strncmpEq s x (max (x.length : Int) t).toNat = true
    · rw [if_pos hc] at h
      simp only [Option.some.injEq, Prod.mk.injEq] at h
      obtain ⟨rfl, rfl⟩ := h
      exact ⟨List.mem_cons_self _ _, le_refl _, by simp, hc⟩
    · rw [if_neg hc] at h
      obtain ⟨g1, g2, g3, g4⟩ := ih (k + 1) h
      refine ⟨List.mem_cons_of_mem _ g1, by omega, ?_, g4⟩
      simp only [List.length_cons]
      omega

theorem unitNames_props :
    ∀ nm ∈ CEquationSIUnitStr.take EQSI_NUMUNIT_INPUT, nm ≠ [] ∧ '/' ∉ nm := by
  decide

theorem toNat_max_ge (n : Nat) (t : Int) : n ≤ (max (n : Int) t).toNat := by
  have : (n : Int) ≤ max (n : Int) t := le_max_left _ _
  omega

/-- A unit name found by the search loop: the state behind it. -/
theorem s2uMatch_found (F : Dbl D) (s : S2U D) (t : Int) (h : (s2uMatch F s t).2 = true) :
    (s2uMatch F s t).1.iSign = s.iSign ∧ (s2uMatch F s t).1.uUnit = s.uUnit ∧
    (s2uMatch F s t).1.dScale = s.dScale ∧ (s2uMatch F s t).1.dPwrCur = s.dPwrCur ∧
    (s2uMatch F s t).1.iError = s.iError ∧
    CleanDrop s.psz (s2uMatch F s t).1.psz ∧ (s2uMatch F s t).1.psz.length < s.psz.length ∧
    ∃ i : Nat, i < EQSI_NUMUNIT_INPUT ∧ (s2uMatch F s t).1.iUnit = i ∧
      (s2uMatch F s t).1.uUnitCur = SIUnitBase F i ∧
      (s2uMatch F s t).1.dOffset = F.add s.dOffset (SIUnit F i (EQSI_NUMUNIT_BASE + 1)) ∧
      (s2uMatch F s t).1.dSclCur = F.mul s.dSclCur (SIUnit F i EQSI_NUMUNIT_BASE) := by
  unfold s2uMatch at h ⊢
  cases hf : findName s.psz t (CEquationSIUnitStr.take EQSI_NUMUNIT_INPUT) 0 with
  | none =>
    rw [hf] at h
    exact absurd h (by simp)
  | some r =>
    obtain ⟨i, nm⟩ := r
    rw [hf] at h
    simp only at h ⊢
    obtain ⟨g1, _, g3, g4⟩ := findName_some _ _ _ _ _ _ hf
    obtain ⟨n1, n2⟩ := unitNames_props nm g1
    have hpre := strncmpEq_head s.psz nm _ g4 (toNat_max_ge _ _)
    have hi : i < EQSI_NUMUNIT_INPUT := by
      have : (CEquationSIUnitStr.take EQSI_NUMUNIT_INPUT).length = EQSI_NUMUNIT_INPUT := by
        decide
      omega
    split_ifs at h ⊢ with hc
    refine ⟨rfl, rfl, rfl, rfl, rfl, ?_, ?_, i, hi, rfl, rfl, rfl, rfl⟩
    · exact ⟨nm, hpre, n2⟩
    · have hl : 0 < nm.length := List.length_pos.mpr n1
      have := congrArg List.length hpre
      rw [List.length_append] at this
      show (s.psz.drop nm.length).length < s.psz.length
      omega

/-- No unit name found by the search loop: an error, or the state as it was. -/
theorem s2uMatch_missed (F : Dbl D) (s : S2U D) (t : Int) (h : (s2uMatch F s t).2 = false)
    (he : (s2uMatch F s t).1.iError = EQERR_NONE) :
    (s2uMatch F s t).1.iSign = s.iSign ∧ (s2uMatch F s t).1.uUnit = s.uUnit ∧
    (s2uMatch F s t).1.dScale = s.dScale ∧ (s2uMatch F s t).1.dPwrCur = s.dPwrCur ∧
    (s2uMatch F s t).1.psz = s.psz ∧ (s2uMatch F s t).1.dOffset = s.dOffset ∧
    (s2uMatch F s t).1.dSclCur = s.dSclCur := by
  unfold s2uMatch at h he ⊢
  cases hf : findName s.psz t (CEquationSIUnitStr.take EQSI_NUMUNIT_INPUT) 0 with
  | none => exact ⟨rfl, rfl, rfl, rfl, rfl, rfl, rfl⟩
  | some r =>
    obtain ⟨i, nm⟩ := r
    rw [hf] at h he
    simp only at h he ⊢
    split_ifs at h he ⊢ with hc
    exact absurd he (show ¬ (EQERR_PARSE_UNITINCOMPATIBLE : Int) = EQERR_NONE by decide)

theorem findPrefixIdx_some (c : Char) (k : Nat) (h : findPrefixIdx c = some k) :
    k < EQSI_NUMUNIT_PREFIX ∧ c ≠ '/' := by
  unfold findPrefixIdx at h
  simp only at h
  split_ifs at h with hc
  simp only [Option.some.injEq] at h
  subst h
  refine ⟨hc, fun e => ?_⟩
  subst e
  exact absurd hc (by decide)

theorem s2uSkip_spec (s : S2U D) :
    (s2uSkip s).iSign = s.iSign ∧ (s2uSkip s).uUnit = s.uUnit ∧
    (s2uSkip s).dScale = s.dScale ∧ (s2uSkip s).dPwrCur = s.dPwrCur ∧
    (s2uSkip s).iError = s.iError ∧ (s2uSkip s).dOffset = s.dOffset ∧
    (s2uSkip s).dSclCur = s.dSclCur ∧ (s2uSkip s).iUnit = s.iUnit ∧
    (s2uSkip s).uUnitCur = s.uUnitCur ∧ (s2uSkip s).szUnitOut = s.szUnitOut ∧
    CleanDrop s.psz (s2uSkip s).psz :=
  ⟨rfl, rfl, rfl, rfl, rfl, rfl, rfl, rfl, rfl, rfl,
    CleanDrop_dropWhile s.psz _ (by decide)⟩

theorem s2uPower_spec (F : Dbl D) (s : S2U D) :
    (s2uPower F s).iSign = s.iSign ∧ (s2uPower F s).uUnit = s.uUnit ∧
    (s2uPower F s).dScale = s.dScale ∧ (s2uPower F s).iUnit = s.iUnit ∧
    (s2uPower F s).uUnitCur = s.uUnitCur ∧ (s2uPower F s).dOffset = s.dOffset ∧
    (s2uPower F s).dSclCur = s.dSclCur ∧ CleanDrop s.psz (s2uPower F s).psz ∧
    ((s2uPower F s).iError = EQERR_NONE → s.iError = EQERR_NONE) := by
  have hk := (s2uSkip_spec s).2.2.2.2.2.2.2.2.2.2
  have hd : CleanDrop (s2uSkip s).psz
      ((s2uSkip s).psz.dropWhile (fun c => strchr "-+0123456789".toList c)) :=
    CleanDrop_dropWhile _ _ (by decide)
  unfold s2uPower
  dsimp only
  cases hsc : F.scanf_lg (s2uSkip s).psz with
  | none => exact ⟨rfl, rfl, rfl, rfl, rfl, rfl, rfl, hk, fun h => h⟩
  | some r =>
    obtain ⟨dVal, n⟩ := r
    dsimp only
    have hne1 : ¬ (EQERR_PARSE_UNITEXPECTED : Int) = EQERR_NONE := by decide
    have hne2 : ¬ (EQERR_PARSE_UNITINCOMPATIBLE : Int) = EQERR_NONE := by decide
    split_ifs
    · exact ⟨rfl, rfl, rfl, rfl, rfl, rfl, rfl, hk, fun h => absurd h hne1⟩
    · exact ⟨rfl, rfl, rfl, rfl, rfl, rfl, rfl, hk, fun h => absurd h hne2⟩
    · exact ⟨rfl, rfl, rfl, rfl, rfl, rfl, rfl, CleanDrop_trans hk hd, fun h => h⟩

/-- The unit search without an error: a unit of the input table is current, with its scale,
times the value of a prefix if one was read, and its offset is added in. -/
theorem s2uUnit_spec (F : Dbl D) (s : S2U D) (h : (s2uUnit F s).iError = EQERR_NONE) :
    (s2uUnit F s).iSign = s.iSign ∧ (s2uUnit F s).uUnit = s.uUnit ∧
    (s2uUnit F s).dScale = s.dScale ∧ (s2uUnit F s).dPwrCur = s.dPwrCur ∧
    CleanDrop s.psz (s2uUnit F s).psz ∧ (s2uUnit F s).psz.length < s.psz.length ∧
    ∃ i : Nat, i < EQSI_NUMUNIT_INPUT ∧ (s2uUnit F s).iUnit = i ∧
      (s2uUnit F s).uUnitCur = SIUnitBase F i ∧
      (s2uUnit F s).dOffset = F.add s.dOffset (SIUnit F i (EQSI_NUMUNIT_BASE + 1)) ∧
      ((s2uUnit F s).dSclCur = F.mul s.dSclCur (SIUnit F i EQSI_NUMUNIT_BASE) ∨
        ∃ k : Nat, k < EQSI_NUMUNIT_PREFIX ∧
          (s2uUnit F s).dSclCur =
            F.mul (F.mul s.dSclCur ((CEquationSIUnitPrefix F).getD k (F.lit 0)))
              (SIUnit F i EQSI_NUMUNIT_BASE)) := by
  have hne : ¬ (EQERR_PARSE_UNITEXPECTED : Int) = EQERR_NONE := by decide
  unfold s2uUnit at h ⊢
  dsimp only at h ⊢
  cases h1 : (s2uMatch F s (spanLen EQ_VALIDUNIT s.psz)).2 with
  | true =>
    rw [h1] at h
    simp only [Bool.true_or, if_true] at h ⊢
    obtain ⟨a1, a2, a3, a4, _, a6, a7, i, b1, b2, b3, b4, b5⟩ := s2uMatch_found F s _ h1
    exact ⟨a1, a2, a3, a4, a6, a7, i, b1, b2, b3, b4, Or.inl b5⟩
  | false =>
    rw [h1] at h
    by_cases he : (s2uMatch F s (spanLen EQ_VALIDUNIT s.psz)).1.iError = EQERR_NONE
    · obtain ⟨a1, a2, a3, a4, a5, a6, a7⟩ := s2uMatch_missed F s _ h1 he
      have hc : (false || decide ((s2uMatch F s (spanLen EQ_VALIDUNIT s.psz)).1.iError
          ≠ EQERR_NONE)) = false := by simp [he]
      rw [hc] at h ⊢
      simp only [Bool.false_eq_true, if_false] at h ⊢
      by_cases ht : spanLen EQ_VALIDUNIT s.psz ≤ 1
      · rw [if_pos ht] at h
        exact absurd h hne
      · rw [if_neg ht] at h ⊢
        cases hp : (s2uMatch F s (spanLen EQ_VALIDUNIT s.psz)).1.psz with
        | nil =>
          rw [hp] at h
          exact absurd h hne
        | cons c rest =>
          rw [hp] at h
          dsimp only at h ⊢
          cases hx : findPrefixIdx c with
          | none =>
            rw [hx] at h
            exact absurd h hne
          | some k =>
            rw [hx] at h
            dsimp only at h ⊢
            obtain ⟨k1, k2⟩ := findPrefixIdx_some c k hx
            cases h2 : (s2uMatch F (s2uSkip
                { (s2uMatch F s (spanLen EQ_VALIDUNIT s.psz)).1 with
                  dSclCur := F.mul (s2uMatch F s (spanLen EQ_VALIDUNIT s.psz)).1.dSclCur
                    ((CEquationSIUnitPrefix F).getD k (F.lit 0)),
                  szUnitOut := (s2uMatch F s (spanLen EQ_VALIDUNIT s.psz)).1.szUnitOut ++ [c],
                  psz := rest,
                  iOff := (s2uMatch F s (spanLen EQ_VALIDUNIT s.psz)).1.iOff + 1 })
                (spanLen EQ_VALIDUNIT s.psz - 1)).2 with
            | true =>
              rw [h2] at h
              simp only [Bool.true_or, if_true] at h ⊢
              obtain ⟨c1, c2, c3, c4, _, c6, c7, i, b1, b2, b3, b4, b5⟩ :=
                s2uMatch_found F _ _ h2
              obtain ⟨d1, d2, d3, d4, _, d6, d7, _, _, _, d11⟩ := s2uSkip_spec
                { (s2uMatch F s (spanLen EQ_VALIDUNIT s.psz)).1 with
                  dSclCur := F.mul (s2uMatch F s (spanLen EQ_VALIDUNIT s.psz)).1.dSclCur
                    ((CEquationSIUnitPrefix F).getD k (F.lit 0)),
                  szUnitOut := (s2uMatch F s (spanLen EQ_VALIDUNIT s.psz)).1.szUnitOut ++ [c],
                  psz := rest,
                  iOff := (s2uMatch F s (spanLen EQ_VALIDUNIT s.psz)).1.iOff + 1 }
              dsimp only at d1 d2 d3 d4 d6 d7 d11
              have hcr : CleanDrop s.psz rest := by
                rw [← a5, hp]
                exact ⟨[c], rfl, by simpa using fun e => k2 e.symm⟩
              have hlen : rest.length < s.psz.length := by
                rw [← a5, hp, List.length_cons]
                omega
              refine ⟨by rw [c1, d1, a1], by rw [c2, d2, a2], by rw [c3, d3, a3],
                by rw [c4, d4, a4], CleanDrop_trans (CleanDrop_trans hcr d11) c6, ?_, i, b1, b2, b3, ?_, Or.inr
                  ⟨k, k1, ?_⟩⟩
              · have e1 := CleanDrop_length_le d11
                dsimp only at e1 c7 ⊢
                omega
              · rw [b4, d6, a6]
              · rw [b5, d7, a7]
            | false =>
              rw [h2] at h
              simp only [Bool.false_or, decide_eq_true_eq] at h
              split_ifs at h with hq
              · exact absurd h hq
              · exact absurd h hne
    · have hc : (false || decide ((s2uMatch F s (spanLen EQ_VALIDUNIT s.psz)).1.iError
          ≠ EQERR_NONE)) = true := by simp [he]
      rw [hc] at h
      simp only [if_true] at h
      exact absurd h he

/-- A round of the scan loop that reads a unit and its power without an error. -/
theorem unitRound_spec (F : Dbl D) (s : S2U D)
    (h : (s2uPower F (s2uUnit F s)).iError = EQERR_NONE) :
    (s2uPower F (s2uUnit F s)).iSign = s.iSign ∧ (s2uPower F (s2uUnit F s)).uUnit = s.uUnit ∧
    (s2uPower F (s2uUnit F s)).dScale = s.dScale ∧
    CleanDrop s.psz (s2uPower F (s2uUnit F s)).psz ∧
    (s2uPower F (s2uUnit F s)).psz.length < s.psz.length ∧
    ∃ i : Nat, i < EQSI_NUMUNIT_INPUT ∧ (s2uPower F (s2uUnit F s)).iUnit = i ∧
      (s2uPower F (s2uUnit F s)).uUnitCur = SIUnitBase F i ∧
      (s2uPower F (s2uUnit F s)).dOffset
        = F.add s.dOffset (SIUnit F i (EQSI_NUMUNIT_BASE + 1)) ∧
      ((s2uPower F (s2uUnit F s)).dSclCur = F.mul s.dSclCur (SIUnit F i EQSI_NUMUNIT_BASE) ∨
        ∃ k : Nat, k < EQSI_NUMUNIT_PREFIX ∧
          (s2uPower F (s2uUnit F s)).dSclCur =
            F.mul (F.mul s.dSclCur ((CEquationSIUnitPrefix F).getD k (F.lit 0)))
              (SIUnit F i EQSI_NUMUNIT_BASE)) := by
  obtain ⟨p1, p2, p3, p4, p5, p6, p7, p8, p9⟩ := s2uPower_spec F (s2uUnit F s)
  obtain ⟨u1, u2, u3, _, u5, u6, i, v1, v2, v3, v4, v5⟩ := s2uUnit_spec F s (p9 h)
  refine ⟨by rw [p1, u1], by rw [p2, u2], by rw [p3, u3], CleanDrop_trans u5 p8, ?_, i, v1,
    by rw [p4, v2], by rw [p5, v3], by rw [p6, v4], ?_⟩
  · have := CleanDrop_length_le p8
    omega
  · rw [p7]
    exact v5

theorem s2uLoop_succ (F : Dbl D) (fuel : Nat) (s0 : S2U D) :
    s2uLoop F (fuel + 1) s0 =
      match (s2uSkip (s2uApply F s0)).psz with
      | [] => s2uSkip (s2uApply F s0)
      | c :: rest =>
        if c = '/' then
          if (s2uSpace (s2uSkip (s2uApply F s0))).iSign < 1 then
            { s2uSpace (s2uSkip (s2uApply F s0)) with iError := EQERR_PARSE_ILLEGALCHAR }
          else s2uLoop F fuel (s2uSlash (s2uSpace (s2uSkip (s2uApply F s0))) rest)
        else
          if (s2uPower F (s2uUnit F (s2uSpace (s2uSkip (s2uApply F s0))))).iError = EQERR_NONE
          then s2uLoop F fuel (s2uPower F (s2uUnit F (s2uSpace (s2uSkip (s2uApply F s0)))))
          else s2uPower F (s2uUnit F (s2uSpace (s2uSkip (s2uApply F s0)))) := rfl

theorem s2uAtoms_succ (F : Dbl D) (fuel : Nat) (s0 : S2U D) :
    s2uAtoms F (fuel + 1) s0 =
      match (s2uSkip (s2uApply F s0)).psz with
      | [] => []
      | c :: rest =>
        if c = '/' then
          if (s2uSpace (s2uSkip (s2uApply F s0))).iSign < 1 then []
          else s2uAtoms F fuel (s2uSlash (s2uSpace (s2uSkip (s2uApply F s0))) rest)
        else
          if (s2uPower F (s2uUnit F (s2uSpace (s2uSkip (s2uApply F s0))))).iError = EQERR_NONE
          then s2uCur (s2uPower F (s2uUnit F (s2uSpace (s2uSkip (s2uApply F s0)))))
            :: s2uAtoms F fuel (s2uPower F (s2uUnit F (s2uSpace (s2uSkip (s2uApply F s0)))))
          else [] := rfl

theorem s2uSpace_spec (s : S2U D) :
    (s2uSpace s).iSign = s.iSign ∧ (s2uSpace s).uUnit = s.uUnit ∧
    (s2uSpace s).dScale = s.dScale ∧ (s2uSpace s).dPwrCur = s.dPwrCur ∧
    (s2uSpace s).iError = s.iError ∧ (s2uSpace s).dOffset = s.dOffset ∧
    (s2uSpace s).dSclCur = s.dSclCur ∧ (s2uSpace s).iUnit = s.iUnit ∧
    (s2uSpace s).uUnitCur = s.uUnitCur ∧ (s2uSpace s).psz = s.psz := by
  unfold s2uSpace
  split_ifs <;> exact ⟨rfl, rfl, rfl, rfl, rfl, rfl, rfl, rfl, rfl, rfl⟩

theorem s2uApply_fold (F : Dbl D) (s : S2U D) (g : Nat → D) (hinv : S2UInv F s)
    (hu : s.uUnit = vecOf g) :
    (s2uApply F s).uUnit = vecOf (fun j => (s2uPending s).foldl (applyVec F j) (g j)) ∧
    (s2uApply F s).dScale = (s2uPending s).foldl (applyScale F) s.dScale ∧
    (s2uApply F s).dSclCur = F.lit 1 ∧ (s2uApply F s).iSign = s.iSign ∧
    (s2uApply F s).psz = s.psz ∧ (s2uApply F s).dOffset = s.dOffset ∧
    (s2uApply F s).iError = s.iError := by
  obtain ⟨_, i2, i3⟩ := hinv
  unfold s2uApply s2uPending
  by_cases h : s.iUnit ≥ 0
  · rw [if_pos h, if_pos h]
    refine ⟨?_, ?_, rfl, rfl, rfl, rfl, rfl⟩
    · show List.zipWith _ s.uUnit s.uUnitCur = _
      rw [hu, i3 h]
      rfl
    · rfl
  · rw [if_neg h, if_neg h]
    exact ⟨hu, rfl, i2 (by omega), rfl, rfl, rfl, rfl⟩

theorem s2uPending_of_unit (s : S2U D) (h : 0 ≤ s.iUnit) : s2uPending s = [s2uCur s] := by
  unfold s2uPending
  rw [if_pos h]

/-- The scan loop of `_StringToUnit` applies the atoms it reads one after the other: when the
loop ends without an error, the vector, the scale and the offset are the values at the start
with the statements of the block "Apply current" run for the pending atom and for every atom
read, in the order of the text. -/
theorem s2uLoop_fold (F : Dbl D) : ∀ (fuel : Nat) (s : S2U D) (g : Nat → D),
    S2UInv F s → s.psz.length < fuel → s.uUnit = vecOf g →
    (s2uLoop F fuel s).iError = EQERR_NONE →
    (s2uLoop F fuel s).uUnit
      = vecOf (fun j => (s2uPending s ++ s2uAtoms F fuel s).foldl (applyVec F j) (g j)) ∧
    (s2uLoop F fuel s).dScale
      = (s2uPending s ++ s2uAtoms F fuel s).foldl (applyScale F) s.dScale ∧
    (s2uLoop F fuel s).dOffset = (s2uAtoms F fuel s).foldl (applyOffset F) s.dOffset ∧
    ∀ a ∈ s2uAtoms F fuel s, GoodAtom F a := by
  intro fuel
  induction fuel with
  | zero =>
    intro s g _ h
    exact absurd h (by omega)
  | succ fuel ih =>
    intro s g hinv hlen hu hfin
    obtain ⟨a1, a2, a3, a4, a5, a6, a7⟩ := s2uApply_fold F s g hinv hu
    obtain ⟨k1, k2, k3, k4, k5, k6, k7, k8, k9, k10, k11⟩ := s2uSkip_spec (s2uApply F s)
    obtain ⟨p1, p2, p3, p4, p5, p6, p7, p8, p9, p10⟩ :=
      s2uSpace_spec (s2uSkip (s2uApply F s))
    have hkl := CleanDrop_length_le k11
    rw [a5] at hkl
    rw [s2uLoop_succ] at hfin ⊢
    rw [s2uAtoms_succ]
    cases hp : (s2uSkip (s2uApply F s)).psz with
    | nil =>
      rw [hp] at hfin
      dsimp only at hfin ⊢
      simp only [List.append_nil]
      exact ⟨by rw [k2, a1], by rw [k3, a2], by rw [k6, a6]; rfl,
        fun a ha => absurd ha (List.not_mem_nil a)⟩
    | cons c rest =>
      rw [hp] at hfin hkl
      dsimp only at hfin ⊢
      rw [List.length_cons] at hkl
      by_cases hc : c = '/'
      · simp only [if_pos hc] at hfin ⊢
        by_cases hs : (s2uSpace (s2uSkip (s2uApply F s))).iSign < 1
        · simp only [if_pos hs] at hfin
          exact absurd hfin (show ¬ (EQERR_PARSE_ILLEGALCHAR : Int) = EQERR_NONE by decide)
        · simp only [if_neg hs] at hfin ⊢
          have hinv2 : S2UInv F (s2uSlash (s2uSpace (s2uSkip (s2uApply F s))) rest) :=
            ⟨Or.inr rfl, fun _ => by
              show (s2uSpace (s2uSkip (s2uApply F s))).dSclCur = F.lit 1
              rw [p7, k7, a3], fun h => absurd (show (0 : Int) ≤ -1 from h) (by decide)⟩
          have hu2 : (s2uSlash (s2uSpace (s2uSkip (s2uApply F s))) rest).uUnit
              = vecOf (fun j => (s2uPending s).foldl (applyVec F j) (g j)) := by
            show (s2uSpace (s2uSkip (s2uApply F s))).uUnit = _
            rw [p2, k2, a1]
          obtain ⟨r1, r2, r3, r4⟩ := ih _ _ hinv2
            (by show rest.length < fuel; omega) hu2 hfin
          have hpn : s2uPending (s2uSlash (s2uSpace (s2uSkip (s2uApply F s))) rest) = [] := rfl
          rw [hpn, List.nil_append] at r1 r2
          refine ⟨?_, ?_, ?_, r4⟩
          · rw [r1]
            simp only [List.foldl_append]
          · rw [r2, List.foldl_append]
            show List.foldl (applyScale F) (s2uSpace (s2uSkip (s2uApply F s))).dScale _ = _
            rw [p3, k3, a2]
          · rw [r3]
            show List.foldl (applyOffset F) (s2uSpace (s2uSkip (s2uApply F s))).dOffset _ = _
            rw [p6, k6, a6]
      · simp only [if_neg hc] at hfin ⊢
        by_cases he : (s2uPower F (s2uUnit F (s2uSpace (s2uSkip (s2uApply F s))))).iError
            = EQERR_NONE
        · simp only [if_pos he] at hfin ⊢
          obtain ⟨u1, u2, u3, u4, u5, i, v1, v2, v3, v4, v5⟩ := unitRound_spec F _ he
          have hsign : (s2uPower F (s2uUnit F (s2uSpace (s2uSkip (s2uApply F s))))).iSign
              = s.iSign := by rw [u1, p1, k1, a4]
          have hi0 : (0 : Int) ≤
              (s2uPower F (s2uUnit F (s2uSpace (s2uSkip (s2uApply F s))))).iUnit := by
            rw [v2]
            exact Int.natCast_nonneg _
          have hinv2 : S2UInv F (s2uPower F (s2uUnit F (s2uSpace (s2uSkip (s2uApply F s))))) :=
            ⟨by rw [hsign]; exact hinv.1, fun h => absurd hi0 (by omega),
              fun _ => by rw [v3, v2]⟩
          have hu2 : (s2uPower F (s2uUnit F (s2uSpace (s2uSkip (s2uApply F s))))).uUnit
              = vecOf (fun j => (s2uPending s).foldl (applyVec F j) (g j)) := by
            rw [u2, p2, k2, a1]
          rw [p10, hp, List.length_cons] at u5
          obtain ⟨r1, r2, r3, r4⟩ := ih _ _ hinv2 (by omega) hu2 hfin
          rw [s2uPending_of_unit _ hi0, List.singleton_append] at r1 r2
          refine ⟨?_, ?_, ?_, ?_⟩
          · rw [r1]
            simp only [List.foldl_append]
          · rw [r2, List.foldl_append, u3, p3, k3, a2]
          · rw [r3, v4, p6, k6, a6, List.foldl_cons]
            congr 1
            unfold applyOffset s2uCur
            dsimp only
            rw [v2]
          · intro a ha
            rcases List.mem_cons.mp ha with rfl | ha
            · have hs1 := hinv.1
              rw [← hsign] at hs1
              refine ⟨hs1, hi0, ?_, ?_⟩
              · show (s2uPower F (s2uUnit F (s2uSpace (s2uSkip (s2uApply F s))))).iUnit < _
                rw [v2]
                exact_mod_cast v1
              · unfold IsPrefixedScale s2uCur
                dsimp only
                rw [v2]
                rw [p7, k7, a3] at v5
                exact v5
            · exact r4 a ha
        · simp only [if_neg he] at hfin
          exact absurd hfin he

theorem s2uApply_frame (F : Dbl D) (s : S2U D) :
    (s2uApply F s).iSign = s.iSign ∧ (s2uApply F s).psz = s.psz := by
  unfold s2uApply
  split_ifs <;> exact ⟨rfl, rfl⟩

/-- A solidus in the text behind the first one, or two of them in the text ahead, end the
scan loop in a rejecting state. -/
theorem s2uLoop_solidus (F : Dbl D) : ∀ (fuel : Nat) (s : S2U D),
    s.psz.length < fuel →
    ((s.iSign < 1 ∧ 0 < s.psz.count '/') ∨ 2 ≤ s.psz.count '/') →
    s2uRejects (s2uLoop F fuel s) := by
  intro fuel
  induction fuel with
  | zero =>
    intro s h
    exact absurd h (by omega)
  | succ fuel ih =>
    intro s hlen hP
    obtain ⟨a4, a5⟩ := s2uApply_frame F s
    obtain ⟨k1, _, _, _, _, _, _, _, _, _, k11⟩ := s2uSkip_spec (s2uApply F s)
    obtain ⟨p1, _, _, _, _, _, _, _, _, p10⟩ := s2uSpace_spec (s2uSkip (s2uApply F s))
    have hkl := CleanDrop_length_le k11
    have hcnt := CleanDrop_count k11
    rw [a5] at hkl hcnt
    rw [s2uLoop_succ]
    cases hp : (s2uSkip (s2uApply F s)).psz with
    | nil =>
      rw [hp] at hcnt
      simp only [List.count_nil] at hcnt
      omega
    | cons c rest =>
      rw [hp] at hkl hcnt
      rw [List.length_cons] at hkl
      dsimp only
      by_cases hc : c = '/'
      · simp only [if_pos hc]
        by_cases hs : (s2uSpace (s2uSkip (s2uApply F s))).iSign < 1
        · simp only [if_pos hs]
          exact Or.inl (show ¬ (EQERR_PARSE_ILLEGALCHAR : Int) = EQERR_NONE by decide)
        · simp only [if_neg hs]
          rw [p1, k1, a4] at hs
          rw [hc, List.count_cons_self] at hcnt
          refine ih _ (by show rest.length < fuel; omega) (Or.inl ⟨?_, ?_⟩)
          · show (-1 : Int) < 1
            decide
          · show 0 < rest.count '/'
            omega
      · simp only [if_neg hc]
        by_cases he : (s2uPower F (s2uUnit F (s2uSpace (s2uSkip (s2uApply F s))))).iError
            = EQERR_NONE
        · simp only [if_pos he]
          obtain ⟨u1, _, _, u4, u5, _⟩ := unitRound_spec F _ he
          rw [p10, hp] at u4 u5
          rw [List.length_cons] at u5
          have hc2 := CleanDrop_count u4
          rw [p1, k1, a4] at u1
          refine ih _ (by omega) ?_
          rw [u1, hc2, hcnt]
          exact hP
        · simp only [if_neg he]
          exact Or.inl he

theorem s2uStart_spec (F : Dbl D) (sz : List Char) :
    (s2uStart F sz).iSign = 1 ∧ (s2uStart F sz).iUnit = -1 ∧
    (s2uStart F sz).dSclCur = F.lit 1 ∧ (s2uStart F sz).uUnit = uUnitZero F ∧
    (s2uStart F sz).dScale = F.lit 1 ∧ (s2uStart F sz).dOffset = F.lit 0 ∧
    CleanDrop sz (s2uStart F sz).psz := by
  have hk : CleanDrop sz (sz.dropWhile (fun c => c == ' ')) :=
    CleanDrop_dropWhile sz _ (by decide)
  unfold s2uStart s2uSkip
  dsimp only
  cases hp : sz.dropWhile (fun c => c == ' ') with
  | nil =>
    rw [hp] at hk
    exact ⟨rfl, rfl, rfl, rfl, rfl, rfl, hk⟩
  | cons c rest =>
    rw [hp] at hk
    dsimp only
    by_cases hc : c = '1'
    · rw [if_pos hc]
      refine ⟨rfl, rfl, rfl, rfl, rfl, rfl, CleanDrop_trans hk ⟨[c], rfl, ?_⟩⟩
      rw [hc]
      decide
    · rw [if_neg hc]
      exact ⟨rfl, rfl, rfl, rfl, rfl, rfl, hk⟩

/-- A unit string with two solidi is rejected. -/
theorem StringToUnit_second_solidus (F : Dbl D) (sz : List Char) (tgt : Target D)
    (h : 2 ≤ sz.count '/') : (_StringToUnit F sz tgt).iError ≠ EQERR_NONE := by
  have hne : ¬ (EQERR_PARSE_UNITEXPECTED : Int) = EQERR_NONE := by decide
  by_cases hl : sz.length ≤ 0
  · unfold _StringToUnit
    rw [if_pos hl]
    exact hne
  · rw [StringToUnit_start F sz tgt hl]
    dsimp only
    obtain ⟨_, _, _, _, _, _, b7⟩ := s2uStart_spec F sz
    have hlen := CleanDrop_length_le b7
    have hr := s2uLoop_solidus F (sz.length + 2) (s2uStart F sz) (by omega)
      (Or.inr (by rw [CleanDrop_count b7]; exact h))
    rcases hr with hr | hr
    · split_ifs
      · exact hne
      · exact hr
    · rw [if_pos hr]
      exact hne

theorem foldl_applyVec (F : Dbl ℚ) (hF : ExactArith F) (j : Nat) (l : List (UnitAtom ℚ))
    (x : ℚ) (hl : ∀ a ∈ l, a.iSign = 1 ∨ a.iSign = -1) :
    l.foldl (applyVec F j) x =
      x + ((numerator l).map (fun a => a.dPwr * SIUnit F a.iUnit j)).sum
        - ((denominator l).map (fun a => a.dPwr * SIUnit F a.iUnit j)).sum := by
  obtain ⟨f1, f2, f3, _⟩ := hF
  induction l generalizing x with
  | nil => simp [numerator, denominator]
  | cons a l ih =>
    rw [List.foldl_cons, ih _ (fun b hb => hl b (List.mem_cons_of_mem _ hb))]
    unfold applyVec
    rw [f2, f3, f3, f1]
    rcases hl a (List.mem_cons_self _ _) with h | h
    · have e1 : numerator (a :: l) = a :: numerator l := by
        unfold numerator
        rw [List.filter_cons_of_pos (by rw [h]; decide)]
      have e2 : denominator (a :: l) = denominator l := by
        unfold denominator
        rw [List.filter_cons_of_neg (by rw [h]; decide)]
      rw [e1, e2, List.map_cons, List.sum_cons, h]
      push_cast
      ring
    · have e1 : numerator (a :: l) = numerator l := by
        unfold numerator
        rw [List.filter_cons_of_neg (by rw [h]; decide)]
      have e2 : denominator (a :: l) = a :: denominator l := by
        unfold denominator
        rw [List.filter_cons_of_pos (by rw [h]; decide)]
      rw [e1, e2, List.map_cons, List.sum_cons, h]
      push_cast
      ring

theorem foldl_applyScale (F : Dbl ℚ) (hF : ExactArith F) (l : List (UnitAtom ℚ)) (x : ℚ)
    (hl : ∀ a ∈ l, a.iSign = 1 ∨ a.iSign = -1) :
    l.foldl (applyScale F) x =
      x * ((numerator l).map (fun a => F.pow a.dScl a.dPwr)).prod
        / ((denominator l).map (fun a => F.pow a.dScl a.dPwr)).prod := by
  obtain ⟨_, _, f3, f4⟩ := hF
  induction l generalizing x with
  | nil => simp [numerator, denominator]
  | cons a l ih =>
    rw [List.foldl_cons, ih _ (fun b hb => hl b (List.mem_cons_of_mem _ hb))]
    unfold applyScale
    rcases hl a (List.mem_cons_self _ _) with h | h
    · have e1 : numerator (a :: l) = a :: numerator l := by
        unfold numerator
        rw [List.filter_cons_of_pos (by rw [h]; decide)]
      have e2 : denominator (a :: l) = denominator l := by
        unfold denominator
        rw [List.filter_cons_of_neg (by rw [h]; decide)]
      rw [e1, e2, List.map_cons, List.prod_cons, if_pos (by rw [h]; decide), f3]
      ring
    · have e1 : numerator (a :: l) = numerator l := by
        unfold numerator
        rw [List.filter_cons_of_neg (by rw [h]; decide)]
      have e2 : denominator (a :: l) = a :: denominator l := by
        unfold denominator
        rw [List.filter_cons_of_pos (by rw [h]; decide)]
      rw [e1, e2, List.map_cons, List.prod_cons, if_neg (by rw [h]; decide), f4]
      ring

theorem foldl_applyOffset (F : Dbl ℚ) (hF : ExactArith F) (l : List (UnitAtom ℚ)) (x : ℚ) :
    l.foldl (applyOffset F) x =
      x + (l.map (fun a => SIUnit F a.iUnit (EQSI_NUMUNIT_BASE + 1))).sum := by
  obtain ⟨_, f2, _, _⟩ := hF
  induction l generalizing x with
  | nil => simp
  | cons a l ih =>
    rw [List.foldl_cons, ih]
    unfold applyOffset
    rw [f2, List.map_cons, List.sum_cons]
    ring

theorem exactArith_ratDbl (L : Libm) : ExactArith (ratDbl L) :=
  ⟨fun _ => rfl, fun _ _ => rfl, fun _ _ => rfl, fun _ _ => rfl⟩

/-- The outputs of an accepting call of `_StringToUnit` are the atoms of the text applied one
after the other. -/
theorem StringToUnit_fold (F : Dbl D) (sz : List Char) (tgt : Target D)
    (h : (_StringToUnit F sz tgt).iError = EQERR_NONE) :
    (_StringToUnit F sz tgt).tgt.m_uUnitTarget
      = vecOf (fun j => (unitAtoms F sz).foldl (applyVec F j) (F.lit 0)) ∧
    (_StringToUnit F sz tgt).tgt.m_dScleTarget
      = (unitAtoms F sz).foldl (applyScale F) (F.lit 1) ∧
    (_StringToUnit F sz tgt).tgt.m_dOffsTarget
      = (unitAtoms F sz).foldl (applyOffset F) (F.lit 0) ∧
    ∀ a ∈ unitAtoms F sz, GoodAtom F a := by
  have hne : ¬ (EQERR_PARSE_UNITEXPECTED : Int) = EQERR_NONE := by decide
  by_cases hl : sz.length ≤ 0
  · unfold _StringToUnit at h
    rw [if_pos hl] at h
    exact absurd h hne
  · rw [StringToUnit_start F sz tgt hl] at h ⊢
    dsimp only at h ⊢
    obtain ⟨b1, b2, b3, b4, b5, b6, b7⟩ := s2uStart_spec F sz
    have hlen := CleanDrop_length_le b7
    have hfin : (s2uLoop F (sz.length + 2) (s2uStart F sz)).iError = EQERR_NONE := by
      split_ifs at h with hq
      · exact absurd h hne
      · exact h
    have hinv : S2UInv F (s2uStart F sz) :=
      ⟨Or.inl b1, fun _ => b3, fun hh => by rw [b2] at hh; exact absurd hh (by decide)⟩
    have hpn : s2uPending (s2uStart F sz) = [] := by
      unfold s2uPending
      rw [b2]
      rfl
    obtain ⟨r1, r2, r3, r4⟩ := s2uLoop_fold F (sz.length + 2) (s2uStart F sz)
      (fun _ => F.lit 0) hinv (by omega) (by rw [b4]; rfl) hfin
    rw [hpn, List.nil_append] at r1 r2
    rw [b5] at r2
    rw [b6] at r3
    exact ⟨r1, r2, r3, r4⟩

/-! ## Overflow to infinity in a power -/

/-- C9: the source `2^(10^400)+1` has no unit, no assignment, no target clause and no variable;
`ParseEquation` succeeds on it and stores `2`, `10`, `400`, `OP_POW`, `OP_POW`, `1`, `OP_ADD`.
In IEEE 754 arithmetic `pow(10, 400)` overflows to infinity, and the unit loop of `OP_POW`
multiplies the zero exponents of the base by this power: zero times infinity is not a number.
No operation reports a math error: before the last token the walk has no error and holds the
values `1` and infinity, the latter with a dimension vector of seven not-a-numbers.  The unit
test of `OP_ADD` then fails and `DoEquation` returns `EQERR_EVAL_UNITMISMATCH` instead of
`EQERR_NONE`. -/
theorem C9_infinite_power_breaks_dimension :
    (ParseEquation QInf freshInf "2^(10^400)+1".toList none).1 = EQERR_NONE ∧
    parsedPower.pvoEquation.map tokI
      = [(VOTYP_VAL, 0, 0), (VOTYP_VAL, 0, 3), (VOTYP_VAL, 0, 6), (VOTYP_OP, OP_POW, 5),
         (VOTYP_OP, OP_POW, 1), (VOTYP_VAL, 0, 11), (VOTYP_OP, OP_ADD, 10)] ∧
    QInf.pow (Ext.fin 10) (Ext.fin 400) = Ext.pinf ∧
    QInf.pow (Ext.fin 2) Ext.pinf = Ext.pinf ∧
    QInf.mul (QInf.lit 0) Ext.pinf = Ext.nan ∧
    (evalRounds QInf parsedPower (some []) false (Ext.fin 0) (uUnitZero QInf) 6).iError = EQERR_NONE ∧
    (evalRounds QInf parsedPower (some []) false (Ext.fin 0) (uUnitZero QInf) 6).iThisPt = 6 ∧
    (evalRounds QInf parsedPower (some []) false (Ext.fin 0) (uUnitZero QInf) 6).dsVals
      = [Ext.fin 1, Ext.pinf] ∧
    (evalRounds QInf parsedPower (some []) false (Ext.fin 0) (uUnitZero QInf) 6).usUnits
      = [uUnitZero QInf, List.replicate EQSI_NUMUNIT_BASE Ext.nan] ∧
    (DoEquation QInf parsedPower (some []) false false (Ext.fin 0) (uUnitZero QInf)).ret
      = EQERR_EVAL_UNITMISMATCH := by
  decide!

/-! ## Illegal characters -/

theorem illegal_props : ∀ c ∈ EQ_ILLEGALCHAR, c ≠ ' ' := by decide

/-- The scan of a source whose first character behind `k` blanks is a member of
`EQ_ILLEGALCHAR`: the first round of the loop sets `EQERR_PARSE_ILLEGALCHAR` at that
character. -/
theorem parseScan_illegal (F : Dbl D) (src : List Char) (vars : Option (List (List Char)))
    (k : Nat) (c : Char) (rest : List Char) (hc : c ∈ EQ_ILLEGALCHAR)
    (hs : src = List.replicate k ' ' ++ c :: rest) :
    (parseScan F src vars).iError = EQERR_PARSE_ILLEGALCHAR ∧
    (parseScan F src vars).iErrorLocation = k := by
  have hb := illegal_props c hc
  have hlen : (src.length : Int) = k + 1 + rest.length := by
    rw [hs]
    simp only [List.length_append, List.length_replicate, List.length_cons]
    push_cast
    ring
  have hs0 : strFrom src 0 = List.replicate k ' ' ++ c :: rest := by rw [strFrom_zero, hs]
  have hsk : skipBlanks (strFrom src 0) 0 = k := by
    rw [hs0, skipBlanks_replicate k c rest 0 hb]
    simp
  have hsf : strFrom src ((0 : Int) + k) = c :: rest := strFrom_skip src 0 k _ (le_refl _) hs0
  rw [zero_add] at hsf
  have hch : charAt src k = c := charAt_of_strFrom src k c rest (Int.natCast_nonneg _) hsf
  have hstep : parseStep F src vars (parseInit F) =
      { parseInit F with iThisPt := k, iError := EQERR_PARSE_ILLEGALCHAR } := by
    unfold parseStep
    have h0 : (parseInit F).iThisPt = 0 := rfl
    simp only [h0, hsk]
    rw [if_neg (by omega), hch]
    have hm : strchr EQ_ILLEGALCHAR c = true := by
      unfold strchr
      simpa using hc
    rw [hm]
    simp only [if_true]
  unfold parseScan
  rw [parseLoop_step F src vars src.length (parseInit F)
    ⟨by show (0 : Int) < src.length; omega, rfl⟩, hstep, parseLoop_done]
  · unfold parseFinish
    rw [if_pos (show (EQERR_PARSE_ILLEGALCHAR : Int) ≠ EQERR_NONE by decide)]
    exact ⟨rfl, rfl⟩
  · intro h
    exact absurd h.2 (show ¬ (EQERR_PARSE_ILLEGALCHAR : Int) = EQERR_NONE by decide)

/-- C31: when the first character of the source that is not a blank is a member of
`EQ_ILLEGALCHAR`, `ParseEquation` returns `EQERR_PARSE_ILLEGALCHAR` and the error location is
the offset of that character.  `EQ_ILLEGALCHAR` has twelve members; the backslash (character
code 92) is not one of them, because in the literal it only escapes the semicolon.  A source
that starts with a backslash gets `EQERR_PARSE_NUMBEREXPECTED`, and a backslash in operator
position gets `EQERR_PARSE_BINARYOPEXPECTED`. -/
theorem C31_illegal_first_character (F : Dbl D) (this : Instance D) (szEqtn : List Char)
    (vars : Option (List (List Char))) (k : Nat) (c : Char) (rest : List Char)
    (hc : c ∈ EQ_ILLEGALCHAR) (hs : cstr szEqtn = List.replicate k ' ' ++ c :: rest) :
    (ParseEquation F this szEqtn vars).1 = EQERR_PARSE_ILLEGALCHAR ∧
    (ParseEquation F this szEqtn vars).2.iError = EQERR_PARSE_ILLEGALCHAR ∧
    (ParseEquation F this szEqtn vars).2.iErrorLocation = k ∧
    EQ_ILLEGALCHAR.length = 12 ∧
    Char.ofNat 92 ∉ EQ_ILLEGALCHAR ∧
    (ParseEquation Q fresh [Char.ofNat 92] none).1 = EQERR_PARSE_NUMBEREXPECTED ∧
    (ParseEquation Q fresh ['1', ' ', Char.ofNat 92] none).1 = EQERR_PARSE_BINARYOPEXPECTED := by
  obtain ⟨h1, h2⟩ := parseScan_illegal F (cstr szEqtn) vars k c rest hc hs
  have hne : (parseScan F (cstr szEqtn) vars).iError ≠ EQERR_NONE := by
    rw [h1]
    decide
  refine ⟨?_, ?_, ?_, by decide, by decide, by decide!, by decide!⟩
  · rw [ParseEquation_code, h1]
  · unfold ParseEquation
    dsimp only
    rw [if_pos hne]
    exact h1
  · unfold ParseEquation
    dsimp only
    rw [if_pos hne]
    exact h2

theorem C31_witness :
    (ParseEquation Q fresh "  ;1".toList none).1 = EQERR_PARSE_ILLEGALCHAR ∧
    (ParseEquation Q fresh "  ;1".toList none).2.iErrorLocation = 2 :=
  ⟨(C31_illegal_first_character Q fresh "  ;1".toList none 2 ';' ['1'] (by decide)
      (by decide)).1,
    (C31_illegal_first_character Q fresh "  ;1".toList none 2 ';' ['1'] (by decide)
      (by decide)).2.2.1⟩

/-! ## A null variable array -/

/-- C32: at a `REF` token with a null variable array the walk of `DoEquation` sets
`EQERR_EVAL_CONTAINSVAR`, and, the branch having no `else`, goes on to the statement that
reads `dVar[iRef]` through the null pointer and pushes a second value: two values and two
dimension vectors are pushed and the read is recorded.  For the compiled `x` and `1+x*2` with
the name `x`, `DoEquation` with a null array returns `EQERR_EVAL_CONTAINSVAR` after that read.
`ParseConstantEquation` parses with a null name list, so a name that is no constant and no
function is refused by the parse with `EQERR_PARSE_UNKNOWNFUNCVAR` (`x+1`, `abc`), and a
name that is a constant is its value (`2*h` returns `EQERR_NONE`); `DoEquation` meets no
`REF` token there. -/
theorem C32_null_array_is_read (F : Dbl D) (pvo : List (VALOP D)) (iEqnLength : Int)
    (tfAllowAssign : Bool) (e : EState D) (hd : e.dVar = none)
    (ht : (pvo.getD e.iThisPt.toNat (voNul F)).uTyp = VOTYP_REF) :
    (evalToken F pvo iEqnLength tfAllowAssign e).iError = EQERR_EVAL_CONTAINSVAR ∧
    (evalToken F pvo iEqnLength tfAllowAssign e).nullRead = true ∧
    (evalToken F pvo iEqnLength tfAllowAssign e).dsVals = F.lit 0 :: F.lit 0 :: e.dsVals ∧
    (evalToken F pvo iEqnLength tfAllowAssign e).usUnits
      = uUnitZero F :: uUnitZero F :: e.usUnits ∧
    ((DoEquation Q (ParseEquation Q fresh "x".toList (some ["x".toList])).2 none false false 0
        (uUnitZero Q)).ret = EQERR_EVAL_CONTAINSVAR ∧
      (DoEquation Q (ParseEquation Q fresh "x".toList (some ["x".toList])).2 none false false 0
        (uUnitZero Q)).nullRead = true ∧
      (DoEquation Q (ParseEquation Q fresh "1+x*2".toList (some ["x".toList])).2 none false
        false 0 (uUnitZero Q)).ret = EQERR_EVAL_CONTAINSVAR ∧
      (DoEquation Q (ParseEquation Q fresh "1+x*2".toList (some ["x".toList])).2 none false
        false 0 (uUnitZero Q)).nullRead = true ∧
      (ParseConstantEquation Q fresh "x+1".toList 0 (uUnitZero Q)).1
        = EQERR_PARSE_UNKNOWNFUNCVAR ∧
      (ParseConstantEquation Q fresh "abc".toList 0 (uUnitZero Q)).1
        = EQERR_PARSE_UNKNOWNFUNCVAR ∧
      (ParseConstantEquation Q fresh "2*h".toList 0 (uUnitZero Q)).1 = EQERR_NONE ∧
      (ParseConstantEquation Q fresh "2*h".toList 0 (uUnitZero Q)).2.2.2 = false) := by
  refine ⟨?_, ?_, ?_, ?_, ?_⟩
  all_goals first
    | (decide!)
    | (unfold evalToken
       dsimp only
       rw [if_neg (by rw [ht]; decide), if_pos ht, hd])

theorem C32_witness :
    (evalToken Q [voI Q VOTYP_REF 0 0] 1 false
      ⟨[], [], 0, EQERR_NONE, none, 0, uUnitZero Q, false⟩).nullRead = true :=
  (C32_null_array_is_read Q [voI Q VOTYP_REF 0 0] 1 false
    ⟨[], [], 0, EQERR_NONE, none, 0, uUnitZero Q, false⟩ rfl (by decide)).2.1

/-! ## C33: scenario 3 -/

/-- C33 (counterexample): in exact arithmetic, with derived units not allowed, the unit text of
`3.1 V / 1 A` is not `kg m2 /A2 s3`: the formatter puts no blank before the solidus. -/
theorem C33_counterexample :
    (DoEquation Qd (ParseEquation Qd fresh "3.1 V / 1 A".toList none).2 none false false 0
        (uUnitZero Qd)).this.tgt.m_szUnit ≠ "kg m2 /A2 s3".toList := by
  decide!

/-- C33 (amended): in exact arithmetic the source `3.1 V / 1 A` parses and evaluates without
error to 3.1; the formatted unit is `Ohm` when derived units are allowed and exactly
`kg m2/A2 s3`, with no blank before the solidus, when they are not. -/
theorem C33_scenario_three :
    (ParseEquation Qd fresh "3.1 V / 1 A".toList none).1 = EQERR_NONE ∧
    (DoEquation Qd (ParseEquation Qd fresh "3.1 V / 1 A".toList none).2 none false true 0
        (uUnitZero Qd)).ret = EQERR_NONE ∧
    (DoEquation Qd (ParseEquation Qd fresh "3.1 V / 1 A".toList none).2 none false true 0
        (uUnitZero Qd)).dAns = some (31 / 10) ∧
    (DoEquation Qd (ParseEquation Qd fresh "3.1 V / 1 A".toList none).2 none false true 0
        (uUnitZero Qd)).this.tgt.m_szUnit = "Ohm".toList ∧
    (DoEquation Qd (ParseEquation Qd fresh "3.1 V / 1 A".toList none).2 none false false 0
        (uUnitZero Qd)).ret = EQERR_NONE ∧
    (DoEquation Qd (ParseEquation Qd fresh "3.1 V / 1 A".toList none).2 none false false 0
        (uUnitZero Qd)).dAns = some (31 / 10) ∧
    (DoEquation Qd (ParseEquation Qd fresh "3.1 V / 1 A".toList none).2 none false false 0
        (uUnitZero Qd)).this.tgt.m_szUnit = "kg m2/A2 s3".toList := by
  decide!

/-! ## C34: the unit selector -/

theorem unitTry_eq (F : Dbl D) (u : List D) (p : Nat × Nat) (m : UnitMin D) :
    unitTry F u p.1 m p.2
      = if unitValid F u p && unitKeep F (unitCand F u p) m then unitCand F u p else m := by
  unfold unitTry
  by_cases h : (F.eq (u.getD p.2 (F.lit 0)) (F.lit 0) || F.eq (SIUnit F p.1 p.2) (F.lit 0)) = true
  · rw [if_pos h]
    have hv : unitValid F u p = false := by unfold unitValid; rw [h]; rfl
    rw [hv]; rfl
  · rw [if_neg h]
    have hv : unitValid F u p = true := by
      unfold unitValid
      cases h2 : (F.eq (u.getD p.2 (F.lit 0)) (F.lit 0) || F.eq (SIUnit F p.1 p.2) (F.lit 0))
      · rfl
      · exact absurd h2 h
    rw [hv, Bool.true_and]; rfl

theorem unitSearch_flat (F : Dbl D) (u : List D) (der : Bool) :
    unitSearch F u der = unitFold F u (unitInit F) (unitPairs der) := by
  unfold unitSearch unitFold unitPairs unitInit
  generalize (List.range (if der = true then EQSI_NUMUNIT else EQSI_NUMUNIT_BASE)) = us
  generalize (⟨9999, -1, F.lit (999999 / 1000), F.lit (-999999 / 1000)⟩ : UnitMin D) = m0
  induction us generalizing m0 with
  | nil => rfl
  | cons a t ih =>
    rw [List.foldl_cons, List.flatMap_cons, List.foldl_append, ih, List.foldl_map]

theorem foldl_last_change {α β : Type} (c : β → α → Bool) (g : β → α) (f : α → β → α)
    (hf : ∀ m p, f m p = if c p m then g p else m) (ps : List β) (m0 : α) :
    (ps.foldl f m0 = m0 ∧ ∀ q ∈ ps, c q m0 = false) ∨
    (∃ pre p post, ps = pre ++ p :: post ∧ c p (pre.foldl f m0) = true ∧
      ps.foldl f m0 = g p ∧ ∀ q ∈ post, c q (g p) = false) := by
  induction ps generalizing m0 with
  | nil => left; simp
  | cons a t ih =>
    rw [List.foldl_cons]
    by_cases ha : c a m0 = true
    · have e : f m0 a = g a := by rw [hf, if_pos ha]
      rw [e]
      rcases ih (g a) with ⟨h1, h2⟩ | ⟨pre, p, post, h1, h2, h3, h4⟩
      · right; exact ⟨[], a, t, rfl, ha, h1, h2⟩
      · right
        refine ⟨a :: pre, p, post, by rw [h1]; rfl, ?_, h3, h4⟩
        rw [List.foldl_cons, e]; exact h2
    · have ha2 : c a m0 = false := by simpa using ha
      have e : f m0 a = m0 := by rw [hf, ha2]; rfl
      rw [e]
      rcases ih m0 with ⟨h1, h2⟩ | ⟨pre, p, post, h1, h2, h3, h4⟩
      · left
        refine ⟨h1, ?_⟩
        intro q hq
        rcases List.mem_cons.mp hq with rfl | hq
        · exact ha2
        · exact h2 q hq
      · right
        refine ⟨a :: pre, p, post, by rw [h1]; rfl, ?_, h3, h4⟩
        rw [List.foldl_cons, e]; exact h2

/-- C34 (counterexample): in exact arithmetic, for the dimension vector m2/A2 s2 with derived
units allowed, the selector ends with a record of three units and power sum 3 (unit 15, `Ohm`), while
the scored pair of unit 12 (`C`) and axis 2 needs only two units (power sum 4): the chosen pair has a
strictly lexicographically smaller competitor. -/
theorem C34_counterexample :
    (unitSearch Q [0, 2, -2, -2, 0, 0, 0] true).iNumUnitMin = 3 ∧
    (unitSearch Q [0, 2, -2, -2, 0, 0, 0] true).dPwrUnitMin = 3 ∧
    (unitSearch Q [0, 2, -2, -2, 0, 0, 0] true).indxUnitMin = 15 ∧
    (12, 2) ∈ unitPairs true ∧
    unitValid Q [0, 2, -2, -2, 0, 0, 0] (12, 2) = true ∧
    (unitCand Q [0, 2, -2, -2, 0, 0, 0] (12, 2)).iNumUnitMin = 2 ∧
    (unitCand Q [0, 2, -2, -2, 0, 0, 0] (12, 2)).dPwrUnitMin = 4 := by
  decide!

/-- C34 (amended): the selector goes through the pairs (candidate unit, matched axis) in the
order of the loops, unit by unit, and replaces its running record by the record of a scored
pair when that pair needs fewer units, or has a smaller power sum, or needs as many units and
has a positive scale while the running scale is negative.  So the result is either the
initial record, which no scored pair replaces, or the record of a scored pair that passed the
test against the record before it and that no scored pair after it replaces; the order of
the pairs decides, not a lexicographic minimum. -/
theorem C34_selector_rule (F : Dbl D) (ddUnit : List D) (tfAllowDerived : Bool) :
    (unitSearch F ddUnit tfAllowDerived = unitInit F ∧
      ∀ q ∈ unitPairs tfAllowDerived,
        (unitValid F ddUnit q && unitKeep F (unitCand F ddUnit q) (unitInit F)) = false) ∨
    (∃ pre p post, unitPairs tfAllowDerived = pre ++ p :: post ∧
      unitValid F ddUnit p = true ∧
      unitKeep F (unitCand F ddUnit p) (unitFold F ddUnit (unitInit F) pre) = true ∧
      unitSearch F ddUnit tfAllowDerived = unitCand F ddUnit p ∧
      ∀ q ∈ post,
        (unitValid F ddUnit q && unitKeep F (unitCand F ddUnit q) (unitCand F ddUnit p))
          = false) := by
  rw [unitSearch_flat]
  rcases foldl_last_change
      (fun (p : Nat × Nat) (m : UnitMin D) => unitValid F ddUnit p && unitKeep F (unitCand F ddUnit p) m)
      (fun p => unitCand F ddUnit p) (fun m p => unitTry F ddUnit p.1 m p.2)
      (fun m p => unitTry_eq F ddUnit p m) (unitPairs tfAllowDerived) (unitInit F)
    with ⟨h1, h2⟩ | ⟨pre, p, post, h1, h2, h3, h4⟩
  · left; exact ⟨h1, h2⟩
  · right
    refine ⟨pre, p, post, h1, ?_, ?_, h3, h4⟩
    · have := h2; simp only [Bool.and_eq_true] at this; exact this.1
    · have := h2; simp only [Bool.and_eq_true] at this; exact this.2

/-! ## C39: the two stacks of the evaluator -/

theorem Pop_length {T : Type} (d : T) (l : List T) : (Pop d l).2.length = l.length - 1 := by
  cases l <;> simp [Pop]

theorem pushResult_depth (e : EState D) (h : e.dsVals.length = e.usUnits.length) :
    (pushResult e).dsVals.length = (pushResult e).usUnits.length := by
  simp [pushResult, h]

theorem evalBinary_depth (F : Dbl D) (o : Int) (e : EState D)
    (h : e.dsVals.length = e.usUnits.length) :
    (evalBinary F o e).dsVals.length = (evalBinary F o e).usUnits.length := by
  have key : ((Pop (F.lit 0) (Pop (F.lit 0) e.dsVals).2).2).length
      = ((Pop (uUnitZero F) (Pop (uUnitZero F) e.usUnits).2).2).length := by
    simp [Pop_length, h]
  unfold evalBinary
  dsimp only
  by_cases h1 : o = OP_PSH
  · rw [if_pos h1]
    exact pushResult_depth _ (by simp [key])
  · rw [if_neg h1]
    by_cases h2 : o = OP_POP
    · rw [if_pos h2]
      exact pushResult_depth _ key
    · rw [if_neg h2]
      split
      · exact pushResult_depth _ key
      · exact pushResult_depth _ key

theorem evalUnary_depth (F : Dbl D) (o : Int) (e : EState D)
    (h : e.dsVals.length = e.usUnits.length) :
    (evalUnary F o e).dsVals.length = (evalUnary F o e).usUnits.length := by
  have key : ((Pop (F.lit 0) e.dsVals).2).length = ((Pop (uUnitZero F) e.usUnits).2).length := by
    simp [Pop_length, h]
  unfold evalUnary
  dsimp only
  split
  · exact pushResult_depth _ key
  · exact pushResult_depth _ key

theorem evalMaxMin_depth (F : Dbl D) (isMax : Bool) (n : Nat) :
    ∀ e : EState D, e.dsVals.length = e.usUnits.length →
      (evalMaxMin F isMax n e).dsVals.length = (evalMaxMin F isMax n e).usUnits.length := by
  induction n with
  | zero => intro e h; exact h
  | succ n ih =>
    intro e h
    rw [evalMaxMin]
    exact ih _ (by simp [Pop_length, h])

theorem evalNArg_depth (F : Dbl D) (pvo : List (VALOP D)) (len : Int) (o : Int) (e : EState D)
    (h : e.dsVals.length = e.usUnits.length) :
    (evalNArg F pvo len o e).dsVals.length = (evalNArg F pvo len o e).usUnits.length := by
  have k1 : ((Pop (F.lit 0) e.dsVals).2).length = ((Pop (uUnitZero F) e.usUnits).2).length := by
    simp [Pop_length, h]
  have k2 : ((Pop (F.lit 0) (Pop (F.lit 0) e.dsVals).2).2).length
      = ((Pop (uUnitZero F) (Pop (uUnitZero F) e.usUnits).2).2).length := by
    simp [Pop_length, h]
  have k3 : ((Pop (F.lit 0) (Pop (F.lit 0) (Pop (F.lit 0) e.dsVals).2).2).2).length
      = ((Pop (uUnitZero F) (Pop (uUnitZero F) (Pop (uUnitZero F) e.usUnits).2).2).2).length := by
    simp [Pop_length, h]
  unfold evalNArg
  dsimp only
  split_ifs
  all_goals first
    | exact h
    | exact pushResult_depth _ h
    | exact pushResult_depth _ k2
    | exact pushResult_depth _ k3
    | exact pushResult_depth _ (evalMaxMin_depth F _ _ _ k1)

theorem evalToken_depth (F : Dbl D) (pvo : List (VALOP D)) (len : Int) (allow : Bool)
    (e : EState D) (h : e.dsVals.length = e.usUnits.length) :
    (evalToken F pvo len allow e).dsVals.length
      = (evalToken F pvo len allow e).usUnits.length := by
  have k1 : ((Pop (F.lit 0) e.dsVals).2).length = ((Pop (uUnitZero F) e.usUnits).2).length := by
    simp [Pop_length, h]
  unfold evalToken
  dsimp only
  by_cases c1 : (pvo.getD e.iThisPt.toNat (voNul F)).uTyp = VOTYP_VAL ∨
      (pvo.getD e.iThisPt.toNat (voNul F)).uTyp = VOTYP_PREFIX
  · rw [if_pos c1]
    show e.dsVals.length + 1 = e.usUnits.length + 1
    rw [h]
  rw [if_neg c1]
  by_cases c2 : (pvo.getD e.iThisPt.toNat (voNul F)).uTyp = VOTYP_REF
  · rw [if_pos c2]
    cases e.dVar with
    | none =>
      show e.dsVals.length + 1 + 1 = e.usUnits.length + 1 + 1
      rw [h]
    | some dv =>
      show e.dsVals.length + 1 = e.usUnits.length + 1
      rw [h]
  rw [if_neg c2]
  by_cases c3 : (pvo.getD e.iThisPt.toNat (voNul F)).uTyp = VOTYP_UNIT
  · rw [if_pos c3]
    show (Pop (F.lit 0) e.dsVals).2.length + 1 = (Pop (uUnitZero F) e.usUnits).2.length + 1
    rw [k1]
  rw [if_neg c3]
  by_cases c4 : (pvo.getD e.iThisPt.toNat (voNul F)).uTyp = VOTYP_OP
  · rw [if_pos c4]
    by_cases c5 : (pvo.getD e.iThisPt.toNat (voNul F)).iVal = OP_SET
    · rw [if_pos c5]
      cases e.dVar with
      | none => exact h
      | some dv =>
        dsimp only
        by_cases d1 : allow = false
        · rw [if_pos d1]; exact h
        rw [if_neg d1]
        by_cases d2 : (e.dsVals.length : Int) < 1
        · rw [if_pos d2]; exact h
        rw [if_neg d2]
        by_cases d3 : e.iThisPt + 1 ≥ len
        · rw [if_pos d3]; exact h
        rw [if_neg d3]
        by_cases d4 : (pvo.getD (e.iThisPt + 1).toNat (voNul F)).uTyp ≠ VOTYP_REF
        · rw [if_pos d4]; exact h
        rw [if_neg d4]; exact h
    rw [if_neg c5]
    by_cases c6 : (pvo.getD e.iThisPt.toNat (voNul F)).iVal < OP_UNARY
    · rw [if_pos c6]; exact evalBinary_depth F _ e h
    rw [if_neg c6]
    by_cases c7 : (pvo.getD e.iThisPt.toNat (voNul F)).iVal < OP_NARG
    · rw [if_pos c7]; exact evalUnary_depth F _ e h
    rw [if_neg c7]; exact evalNArg_depth F pvo len _ e h
  rw [if_neg c4]; exact h

theorem evalLoop_depth (F : Dbl D) (pvo : List (VALOP D)) (len : Int) (allow : Bool)
    (fuel : Nat) :
    ∀ e : EState D, e.dsVals.length = e.usUnits.length →
      (evalLoop F pvo len allow fuel e).dsVals.length
        = (evalLoop F pvo len allow fuel e).usUnits.length := by
  induction fuel with
  | zero => intro e h; exact h
  | succ n ih =>
    intro e h
    rw [evalLoop]
    split_ifs
    · exact ih _ (evalToken_depth F pvo len allow e h)
    · exact h

/-- C39: during `DoEquation` the value stack and the stack of dimension vectors have the same
depth after every token: for every token array, every argument and every number `k` of
rounds of the token loop (rounds that set an error included; `Push` is taken not to fail),
and so also in the state the loop ends in. -/
theorem C39_stacks_in_lock_step (F : Dbl D) (this : Instance D) (dVar : Option (List D))
    (tfAllowAssign : Bool) (dVal0 : D) (uUnit0 : UNITBASE D) :
    (∀ k : Nat,
      (evalRounds F this dVar tfAllowAssign dVal0 uUnit0 k).dsVals.length
        = (evalRounds F this dVar tfAllowAssign dVal0 uUnit0 k).usUnits.length) ∧
    (evalWalk F this dVar tfAllowAssign dVal0 uUnit0).dsVals.length
      = (evalWalk F this dVar tfAllowAssign dVal0 uUnit0).usUnits.length :=
  ⟨fun k => evalLoop_depth F _ _ _ k _ rfl, evalLoop_depth F _ _ _ _ _ rfl⟩

/-! ## C40: termination of the parse -/

theorem parseLoop_add (F : Dbl D) (src : List Char) (vars : Option (List (List Char)))
    (a b : Nat) :
    ∀ s : PState D, parseLoop F src vars (a + b) s =
      parseLoop F src vars b (parseLoop F src vars a s) := by
  induction a with
  | zero => intro s; simp [parseLoop]
  | succ n ih =>
    intro s
    rw [Nat.add_right_comm, parseLoop, parseLoop]
    split_ifs with h
    · exact ih _
    · exact (parseLoop_done F src vars b s h).symm

/-- The mode is one of the three modes and the bracket offset is not negative in every state
without an error that the scan loop passes through. -/
theorem parseLoop_inv (F : Dbl D) (src : List Char) (vars : Option (List (List Char)))
    (fuel : Nat) :
    ∀ s : PState D,
      (s.uLookFor = LOOKFOR_NUMBER ∨ s.uLookFor = LOOKFOR_BINARYOP ∨
        s.uLookFor = LOOKFOR_BRACKET) →
      (s.iError = EQERR_NONE → 0 ≤ s.iBrktOff) →
      ((parseLoop F src vars fuel s).uLookFor = LOOKFOR_NUMBER ∨
        (parseLoop F src vars fuel s).uLookFor = LOOKFOR_BINARYOP ∨
        (parseLoop F src vars fuel s).uLookFor = LOOKFOR_BRACKET) ∧
      ((parseLoop F src vars fuel s).iError = EQERR_NONE →
        0 ≤ (parseLoop F src vars fuel s).iBrktOff) := by
  induction fuel with
  | zero => intro s hL hB; exact ⟨hL, hB⟩
  | succ n ih =>
    intro s hL hB
    unfold parseLoop
    split_ifs with hc
    · obtain ⟨g1, g2⟩ := parseStep_good F src vars s hL (hB hc.2) hc.1
      exact ih _ g1 (fun he => (g2 he).1)
    · exact ⟨hL, hB⟩

theorem poStep_shrinks (F : Dbl D) (st : Stacks D) (h : 0 < st.isOps.length) :
    (poStep F st).isOps.length < st.isOps.length := by
  have hp : ∀ l : List Int, (Pop 0 l).2.length ≤ l.length := by
    intro l; cases l <;> simp [Pop]
  have h1 : (Pop 0 st.isOps).2.length < st.isOps.length := by
    cases hl : st.isOps with
    | nil => rw [hl] at h; exact absurd h (by simp)
    | cons a t => simp [Pop]
  have h2 : (poSet F st).isOps.length < st.isOps.length := by
    unfold poSet
    dsimp only
    split_ifs
    · exact lt_of_le_of_lt (hp _) h1
    · exact h1
  unfold poStep
  dsimp only
  split_ifs
  · exact lt_of_le_of_lt (hp _) h2
  · exact h2

theorem processOpsLoop_exit (F : Dbl D) (op B : Int) (fuel : Nat) :
    ∀ st : Stacks D, st.isOps.length < fuel →
      poStop op B (processOpsLoop F op B fuel st) := by
  induction fuel with
  | zero => intro st h; exact absurd h (by omega)
  | succ n ih =>
    intro st h
    unfold processOpsLoop
    split_ifs with hc
    · exact hc
    · have h0 : 0 < st.isOps.length := by
        by_contra hn
        exact hc (Or.inl (by omega))
      exact ih _ (by have := poStep_shrinks F st h0; omega)

theorem processOpsLoop_add (F : Dbl D) (op B : Int) (a b : Nat) :
    ∀ st : Stacks D, processOpsLoop F op B (a + b) st =
      processOpsLoop F op B b (processOpsLoop F op B a st) := by
  induction a with
  | zero => intro st; simp [processOpsLoop]
  | succ n ih =>
    intro st
    rw [Nat.add_right_comm, processOpsLoop, processOpsLoop]
    split_ifs with h
    · exact (processOpsLoop_stop F op B b st h).symm
    · exact ih _

/-- C40: the parse loop terminates for every source.  A round of the main scan that is entered
from a state the scan passes through sets an error or leaves the scan index at least one
character further on; a scan of length zero without an error is turned into
`EQERR_PARSE_NOADVANCE`; so the loop has ended after at most `strlen + 1` rounds (its test
fails in the state reached, and further rounds change nothing).  A round of `_ProcessOps` that
passes the exit tests leaves the operator stack strictly shorter, so `_ProcessOps` has reached
an exit test after at most as many rounds as the stack has entries, one more round is the
exit, and further rounds change nothing. -/
theorem C40_parse_terminates (F : Dbl D) (szEqtn : List Char)
    (pszVars : Option (List (List Char))) :
    (∀ k : Nat,
      (parseLoop F (cstr szEqtn) pszVars k (parseInit F)).iThisPt < (cstr szEqtn).length →
      (parseLoop F (cstr szEqtn) pszVars k (parseInit F)).iError = EQERR_NONE →
      (parseStep F (cstr szEqtn) pszVars
          (parseLoop F (cstr szEqtn) pszVars k (parseInit F))).iError ≠ EQERR_NONE ∨
        (parseLoop F (cstr szEqtn) pszVars k (parseInit F)).iThisPt + 1 ≤
          (parseStep F (cstr szEqtn) pszVars
            (parseLoop F (cstr szEqtn) pszVars k (parseInit F))).iThisPt) ∧
    (∀ r : PState D × Int, r.2 = 0 → r.1.iError = EQERR_NONE →
      (parseAdvance r).iError = EQERR_PARSE_NOADVANCE) ∧
    ¬ ((scanEnd F szEqtn pszVars).iThisPt < (cstr szEqtn).length ∧
        (scanEnd F szEqtn pszVars).iError = EQERR_NONE) ∧
    (∀ n : Nat, parseLoop F (cstr szEqtn) pszVars ((cstr szEqtn).length + 1 + n) (parseInit F)
      = scanEnd F szEqtn pszVars) ∧
    (∀ (st : Stacks D) (iThisOp iBrktOff : Int), ¬ poStop iThisOp iBrktOff st →
      (poStep F st).isOps.length < st.isOps.length) ∧
    (∀ (st : Stacks D) (iThisOp iBrktOff : Int),
      poStop iThisOp iBrktOff (_ProcessOps F st iThisOp iBrktOff)) ∧
    (∀ (st : Stacks D) (iThisOp iBrktOff : Int) (n : Nat),
      processOpsLoop F iThisOp iBrktOff (st.isOps.length + 1 + n) st
        = _ProcessOps F st iThisOp iBrktOff) := by
  have hend : ¬ ((scanEnd F szEqtn pszVars).iThisPt < (cstr szEqtn).length ∧
      (scanEnd F szEqtn pszVars).iError = EQERR_NONE) := by
    rintro ⟨h1, h2⟩
    have := ((scanEnd_good F szEqtn pszVars).2 h2).2
    omega
  refine ⟨fun k h1 h2 => ?_, fun r h1 h2 => ?_, hend, fun n => ?_, fun st op B h => ?_,
    fun st op B => ?_, fun st op B n => ?_⟩
  · obtain ⟨gL, gB⟩ := parseLoop_inv F (cstr szEqtn) pszVars k (parseInit F) (Or.inl rfl)
      (fun _ => le_rfl)
    by_cases he : (parseStep F (cstr szEqtn) pszVars
        (parseLoop F (cstr szEqtn) pszVars k (parseInit F))).iError = EQERR_NONE
    · right
      have := ((parseStep_good F (cstr szEqtn) pszVars _ gL (gB h2) h1).2 he).2
      omega
    · left; exact he
  · unfold parseAdvance
    simp [h1, h2]
  · rw [parseLoop_add]
    exact parseLoop_done F _ _ n _ hend
  · apply poStep_shrinks
    by_contra hn
    exact h (Or.inl (by omega))
  · exact processOpsLoop_exit F op B _ st (by omega)
  · rw [processOpsLoop_add]
    exact processOpsLoop_stop F op B n _ (processOpsLoop_exit F op B _ st (by omega))

theorem C40_witness :
    ((parseLoop Q (cstr "1 +".toList) none 1 (parseInit Q)).iThisPt
        < (cstr "1 +".toList).length →
      (parseLoop Q (cstr "1 +".toList) none 1 (parseInit Q)).iError = EQERR_NONE →
      (parseStep Q (cstr "1 +".toList) none
          (parseLoop Q (cstr "1 +".toList) none 1 (parseInit Q))).iError ≠ EQERR_NONE ∨
        (parseLoop Q (cstr "1 +".toList) none 1 (parseInit Q)).iThisPt + 1 ≤
          (parseStep Q (cstr "1 +".toList) none
            (parseLoop Q (cstr "1 +".toList) none 1 (parseInit Q))).iThisPt) ∧
    (parseLoop Q (cstr "1 +".toList) none 1 (parseInit Q)).iThisPt
        < (cstr "1 +".toList).length ∧
    (parseLoop Q (cstr "1 +".toList) none 1 (parseInit Q)).iError = EQERR_NONE ∧
    ¬ poStop (-1) 0 (⟨[], [OP_ADD], [1]⟩ : Stacks ℚ) ∧
    (poStep Q (⟨[], [OP_ADD], [1]⟩ : Stacks ℚ)).isOps.length
      < (⟨[], [OP_ADD], [1]⟩ : Stacks ℚ).isOps.length :=
  ⟨(C40_parse_terminates Q "1 +".toList none).1 1, by decide!, by decide!, by decide!,
    (C40_parse_terminates Q "1 +".toList none).2.2.2.2.1 ⟨[], [OP_ADD], [1]⟩ (-1) 0
      (by decide!)⟩

/-! ## Rounds of the scan loop, in general form -/

/-- A round of the scan loop at a numeric literal, after `k` blanks, in the state
`LOOKFOR_NUMBER`, for a literal that the conversion reads in front of `rest`. -/
theorem parseStep_lit (F : Dbl D) (src : List Char) (vars : Option (List (List Char)))
    (out : List (VALOP D)) (ops pos : List Int) (p B e : Int) (tg : Target D) (k : Nat)
    (l rest : List Char) (v : D) (r q : Int)
    (hl : ∃ c t, l = c :: t ∧ c ∈ litStart)
    (hscan : F.scanf_lg (l ++ rest) = some (v, l.length)) (hp : 0 ≤ p)
    (hs : strFrom src p = List.replicate k ' ' ++ (l ++ rest))
    (h1 : r = p + k) (h2 : q = p + k + l.length) :
    parseStep F src vars ⟨⟨out, ops, pos⟩, LOOKFOR_NUMBER, p, B, EQERR_NONE, e, tg⟩ =
      ⟨⟨voD VOTYP_VAL v r :: out, ops, pos⟩, LOOKFOR_BINARYOP, q, B, EQERR_NONE, e, tg⟩ := by
  subst h1 h2
  obtain ⟨c, t, rfl, hc⟩ := hl
  obtain ⟨h1, h2, h3, h4, h5, _⟩ := litStart_props c hc
  have hsk : skipBlanks (strFrom src p) p = p + k := by
    rw [hs, List.cons_append, skipBlanks_replicate k c _ p h5]
  have hsf : strFrom src (p + k) = (c :: t) ++ rest := strFrom_skip src p k _ hp hs
  have hpk : (0 : Int) ≤ p + k := by omega
  have hch : charAt src (p + k) = c := charAt_of_strFrom src (p + k) c (t ++ rest) hpk hsf
  have hlt : p + k < src.length := lt_length_of_strFrom src (p + k) c (t ++ rest) hpk hsf
  unfold parseStep
  simp only [hsk]
  rw [if_neg (by omega), hch, h2]
  simp only [Bool.false_eq_true, if_false]
  unfold parseToken
  simp only [if_true]
  unfold parseNumber
  simp only [hch, h1, Bool.false_eq_true, if_false, if_neg h3, if_neg h4]
  unfold parseLiteral
  simp only [hsf, hscan]
  unfold parseAdvance
  simp only [EQERR_NONE, List.length_cons, and_true, Int.add_def]
  rw [if_neg (by push_cast; omega)]

/-- A round of the scan loop at a minus sign, after `k` blanks, in the state
`LOOKFOR_NUMBER`. -/
theorem parseStep_minus (F : Dbl D) (src : List Char) (vars : Option (List (List Char)))
    (out : List (VALOP D)) (ops pos : List Int) (p B e : Int) (tg : Target D) (k : Nat)
    (rest : List Char) (r q : Int) (hp : 0 ≤ p)
    (hs : strFrom src p = List.replicate k ' ' ++ '-' :: rest)
    (h1 : r = p + k) (h2 : q = p + k + 1) :
    parseStep F src vars ⟨⟨out, ops, pos⟩, LOOKFOR_NUMBER, p, B, EQERR_NONE, e, tg⟩ =
      ⟨⟨voD VOTYP_VAL (F.lit (-1)) r :: out, (OP_MUL + B) :: ops, r :: pos⟩, LOOKFOR_NUMBER, q,
        B, EQERR_NONE, e, tg⟩ := by
  subst h1 h2
  have hsk : skipBlanks (strFrom src p) p = p + k := by
    rw [hs, skipBlanks_replicate k '-' _ p (by decide)]
  have hsf : strFrom src (p + k) = '-' :: rest := strFrom_skip src p k _ hp hs
  have hpk : (0 : Int) ≤ p + k := by omega
  have hch : charAt src (p + k) = '-' := charAt_of_strFrom src (p + k) '-' rest hpk hsf
  have hlt : p + k < src.length := lt_length_of_strFrom src (p + k) '-' rest hpk hsf
  have g1 : strchr EQ_ILLEGALCHAR '-' = false := by decide
  have g2 : strchr EQ_VALIDCHAR '-' = false := by decide
  unfold parseStep
  simp only [hsk]
  rw [if_neg (by omega), hch, g1]
  simp only [Bool.false_eq_true, if_false]
  unfold parseToken
  simp only [if_true]
  unfold parseNumber
  simp only [hch, g2, Bool.false_eq_true, if_false, if_true]
  unfold parseAdvance
  simp [EQERR_NONE]

theorem opChar_props (c : Char) (h : IsOpChar c) :
    c ≠ ' ' ∧ strchr EQ_ILLEGALCHAR c = false := by
  rcases h with rfl | rfl | rfl | rfl | rfl | rfl | rfl | rfl | rfl | rfl | rfl | rfl <;> decide

/-- A round of the scan loop at a binary operator of one character or at a comma, after `k`
blanks, in the state `LOOKFOR_BINARYOP`. -/
theorem parseStep_op (F : Dbl D) (src : List Char) (vars : Option (List (List Char)))
    (st st2 : Stacks D) (p B e : Int) (tg : Target D) (k : Nat) (c : Char) (op iop : Int)
    (rest : List Char) (r q : Int) (hc : IsOpChar c)
    (hsc : scanBinaryOp (c :: rest) = (op, 1)) (g1 : ¬ op = OP_NULL) (g2 : ¬ op = OP_SET)
    (hp : 0 ≤ p) (hs : strFrom src p = List.replicate k ' ' ++ c :: rest)
    (h1 : r = p + k) (h2 : q = p + k + 1) (h3 : iop = opComma st.isOps B op + B)
    (h4 : _ProcessOps F st iop B = st2) :
    parseStep F src vars ⟨st, LOOKFOR_BINARYOP, p, B, EQERR_NONE, e, tg⟩ =
      ⟨⟨st2.vosParsEqn, iop :: st2.isOps, r :: st2.isPos⟩, LOOKFOR_NUMBER, q, B, EQERR_NONE, e,
        tg⟩ := by
  subst h1 h2 h3 h4
  obtain ⟨h5, h2⟩ := opChar_props c hc
  have hsk : skipBlanks (strFrom src p) p = p + k := by
    rw [hs, skipBlanks_replicate k c _ p h5]
  have hsf : strFrom src (p + k) = c :: rest := strFrom_skip src p k _ hp hs
  have hpk : (0 : Int) ≤ p + k := by omega
  have hch : charAt src (p + k) = c := charAt_of_strFrom src (p + k) c rest hpk hsf
  have hlt : p + k < src.length := lt_length_of_strFrom src (p + k) c rest hpk hsf
  unfold parseStep
  simp only [hsk]
  rw [if_neg (by omega), hch, h2]
  simp only [Bool.false_eq_true, if_false]
  unfold parseToken
  have hne : ¬ (LOOKFOR_BINARYOP = LOOKFOR_NUMBER) := by decide
  simp only [hne, if_false, if_true]
  unfold parseBinaryOp
  simp only [hch]
  unfold IsOpChar at hc
  rw [if_pos hc]
  unfold parseOperator
  simp only [hsf, hsc, if_neg g1, g2, false_and, if_false]
  unfold opAssign
  simp only [if_neg g2]
  unfold parseAdvance
  simp [EQERR_NONE]

/-- A round of the scan loop at an opening bracket, after `k` blanks, in the state
`LOOKFOR_NUMBER`, when the conversion of a number fails at the bracket. -/
theorem parseStep_open (F : Dbl D) (src : List Char) (vars : Option (List (List Char)))
    (st : Stacks D) (p B e : Int) (tg : Target D) (k : Nat) (rest : List Char) (q B2 : Int)
    (hscan : F.scanf_lg ('(' :: rest) = none) (hp : 0 ≤ p)
    (hs : strFrom src p = List.replicate k ' ' ++ '(' :: rest)
    (h2 : q = p + k + 1) (h3 : B2 = B + OP_BRACKETOFFSET) :
    parseStep F src vars ⟨st, LOOKFOR_NUMBER, p, B, EQERR_NONE, e, tg⟩ =
      ⟨st, LOOKFOR_NUMBER, q, B2, EQERR_NONE, e, tg⟩ := by
  subst h2 h3
  have hsk : skipBlanks (strFrom src p) p = p + k := by
    rw [hs, skipBlanks_replicate k '(' _ p (by decide)]
  have hsf : strFrom src (p + k) = '(' :: rest := strFrom_skip src p k _ hp hs
  have hpk : (0 : Int) ≤ p + k := by omega
  have hch : charAt src (p + k) = '(' := charAt_of_strFrom src (p + k) '(' rest hpk hsf
  have hlt : p + k < src.length := lt_length_of_strFrom src (p + k) '(' rest hpk hsf
  have g1 : strchr EQ_ILLEGALCHAR '(' = false := by decide
  have g2 : strchr EQ_VALIDCHAR '(' = false := by decide
  unfold parseStep
  simp only [hsk]
  rw [if_neg (by omega), hch, g1]
  simp only [Bool.false_eq_true, if_false]
  unfold parseToken
  simp only [if_true]
  unfold parseNumber
  simp only [hch, g2, Bool.false_eq_true, if_false,
    show ¬ (('(' : Char) = '-') by decide, show ¬ (('(' : Char) = '+') by decide]
  unfold parseLiteral
  simp only [hsf, hscan, hch, if_true]
  unfold parseAdvance
  simp [EQERR_NONE]

/-- A round of the scan loop at a closing bracket, after `k` blanks, in the state
`LOOKFOR_BINARYOP`. -/
theorem parseStep_closing (F : Dbl D) (src : List Char) (vars : Option (List (List Char)))
    (st : Stacks D) (p B e : Int) (tg : Target D) (k : Nat) (rest : List Char)
    (hp : 0 ≤ p) (hs : strFrom src p = List.replicate k ' ' ++ ')' :: rest) :
    parseStep F src vars ⟨st, LOOKFOR_BINARYOP, p, B, EQERR_NONE, e, tg⟩ =
      parseAdvance (parseClose ⟨st, LOOKFOR_BINARYOP, p + k, B, EQERR_NONE, e, tg⟩) := by
  have hsk : skipBlanks (strFrom src p) p = p + k := by
    rw [hs, skipBlanks_replicate k ')' _ p (by decide)]
  have hsf : strFrom src (p + k) = ')' :: rest := strFrom_skip src p k _ hp hs
  have hpk : (0 : Int) ≤ p + k := by omega
  have hch : charAt src (p + k) = ')' := charAt_of_strFrom src (p + k) ')' rest hpk hsf
  have hlt : p + k < src.length := lt_length_of_strFrom src (p + k) ')' rest hpk hsf
  have h2 : strchr EQ_ILLEGALCHAR ')' = false := by decide
  have h7 : ¬ ((')' : Char) = '+' ∨ (')' : Char) = '-' ∨ (')' : Char) = '*' ∨ (')' : Char) = '/'
      ∨ (')' : Char) = '^' ∨ (')' : Char) = '<' ∨ (')' : Char) = '>' ∨ (')' : Char) = '!'
      ∨ (')' : Char) = '=' ∨ (')' : Char) = '|' ∨ (')' : Char) = '&' ∨ (')' : Char) = ',') := by
    decide
  unfold parseStep
  simp only [hsk]
  rw [if_neg (by omega), hch, h2]
  simp only [Bool.false_eq_true, if_false]
  unfold parseToken
  have hne : ¬ (LOOKFOR_BINARYOP = LOOKFOR_NUMBER) := by decide
  simp only [hne, if_false, if_true]
  unfold parseBinaryOp
  simp only [hch]
  rw [if_neg h7]
  simp only [if_true]

/-- The result of `ParseEquation` after a scan that ends without an error and leaves an
equation stack without `OP_PSH` tokens: the tokens in the order they were pushed. -/
theorem ParseEquation_tokens (F : Dbl D) (this : Instance D) (src : List Char)
    (vars : Option (List (List Char))) (x : VALOP D) (out : List (VALOP D)) (s : PState D)
    (hsrc : cstr src = src) (hscan : parseScan F src vars = s) (he : s.iError = EQERR_NONE)
    (hout : s.st.vosParsEqn = x :: out) (hx : ∀ t ∈ x :: out, isPSH t = false) :
    (ParseEquation F this src vars).1 = EQERR_NONE ∧
      (ParseEquation F this src vars).2.pvoEquation = (x :: out).reverse ∧
      (ParseEquation F this src vars).2.iEqnLength = ((x :: out).length : Int) ∧
      (ParseEquation F this src vars).2.tgt = s.tgt := by
  have hd : ∀ l : List (VALOP D), (∀ t ∈ l, isPSH t = false) → dropPSH l = l := by
    intro l hl
    unfold dropPSH
    rw [List.filter_eq_self]
    intro t ht
    simp [hl t ht]
  have hn : countNotPSH F (x :: out) = (x :: out).length := by
    rw [countNotPSH_cons, hd out (fun t ht => hx t (List.mem_cons_of_mem _ ht))]
    rfl
  have hcp := copyEquation_eq F (x :: out)
  rw [hd _ hx, hn] at hcp
  unfold ParseEquation
  simp only [hsrc, hscan, he, ne_eq, not_true_eq_false, if_false, hout]
  rw [hn, hcp]
  simp

theorem poStep_simple (F : Dbl D) (out : List (VALOP D)) (x o q : Int) (ops pos : List Int)
    (hx : stripGE x = o) (h1 : o ≠ OP_SET) (h2 : o < OP_NARG) :
    poStep F ⟨out, x :: ops, q :: pos⟩ = ⟨voI F VOTYP_OP o q :: out, ops, pos⟩ := by
  have h3 : ¬ (o - OP_NARG ≥ 0 ∧ o - OP_NARG < NUM_NARGOP ∧ nargArgc (o - OP_NARG) < 0) := by
    intro h
    have := h.1
    omega
  unfold poStep poSet
  simp only [Pop, hx, if_neg h1]
  rw [if_neg h3]

theorem litStop_props : ∀ c ∈ litStop, c.isDigit = false := by decide

theorem IsNumber_Q_123 : IsNumber Q ['1'] 1 ∧ IsNumber Q ['2'] 2 ∧ IsNumber Q ['3'] 3 := by
  refine ⟨⟨⟨_, _, rfl, by decide⟩, by decide, ?_⟩, ⟨⟨_, _, rfl, by decide⟩, by decide, ?_⟩,
    ⟨⟨_, _, rfl, by decide⟩, by decide, ?_⟩⟩
  all_goals
    intro rest hr
    cases rest with
    | nil => decide!
    | cons c t =>
      have hc := litStop_props c (hr c rfl)
      simp [Q, ratDbl, scanNat, scanDigits, hc]

/-! ## Rounds of the token loop, in general form -/

theorem evalLoop_next (F : Dbl D) (pvo : List (VALOP D)) (len : Int) (allow : Bool)
    (n : Nat) (e t u : EState D) (h1 : e.iThisPt < len) (h2 : e.iError = EQERR_NONE)
    (h3 : evalToken F pvo len allow e = t) (h4 : { t with iThisPt := t.iThisPt + 1 } = u) :
    evalLoop F pvo len allow (n + 1) e = evalLoop F pvo len allow n u := by
  rw [evalLoop, if_pos ⟨h1, h2⟩, h3, ← h4]

/-- A value token or a prefix token pushes its value with the zero vector. -/
theorem evalToken_value (F : Dbl D) (pvo : List (VALOP D)) (len : Int) (allow : Bool)
    (e : EState D) (ty : Nat) (v : D) (p : Int)
    (ht : pvo.getD e.iThisPt.toNat (voNul F) = voD ty v p)
    (hty : ty = VOTYP_VAL ∨ ty = VOTYP_PREFIX) :
    evalToken F pvo len allow e =
      { e with dsVals := v :: e.dsVals, usUnits := uUnitZero F :: e.usUnits } := by
  unfold evalToken
  simp only [ht, voD]
  rw [if_pos hty]

theorem evalBinary_mul (F : Dbl D) (e : EState D) (a b : D) (vs : List D)
    (u1 u2 : UNITBASE D) (us : List (UNITBASE D))
    (hv : e.dsVals = b :: a :: vs) (hu : e.usUnits = u2 :: u1 :: us) :
    evalBinary F OP_MUL e =
      { e with dsVals := F.mul a b :: vs, usUnits := unitMap2 F F.add u1 u2 :: us,
               dVal := F.mul a b, uUnit := unitMap2 F F.add u1 u2 } := by
  have hl : ¬ ((vs.length : Int) + 1 + 1 < 2) := by omega
  unfold evalBinary
  simp [pushResult, Pop, hv, hu, hl, OP_OR, OP_AND, OP_LTE, OP_GTE, OP_LT, OP_GT,
    OP_NEQ, OP_EQ, OP_ADD, OP_SUB, OP_MUL, OP_DIV, OP_POW, OP_PSH, OP_POP]

theorem evalBinary_pop (F : Dbl D) (e : EState D) (a b : D) (vs : List D)
    (u1 u2 : UNITBASE D) (us : List (UNITBASE D))
    (hv : e.dsVals = b :: a :: vs) (hu : e.usUnits = u2 :: u1 :: us) :
    evalBinary F OP_POP e =
      { e with dsVals := b :: vs, usUnits := u2 :: us, dVal := b, uUnit := u2 } := by
  have hl : ¬ ((vs.length : Int) + 1 + 1 < 2) := by omega
  unfold evalBinary
  simp [pushResult, Pop, hv, hu, hl, OP_OR, OP_AND, OP_LTE, OP_GTE, OP_LT, OP_GT,
    OP_NEQ, OP_EQ, OP_ADD, OP_SUB, OP_MUL, OP_DIV, OP_POW, OP_PSH, OP_POP]

theorem unitIsZero_zero (F : Dbl D) (h0 : F.eq (F.lit 0) (F.lit 0) = true) :
    unitIsZero F (uUnitZero F) = true := by
  unfold unitIsZero
  rw [List.all_eq_true]
  intro i hi
  have hi2 : i < 7 := by simpa [EQSI_NUMUNIT_BASE] using hi
  have : (uUnitZero F).getD i (F.lit 0) = F.lit 0 := by
    unfold uUnitZero
    simp only [List.getD_eq_getElem?_getD, List.getElem?_replicate]
    split_ifs <;> rfl
  rw [this]
  exact h0

/-- The end of `DoEquation` after a token loop that leaves no error and one value, on an
object without a target unit. -/
theorem DoEquation_of_walk (F : Dbl D) (this : Instance D) (dVar : Option (List D))
    (allow derived : Bool) (dVal0 : D) (uUnit0 : UNITBASE D) (x : D) (u : UNITBASE D)
    (us : List (UNITBASE D)) (h0 : 0 < this.iEqnLength)
    (he : (evalWalk F this dVar allow dVal0 uUnit0).iError = EQERR_NONE)
    (hv : (evalWalk F this dVar allow dVal0 uUnit0).dsVals = [x])
    (hu : (evalWalk F this dVar allow dVal0 uUnit0).usUnits = u :: us)
    (ht : F.eq this.tgt.m_dScleTarget (F.lit 0) = true) :
    (DoEquation F this dVar allow derived dVal0 uUnit0).ret = EQERR_NONE ∧
    (DoEquation F this dVar allow derived dVal0 uUnit0).dAns = some x ∧
    (DoEquation F this dVar allow derived dVal0 uUnit0).this.tgt.m_szUnit =
      _AnswerUnitString F this.tgt.m_szUnit u derived := by
  unfold DoEquation
  rw [if_neg (by omega)]
  simp [he, hv, hu, ht, Pop]

/-! ## C38: the leading minus -/

theorem parseScan_neg_pow (F : Dbl D) (vars : Option (List (List Char)))
    (la lb : List Char) (va vb : D)
    (ha : IsNumber F la va) (hb : IsNumber F lb vb) :
    parseScan F (srcNegPow la lb) vars =
      ⟨⟨[voI F VOTYP_OP OP_MUL 0, voI F VOTYP_OP OP_POW (la.length + 1),
          voD VOTYP_VAL vb (la.length + 2), voD VOTYP_VAL va 1, voD VOTYP_VAL (F.lit (-1)) 0],
          [], []⟩,
        LOOKFOR_BINARYOP, la.length + lb.length + 2, 0, EQERR_NONE,
        la.length + lb.length + 2, ⟨[], uUnitZero F, F.lit 0, F.lit 0⟩⟩ := by
  have hlen : (srcNegPow la lb).length = la.length + lb.length + 2 := by
    simp [srcNegPow]; omega
  have e1 := parseStep_minus F (srcNegPow la lb) vars [] [] [] 0 0 0
    ⟨[], uUnitZero F, F.lit 0, F.lit 0⟩ 0 (la ++ '^' :: lb) 0 1 le_rfl
    (by rw [strFrom_zero]; rfl) (by simp) (by simp)
  rw [add_zero] at e1
  have e2 := parseStep_lit F (srcNegPow la lb) vars [voD VOTYP_VAL (F.lit (-1)) 0] [OP_MUL] [0]
    1 0 0 ⟨[], uUnitZero F, F.lit 0, F.lit 0⟩ 0 la ('^' :: lb) va 1 (la.length + 1)
    ha.1 (ha.2.2 ('^' :: lb) (by simp [litStop])) (by decide)
    (by
      have h := strFrom_append ['-'] (la ++ '^' :: lb) 1 (by simp)
      simpa [srcNegPow] using h)
    (by simp) (by simp; omega)
  have hstop : _ProcessOps F
      (⟨[voD VOTYP_VAL va 1, voD VOTYP_VAL (F.lit (-1)) 0], [OP_MUL], [0]⟩ : Stacks D) OP_POW 0
      = ⟨[voD VOTYP_VAL va 1, voD VOTYP_VAL (F.lit (-1)) 0], [OP_MUL], [0]⟩ :=
    processOpsLoop_stop F _ 0 _ _ (Or.inr (Or.inl (by
      simp [Peek, OP_MUL, OP_POW, OP_RELOPMIN, OP_RELOPMAX])))
  have e3 := parseStep_op F (srcNegPow la lb) vars
    ⟨[voD VOTYP_VAL va 1, voD VOTYP_VAL (F.lit (-1)) 0], [OP_MUL], [0]⟩ _
    (la.length + 1) 0 0 ⟨[], uUnitZero F, F.lit 0, F.lit 0⟩ 0 '^' OP_POW OP_POW lb
    (la.length + 1) (la.length + 2) (by simp [IsOpChar]) rfl (by decide) (by decide)
    (by omega)
    (by
      have h := strFrom_append ('-' :: la) ('^' :: lb) (la.length + 1) (by simp)
      simpa [srcNegPow] using h)
    (by simp) (by omega) (by simp [opComma, OP_POW, OP_PSH]) hstop
  have e4 := parseStep_lit F (srcNegPow la lb) vars
    [voD VOTYP_VAL va 1, voD VOTYP_VAL (F.lit (-1)) 0] [OP_POW, OP_MUL] [la.length + 1, 0]
    (la.length + 2) 0 0 ⟨[], uUnitZero F, F.lit 0, F.lit 0⟩ 0 lb [] vb (la.length + 2)
    (la.length + lb.length + 2) hb.1 (hb.2.2 [] (by simp)) (by omega)
    (by
      have h := strFrom_append ('-' :: (la ++ ['^'])) lb (la.length + 2) (by simp; omega)
      simpa [srcNegPow] using h)
    (by simp) (by omega)
  obtain ⟨ca, ta, rfl, -⟩ := ha.1
  obtain ⟨cb, tb, rfl, -⟩ := hb.1
  have hf : (srcNegPow (ca :: ta) (cb :: tb)).length + 1
      = (ta.length + tb.length + 1) + 1 + 1 + 1 + 1 := by
    rw [hlen]; simp only [List.length_cons]; omega
  have hfin : _ProcessOps F
      (⟨[voD VOTYP_VAL vb (((ca :: ta).length : Int) + 2), voD VOTYP_VAL va 1,
          voD VOTYP_VAL (F.lit (-1)) 0], [OP_POW, OP_MUL], [((ca :: ta).length : Int) + 1, 0]⟩ :
        Stacks D) (-1) 0
      = ⟨[voI F VOTYP_OP OP_MUL 0, voI F VOTYP_OP OP_POW (((ca :: ta).length : Int) + 1),
          voD VOTYP_VAL vb (((ca :: ta).length : Int) + 2), voD VOTYP_VAL va 1,
          voD VOTYP_VAL (F.lit (-1)) 0], [], []⟩ := by
    have s1 : ¬ poStop (-1) 0 (⟨[voD VOTYP_VAL vb (((ca :: ta).length : Int) + 2),
        voD VOTYP_VAL va 1, voD VOTYP_VAL (F.lit (-1)) 0], [OP_POW, OP_MUL],
        [((ca :: ta).length : Int) + 1, 0]⟩ : Stacks D) := by
      simp [poStop, Peek, OP_POW, OP_PSH]
    have s2 : ¬ poStop (-1) 0 (⟨[voI F VOTYP_OP OP_POW (((ca :: ta).length : Int) + 1),
        voD VOTYP_VAL vb (((ca :: ta).length : Int) + 2),
        voD VOTYP_VAL va 1, voD VOTYP_VAL (F.lit (-1)) 0], [OP_MUL], [0]⟩ : Stacks D) := by
      simp [poStop, Peek, OP_MUL, OP_PSH]
    unfold _ProcessOps
    rw [processOpsLoop_go F _ _ _ _ s1,
      poStep_simple F _ OP_POW OP_POW _ _ _ (by decide) (by decide) (by decide)]
    show processOpsLoop F (-1) 0 (1 + 1) _ = _
    rw [processOpsLoop_go F _ _ _ _ s2,
      poStep_simple F _ OP_MUL OP_MUL _ _ _ (by decide) (by decide) (by decide)]
    exact processOpsLoop_stop F _ _ _ _ (Or.inl (by simp))
  unfold parseScan
  rw [hf, parseInit,
    parseLoop_unroll F _ vars _ _ _ (by simp [hlen]; omega) rfl e1,
    parseLoop_unroll F _ vars _ _ _ (by simp [hlen]; omega) rfl e2,
    parseLoop_unroll F _ vars _ _ _ (by simp [hlen]; omega) rfl e3,
    parseLoop_unroll F _ vars _ _ _ (by simp [hlen]) rfl e4,
    parseLoop_done F _ vars _ _ (by simp [hlen])]
  unfold parseFinish
  simp only [hfin]
  simp [EQERR_NONE, LOOKFOR_BINARYOP, LOOKFOR_BRACKET, LOOKFOR_NUMBER]

theorem evalBinary_pow_ok (F : Dbl D) (e : EState D) (a b : D) (vs : List D)
    (u1 u2 : UNITBASE D) (us : List (UNITBASE D))
    (hv : e.dsVals = b :: a :: vs) (hu : e.usUnits = u2 :: u1 :: us)
    (hz : unitIsZero F u2 = true)
    (h : ¬ (F.eq a (F.lit 0) = true ∧ F.lt (powExponent F a b) (F.lit 0) = true)) :
    evalBinary F OP_POW e =
      { e with
        dsVals := (if F.eq a (F.lit 0) = true ∧ F.eq (powExponent F a b) (F.lit 0) = true
          then F.lit 1 else F.pow a (powExponent F a b)) :: vs,
        usUnits := (List.range EQSI_NUMUNIT_BASE).map
          (fun i => F.mul (u1.getD i (F.lit 0)) (powExponent F a b)) :: us,
        dVal := (if F.eq a (F.lit 0) = true ∧ F.eq (powExponent F a b) (F.lit 0) = true
          then F.lit 1 else F.pow a (powExponent F a b)),
        uUnit := (List.range EQSI_NUMUNIT_BASE).map
          (fun i => F.mul (u1.getD i (F.lit 0)) (powExponent F a b)) } := by
  have hl : ¬ ((vs.length : Int) + 1 + 1 < 2) := by omega
  unfold powExponent at h ⊢
  have h' : (F.eq a (F.lit 0) && F.lt (if F.lt a (F.lit 0) = true
      then F.floor (F.add b (F.lit (1 / 2))) else b) (F.lit 0)) = false := by
    cases h1 : F.eq a (F.lit 0)
    · rfl
    · cases h2 : F.lt (if F.lt a (F.lit 0) = true
        then F.floor (F.add b (F.lit (1 / 2))) else b) (F.lit 0)
      · rfl
      · exact absurd ⟨h1, h2⟩ h
  unfold evalBinary
  simp only [pushResult, Pop, hv, hu, hz, OP_OR, OP_AND, OP_LTE, OP_GTE, OP_LT,
    OP_GT, OP_NEQ, OP_EQ, OP_ADD, OP_SUB, OP_MUL, OP_DIV, OP_POW, OP_PSH, OP_POP,
    List.length_cons, Nat.cast_add, Nat.cast_one, if_neg hl, decide_True, Bool.true_and, h',
    Bool.false_eq_true, if_false, Bool.not_true, Bool.and_false, Bool.or_false,
    decide_False, Bool.false_and, Bool.and_eq_true, false_and, and_false, if_true,
    show ¬ ((16 : Int) = 15) by decide, show ¬ ((16 : Int) = 1) by decide,
    show ¬ ((16 : Int) = 2) by decide, show ¬ ((16 : Int) = 12) by decide,
    show ¬ ((16 : Int) = 13) by decide, show ¬ ((16 : Int) = 14) by decide,
    show ¬ ((16 : Int) = 4) by decide, show ¬ ((16 : Int) = 5) by decide,
    show ¬ ((6 : Int) ≤ 16 ∧ (16 : Int) ≤ 11) by decide, or_self,
    powUnit_dimless F _ _ _ _ hz]

/-- The token loop on the five tokens of `-a^b`. -/
theorem evalWalk_neg_pow (F : Dbl D) (this : Instance D) (dVar : Option (List D))
    (allow : Bool) (dVal0 : D) (uUnit0 : UNITBASE D) (va vb : D) (p1 p2 p3 p4 p5 : Int)
    (hlen : this.iEqnLength = 5)
    (hpvo : this.pvoEquation = [voD VOTYP_VAL (F.lit (-1)) p1, voD VOTYP_VAL va p2,
      voD VOTYP_VAL vb p3, voI F VOTYP_OP OP_POW p4, voI F VOTYP_OP OP_MUL p5])
    (h0 : F.eq (F.lit 0) (F.lit 0) = true)
    (h : ¬ (F.eq va (F.lit 0) = true ∧ F.lt (powExponent F va vb) (F.lit 0) = true)) :
    (evalWalk F this dVar allow dVal0 uUnit0).iError = EQERR_NONE ∧
    (evalWalk F this dVar allow dVal0 uUnit0).dsVals =
      [F.mul (F.lit (-1))
        (if F.eq va (F.lit 0) = true ∧ F.eq (powExponent F va vb) (F.lit 0) = true
          then F.lit 1 else F.pow va (powExponent F va vb))] ∧
    (evalWalk F this dVar allow dVal0 uUnit0).usUnits =
      [unitMap2 F F.add (uUnitZero F) ((List.range EQSI_NUMUNIT_BASE).map
        (fun i => F.mul ((uUnitZero F).getD i (F.lit 0)) (powExponent F va vb)))] := by
  have hz := unitIsZero_zero F h0
  have t1 : evalToken F this.pvoEquation 5 allow
      ⟨[], [], 0, EQERR_NONE, dVar, dVal0, uUnit0, false⟩
      = ⟨[F.lit (-1)], [uUnitZero F], 0, EQERR_NONE, dVar, dVal0, uUnit0, false⟩ :=
    evalToken_value F _ 5 allow _ VOTYP_VAL (F.lit (-1)) p1 (by rw [hpvo]; rfl) (Or.inl rfl)
  have t2 : evalToken F this.pvoEquation 5 allow
      ⟨[F.lit (-1)], [uUnitZero F], 1, EQERR_NONE, dVar, dVal0, uUnit0, false⟩
      = ⟨[va, F.lit (-1)], [uUnitZero F, uUnitZero F], 1, EQERR_NONE, dVar, dVal0, uUnit0,
          false⟩ :=
    evalToken_value F _ 5 allow _ VOTYP_VAL va p2 (by rw [hpvo]; rfl) (Or.inl rfl)
  have t3 : evalToken F this.pvoEquation 5 allow
      ⟨[va, F.lit (-1)], [uUnitZero F, uUnitZero F], 2, EQERR_NONE, dVar, dVal0, uUnit0, false⟩
      = ⟨[vb, va, F.lit (-1)], [uUnitZero F, uUnitZero F, uUnitZero F], 2, EQERR_NONE, dVar,
          dVal0, uUnit0, false⟩ :=
    evalToken_value F _ 5 allow _ VOTYP_VAL vb p3 (by rw [hpvo]; rfl) (Or.inl rfl)
  have t4 := (evalToken_binary F this.pvoEquation 5 allow
      ⟨[vb, va, F.lit (-1)], [uUnitZero F, uUnitZero F, uUnitZero F], 3, EQERR_NONE, dVar,
        dVal0, uUnit0, false⟩ OP_POW (by rw [hpvo]; rfl) (by rw [hpvo]; rfl) (by decide)
      (by decide)).trans
    (evalBinary_pow_ok F _ va vb [F.lit (-1)] (uUnitZero F) (uUnitZero F) [uUnitZero F]
      rfl rfl hz h)
  have t5 := (evalToken_binary F this.pvoEquation 5 allow
      ⟨[(if F.eq va (F.lit 0) = true ∧ F.eq (powExponent F va vb) (F.lit 0) = true
          then F.lit 1 else F.pow va (powExponent F va vb)), F.lit (-1)],
        [(List.range EQSI_NUMUNIT_BASE).map
          (fun i => F.mul ((uUnitZero F).getD i (F.lit 0)) (powExponent F va vb)), uUnitZero F],
        4, EQERR_NONE, dVar,
        (if F.eq va (F.lit 0) = true ∧ F.eq (powExponent F va vb) (F.lit 0) = true
          then F.lit 1 else F.pow va (powExponent F va vb)),
        (List.range EQSI_NUMUNIT_BASE).map
          (fun i => F.mul ((uUnitZero F).getD i (F.lit 0)) (powExponent F va vb)), false⟩
      OP_MUL (by rw [hpvo]; rfl) (by rw [hpvo]; rfl) (by decide) (by decide)).trans
    (evalBinary_mul F _ (F.lit (-1)) _ [] (uUnitZero F) _ [] rfl rfl)
  have w1 := evalLoop_next F this.pvoEquation 5 allow 4 _ _
    ⟨[F.lit (-1)], [uUnitZero F], 1, EQERR_NONE, dVar, dVal0, uUnit0, false⟩
    (show (0 : Int) < 5 by decide) rfl t1 rfl
  have w2 := evalLoop_next F this.pvoEquation 5 allow 3 _ _
    ⟨[va, F.lit (-1)], [uUnitZero F, uUnitZero F], 2, EQERR_NONE, dVar, dVal0, uUnit0, false⟩
    (show (1 : Int) < 5 by decide) rfl t2 rfl
  have w3 := evalLoop_next F this.pvoEquation 5 allow 2 _ _
    ⟨[vb, va, F.lit (-1)], [uUnitZero F, uUnitZero F, uUnitZero F], 3, EQERR_NONE, dVar,
      dVal0, uUnit0, false⟩
    (show (2 : Int) < 5 by decide) rfl t3 rfl
  have w4 := evalLoop_next F this.pvoEquation 5 allow 1 _ _
    ⟨[(if F.eq va (F.lit 0) = true ∧ F.eq (powExponent F va vb) (F.lit 0) = true
          then F.lit 1 else F.pow va (powExponent F va vb)), F.lit (-1)],
        [(List.range EQSI_NUMUNIT_BASE).map
          (fun i => F.mul ((uUnitZero F).getD i (F.lit 0)) (powExponent F va vb)), uUnitZero F],
        4, EQERR_NONE, dVar,
        (if F.eq va (F.lit 0) = true ∧ F.eq (powExponent F va vb) (F.lit 0) = true
          then F.lit 1 else F.pow va (powExponent F va vb)),
        (List.range EQSI_NUMUNIT_BASE).map
          (fun i => F.mul ((uUnitZero F).getD i (F.lit 0)) (powExponent F va vb)), false⟩
    (show (3 : Int) < 5 by decide) rfl t4 rfl
  have w5 := evalLoop_next F this.pvoEquation 5 allow 0 _ _ _
    (show (4 : Int) < 5 by decide) rfl t5 rfl
  unfold evalWalk
  rw [hlen]
  show (evalLoop F _ 5 allow (4 + 1) _).iError = _ ∧ (evalLoop F _ 5 allow (4 + 1) _).dsVals = _
    ∧ (evalLoop F _ 5 allow (4 + 1) _).usUnits = _
  rw [w1, w2, w3, w4, w5]
  exact ⟨rfl, rfl, rfl⟩

theorem srcNegPow_cstr (la lb : List Char) (ha : ∀ c ∈ la, c ≠ '\x00')
    (hb : ∀ c ∈ lb, c ≠ '\x00') : cstr (srcNegPow la lb) = srcNegPow la lb := by
  apply cstr_of_noNul
  intro c hm
  simp only [srcNegPow, List.mem_append, List.mem_cons] at hm
  rcases hm with rfl | h | rfl | h
  · decide
  · exact ha c h
  · decide
  · exact hb c h

/-- C38: a leading minus is compiled as a multiplication by -1 that is put on the operator
stack with the precedence of `*`, so `^` binds tighter.  For numeric literals `la`, `lb` of
values `va`, `vb`, on every object and with every variable
list, the source `-la^lb` parses with `EQERR_NONE` to the tokens `[-1, va, vb, ^, *]`.  When
`0 == 0` holds for the arithmetic and the case zero to a negative power is not met, the
evaluation returns `EQERR_NONE` and the answer is the product of -1 and the power of `va` and
`vb` as `^` computes it (1 for zero to the zero, `pow` otherwise); in exact arithmetic this
product is the negation.  In exact arithmetic `-2^2` is -4, `- 2 ^ 2` is -4, `-2^2^3` is -64
and `-2^2` has the tokens `[-1, 2, 2, ^, *]` at the positions 0, 1, 3, 2, 0. -/
theorem C38_leading_minus (F : Dbl D) (this : Instance D) (vars : Option (List (List Char)))
    (la lb : List Char) (va vb : D) (dVar : Option (List D))
    (tfAllowAssign tfAllowDerived : Bool) (dVal0 : D) (uUnit0 : UNITBASE D)
    (ha : IsNumber F la va) (hb : IsNumber F lb vb) :
    (ParseEquation F this (srcNegPow la lb) vars).1 = EQERR_NONE ∧
    (ParseEquation F this (srcNegPow la lb) vars).2.pvoEquation =
      [voD VOTYP_VAL (F.lit (-1)) 0, voD VOTYP_VAL va 1, voD VOTYP_VAL vb (la.length + 2),
        voI F VOTYP_OP OP_POW (la.length + 1), voI F VOTYP_OP OP_MUL 0] ∧
    (F.eq (F.lit 0) (F.lit 0) = true →
      ¬ (F.eq va (F.lit 0) = true ∧ F.lt (powExponent F va vb) (F.lit 0) = true) →
      (DoEquation F (ParseEquation F this (srcNegPow la lb) vars).2 dVar tfAllowAssign
        tfAllowDerived dVal0 uUnit0).ret = EQERR_NONE ∧
      (DoEquation F (ParseEquation F this (srcNegPow la lb) vars).2 dVar tfAllowAssign
        tfAllowDerived dVal0 uUnit0).dAns =
          some (F.mul (F.lit (-1))
            (if F.eq va (F.lit 0) = true ∧ F.eq (powExponent F va vb) (F.lit 0) = true
              then F.lit 1 else F.pow va (powExponent F va vb)))) ∧
    (∀ x : ℚ, Q.mul (Q.lit (-1)) x = -x) ∧
    ((ParseEquation Q fresh "-2^2".toList none).2.pvoEquation =
        [voD VOTYP_VAL (-1) 0, voD VOTYP_VAL 2 1, voD VOTYP_VAL 2 3, voI Q VOTYP_OP OP_POW 2,
          voI Q VOTYP_OP OP_MUL 0] ∧
      (DoEquation Q (ParseEquation Q fresh "-2^2".toList none).2 none false false
        0 []).dAns = some (-4) ∧
      (DoEquation Q (ParseEquation Q fresh "- 2 ^ 2".toList none).2 none false false
        0 []).dAns = some (-4) ∧
      (DoEquation Q (ParseEquation Q fresh "-2^2^3".toList none).2 none false false
        0 []).dAns = some (-64)) := by
  have hp := ParseEquation_tokens F this (srcNegPow la lb) vars _ _ _
    (srcNegPow_cstr la lb ha.2.1 hb.2.1) (parseScan_neg_pow F vars la lb va vb ha hb) rfl rfl
    (by
      intro t ht
      simp only [List.mem_cons, List.mem_singleton, List.not_mem_nil, or_false] at ht
      rcases ht with rfl | rfl | rfl | rfl | rfl <;>
        simp [isPSH, voI, voD, VOTYP_VAL, VOTYP_OP, OP_MUL, OP_POW, OP_PSH])
  have hpvo : (ParseEquation F this (srcNegPow la lb) vars).2.pvoEquation =
      [voD VOTYP_VAL (F.lit (-1)) 0, voD VOTYP_VAL va 1, voD VOTYP_VAL vb (la.length + 2),
        voI F VOTYP_OP OP_POW (la.length + 1), voI F VOTYP_OP OP_MUL 0] := by
    rw [hp.2.1]; rfl
  refine ⟨hp.1, hpvo, fun h0 hne => ?_, fun x => ?_, ?_⟩
  · have hlen : (ParseEquation F this (srcNegPow la lb) vars).2.iEqnLength = 5 := by
      rw [hp.2.2.1]; rfl
    obtain ⟨w1, w2, w3⟩ := evalWalk_neg_pow F _ dVar tfAllowAssign dVal0 uUnit0 va vb _ _ _ _ _
      hlen hpvo h0 hne
    have hd := DoEquation_of_walk F _ dVar tfAllowAssign tfAllowDerived dVal0 uUnit0 _ _ []
      (by rw [hlen]; decide) w1 w2 w3 (by rw [hp.2.2.2]; exact h0)
    exact ⟨hd.1, hd.2.1⟩
  · show (-1 : ℚ) * x = -x
    ring
  · decide!

theorem C38_witness :
    IsNumber Q ['2'] 2 ∧
    (ParseEquation Q fresh (srcNegPow ['2'] ['2']) none).1 = EQERR_NONE ∧
    (DoEquation Q (ParseEquation Q fresh (srcNegPow ['2'] ['2']) none).2 none false false
      0 []).ret = EQERR_NONE :=
  ⟨IsNumber_Q_123.2.1,
    (C38_leading_minus Q fresh none ['2'] ['2'] 2 2 none false false 0 []
      IsNumber_Q_123.2.1 IsNumber_Q_123.2.1).1,
    ((C38_leading_minus Q fresh none ['2'] ['2'] 2 2 none false false 0 []
      IsNumber_Q_123.2.1 IsNumber_Q_123.2.1).2.2.1 (by decide!) (by decide!)).1⟩

/-! ## C37: the comma outside a function -/

theorem parseScan_comma (F : Dbl D) (vars : Option (List (List Char)))
    (la lb : List Char) (va vb : D) (ha : IsNumber F la va) (hb : IsNumber F lb vb) :
    parseScan F (srcComma la lb) vars =
      ⟨⟨[voI F VOTYP_OP OP_POP la.length, voD VOTYP_VAL vb (la.length + 2),
          voD VOTYP_VAL va 0], [], []⟩,
        LOOKFOR_BINARYOP, la.length + lb.length + 2, 0, EQERR_NONE,
        la.length + lb.length + 2, ⟨[], uUnitZero F, F.lit 0, F.lit 0⟩⟩ := by
  have hlen : (srcComma la lb).length = la.length + lb.length + 2 := by
    simp [srcComma]; omega
  have e1 := parseStep_lit F (srcComma la lb) vars [] [] [] 0 0 0
    ⟨[], uUnitZero F, F.lit 0, F.lit 0⟩ 0 la (',' :: ' ' :: lb) va 0 la.length
    ha.1 (ha.2.2 _ (by simp [litStop])) le_rfl (by rw [strFrom_zero]; rfl) (by simp) (by simp)
  have e2 := parseStep_op F (srcComma la lb) vars ⟨[voD VOTYP_VAL va 0], [], []⟩ _
    la.length 0 0 ⟨[], uUnitZero F, F.lit 0, F.lit 0⟩ 0 ',' OP_PSH OP_POP (' ' :: lb)
    la.length (la.length + 1) (by simp [IsOpChar]) rfl (by decide) (by decide)
    (by omega) (strFrom_append la _ _ rfl) (by simp) (by omega)
    (show OP_POP = opComma ([] : List Int) 0 OP_PSH + 0 by decide)
    (ProcessOps_empty F _ OP_POP)
  have e3 := parseStep_lit F (srcComma la lb) vars [voD VOTYP_VAL va 0] [OP_POP] [la.length]
    (la.length + 1) 0 0 ⟨[], uUnitZero F, F.lit 0, F.lit 0⟩ 1 lb [] vb (la.length + 2)
    (la.length + lb.length + 2) hb.1 (hb.2.2 [] (by simp)) (by omega)
    (by
      have h := strFrom_append (la ++ [',']) (' ' :: lb) (la.length + 1) (by simp)
      simpa [srcComma] using h)
    (by push_cast; omega) (by push_cast; omega)
  obtain ⟨ca, ta, rfl, -⟩ := ha.1
  obtain ⟨cb, tb, rfl, -⟩ := hb.1
  have hf : (srcComma (ca :: ta) (cb :: tb)).length + 1
      = (ta.length + tb.length + 2) + 1 + 1 + 1 := by
    rw [hlen]; simp only [List.length_cons]; omega
  have hfin : _ProcessOps F
      (⟨[voD VOTYP_VAL vb (((ca :: ta).length : Int) + 2), voD VOTYP_VAL va 0], [OP_POP],
          [((ca :: ta).length : Int)]⟩ : Stacks D) (-1) 0
      = ⟨[voI F VOTYP_OP OP_POP ((ca :: ta).length : Int),
          voD VOTYP_VAL vb (((ca :: ta).length : Int) + 2), voD VOTYP_VAL va 0], [], []⟩ := by
    have s1 : ¬ poStop (-1) 0 (⟨[voD VOTYP_VAL vb (((ca :: ta).length : Int) + 2),
        voD VOTYP_VAL va 0], [OP_POP], [((ca :: ta).length : Int)]⟩ : Stacks D) := by
      simp [poStop, Peek, OP_POP, OP_PSH]
    unfold _ProcessOps
    rw [processOpsLoop_go F _ _ _ _ s1,
      poStep_simple F _ OP_POP OP_POP _ _ _ (by decide) (by decide) (by decide)]
    exact processOpsLoop_stop F _ _ _ _ (Or.inl (by simp))
  unfold parseScan
  rw [hf, parseInit,
    parseLoop_unroll F _ vars _ _ _ (by simp [hlen]; omega) rfl e1,
    parseLoop_unroll F _ vars _ _ _ (by simp [hlen]; omega) rfl e2,
    parseLoop_unroll F _ vars _ _ _ (by simp [hlen]; omega) rfl e3,
    parseLoop_done F _ vars _ _ (by simp [hlen])]
  unfold parseFinish
  simp only [hfin]
  simp [EQERR_NONE, LOOKFOR_BINARYOP, LOOKFOR_BRACKET, LOOKFOR_NUMBER]

/-- The closing bracket of level 1 over an operator stack that holds one `OP_POP` of that
level. -/
theorem parseClose_pop (out : List (VALOP D)) (q p e : Int) (tg : Target D) :
    parseAdvance (parseClose
        (⟨⟨out, [102], [q]⟩, LOOKFOR_BINARYOP, p, 100, EQERR_NONE, e, tg⟩ : PState D)) =
      ⟨⟨out, [102], [q]⟩, LOOKFOR_BINARYOP, p + 1, 0, EQERR_NONE, e, tg⟩ := by
  have hlb : lookBack ([102] : List Int) 100 = (0, -2, 0) := by decide
  unfold parseClose parseAdvance
  simp only [hlb]
  simp [nargArgc, NUM_NARGOP, OP_NARG, OP_BRACKETOFFSET, EQERR_NONE]

theorem parseScan_comma_br (F : Dbl D) (vars : Option (List (List Char)))
    (la lb : List Char) (va vb : D) (ha : IsNumber F la va) (hb : IsNumber F lb vb)
    (ho : ∀ rest, F.scanf_lg ('(' :: rest) = none) :
    parseScan F (srcCommaBr la lb) vars =
      ⟨⟨[voI F VOTYP_OP OP_POP (la.length + 1), voD VOTYP_VAL vb (la.length + 3),
          voD VOTYP_VAL va 1], [], []⟩,
        LOOKFOR_BINARYOP, la.length + lb.length + 4, 0, EQERR_NONE,
        la.length + lb.length + 4, ⟨[], uUnitZero F, F.lit 0, F.lit 0⟩⟩ := by
  have hlen : (srcCommaBr la lb).length = la.length + lb.length + 4 := by
    simp [srcCommaBr]; omega
  have e0 := parseStep_open F (srcCommaBr la lb) vars ⟨[], [], []⟩ 0 0 0
    ⟨[], uUnitZero F, F.lit 0, F.lit 0⟩ 0 (la ++ ',' :: ' ' :: (lb ++ [')'])) 1 100
    (ho _) le_rfl (by rw [strFrom_zero]; rfl) (by simp) (by decide)
  have e1 := parseStep_lit F (srcCommaBr la lb) vars [] [] [] 1 100 0
    ⟨[], uUnitZero F, F.lit 0, F.lit 0⟩ 0 la (',' :: ' ' :: (lb ++ [')'])) va 1 (la.length + 1)
    ha.1 (ha.2.2 _ (by simp [litStop])) (by decide)
    (by
      have h := strFrom_append ['('] (la ++ ',' :: ' ' :: (lb ++ [')'])) 1 (by simp)
      simpa [srcCommaBr] using h)
    (by simp) (by simp; omega)
  have e2 := parseStep_op F (srcCommaBr la lb) vars ⟨[voD VOTYP_VAL va 1], [], []⟩
    ⟨[voD VOTYP_VAL va 1], [], []⟩
    (la.length + 1) 100 0 ⟨[], uUnitZero F, F.lit 0, F.lit 0⟩ 0 ',' OP_PSH 102
    (' ' :: (lb ++ [')']))
    (la.length + 1) (la.length + 2) (by simp [IsOpChar]) rfl (by decide) (by decide)
    (by omega)
    (by
      have h := strFrom_append ('(' :: la) (',' :: ' ' :: (lb ++ [')'])) (la.length + 1)
        (by simp)
      simpa [srcCommaBr] using h)
    (by simp) (by omega)
    (show (102 : Int) = opComma ([] : List Int) 100 OP_PSH + 100 by decide)
    (processOpsLoop_stop F _ _ _ _ (Or.inl (by simp)))
  have e3 := parseStep_lit F (srcCommaBr la lb) vars [voD VOTYP_VAL va 1] [102]
    [la.length + 1] (la.length + 2) 100 0 ⟨[], uUnitZero F, F.lit 0, F.lit 0⟩ 1 lb [')'] vb
    (la.length + 3) (la.length + lb.length + 3) hb.1 (hb.2.2 _ (by simp [litStop]))
    (by omega)
    (by
      have h := strFrom_append ('(' :: (la ++ [','])) (' ' :: (lb ++ [')'])) (la.length + 2)
        (by simp; omega)
      simpa [srcCommaBr] using h)
    (by push_cast; omega) (by push_cast; omega)
  have e4 := (parseStep_closing F (srcCommaBr la lb) vars
    ⟨[voD VOTYP_VAL vb (la.length + 3), voD VOTYP_VAL va 1], [102], [la.length + 1]⟩
    (la.length + lb.length + 3) 100 0 ⟨[], uUnitZero F, F.lit 0, F.lit 0⟩ 0 [] (by omega)
    (by
      have h := strFrom_append ('(' :: (la ++ ',' :: ' ' :: lb)) [')']
        (la.length + lb.length + 3) (by simp; omega)
      simpa [srcCommaBr] using h)).trans
    (parseClose_pop _ _ _ _ _)
  obtain ⟨ca, ta, rfl, -⟩ := ha.1
  obtain ⟨cb, tb, rfl, -⟩ := hb.1
  have hf : (srcCommaBr (ca :: ta) (cb :: tb)).length + 1
      = (ta.length + tb.length + 2) + 1 + 1 + 1 + 1 + 1 := by
    rw [hlen]; simp only [List.length_cons]; omega
  have hfin : _ProcessOps F
      (⟨[voD VOTYP_VAL vb (((ca :: ta).length : Int) + 3), voD VOTYP_VAL va 1], [102],
          [((ca :: ta).length : Int) + 1]⟩ : Stacks D) (-1) 0
      = ⟨[voI F VOTYP_OP OP_POP (((ca :: ta).length : Int) + 1),
          voD VOTYP_VAL vb (((ca :: ta).length : Int) + 3), voD VOTYP_VAL va 1], [], []⟩ := by
    have s1 : ¬ poStop (-1) 0 (⟨[voD VOTYP_VAL vb (((ca :: ta).length : Int) + 3),
        voD VOTYP_VAL va 1], [102], [((ca :: ta).length : Int) + 1]⟩ : Stacks D) := by
      simp [poStop, Peek, OP_PSH]
    unfold _ProcessOps
    rw [processOpsLoop_go F _ _ _ _ s1,
      poStep_simple F _ 102 OP_POP _ _ _ (by decide) (by decide) (by decide)]
    exact processOpsLoop_stop F _ _ _ _ (Or.inl (by simp))
  unfold parseScan
  rw [hf, parseInit,
    parseLoop_unroll F _ vars _ _ _ (by simp [hlen]; omega) rfl e0,
    parseLoop_unroll F _ vars _ _ _ (by simp [hlen]; omega) rfl e1,
    parseLoop_unroll F _ vars _ _ _ (by simp [hlen]; omega) rfl e2,
    parseLoop_unroll F _ vars _ _ _ (by simp [hlen]; omega) rfl e3,
    parseLoop_unroll F _ vars _ _ _ (by simp [hlen]) rfl e4,
    parseLoop_done F _ vars _ _ (by simp [hlen]; omega)]
  unfold parseFinish
  simp only [hfin]
  simp [EQERR_NONE, LOOKFOR_BINARYOP, LOOKFOR_BRACKET, LOOKFOR_NUMBER]
  omega

theorem srcComma_cstr (la lb : List Char) (ha : ∀ c ∈ la, c ≠ '\x00')
    (hb : ∀ c ∈ lb, c ≠ '\x00') : cstr (srcComma la lb) = srcComma la lb := by
  apply cstr_of_noNul
  intro c hm
  simp only [srcComma, List.mem_append, List.mem_cons] at hm
  rcases hm with h | rfl | rfl | h
  · exact ha c h
  · decide
  · decide
  · exact hb c h

theorem srcCommaBr_cstr (la lb : List Char) (ha : ∀ c ∈ la, c ≠ '\x00')
    (hb : ∀ c ∈ lb, c ≠ '\x00') : cstr (srcCommaBr la lb) = srcCommaBr la lb := by
  apply cstr_of_noNul
  intro c hm
  simp only [srcCommaBr, List.mem_append, List.mem_cons, List.not_mem_nil, or_false] at hm
  rcases hm with rfl | h | rfl | rfl | h | rfl
  · decide
  · exact ha c h
  · decide
  · decide
  · exact hb c h
  · decide

/-- The token loop on the three tokens of `a, b`. -/
theorem evalWalk_comma (F : Dbl D) (this : Instance D) (dVar : Option (List D))
    (allow : Bool) (dVal0 : D) (uUnit0 : UNITBASE D) (va vb : D) (p1 p2 p3 : Int)
    (hlen : this.iEqnLength = 3)
    (hpvo : this.pvoEquation = [voD VOTYP_VAL va p1, voD VOTYP_VAL vb p2,
      voI F VOTYP_OP OP_POP p3]) :
    (evalWalk F this dVar allow dVal0 uUnit0).iError = EQERR_NONE ∧
    (evalWalk F this dVar allow dVal0 uUnit0).dsVals = [vb] ∧
    (evalWalk F this dVar allow dVal0 uUnit0).usUnits = [uUnitZero F] := by
  have t1 : evalToken F this.pvoEquation 3 allow
      ⟨[], [], 0, EQERR_NONE, dVar, dVal0, uUnit0, false⟩
      = ⟨[va], [uUnitZero F], 0, EQERR_NONE, dVar, dVal0, uUnit0, false⟩ :=
    evalToken_value F _ 3 allow _ VOTYP_VAL va p1 (by rw [hpvo]; rfl) (Or.inl rfl)
  have t2 : evalToken F this.pvoEquation 3 allow
      ⟨[va], [uUnitZero F], 1, EQERR_NONE, dVar, dVal0, uUnit0, false⟩
      = ⟨[vb, va], [uUnitZero F, uUnitZero F], 1, EQERR_NONE, dVar, dVal0, uUnit0, false⟩ :=
    evalToken_value F _ 3 allow _ VOTYP_VAL vb p2 (by rw [hpvo]; rfl) (Or.inl rfl)
  have t3 := (evalToken_binary F this.pvoEquation 3 allow
      ⟨[vb, va], [uUnitZero F, uUnitZero F], 2, EQERR_NONE, dVar, dVal0, uUnit0, false⟩
      OP_POP (by rw [hpvo]; rfl) (by rw [hpvo]; rfl) (by decide) (by decide)).trans
    (evalBinary_pop F _ va vb [] (uUnitZero F) (uUnitZero F) [] rfl rfl)
  have w1 := evalLoop_next F this.pvoEquation 3 allow 2 _ _
    ⟨[va], [uUnitZero F], 1, EQERR_NONE, dVar, dVal0, uUnit0, false⟩
    (show (0 : Int) < 3 by decide) rfl t1 rfl
  have w2 := evalLoop_next F this.pvoEquation 3 allow 1 _ _
    ⟨[vb, va], [uUnitZero F, uUnitZero F], 2, EQERR_NONE, dVar, dVal0, uUnit0, false⟩
    (show (1 : Int) < 3 by decide) rfl t2 rfl
  have w3 := evalLoop_next F this.pvoEquation 3 allow 0 _ _ _
    (show (2 : Int) < 3 by decide) rfl t3 rfl
  unfold evalWalk
  rw [hlen]
  show (evalLoop F _ 3 allow (2 + 1) _).iError = _ ∧ (evalLoop F _ 3 allow (2 + 1) _).dsVals = _
    ∧ (evalLoop F _ 3 allow (2 + 1) _).usUnits = _
  rw [w1, w2, w3]
  exact ⟨rfl, rfl, rfl⟩

/-! ## Names of units in the scan -/

theorem spanLen_run (set t rest : List Char) (ht : ∀ x ∈ t, strchr set x = true)
    (hr : ∀ x, rest.head? = some x → strchr set x = false) :
    spanLen set (t ++ rest) = t.length := by
  induction t with
  | nil =>
    cases rest with
    | nil => rfl
    | cons x r =>
      have := hr x rfl
      simp [spanLen, this]
  | cons x xs ih =>
    have hx := ht x (List.mem_cons_self _ _)
    have := ih (fun y hy => ht y (List.mem_cons_of_mem _ hy))
    show (if strchr set x then 1 + spanLen set (xs ++ rest) else 0) = _
    rw [if_pos hx, this, List.length_cons]
    push_cast
    ring

theorem strncmpEq_differ (nm rest v : List Char) (n : Nat) (h1 : v.length ≤ n)
    (h2 : nm.length ≤ n) (hne : v ≠ nm) (hr : ∀ x, rest.head? = some x → x ∉ v) :
    strncmpEq (nm ++ rest) v n = false := by
  induction nm generalizing v n with
  | nil =>
    cases v with
    | nil => exact absurd rfl hne
    | cons y ys =>
      cases n with
      | zero => simp at h1
      | succ n =>
        cases rest with
        | nil => simp [strncmpEq]
        | cons x r =>
          have g1 := hr x rfl
          have : x ≠ y := fun e => g1 (by rw [e]; exact List.mem_cons_self _ _)
          simp [strncmpEq, this]
  | cons x xs ih =>
    cases n with
    | zero => simp at h2
    | succ n =>
      cases v with
      | nil => simp [strncmpEq]
      | cons y ys =>
        by_cases e : x = y
        · subst e
          have := ih ys n (by simpa using h1) (by simpa using h2)
            (fun k => hne (by rw [k])) (fun z hz hm => hr z hz (List.mem_cons_of_mem _ hm))
          simp [strncmpEq, this]
        · simp [strncmpEq, e]

theorem natMax_toNat (a b : Nat) : (max (a : Int) (b : Int)).toNat = max a b := by
  rw [← Nat.cast_max]
  exact Int.toNat_natCast _

/-- The lookup of a name that the table does not hold, in front of a character that occurs
in no name of the table. -/
theorem findName_none (nm rest : List Char) (names : List (List Char)) (k : Nat)
    (h : ∀ v ∈ names, v ≠ nm ∧ ∀ x, rest.head? = some x → x ∉ v) :
    findName (nm ++ rest) nm.length names k = none := by
  induction names generalizing k with
  | nil => rfl
  | cons v vs ih =>
    obtain ⟨g1, g2⟩ := h v (List.mem_cons_self _ _)
    have hm := strncmpEq_differ nm rest v (max (v.length : Int) nm.length).toNat
      (by rw [natMax_toNat]; exact le_max_left _ _)
      (by rw [natMax_toNat]; exact le_max_right _ _) g1 g2
    simp only [findName, hm, Bool.false_eq_true, if_false]
    exact ih (k + 1) (fun w hw => h w (List.mem_cons_of_mem _ hw))

/-- The lookup of a name of the table: the first entry equal to it is found. -/
theorem findName_first (nm rest : List Char) (pre post : List (List Char)) (k : Nat)
    (h : ∀ v ∈ pre, v ≠ nm ∧ ∀ x, rest.head? = some x → x ∉ v) :
    findName (nm ++ rest) nm.length (pre ++ nm :: post) k = some (k + pre.length, nm) := by
  induction pre generalizing k with
  | nil =>
    have e : (max (nm.length : Int) nm.length).toNat = nm.length := by simp
    simp only [List.nil_append, findName, e, strncmpEq_self, if_true, List.length_nil, add_zero]
  | cons v vs ih =>
    obtain ⟨g1, g2⟩ := h v (List.mem_cons_self _ _)
    have hm := strncmpEq_differ nm rest v (max (v.length : Int) nm.length).toNat
      (by rw [natMax_toNat]; exact le_max_left _ _)
      (by rw [natMax_toNat]; exact le_max_right _ _) g1 g2
    have := ih (k + 1) (fun w hw => h w (List.mem_cons_of_mem _ hw))
    rw [show k + 1 + vs.length = k + (v :: vs).length by simp only [List.length_cons]; omega]
      at this
    simp only [List.cons_append, findName, hm, Bool.false_eq_true, if_false]
    exact this

theorem validUnit_props : ∀ c ∈ EQ_VALIDUNIT,
    strchr EQ_VALIDCHAR c = true ∧ strchr EQ_VALIDSYMB c = true ∧ c ≠ ' ' ∧ c ≠ '\x00' ∧
    strchr EQ_ILLEGALCHAR c = false ∧ ¬ IsOpChar c ∧ c ≠ ')' ∧ c ≠ '#' := by
  unfold IsOpChar
  decide

/-- The blank and the solidus occur in no name of the tables of units, constants and
functions. -/
theorem tables_props :
    ∀ v ∈ CEquationSIUnitStr.take EQSI_NUMUNIT_INPUT ++ CEquationSIUnitConstStr
        ++ CEquationUnaryOpStr ++ CEquationNArgOpStr, ' ' ∉ v ∧ '/' ∉ v := by
  decide

/-- What the lookups need of the name of an input unit: it is made of letters, it is the
entry `i` of the table of units and differs from the entries before it, and it is no name of
a constant or a function. -/
theorem unitName_props : ∀ i < EQSI_NUMUNIT_INPUT,
    unitName i ≠ [] ∧ (∀ x ∈ unitName i, strchr EQ_VALIDUNIT x = true) ∧
    CEquationSIUnitStr.take EQSI_NUMUNIT_INPUT =
      (CEquationSIUnitStr.take EQSI_NUMUNIT_INPUT).take i ++ unitName i ::
        (CEquationSIUnitStr.take EQSI_NUMUNIT_INPUT).drop (i + 1) ∧
    (∀ v ∈ (CEquationSIUnitStr.take EQSI_NUMUNIT_INPUT).take i, v ≠ unitName i) ∧
    (∀ v ∈ CEquationSIUnitConstStr ++ CEquationUnaryOpStr ++ CEquationNArgOpStr,
      v ≠ unitName i) := by
  decide

theorem take_take_length (i : Nat) (h : i < EQSI_NUMUNIT_INPUT) :
    ((CEquationSIUnitStr.take EQSI_NUMUNIT_INPUT).take i).length = i := by
  rw [List.length_take]
  have : (CEquationSIUnitStr.take EQSI_NUMUNIT_INPUT).length = 26 := by decide
  rw [this]
  exact Nat.min_eq_left (by simpa [EQSI_NUMUNIT_INPUT] using Nat.le_of_lt h)

theorem sep_props (x : Char) (h : x = ' ' ∨ x = '/') :
    strchr EQ_VALIDUNIT x = false ∧ strchr EQ_VALIDSYMB x = false := by
  rcases h with rfl | rfl <;> decide

/-- The unit lookup at the name of an input unit that is followed by the end of the text, a
blank or a solidus: `_ParseEquationUnits` runs its body for that unit, without a prefix. -/
theorem ParseEquationUnits_name (F : Dbl D) (src : List Char) (pt B : Int) (st : Stacks D)
    (uLookFor : Nat) (err : Int) (i : Nat) (rest : List Char)
    (hi : i < EQSI_NUMUNIT_INPUT) (hpt : 0 ≤ pt)
    (hs : strFrom src pt = unitName i ++ rest)
    (hr : ∀ x, rest.head? = some x → x = ' ' ∨ x = '/') :
    _ParseEquationUnits F src pt B st uLookFor err =
      unitEmit F uLookFor B pt (-1) st err i (unitName i) := by
  obtain ⟨g1, g2, g3, g4, -⟩ := unitName_props i hi
  obtain ⟨c, t, hU⟩ : ∃ c t, unitName i = c :: t := by
    cases h : unitName i with
    | nil => exact absurd h g1
    | cons c t => exact ⟨c, t, rfl⟩
  have hs1 : strFrom src (pt + 1) = t ++ rest := by
    have := strFrom_add src _ pt 1 hpt hs
    rw [hU] at this
    simpa using this
  have hspan : spanLen EQ_VALIDUNIT (t ++ rest) = t.length :=
    spanLen_run EQ_VALIDUNIT t rest
      (fun x hx => g2 x (by rw [hU]; exact List.mem_cons_of_mem _ hx))
      (fun x hx => (sep_props x (hr x hx)).1)
  have hlen : (1 : Int) + (t.length : Int) = ((unitName i).length : Int) := by
    rw [hU, List.length_cons]; push_cast; ring
  have hf := findName_first (unitName i) rest
    ((CEquationSIUnitStr.take EQSI_NUMUNIT_INPUT).take i)
    ((CEquationSIUnitStr.take EQSI_NUMUNIT_INPUT).drop (i + 1)) 0
    (fun v hv => ⟨g4 v hv, fun x hx hm => by
      have hv2 : v ∈ CEquationSIUnitStr.take EQSI_NUMUNIT_INPUT ++ CEquationSIUnitConstStr
          ++ CEquationUnaryOpStr ++ CEquationNArgOpStr := by
        simp only [List.mem_append]
        exact Or.inl (Or.inl (Or.inl (List.mem_of_mem_take hv)))
      have := tables_props v hv2
      rcases hr x hx with rfl | rfl
      · exact this.1 hm
      · exact this.2 hm⟩)
  rw [← g3, take_take_length i hi, zero_add] at hf
  unfold _ParseEquationUnits
  simp only [hs, hs1, hspan, hlen]
  rw [hU] at hf ⊢
  simp only [List.cons_append] at hf ⊢
  unfold parseUnitsLoop
  simp only [hf]

/-- The body of the unit search in the state `LOOKFOR_BINARYOP`, with no bracket open, over
an operator stack that is empty or holds one `/`. -/
theorem unitEmit_binaryop (F : Dbl D) (pt : Int) (out : List (VALOP D)) (ops pos : List Int)
    (err : Int) (i : Nat) (nm : List Char) (hops : ops = [] ∨ ops = [OP_DIV]) :
    unitEmit F LOOKFOR_BINARYOP 0 pt (-1) ⟨out, ops, pos⟩ err i nm =
      ⟨nm.length, ⟨voI F VOTYP_UNIT i pt :: out, ops, pos⟩, err⟩ := by
  have h1 : _ProcessOps F (⟨out, ops, pos⟩ : Stacks D) (0 + OP_BRACKETOFFSET) 0
      = ⟨out, ops, pos⟩ := by
    rcases hops with rfl | rfl
    · exact processOpsLoop_stop F _ _ _ _ (Or.inl (by simp))
    · exact processOpsLoop_stop F _ _ _ _ (Or.inr (Or.inl (by
        simp [Peek, OP_DIV, OP_BRACKETOFFSET, OP_RELOPMIN, OP_RELOPMAX])))
  have h2 : unitPush F 0 pt i (⟨out, ops, pos⟩ : Stacks D)
      = ⟨voI F VOTYP_UNIT i pt :: out, ops, pos⟩ := by
    unfold unitPush
    rcases hops with rfl | rfl
    · exact processOpsLoop_stop F _ _ _ _ (Or.inl (by simp))
    · exact processOpsLoop_stop F _ _ _ _ (Or.inr (Or.inl (by
        simp [Peek, stripGT, OP_DIV, OP_MUL, OP_BRACKETOFFSET, OP_RELOPMIN, OP_RELOPMAX])))
  unfold unitEmit unitHang
  simp only [show ¬ (LOOKFOR_BINARYOP = LOOKFOR_NUMBER) by decide, if_false, h1,
    show ¬ ((-1 : Int) ≥ 0) by decide, false_and, h2, add_zero]

/-- The body of the unit search in the state `LOOKFOR_NUMBER` behind a `/`, with no bracket
open: the hanging unit gets the prefix token 1 in front. -/
theorem unitEmit_hanging (F : Dbl D) (pt : Int) (out : List (VALOP D)) (ops pos : List Int)
    (err : Int) (i : Nat) (nm : List Char) :
    unitEmit F LOOKFOR_NUMBER 0 pt (-1) ⟨out, OP_DIV :: ops, pos⟩ err i nm =
      ⟨nm.length,
        ⟨voI F VOTYP_UNIT i pt :: voD VOTYP_PREFIX (F.lit 1) pt :: out, OP_DIV :: ops, pos⟩,
        err⟩ := by
  have h2 : unitPush F (0 + OP_BRACKETOFFSET) pt i
      (⟨voD VOTYP_PREFIX (F.lit 1) pt :: out, OP_DIV :: ops, pos⟩ : Stacks D)
      = ⟨voI F VOTYP_UNIT i pt :: voD VOTYP_PREFIX (F.lit 1) pt :: out, OP_DIV :: ops, pos⟩ := by
    unfold unitPush
    exact processOpsLoop_stop F _ _ _ _ (Or.inr (Or.inl (by
      simp [Peek, stripGT, OP_DIV, OP_MUL, OP_BRACKETOFFSET, OP_RELOPMIN, OP_RELOPMAX])))
  unfold unitEmit unitHang
  simp only [if_true, Peek, show stripGT OP_DIV = OP_DIV by decide,
    show ¬ ((-1 : Int) ≥ 0) by decide, false_and, if_false, h2, add_zero]

/-- A round of the scan loop at the name of an input unit, after `k` blanks, in the state
`LOOKFOR_BINARYOP` with no bracket open, over an operator stack that is empty or holds one
`/`: the unit token is stored. -/
theorem parseStep_unit (F : Dbl D) (src : List Char) (vars : Option (List (List Char)))
    (out : List (VALOP D)) (ops pos : List Int) (p e : Int) (tg : Target D) (k i : Nat)
    (rest : List Char) (r q : Int)
    (hi : i < EQSI_NUMUNIT_INPUT) (hops : ops = [] ∨ ops = [OP_DIV]) (hp : 0 ≤ p)
    (hs : strFrom src p = List.replicate k ' ' ++ (unitName i ++ rest))
    (hr : ∀ x, rest.head? = some x → x = ' ' ∨ x = '/')
    (h1 : r = p + k) (h2 : q = p + k + (unitName i).length) :
    parseStep F src vars ⟨⟨out, ops, pos⟩, LOOKFOR_BINARYOP, p, 0, EQERR_NONE, e, tg⟩ =
      ⟨⟨voI F VOTYP_UNIT i r :: out, ops, pos⟩, LOOKFOR_BINARYOP, q, 0, EQERR_NONE, e, tg⟩ := by
  subst h1 h2
  obtain ⟨g1, g2, -, -, -⟩ := unitName_props i hi
  obtain ⟨c, t, hU⟩ : ∃ c t, unitName i = c :: t := by
    cases h : unitName i with
    | nil => exact absurd h g1
    | cons c t => exact ⟨c, t, rfl⟩
  have hc := validUnit_props c (strchr_mem _ _ (g2 c (by rw [hU]; exact List.mem_cons_self _ _)))
  obtain ⟨c1, c2, c3, c4, c5, c6, c7, c8⟩ := hc
  have hsk : skipBlanks (strFrom src p) p = p + k := by
    rw [hs, hU, List.cons_append, skipBlanks_replicate k c _ p c3]
  have hpk : (0 : Int) ≤ p + k := by omega
  have hsf : strFrom src (p + k) = unitName i ++ rest := strFrom_skip src p k _ hp hs
  have hsf2 : strFrom src (p + k) = c :: (t ++ rest) := by rw [hsf, hU]; rfl
  have hch : charAt src (p + k) = c := charAt_of_strFrom src (p + k) c (t ++ rest) hpk hsf2
  have hlt : p + k < src.length := lt_length_of_strFrom src (p + k) c (t ++ rest) hpk hsf2
  have hpu := ParseEquationUnits_name F src (p + k) 0 ⟨out, ops, pos⟩ LOOKFOR_BINARYOP
    EQERR_NONE i rest hi hpk hsf hr
  rw [unitEmit_binaryop F (p + k) out ops pos EQERR_NONE i _ hops] at hpu
  have hpos : ((unitName i).length : Int) > 0 := by
    rw [hU, List.length_cons]; push_cast; omega
  unfold parseStep
  simp only [hsk]
  rw [if_neg (by omega), hch, c5]
  simp only [Bool.false_eq_true, if_false]
  unfold parseToken
  have hne : ¬ (LOOKFOR_BINARYOP = LOOKFOR_NUMBER) := by decide
  simp only [hne, if_false, if_true]
  unfold parseBinaryOp
  simp only [hch]
  unfold IsOpChar at c6
  rw [if_neg c6, if_neg c7]
  unfold parseUnitOrTarget
  simp only [hpu, if_pos hpos]
  unfold parseAdvance
  simp only [EQERR_NONE, and_true]
  rw [if_neg (by omega)]

/-- A round of the scan loop at the name of an input unit, after `k` blanks, in the state
`LOOKFOR_NUMBER` behind a `/` with no bracket open and no variable list: the hanging unit is
stored behind a prefix token of value 1. -/
theorem parseStep_hang (F : Dbl D) (src : List Char)
    (out : List (VALOP D)) (ops pos : List Int) (p e : Int) (tg : Target D) (k i : Nat)
    (rest : List Char) (r q : Int)
    (hi : i < EQSI_NUMUNIT_INPUT) (hp : 0 ≤ p)
    (hs : strFrom src p = List.replicate k ' ' ++ (unitName i ++ rest))
    (hr : ∀ x, rest.head? = some x → x = ' ' ∨ x = '/')
    (h1 : r = p + k) (h2 : q = p + k + (unitName i).length) :
    parseStep F src none ⟨⟨out, OP_DIV :: ops, pos⟩, LOOKFOR_NUMBER, p, 0, EQERR_NONE, e, tg⟩ =
      ⟨⟨voI F VOTYP_UNIT i r :: voD VOTYP_PREFIX (F.lit 1) r :: out, OP_DIV :: ops, pos⟩,
        LOOKFOR_BINARYOP, q, 0, EQERR_NONE, e, tg⟩ := by
  subst h1 h2
  obtain ⟨g1, g2, -, -, g5⟩ := unitName_props i hi
  obtain ⟨c, t, hU⟩ : ∃ c t, unitName i = c :: t := by
    cases h : unitName i with
    | nil => exact absurd h g1
    | cons c t => exact ⟨c, t, rfl⟩
  have hc := validUnit_props c (strchr_mem _ _ (g2 c (by rw [hU]; exact List.mem_cons_self _ _)))
  obtain ⟨c1, c2, c3, c4, c5, c6, c7, c8⟩ := hc
  have hsk : skipBlanks (strFrom src p) p = p + k := by
    rw [hs, hU, List.cons_append, skipBlanks_replicate k c _ p c3]
  have hpk : (0 : Int) ≤ p + k := by omega
  have hsf : strFrom src (p + k) = unitName i ++ rest := strFrom_skip src p k _ hp hs
  have hsf2 : strFrom src (p + k) = c :: (t ++ rest) := by rw [hsf, hU]; rfl
  have hch : charAt src (p + k) = c := charAt_of_strFrom src (p + k) c (t ++ rest) hpk hsf2
  have hlt : p + k < src.length := lt_length_of_strFrom src (p + k) c (t ++ rest) hpk hsf2
  have hpu := ParseEquationUnits_name F src (p + k) 0 ⟨out, OP_DIV :: ops, pos⟩ LOOKFOR_NUMBER
    EQERR_NONE i rest hi hpk hsf hr
  rw [unitEmit_hanging F (p + k) out ops pos EQERR_NONE i _] at hpu
  have hpos : ((unitName i).length : Int) > 0 := by
    rw [hU, List.length_cons]; push_cast; omega
  have hs1 : strFrom src (p + k + 1) = t ++ rest := by
    have := strFrom_add src _ (p + k) 1 hpk hsf2
    simpa using this
  have hspan : spanLen EQ_VALIDSYMB (t ++ rest) = t.length :=
    spanLen_run EQ_VALIDSYMB t rest
      (fun x hx => (validUnit_props x (strchr_mem _ _
        (g2 x (by rw [hU]; exact List.mem_cons_of_mem _ hx)))).2.1)
      (fun x hx => (sep_props x (hr x hx)).2)
  have hlen : (1 : Int) + (t.length : Int) = ((unitName i).length : Int) := by
    rw [hU, List.length_cons]; push_cast; ring
  have htab : ∀ names : List (List Char),
      (∀ v ∈ names, v ∈ CEquationSIUnitConstStr ++ CEquationUnaryOpStr ++ CEquationNArgOpStr) →
      findName (unitName i ++ rest) (unitName i).length names 0 = none := by
    intro names hn
    refine findName_none _ rest names 0 (fun v hv => ⟨g5 v (hn v hv), fun x hx hm => ?_⟩)
    have hv2 : v ∈ CEquationSIUnitStr.take EQSI_NUMUNIT_INPUT ++ CEquationSIUnitConstStr
        ++ CEquationUnaryOpStr ++ CEquationNArgOpStr := by
      have := hn v hv
      simp only [List.mem_append] at this ⊢
      rcases this with (h | h) | h
      · exact Or.inl (Or.inl (Or.inr h))
      · exact Or.inl (Or.inr h)
      · exact Or.inr h
    have := tables_props v hv2
    rcases hr x hx with rfl | rfl
    · exact this.1 hm
    · exact this.2 hm
  have ht1 := htab CEquationSIUnitConstStr (fun v hv => by simp [hv])
  have ht2 := htab CEquationUnaryOpStr (fun v hv => by simp [hv])
  have ht3 := htab CEquationNArgOpStr (fun v hv => by simp [hv])
  unfold parseStep
  simp only [hsk]
  rw [if_neg (by omega), hch, c5]
  simp only [Bool.false_eq_true, if_false]
  unfold parseToken
  simp only [if_true]
  unfold parseNumber
  simp only [hch, c1, if_true]
  unfold parseIdent
  simp only [hsf, hs1, hspan, hlen, ht1, ht2, ht3, hpu, if_pos hpos]
  unfold parseAdvance
  simp only [EQERR_NONE, and_true]
  rw [if_neg (by omega)]

/-! ## Tokens the evaluator treats alike -/

theorem SameForEval_tests (a b : VALOP D) (h : SameForEval a b) :
    ((a.uTyp = VOTYP_VAL ∨ a.uTyp = VOTYP_PREFIX) = (b.uTyp = VOTYP_VAL ∨ b.uTyp = VOTYP_PREFIX)) ∧
    ((a.uTyp = VOTYP_REF) = (b.uTyp = VOTYP_REF)) ∧
    ((a.uTyp = VOTYP_UNIT) = (b.uTyp = VOTYP_UNIT)) ∧
    ((a.uTyp = VOTYP_OP) = (b.uTyp = VOTYP_OP)) ∧
    ((a.uTyp = VOTYP_NARGC) = (b.uTyp = VOTYP_NARGC)) := by
  obtain ⟨-, -, h3⟩ := h
  rcases h3 with h3 | ⟨ha, hb⟩
  · rw [h3]; exact ⟨rfl, rfl, rfl, rfl, rfl⟩
  · refine ⟨propext ⟨fun _ => hb, fun _ => ha⟩, ?_, ?_, ?_, ?_⟩ <;>
    · apply propext
      rcases ha with ha | ha <;> rcases hb with hb | hb <;> rw [ha, hb] <;> decide

theorem evalNArg_congr (F : Dbl D) (pvo pvo2 : List (VALOP D)) (len : Int) (o : Int)
    (e : EState D)
    (h : ∀ j : Nat, SameForEval (pvo.getD j (voNul F)) (pvo2.getD j (voNul F))) :
    evalNArg F pvo len o e = evalNArg F pvo2 len o e := by
  obtain ⟨-, hi, -⟩ := h (e.iThisPt + 1).toNat
  obtain ⟨-, -, -, -, h5⟩ := SameForEval_tests _ _ (h (e.iThisPt + 1).toNat)
  unfold evalNArg
  simp only [ne_eq, h5, hi]

theorem evalToken_congr (F : Dbl D) (pvo pvo2 : List (VALOP D)) (len : Int) (allow : Bool)
    (e : EState D)
    (h : ∀ j : Nat, SameForEval (pvo.getD j (voNul F)) (pvo2.getD j (voNul F))) :
    evalToken F pvo len allow e = evalToken F pvo2 len allow e := by
  obtain ⟨hd, hi, -⟩ := h e.iThisPt.toNat
  obtain ⟨h1, h2, h3, h4, -⟩ := SameForEval_tests _ _ (h e.iThisPt.toNat)
  obtain ⟨-, ki, -⟩ := h (e.iThisPt + 1).toNat
  obtain ⟨-, k2, -, -, -⟩ := SameForEval_tests _ _ (h (e.iThisPt + 1).toNat)
  unfold evalToken
  simp only [ne_eq, h1, h2, h3, h4, hd, hi, ki, k2, evalNArg_congr F pvo pvo2 len _ e h]

theorem evalLoop_congr (F : Dbl D) (pvo pvo2 : List (VALOP D)) (len : Int) (allow : Bool)
    (h : ∀ j : Nat, SameForEval (pvo.getD j (voNul F)) (pvo2.getD j (voNul F)))
    (fuel : Nat) :
    ∀ e : EState D, evalLoop F pvo len allow fuel e = evalLoop F pvo2 len allow fuel e := by
  induction fuel with
  | zero => intro e; rfl
  | succ n ih =>
    intro e
    rw [evalLoop, evalLoop, evalToken_congr F pvo pvo2 len allow e h]
    split_ifs
    · exact ih _
    · rfl

/-- Two objects whose token arrays the evaluator treats alike, with the same length and the
same target members, evaluate alike: the same state after the token loop, the same code, the
same answer and the same target members (with the unit text). -/
theorem DoEquation_congr (F : Dbl D) (I J : Instance D) (dVar : Option (List D))
    (allow derived : Bool) (dVal0 : D) (uUnit0 : UNITBASE D)
    (hl : I.iEqnLength = J.iEqnLength) (ht : I.tgt = J.tgt)
    (h : ∀ j : Nat, SameForEval (I.pvoEquation.getD j (voNul F))
      (J.pvoEquation.getD j (voNul F))) :
    evalWalk F I dVar allow dVal0 uUnit0 = evalWalk F J dVar allow dVal0 uUnit0 ∧
    (DoEquation F I dVar allow derived dVal0 uUnit0).ret
      = (DoEquation F J dVar allow derived dVal0 uUnit0).ret ∧
    (DoEquation F I dVar allow derived dVal0 uUnit0).dAns
      = (DoEquation F J dVar allow derived dVal0 uUnit0).dAns ∧
    (DoEquation F I dVar allow derived dVal0 uUnit0).this.tgt
      = (DoEquation F J dVar allow derived dVal0 uUnit0).this.tgt := by
  have hw : evalWalk F I dVar allow dVal0 uUnit0 = evalWalk F J dVar allow dVal0 uUnit0 := by
    unfold evalWalk
    rw [hl]
    exact evalLoop_congr F _ _ _ allow h _ _
  refine ⟨hw, ?_, ?_, ?_⟩
  all_goals
    unfold DoEquation
    rw [hw, hl, ht]
    dsimp only
    split_ifs <;> rfl

/-! ## C36: the hanging unit -/

theorem ProcessOps_final_div (F : Dbl D) (out : List (VALOP D)) (q : Int) :
    _ProcessOps F ⟨out, [OP_DIV], [q]⟩ (-1) 0 = ⟨voI F VOTYP_OP OP_DIV q :: out, [], []⟩ := by
  have s1 : ¬ poStop (-1) 0 (⟨out, [OP_DIV], [q]⟩ : Stacks D) := by
    simp [poStop, Peek, OP_DIV, OP_PSH]
  unfold _ProcessOps
  rw [processOpsLoop_go F _ _ _ _ s1,
    poStep_simple F _ OP_DIV OP_DIV _ _ _ (by decide) (by decide) (by decide)]
  exact processOpsLoop_stop F _ _ _ _ (Or.inl (by simp))

theorem unitName_noNul (i : Nat) (hi : i < EQSI_NUMUNIT_INPUT) :
    ∀ c ∈ unitName i, c ≠ '\x00' := by
  intro c hc
  exact (validUnit_props c (strchr_mem _ _ ((unitName_props i hi).2.1 c hc))).2.2.2.1

theorem parseScan_hang (F : Dbl D) (lv : List Char) (v : D) (i1 i2 : Nat)
    (hv : IsNumber F lv v) (h1 : i1 < EQSI_NUMUNIT_INPUT) (h2 : i2 < EQSI_NUMUNIT_INPUT) :
    parseScan F (srcHang lv i1 i2) none =
      ⟨⟨[voI F VOTYP_OP OP_DIV (lv.length + (unitName i1).length + 1),
          voI F VOTYP_UNIT i2 (lv.length + (unitName i1).length + 2),
          voD VOTYP_PREFIX (F.lit 1) (lv.length + (unitName i1).length + 2),
          voI F VOTYP_UNIT i1 (lv.length + 1), voD VOTYP_VAL v 0], [], []⟩,
        LOOKFOR_BINARYOP, lv.length + (unitName i1).length + (unitName i2).length + 2, 0,
        EQERR_NONE, lv.length + (unitName i1).length + (unitName i2).length + 2,
        ⟨[], uUnitZero F, F.lit 0, F.lit 0⟩⟩ := by
  have hlen : (srcHang lv i1 i2).length
      = lv.length + (unitName i1).length + (unitName i2).length + 2 := by
    simp [srcHang]; omega
  have n1 : 0 < (unitName i1).length := List.length_pos.mpr (unitName_props i1 h1).1
  have n2 : 0 < (unitName i2).length := List.length_pos.mpr (unitName_props i2 h2).1
  have n0 : 0 < lv.length := by
    obtain ⟨c, t, rfl, -⟩ := hv.1
    simp
  have e1 := parseStep_lit F (srcHang lv i1 i2) none [] [] [] 0 0 0
    ⟨[], uUnitZero F, F.lit 0, F.lit 0⟩ 0 lv (' ' :: (unitName i1 ++ '/' :: unitName i2)) v 0
    lv.length hv.1 (hv.2.2 _ (by simp [litStop])) le_rfl (by rw [strFrom_zero]; rfl)
    (by simp) (by simp)
  have e2 := parseStep_unit F (srcHang lv i1 i2) none [voD VOTYP_VAL v 0] [] [] lv.length 0
    ⟨[], uUnitZero F, F.lit 0, F.lit 0⟩ 1 i1 ('/' :: unitName i2) (lv.length + 1)
    (lv.length + (unitName i1).length + 1) h1 (Or.inl rfl) (by omega)
    (strFrom_append lv _ _ rfl) (by simp) (by simp) (by push_cast; omega)
  have e3 := parseStep_op F (srcHang lv i1 i2) none
    ⟨[voI F VOTYP_UNIT i1 (lv.length + 1), voD VOTYP_VAL v 0], [], []⟩ _
    (lv.length + (unitName i1).length + 1) 0 0 ⟨[], uUnitZero F, F.lit 0, F.lit 0⟩ 0 '/'
    OP_DIV OP_DIV (unitName i2) (lv.length + (unitName i1).length + 1)
    (lv.length + (unitName i1).length + 2) (by simp [IsOpChar]) rfl (by decide) (by decide)
    (by omega)
    (by
      have h := strFrom_append (lv ++ ' ' :: unitName i1) ('/' :: unitName i2)
        (lv.length + (unitName i1).length + 1) (by simp; omega)
      simpa [srcHang] using h)
    (by simp) (by omega)
    (show OP_DIV = opComma ([] : List Int) 0 OP_DIV + 0 by decide)
    (ProcessOps_empty F _ OP_DIV)
  have e4 := parseStep_hang F (srcHang lv i1 i2)
    [voI F VOTYP_UNIT i1 (lv.length + 1), voD VOTYP_VAL v 0] []
    [lv.length + (unitName i1).length + 1] (lv.length + (unitName i1).length + 2) 0
    ⟨[], uUnitZero F, F.lit 0, F.lit 0⟩ 0 i2 [] (lv.length + (unitName i1).length + 2)
    (lv.length + (unitName i1).length + (unitName i2).length + 2) h2 (by omega)
    (by
      have h := strFrom_append (lv ++ ' ' :: (unitName i1 ++ ['/'])) (unitName i2)
        (lv.length + (unitName i1).length + 2) (by simp; omega)
      simpa [srcHang] using h)
    (by simp) (by simp) (by push_cast; omega)
  obtain ⟨m, hm⟩ : ∃ m, (srcHang lv i1 i2).length + 1 = m + 1 + 1 + 1 + 1 :=
    ⟨(srcHang lv i1 i2).length - 3, by omega⟩
  unfold parseScan
  rw [hm, parseInit,
    parseLoop_unroll F _ none _ _ _ (by simp [hlen]; omega) rfl e1,
    parseLoop_unroll F _ none _ _ _ (by simp [hlen]; omega) rfl e2,
    parseLoop_unroll F _ none _ _ _ (by simp [hlen]; omega) rfl e3,
    parseLoop_unroll F _ none _ _ _ (by simp [hlen]; omega) rfl e4,
    parseLoop_done F _ none _ _ (by simp [hlen])]
  unfold parseFinish
  simp only [ProcessOps_final_div]
  simp [EQERR_NONE, LOOKFOR_BINARYOP, LOOKFOR_BRACKET, LOOKFOR_NUMBER]

theorem parseScan_hang_one (F : Dbl D) (lv : List Char) (v : D) (i1 i2 : Nat)
    (hv : IsNumber F lv v) (ho : IsNumber F ['1'] (F.lit 1))
    (h1 : i1 < EQSI_NUMUNIT_INPUT) (h2 : i2 < EQSI_NUMUNIT_INPUT) :
    parseScan F (srcHangOne lv i1 i2) none =
      ⟨⟨[voI F VOTYP_OP OP_DIV (lv.length + (unitName i1).length + 2),
          voI F VOTYP_UNIT i2 (lv.length + (unitName i1).length + 6),
          voD VOTYP_VAL (F.lit 1) (lv.length + (unitName i1).length + 4),
          voI F VOTYP_UNIT i1 (lv.length + 1), voD VOTYP_VAL v 0], [], []⟩,
        LOOKFOR_BINARYOP, lv.length + (unitName i1).length + (unitName i2).length + 6, 0,
        EQERR_NONE, lv.length + (unitName i1).length + (unitName i2).length + 6,
        ⟨[], uUnitZero F, F.lit 0, F.lit 0⟩⟩ := by
  have hlen : (srcHangOne lv i1 i2).length
      = lv.length + (unitName i1).length + (unitName i2).length + 6 := by
    simp [srcHangOne]; omega
  have n1 : 0 < (unitName i1).length := List.length_pos.mpr (unitName_props i1 h1).1
  have n2 : 0 < (unitName i2).length := List.length_pos.mpr (unitName_props i2 h2).1
  have n0 : 0 < lv.length := by
    obtain ⟨c, t, rfl, -⟩ := hv.1
    simp
  have e1 := parseStep_lit F (srcHangOne lv i1 i2) none [] [] [] 0 0 0
    ⟨[], uUnitZero F, F.lit 0, F.lit 0⟩ 0 lv
    (' ' :: (unitName i1 ++ ' ' :: '/' :: ' ' :: '1' :: ' ' :: unitName i2)) v 0
    lv.length hv.1 (hv.2.2 _ (by simp [litStop])) le_rfl (by rw [strFrom_zero]; rfl)
    (by simp) (by simp)
  have e2 := parseStep_unit F (srcHangOne lv i1 i2) none [voD VOTYP_VAL v 0] [] [] lv.length 0
    ⟨[], uUnitZero F, F.lit 0, F.lit 0⟩ 1 i1 (' ' :: '/' :: ' ' :: '1' :: ' ' :: unitName i2)
    (lv.length + 1) (lv.length + (unitName i1).length + 1) h1 (Or.inl rfl) (by omega)
    (strFrom_append lv _ _ rfl) (by simp) (by simp) (by push_cast; omega)
  have e3 := parseStep_op F (srcHangOne lv i1 i2) none
    ⟨[voI F VOTYP_UNIT i1 (lv.length + 1), voD VOTYP_VAL v 0], [], []⟩ _
    (lv.length + (unitName i1).length + 1) 0 0 ⟨[], uUnitZero F, F.lit 0, F.lit 0⟩ 1 '/'
    OP_DIV OP_DIV (' ' :: '1' :: ' ' :: unitName i2) (lv.length + (unitName i1).length + 2)
    (lv.length + (unitName i1).length + 3) (by simp [IsOpChar]) rfl (by decide) (by decide)
    (by omega)
    (by
      have h := strFrom_append (lv ++ ' ' :: unitName i1)
        (' ' :: '/' :: ' ' :: '1' :: ' ' :: unitName i2)
        (lv.length + (unitName i1).length + 1) (by simp; omega)
      simpa [srcHangOne] using h)
    (by push_cast; omega) (by push_cast; omega)
    (show OP_DIV = opComma ([] : List Int) 0 OP_DIV + 0 by decide)
    (ProcessOps_empty F _ OP_DIV)
  have e4 := parseStep_lit F (srcHangOne lv i1 i2) none
    [voI F VOTYP_UNIT i1 (lv.length + 1), voD VOTYP_VAL v 0] [OP_DIV]
    [lv.length + (unitName i1).length + 2] (lv.length + (unitName i1).length + 3) 0 0
    ⟨[], uUnitZero F, F.lit 0, F.lit 0⟩ 1 ['1'] (' ' :: unitName i2) (F.lit 1)
    (lv.length + (unitName i1).length + 4) (lv.length + (unitName i1).length + 5)
    ho.1 (ho.2.2 _ (by simp [litStop])) (by omega)
    (by
      have h := strFrom_append (lv ++ ' ' :: (unitName i1 ++ [' ', '/']))
        (' ' :: '1' :: ' ' :: unitName i2)
        (lv.length + (unitName i1).length + 3) (by simp; omega)
      simpa [srcHangOne] using h)
    (by push_cast; omega) (by simp; omega)
  have e5 := parseStep_unit F (srcHangOne lv i1 i2) none
    [voD VOTYP_VAL (F.lit 1) (lv.length + (unitName i1).length + 4),
      voI F VOTYP_UNIT i1 (lv.length + 1), voD VOTYP_VAL v 0] [OP_DIV]
    [lv.length + (unitName i1).length + 2] (lv.length + (unitName i1).length + 5) 0
    ⟨[], uUnitZero F, F.lit 0, F.lit 0⟩ 1 i2 [] (lv.length + (unitName i1).length + 6)
    (lv.length + (unitName i1).length + (unitName i2).length + 6) h2 (Or.inr rfl) (by omega)
    (by
      have h := strFrom_append (lv ++ ' ' :: (unitName i1 ++ [' ', '/', ' ', '1']))
        (' ' :: unitName i2)
        (lv.length + (unitName i1).length + 5) (by simp; omega)
      simpa [srcHangOne] using h)
    (by simp) (by push_cast; omega) (by push_cast; omega)
  obtain ⟨m, hm⟩ : ∃ m, (srcHangOne lv i1 i2).length + 1 = m + 1 + 1 + 1 + 1 + 1 :=
    ⟨(srcHangOne lv i1 i2).length - 4, by omega⟩
  unfold parseScan
  rw [hm, parseInit,
    parseLoop_unroll F _ none _ _ _ (by simp [hlen]; omega) rfl e1,
    parseLoop_unroll F _ none _ _ _ (by simp [hlen]; omega) rfl e2,
    parseLoop_unroll F _ none _ _ _ (by simp [hlen]; omega) rfl e3,
    parseLoop_unroll F _ none _ _ _ (by simp [hlen]; omega) rfl e4,
    parseLoop_unroll F _ none _ _ _ (by simp [hlen]; omega) rfl e5,
    parseLoop_done F _ none _ _ (by simp [hlen])]
  unfold parseFinish
  simp only [ProcessOps_final_div]
  simp [EQERR_NONE, LOOKFOR_BINARYOP, LOOKFOR_BRACKET, LOOKFOR_NUMBER]

theorem srcHang_cstr (lv : List Char) (i1 i2 : Nat) (hv : ∀ c ∈ lv, c ≠ '\x00')
    (h1 : i1 < EQSI_NUMUNIT_INPUT) (h2 : i2 < EQSI_NUMUNIT_INPUT) :
    cstr (srcHang lv i1 i2) = srcHang lv i1 i2 := by
  apply cstr_of_noNul
  intro c hm
  simp only [srcHang, List.mem_append, List.mem_cons] at hm
  rcases hm with h | rfl | h | rfl | h
  · exact hv c h
  · decide
  · exact unitName_noNul i1 h1 c h
  · decide
  · exact unitName_noNul i2 h2 c h

theorem srcHangOne_cstr (lv : List Char) (i1 i2 : Nat) (hv : ∀ c ∈ lv, c ≠ '\x00')
    (h1 : i1 < EQSI_NUMUNIT_INPUT) (h2 : i2 < EQSI_NUMUNIT_INPUT) :
    cstr (srcHangOne lv i1 i2) = srcHangOne lv i1 i2 := by
  apply cstr_of_noNul
  intro c hm
  simp only [srcHangOne, List.mem_append, List.mem_cons] at hm
  rcases hm with h | rfl | h | rfl | rfl | rfl | rfl | rfl | h
  · exact hv c h
  · decide
  · exact unitName_noNul i1 h1 c h
  · decide
  · decide
  · decide
  · decide
  · decide
  · exact unitName_noNul i2 h2 c h

/-- C36: the hanging unit behind a solidus.  For a numeric literal `lv` of value `v` and the
names `U1`, `U2` of two input units, on every object and without a variable list, the source
`lv U1/U2` parses with `EQERR_NONE` to the tokens `[VAL v, UNIT U1, PREFIX 1, UNIT U2, OP /]`
and the source `lv U1 / 1 U2` to `[VAL v, UNIT U1, VAL 1, UNIT U2, OP /]` (the literal `1`
being read as the value 1).  The evaluator treats the two arrays alike: the token loop ends in
the same state (value stack and stack of dimension vectors), and `DoEquation` gives the same
code, the same answer and the same target members with the unit text.  In exact arithmetic
`3 V/A` gives 3 with the unit text `Ohm` when derived units are allowed and `kg m2/A2 s3`
when they are not. -/
theorem C36_hanging_unit (F : Dbl D) (this : Instance D) (lv : List Char) (v : D)
    (i1 i2 : Nat) (dVar : Option (List D)) (tfAllowAssign tfAllowDerived : Bool) (dVal0 : D)
    (uUnit0 : UNITBASE D)
    (hv : IsNumber F lv v) (ho : IsNumber F ['1'] (F.lit 1))
    (h1 : i1 < EQSI_NUMUNIT_INPUT) (h2 : i2 < EQSI_NUMUNIT_INPUT) :
    ((ParseEquation F this (srcHang lv i1 i2) none).1 = EQERR_NONE ∧
      (ParseEquation F this (srcHang lv i1 i2) none).2.pvoEquation =
        [voD VOTYP_VAL v 0, voI F VOTYP_UNIT i1 (lv.length + 1),
          voD VOTYP_PREFIX (F.lit 1) (lv.length + (unitName i1).length + 2),
          voI F VOTYP_UNIT i2 (lv.length + (unitName i1).length + 2),
          voI F VOTYP_OP OP_DIV (lv.length + (unitName i1).length + 1)]) ∧
    ((ParseEquation F this (srcHangOne lv i1 i2) none).1 = EQERR_NONE ∧
      (ParseEquation F this (srcHangOne lv i1 i2) none).2.pvoEquation =
        [voD VOTYP_VAL v 0, voI F VOTYP_UNIT i1 (lv.length + 1),
          voD VOTYP_VAL (F.lit 1) (lv.length + (unitName i1).length + 4),
          voI F VOTYP_UNIT i2 (lv.length + (unitName i1).length + 6),
          voI F VOTYP_OP OP_DIV (lv.length + (unitName i1).length + 2)]) ∧
    (evalWalk F (ParseEquation F this (srcHang lv i1 i2) none).2 dVar tfAllowAssign dVal0 uUnit0
        = evalWalk F (ParseEquation F this (srcHangOne lv i1 i2) none).2 dVar tfAllowAssign
            dVal0 uUnit0 ∧
      (DoEquation F (ParseEquation F this (srcHang lv i1 i2) none).2 dVar tfAllowAssign
          tfAllowDerived dVal0 uUnit0).ret
        = (DoEquation F (ParseEquation F this (srcHangOne lv i1 i2) none).2 dVar tfAllowAssign
            tfAllowDerived dVal0 uUnit0).ret ∧
      (DoEquation F (ParseEquation F this (srcHang lv i1 i2) none).2 dVar tfAllowAssign
          tfAllowDerived dVal0 uUnit0).dAns
        = (DoEquation F (ParseEquation F this (srcHangOne lv i1 i2) none).2 dVar tfAllowAssign
            tfAllowDerived dVal0 uUnit0).dAns ∧
      (DoEquation F (ParseEquation F this (srcHang lv i1 i2) none).2 dVar tfAllowAssign
          tfAllowDerived dVal0 uUnit0).this.tgt
        = (DoEquation F (ParseEquation F this (srcHangOne lv i1 i2) none).2 dVar tfAllowAssign
            tfAllowDerived dVal0 uUnit0).this.tgt) ∧
    (srcHang ['3'] 13 2 = "3 V/A".toList ∧ srcHangOne ['3'] 13 2 = "3 V / 1 A".toList ∧
      (DoEquation Q (ParseEquation Q fresh "3 V/A".toList none).2 none false true
        0 []).ret = EQERR_NONE ∧
      (DoEquation Q (ParseEquation Q fresh "3 V/A".toList none).2 none false true
        0 []).dAns = some 3 ∧
      (DoEquation Q (ParseEquation Q fresh "3 V/A".toList none).2 none false true
        0 []).this.tgt.m_szUnit = "Ohm".toList ∧
      (DoEquation Q (ParseEquation Q fresh "3 V/A".toList none).2 none false false
        0 []).this.tgt.m_szUnit = "kg m2/A2 s3".toList) := by
  have hp1 : ∀ t ∈ [voI F VOTYP_OP OP_DIV ((lv.length : Int) + (unitName i1).length + 1),
      voI F VOTYP_UNIT i2 (lv.length + (unitName i1).length + 2),
      voD VOTYP_PREFIX (F.lit 1) (lv.length + (unitName i1).length + 2),
      voI F VOTYP_UNIT i1 (lv.length + 1), voD VOTYP_VAL v 0], isPSH t = false := by
    intro t ht
    simp only [List.mem_cons, List.mem_singleton, List.not_mem_nil, or_false] at ht
    rcases ht with rfl | rfl | rfl | rfl | rfl <;>
      simp [isPSH, voI, voD, VOTYP_VAL, VOTYP_OP, VOTYP_UNIT, VOTYP_PREFIX, OP_DIV, OP_PSH]
  have hp2 : ∀ t ∈ [voI F VOTYP_OP OP_DIV ((lv.length : Int) + (unitName i1).length + 2),
      voI F VOTYP_UNIT i2 (lv.length + (unitName i1).length + 6),
      voD VOTYP_VAL (F.lit 1) (lv.length + (unitName i1).length + 4),
      voI F VOTYP_UNIT i1 (lv.length + 1), voD VOTYP_VAL v 0], isPSH t = false := by
    intro t ht
    simp only [List.mem_cons, List.mem_singleton, List.not_mem_nil, or_false] at ht
    rcases ht with rfl | rfl | rfl | rfl | rfl <;>
      simp [isPSH, voI, voD, VOTYP_VAL, VOTYP_OP, VOTYP_UNIT, OP_DIV, OP_PSH]
  have a := ParseEquation_tokens F this (srcHang lv i1 i2) none _ _ _
    (srcHang_cstr lv i1 i2 hv.2.1 h1 h2) (parseScan_hang F lv v i1 i2 hv h1 h2) rfl rfl hp1
  have b := ParseEquation_tokens F this (srcHangOne lv i1 i2) none _ _ _
    (srcHangOne_cstr lv i1 i2 hv.2.1 h1 h2) (parseScan_hang_one F lv v i1 i2 hv ho h1 h2)
    rfl rfl hp2
  have qa : (ParseEquation F this (srcHang lv i1 i2) none).2.pvoEquation =
      [voD VOTYP_VAL v 0, voI F VOTYP_UNIT i1 (lv.length + 1),
        voD VOTYP_PREFIX (F.lit 1) (lv.length + (unitName i1).length + 2),
        voI F VOTYP_UNIT i2 (lv.length + (unitName i1).length + 2),
        voI F VOTYP_OP OP_DIV (lv.length + (unitName i1).length + 1)] := by
    rw [a.2.1]; rfl
  have qb : (ParseEquation F this (srcHangOne lv i1 i2) none).2.pvoEquation =
      [voD VOTYP_VAL v 0, voI F VOTYP_UNIT i1 (lv.length + 1),
        voD VOTYP_VAL (F.lit 1) (lv.length + (unitName i1).length + 4),
        voI F VOTYP_UNIT i2 (lv.length + (unitName i1).length + 6),
        voI F VOTYP_OP OP_DIV (lv.length + (unitName i1).length + 2)] := by
    rw [b.2.1]; rfl
  refine ⟨⟨a.1, qa⟩, ⟨b.1, qb⟩, ?_, ?_⟩
  · refine DoEquation_congr F _ _ dVar tfAllowAssign tfAllowDerived dVal0 uUnit0
      (by rw [a.2.2.1, b.2.2.1]; rfl) (by rw [a.2.2.2, b.2.2.2]) ?_
    intro j
    rw [qa, qb]
    rcases j with _ | _ | _ | _ | _ | j
    · exact ⟨rfl, rfl, Or.inl rfl⟩
    · exact ⟨rfl, rfl, Or.inl rfl⟩
    · exact ⟨rfl, rfl, Or.inr ⟨Or.inr rfl, Or.inl rfl⟩⟩
    · exact ⟨rfl, rfl, Or.inl rfl⟩
    · exact ⟨rfl, rfl, Or.inl rfl⟩
    · exact ⟨rfl, rfl, Or.inl rfl⟩
  · decide!

theorem C36_witness :
    IsNumber Q ['3'] 3 ∧ IsNumber Q ['1'] (Q.lit 1) ∧
    (ParseEquation Q fresh (srcHang ['3'] 13 2) none).1 = EQERR_NONE ∧
    (DoEquation Q (ParseEquation Q fresh (srcHang ['3'] 13 2) none).2 none false false
        0 []).dAns
      = (DoEquation Q (ParseEquation Q fresh (srcHangOne ['3'] 13 2) none).2 none false false
          0 []).dAns :=
  ⟨IsNumber_Q_123.2.2, IsNumber_Q_123.1,
    (C36_hanging_unit Q fresh ['3'] 3 13 2 none false false 0 [] IsNumber_Q_123.2.2
      IsNumber_Q_123.1 (by decide) (by decide)).1.1,
    (C36_hanging_unit Q fresh ['3'] 3 13 2 none false false 0 [] IsNumber_Q_123.2.2
      IsNumber_Q_123.1 (by decide) (by decide)).2.2.1.2.2.1⟩

/-! ## C35: base units only -/

theorem foldl_filterMap_eq {α β γ : Type} (f : α → Option β) (g : γ → β → γ) (l : List α) :
    ∀ s : γ, (l.filterMap f).foldl g s
      = l.foldl (fun s x => match f x with | some y => g s y | none => s) s := by
  induction l with
  | nil => intro s; rfl
  | cons x xs ih =>
    intro s
    rw [List.filterMap_cons, List.foldl_cons]
    cases h : f x with
    | none => simp only [h]; exact ih s
    | some y => simp only [h, List.foldl_cons]; exact ih _

/-- The loop "Base" appends its entries one by one. -/
theorem fmtBase_items (F : Dbl D) (ddUnit : List D) (k : Int) (sz : List Char) :
    fmtBase F ddUnit k sz = (fmtBaseItems F ddUnit k).foldl (fmtBaseAppend F) sz := by
  unfold fmtBase fmtBaseItems
  rw [foldl_filterMap_eq]
  congr 1
  funext s iBase
  by_cases h : F.le (F.mul (F.lit k) (ddUnit.getD iBase (F.lit 0))) (F.lit 0) = true
  · simp only [h, if_true]
  · simp only [h, if_false, fmtBaseAppend]
    rfl

theorem fmtLine_items (F : Dbl D) (m : UnitMin D) (ddUnit : List D) (k : Int)
    (sz : List Char) :
    fmtLine F m ddUnit k sz
      = (fmtBaseItems F ddUnit k).foldl (fmtBaseAppend F) (fmtMatched F m k sz) := by
  unfold fmtLine
  rw [fmtBase_items]
  rfl

theorem AnswerUnitString_items (F : Dbl D) (m_szUnit : List Char) (puUnit : UNITBASE D)
    (tfAllowDerived : Bool) :
    _AnswerUnitString F m_szUnit puUnit tfAllowDerived =
      if (answerLines F m_szUnit puUnit tfAllowDerived).getLast? = some '/' then
        (answerLines F m_szUnit puUnit tfAllowDerived).dropLast
      else answerLines F m_szUnit puUnit tfAllowDerived := by
  unfold _AnswerUnitString answerLines
  simp only [fmtLine_items]
  rfl

theorem unitSearch_cases (F : Dbl D) (ddUnit : List D) (der : Bool) :
    (unitSearch F ddUnit der = unitInit F ∧
      ∀ q ∈ unitPairs der,
        (unitValid F ddUnit q && unitKeep F (unitCand F ddUnit q) (unitInit F)) = false) ∨
    (∃ p ∈ unitPairs der, unitValid F ddUnit p = true ∧
      unitSearch F ddUnit der = unitCand F ddUnit p) := by
  rw [unitSearch_flat]
  rcases foldl_last_change
      (fun (p : Nat × Nat) (m : UnitMin D) =>
        unitValid F ddUnit p && unitKeep F (unitCand F ddUnit p) m)
      (fun p => unitCand F ddUnit p) (fun m p => unitTry F ddUnit p.1 m p.2)
      (fun m p => unitTry_eq F ddUnit p m) (unitPairs der) (unitInit F)
    with ⟨h1, h2⟩ | ⟨pre, p, post, h1, h2, h3, -⟩
  · left; exact ⟨h1, h2⟩
  · right
    refine ⟨p, by rw [h1]; simp, ?_, h3⟩
    have := h2
    simp only [Bool.and_eq_true] at this
    exact this.1

theorem unitPairs_base (p : Nat × Nat) (h : p ∈ unitPairs false) :
    p.1 < EQSI_NUMUNIT_BASE ∧ p.2 < EQSI_NUMUNIT_BASE := by
  unfold unitPairs at h
  simp only [Bool.false_eq_true, if_false, List.mem_flatMap, List.mem_map, List.mem_range] at h
  obtain ⟨i, hi, j, hj, rfl⟩ := h
  exact ⟨hi, hj⟩

/-- Without derived units the search ends with the index -1 or the index of a base unit. -/
theorem unitSearch_base (F : Dbl D) (ddUnit : List D) :
    (unitSearch F ddUnit false).indxUnitMin < EQSI_NUMUNIT_BASE := by
  rcases unitSearch_cases F ddUnit false with ⟨h, -⟩ | ⟨p, hp, -, h⟩
  · rw [h]
    show (-1 : Int) < 7
    decide
  · rw [h]
    have := (unitPairs_base p hp).1
    show ((p.1 : Nat) : Int) < ((EQSI_NUMUNIT_BASE : Nat) : Int)
    exact_mod_cast this

theorem OnlyBase_append (F : Dbl D) (s t : List Char) (it : UnitItem D)
    (hn : it.iName < EQSI_NUMUNIT_BASE) (h : OnlyBase F s t) :
    OnlyBase F s (fmtBaseAppend F t it) := by
  unfold fmtBaseAppend
  dsimp only
  generalize hx : (if t.length > 0 ∧ t.getLast? ≠ some '/' then t ++ [' '] else t) = t1
  have h1 : OnlyBase F s t1 := by
    rw [← hx]
    split_ifs
    · exact OnlyBase.blank t h
    · exact h
  have h2 := OnlyBase.name _ it.iName hn h1
  by_cases c : (!F.eq it.dPwr (F.lit 1)) = true
  · rw [if_pos c]; exact OnlyBase.number _ _ h2
  · rw [if_neg c]; exact h2

theorem OnlyBase_fold (F : Dbl D) (s : List Char) (items : List (UnitItem D))
    (hn : ∀ it ∈ items, it.iName < EQSI_NUMUNIT_BASE) :
    ∀ t, OnlyBase F s t → OnlyBase F s (items.foldl (fmtBaseAppend F) t) := by
  induction items with
  | nil => intro t h; exact h
  | cons it rest ih =>
    intro t h
    rw [List.foldl_cons]
    exact ih (fun x hx => hn x (List.mem_cons_of_mem _ hx)) _
      (OnlyBase_append F s t it (hn it (List.mem_cons_self _ _)) h)

theorem fmtBaseItems_names (F : Dbl D) (ddUnit : List D) (k : Int) :
    ∀ it ∈ fmtBaseItems F ddUnit k, it.iName < EQSI_NUMUNIT_BASE := by
  intro it hit
  unfold fmtBaseItems at hit
  rw [List.mem_filterMap] at hit
  obtain ⟨i, hi, h⟩ := hit
  split_ifs at h
  simp only [Option.some.injEq] at h
  rw [← h]
  exact List.mem_range.mp hi

theorem OnlyBase_matched (F : Dbl D) (s t : List Char) (m : UnitMin D) (k : Int)
    (hm : m.indxUnitMin < EQSI_NUMUNIT_BASE) (h : OnlyBase F s t) :
    OnlyBase F s (fmtMatched F m k t) := by
  unfold fmtMatched
  dsimp only
  generalize hx : (if k = -1 then t ++ ['/'] else t) = t1
  have h1 : OnlyBase F s t1 := by
    rw [← hx]
    split_ifs
    · exact OnlyBase.solidus t h
    · exact h
  by_cases c : m.indxUnitMin ≥ 0 ∧ dSIGN F m.dSclUnitMin = k
  · rw [if_pos c]
    have hn : m.indxUnitMin.toNat < EQSI_NUMUNIT_BASE := by
      have := c.1
      have h7 : m.indxUnitMin < 7 := hm
      show m.indxUnitMin.toNat < 7
      omega
    have h2 := OnlyBase.name _ _ hn h1
    by_cases c2 : (!F.eq (F.fabs m.dSclUnitMin) (F.lit 1)) = true
    · rw [if_pos c2]; exact OnlyBase.number _ _ h2
    · rw [if_neg c2]; exact h2
  · rw [if_neg c]; exact h1

/-- Without derived units the text is made of names of base units only. -/
theorem AnswerUnitString_onlyBase (F : Dbl D) (m_szUnit : List Char) (puUnit : UNITBASE D) :
    OnlyBase F m_szUnit (_AnswerUnitString F m_szUnit puUnit false) := by
  have hm := unitSearch_base F (unitCopy F puUnit)
  have hl : OnlyBase F m_szUnit (answerLines F m_szUnit puUnit false) := by
    unfold answerLines
    exact OnlyBase_fold F _ _ (fmtBaseItems_names F _ _) _
      (OnlyBase_matched F _ _ _ _ hm
        (OnlyBase_fold F _ _ (fmtBaseItems_names F _ _) _
          (OnlyBase_matched F _ _ _ _ hm OnlyBase.start)))
  rw [AnswerUnitString_items]
  split_ifs with hc
  · exact OnlyBase.cut _ hc hl
  · exact hl

theorem unitScore_count (F : Dbl D) (ddUnit : List D) (iUnit iBase : Nat) (dScl : D) :
    (unitScore F ddUnit iUnit iBase dScl).1 ≤ 8 := by
  have key : ∀ (l : List Nat) (acc : Int × D),
      (l.foldl
        (fun (acc : Int × D) k =>
          if k = iBase then acc
          else
            let dVal := F.sub (ddUnit.getD k (F.lit 0)) (F.mul dScl (SIUnit F iUnit k))
            if F.eq dVal (F.lit 0) then acc
            else
              let dPwr1 := F.add acc.2 (F.ceil (dABS F dVal))
              (acc.1 + 1,
                if !(F.eq (F.sub dVal (F.floor dVal)) (F.lit 0)) then F.add dPwr1 (F.lit 10)
                else dPwr1)) acc).1 ≤ acc.1 + l.length := by
    intro l
    induction l with
    | nil => intro acc; simp
    | cons k t ih =>
      intro acc
      rw [List.foldl_cons]
      refine le_trans (ih _) ?_
      simp only [List.length_cons]
      push_cast
      split_ifs <;> simp <;> omega
  have := key (List.range EQSI_NUMUNIT_BASE) (1, dABS F dScl)
  unfold unitScore
  simp only [List.length_range] at this
  exact le_trans this (by decide)

theorem unitCopy_getD (F : Dbl D) (u : UNITBASE D) (a : Nat) (ha : a < EQSI_NUMUNIT_BASE) :
    (unitCopy F u).getD a (F.lit 0) = u.getD a (F.lit 0) := by
  unfold unitCopy
  rw [List.getD_eq_getElem?_getD, List.getElem?_map, List.getElem?_range ha]
  rfl

theorem itemsPower_append (x y : List (UnitItem ℚ)) (a : Nat) :
    itemsPower (x ++ y) a = itemsPower x a + itemsPower y a := by
  unfold itemsPower
  rw [List.filter_append, List.map_append, List.sum_append]

theorem itemsPower_filterMap (f : Nat → Option (UnitItem ℚ))
    (hf : ∀ x it, f x = some it → it.iName = x) (l : List Nat) (hl : l.Nodup) (a : Nat) :
    itemsPower (l.filterMap f) a =
      if a ∈ l then (match f a with | some it => (it.k : ℚ) * it.dPwr | none => 0) else 0 := by
  induction l with
  | nil => simp [itemsPower]
  | cons x xs ih =>
    have hx : x ∉ xs := (List.nodup_cons.mp hl).1
    have ih2 := ih (List.nodup_cons.mp hl).2
    rw [List.filterMap_cons]
    cases h : f x with
    | none =>
      simp only [h]
      rw [ih2]
      by_cases e : a = x
      · subst e
        simp [hx, h]
      · simp [e]
    | some it =>
      simp only [h]
      have hn := hf x it h
      have e1 : itemsPower (it :: xs.filterMap f) a
          = (if it.iName = a then (it.k : ℚ) * it.dPwr else 0) + itemsPower (xs.filterMap f) a := by
        have := itemsPower_append [it] (xs.filterMap f) a
        simp only [List.singleton_append] at this
        rw [this]
        congr 1
        unfold itemsPower
        by_cases c : it.iName = a
        · simp [c]
        · simp [c]
      rw [e1, ih2, hn]
      by_cases e : a = x
      · subst e
        simp [hx, h]
      · have e2 : ¬ x = a := fun k => e k.symm
        simp [e, e2]

theorem unitResidual_getD (F : Dbl D) (u0 : List D) (m : UnitMin D) (a : Nat)
    (ha : a < EQSI_NUMUNIT_BASE) (hm : m.indxUnitMin ≥ 0) :
    (unitResidual F u0 m).getD a (F.lit 0) =
      F.sub (u0.getD a (F.lit 0)) (F.mul m.dSclUnitMin (SIUnit F m.indxUnitMin a)) := by
  unfold unitResidual
  rw [if_pos hm, List.getD_eq_getElem?_getD, List.getElem?_map, List.getElem?_range ha]
  rfl

/-! ## Symbolic execution of the scan loop -/

theorem scanEnd_fuel (F : Dbl D) (sz : List Char) (vars : Option (List (List Char))) (n : Nat) :
    parseLoop F (cstr sz) vars ((cstr sz).length + 1 + n) (parseInit F) = scanEnd F sz vars := by
  have hend : ¬ ((scanEnd F sz vars).iThisPt < (cstr sz).length ∧
      (scanEnd F sz vars).iError = EQERR_NONE) := by
    rintro ⟨h1, h2⟩
    have := ((scanEnd_good F sz vars).2 h2).2
    omega
  rw [parseLoop_add]
  exact parseLoop_done F _ _ n _ hend

/-- A state of the scan in which the loop test fails is the state the scan ends in. -/
theorem scanEnd_of_scanAfter (F : Dbl D) (sz : List Char) (vars : Option (List (List Char)))
    (n : Nat) (t : PState D) (h : scanAfter F sz vars n = t)
    (hstop : ¬ (t.iThisPt < (cstr sz).length ∧ t.iError = EQERR_NONE)) :
    scanEnd F sz vars = t := by
  rw [← scanEnd_fuel F sz vars n, Nat.add_comm, parseLoop_add]
  unfold scanAfter at h
  rw [h]
  exact parseLoop_done F _ _ _ _ hstop

/-- One more round of the scan. -/
theorem scanAfter_succ (F : Dbl D) (sz : List Char) (vars : Option (List (List Char)))
    (n : Nat) (s t : PState D) (h : scanAfter F sz vars n = s)
    (h1 : s.iThisPt < (cstr sz).length) (h2 : s.iError = EQERR_NONE)
    (h3 : parseStep F (cstr sz) vars s = t) : scanAfter F sz vars (n + 1) = t := by
  unfold scanAfter at h ⊢
  rw [parseLoop_add, h, parseLoop_unroll F _ vars 0 s t h1 h2 h3]
  rfl

theorem parseFinish_location (F : Dbl D) (s : PState D) :
    (parseFinish F s).iErrorLocation = s.iThisPt := by
  unfold parseFinish
  split_ifs <;> rfl

/-- The code and the location `ParseEquation` returns for a scan that ends in the state `t`
when the block "Parse completion errors" leaves an error. -/
theorem ParseEquation_error (F : Dbl D) (this : Instance D) (sz : List Char)
    (vars : Option (List (List Char))) (t : PState D) (code : Int)
    (hend : scanEnd F sz vars = t) (hc : (parseFinish F t).iError = code)
    (hne : code ≠ EQERR_NONE) :
    (ParseEquation F this sz vars).1 = code ∧ (ParseEquation F this sz vars).2.iError = code ∧
    (ParseEquation F this sz vars).2.iErrorLocation = t.iThisPt := by
  have hs : parseScan F (cstr sz) vars = parseFinish F t := by
    rw [← hend]
    rfl
  have hne2 : (parseFinish F t).iError ≠ EQERR_NONE := by rw [hc]; exact hne
  unfold ParseEquation
  simp only [hs]
  rw [if_pos hne2]
  exact ⟨hc, hc, parseFinish_location F t⟩

theorem binaryOpText_props : ∀ x ∈ binaryOpText, ∀ b : Nat,
    (∃ c t, x.1 = c :: t ∧ IsOpChar c) ∧
    scanBinaryOp (x.1 ++ List.replicate b ' ') = (x.2, (x.1.length : Int)) ∧ x.2 ≠ OP_NULL ∧
    (x.1.length = 1 ∨ x.1.length = 2) := by
  intro x hx b
  simp only [binaryOpText, List.mem_cons, List.mem_singleton, List.not_mem_nil, or_false] at hx
  rcases hx with rfl | rfl | rfl | rfl | rfl | rfl | rfl | rfl | rfl | rfl | rfl | rfl | rfl
    | rfl | rfl | rfl | rfl <;>
  · refine ⟨⟨_, _, rfl, by simp [IsOpChar]⟩, ?_, by decide, by decide⟩
    cases b with
    | zero => rfl
    | succ b => rfl

/-- A round of the scan loop at a built-in operator, a comma or an assignment, after `k`
blanks, in the state `LOOKFOR_BINARYOP`. -/
theorem parseStep_oper (F : Dbl D) (src : List Char) (vars : Option (List (List Char)))
    (st st2 : Stacks D) (p B e : Int) (tg : Target D) (k : Nat) (c : Char) (op iop w : Int)
    (rest : List Char) (r q : Int) (hc : IsOpChar c)
    (hsc : scanBinaryOp (c :: rest) = (op, w)) (g1 : ¬ op = OP_NULL) (hw : 0 < w)
    (g2 : op = OP_SET → (Peek (voNul F) st.vosParsEqn).uTyp = VOTYP_REF)
    (hp : 0 ≤ p) (hs : strFrom src p = List.replicate k ' ' ++ c :: rest)
    (h1 : r = p + k) (h2 : q = p + k + w)
    (h3 : iop = opComma (opAssign F st op).isOps B op + B)
    (h4 : _ProcessOps F (opAssign F st op) iop B = st2) :
    parseStep F src vars ⟨st, LOOKFOR_BINARYOP, p, B, EQERR_NONE, e, tg⟩ =
      ⟨⟨st2.vosParsEqn, iop :: st2.isOps, r :: st2.isPos⟩, LOOKFOR_NUMBER, q, B, EQERR_NONE, e,
        tg⟩ := by
  subst h1 h2 h3 h4
  obtain ⟨h5, h2⟩ := opChar_props c hc
  have hsk : skipBlanks (strFrom src p) p = p + k := by
    rw [hs, skipBlanks_replicate k c _ p h5]
  have hsf : strFrom src (p + k) = c :: rest := strFrom_skip src p k _ hp hs
  have hpk : (0 : Int) ≤ p + k := by omega
  have hch : charAt src (p + k) = c := charAt_of_strFrom src (p + k) c rest hpk hsf
  have hlt : p + k < src.length := lt_length_of_strFrom src (p + k) c rest hpk hsf
  have g3 : ¬ (op = OP_SET ∧ (Peek (voNul F) st.vosParsEqn).uTyp ≠ VOTYP_REF) := by
    rintro ⟨a, b⟩
    exact b (g2 a)
  unfold parseStep
  simp only [hsk]
  rw [if_neg (by omega), hch, h2]
  simp only [Bool.false_eq_true, if_false]
  unfold parseToken
  have hne : ¬ (LOOKFOR_BINARYOP = LOOKFOR_NUMBER) := by decide
  simp only [hne, if_false, if_true]
  unfold parseBinaryOp
  simp only [hch]
  unfold IsOpChar at hc
  rw [if_pos hc]
  unfold parseOperator
  simp only [hsf, hsc, if_neg g1, if_neg g3]
  unfold parseAdvance
  have hw0 : ¬ (w = 0) := by omega
  simp [EQERR_NONE, hw0]

/-- In every state without an error that the scan loop passes through, the mode is one of the
three modes, the bracket offset is not negative and the scan index is not negative. -/
theorem parseLoop_nonneg (F : Dbl D) (src : List Char) (vars : Option (List (List Char)))
    (fuel : Nat) :
    ∀ s : PState D,
      (s.uLookFor = LOOKFOR_NUMBER ∨ s.uLookFor = LOOKFOR_BINARYOP ∨
        s.uLookFor = LOOKFOR_BRACKET) →
      (s.iError = EQERR_NONE → 0 ≤ s.iBrktOff ∧ 0 ≤ s.iThisPt) →
      ((parseLoop F src vars fuel s).uLookFor = LOOKFOR_NUMBER ∨
        (parseLoop F src vars fuel s).uLookFor = LOOKFOR_BINARYOP ∨
        (parseLoop F src vars fuel s).uLookFor = LOOKFOR_BRACKET) ∧
      ((parseLoop F src vars fuel s).iError = EQERR_NONE →
        0 ≤ (parseLoop F src vars fuel s).iBrktOff ∧
        0 ≤ (parseLoop F src vars fuel s).iThisPt) := by
  induction fuel with
  | zero => intro s hL hB; exact ⟨hL, hB⟩
  | succ n ih =>
    intro s hL hB
    unfold parseLoop
    split_ifs with hc
    · obtain ⟨g1, g2⟩ := parseStep_good F src vars s hL (hB hc.2).1 hc.1
      exact ih _ g1 (fun he => ⟨(g2 he).1, by have := (g2 he).2; have := (hB hc.2).2; omega⟩)
    · exact ⟨hL, hB⟩

theorem scanAfter_nonneg (F : Dbl D) (sz : List Char) (vars : Option (List (List Char)))
    (n : Nat) (h : (scanAfter F sz vars n).iError = EQERR_NONE) :
    0 ≤ (scanAfter F sz vars n).iBrktOff ∧ 0 ≤ (scanAfter F sz vars n).iThisPt :=
  (parseLoop_nonneg F (cstr sz) vars n (parseInit F) (Or.inl rfl)
    (fun _ => ⟨le_rfl, le_rfl⟩)).2 h

theorem strFrom_length (s x : List Char) (p : Int) (hp : 0 ≤ p) (h : strFrom s p = x)
    (hx : x ≠ []) : (s.length : Int) = p + x.length := by
  unfold strFrom at h
  have h1 : x.length = s.length - p.toNat := by rw [← h, List.length_drop]
  have h2 : p.toNat < s.length := by
    by_contra hn
    rw [List.drop_of_length_le (by omega)] at h
    exact hx h.symm
  omega

/-- The scan of a source that ends, after a state in which an operator is expected, with an
operator and blanks: the loop ends at the end of the source, in the mode `LOOKFOR_NUMBER`. -/
theorem scanEnd_open (F : Dbl D) (sz : List Char) (vars : Option (List (List Char)))
    (n : Nat) (st : Stacks D) (p B e : Int) (tg : Target D) (a b : Nat) (t : List Char)
    (op : Int)
    (hreach : scanAfter F sz vars n = ⟨st, LOOKFOR_BINARYOP, p, B, EQERR_NONE, e, tg⟩)
    (hp : 0 ≤ p) (ht : (t, op) ∈ binaryOpText)
    (hset : op = OP_SET → (Peek (voNul F) st.vosParsEqn).uTyp = VOTYP_REF)
    (hrest : strFrom (cstr sz) p = List.replicate a ' ' ++ (t ++ List.replicate b ' ')) :
    ((cstr sz).length : Int) = p + a + t.length + b ∧
    ∃ st2 : Stacks D,
      scanEnd F sz vars = ⟨st2, LOOKFOR_NUMBER, (cstr sz).length, B, EQERR_NONE, e, tg⟩ := by
  obtain ⟨⟨c, t', ht1, hc⟩, hsc, hnull, hlen⟩ := binaryOpText_props (t, op) ht b
  simp only at ht1 hsc hnull hlen
  subst ht1
  have hrest2 : strFrom (cstr sz) p = List.replicate a ' ' ++ c :: (t' ++ List.replicate b ' ') := by
    rw [hrest]; rfl
  have hL : ((cstr sz).length : Int) = p + a + (c :: t').length + b := by
    have := strFrom_length (cstr sz) _ p hp hrest2 (by simp)
    rw [this]
    simp only [List.length_append, List.length_replicate, List.length_cons]
    push_cast
    omega
  have hw : (0 : Int) < ((c :: t').length : Int) := by
    simp only [List.length_cons]; push_cast; omega
  have hstep := parseStep_oper F (cstr sz) vars st _ p B e tg a c op _ _ _ _ _ hc hsc hnull hw
    hset hp hrest2 rfl rfl rfl rfl
  have hlt : p < ((cstr sz).length : Int) := by omega
  have h1 := scanAfter_succ F sz vars n _ _ hreach hlt rfl hstep
  obtain ⟨X, hX⟩ : ∃ X : Stacks D, scanAfter F sz vars (n + 1) =
      ⟨X, LOOKFOR_NUMBER, p + a + ((c :: t').length : Int), B, EQERR_NONE, e, tg⟩ := ⟨_, h1⟩
  refine ⟨hL, X, ?_⟩
  by_cases hb : b = 0
  · subst hb
    simp only [CharP.cast_eq_zero, add_zero] at hL
    rw [scanEnd_of_scanAfter F sz vars (n + 1) _ hX (by
      simp only [not_and]
      intro hh
      exfalso
      omega)]
    congr 1
    omega
  · have hq : (0 : Int) ≤ p + a + ((c :: t').length : Int) := by omega
    have hsf : strFrom (cstr sz) (p + a + ((c :: t').length : Int)) = List.replicate b ' ' := by
      have := strFrom_add (cstr sz) _ p (a + (c :: t').length) hp hrest
      have e1 : p + ((a + (c :: t').length : Nat) : Int) = p + a + ((c :: t').length : Int) := by
        push_cast; omega
      rw [e1] at this
      rw [this, List.drop_append_eq_append_drop, List.drop_append_eq_append_drop]
      simp
    have hstep2 : parseStep F (cstr sz) vars
        ⟨X, LOOKFOR_NUMBER, p + a + ((c :: t').length : Int), B, EQERR_NONE, e, tg⟩ =
        ⟨X, LOOKFOR_NUMBER, (cstr sz).length, B, EQERR_NONE, e, tg⟩ := by
      unfold parseStep
      simp only [hsf, skipBlanks_blanks]
      rw [if_pos (by omega)]
      congr 1
      omega
    have h2 := scanAfter_succ F sz vars (n + 1) _ _ hX (by simp only; omega) rfl hstep2
    exact scanEnd_of_scanAfter F sz vars (n + 2) _ h2 (by simp)

/-! ## C14: a source that ends after an operator -/

/-- C14 (amended): a source that ends right after an operator fails with the location at the
end of the source.  Let the scan of any source stand, after `n` rounds, without an error in the
mode `LOOKFOR_BINARYOP`, and let the rest of the source be `a` blanks, the text of a built-in
binary operator, of the comma or of the assignment (the latter after a variable), and `b`
blanks.  Then, on every object and with every variable list, `ParseEquation` returns
`EQERR_PARSE_NUMBEREXPECTED` when no bracket is open and `EQERR_PARSE_BRACKETSOPEN` when one is
open, and the location recorded is the length of the source, which lies behind the operator
and the blanks that follow it.  So `1 +` gives the location 3, not 2; `1 <`, `1 ^`, `1 &&`
and `1+2*` give the length of the source as well. -/
theorem C14_open_operator_location (F : Dbl D) (this : Instance D) (sz : List Char)
    (vars : Option (List (List Char))) (n a b : Nat) (t : List Char) (op : Int)
    (he : (scanAfter F sz vars n).iError = EQERR_NONE)
    (hm : (scanAfter F sz vars n).uLookFor = LOOKFOR_BINARYOP)
    (ht : (t, op) ∈ binaryOpText)
    (hset : op = OP_SET →
      (Peek (voNul F) (scanAfter F sz vars n).st.vosParsEqn).uTyp = VOTYP_REF)
    (hrest : strFrom (cstr sz) (scanAfter F sz vars n).iThisPt
      = List.replicate a ' ' ++ (t ++ List.replicate b ' ')) :
    ((scanAfter F sz vars n).iBrktOff = 0 →
      (ParseEquation F this sz vars).1 = EQERR_PARSE_NUMBEREXPECTED) ∧
    (0 < (scanAfter F sz vars n).iBrktOff →
      (ParseEquation F this sz vars).1 = EQERR_PARSE_BRACKETSOPEN) ∧
    (ParseEquation F this sz vars).2.iError = (ParseEquation F this sz vars).1 ∧
    (ParseEquation F this sz vars).2.iErrorLocation = ((cstr sz).length : Int) ∧
    ((cstr sz).length : Int) = (scanAfter F sz vars n).iThisPt + a + t.length + b ∧
    ((ParseEquation Q fresh "1 +".toList none).1 = EQERR_PARSE_NUMBEREXPECTED ∧
      (ParseEquation Q fresh "1 +".toList none).2.iErrorLocation = 3 ∧
      (ParseEquation Q fresh "1 <".toList none).1 = EQERR_PARSE_NUMBEREXPECTED ∧
      (ParseEquation Q fresh "1 <".toList none).2.iErrorLocation = 3 ∧
      (ParseEquation Q fresh "1 ^".toList none).2.iErrorLocation = 3 ∧
      (ParseEquation Q fresh "1 &&".toList none).1 = EQERR_PARSE_NUMBEREXPECTED ∧
      (ParseEquation Q fresh "1 &&".toList none).2.iErrorLocation = 4 ∧
      (ParseEquation Q fresh "1+2*".toList none).1 = EQERR_PARSE_NUMBEREXPECTED ∧
      (ParseEquation Q fresh "1+2*".toList none).2.iErrorLocation = 4 ∧
      (ParseEquation Q fresh "(1 +".toList none).1 = EQERR_PARSE_BRACKETSOPEN ∧
      (ParseEquation Q fresh "(1 +".toList none).2.iErrorLocation = 4) := by
  obtain ⟨hB, hp⟩ := scanAfter_nonneg F sz vars n he
  have hreach : scanAfter F sz vars n =
      ⟨(scanAfter F sz vars n).st, LOOKFOR_BINARYOP, (scanAfter F sz vars n).iThisPt,
        (scanAfter F sz vars n).iBrktOff, EQERR_NONE, (scanAfter F sz vars n).iErrorLocation,
        (scanAfter F sz vars n).tgt⟩ := by
    rw [← hm, ← he]
  obtain ⟨hL, st2, hend⟩ := scanEnd_open F sz vars n _ _ _ _ _ a b t op hreach hp ht hset hrest
  have hfin : (parseFinish F ⟨st2, LOOKFOR_NUMBER, (cstr sz).length,
      (scanAfter F sz vars n).iBrktOff, EQERR_NONE, (scanAfter F sz vars n).iErrorLocation,
      (scanAfter F sz vars n).tgt⟩).iError =
      if (scanAfter F sz vars n).iBrktOff > 0 then EQERR_PARSE_BRACKETSOPEN
      else EQERR_PARSE_NUMBEREXPECTED := by
    unfold parseFinish
    simp only [ne_eq, not_true_eq_false, if_false]
    split_ifs with h1 h2
    · rfl
    · exact absurd h2 (by decide)
    · rfl
  have hne : (if (scanAfter F sz vars n).iBrktOff > 0 then EQERR_PARSE_BRACKETSOPEN
      else EQERR_PARSE_NUMBEREXPECTED) ≠ EQERR_NONE := by
    split_ifs <;> decide
  obtain ⟨r1, r2, r3⟩ := ParseEquation_error F this sz vars _ _ hend hfin hne
  refine ⟨fun h0 => ?_, fun h0 => ?_, ?_, r3, hL, ?_⟩
  · rw [r1, if_neg (by omega)]
  · rw [r1, if_pos h0]
  · rw [r1, r2]
  · decide!

theorem C14_witness :
    (scanAfter Q "1+2*".toList none 3).iError = EQERR_NONE ∧
    (scanAfter Q "1+2*".toList none 3).uLookFor = LOOKFOR_BINARYOP ∧
    (scanAfter Q "1+2*".toList none 3).iThisPt = 3 ∧
    (ParseEquation Q fresh "1+2*".toList none).1 = EQERR_PARSE_NUMBEREXPECTED ∧
    (ParseEquation Q fresh "1+2*".toList none).2.iErrorLocation = 4 :=
  ⟨by decide!, by decide!, by decide!,
    (C14_open_operator_location Q fresh "1+2*".toList none 3 0 0 ['*'] OP_MUL (by decide!)
      (by decide!) (by decide) (fun h => absurd h (by decide)) (by decide!)).1 (by decide!),
    (C14_open_operator_location Q fresh "1+2*".toList none 3 0 0 ['*'] OP_MUL (by decide!)
      (by decide!) (by decide) (fun h => absurd h (by decide)) (by decide!)).2.2.2.1⟩

/-! ## Calls of functions with literal arguments -/

theorem unaryName_props : ∀ i < 25, i = 22 ∨
    ((unaryName i ≠ [] ∧ strchr EQ_VALIDCHAR ((unaryName i).headD ' ') = true ∧
      ∀ x ∈ (unaryName i).tail, strchr EQ_VALIDSYMB x = true) ∧
    CEquationUnaryOpStr = CEquationUnaryOpStr.take i ++ unaryName i ::
      CEquationUnaryOpStr.drop (i + 1) ∧
    (CEquationUnaryOpStr.take i).length = i ∧
    (∀ v ∈ CEquationUnaryOpStr.take i, v ≠ unaryName i ∧ '(' ∉ v) ∧
    (∀ v ∈ CEquationSIUnitConstStr, v ≠ unaryName i ∧ '(' ∉ v)) := by
  decide

theorem nargName_props : ∀ j < 7,
    (nargName j ≠ [] ∧ strchr EQ_VALIDCHAR ((nargName j).headD ' ') = true ∧
      ∀ x ∈ (nargName j).tail, strchr EQ_VALIDSYMB x = true) ∧
    CEquationNArgOpStr = CEquationNArgOpStr.take j ++ nargName j ::
      CEquationNArgOpStr.drop (j + 1) ∧
    (CEquationNArgOpStr.take j).length = j ∧
    (∀ v ∈ CEquationNArgOpStr.take j, v ≠ nargName j ∧ '(' ∉ v) ∧
    (∀ v ∈ CEquationSIUnitConstStr ++ CEquationUnaryOpStr, v ≠ nargName j ∧ '(' ∉ v) := by
  decide

theorem getD_replicate_append (m i : Nat) (x y : Int) (below : List Int) :
    (List.replicate m x ++ y :: below).getD i 0 =
      if i < m then x else if i = m then y else below.getD (i - m - 1) 0 := by
  rw [List.getD_eq_getElem?_getD]
  by_cases h1 : i < m
  · rw [if_pos h1, List.getElem?_append_left (by simpa using h1)]
    simp [List.getElem?_replicate, h1]
  · rw [if_neg h1, List.getElem?_append_right (by simpa using h1)]
    simp only [List.length_replicate]
    by_cases h2 : i = m
    · subst h2
      simp
    · rw [if_neg h2]
      obtain ⟨j, hj⟩ : ∃ j, i - m = j + 1 := ⟨i - m - 1, by omega⟩
      rw [hj, Nat.add_sub_cancel, List.getElem?_cons_succ, List.getD_eq_getElem?_getD]

/-- The look-back over `m` pushes of the bracket level one down to the entry `fc` below
them. -/
theorem lookBackLoop_pushes (m : Nat) (fc : Int) (below : List Int) (hfc : fc ≤ 100) :
    ∀ (fuel i : Nat), i ≤ m → m - i < fuel →
      lookBackLoop (List.replicate m 101 ++ fc :: below) 100 fuel (-(i : Int)) i
        = (fc, -((m : Int) + 1), (m : Int)) := by
  intro fuel
  induction fuel with
  | zero => intro i _ h; exact absurd h (by omega)
  | succ f ih =>
    intro i hi hf
    have hpk : PeekBack 0 (List.replicate m 101 ++ fc :: below) (-(i : Int) - 1)
        = if i < m then 101 else fc := by
      unfold PeekBack
      have e1 : ¬ (((List.replicate m 101 ++ fc :: below).length : Int) + (-(i : Int) - 1) < 0) := by
        simp only [List.length_append, List.length_replicate, List.length_cons]
        push_cast
        omega
      have e2 : ¬ (-(i : Int) - 1 ≥ 0) := by omega
      have e3 : (-(-(i : Int) - 1) - 1).toNat = i := by omega
      rw [if_neg e1, if_neg e2, e3, getD_replicate_append]
      by_cases h : i < m
      · rw [if_pos h, if_pos h]
      · rw [if_neg h, if_neg h, if_pos (by omega)]
    unfold lookBackLoop
    simp only [hpk]
    by_cases h : i < m
    · have g1 : ¬ ((101 : Int) ≤ 100) := by decide
      have g2 : stripGT 101 = 1 := by decide
      have g3 : isVarArg 1 = false := by decide
      have g4 : ¬ ((1 : Int) = OP_SET) := by decide
      have g5 : (101 : Int) - 100 = OP_PSH := by decide
      simp only [if_pos h, if_neg g1, g2, g3, if_neg g4, if_pos g5, Bool.false_eq_true, if_false]
      have := ih (i + 1) (by omega) (by omega)
      have e1 : -(i : Int) - 1 = -((i + 1 : Nat) : Int) := by push_cast; omega
      have e2 : (i : Int) + 1 = ((i + 1 : Nat) : Int) := by push_cast; omega
      rw [e1, e2]
      exact this
    · have him : i = m := by omega
      subst him
      simp only [if_neg h, if_pos hfc]
      congr 1
      · congr 1
        omega

theorem lookBack_pushes (m : Nat) (fc : Int) (below : List Int) (hfc : fc ≤ 100) :
    lookBack (List.replicate m 101 ++ fc :: below) 100 = (fc, -((m : Int) + 1), (m : Int)) := by
  unfold lookBack
  have := lookBackLoop_pushes m fc below hfc
    ((List.replicate m 101 ++ fc :: below).length + 1) 0 (by omega) (by
      simp only [List.length_append, List.length_replicate, List.length_cons]
      omega)
  simpa using this

/-- A comma behind `m` pushes over an entry `fc` that is an operator or a function of the
level below is a push as well. -/
theorem opComma_pushes (m : Nat) (fc : Int) (below : List Int) (h1 : 4 ≤ fc) (h2 : fc ≤ 100) :
    opComma (List.replicate m 101 ++ fc :: below) 100 OP_PSH = OP_PSH := by
  unfold opComma
  rw [if_pos rfl, lookBack_pushes m fc below h2]
  simp only
  rw [if_neg (by
    simp only [OP_BRACKETOFFSET, OP_BINARYMIN]
    omega), if_neg (by decide)]

/-- The call of `_ProcessOps` for such a comma moves nothing. -/
theorem ProcessOps_pushes (F : Dbl D) (out : List (VALOP D)) (m : Nat) (fc : Int)
    (below pos : List Int) (h2 : fc ≤ 100) :
    _ProcessOps F ⟨out, List.replicate m 101 ++ fc :: below, pos⟩ 101 100
      = ⟨out, List.replicate m 101 ++ fc :: below, pos⟩ := by
  unfold _ProcessOps
  apply processOpsLoop_stop
  cases m with
  | zero =>
    right; left
    simp only [List.replicate_zero, List.nil_append, Peek]
    refine ⟨by omega, Or.inr (Or.inr (by decide))⟩
  | succ m =>
    right; right
    simp only [List.replicate_succ, List.cons_append, Peek]
    decide

theorem srcMore_head (ls : List (List Char)) (post : List Char) :
    ∀ c, (srcMore ls ++ ')' :: post).head? = some c → c ∈ litStop := by
  intro c hc
  cases ls with
  | nil =>
    simp only [srcMore, List.nil_append, List.head?_cons, Option.some.injEq] at hc
    rw [← hc]; decide
  | cons l ls =>
    simp only [srcMore, List.cons_append, List.head?_cons, Option.some.injEq] at hc
    rw [← hc]; decide

/-- The scan of the arguments behind the first one, inside the bracket of an operator or a
function `fc` of the level below: every comma is a push and every literal a value token. -/
theorem scanAfter_more (F : Dbl D) (sz : List Char) (vars : Option (List (List Char)))
    (fc : Int) (below posBelow : List Int) (h1 : 4 ≤ fc) (h2 : fc ≤ 100)
    (ls : List (List Char)) (vs : List D) (hls : List.Forall₂ (IsNumber F) ls vs) :
    ∀ (n m : Nat) (out : List (VALOP D)) (ps : List Int) (q0 p e : Int) (tg : Target D)
      (post : List Char),
      ps.length = m → 0 ≤ p →
      scanAfter F sz vars n = ⟨⟨out, List.replicate m 101 ++ fc :: below, ps ++ q0 :: posBelow⟩,
        LOOKFOR_BINARYOP, p, 100, EQERR_NONE, e, tg⟩ →
      strFrom (cstr sz) p = srcMore ls ++ ')' :: post →
      ∃ (out2 : List (VALOP D)) (ps2 : List Int), ps2.length = m + ls.length ∧
        out2.map tokV = (vs.reverse.map (fun v => (VOTYP_VAL, v, (0 : Int)))) ++ out.map tokV ∧
        scanAfter F sz vars (n + 2 * ls.length) =
          ⟨⟨out2, List.replicate (m + ls.length) 101 ++ fc :: below, ps2 ++ q0 :: posBelow⟩,
            LOOKFOR_BINARYOP, p + (srcMore ls).length, 100, EQERR_NONE, e, tg⟩ := by
  induction hls with
  | nil =>
    intro n m out ps q0 p e tg post hps hp hreach hs
    exact ⟨out, ps, by simpa using hps, by simp, by simpa [srcMore] using hreach⟩
  | @cons l v ls vs hl _ ih =>
    intro n m out ps q0 p e tg post hps hp hreach hs
    have hs1 : strFrom (cstr sz) p
        = List.replicate 0 ' ' ++ ',' :: (l ++ (srcMore ls ++ ')' :: post)) := by
      rw [hs]
      simp [srcMore]
    have hlt : p < ((cstr sz).length : Int) :=
      lt_length_of_strFrom (cstr sz) p ',' _ hp (by simpa using hs1)
    have hoa : opAssign F (⟨out, List.replicate m 101 ++ fc :: below, ps ++ q0 :: posBelow⟩ :
        Stacks D) OP_PSH = ⟨out, List.replicate m 101 ++ fc :: below, ps ++ q0 :: posBelow⟩ := by
      unfold opAssign
      rw [if_neg (by decide)]
    have hstep := parseStep_oper F (cstr sz) vars
      ⟨out, List.replicate m 101 ++ fc :: below, ps ++ q0 :: posBelow⟩
      ⟨out, List.replicate m 101 ++ fc :: below, ps ++ q0 :: posBelow⟩ p 100 e tg 0 ',' OP_PSH
      101 1 _ p (p + 1) (by simp [IsOpChar]) rfl (by decide) (by decide)
      (fun h => absurd h (by decide)) hp hs1 (by simp) (by simp)
      (by rw [hoa]; simp only; rw [opComma_pushes m fc below h1 h2]; decide)
      (by rw [hoa]; exact ProcessOps_pushes F out m fc below _ h2)
    have r1 := scanAfter_succ F sz vars n _ _ hreach hlt rfl hstep
    have hp1 : (0 : Int) ≤ p + 1 := by omega
    have hs2 : strFrom (cstr sz) (p + 1)
        = List.replicate 0 ' ' ++ (l ++ (srcMore ls ++ ')' :: post)) := by
      have := strFrom_add (cstr sz) _ p 1 hp hs1
      simpa using this
    obtain ⟨c0, t0, hl0, hc0⟩ := hl.1
    have hlt2 : p + 1 < ((cstr sz).length : Int) :=
      lt_length_of_strFrom (cstr sz) (p + 1) c0 (t0 ++ (srcMore ls ++ ')' :: post)) hp1 (by
        rw [hs2, hl0]; simp)
    have hstep2 := parseStep_lit F (cstr sz) vars out
      (101 :: (List.replicate m 101 ++ fc :: below)) (p :: (ps ++ q0 :: posBelow)) (p + 1) 100 e
      tg 0 l (srcMore ls ++ ')' :: post) v (p + 1) (p + 1 + l.length) hl.1
      (hl.2.2 _ (srcMore_head ls post)) hp1 hs2 (by simp) (by simp)
    have r2 := scanAfter_succ F sz vars (n + 1) _ _ r1 hlt2 rfl hstep2
    have hs3 : strFrom (cstr sz) (p + 1 + l.length) = srcMore ls ++ ')' :: post := by
      have := strFrom_add (cstr sz) _ (p + 1) l.length hp1 hs2
      rw [this]
      simp
    have r2' : scanAfter F sz vars (n + 2) =
        ⟨⟨voD VOTYP_VAL v (p + 1) :: out, List.replicate (m + 1) 101 ++ fc :: below,
          (p :: ps) ++ q0 :: posBelow⟩, LOOKFOR_BINARYOP, p + 1 + l.length, 100, EQERR_NONE, e,
          tg⟩ := by
      rw [r2]
      simp [List.replicate_succ]
    obtain ⟨out2, ps2, g1, g2, g3⟩ := ih (n + 2) (m + 1) (voD VOTYP_VAL v (p + 1) :: out)
      (p :: ps) q0 (p + 1 + l.length) e tg post (by simp [hps]) (by omega) r2' hs3
    refine ⟨out2, ps2, ?_, ?_, ?_⟩
    · rw [g1]; simp only [List.length_cons]; omega
    · rw [g2]
      simp [tokV, voD]
    · have e1 : n + 2 * (l :: ls).length = n + 2 + 2 * ls.length := by
        simp only [List.length_cons]; omega
      have e2 : m + (l :: ls).length = m + 1 + ls.length := by
        simp only [List.length_cons]; omega
      have e3 : p + ((srcMore (l :: ls)).length : Int) = p + 1 + l.length + (srcMore ls).length := by
        simp only [srcMore, List.length_cons, List.length_append]
        push_cast
        omega
      rw [e1, e2, e3]
      exact g3

theorem PeekBack_append (ps : List Int) (q0 : Int) (posBelow : List Int) :
    PeekBack 0 (ps ++ q0 :: posBelow) (-((ps.length : Int) + 1)) = q0 := by
  unfold PeekBack
  have e1 : ¬ (((ps ++ q0 :: posBelow).length : Int) + -((ps.length : Int) + 1) < 0) := by
    simp only [List.length_append, List.length_cons]
    push_cast
    omega
  have e2 : ¬ (-((ps.length : Int) + 1) ≥ 0) := by omega
  have e3 : (-(-((ps.length : Int) + 1)) - 1).toNat = ps.length := by omega
  rw [if_neg e1, if_neg e2, e3, List.getD_eq_getElem?_getD,
    List.getElem?_append_right (le_refl _)]
  simp

theorem InsertBack_append {T : Type} (xs : List T) (y t : T) (rest : List T) (n : Int)
    (hn : n = -((xs.length : Int) + 1)) :
    InsertBack (xs ++ y :: rest) t n = xs ++ y :: t :: rest := by
  subst hn
  unfold InsertBack
  have e : (-(-((xs.length : Int) + 1))).toNat = (xs ++ [y]).length := by
    simp only [List.length_append, List.length_singleton]
    omega
  have e2 : xs ++ y :: rest = (xs ++ [y]) ++ rest := by simp
  rw [e, e2, List.take_left, List.drop_left]
  simp

/-- The closing bracket behind `m` pushes of the bracket level one over the entry `fc`: the
count `m + 1` is tested for `fc`; a wrong count sets `EQERR_PARSE_NARGBADCOUNT` and moves the
scan index in front of the position stored with `fc`; a right count closes the bracket and,
for a function with a negative declared count, stores the count below `fc`. -/
theorem parseClose_call (out : List (VALOP D)) (m : Nat) (fc : Int) (below ps posBelow : List Int)
    (q0 p e : Int) (tg : Target D) (hps : ps.length = m) (h2 : fc ≤ 100) :
    parseClose ⟨⟨out, List.replicate m 101 ++ fc :: below, ps ++ q0 :: posBelow⟩,
        LOOKFOR_BINARYOP, p, 100, EQERR_NONE, e, tg⟩ =
      if countBad fc (m + 1) then
        (⟨⟨out, List.replicate m 101 ++ fc :: below, ps ++ q0 :: posBelow⟩, LOOKFOR_BINARYOP,
          q0 - 1, 0, EQERR_PARSE_NARGBADCOUNT, e, tg⟩, 1)
      else if ownerVarArg fc then
        (⟨⟨out, List.replicate m 101 ++ fc :: ((m : Int) + 1) :: below,
          ps ++ q0 :: q0 :: posBelow⟩, LOOKFOR_BINARYOP, p, 0, EQERR_NONE, e, tg⟩, 1)
      else
        (⟨⟨out, List.replicate m 101 ++ fc :: below, ps ++ q0 :: posBelow⟩, LOOKFOR_BINARYOP,
          p, 0, EQERR_NONE, e, tg⟩, 1) := by
  have hpk : PeekBack 0 (ps ++ q0 :: posBelow) (-((m : Int) + 1)) = q0 := by
    rw [← hps]; exact PeekBack_append ps q0 posBelow
  have hi1 : InsertBack (List.replicate m 101 ++ fc :: below) ((m : Int) + 1) (-((m : Int) + 1))
      = List.replicate m 101 ++ fc :: ((m : Int) + 1) :: below :=
    InsertBack_append _ _ _ _ _ (by simp)
  have hi2 : InsertBack (ps ++ q0 :: posBelow) q0 (-((m : Int) + 1))
      = ps ++ q0 :: q0 :: posBelow :=
    InsertBack_append _ _ _ _ _ (by rw [hps])
  have e0 : (100 : Int) - OP_BRACKETOFFSET = 0 := by decide
  have e1 : fc - (0 + OP_NARG) = fc - OP_NARG := by omega
  have e2 : ¬ ((0 : Int) < 0) := by decide
  unfold parseClose
  simp only [lookBack_pushes m fc below h2, e0, e1, if_neg e2, hpk, hi1, hi2]
  by_cases c1 : fc - OP_NARG ≥ 0 ∧ fc - OP_NARG < NUM_NARGOP
  · have hcb : countBad fc (m + 1) ↔ ((m : Int) + 1 < ABS (nargArgc (fc - OP_NARG)) ∨
        (nargArgc (fc - OP_NARG) > 0 ∧ (m : Int) + 1 > nargArgc (fc - OP_NARG))) := by
      unfold countBad
      rw [if_pos c1]
    rw [if_pos c1]
    by_cases c2 : ((m : Int) + 1 < ABS (nargArgc (fc - OP_NARG)) ∨
        (nargArgc (fc - OP_NARG) > 0 ∧ (m : Int) + 1 > nargArgc (fc - OP_NARG)))
    · rw [if_pos c2, if_pos (hcb.mpr c2)]
    · rw [if_neg c2, if_neg (fun h => c2 (hcb.mp h))]
      by_cases c3 : nargArgc (fc - OP_NARG) < 0
      · rw [if_pos c3, if_pos (show ownerVarArg fc from ⟨c1.1, c1.2, c3⟩)]
      · rw [if_neg c3, if_neg (show ¬ ownerVarArg fc from fun h => c3 h.2.2)]
  · have hcb : countBad fc (m + 1) ↔ (m : Int) + 1 > 1 := by
      unfold countBad
      rw [if_neg c1]
    rw [if_neg c1]
    by_cases c2 : (m : Int) + 1 > 1
    · rw [if_pos c2, if_pos (hcb.mpr c2)]
    · rw [if_neg c2, if_neg (fun h => c2 (hcb.mp h)),
        if_neg (show ¬ ownerVarArg fc from fun h => c1 ⟨h.1, h.2.1⟩)]

theorem poStep_owner (F : Dbl D) (out : List (VALOP D)) (fc q : Int) (ops pos : List Int)
    (h1 : 4 ≤ fc) (h2 : fc < 100) (h3 : ¬ ownerVarArg fc) :
    poStep F ⟨out, fc :: ops, q :: pos⟩ = ⟨voI F VOTYP_OP fc q :: out, ops, pos⟩ := by
  have hx : stripGE fc = fc := by
    unfold stripGE
    rw [if_neg (by simp only [OP_BRACKETOFFSET]; omega)]
  have hs : ¬ (fc = OP_SET) := by simp only [OP_SET]; omega
  unfold poStep poSet
  simp only [Pop, hx, if_neg hs]
  rw [if_neg (by unfold ownerVarArg at h3; exact h3)]

theorem poStep_owner_var (F : Dbl D) (out : List (VALOP D)) (fc q k q2 : Int)
    (ops pos : List Int) (h1 : 4 ≤ fc) (h2 : fc < 100) (h3 : ownerVarArg fc) :
    poStep F ⟨out, fc :: k :: ops, q :: q2 :: pos⟩ =
      ⟨voI F VOTYP_NARGC k q2 :: voI F VOTYP_OP fc q :: out, ops, pos⟩ := by
  have hx : stripGE fc = fc := by
    unfold stripGE
    rw [if_neg (by simp only [OP_BRACKETOFFSET]; omega)]
  have hs : ¬ (fc = OP_SET) := by simp only [OP_SET]; omega
  unfold poStep poSet
  simp only [Pop, hx, if_neg hs]
  rw [if_pos (by unfold ownerVarArg at h3; exact h3)]

theorem dropPSH_pushTokens (F : Dbl D) (ps : List Int) :
    ∀ out : List (VALOP D), dropPSH (pushTokens F ps out) = dropPSH out := by
  induction ps with
  | nil => intro out; rfl
  | cons q ps ih =>
    intro out
    rw [pushTokens, ih, dropPSH_cons_drop _ _ (by simp [isPSH, voI])]

theorem poStop_final (st : Stacks D) (x : Int) (ops : List Int) (h : st.isOps = x :: ops)
    (hx : 0 ≤ x) : ¬ poStop (-1) 0 st := by
  unfold poStop
  rw [h]
  simp only [List.length_cons, Peek]
  rintro (h1 | h1 | h1)
  · omega
  · omega
  · exact absurd h1.1 (by decide)

/-- The final call of `_ProcessOps` drains `m` pushes: each becomes an `OP_PSH` token. -/
theorem processOpsLoop_pushes (F : Dbl D) (rest : List Int) (posRest : List Int) :
    ∀ (ps : List Int) (out : List (VALOP D)) (fuel : Nat),
      processOpsLoop F (-1) 0 (ps.length + fuel)
          ⟨out, List.replicate ps.length 101 ++ rest, ps ++ posRest⟩
        = processOpsLoop F (-1) 0 fuel ⟨pushTokens F ps out, rest, posRest⟩ := by
  intro ps
  induction ps with
  | nil => intro out fuel; simp [pushTokens]
  | cons q ps ih =>
    intro out fuel
    have e : (q :: ps).length + fuel = (ps.length + fuel) + 1 := by
      simp only [List.length_cons]; omega
    rw [e, processOpsLoop_go F _ _ _ _ (poStop_final _ 101
      (List.replicate ps.length 101 ++ rest) (by simp [List.replicate_succ]) (by decide))]
    simp only [List.length_cons, List.replicate_succ, List.cons_append]
    rw [poStep_simple F out 101 1 q _ _ (by decide) (by decide) (by decide), ih]
    rfl

/-- The final call of `_ProcessOps` on the stacks a call leaves: the pushes are stored, then
the operator or function and, for a function with a negative declared count, the count. -/
theorem ProcessOps_call (F : Dbl D) (out : List (VALOP D)) (ps : List Int) (fc q0 : Int)
    (h1 : 4 ≤ fc) (h2 : fc < 100) :
    (ownerVarArg fc → ∀ k : Int,
      _ProcessOps F ⟨out, List.replicate ps.length 101 ++ [fc, k], ps ++ [q0, q0]⟩ (-1) 0 =
        ⟨voI F VOTYP_NARGC k q0 :: voI F VOTYP_OP fc q0 :: pushTokens F ps out, [], []⟩) ∧
    (¬ ownerVarArg fc →
      _ProcessOps F ⟨out, List.replicate ps.length 101 ++ [fc], ps ++ [q0]⟩ (-1) 0 =
        ⟨voI F VOTYP_OP fc q0 :: pushTokens F ps out, [], []⟩) := by
  refine ⟨fun hv k => ?_, fun hv => ?_⟩
  · unfold _ProcessOps
    simp only [List.length_append, List.length_replicate, List.length_cons, List.length_nil]
    rw [show ps.length + (0 + 1 + 1) + 1 = ps.length + 3 by omega,
      processOpsLoop_pushes F [fc, k] [q0, q0] ps out 3,
      processOpsLoop_go F _ _ _ _ (poStop_final _ fc _ rfl (by omega)),
      poStep_owner_var F _ fc q0 k q0 [] [] h1 h2 hv]
    exact processOpsLoop_stop F _ _ _ _ (Or.inl (by simp))
  · unfold _ProcessOps
    simp only [List.length_append, List.length_replicate, List.length_cons, List.length_nil]
    rw [show ps.length + (0 + 1) + 1 = ps.length + 2 by omega,
      processOpsLoop_pushes F [fc] [q0] ps out 2,
      processOpsLoop_go F _ _ _ _ (poStop_final _ fc _ rfl (by omega)),
      poStep_owner F _ fc q0 [] [] h1 h2 hv]
    exact processOpsLoop_stop F _ _ _ _ (Or.inl (by simp))

/-- The result of `ParseEquation` for a scan that ends without an error, with no bracket open,
in the mode `LOOKFOR_BINARYOP`: the tokens the final call of `_ProcessOps` leaves, without the
`OP_PSH` tokens, in the order they were pushed. -/
theorem ParseEquation_ok (F : Dbl D) (this : Instance D) (sz : List Char)
    (vars : Option (List (List Char))) (st : Stacks D) (p e : Int) (tg : Target D)
    (x : VALOP D) (out : List (VALOP D))
    (hend : scanEnd F sz vars = ⟨st, LOOKFOR_BINARYOP, p, 0, EQERR_NONE, e, tg⟩)
    (hout : (_ProcessOps F st (-1) 0).vosParsEqn = x :: out) (hx : isPSH x = false) :
    (ParseEquation F this sz vars).1 = EQERR_NONE ∧
    (ParseEquation F this sz vars).2.pvoEquation = (dropPSH (x :: out)).reverse ∧
    (ParseEquation F this sz vars).2.iEqnLength = ((dropPSH (x :: out)).length : Int) ∧
    (ParseEquation F this sz vars).2.tgt = tg := by
  have hs : parseScan F (cstr sz) vars =
      ⟨_ProcessOps F st (-1) 0, LOOKFOR_BINARYOP, p, 0, EQERR_NONE, p, tg⟩ := by
    show parseFinish F (scanEnd F sz vars) = _
    rw [hend]
    unfold parseFinish
    simp only [ne_eq, not_true_eq_false, if_false]
    rw [if_neg (by decide), if_neg (by decide), if_neg (by decide)]
  have hn : countNotPSH F (x :: out) = (dropPSH (x :: out)).length := by
    rw [countNotPSH_cons, dropPSH_cons_keep x out hx]
    rfl
  have hcp := copyEquation_eq F (x :: out)
  rw [hn, Nat.sub_self, List.replicate_zero, List.nil_append] at hcp
  unfold ParseEquation
  simp only [hs, ne_eq, not_true_eq_false, if_false, hout]
  rw [hn, hcp]
  refine ⟨?_, ?_, ?_, ?_⟩ <;> first | rfl | trivial

theorem funcName_noNul : ∀ v ∈ CEquationUnaryOpStr ++ CEquationNArgOpStr, '\x00' ∉ v := by
  decide

theorem IsFunc_noNul (nm : List Char) (code : Int) (h : IsFunc nm code) :
    ∀ c ∈ nm, c ≠ '\x00' := by
  have key : nm ∈ CEquationUnaryOpStr ++ CEquationNArgOpStr := by
    rcases h with ⟨i, hi, _, rfl, _⟩ | ⟨j, hj, rfl, _⟩
    · apply List.mem_append_left
      unfold unaryName
      rw [List.getD_eq_getElem _ _ (by simpa [CEquationUnaryOpStr] using hi)]
      exact List.getElem_mem _
    · apply List.mem_append_right
      unfold nargName
      rw [List.getD_eq_getElem _ _ (by simpa [CEquationNArgOpStr] using hj)]
      exact List.getElem_mem _
  intro c hc hz
  rw [hz] at hc
  exact funcName_noNul nm key hc

theorem srcMore_noNul (F : Dbl D) (ls : List (List Char)) (vs : List D)
    (hls : List.Forall₂ (IsNumber F) ls vs) : ∀ c ∈ srcMore ls, c ≠ '\x00' := by
  induction hls with
  | nil => intro c hc; simp [srcMore] at hc
  | @cons l v ls vs hl _ ih =>
    intro c hc
    simp only [srcMore, List.mem_cons, List.mem_append] at hc
    rcases hc with rfl | hc | hc
    · decide
    · exact hl.2.1 c hc
    · exact ih c hc

theorem dropPSH_vals (out : List (VALOP D)) (ws : List D)
    (h : out.map tokV = ws.map (fun v => (VOTYP_VAL, v, (0 : Int)))) : dropPSH out = out := by
  unfold dropPSH
  rw [List.filter_eq_self]
  intro t ht
  have h1 : tokV t ∈ out.map tokV := List.mem_map_of_mem _ ht
  rw [h, List.mem_map] at h1
  obtain ⟨w, _, hw⟩ := h1
  have h2 : t.uTyp = VOTYP_VAL := by
    have := congrArg Prod.fst hw
    exact this.symm
  simp [isPSH, h2]

/-- The end of the parse of a source whose last character is the closing bracket of a bracket
of the level one that holds `m + 1` arguments, the owner `fc` of the bracket being the only
entry of the level zero on the operator stack: a wrong count gives
`EQERR_PARSE_NARGBADCOUNT` at the position stored with `fc`; a right count gives `EQERR_NONE`
and the tokens of the equation stack, the owner and, for a function with a negative declared
count, the count. -/
theorem ParseEquation_close (F : Dbl D) (this : Instance D) (sz : List Char)
    (vars : Option (List (List Char))) (n m : Nat) (out2 : List (VALOP D)) (ps2 : List Int)
    (fc q0 p e : Int) (tg : Target D) (hc1 : 4 ≤ fc) (hc2 : fc < 100) (hps : ps2.length = m)
    (hp : 0 ≤ p) (hdv : dropPSH out2 = out2)
    (hreach : scanAfter F sz vars n =
      ⟨⟨out2, List.replicate m 101 ++ [fc], ps2 ++ [q0]⟩, LOOKFOR_BINARYOP, p, 100, EQERR_NONE,
        e, tg⟩)
    (hs : strFrom (cstr sz) p = [')']) :
    (countBad fc ((m : Int) + 1) →
      (ParseEquation F this sz vars).1 = EQERR_PARSE_NARGBADCOUNT ∧
      (ParseEquation F this sz vars).2.iErrorLocation = q0) ∧
    (¬ countBad fc ((m : Int) + 1) →
      (ParseEquation F this sz vars).1 = EQERR_NONE ∧
      (ParseEquation F this sz vars).2.pvoEquation.map tokV =
        (out2.map tokV).reverse ++ (VOTYP_OP, F.lit 0, fc) ::
          (if ownerVarArg fc then [(VOTYP_NARGC, F.lit 0, (m : Int) + 1)] else []) ∧
      (ParseEquation F this sz vars).2.iEqnLength =
        (out2.length : Int) + 1 + (if ownerVarArg fc then 1 else 0) ∧
      (ParseEquation F this sz vars).2.tgt = tg) := by
  have hlen : ((cstr sz).length : Int) = p + 1 := by
    have := strFrom_length (cstr sz) _ p hp hs (by simp)
    simpa using this
  have hcl := parseStep_closing F (cstr sz) vars
    ⟨out2, List.replicate m 101 ++ [fc], ps2 ++ [q0]⟩ p 100 e tg 0 [] hp (by rw [hs]; rfl)
  rw [parseClose_call out2 m fc [] ps2 [] q0 _ e tg hps (by omega)] at hcl
  have hk : ∀ k q : Int, isPSH (voI F VOTYP_NARGC k q) = false := by
    intro k q
    simp [isPSH, voI]
  have hfcp : ∀ q : Int, isPSH (voI F VOTYP_OP fc q) = false := by
    intro q
    simp only [isPSH, voI, Bool.and_eq_false_imp, beq_iff_eq, beq_eq_false_iff_ne]
    intro _
    simp only [OP_PSH]
    omega
  refine ⟨fun hb => ?_, fun hb => ?_⟩
  · rw [if_pos hb] at hcl
    have r := scanAfter_succ F _ vars _ _ _ hreach (by simp only; omega) rfl hcl
    have hend := scanEnd_of_scanAfter F _ vars _ _ r (by
      unfold parseAdvance
      simp)
    have hfin : (parseFinish F (parseAdvance
        ((⟨⟨out2, List.replicate m 101 ++ [fc], ps2 ++ [q0]⟩, LOOKFOR_BINARYOP, q0 - 1, 0,
          EQERR_PARSE_NARGBADCOUNT, e, tg⟩ : PState D), 1))).iError
        = EQERR_PARSE_NARGBADCOUNT := by
      unfold parseFinish parseAdvance
      simp
    obtain ⟨a1, _, a3⟩ := ParseEquation_error F this _ vars _ _ hend hfin (by decide)
    refine ⟨a1, ?_⟩
    rw [a3]
    unfold parseAdvance
    simp
  · rw [if_neg hb] at hcl
    by_cases hv : ownerVarArg fc
    · rw [if_pos hv] at hcl
      have hcl2 : parseStep F (cstr sz) vars
          ⟨⟨out2, List.replicate m 101 ++ [fc], ps2 ++ [q0]⟩, LOOKFOR_BINARYOP, p, 100,
            EQERR_NONE, e, tg⟩ =
          ⟨⟨out2, List.replicate ps2.length 101 ++ [fc, (m : Int) + 1], ps2 ++ [q0, q0]⟩,
            LOOKFOR_BINARYOP, p + 1, 0, EQERR_NONE, e, tg⟩ := by
        rw [hcl, hps]
        unfold parseAdvance
        simp
      have r := scanAfter_succ F _ vars _ _ _ hreach (by simp only; omega) rfl hcl2
      have hend := scanEnd_of_scanAfter F _ vars _ _ r (by simp only [not_and]; intro h; omega)
      have hpo := (ProcessOps_call F out2 ps2 fc q0 hc1 hc2).1 hv ((m : Int) + 1)
      obtain ⟨a1, a2, a3, a4⟩ := ParseEquation_ok F this _ vars _ _ _ _ _ _ hend
        (by rw [hpo]) (hk _ _)
      refine ⟨a1, ?_, ?_, a4⟩
      · rw [a2, dropPSH_cons_keep _ _ (hk _ _), dropPSH_cons_keep _ _ (hfcp _),
          dropPSH_pushTokens, hdv, if_pos hv]
        simp [tokV, voI]
      · rw [a3, dropPSH_cons_keep _ _ (hk _ _), dropPSH_cons_keep _ _ (hfcp _),
          dropPSH_pushTokens, hdv, if_pos hv]
        simp only [List.length_cons]
        push_cast
        omega
    · rw [if_neg hv] at hcl
      have hcl2 : parseStep F (cstr sz) vars
          ⟨⟨out2, List.replicate m 101 ++ [fc], ps2 ++ [q0]⟩, LOOKFOR_BINARYOP, p, 100,
            EQERR_NONE, e, tg⟩ =
          ⟨⟨out2, List.replicate ps2.length 101 ++ [fc], ps2 ++ [q0]⟩, LOOKFOR_BINARYOP,
            p + 1, 0, EQERR_NONE, e, tg⟩ := by
        rw [hcl, hps]
        unfold parseAdvance
        simp
      have r := scanAfter_succ F _ vars _ _ _ hreach (by simp only; omega) rfl hcl2
      have hend := scanEnd_of_scanAfter F _ vars _ _ r (by simp only [not_and]; intro h; omega)
      have hpo := (ProcessOps_call F out2 ps2 fc q0 hc1 hc2).2 hv
      obtain ⟨a1, a2, a3, a4⟩ := ParseEquation_ok F this _ vars _ _ _ _ _ _ hend
        (by rw [hpo]) (hfcp _)
      refine ⟨a1, ?_, ?_, a4⟩
      · rw [a2, dropPSH_cons_keep _ _ (hfcp _), dropPSH_pushTokens, hdv, if_neg hv]
        simp [tokV, voI]
      · rw [a3, dropPSH_cons_keep _ _ (hfcp _), dropPSH_pushTokens, hdv, if_neg hv]
        simp only [List.length_cons]
        push_cast
        omega

theorem srcPlain_cstr (F : Dbl D) (pre : List Char) (l : List Char)
    (ls : List (List Char)) (v : D) (vs : List D) (hpre : ∀ c ∈ pre, c ≠ '\x00')
    (hl : IsNumber F l v) (hls : List.Forall₂ (IsNumber F) ls vs) :
    cstr (pre ++ srcCall [] (l :: ls)) = pre ++ srcCall [] (l :: ls) := by
  apply cstr_of_noNul
  intro c hc
  simp only [srcCall, srcArgs, List.mem_append, List.mem_cons, List.mem_singleton,
    List.not_mem_nil, or_false, List.nil_append, false_or] at hc
  rcases hc with hc | rfl | (hc | hc) | rfl
  · exact hpre c hc
  · decide
  · exact hl.2.1 c hc
  · exact srcMore_noNul F ls vs hls c hc
  · decide

theorem binaryOpText_open : ∀ x ∈ binaryOpText, ∀ rest : List Char,
    scanBinaryOp (x.1 ++ '(' :: rest) = (x.2, (x.1.length : Int)) ∧ (∀ c ∈ x.1, c ≠ '\x00') ∧
    x.2 ≤ 16 := by
  intro x hx rest
  simp only [binaryOpText, List.mem_cons, List.mem_singleton, List.not_mem_nil, or_false] at hx
  rcases hx with rfl | rfl | rfl | rfl | rfl | rfl | rfl | rfl | rfl | rfl | rfl | rfl | rfl
    | rfl | rfl | rfl | rfl <;>
  exact ⟨rfl, by decide, by decide⟩

theorem opComma_other (isOps : List Int) (B op : Int) (h : op ≠ OP_PSH) :
    opComma isOps B op = op := by
  unfold opComma
  rw [if_neg h]

/-- A bracket with `k ≥ 1` numeric literals that follows a numeric literal, a blank and a
built-in binary operator: with one argument the source parses, with more the commas are
pushes and the closing bracket returns `EQERR_PARSE_NARGBADCOUNT`, located at the operator. -/
theorem ParseEquation_after_op (F : Dbl D) (this : Instance D)
    (vars : Option (List (List Char))) (la : List Char) (va : D) (t : List Char) (op : Int)
    (l : List Char) (ls : List (List Char)) (v : D) (vs : List D)
    (ha : IsNumber F la va) (ht : (t, op) ∈ binaryOpText) (hop : OP_BINARYMIN ≤ op)
    (hl : IsNumber F l v) (hls : List.Forall₂ (IsNumber F) ls vs)
    (ho : ∀ rest, F.scanf_lg ('(' :: rest) = none) :
    (ls = [] → (ParseEquation F this (la ++ ' ' :: (t ++ srcCall [] (l :: ls))) vars).1
      = EQERR_NONE) ∧
    (ls ≠ [] →
      (ParseEquation F this (la ++ ' ' :: (t ++ srcCall [] (l :: ls))) vars).1
        = EQERR_PARSE_NARGBADCOUNT ∧
      (ParseEquation F this (la ++ ' ' :: (t ++ srcCall [] (l :: ls))) vars).2.iErrorLocation
        = la.length + 1) := by
  obtain ⟨⟨c, t', ht1, hc⟩, _, hnull, hlen12⟩ := binaryOpText_props (t, op) ht 0
  obtain ⟨hsc, htn, hop2⟩ := binaryOpText_open (t, op) ht (l ++ (srcMore ls ++ [')']))
  simp only at ht1 hsc hnull hlen12 htn hop2
  have hcs0 := srcPlain_cstr F (la ++ ' ' :: t) l ls v vs (by
    intro x hx
    simp only [List.mem_append, List.mem_cons] at hx
    rcases hx with hx | rfl | hx
    · exact ha.2.1 x hx
    · decide
    · exact htn x hx) hl hls
  have hsz : cstr (la ++ ' ' :: (t ++ srcCall [] (l :: ls)))
      = la ++ ' ' :: (t ++ '(' :: (l ++ (srcMore ls ++ [')']))) := by
    have e : la ++ ' ' :: (t ++ srcCall [] (l :: ls)) = (la ++ ' ' :: t) ++ srcCall [] (l :: ls) := by
      simp
    rw [e, hcs0]
    simp [srcCall, srcArgs]
  generalize la ++ ' ' :: (t ++ srcCall [] (l :: ls)) = sz at hsz ⊢
  obtain ⟨c0, t0, hl0, _⟩ := hl.1
  obtain ⟨ca, ta, hla0, _⟩ := ha.1
  have hlpos : (0 : Int) < l.length := by
    rw [hl0]; simp only [List.length_cons]; push_cast; omega
  have hlapos : (0 : Int) < la.length := by
    rw [hla0]; simp only [List.length_cons]; push_cast; omega
  have htpos : (0 : Int) < t.length := by
    rcases hlen12 with h | h <;> rw [h] <;> decide
  have hmpos : (0 : Int) ≤ (srcMore ls).length := Int.natCast_nonneg _
  have hlen : ((cstr sz).length : Int)
      = la.length + 1 + t.length + 1 + l.length + (srcMore ls).length + 1 := by
    rw [hsz]
    simp only [List.length_append, List.length_cons, List.length_nil]
    push_cast
    omega
  have h0 : scanAfter F sz vars 0 = parseInit F := rfl
  have hs0 : strFrom (cstr sz) 0 = List.replicate 0 ' ' ++
      (la ++ ' ' :: (t ++ '(' :: (l ++ (srcMore ls ++ [')'])))) := by
    rw [strFrom_zero, hsz]; rfl
  have st1 := parseStep_lit F (cstr sz) vars [] [] [] 0 0 0
    ⟨[], uUnitZero F, F.lit 0, F.lit 0⟩ 0 la _ va 0 la.length ha.1
    (ha.2.2 _ (by intro x hx; simp only [List.head?_cons, Option.some.injEq] at hx
                  rw [← hx]; decide)) le_rfl hs0 (by simp) (by simp)
  have r1 := scanAfter_succ F _ vars 0 _ _ h0 (by show (0 : Int) < _; omega) rfl st1
  have hs1 : strFrom (cstr sz) la.length = List.replicate 1 ' ' ++
      c :: (t' ++ '(' :: (l ++ (srcMore ls ++ [')']))) := by
    have := strFrom_add (cstr sz) _ 0 la.length le_rfl hs0
    simp only [zero_add] at this
    rw [this, ht1]
    simp
  have hoa : opAssign F (⟨[voD VOTYP_VAL va 0], [], []⟩ : Stacks D) op
      = ⟨[voD VOTYP_VAL va 0], [], []⟩ := by
    unfold opAssign
    rw [if_neg (by simp only [OP_SET, OP_BINARYMIN] at *; omega)]
  have hsc2 : scanBinaryOp (c :: (t' ++ '(' :: (l ++ (srcMore ls ++ [')']))))
      = (op, (t.length : Int)) := by
    rw [← hsc, ht1]; rfl
  have st2 := parseStep_oper F (cstr sz) vars ⟨[voD VOTYP_VAL va 0], [], []⟩
    ⟨[voD VOTYP_VAL va 0], [], []⟩ la.length 0 0 ⟨[], uUnitZero F, F.lit 0, F.lit 0⟩ 1 c op op
    t.length _ (la.length + 1) (la.length + 1 + t.length) hc hsc2 hnull htpos
    (fun h => absurd h (by simp only [OP_SET, OP_BINARYMIN] at *; omega)) (by omega) hs1
    (by simp) (by simp)
    (by rw [hoa]; simp only; rw [opComma_other _ _ _ (by
      simp only [OP_PSH, OP_BINARYMIN] at *; omega)]; simp)
    (by rw [hoa]; exact processOpsLoop_stop F _ _ _ _ (Or.inl (by simp)))
  have r2 := scanAfter_succ F _ vars 1 _ _ r1 (by simp only; omega) rfl st2
  have hs2 : strFrom (cstr sz) (la.length + 1 + t.length) = List.replicate 0 ' ' ++
      '(' :: (l ++ (srcMore ls ++ [')'])) := by
    have := strFrom_add (cstr sz) _ 0 (la.length + 1 + t.length) le_rfl hs0
    simp only [zero_add] at this
    push_cast at this
    have e : la ++ ' ' :: (t ++ '(' :: (l ++ (srcMore ls ++ [')'])))
        = (la ++ ' ' :: t) ++ '(' :: (l ++ (srcMore ls ++ [')'])) := by simp
    rw [this, List.replicate_zero, List.nil_append, List.nil_append, e,
      List.drop_left' (by simp only [List.length_append, List.length_cons]; omega)]
  have st3 := parseStep_open F (cstr sz) vars ⟨[voD VOTYP_VAL va 0], [op], [la.length + 1]⟩
    (la.length + 1 + t.length) 0 0 ⟨[], uUnitZero F, F.lit 0, F.lit 0⟩ 0 _
    (la.length + 1 + t.length + 1) 100 (ho _) (by omega) hs2 (by simp) (by decide)
  have r3 := scanAfter_succ F _ vars 2 _ _ r2 (by simp only; omega) rfl st3
  have hs3 : strFrom (cstr sz) (la.length + 1 + t.length + 1) = List.replicate 0 ' ' ++
      (l ++ (srcMore ls ++ [')'])) := by
    have := strFrom_add (cstr sz) _ (la.length + 1 + t.length) 1 (by omega) hs2
    simpa using this
  have st4 := parseStep_lit F (cstr sz) vars [voD VOTYP_VAL va 0] [op] [la.length + 1]
    (la.length + 1 + t.length + 1) 100 0 ⟨[], uUnitZero F, F.lit 0, F.lit 0⟩ 0 l
    (srcMore ls ++ [')']) v (la.length + 1 + t.length + 1) (la.length + 1 + t.length + 1 + l.length)
    hl.1 (hl.2.2 _ (srcMore_head ls [])) (by omega) hs3 (by simp) (by simp)
  have r4 := scanAfter_succ F _ vars 3 _ _ r3 (by simp only; omega) rfl st4
  have r4' : scanAfter F sz vars 4 =
      ⟨⟨[voD VOTYP_VAL v (la.length + 1 + t.length + 1), voD VOTYP_VAL va 0],
        List.replicate 0 101 ++ op :: [], ([] : List Int) ++ ((la.length : Int) + 1) :: []⟩, LOOKFOR_BINARYOP,
        la.length + 1 + t.length + 1 + l.length, 100, EQERR_NONE, 0,
        ⟨[], uUnitZero F, F.lit 0, F.lit 0⟩⟩ := by
    rw [r4]
    simp
  have hs4 : strFrom (cstr sz) (la.length + 1 + t.length + 1 + l.length)
      = srcMore ls ++ [')'] := by
    have := strFrom_add (cstr sz) _ (la.length + 1 + t.length + 1) l.length (by omega) hs3
    rw [this]
    simp
  obtain ⟨out2, ps2, g1, g2, g3⟩ := scanAfter_more F sz vars op [] []
    (by simp only [OP_BINARYMIN] at hop; omega) (by omega) ls vs hls 4 0 _ [] (la.length + 1)
    (la.length + 1 + t.length + 1 + l.length) 0 ⟨[], uUnitZero F, F.lit 0, F.lit 0⟩ []
    rfl (by omega) r4' hs4
  have hs5 : strFrom (cstr sz)
      (la.length + 1 + t.length + 1 + l.length + (srcMore ls).length) = [')'] := by
    have := strFrom_add (cstr sz) _ (la.length + 1 + t.length + 1 + l.length)
      (srcMore ls).length (by omega) hs4
    rw [this]
    simp
  have hdv : dropPSH out2 = out2 :=
    dropPSH_vals out2 (vs.reverse ++ [v, va]) (by rw [g2]; simp [tokV, voD])
  have g3' : scanAfter F sz vars (4 + 2 * ls.length) =
      ⟨⟨out2, List.replicate ls.length 101 ++ [op], ps2 ++ [(la.length : Int) + 1]⟩,
        LOOKFOR_BINARYOP, la.length + 1 + t.length + 1 + l.length + (srcMore ls).length, 100,
        EQERR_NONE, 0, ⟨[], uUnitZero F, F.lit 0, F.lit 0⟩⟩ := by
    rw [g3]
    simp
  obtain ⟨c1, c2⟩ := ParseEquation_close F this sz vars _ ls.length out2 ps2 op
    (la.length + 1) _ 0 _ (by simp only [OP_BINARYMIN] at hop; omega) (by omega)
    (by simpa using g1) (by omega) hdv g3' hs5
  have hcb : countBad op ((ls.length : Int) + 1) ↔ ls ≠ [] := by
    unfold countBad
    rw [if_neg (by simp only [OP_NARG]; omega)]
    cases ls with
    | nil => simp
    | cons a b => simp only [List.length_cons]; push_cast; simp
  refine ⟨fun h => ?_, fun h => ?_⟩
  · exact (c2 (fun hb => (hcb.mp hb) h)).1
  · exact c1 (hcb.mpr h)

/-! ## C18: argument counts -/

/-- C37: a comma outside every bracket, or in a bracket that nothing stands in front of,
discards the first value and keeps the second.  For numeric literals `la`, `lb` of values
`va`, `vb`, on every object and with every variable list, the sources `la, lb` and `(la, lb)`
parse with `EQERR_NONE` to the tokens `[va, vb, OP_POP]`; when `0 == 0` holds for the
arithmetic their evaluation returns `EQERR_NONE` with the answer `vb`.  An `OP_POP` token met
with the values `a`, `b` and the dimension vectors `u1`, `u2` on top of the stacks leaves `b`
with `u2` in their place; `1 m, 2 s` and `(1 m, 2 s)` give 2 with the unit text `s`.  The rule
fails for a plain bracket that follows an operator: behind a numeric literal, a blank and any
built-in binary operator the source `(la,lb)` has its comma encoded as a push, although no
function of several arguments is involved, and the closing bracket returns
`EQERR_PARSE_NARGBADCOUNT`, located at the operator.  So `1+(2,3)`, `2*(3,4)`, `1^(2,3)`,
`1||(2,3)` and `-(1,2)` return that error, while `2,3` and `(2,3)` evaluate to 3. -/
theorem C37_comma_discards_first (F : Dbl D) (this : Instance D)
    (vars : Option (List (List Char))) (la lb : List Char) (va vb : D)
    (dVar : Option (List D)) (tfAllowAssign tfAllowDerived : Bool) (dVal0 : D)
    (uUnit0 : UNITBASE D)
    (ha : IsNumber F la va) (hb : IsNumber F lb vb)
    (ho : ∀ rest, F.scanf_lg ('(' :: rest) = none) :
    ((ParseEquation F this (srcComma la lb) vars).1 = EQERR_NONE ∧
      (ParseEquation F this (srcComma la lb) vars).2.pvoEquation =
        [voD VOTYP_VAL va 0, voD VOTYP_VAL vb (la.length + 2),
          voI F VOTYP_OP OP_POP la.length]) ∧
    ((ParseEquation F this (srcCommaBr la lb) vars).1 = EQERR_NONE ∧
      (ParseEquation F this (srcCommaBr la lb) vars).2.pvoEquation =
        [voD VOTYP_VAL va 1, voD VOTYP_VAL vb (la.length + 3),
          voI F VOTYP_OP OP_POP (la.length + 1)]) ∧
    (F.eq (F.lit 0) (F.lit 0) = true →
      (DoEquation F (ParseEquation F this (srcComma la lb) vars).2 dVar tfAllowAssign
        tfAllowDerived dVal0 uUnit0).ret = EQERR_NONE ∧
      (DoEquation F (ParseEquation F this (srcComma la lb) vars).2 dVar tfAllowAssign
        tfAllowDerived dVal0 uUnit0).dAns = some vb ∧
      (DoEquation F (ParseEquation F this (srcCommaBr la lb) vars).2 dVar tfAllowAssign
        tfAllowDerived dVal0 uUnit0).ret = EQERR_NONE ∧
      (DoEquation F (ParseEquation F this (srcCommaBr la lb) vars).2 dVar tfAllowAssign
        tfAllowDerived dVal0 uUnit0).dAns = some vb) ∧
    (∀ (pvo : List (VALOP D)) (len : Int) (e : EState D) (a b : D) (vs : List D)
        (u1 u2 : UNITBASE D) (us : List (UNITBASE D)),
      (pvo.getD e.iThisPt.toNat (voNul F)).uTyp = VOTYP_OP →
      (pvo.getD e.iThisPt.toNat (voNul F)).iVal = OP_POP →
      e.dsVals = b :: a :: vs → e.usUnits = u2 :: u1 :: us →
      evalToken F pvo len tfAllowAssign e =
        { e with dsVals := b :: vs, usUnits := u2 :: us, dVal := b, uUnit := u2 }) ∧
    (∀ (lc : List Char) (vc : D) (t : List Char) (op : Int), IsNumber F lc vc →
      (t, op) ∈ binaryOpText → OP_BINARYMIN ≤ op →
      (ParseEquation F this (lc ++ ' ' :: (t ++ srcCall [] [la, lb])) vars).1
        = EQERR_PARSE_NARGBADCOUNT ∧
      (ParseEquation F this (lc ++ ' ' :: (t ++ srcCall [] [la, lb])) vars).2.iErrorLocation
        = lc.length + 1) ∧
    ((DoEquation Q (ParseEquation Q fresh "1 m, 2 s".toList none).2 none false false
        0 []).ret = EQERR_NONE ∧
      (DoEquation Q (ParseEquation Q fresh "1 m, 2 s".toList none).2 none false false
        0 []).dAns = some 2 ∧
      (DoEquation Q (ParseEquation Q fresh "1 m, 2 s".toList none).2 none false false
        0 []).this.tgt.m_szUnit = ['s'] ∧
      (DoEquation Q (ParseEquation Q fresh "(1 m, 2 s)".toList none).2 none false false
        0 []).dAns = some 2 ∧
      (DoEquation Q (ParseEquation Q fresh "(1 m, 2 s)".toList none).2 none false false
        0 []).this.tgt.m_szUnit = ['s'] ∧
      (ParseEquation Q fresh "1+(2,3)".toList none).1 = EQERR_PARSE_NARGBADCOUNT ∧
      (ParseEquation Q fresh "1+(2,3)".toList none).2.iErrorLocation = 1 ∧
      (ParseEquation Q fresh "2*(3,4)".toList none).1 = EQERR_PARSE_NARGBADCOUNT ∧
      (ParseEquation Q fresh "1^(2,3)".toList none).1 = EQERR_PARSE_NARGBADCOUNT ∧
      (ParseEquation Q fresh "1||(2,3)".toList none).1 = EQERR_PARSE_NARGBADCOUNT ∧
      (ParseEquation Q fresh "-(1,2)".toList none).1 = EQERR_PARSE_NARGBADCOUNT ∧
      (DoEquation Q (ParseEquation Q fresh "2,3".toList none).2 none false false
        0 []).dAns = some 3 ∧
      (DoEquation Q (ParseEquation Q fresh "(2,3)".toList none).2 none false false
        0 []).dAns = some 3) := by
  have hps : ∀ t ∈ [voI F VOTYP_OP OP_POP (la.length : Int), voD VOTYP_VAL vb (la.length + 2),
      voD VOTYP_VAL va 0], isPSH t = false := by
    intro t ht
    simp only [List.mem_cons, List.mem_singleton, List.not_mem_nil, or_false] at ht
    rcases ht with rfl | rfl | rfl <;>
      simp [isPSH, voI, voD, VOTYP_VAL, VOTYP_OP, OP_POP, OP_PSH]
  have hpb : ∀ t ∈ [voI F VOTYP_OP OP_POP ((la.length : Int) + 1),
      voD VOTYP_VAL vb (la.length + 3), voD VOTYP_VAL va 1], isPSH t = false := by
    intro t ht
    simp only [List.mem_cons, List.mem_singleton, List.not_mem_nil, or_false] at ht
    rcases ht with rfl | rfl | rfl <;>
      simp [isPSH, voI, voD, VOTYP_VAL, VOTYP_OP, OP_POP, OP_PSH]
  have h1 := ParseEquation_tokens F this (srcComma la lb) vars _ _ _
    (srcComma_cstr la lb ha.2.1 hb.2.1) (parseScan_comma F vars la lb va vb ha hb) rfl rfl hps
  have h2 := ParseEquation_tokens F this (srcCommaBr la lb) vars _ _ _
    (srcCommaBr_cstr la lb ha.2.1 hb.2.1) (parseScan_comma_br F vars la lb va vb ha hb ho)
    rfl rfl hpb
  have q1 : (ParseEquation F this (srcComma la lb) vars).2.pvoEquation =
      [voD VOTYP_VAL va 0, voD VOTYP_VAL vb (la.length + 2),
        voI F VOTYP_OP OP_POP la.length] := by
    rw [h1.2.1]; rfl
  have q2 : (ParseEquation F this (srcCommaBr la lb) vars).2.pvoEquation =
      [voD VOTYP_VAL va 1, voD VOTYP_VAL vb (la.length + 3),
        voI F VOTYP_OP OP_POP (la.length + 1)] := by
    rw [h2.2.1]; rfl
  refine ⟨⟨h1.1, q1⟩, ⟨h2.1, q2⟩, fun h0 => ?_, ?_,
    fun lc vc t op hc ht hop => (ParseEquation_after_op F this vars lc vc t op la [lb] va [vb]
      hc ht hop ha (List.Forall₂.cons hb List.Forall₂.nil) ho).2 (by simp), ?_⟩
  · have l1 : (ParseEquation F this (srcComma la lb) vars).2.iEqnLength = 3 := by
      rw [h1.2.2.1]; rfl
    have l2 : (ParseEquation F this (srcCommaBr la lb) vars).2.iEqnLength = 3 := by
      rw [h2.2.2.1]; rfl
    obtain ⟨a1, a2, a3⟩ := evalWalk_comma F _ dVar tfAllowAssign dVal0 uUnit0 va vb _ _ _ l1 q1
    obtain ⟨b1, b2, b3⟩ := evalWalk_comma F _ dVar tfAllowAssign dVal0 uUnit0 va vb _ _ _ l2 q2
    have d1 := DoEquation_of_walk F _ dVar tfAllowAssign tfAllowDerived dVal0 uUnit0 _ _ []
      (by rw [l1]; decide) a1 a2 a3 (by rw [h1.2.2.2]; exact h0)
    have d2 := DoEquation_of_walk F _ dVar tfAllowAssign tfAllowDerived dVal0 uUnit0 _ _ []
      (by rw [l2]; decide) b1 b2 b3 (by rw [h2.2.2.2]; exact h0)
    exact ⟨d1.1, d1.2.1, d2.1, d2.2.1⟩
  · intro pvo len e a b vs u1 u2 us g1 g2 g3 g4
    rw [evalToken_binary F pvo len _ e OP_POP g1 g2 (by decide) (by decide)]
    exact evalBinary_pop F e a b vs u1 u2 us g3 g4
  · decide!

theorem C37_witness :
    IsNumber Q ['1'] 1 ∧ IsNumber Q ['2'] 2 ∧ (∀ rest, Q.scanf_lg ('(' :: rest) = none) ∧
    (ParseEquation Q fresh (srcCommaBr ['1'] ['2']) none).1 = EQERR_NONE ∧
    (DoEquation Q (ParseEquation Q fresh (srcCommaBr ['1'] ['2']) none).2 none false false
      0 []).dAns = some 2 :=
  ⟨IsNumber_Q_123.1, IsNumber_Q_123.2.1,
    fun rest => by simp [Q, ratDbl, scanNat, scanDigits],
    (C37_comma_discards_first Q fresh none ['1'] ['2'] 1 2 none false false 0 []
      IsNumber_Q_123.1 IsNumber_Q_123.2.1
      (fun rest => by simp [Q, ratDbl, scanNat, scanDigits])).2.1.1,
    ((C37_comma_discards_first Q fresh none ['1'] ['2'] 1 2 none false false 0 []
      IsNumber_Q_123.1 IsNumber_Q_123.2.1
      (fun rest => by simp [Q, ratDbl, scanNat, scanDigits])).2.2.1 (by decide!)).2.2.2⟩

/-! ## C15: the end of the parse -/

/-- C15 (as stated, refuted): the three errors do not follow from the shape of the source
alone, since an earlier error of the scan is kept.  The source `)` is a closing bracket with
no open bracket and fails with `EQERR_PARSE_NUMBEREXPECTED`; `(1 2` has more opening than
closing brackets and fails with `EQERR_PARSE_BINARYOPEXPECTED`; in `(sin` a function name is
not followed by a bracket and the parse fails with `EQERR_PARSE_BRACKETSOPEN`. -/
theorem C15_counterexample :
    ((ParseEquation Q fresh ")".toList none).1 = EQERR_PARSE_NUMBEREXPECTED ∧
      (ParseEquation Q fresh ")".toList none).1 ≠ EQERR_PARSE_UNOPENEDBRACKET) ∧
    ((ParseEquation Q fresh "(1 2".toList none).1 = EQERR_PARSE_BINARYOPEXPECTED ∧
      (ParseEquation Q fresh "(1 2".toList none).1 ≠ EQERR_PARSE_BRACKETSOPEN) ∧
    ((ParseEquation Q fresh "(sin".toList none).1 = EQERR_PARSE_BRACKETSOPEN ∧
      (ParseEquation Q fresh "(sin".toList none).1 ≠ EQERR_PARSE_BRACKETEXPECTED) := by
  decide!

/-! ## C20: the target unit -/

/-- C20 (as stated, refuted): in the arithmetic of `double` the source `100 degC # degF` does
not yield 212.  The raw answer is `273.15 + 100`, the target offset is
`273.15 - 5.0/9.0*32.0` and the target scale `5.0/9.0`, each rounded to a `double`; the
quotient `(v - offset) / scale` rounds to the `double` next below 212, which is
`212 - 2^-45 = 211.99999999999997`. -/
theorem C20_counterexample :
    (ParseEquation R64 fresh "100 degC # degF".toList none).1 = EQERR_NONE ∧
    (DoEquation R64 (ParseEquation R64 fresh "100 degC # degF".toList none).2 none false false
      0 []).ret = EQERR_NONE ∧
    (DoEquation R64 (ParseEquation R64 fresh "100 degC # degF".toList none).2 none false false
      0 []).dAns = some (212 - 1 / 2 ^ 45) ∧
    (DoEquation R64 (ParseEquation R64 fresh "100 degC # degF".toList none).2 none false false
      0 []).dAns ≠ some 212 := by
  decide!

/-- C20 (amended): the target-unit clause of `DoEquation`.  For an object with a non-empty
token array whose target scale is not zero and whose token walk ends without an error with at
most one value on the stack, with `v` the value and `u` the dimension vector popped as the raw
answer: when `u` differs from the target vector in one of the seven components, `DoEquation`
returns `EQERR_EVAL_UNITMISMATCH`, stores no answer and sets the error location to the length
of the source; otherwise it returns `EQERR_NONE`, stores `(v - m_dOffsTarget) / m_dScleTarget`
as the arithmetic computes it and leaves the unit text as the parse stored it.  In the
arithmetic of `double` the source `100 degC # degF` parses with the target scale `5.0/9.0` and
evaluates to `212 - 2^-45 = 211.99999999999997`, which `%g` prints as `212`, with the unit text
`degF` (the value is 212 in exact arithmetic only); `1 km # m` evaluates to 1000, and `1 m # s`
returns `EQERR_EVAL_UNITMISMATCH`. -/
theorem C20_target_unit_clause (F : Dbl D) (this : Instance D) (dVar : Option (List D))
    (tfAllowAssign tfAllowDerived : Bool) (dVal0 : D) (uUnit0 : UNITBASE D)
    (h0 : 0 < this.iEqnLength)
    (hs : F.eq this.tgt.m_dScleTarget (F.lit 0) = false)
    (he : (evalWalk F this dVar tfAllowAssign dVal0 uUnit0).iError = EQERR_NONE)
    (hl : (evalWalk F this dVar tfAllowAssign dVal0 uUnit0).dsVals.length ≤ 1) :
    (UnitsDiffer F this.tgt.m_uUnitTarget
        (Pop (uUnitZero F) (evalWalk F this dVar tfAllowAssign dVal0 uUnit0).usUnits).1 →
      (DoEquation F this dVar tfAllowAssign tfAllowDerived dVal0 uUnit0).ret
        = EQERR_EVAL_UNITMISMATCH ∧
      (DoEquation F this dVar tfAllowAssign tfAllowDerived dVal0 uUnit0).dAns = none ∧
      (DoEquation F this dVar tfAllowAssign tfAllowDerived dVal0 uUnit0).this.iErrorLocation
        = ((this.pszSrcEquation.getD []).length : Int)) ∧
    (¬ UnitsDiffer F this.tgt.m_uUnitTarget
        (Pop (uUnitZero F) (evalWalk F this dVar tfAllowAssign dVal0 uUnit0).usUnits).1 →
      (DoEquation F this dVar tfAllowAssign tfAllowDerived dVal0 uUnit0).ret = EQERR_NONE ∧
      (DoEquation F this dVar tfAllowAssign tfAllowDerived dVal0 uUnit0).dAns =
        some (F.div
          (F.sub (Pop (F.lit 0) (evalWalk F this dVar tfAllowAssign dVal0 uUnit0).dsVals).1
            this.tgt.m_dOffsTarget)
          this.tgt.m_dScleTarget) ∧
      (DoEquation F this dVar tfAllowAssign tfAllowDerived dVal0 uUnit0).this.tgt = this.tgt) ∧
    ((ParseEquation R64 fresh "100 degC # degF".toList none).1 = EQERR_NONE ∧
      (ParseEquation R64 fresh "100 degC # degF".toList none).2.tgt.m_szUnit = "degF".toList ∧
      (ParseEquation R64 fresh "100 degC # degF".toList none).2.tgt.m_dScleTarget
        = rnd64 (5 / 9) ∧
      (DoEquation R64 (ParseEquation R64 fresh "100 degC # degF".toList none).2 none false false
        0 []).ret = EQERR_NONE ∧
      (DoEquation R64 (ParseEquation R64 fresh "100 degC # degF".toList none).2 none false false
        0 []).dAns = some (212 - 1 / 2 ^ 45) ∧
      fmtG (212 - 1 / 2 ^ 45) = "212".toList ∧
      (DoEquation R64 (ParseEquation R64 fresh "100 degC # degF".toList none).2 none false false
        0 []).this.tgt.m_szUnit = "degF".toList ∧
      (DoEquation Q (ParseEquation Q fresh "100 degC # degF".toList none).2 none false false
        0 []).dAns = some 212 ∧
      (DoEquation R64 (ParseEquation R64 fresh "1 km # m".toList none).2 none false false
        0 []).dAns = some 1000 ∧
      (ParseEquation R64 fresh "1 m # s".toList none).1 = EQERR_NONE ∧
      (DoEquation R64 (ParseEquation R64 fresh "1 m # s".toList none).2 none false false
        0 []).ret = EQERR_EVAL_UNITMISMATCH) := by
  have hn : ¬ (this.iEqnLength ≤ 0) := by omega
  have hc : ¬ ((evalWalk F this dVar tfAllowAssign dVal0 uUnit0).iError = EQERR_NONE ∧
      ((evalWalk F this dVar tfAllowAssign dVal0 uUnit0).dsVals.length : Int) > 1) := by
    intro h
    have := h.2
    omega
  refine ⟨fun hd => ?_, fun hd => ?_,
    by decide!⟩
  · have hq := (unitsEq_false_iff F _ _).mpr hd
    unfold DoEquation
    dsimp only
    rw [if_neg hn, if_neg hc, if_neg (not_not.mpr he)]
    simp only [hs, hq, Bool.not_false, if_true]
    exact ⟨trivial, trivial, trivial⟩
  · have hq : unitsEq F this.tgt.m_uUnitTarget
        (Pop (uUnitZero F) (evalWalk F this dVar tfAllowAssign dVal0 uUnit0).usUnits).1
        = true := by
      cases hq : unitsEq F this.tgt.m_uUnitTarget
        (Pop (uUnitZero F) (evalWalk F this dVar tfAllowAssign dVal0 uUnit0).usUnits).1
      · exact absurd ((unitsEq_false_iff F _ _).mp hq) hd
      · rfl
    unfold DoEquation
    dsimp only
    rw [if_neg hn, if_neg hc, if_neg (not_not.mpr he)]
    simp only [hs, hq, Bool.not_false, Bool.not_true, if_true, Bool.false_eq_true, if_false]
    exact ⟨trivial, trivial, trivial⟩

theorem C20_witness :
    (DoEquation R64 (ParseEquation R64 fresh "100 degC # degF".toList none).2 none false false
      0 []).ret = EQERR_NONE ∧
    (DoEquation R64 (ParseEquation R64 fresh "100 degC # degF".toList none).2 none false false
      0 []).dAns = some (212 - 1 / 2 ^ 45) ∧
    (DoEquation R64 (ParseEquation R64 fresh "2 s # m".toList none).2 none false false
      0 []).ret = EQERR_EVAL_UNITMISMATCH :=
  have h := C20_target_unit_clause R64 (ParseEquation R64 fresh "100 degC # degF".toList none).2
    none false false 0 [] (by decide!) (by decide!) (by decide!) (by decide!)
  have g := h.2.1 (by
    rintro ⟨i, hi, h⟩
    have hi2 : i < 7 := hi
    interval_cases i <;> exact absurd h (by decide!))
  ⟨g.1, g.2.1.trans (by decide!),
    ((C20_target_unit_clause R64 (ParseEquation R64 fresh "2 s # m".toList none).2 none
      false false 0 [] (by decide!) (by decide!) (by decide!) (by decide!)).1
      ⟨1, by decide, by decide!⟩).1⟩

/-! ## C35: the answer unit text -/

/-- C35 (as stated, refuted): the formatted text does not represent the input vector exactly,
because `%g` prints an exponent with six significant digits.  In the arithmetic of `double` the
source `(8 m)^(1/3)` evaluates to a value whose dimension vector has the `double` nearest to
one third as exponent of the metre, and the unit text is `m0.333333`; the vector whose
exponent of the metre is the `double` nearest to 0.333333 is another vector and is formatted to
the same text. -/
theorem C35_counterexample :
    (ParseEquation R64 fresh "(8 m)^(1/3)".toList none).1 = EQERR_NONE ∧
    (evalWalk R64 (ParseEquation R64 fresh "(8 m)^(1/3)".toList none).2 none false 0 []).usUnits
      = [[0, rnd64 (1 / 3), 0, 0, 0, 0, 0]] ∧
    (DoEquation R64 (ParseEquation R64 fresh "(8 m)^(1/3)".toList none).2 none false false
      0 []).ret = EQERR_NONE ∧
    (DoEquation R64 (ParseEquation R64 fresh "(8 m)^(1/3)".toList none).2 none false false
      0 []).this.tgt.m_szUnit = "m0.333333".toList ∧
    _AnswerUnitString R64 [] [0, rnd64 (1 / 3), 0, 0, 0, 0, 0] false = "m0.333333".toList ∧
    _AnswerUnitString R64 [] [0, rnd64 (333333 / 1000000), 0, 0, 0, 0, 0] false
      = "m0.333333".toList ∧
    rnd64 (1 / 3) ≠ rnd64 (333333 / 1000000) ∧
    rnd64 (1 / 3) ≠ 333333 / 1000000 := by
  decide!

/-! ## C27: the unit formula -/

/-- C27 (as stated, refuted): in the arithmetic of `double` the scale returned is not the
quotient of the two products.  For `m/g in` the scan reads the metre in the numerator and the
gram (scale `1.0e-3`) and the inch (scale `2.54e-2`) in the denominator; the scale returned is
`(1 / 1.0e-3) / 2.54e-2 = 39370.078740157485`, while the product over the numerator divided by
the product over the denominator is `1 / (1.0e-3 * 2.54e-2) = 39370.07874015748`, the next
`double` below. -/
theorem C27_counterexample :
    (_StringToUnit R64 "m/g in".toList fresh.tgt).iError = EQERR_NONE ∧
    (unitAtoms R64 "m/g in".toList).map atomOut
      = [(1, 1, 1, 1), (-1, 16, rnd64 (1 / 1000), 1), (-1, 24, rnd64 (254 / 10000), 1)] ∧
    (_StringToUnit R64 "m/g in".toList fresh.tgt).tgt.m_dScleTarget
      = R64.div (R64.div (R64.lit 1) (R64.lit (1 / 1000))) (R64.lit (254 / 10000)) ∧
    (_StringToUnit R64 "m/g in".toList fresh.tgt).tgt.m_dScleTarget
      = 5410982420157481 / 137438953472 ∧
    R64.div (R64.lit 1) (R64.mul (R64.lit (1 / 1000)) (R64.lit (254 / 10000)))
      = 676372802519685 / 17179869184 ∧
    (_StringToUnit R64 "m/g in".toList fresh.tgt).tgt.m_dScleTarget
      ≠ R64.div (R64.lit 1) (R64.mul (R64.lit (1 / 1000)) (R64.lit (254 / 10000))) ∧
    (_StringToUnit R64 "m/g in".toList fresh.tgt).tgt.m_dScleTarget
      ≠ unitScale R64 (numerator (unitAtoms R64 "m/g in".toList))
          (denominator (unitAtoms R64 "m/g in".toList)) := by
  decide!

/-! ## C35: the entries of the answer unit text -/

theorem rnd64_zero : rnd64 0 = 0 := by
  unfold rnd64
  rw [if_pos rfl]

theorem rnd64_neg (q : ℚ) : rnd64 (-q) = -rnd64 q := by
  by_cases h : q = 0
  · subst h
    simp [rnd64_zero]
  · have h2 : ¬ (-q = 0) := fun c => h (neg_eq_zero.mp c)
    unfold rnd64
    rw [if_neg h, if_neg h2]
    simp only [Rat.neg_num, Int.natAbs_neg, Rat.neg_den]
    rcases lt_or_gt_of_ne h with hn | hp
    · have c1 : ¬ (-q < 0) := by
        intro c
        have := neg_lt_zero.mp c
        exact lt_asymm hn this
      rw [if_neg c1, if_pos hn, neg_neg]
    · have c1 : -q < 0 := neg_lt_zero.mpr hp
      have c2 : ¬ (q < 0) := fun c => lt_asymm hp c
      rw [if_pos c1, if_neg c2]

theorem unitArith_ratDbl (L : Libm) : UnitArith (ratDbl L) (fun _ => True) := by
  refine ⟨rfl, rfl, rfl, trivial, fun _ _ => rfl, fun _ _ => rfl, fun _ _ => rfl, fun x _ => ?_⟩
  refine ⟨?_, ?_, ?_, ?_, ?_, ?_, ?_⟩
  · show x / 1 = x
    rw [div_one]
  · show x * 1 = x
    rw [mul_one]
  · show x * 0 = 0
    rw [mul_zero]
  · show x - 0 = x
    rw [sub_zero]
  · show x - x = 0
    rw [sub_self]
  · show 1 * x = x
    rw [one_mul]
  · show -1 * x = -x
    rw [neg_one_mul]

theorem unitArith_ieeeDbl (L : Libm) : UnitArith (ieeeDbl L) (fun x => rnd64 x = x) := by
  have h1 : rnd64 1 = 1 := by decide!
  have hm1 : rnd64 (-1) = -1 := by rw [rnd64_neg, h1]
  refine ⟨rnd64_zero, h1, hm1, rnd64_zero, fun _ _ => rfl, fun _ _ => rfl, fun _ _ => rfl,
    fun x hx => ?_⟩
  refine ⟨?_, ?_, ?_, ?_, ?_, ?_, ?_⟩
  · show rnd64 (x / 1) = x
    rw [div_one, hx]
  · show rnd64 (x * 1) = x
    rw [mul_one, hx]
  · show rnd64 (x * 0) = 0
    rw [mul_zero, rnd64_zero]
  · show rnd64 (x - 0) = x
    rw [sub_zero, hx]
  · show rnd64 (x - x) = 0
    rw [sub_self, rnd64_zero]
  · show rnd64 (1 * x) = x
    rw [one_mul, hx]
  · show rnd64 (-1 * x) = -x
    rw [neg_one_mul, rnd64_neg, hx]

/-- The rows of the base units in `CEquationSIUnit`: the exponent one on the own axis, zero on
the others. -/
theorem SIUnit_base_lit (F : Dbl D) (i j : Nat) (hi : i < EQSI_NUMUNIT_BASE)
    (hj : j < EQSI_NUMUNIT_BASE) :
    SIUnit F (i : Int) j = if i = j then F.lit 1 else F.lit 0 := by
  have hi7 : i < 7 := hi
  have hj7 : j < 7 := hj
  interval_cases i <;> interval_cases j <;> rfl

theorem itemsPower_base_on (F : Dbl ℚ) (Rep : ℚ → Prop) (hF : UnitArith F Rep) (dd : List ℚ)
    (k : Int) (hk : k = 1 ∨ k = -1) (a : Nat) (ha : a < EQSI_NUMUNIT_BASE)
    (hr : Rep (dd.getD a 0)) :
    itemsPower (fmtBaseItems F dd k) a =
      if (k : ℚ) * dd.getD a 0 ≤ 0 then 0 else (k : ℚ) * ((k : ℚ) * dd.getD a 0) := by
  obtain ⟨l0, l1, lm, _, _, _, fle, hx⟩ := hF
  have hmul : F.mul (F.lit k) (dd.getD a 0) = (k : ℚ) * dd.getD a 0 := by
    rcases hk with rfl | rfl
    · rw [show ((1 : Int) : ℚ) = 1 by norm_num, l1, (hx _ hr).2.2.2.2.2.1, one_mul]
    · rw [show ((-1 : Int) : ℚ) = -1 by norm_num, lm, (hx _ hr).2.2.2.2.2.2, neg_one_mul]
  unfold fmtBaseItems
  rw [itemsPower_filterMap _ _ _ (List.nodup_range _) a, if_pos (List.mem_range.mpr ha)]
  · simp only [fle, l0, hmul]
    by_cases c : (k : ℚ) * dd.getD a 0 ≤ 0
    · rw [if_pos (decide_eq_true c), if_pos c]
    · rw [if_neg (fun h => c (of_decide_eq_true h)), if_neg c]
  · intro x it h
    split_ifs at h
    simp only [Option.some.injEq] at h
    rw [← h]

theorem itemsPower_matched_on (F : Dbl ℚ) (m : UnitMin ℚ) (k : Int) (a : Nat) :
    itemsPower (fmtMatchedItems F m k) a =
      if m.indxUnitMin ≥ 0 ∧ dSIGN F m.dSclUnitMin = k ∧ m.indxUnitMin.toNat = a then
        (k : ℚ) * F.mul (F.lit k) m.dSclUnitMin
      else 0 := by
  unfold fmtMatchedItems
  by_cases c : m.indxUnitMin ≥ 0 ∧ dSIGN F m.dSclUnitMin = k
  · rw [if_pos c]
    by_cases e : m.indxUnitMin.toNat = a
    · rw [if_pos ⟨c.1, c.2, e⟩]
      simp [itemsPower, e]
    · rw [if_neg (fun h => e h.2.2)]
      simp [itemsPower, e]
  · rw [if_neg c, if_neg (fun h => c ⟨h.1, h.2.1⟩)]
    rfl

theorem dSIGN_on (F : Dbl ℚ) (Rep : ℚ → Prop) (hF : UnitArith F Rep) (x : ℚ) :
    dSIGN F x = if x = 0 then 0 else if 0 < x then 1 else -1 := by
  obtain ⟨l0, _, _, _, feq, flt, _, _⟩ := hF
  unfold dSIGN
  rw [feq, flt, l0]
  simp only [decide_eq_true_eq]

/-- Without derived units the entries of the formatted text stand for the input vector, in
every arithmetic that is exact on the operations with zero and one: for each of the seven
axes the exponents of its entries, those of the denominator line negated, add up to the
exponent of the input. -/
theorem answerItems_exact_on (F : Dbl ℚ) (Rep : ℚ → Prop) (hF : UnitArith F Rep)
    (u : UNITBASE ℚ) (hu : ∀ x ∈ u, Rep x) (a : Nat) (ha : a < EQSI_NUMUNIT_BASE) :
    itemsPower (answerItems F u false) a = u.getD a 0 := by
  have hF' := hF
  obtain ⟨l0, l1, lm, r0, feq, flt, fle, hx⟩ := hF
  have hrep : ∀ j, Rep (u.getD j 0) := by
    intro j
    rw [List.getD_eq_getElem?_getD]
    cases hj : u[j]? with
    | none => exact r0
    | some y => exact hu y (List.mem_iff_getElem?.mpr ⟨j, hj⟩)
  have hcopy : ∀ j, j < EQSI_NUMUNIT_BASE → (unitCopy F u).getD j 0 = u.getD j 0 := by
    intro j hj
    have := unitCopy_getD F u j hj
    rw [l0] at this
    exact this
  have hu0 := hcopy a ha
  have hsb : ∀ i j, i < EQSI_NUMUNIT_BASE → j < EQSI_NUMUNIT_BASE →
      SIUnit F (i : Int) j = if i = j then 1 else 0 := by
    intro i j hi hj
    rw [SIUnit_base_lit F i j hi hj, l0, l1]
  unfold answerItems
  dsimp only
  rw [itemsPower_append, itemsPower_append, itemsPower_append, itemsPower_matched_on,
    itemsPower_matched_on]
  rcases unitSearch_cases F (unitCopy F u) false with ⟨h, h2⟩ | ⟨p, hp, hv, h⟩
  · rw [h]
    have hz : (unitCopy F u).getD a 0 = 0 := by
      have hq : ((a, a) : Nat × Nat) ∈ unitPairs false := by
        unfold unitPairs
        simp only [Bool.false_eq_true, if_false, List.mem_flatMap, List.mem_map, List.mem_range]
        exact ⟨a, ha, a, ha, rfl⟩
      have hk : unitKeep F (unitCand F (unitCopy F u) (a, a)) (unitInit F) = true := by
        have hc := unitScore_count F (unitCopy F u) a a
          (F.div ((unitCopy F u).getD a (F.lit 0)) (SIUnit F (a : Int) a))
        have hlt : (unitCand F (unitCopy F u) (a, a)).iNumUnitMin
            < (unitInit F).iNumUnitMin := by
          show (unitScore F (unitCopy F u) a a _).1 < 9999
          exact lt_of_le_of_lt hc (by decide)
        unfold unitKeep
        simp [hlt]
      have hval := h2 (a, a) hq
      rw [hk, Bool.and_true] at hval
      unfold unitValid at hval
      have hs := hsb a a ha ha
      rw [if_pos rfl] at hs
      simp only [hs, feq, l0] at hval
      simpa using hval
    have hr : unitResidual F (unitCopy F u) (unitInit F) = unitCopy F u := by
      unfold unitResidual
      rw [if_neg (show ¬ ((unitInit F).indxUnitMin ≥ 0) by
        show ¬ ((-1 : Int) ≥ 0)
        decide)]
    have hi : ¬ ((unitInit F).indxUnitMin ≥ 0) := by
      show ¬ ((-1 : Int) ≥ 0)
      decide
    rw [hr, itemsPower_base_on F Rep hF' _ 1 (Or.inl rfl) a ha (by rw [hz]; exact r0),
      itemsPower_base_on F Rep hF' _ (-1) (Or.inr rfl) a ha (by rw [hz]; exact r0), hz, ← hu0, hz]
    simp only [hi, false_and, if_false]
    norm_num
  · obtain ⟨hi, hj⟩ := unitPairs_base p hp
    obtain ⟨i, j⟩ := p
    simp only at hi hj
    have hs := hsb i j hi hj
    have hv2 : (unitCopy F u).getD j 0 ≠ 0 ∧ i = j := by
      unfold unitValid at hv
      simp only [hs, feq, l0] at hv
      simp only [Bool.not_eq_true', Bool.or_eq_false_iff, decide_eq_false_iff_not] at hv
      refine ⟨hv.1, ?_⟩
      by_contra hne
      exact hv.2 (by rw [if_neg hne])
    obtain ⟨hne, rfl⟩ := hv2
    have hs2 : SIUnit F (i : Int) i = 1 := by
      rw [hsb i i hi hi, if_pos rfl]
    have hri : Rep ((unitCopy F u).getD i 0) := by
      rw [hcopy i hi]
      exact hrep i
    have hra : Rep ((unitCopy F u).getD a 0) := by
      rw [hu0]
      exact hrep a
    have hidx : (unitSearch F (unitCopy F u) false).indxUnitMin = (i : Int) := by
      rw [h]; rfl
    have hscl : (unitSearch F (unitCopy F u) false).dSclUnitMin = (unitCopy F u).getD i 0 := by
      rw [h]
      show F.div ((unitCopy F u).getD i (F.lit 0)) (SIUnit F (i : Int) i) = _
      rw [hs2, l0, (hx _ hri).1]
    have hge : (unitSearch F (unitCopy F u) false).indxUnitMin ≥ 0 := by
      rw [hidx]; exact Int.natCast_nonneg i
    have hres := unitResidual_getD F (unitCopy F u) _ a ha hge
    have hres2 : (unitResidual F (unitCopy F u) (unitSearch F (unitCopy F u) false)).getD a 0
        = if i = a then 0 else (unitCopy F u).getD a 0 := by
      rw [l0] at hres
      rw [hres, hidx, hscl, hsb i a hi ha]
      by_cases e : i = a
      · subst e
        rw [if_pos rfl, if_pos rfl, (hx _ hri).2.1, (hx _ hri).2.2.2.2.1]
      · rw [if_neg e, if_neg e, (hx _ hri).2.2.1, (hx _ hra).2.2.2.1]
    have hrr : Rep ((unitResidual F (unitCopy F u)
        (unitSearch F (unitCopy F u) false)).getD a 0) := by
      rw [hres2]
      split_ifs
      · exact r0
      · exact hra
    have hnn : (i : Int) ≥ 0 := Int.natCast_nonneg i
    rw [itemsPower_base_on F Rep hF' _ 1 (Or.inl rfl) a ha hrr,
      itemsPower_base_on F Rep hF' _ (-1) (Or.inr rfl) a ha hrr]
    have m1 : F.mul (F.lit ((1 : Int) : ℚ)) ((unitCopy F u).getD i 0)
        = (unitCopy F u).getD i 0 := by
      rw [show ((1 : Int) : ℚ) = 1 by norm_num, l1, (hx _ hri).2.2.2.2.2.1]
    have m2 : F.mul (F.lit ((-1 : Int) : ℚ)) ((unitCopy F u).getD i 0)
        = -(unitCopy F u).getD i 0 := by
      rw [show ((-1 : Int) : ℚ) = -1 by norm_num, lm, (hx _ hri).2.2.2.2.2.2]
    by_cases e : i = a
    · subst e
      rw [hres2, hidx, hscl, dSIGN_on F Rep hF', Int.toNat_natCast, m1, m2, ← hu0]
      generalize (unitCopy F u).getD i 0 = y at *
      simp only [if_true, mul_zero, le_refl, hnn, true_and, and_true, hne, if_false]
      rcases lt_or_gt_of_ne hne with hneg | hpos
      · have h1 : ¬ (0 < y) := not_lt.mpr (le_of_lt hneg)
        simp only [h1, if_false]
        norm_num
      · simp only [hpos, if_true]
        norm_num
    · rw [hres2, hidx, hscl, dSIGN_on F Rep hF', Int.toNat_natCast, ← hu0]
      generalize (unitCopy F u).getD a 0 = x at *
      generalize (unitCopy F u).getD i 0 = y at *
      simp only [e, if_false, and_false]
      rcases lt_trichotomy x 0 with hx | hx | hx
      · have g1 : ((1 : Int) : ℚ) * x ≤ 0 := by push_cast; linarith
        have g2 : ¬ (((-1 : Int) : ℚ) * x ≤ 0) := by push_cast; linarith
        simp only [g1, g2, if_true, if_false]
        push_cast
        ring
      · subst hx
        norm_num
      · have g1 : ¬ (((1 : Int) : ℚ) * x ≤ 0) := by push_cast; linarith
        have g2 : ((-1 : Int) : ℚ) * x ≤ 0 := by push_cast; linarith
        simp only [g1, g2, if_true, if_false]
        push_cast
        ring

/-- C35 (amended): without derived units the unit `_AnswerUnitString` chooses has an index
below 7 (a base unit, or -1 when no axis is used), on every arithmetic and for every input; the
text it returns is then got from the content of `m_szUnit` by appending blanks, solidi, names
of base units and outputs of `%g` only, and by cutting a trailing solidus.  The text is the two
lines of entries of `answerLines` (on each line the chosen unit first, then the axes left
after the scale times the chosen unit has been subtracted).  These entries stand for the input
vector exactly, in exact arithmetic for every vector and in the arithmetic of `double` for
every vector of `double`s: for each of the seven axes the exponents handed to `%g` for its
entries, those of the denominator line negated, add up to the exponent of the input.  The
vector of `kg m2/A2 s3` is formatted as `kg m2/A2 s3` from the entries `kg` 1, `m` 2 on the
numerator line and `A` 2, `s` 3 on the denominator line.  The text itself shows each exponent
as `%g` prints it, with six significant digits: in the arithmetic of `double` the vector of
`(8 m)^(1/3)` has the one entry `m` with the `double` nearest to one third, and the text is
`m0.333333`. -/
theorem C35_base_units_only (F : Dbl D) (L : Libm) (m_szUnit : List Char)
    (puUnit : UNITBASE D) (u : UNITBASE ℚ) :
    (unitSearch F (unitCopy F puUnit) false).indxUnitMin < EQSI_NUMUNIT_BASE ∧
    OnlyBase F m_szUnit (_AnswerUnitString F m_szUnit puUnit false) ∧
    (_AnswerUnitString F m_szUnit puUnit false =
      if (answerLines F m_szUnit puUnit false).getLast? = some '/' then
        (answerLines F m_szUnit puUnit false).dropLast
      else answerLines F m_szUnit puUnit false) ∧
    (List.range EQSI_NUMUNIT_BASE).map (itemsPower (answerItems (ratDbl L) u false))
      = (List.range EQSI_NUMUNIT_BASE).map (fun j => u.getD j 0) ∧
    ((∀ x ∈ u, rnd64 x = x) →
      (List.range EQSI_NUMUNIT_BASE).map (itemsPower (answerItems (ieeeDbl L) u false))
        = (List.range EQSI_NUMUNIT_BASE).map (fun j => u.getD j 0)) ∧
    (_AnswerUnitString Q [] [1, 2, -2, -3, 0, 0, 0] false = "kg m2/A2 s3".toList ∧
      (answerItems Q [1, 2, -2, -3, 0, 0, 0] false).map (fun it => (it.k, it.iName, it.dPwr))
        = [(1, 0, 1), (1, 1, 2), (-1, 2, 2), (-1, 3, 3)] ∧
      (unitSearch Q (unitCopy Q [1, 2, -2, -3, 0, 0, 0]) false).indxUnitMin = 0 ∧
      _AnswerUnitString R64 [] [1, 2, -2, -3, 0, 0, 0] false = "kg m2/A2 s3".toList ∧
      (answerItems R64 [1, 2, -2, -3, 0, 0, 0] false).map (fun it => (it.k, it.iName, it.dPwr))
        = [(1, 0, 1), (1, 1, 2), (-1, 2, 2), (-1, 3, 3)] ∧
      (answerItems R64 [0, rnd64 (1 / 3), 0, 0, 0, 0, 0] false).map
        (fun it => (it.k, it.iName, it.dPwr)) = [(1, 1, rnd64 (1 / 3))] ∧
      _AnswerUnitString R64 [] [0, rnd64 (1 / 3), 0, 0, 0, 0, 0] false
        = "m0.333333".toList) := by
  refine ⟨unitSearch_base F _, AnswerUnitString_onlyBase F m_szUnit puUnit,
    AnswerUnitString_items F m_szUnit puUnit false, ?_, fun hu => ?_, ?_⟩
  · apply List.map_congr_left
    intro a ha
    exact answerItems_exact_on (ratDbl L) _ (unitArith_ratDbl L) u (fun _ _ => trivial) a
      (List.mem_range.mp ha)
  · apply List.map_congr_left
    intro a ha
    exact answerItems_exact_on (ieeeDbl L) _ (unitArith_ieeeDbl L) u hu a (List.mem_range.mp ha)
  · decide!

theorem C35_witness :
    (∀ x ∈ [0, rnd64 (1 / 3), 0, 0, 0, 0, 0], rnd64 x = x) ∧
    (List.range EQSI_NUMUNIT_BASE).map
        (itemsPower (answerItems R64 [0, rnd64 (1 / 3), 0, 0, 0, 0, 0] false))
      = (List.range EQSI_NUMUNIT_BASE).map
        (fun j => ([0, rnd64 (1 / 3), 0, 0, 0, 0, 0] : List ℚ).getD j 0) :=
  ⟨by decide!,
    (C35_base_units_only Q libm0 [] [] [0, rnd64 (1 / 3), 0, 0, 0, 0, 0]).2.2.2.2.1
      (by decide!)⟩

/-! ## C27: the atoms of a written unit string -/

theorem unitNames_letters :
    ∀ v ∈ CEquationSIUnitStr.take EQSI_NUMUNIT_INPUT, ∀ x ∈ v, strchr EQ_VALIDUNIT x = true := by
  decide

theorem prefixChar_props : ∀ k < EQSI_NUMUNIT_PREFIX,
    findPrefixIdx (prefixChar k) = some k ∧ strchr EQ_VALIDUNIT (prefixChar k) = true := by
  decide

theorem SIUnit_no_offset (F : Dbl D) (i : Nat) (hi : i < EQSI_NUMUNIT_INPUT) (h18 : i ≠ 18)
    (h19 : i ≠ 19) : SIUnit F (i : Int) (EQSI_NUMUNIT_BASE + 1) = F.lit 0 := by
  have hi26 : i < 26 := hi
  interval_cases i <;> first | rfl | exact absurd rfl h18 | exact absurd rfl h19

theorem head_not_letter (tl : List Char) (v : List Char)
    (hv : ∀ x ∈ v, strchr EQ_VALIDUNIT x = true)
    (htl : ∀ x, tl.head? = some x → strchr EQ_VALIDUNIT x = false) :
    ∀ x, tl.head? = some x → x ∉ v := by
  intro x hx hm
  have := hv x hm
  rw [htl x hx] at this
  exact Bool.false_ne_true this

/-- The search loop at the name of a unit without offset, when no offset has been read. -/
theorem s2uMatch_name (F : Dbl D) (hF : UnitScanArith F) (s : S2U D) (i : Nat) (tl : List Char)
    (hi : i < EQSI_NUMUNIT_INPUT) (h18 : i ≠ 18) (h19 : i ≠ 19)
    (hp : s.psz = unitName i ++ tl)
    (htl : ∀ x, tl.head? = some x → strchr EQ_VALIDUNIT x = false)
    (hO : s.dOffset = F.lit 0) :
    s2uMatch F s ((unitName i).length : Int) =
      ({ s with
          iUnit := (i : Int),
          uUnitCur := SIUnitBase F (i : Int),
          dSclCur := F.mul s.dSclCur (SIUnit F (i : Int) EQSI_NUMUNIT_BASE),
          dOffset := F.lit 0,
          szUnitOut := s.szUnitOut ++ unitName i,
          psz := tl,
          iOff := s.iOff + (unitName i).length }, true) := by
  obtain ⟨h0, hadd, _, _⟩ := hF
  obtain ⟨_, _, hsplit, hpre, _⟩ := unitName_props i hi
  have hfind : findName s.psz ((unitName i).length : Int)
      (CEquationSIUnitStr.take EQSI_NUMUNIT_INPUT) 0 = some (i, unitName i) := by
    have hlen : ((CEquationSIUnitStr.take EQSI_NUMUNIT_INPUT).take i).length = i := by
      rw [List.length_take]
      have : (CEquationSIUnitStr.take EQSI_NUMUNIT_INPUT).length = 26 := by decide
      rw [this]
      exact Nat.min_eq_left (le_of_lt hi)
    have := findName_first (unitName i) tl
      ((CEquationSIUnitStr.take EQSI_NUMUNIT_INPUT).take i)
      ((CEquationSIUnitStr.take EQSI_NUMUNIT_INPUT).drop (i + 1)) 0
      (fun v hv => ⟨hpre v hv, head_not_letter tl v
        (unitNames_letters v (List.mem_of_mem_take hv)) htl⟩)
    rw [← hsplit, hlen, Nat.zero_add] at this
    rw [hp]
    exact this
  have hoff := SIUnit_no_offset F i hi h18 h19
  unfold s2uMatch
  rw [hfind]
  simp only [hoff, hO, h0, hadd, Bool.not_true, Bool.and_false, Bool.false_and, Bool.or_false,
    Bool.false_eq_true, if_false]
  rw [hp, List.drop_left]

theorem unitName_head (i : Nat) (hi : i < EQSI_NUMUNIT_INPUT) :
    ∃ c t, unitName i = c :: t ∧ strchr EQ_VALIDUNIT c = true := by
  obtain ⟨hne, hl, _⟩ := unitName_props i hi
  cases h : unitName i with
  | nil => exact absurd h hne
  | cons c t => exact ⟨c, t, rfl, hl c (by rw [h]; exact List.mem_cons_self _ _)⟩

theorem letter_props : ∀ c ∈ EQ_VALIDUNIT,
    c ≠ ' ' ∧ c ≠ '/' ∧ c ≠ '1' ∧ strchr "-+0123456789".toList c = false := by
  decide

theorem letter_of_strchr (c : Char) (h : strchr EQ_VALIDUNIT c = true) :
    c ≠ ' ' ∧ c ≠ '/' ∧ c ≠ '1' ∧ strchr "-+0123456789".toList c = false :=
  letter_props c (by simpa [strchr] using h)

theorem digit_props : ∀ c ∈ "0123456789".toList,
    strchr EQ_VALIDUNIT c = false ∧ strchr "-+0123456789".toList c = true ∧ c ≠ ' ' := by
  decide

theorem dropWhile_head {α : Type} (p : α → Bool) (c : α) (t : List α) (h : p c = false) :
    (c :: t).dropWhile p = c :: t := by
  rw [List.dropWhile_cons, h]
  rfl

theorem dropWhile_run {α : Type} (p : α → Bool) (a b : List α) (ha : ∀ x ∈ a, p x = true)
    (hb : ∀ x, b.head? = some x → p x = false) : (a ++ b).dropWhile p = b := by
  induction a with
  | nil =>
    cases b with
    | nil => rfl
    | cons x t => exact dropWhile_head p x t (hb x rfl)
  | cons x t ih =>
    rw [List.cons_append, List.dropWhile_cons, ha x (List.mem_cons_self _ _)]
    exact ih (fun y hy => ha y (List.mem_cons_of_mem _ hy))

/-- The head of the loop: the block "Apply current" leaves the current scale and power at
one. -/
theorem s2uApply_head (F : Dbl D) (s : S2U D)
    (h : s.iUnit < 0 → s.dSclCur = F.lit 1 ∧ s.dPwrCur = F.lit 1) :
    (s2uApply F s).dSclCur = F.lit 1 ∧ (s2uApply F s).dPwrCur = F.lit 1 ∧
    (s2uApply F s).psz = s.psz ∧ (s2uApply F s).iSign = s.iSign ∧
    (s2uApply F s).dOffset = s.dOffset ∧ (s2uApply F s).iError = s.iError ∧
    (s2uApply F s).szUnitOut = s.szUnitOut ∧ (s2uApply F s).iUnit = s.iUnit := by
  unfold s2uApply
  by_cases c : s.iUnit ≥ 0
  · rw [if_pos c]
    exact ⟨rfl, rfl, rfl, rfl, rfl, rfl, rfl, rfl⟩
  · rw [if_neg c]
    obtain ⟨h1, h2⟩ := h (by omega)
    exact ⟨h1, h2, rfl, rfl, rfl, rfl, rfl, rfl⟩

/-- The unit search at a written unit: the prefix and the name are read. -/
theorem s2uUnit_word (F : Dbl D) (hF : UnitScanArith F) (s : S2U D) (sign : Int)
    (w : UnitWord D) (tl : List Char) (hw : GoodWord F sign w)
    (hp : s.psz = pfxText w.pfx ++ (unitName w.iUnit ++ tl))
    (htl : ∀ x, tl.head? = some x → strchr EQ_VALIDUNIT x = false)
    (hO : s.dOffset = F.lit 0) (hE : s.iError = EQERR_NONE) (hS : s.dSclCur = F.lit 1) :
    (s2uUnit F s).iError = EQERR_NONE ∧ (s2uUnit F s).iSign = s.iSign ∧
    (s2uUnit F s).iUnit = (w.iUnit : Int) ∧
    (s2uUnit F s).dSclCur = (wordAtom F sign w).dScl ∧
    (s2uUnit F s).dPwrCur = s.dPwrCur ∧ (s2uUnit F s).dOffset = F.lit 0 ∧
    (s2uUnit F s).psz = tl ∧
    (∃ pre, (s2uUnit F s).szUnitOut = pre ++ unitName w.iUnit) := by
  obtain ⟨hi, h18, h19, hpf, _⟩ := hw
  obtain ⟨_, hlet, _⟩ := unitName_props w.iUnit hi
  obtain ⟨c0, t0, hc0, hc0l⟩ := unitName_head w.iUnit hi
  cases hpfx : w.pfx with
  | none =>
    rw [hpfx] at hp
    simp only [pfxText, List.nil_append] at hp
    have htok : spanLen EQ_VALIDUNIT s.psz = ((unitName w.iUnit).length : Int) := by
      rw [hp]
      exact spanLen_run EQ_VALIDUNIT _ tl hlet htl
    have hm := s2uMatch_name F hF s w.iUnit tl hi h18 h19 hp htl hO
    have : s2uUnit F s = (s2uMatch F s ((unitName w.iUnit).length : Int)).1 := by
      unfold s2uUnit
      simp only [htok]
      rw [hm]
      simp
    rw [this, hm]
    refine ⟨hE, rfl, rfl, ?_, rfl, rfl, rfl, ⟨_, rfl⟩⟩
    simp only [wordAtom, hpfx, hS]
  | some k =>
    rw [hpfx] at hp
    simp only [pfxText, List.singleton_append] at hp
    obtain ⟨hk, hnot⟩ := hpf k hpfx
    obtain ⟨hfp, hkl⟩ := prefixChar_props k hk
    have hp2 : s.psz = (prefixChar k :: unitName w.iUnit) ++ tl := by
      rw [hp]
      rfl
    have htok : spanLen EQ_VALIDUNIT s.psz = (((unitName w.iUnit).length : Int) + 1) := by
      rw [hp2, spanLen_run EQ_VALIDUNIT _ tl (by
        intro x hx
        rcases List.mem_cons.mp hx with rfl | hx
        · exact hkl
        · exact hlet x hx) htl]
      simp only [List.length_cons]
      push_cast
      rfl
    have hnone : findName s.psz (((unitName w.iUnit).length : Int) + 1)
        (CEquationSIUnitStr.take EQSI_NUMUNIT_INPUT) 0 = none := by
      have := findName_none (prefixChar k :: unitName w.iUnit) tl
        (CEquationSIUnitStr.take EQSI_NUMUNIT_INPUT) 0
        (fun v hv => ⟨fun e => hnot (by rw [← e]; exact hv),
          head_not_letter tl v (unitNames_letters v hv) htl⟩)
      rw [hp2]
      simp only [List.length_cons] at this
      push_cast at this
      exact this
    have hm1 : s2uMatch F s (((unitName w.iUnit).length : Int) + 1)
        = ({ s with iUnit := EQSI_NUMUNIT_INPUT }, false) := by
      unfold s2uMatch
      rw [hnone]
    have hlen1 : ¬ (((unitName w.iUnit).length : Int) + 1 ≤ 1) := by
      rw [hc0]
      simp only [List.length_cons]
      push_cast
      omega
    have hskip : (unitName w.iUnit ++ tl).dropWhile (fun c => c == ' ')
        = unitName w.iUnit ++ tl := by
      rw [hc0, List.cons_append]
      exact dropWhile_head _ c0 _ (by
        have := (letter_of_strchr c0 hc0l).1
        simpa using this)
    have hm2 := s2uMatch_name F hF
      (s2uSkip { s with
        iUnit := EQSI_NUMUNIT_INPUT,
        dSclCur := F.mul s.dSclCur ((CEquationSIUnitPrefix F).getD k (F.lit 0)),
        szUnitOut := s.szUnitOut ++ [prefixChar k],
        psz := unitName w.iUnit ++ tl,
        iOff := s.iOff + 1,
        iError := EQERR_NONE })
      w.iUnit tl hi h18 h19 (by
        show (unitName w.iUnit ++ tl).dropWhile (fun c => c == ' ') = _
        exact hskip) htl hO
    have : s2uUnit F s = (s2uMatch F (s2uSkip { s with
        iUnit := EQSI_NUMUNIT_INPUT,
        dSclCur := F.mul s.dSclCur ((CEquationSIUnitPrefix F).getD k (F.lit 0)),
        szUnitOut := s.szUnitOut ++ [prefixChar k],
        psz := unitName w.iUnit ++ tl,
        iOff := s.iOff + 1,
        iError := EQERR_NONE }) ((unitName w.iUnit).length : Int)).1 := by
      unfold s2uUnit
      simp only [htok]
      rw [hm1]
      simp only [Bool.false_or, hE, ne_eq, not_true_eq_false, decide_False, Bool.false_eq_true,
        if_false]
      rw [if_neg hlen1, hp]
      simp only [hfp, Int.add_sub_cancel]
      rw [hm2]
      simp
    rw [this, hm2]
    refine ⟨rfl, rfl, rfl, ?_, rfl, rfl, rfl, ⟨_, rfl⟩⟩
    simp only [wordAtom, hpfx, s2uSkip, hS]

theorem getLast_append_ne {α : Type} (a b : List α) (x : α) (ha : a.getLast? ≠ some x)
    (hb : b.getLast? ≠ some x) : (a ++ b).getLast? ≠ some x := by
  rw [List.getLast?_append]
  cases h : b.getLast? with
  | none => simpa using ha
  | some y =>
    rw [h] at hb
    simpa using hb

theorem getLast_name (pre : List Char) (i : Nat) (hi : i < EQSI_NUMUNIT_INPUT) :
    (pre ++ unitName i).getLast? ≠ some '/' := by
  obtain ⟨hne, hl, _⟩ := unitName_props i hi
  rw [List.getLast?_append]
  cases h : (unitName i).getLast? with
  | none =>
    rw [List.getLast?_eq_none_iff] at h
    exact absurd h hne
  | some y =>
    have hy : y ∈ unitName i := List.mem_of_mem_getLast? h
    have := (letter_of_strchr y (hl y hy)).2.1
    simpa using this

/-- The block "Power" behind a written unit: the power written is read, or none. -/
theorem s2uPower_word (F : Dbl D) (hF : UnitScanArith F) (r : S2U D) (sign : Int)
    (pw : Option (List Char × D)) (tl nx : List Char)
    (hpw : ∀ p, pw = some p → IsPower F sign p.1 p.2)
    (hp : r.psz = pwText pw ++ tl)
    (htl : ∀ x, tl.head? = some x → x = ' ' ∨ x = '/')
    (hnx : tl.dropWhile (fun c => c == ' ') = nx)
    (hnx2 : nx = [] ∨ ∃ c t, nx = c :: t ∧ (strchr EQ_VALIDUNIT c = true ∨ c = '/'))
    (hS : r.iSign = sign) (hO : r.dOffset = F.lit 0) :
    (s2uPower F r).iError = r.iError ∧ (s2uPower F r).iSign = r.iSign ∧
    (s2uPower F r).iUnit = r.iUnit ∧ (s2uPower F r).dSclCur = r.dSclCur ∧
    (s2uPower F r).dOffset = r.dOffset ∧
    (s2uPower F r).dPwrCur = pwValue r.dPwrCur pw ∧
    (s2uPower F r).psz.dropWhile (fun c => c == ' ') = nx ∧
    (r.szUnitOut.getLast? ≠ some '/' → (s2uPower F r).szUnitOut.getLast? ≠ some '/') := by
  obtain ⟨h0, _, hs0, hs1⟩ := hF
  have hnxd : nx.dropWhile (fun c => c == ' ') = nx := by
    rcases hnx2 with rfl | ⟨c, t, rfl, hc⟩
    · rfl
    · apply dropWhile_head
      rcases hc with hc | rfl
      · have := (letter_of_strchr c hc).1
        simpa using this
      · decide
  have hnxs : F.scanf_lg nx = none := by
    rcases hnx2 with rfl | ⟨c, t, rfl, hc⟩
    · exact hs0
    · exact hs1 c t hc
  cases pw with
  | none =>
    simp only [pwText, List.nil_append] at hp
    have he : s2uPower F r = s2uSkip r := by
      unfold s2uPower
      have : (s2uSkip r).psz = nx := by
        show r.psz.dropWhile (fun c => c == ' ') = nx
        rw [hp, hnx]
      simp only [this, hnxs]
    rw [he]
    refine ⟨rfl, rfl, rfl, rfl, rfl, rfl, ?_, fun h => h⟩
    show (r.psz.dropWhile (fun c => c == ' ')).dropWhile (fun c => c == ' ') = nx
    rw [hp, hnx, hnxd]
  | some p =>
    obtain ⟨hne, hdig, hscan, hneg, hfmt⟩ := hpw p rfl
    simp only [pwText] at hp
    obtain ⟨n, hn⟩ := hscan tl htl
    obtain ⟨d, ds, hd⟩ : ∃ d ds, p.1 = d :: ds := by
      cases h : p.1 with
      | nil => exact absurd h hne
      | cons d ds => exact ⟨d, ds, rfl⟩
    have hdd : d ∈ "0123456789".toList := hdig d (by rw [hd]; exact List.mem_cons_self _ _)
    have hskip : (s2uSkip r).psz = p.1 ++ tl := by
      show r.psz.dropWhile (fun c => c == ' ') = _
      rw [hp, hd, List.cons_append]
      apply dropWhile_head
      have := (digit_props d hdd).2.2
      simpa using this
    have hlt : (F.lt p.2 (F.lit 0) && decide ((s2uSkip r).iSign < 0)) = false := by
      by_cases c : sign < 0
      · rw [hneg c]
        rfl
      · have : ¬ ((s2uSkip r).iSign < 0) := by
          show ¬ (r.iSign < 0)
          rw [hS]
          exact c
        simp [this]
    have hoff : (!F.eq (s2uSkip r).dOffset (F.lit 0)) = false := by
      show (!F.eq r.dOffset (F.lit 0)) = false
      rw [hO, h0]
      rfl
    have hdrop : (p.1 ++ tl).dropWhile (fun c => strchr "-+0123456789".toList c) = tl := by
      apply dropWhile_run
      · intro x hx
        exact (digit_props x (hdig x hx)).2.1
      · intro x hx
        rcases htl x hx with rfl | rfl <;> decide
    have he : s2uPower F r =
        { s2uSkip r with
          dPwrCur := p.2,
          szUnitOut := (s2uSkip r).szUnitOut ++ F.fmt_g p.2,
          psz := tl,
          iOff := (s2uSkip r).iOff + spanLen "-+0123456789".toList (s2uSkip r).psz } := by
      unfold s2uPower
      simp only [hskip, hn, hlt, hoff, hdrop, Bool.false_eq_true, if_false]
    rw [he]
    refine ⟨rfl, rfl, rfl, rfl, rfl, rfl, hnx, fun h => ?_⟩
    exact getLast_append_ne _ _ _ h hfmt

theorem wordText_head (F : Dbl D) (sign : Int) (w : UnitWord D) (hw : GoodWord F sign w) :
    ∃ c t, wordText w = c :: t ∧ strchr EQ_VALIDUNIT c = true := by
  obtain ⟨hi, _, _, hpf, _⟩ := hw
  obtain ⟨c0, t0, hc0, hc0l⟩ := unitName_head w.iUnit hi
  unfold wordText
  cases hpfx : w.pfx with
  | none => exact ⟨c0, _, by rw [hc0]; rfl, hc0l⟩
  | some k => exact ⟨prefixChar k, _, rfl, (prefixChar_props k (hpf k hpfx).1).2⟩

/-- One round of the scan loop at a written unit: the unit is read as its atom. -/
theorem s2uLoop_word (F : Dbl D) (hF : UnitScanArith F) (sign : Int) (w : UnitWord D)
    (hw : GoodWord F sign w) (s0 : S2U D) (tl nx : List Char) (fuel : Nat)
    (h0 : HeadOK F sign s0)
    (hp : s0.psz.dropWhile (fun c => c == ' ') = wordText w ++ tl)
    (htl : ∀ x, tl.head? = some x → x = ' ' ∨ x = '/')
    (hnx : tl.dropWhile (fun c => c == ' ') = nx)
    (hnx2 : nx = [] ∨ ∃ c t, nx = c :: t ∧ (strchr EQ_VALIDUNIT c = true ∨ c = '/')) :
    ∃ s1 : S2U D, HeadOK F sign s1 ∧ 0 ≤ s1.iUnit ∧
      s1.psz.dropWhile (fun c => c == ' ') = nx ∧ s1.szUnitOut.getLast? ≠ some '/' ∧
      s2uLoop F (fuel + 1) s0 = s2uLoop F fuel s1 ∧
      s2uAtoms F (fuel + 1) s0 = wordAtom F sign w :: s2uAtoms F fuel s1 := by
  obtain ⟨e0, o0, g0, i0⟩ := h0
  obtain ⟨a1, a2, a3, a4, a5, a6, a7, a8⟩ := s2uApply_head F s0 i0
  obtain ⟨k1, k2, k3, k4, k5, k6, k7, k8, k9, k10, _⟩ := s2uSkip_spec (s2uApply F s0)
  obtain ⟨p1, p2, p3, p4, p5, p6, p7, p8, p9, p10⟩ := s2uSpace_spec (s2uSkip (s2uApply F s0))
  have hskp : (s2uSkip (s2uApply F s0)).psz = wordText w ++ tl := by
    show (s2uApply F s0).psz.dropWhile (fun c => c == ' ') = _
    rw [a3, hp]
  obtain ⟨c, t, hct, hcl⟩ := wordText_head F sign w hw
  have hcs : c ≠ '/' := (letter_of_strchr c hcl).2.1
  have hpwtl : ∀ x, (pwText w.pw ++ tl).head? = some x → strchr EQ_VALIDUNIT x = false := by
    intro x hx
    cases hpw : w.pw with
    | none =>
      rw [hpw] at hx
      simp only [pwText, List.nil_append] at hx
      exact (sep_props x (htl x hx)).1
    | some p =>
      rw [hpw] at hx
      obtain ⟨hne, hdig, _⟩ := hw.2.2.2.2 p hpw
      cases hq : p.1 with
      | nil => exact absurd hq hne
      | cons d ds =>
        simp only [pwText, hq, List.cons_append, List.head?_cons, Option.some.injEq] at hx
        rw [← hx]
        exact (digit_props d (hdig d (by rw [hq]; exact List.mem_cons_self _ _))).1
  have hu := s2uUnit_word F hF (s2uSpace (s2uSkip (s2uApply F s0))) sign w
    (pwText w.pw ++ tl) hw
    (by
      rw [p10, hskp]
      unfold wordText
      simp only [List.append_assoc])
    hpwtl (by rw [p6, k6, a5, o0]) (by rw [p5, k5, a6, e0]) (by rw [p7, k7, a1])
  obtain ⟨u1, u2, u3, u4, u5, u6, u7, pre, u8⟩ := hu
  have hpow := s2uPower_word F hF (s2uUnit F (s2uSpace (s2uSkip (s2uApply F s0)))) sign w.pw tl nx
    hw.2.2.2.2 u7 htl hnx hnx2 (by rw [u2, p1, k1, a4, g0]) u6
  obtain ⟨q1, q2, q3, q4, q5, q6, q7, q8⟩ := hpow
  have hlast := q8 (by rw [u8]; exact getLast_name pre w.iUnit hw.1)
  have herr : (s2uPower F (s2uUnit F (s2uSpace (s2uSkip (s2uApply F s0))))).iError
      = EQERR_NONE := by rw [q1, u1]
  have hpwr : (s2uPower F (s2uUnit F (s2uSpace (s2uSkip (s2uApply F s0))))).dPwrCur
      = (wordAtom F sign w).dPwr := by
    rw [q6]
    unfold wordAtom
    cases w.pw with
    | none => simp only [pwValue]; rw [u5, p4, k4, a2]
    | some p => rfl
  have hcur : s2uCur (s2uPower F (s2uUnit F (s2uSpace (s2uSkip (s2uApply F s0)))))
      = wordAtom F sign w := by
    unfold s2uCur
    rw [q2, u2, p1, k1, a4, g0, q3, u3, q4, u4, hpwr]
    rfl
  refine ⟨s2uPower F (s2uUnit F (s2uSpace (s2uSkip (s2uApply F s0)))),
    ⟨herr, by rw [q5, u6], by rw [q2, u2, p1, k1, a4, g0], fun h => ?_⟩, ?_, q7, hlast, ?_, ?_⟩
  · rw [q3, u3] at h
    exact absurd h (by have := Int.natCast_nonneg w.iUnit; omega)
  · rw [q3, u3]
    exact Int.natCast_nonneg _
  · rw [s2uLoop_succ, hskp, hct]
    dsimp only [List.cons_append]
    rw [hct] at hskp
    simp only [if_neg hcs, if_pos herr]
  · rw [s2uAtoms_succ, hskp, hct]
    dsimp only [List.cons_append]
    simp only [if_neg hcs, if_pos herr, hcur]

theorem wordsText_cons2 (w v : UnitWord D) (vs : List (UnitWord D)) :
    wordsText (w :: v :: vs) = wordText w ++ ' ' :: wordsText (v :: vs) := rfl

theorem wordsText_head (F : Dbl D) (sign : Int) (ws : List (UnitWord D)) (hne : ws ≠ [])
    (hg : ∀ w ∈ ws, GoodWord F sign w) :
    ∃ c t, wordsText ws = c :: t ∧ strchr EQ_VALIDUNIT c = true := by
  cases ws with
  | nil => exact absurd rfl hne
  | cons w rest =>
    obtain ⟨c, t, hct, hc⟩ := wordText_head F sign w (hg w (List.mem_cons_self _ _))
    cases rest with
    | nil => exact ⟨c, t, hct, hc⟩
    | cons v vs =>
      rw [wordsText_cons2, hct]
      exact ⟨c, _, rfl, hc⟩

theorem wordsText_length (F : Dbl D) (sign : Int) (ws : List (UnitWord D))
    (hg : ∀ w ∈ ws, GoodWord F sign w) : ws.length ≤ (wordsText ws).length := by
  induction ws with
  | nil => simp [wordsText]
  | cons w rest ih =>
    obtain ⟨c, t, hct, _⟩ := wordText_head F sign w (hg w (List.mem_cons_self _ _))
    cases rest with
    | nil =>
      show 1 ≤ (wordText w).length
      rw [hct]
      simp
    | cons v vs =>
      have := ih (fun x hx => hg x (List.mem_cons_of_mem _ hx))
      rw [wordsText_cons2, hct]
      simp only [List.length_cons, List.length_append] at this ⊢
      omega

/-- The rounds of the scan loop over the written units of one side of the solidus: each is
read as its atom. -/
theorem s2uLoop_words (F : Dbl D) (hF : UnitScanArith F) (sign : Int) :
    ∀ (ws : List (UnitWord D)), ws ≠ [] → (∀ w ∈ ws, GoodWord F sign w) →
    ∀ (s0 : S2U D) (tl : List Char) (fuel : Nat), HeadOK F sign s0 →
      s0.psz.dropWhile (fun c => c == ' ') = wordsText ws ++ tl →
      (tl = [] ∨ ∃ r, tl = '/' :: r) →
      ∃ s1 : S2U D, HeadOK F sign s1 ∧ 0 ≤ s1.iUnit ∧
        s1.psz.dropWhile (fun c => c == ' ') = tl ∧ s1.szUnitOut.getLast? ≠ some '/' ∧
        s2uLoop F (ws.length + fuel) s0 = s2uLoop F fuel s1 ∧
        s2uAtoms F (ws.length + fuel) s0 = ws.map (wordAtom F sign) ++ s2uAtoms F fuel s1 := by
  intro ws
  induction ws with
  | nil => intro h; exact absurd rfl h
  | cons w rest ih =>
    intro _ hg s0 tl fuel h0 hp htl
    have hw := hg w (List.mem_cons_self _ _)
    have htl1 : ∀ x, tl.head? = some x → x = ' ' ∨ x = '/' := by
      intro x hx
      rcases htl with rfl | ⟨r, rfl⟩
      · exact absurd hx (by simp)
      · simp only [List.head?_cons, Option.some.injEq] at hx
        exact Or.inr hx.symm
    have htl2 : tl.dropWhile (fun c => c == ' ') = tl := by
      rcases htl with rfl | ⟨r, rfl⟩
      · rfl
      · exact dropWhile_head _ _ _ (by decide)
    have htl3 : tl = [] ∨ ∃ c t, tl = c :: t ∧ (strchr EQ_VALIDUNIT c = true ∨ c = '/') := by
      rcases htl with rfl | ⟨r, rfl⟩
      · exact Or.inl rfl
      · exact Or.inr ⟨'/', r, rfl, Or.inr rfl⟩
    cases rest with
    | nil =>
      obtain ⟨s1, b1, b2, b3, b4, b5, b6⟩ :=
        s2uLoop_word F hF sign w hw s0 tl tl fuel h0 hp htl1 htl2 htl3
      refine ⟨s1, b1, b2, b3, b4, ?_, ?_⟩
      · rw [show [w].length + fuel = fuel + 1 by simp only [List.length_singleton]; omega]
        exact b5
      · rw [show [w].length + fuel = fuel + 1 by simp only [List.length_singleton]; omega, b6]
        rfl
    | cons v vs =>
      have hg2 : ∀ x ∈ v :: vs, GoodWord F sign x := fun x hx => hg x (List.mem_cons_of_mem _ hx)
      obtain ⟨c, t, hct, hc⟩ := wordsText_head F sign (v :: vs) (by simp) hg2
      have hnx : (' ' :: (wordsText (v :: vs) ++ tl)).dropWhile (fun c => c == ' ')
          = wordsText (v :: vs) ++ tl := by
        rw [List.dropWhile_cons]
        simp only [beq_self_eq_true, if_true]
        rw [hct, List.cons_append]
        exact dropWhile_head _ _ _ (by
          have := (letter_of_strchr c hc).1
          simpa using this)
      obtain ⟨s1, b1, b2, b3, b4, b5, b6⟩ :=
        s2uLoop_word F hF sign w hw s0 (' ' :: (wordsText (v :: vs) ++ tl))
          (wordsText (v :: vs) ++ tl) ((v :: vs).length + fuel) h0
          (by rw [hp, wordsText_cons2]; simp only [List.append_assoc, List.cons_append])
          (fun x hx => by
            simp only [List.head?_cons, Option.some.injEq] at hx
            exact Or.inl hx.symm)
          hnx (Or.inr ⟨c, t ++ tl, by rw [hct]; rfl, Or.inl hc⟩)
      obtain ⟨s2, d1, d2, d3, d4, d5, d6⟩ := ih (by simp) hg2 s1 tl fuel b1 b3 htl
      refine ⟨s2, d1, d2, d3, d4, ?_, ?_⟩
      · rw [show (w :: v :: vs).length + fuel = (v :: vs).length + fuel + 1 by
          simp only [List.length_cons]; omega, b5, d5]
      · rw [show (w :: v :: vs).length + fuel = (v :: vs).length + fuel + 1 by
          simp only [List.length_cons]; omega, b6, d6]
        rfl

/-- The scan loop at the end of the text. -/
theorem s2uLoop_end (F : Dbl D) (sign : Int) (s : S2U D) (h0 : HeadOK F sign s)
    (hp : s.psz.dropWhile (fun c => c == ' ') = []) (fuel : Nat) :
    (s2uLoop F fuel s).iError = EQERR_NONE ∧
    (s2uLoop F fuel s).szUnitOut = s.szUnitOut ∧ s2uAtoms F fuel s = [] := by
  obtain ⟨e0, _, _, i0⟩ := h0
  cases fuel with
  | zero => exact ⟨e0, rfl, rfl⟩
  | succ n =>
    obtain ⟨a1, a2, a3, a4, a5, a6, a7, a8⟩ := s2uApply_head F s i0
    have hskp : (s2uSkip (s2uApply F s)).psz = [] := by
      show (s2uApply F s).psz.dropWhile (fun c => c == ' ') = _
      rw [a3, hp]
    rw [s2uLoop_succ, s2uAtoms_succ, hskp]
    dsimp only
    refine ⟨?_, ?_, rfl⟩
    · show (s2uApply F s).iError = _
      rw [a6, e0]
    · show (s2uApply F s).szUnitOut = _
      rw [a7]

/-- The round of the scan loop at the solidus behind the numerator. -/
theorem s2uLoop_slash (F : Dbl D) (s : S2U D) (h0 : HeadOK F 1 s) (r : List Char)
    (hp : s.psz.dropWhile (fun c => c == ' ') = '/' :: r) (fuel : Nat) :
    ∃ s1 : S2U D, HeadOK F (-1) s1 ∧ s1.psz = r ∧
      s2uLoop F (fuel + 1) s = s2uLoop F fuel s1 ∧
      s2uAtoms F (fuel + 1) s = s2uAtoms F fuel s1 := by
  obtain ⟨e0, o0, g0, i0⟩ := h0
  obtain ⟨a1, a2, a3, a4, a5, a6, a7, a8⟩ := s2uApply_head F s i0
  obtain ⟨k1, k2, k3, k4, k5, k6, k7, k8, k9, k10, _⟩ := s2uSkip_spec (s2uApply F s)
  obtain ⟨p1, p2, p3, p4, p5, p6, p7, p8, p9, p10⟩ := s2uSpace_spec (s2uSkip (s2uApply F s))
  have hskp : (s2uSkip (s2uApply F s)).psz = '/' :: r := by
    show (s2uApply F s).psz.dropWhile (fun c => c == ' ') = _
    rw [a3, hp]
  have hsg : ¬ ((s2uSpace (s2uSkip (s2uApply F s))).iSign < 1) := by
    rw [p1, k1, a4, g0]
    decide
  refine ⟨s2uSlash (s2uSpace (s2uSkip (s2uApply F s))) r, ⟨?_, ?_, rfl, fun _ => ⟨?_, ?_⟩⟩, rfl,
    ?_, ?_⟩
  · show (s2uSpace (s2uSkip (s2uApply F s))).iError = _
    rw [p5, k5, a6, e0]
  · show (s2uSpace (s2uSkip (s2uApply F s))).dOffset = _
    rw [p6, k6, a5, o0]
  · show (s2uSpace (s2uSkip (s2uApply F s))).dSclCur = _
    rw [p7, k7, a1]
  · show (s2uSpace (s2uSkip (s2uApply F s))).dPwrCur = _
    rw [p4, k4, a2]
  · rw [s2uLoop_succ, hskp]
    dsimp only
    simp only [if_true, if_neg hsg]
  · rw [s2uAtoms_succ, hskp]
    dsimp only
    simp only [if_true, if_neg hsg]

/-- A unit string written as a numerator and a denominator of units, each with an optional
prefix and an optional power, the units separated by single blanks: `_StringToUnit` accepts
it, and the atoms the scan reads are the units written, in the order of the text, those of
the denominator with the sign minus one. -/
theorem StringToUnit_words (F : Dbl D) (hF : UnitScanArith F) (num den : List (UnitWord D))
    (tgt : Target D) (hne : num ≠ []) (hgn : ∀ w ∈ num, GoodWord F 1 w)
    (hgd : ∀ w ∈ den, GoodWord F (-1) w) :
    (_StringToUnit F (unitText num den) tgt).iError = EQERR_NONE ∧
    unitAtoms F (unitText num den)
      = num.map (wordAtom F 1) ++ den.map (wordAtom F (-1)) := by
  obtain ⟨c, t, hct, hc⟩ := wordsText_head F 1 num hne hgn
  have hc1 := letter_of_strchr c hc
  have hsz : unitText num den = c :: (t ++ denText den) := by
    unfold unitText
    rw [hct]
    rfl
  have hlenpos : ¬ (unitText num den).length ≤ 0 := by
    rw [hsz]
    simp
  have hstart : s2uStart F (unitText num den) =
      s2uSkip
        { szUnitOut := [], dScale := F.lit 1, dOffset := F.lit 0, uUnit := uUnitZero F,
          uUnitCur := uUnitZero F, dPwrCur := F.lit 1, dSclCur := F.lit 1,
          psz := unitText num den, iOff := 0, iUnit := -1, iSign := 1,
          iError := EQERR_NONE } := by
    have hd : (unitText num den).dropWhile (fun c => c == ' ') = unitText num den := by
      rw [hsz]
      exact dropWhile_head _ _ _ (by simpa using hc1.1)
    unfold s2uStart
    simp only [s2uSkip, hd]
    rw [hsz]
    simp only [if_neg hc1.2.2.1]
  have hd0 : (s2uStart F (unitText num den)).psz.dropWhile (fun c => c == ' ')
      = unitText num den := by
    rw [hstart]
    show ((unitText num den).dropWhile (fun c => c == ' ')).dropWhile (fun c => c == ' ') = _
    have hd : (unitText num den).dropWhile (fun c => c == ' ') = unitText num den := by
      rw [hsz]
      exact dropWhile_head _ _ _ (by simpa using hc1.1)
    rw [hd, hd]
  have hh0 : HeadOK F 1 (s2uStart F (unitText num den)) := by
    rw [hstart]
    exact ⟨rfl, rfl, rfl, fun _ => ⟨rfl, rfl⟩⟩
  have hln := wordsText_length F 1 num hgn
  have hld := wordsText_length F (-1) den hgd
  rw [StringToUnit_start F _ tgt hlenpos]
  unfold unitAtoms
  dsimp only
  cases den with
  | nil =>
    have hlen : (unitText num ([] : List (UnitWord D))).length + 2
        = num.length + ((unitText num ([] : List (UnitWord D))).length + 2 - num.length) := by
      have : (unitText num ([] : List (UnitWord D))).length = (wordsText num).length := by
        unfold unitText
        simp [denText]
      omega
    obtain ⟨s1, b1, b2, b3, b4, b5, b6⟩ := s2uLoop_words F hF 1 num hne hgn _ []
      ((unitText num ([] : List (UnitWord D))).length + 2 - num.length) hh0
      (by rw [hd0]; unfold unitText; simp [denText]) (Or.inl rfl)
    obtain ⟨f1, f2, f3⟩ := s2uLoop_end F 1 s1 b1 b3
      ((unitText num ([] : List (UnitWord D))).length + 2 - num.length)
    rw [hlen, b5, b6, f3, f2, f1, if_neg b4]
    simp
  | cons v vs =>
    have hlen : (unitText num (v :: vs)).length + 2
        = num.length + (((v :: vs).length
          + ((unitText num (v :: vs)).length + 2 - num.length - 1 - (v :: vs).length)) + 1) := by
      have : (unitText num (v :: vs)).length
          = (wordsText num).length + 1 + (wordsText (v :: vs)).length := by
        unfold unitText
        simp only [denText, List.length_append, List.length_cons]
        omega
      omega
    obtain ⟨s1, b1, b2, b3, b4, b5, b6⟩ := s2uLoop_words F hF 1 num hne hgn _
      ('/' :: wordsText (v :: vs))
      (((v :: vs).length
          + ((unitText num (v :: vs)).length + 2 - num.length - 1 - (v :: vs).length)) + 1) hh0
      (by rw [hd0]; rfl) (Or.inr ⟨_, rfl⟩)
    obtain ⟨s2, c1, c2, c3, c4⟩ := s2uLoop_slash F s1 b1 _ b3 ((v :: vs).length
          + ((unitText num (v :: vs)).length + 2 - num.length - 1 - (v :: vs).length))
    obtain ⟨cv, tv, hcv, hcvl⟩ := wordsText_head F (-1) (v :: vs) (by simp) hgd
    obtain ⟨s3, d1, d2, d3, d4, d5, d6⟩ := s2uLoop_words F hF (-1) (v :: vs) (by simp) hgd s2 []
      ((unitText num (v :: vs)).length + 2 - num.length - 1 - (v :: vs).length) c1
      (by
        rw [c2, List.append_nil, hcv]
        exact dropWhile_head _ _ _ (by simpa using (letter_of_strchr cv hcvl).1))
      (Or.inl rfl)
    obtain ⟨f1, f2, f3⟩ := s2uLoop_end F (-1) s3 d1 d3
      ((unitText num (v :: vs)).length + 2 - num.length - 1 - (v :: vs).length)
    rw [hlen, b5, b6, c3, c4, d5, d6, f3, f2, f1, if_neg d4]
    simp

theorem letters_not_digit : ∀ c ∈ EQ_VALIDUNIT ++ ['/', ' '], c.isDigit = false := by decide

theorem scanDigits_stop_at (c : Char) (rest : List Char) (v n : Nat) (h : c.isDigit = false) :
    scanDigits (c :: rest) v n = (v, n) := by
  unfold scanDigits
  rw [if_neg (by rw [h]; exact Bool.false_ne_true)]

theorem unitScanArith_Q : UnitScanArith Q := by
  refine ⟨by decide!, by decide!, by decide!, fun c rest hc => ?_⟩
  have hd : c.isDigit = false := by
    rcases hc with hc | rfl
    · exact letters_not_digit c (List.mem_append_left _ (by simpa [strchr] using hc))
    · decide
  show scanNat (c :: rest) = none
  unfold scanNat
  rw [scanDigits_stop_at c rest 0 0 hd]
  rfl

theorem unitScanArith_R64 : UnitScanArith R64 := by
  refine ⟨by decide!, by decide!, by decide!, fun c rest hc => ?_⟩
  have hd : c.isDigit = false := by
    rcases hc with hc | rfl
    · exact letters_not_digit c (List.mem_append_left _ (by simpa [strchr] using hc))
    · decide
  show (scanDec (c :: rest)).map (fun r => (rnd64 r.1, r.2)) = none
  unfold scanDec
  rw [scanDigits_stop_at c rest 0 0 hd]
  rfl

/-- The text `2` is a power of value 2, in exact arithmetic and in the arithmetic of
`double`. -/
theorem IsPower_two (sign : Int) : IsPower Q sign ['2'] 2 ∧ IsPower R64 sign ['2'] 2 := by
  have key : ∀ tl : List Char, (∀ x, tl.head? = some x → x = ' ' ∨ x = '/') →
      scanDigits (['2'] ++ tl) 0 0 = (2, 1) ∧ ∀ t, (['2'] ++ tl).drop 1 ≠ '.' :: t := by
    intro tl htl
    cases tl with
    | nil => exact ⟨by decide, fun t => by simp⟩
    | cons x t =>
      have hx := htl x rfl
      have hd : x.isDigit = false := by
        rcases hx with rfl | rfl <;> decide
      refine ⟨?_, fun t2 => ?_⟩
      · show scanDigits ('2' :: x :: t) 0 0 = (2, 1)
        unfold scanDigits
        rw [if_pos (by decide), scanDigits_stop_at x t _ _ hd]
        rfl
      · simp only [List.singleton_append, List.drop_succ_cons, List.drop_zero, ne_eq,
          List.cons.injEq, not_and]
        intro e
        rcases hx with rfl | rfl <;> exact absurd e (by decide)
  refine ⟨⟨by simp, by decide, fun tl htl => ⟨1, ?_⟩, fun _ => by decide!, by decide!⟩,
    ⟨by simp, by decide, fun tl htl => ⟨1, ?_⟩, fun _ => by decide!, by decide!⟩⟩
  · show scanNat (['2'] ++ tl) = some (2, 1)
    unfold scanNat
    rw [(key tl htl).1]
    simp
  · show (scanDec (['2'] ++ tl)).map (fun r => (rnd64 r.1, r.2)) = some (2, 1)
    obtain ⟨k1, k2⟩ := key tl htl
    unfold scanDec
    rw [k1]
    simp only [Nat.one_ne_zero, if_false]
    show some (rnd64 ((2 : Nat) : ℚ), 1) = some (2, 1)
    have : rnd64 ((2 : Nat) : ℚ) = 2 := by decide!
    rw [this]

/-- C27 (amended): for every arithmetic and every unit string that `_StringToUnit` accepts,
the outputs are the atoms of the string applied one after the other in the order of the text:
each component of the dimension vector starts at zero and takes `+ sign * power * atom vector`
per atom, the scale starts at one and is multiplied by `pow(prefix * unit scale, power)` for an
atom of the numerator and divided by it for an atom of the denominator, and the offset starts
at zero and takes the offset of each atom.  In exact arithmetic these folds are the sum over
the numerator atoms of power times atom vector minus the same sum over the denominator atoms,
the product over the numerator atoms divided by the product over the denominator atoms, and
the sum of the offsets.  The atoms are the units written: a unit string made of a non-empty
numerator and a denominator of units without offset, each with an optional prefix and an
optional power of digits, separated by single blanks around at most one solidus, is accepted,
and its atoms are these units in the order of the text, each with the scale `1 * prefix *
unit scale` (without a prefix `1 * unit scale`) and the power written (or one), those behind
the solidus with the sign minus one.  For any arithmetic, a unit string with two solidi is
rejected.  In `km2/ms` the atoms are the metre with the scale 1000 and the power 2 and, in the
denominator, the second with the scale 1/1000; the scale returned is 1000000000, in exact
arithmetic and in the arithmetic of `double`. -/
theorem C27_unit_formula (G : Dbl D) (F : Dbl ℚ) (hF : ExactArith F) (sz : List Char)
    (tgt : Target ℚ) (tgtG : Target D) (num den : List (UnitWord D)) :
    ((_StringToUnit G sz tgtG).iError = EQERR_NONE →
      (_StringToUnit G sz tgtG).tgt.m_uUnitTarget
        = vecOf (fun j => (unitAtoms G sz).foldl (applyVec G j) (G.lit 0)) ∧
      (_StringToUnit G sz tgtG).tgt.m_dScleTarget
        = (unitAtoms G sz).foldl (applyScale G) (G.lit 1) ∧
      (_StringToUnit G sz tgtG).tgt.m_dOffsTarget
        = (unitAtoms G sz).foldl (applyOffset G) (G.lit 0) ∧
      ∀ a ∈ unitAtoms G sz, GoodAtom G a) ∧
    ((_StringToUnit F sz tgt).iError = EQERR_NONE →
      (_StringToUnit F sz tgt).tgt.m_uUnitTarget
        = unitVector F (numerator (unitAtoms F sz)) (denominator (unitAtoms F sz)) ∧
      (_StringToUnit F sz tgt).tgt.m_dScleTarget
        = unitScale F (numerator (unitAtoms F sz)) (denominator (unitAtoms F sz)) ∧
      (_StringToUnit F sz tgt).tgt.m_dOffsTarget = unitOffset F (unitAtoms F sz)) ∧
    (UnitScanArith G → num ≠ [] → (∀ w ∈ num, GoodWord G 1 w) →
      (∀ w ∈ den, GoodWord G (-1) w) →
      (_StringToUnit G (unitText num den) tgtG).iError = EQERR_NONE ∧
      unitAtoms G (unitText num den) = num.map (wordAtom G 1) ++ den.map (wordAtom G (-1)) ∧
      (_StringToUnit G (unitText num den) tgtG).tgt.m_uUnitTarget
        = vecOf (fun j => (num.map (wordAtom G 1) ++ den.map (wordAtom G (-1))).foldl
            (applyVec G j) (G.lit 0)) ∧
      (_StringToUnit G (unitText num den) tgtG).tgt.m_dScleTarget
        = (num.map (wordAtom G 1) ++ den.map (wordAtom G (-1))).foldl (applyScale G) (G.lit 1) ∧
      (_StringToUnit G (unitText num den) tgtG).tgt.m_dOffsTarget
        = (num.map (wordAtom G 1) ++ den.map (wordAtom G (-1))).foldl (applyOffset G)
            (G.lit 0)) ∧
    (2 ≤ sz.count '/' → (_StringToUnit G sz tgtG).iError ≠ EQERR_NONE) ∧
    ((unitAtoms Q "km2/ms".toList).map atomOut = [(1, 1, 1000, 2), (-1, 3, 1 / 1000, 1)] ∧
      s2uOut (_StringToUnit Q "km2/ms".toList fresh.tgt)
        = (EQERR_NONE, "km2 /ms".toList, [0, 2, 0, -1, 0, 0, 0], 1000000000, 0) ∧
      (unitAtoms R64 "km2/ms".toList).map atomOut
        = [(1, 1, 1000, 2), (-1, 3, rnd64 (1 / 1000), 1)] ∧
      s2uOut (_StringToUnit R64 "km2/ms".toList fresh.tgt)
        = (EQERR_NONE, "km2 /ms".toList, [0, 2, 0, -1, 0, 0, 0], 1000000000, 0) ∧
      unitText [(⟨some 3, 1, some (['2'], 2)⟩ : UnitWord ℚ)] [⟨some 6, 3, none⟩]
        = "km2/ms".toList ∧
      unitText [(⟨none, 1, none⟩ : UnitWord ℚ)] [⟨none, 16, none⟩, ⟨none, 24, none⟩]
        = "m/g in".toList ∧
      (unitAtoms Q "kg m/s2".toList).map atomOut
        = [(1, 0, 1, 1), (1, 1, 1, 1), (-1, 3, 1, 2)] ∧
      s2uOut (_StringToUnit Q "kg m/s2".toList fresh.tgt)
        = (EQERR_NONE, "kg m /s2".toList, [1, 1, 0, -2, 0, 0, 0], 1, 0) ∧
      s2uOut (_StringToUnit R64 "kg m/s2".toList fresh.tgt)
        = (EQERR_NONE, "kg m /s2".toList, [1, 1, 0, -2, 0, 0, 0], 1, 0) ∧
      (_StringToUnit Q "kg m/s2/m".toList fresh.tgt).iError = EQERR_PARSE_ILLEGALCHAR ∧
      (_StringToUnit Q "m//s".toList fresh.tgt).iError = EQERR_PARSE_UNITEXPECTED) := by
  refine ⟨StringToUnit_fold G sz tgtG, fun h => ?_, fun hG hne hgn hgd => ?_,
    StringToUnit_second_solidus G sz tgtG, ?_⟩
  · obtain ⟨r1, r2, r3, r4⟩ := StringToUnit_fold F sz tgt h
    have hs : ∀ a ∈ unitAtoms F sz, a.iSign = 1 ∨ a.iSign = -1 := fun a ha => (r4 a ha).1
    refine ⟨?_, ?_, ?_⟩
    · rw [r1]
      unfold unitVector
      congr 1
      funext j
      rw [foldl_applyVec F hF j _ _ hs, hF.1]
      ring
    · rw [r2, foldl_applyScale F hF _ _ hs, hF.1]
      unfold unitScale
      ring
    · rw [r3, foldl_applyOffset F hF, hF.1]
      unfold unitOffset
      ring
  · obtain ⟨w1, w2⟩ := StringToUnit_words G hG num den tgtG hne hgn hgd
    obtain ⟨r1, r2, r3, _⟩ := StringToUnit_fold G (unitText num den) tgtG w1
    rw [w2] at r1 r2 r3
    exact ⟨w1, w2, r1, r2, r3⟩
  · refine ⟨?_, ?_, ?_, ?_, ?_, ?_, ?_, ?_, ?_, ?_, ?_⟩ <;> decide!

theorem GoodWord_plain (F : Dbl D) (sign : Int) (i : Nat) (hi : i < EQSI_NUMUNIT_INPUT)
    (h18 : i ≠ 18) (h19 : i ≠ 19) : GoodWord F sign ⟨none, i, none⟩ :=
  ⟨hi, h18, h19, fun _ h => Option.noConfusion h, fun _ h => Option.noConfusion h⟩

theorem C27_witness :
    (_StringToUnit R64 "m/g in".toList fresh.tgt).tgt.m_dScleTarget
      = (unitAtoms R64 "m/g in".toList).foldl (applyScale R64) (R64.lit 1) ∧
    (_StringToUnit Q "km2/ms".toList fresh.tgt).tgt.m_dScleTarget
      = unitScale Q (numerator (unitAtoms Q "km2/ms".toList))
          (denominator (unitAtoms Q "km2/ms".toList)) ∧
    unitAtoms R64 (unitText [(⟨none, 1, none⟩ : UnitWord ℚ)] [⟨none, 16, none⟩, ⟨none, 24, none⟩])
      = [wordAtom R64 1 ⟨none, 1, none⟩, wordAtom R64 (-1) ⟨none, 16, none⟩,
          wordAtom R64 (-1) ⟨none, 24, none⟩] ∧
    unitAtoms R64 (unitText [(⟨some 3, 1, some (['2'], 2)⟩ : UnitWord ℚ)] [⟨some 6, 3, none⟩])
      = [wordAtom R64 1 ⟨some 3, 1, some (['2'], 2)⟩, wordAtom R64 (-1) ⟨some 6, 3, none⟩] ∧
    (_StringToUnit Q "1/s/s".toList fresh.tgt).iError ≠ EQERR_NONE :=
  ⟨((C27_unit_formula R64 Q (exactArith_ratDbl libm0) "m/g in".toList fresh.tgt fresh.tgt
      [] []).1 (by decide!)).2.1,
    ((C27_unit_formula Q Q (exactArith_ratDbl libm0) "km2/ms".toList fresh.tgt fresh.tgt
      [] []).2.1 (by decide!)).2.1,
    ((C27_unit_formula R64 Q (exactArith_ratDbl libm0) [] fresh.tgt fresh.tgt
      [⟨none, 1, none⟩] [⟨none, 16, none⟩, ⟨none, 24, none⟩]).2.2.1 unitScanArith_R64
      (by simp)
      (fun w hw => by
        rw [List.mem_singleton] at hw
        rw [hw]
        exact GoodWord_plain R64 1 1 (by decide) (by decide) (by decide))
      (fun w hw => by
        simp only [List.mem_cons, List.mem_singleton, List.not_mem_nil, or_false] at hw
        rcases hw with rfl | rfl
        · exact GoodWord_plain R64 (-1) 16 (by decide) (by decide) (by decide)
        · exact GoodWord_plain R64 (-1) 24 (by decide) (by decide) (by decide))).2.1,
    ((C27_unit_formula R64 Q (exactArith_ratDbl libm0) [] fresh.tgt fresh.tgt
      [⟨some 3, 1, some (['2'], 2)⟩] [⟨some 6, 3, none⟩]).2.2.1 unitScanArith_R64
      (by simp)
      (fun w hw => by
        rw [List.mem_singleton] at hw
        rw [hw]
        refine ⟨by decide, by decide, by decide, fun k hk => ?_, fun p hp => ?_⟩
        · simp only [Option.some.injEq] at hk
          subst hk
          decide
        · simp only [Option.some.injEq] at hp
          subst hp
          exact (IsPower_two 1).2)
      (fun w hw => by
        rw [List.mem_singleton] at hw
        rw [hw]
        refine ⟨by decide, by decide, by decide, fun k hk => ?_,
          fun _ h => Option.noConfusion h⟩
        simp only [Option.some.injEq] at hk
        subst hk
        decide)).2.1,
    (C27_unit_formula Q Q (exactArith_ratDbl libm0) "1/s/s".toList fresh.tgt fresh.tgt
      [] []).2.2.2.1 (by decide)⟩

/-! ## C15: an expression that ends inside a bracket or after a function name -/

/-- A round of the scan loop at the name of a built-in function at the end of the source or in
front of a blank, after `k` blanks, in the state `LOOKFOR_NUMBER`, with no variable list: the
code of the function, raised by the bracket offset, and the position of the name are pushed on
the operator stacks, and the mode becomes `LOOKFOR_BRACKET`. -/
theorem parseStep_funcname (F : Dbl D) (src : List Char) (st : Stacks D) (p B e : Int)
    (tg : Target D) (k : Nat) (nm : List Char) (code : Int) (rest : List Char)
    (hf : IsFunc nm code) (hp : 0 ≤ p)
    (hfol : rest = [] ∨ ∃ t, rest = ' ' :: t)
    (hs : strFrom src p = List.replicate k ' ' ++ (nm ++ rest)) :
    parseStep F src none ⟨st, LOOKFOR_NUMBER, p, B, EQERR_NONE, e, tg⟩ =
      ⟨{ st with isPos := (p + k) :: st.isPos, isOps := (code + B) :: st.isOps },
        LOOKFOR_BRACKET, p + k + nm.length, B, EQERR_NONE, e, tg⟩ := by
  have hbr : ∀ x, rest.head? = some x → strchr EQ_VALIDSYMB x = false := by
    intro x hx
    rcases hfol with rfl | ⟨t, rfl⟩
    · exact absurd hx (by simp)
    · simp only [List.head?_cons, Option.some.injEq] at hx
      exact (sep_props x (Or.inl hx.symm)).2
  have hnot : ∀ v ∈ CEquationSIUnitConstStr ++ CEquationUnaryOpStr ++ CEquationNArgOpStr,
      ∀ x, rest.head? = some x → x ∉ v := by
    intro v hv x hx
    rcases hfol with rfl | ⟨t, rfl⟩
    · exact absurd hx (by simp)
    · simp only [List.head?_cons, Option.some.injEq] at hx
      rw [← hx]
      exact (tables_props v (by
        simp only [List.mem_append] at hv ⊢
        rcases hv with (hv | hv) | hv
        · exact Or.inl (Or.inl (Or.inr hv))
        · exact Or.inl (Or.inr hv)
        · exact Or.inr hv)).1
  have key : ∃ c t, nm = c :: t ∧ strchr EQ_VALIDCHAR c = true ∧
      (∀ x ∈ t, strchr EQ_VALIDSYMB x = true) ∧
      findName (nm ++ rest) nm.length CEquationSIUnitConstStr 0 = none ∧
      ((∃ i : Nat, findName (nm ++ rest) nm.length CEquationUnaryOpStr 0 = some (i, nm) ∧
          code = OP_UNARY + i) ∨
        (findName (nm ++ rest) nm.length CEquationUnaryOpStr 0 = none ∧
          ∃ j : Nat, findName (nm ++ rest) nm.length CEquationNArgOpStr 0 = some (j, nm) ∧
            code = OP_NARG + j)) := by
    rcases hf with ⟨i, hi, hi2, rfl, rfl⟩ | ⟨j, hj, rfl, rfl⟩
    · obtain ⟨⟨e1, e2, e3⟩, e4, e5, e6, e7⟩ :=
        (unaryName_props i hi).resolve_left hi2
      obtain ⟨c, t, e0⟩ : ∃ c t, unaryName i = c :: t := by
        cases h : unaryName i with
        | nil => exact absurd h e1
        | cons c t => exact ⟨c, t, rfl⟩
      refine ⟨c, t, e0, by rw [e0] at e2; exact e2, by rw [e0] at e3; exact e3, ?_,
        Or.inl ⟨i, ?_, rfl⟩⟩
      · exact findName_none _ _ _ 0 (fun v hv => ⟨(e7 v hv).1,
          hnot v (List.mem_append_left _ (List.mem_append_left _ hv))⟩)
      · have := findName_first (unaryName i) rest (CEquationUnaryOpStr.take i)
          (CEquationUnaryOpStr.drop (i + 1)) 0 (fun v hv => ⟨(e6 v hv).1,
            hnot v (List.mem_append_left _ (List.mem_append_right _ (List.mem_of_mem_take hv)))⟩)
        rw [← e4, e5, zero_add] at this
        exact this
    · obtain ⟨⟨e1, e2, e3⟩, e4, e5, e6, e7⟩ := nargName_props j hj
      obtain ⟨c, t, e0⟩ : ∃ c t, nargName j = c :: t := by
        cases h : nargName j with
        | nil => exact absurd h e1
        | cons c t => exact ⟨c, t, rfl⟩
      refine ⟨c, t, e0, by rw [e0] at e2; exact e2, by rw [e0] at e3; exact e3, ?_,
        Or.inr ⟨?_, j, ?_, rfl⟩⟩
      · exact findName_none _ _ _ 0 (fun v hv =>
          ⟨(e7 v (List.mem_append_left _ hv)).1,
            hnot v (List.mem_append_left _ (List.mem_append_left _ hv))⟩)
      · exact findName_none _ _ _ 0 (fun v hv =>
          ⟨(e7 v (List.mem_append_right _ hv)).1,
            hnot v (List.mem_append_left _ (List.mem_append_right _ hv))⟩)
      · have := findName_first (nargName j) rest (CEquationNArgOpStr.take j)
          (CEquationNArgOpStr.drop (j + 1)) 0 (fun v hv => ⟨(e6 v hv).1,
            hnot v (List.mem_append_right _ (List.mem_of_mem_take hv))⟩)
        rw [← e4, e5, zero_add] at this
        exact this
  obtain ⟨c, t, rfl, hc, ht, hcon, hfn⟩ := key
  obtain ⟨h5, h2⟩ := validChar_props c (strchr_mem _ _ hc)
  have hsk : skipBlanks (strFrom src p) p = p + k := by
    rw [hs, List.cons_append, skipBlanks_replicate k c _ p h5]
  have hsf : strFrom src (p + k) = (c :: t) ++ rest := strFrom_skip src p k _ hp hs
  have hpk : (0 : Int) ≤ p + k := by omega
  have hch : charAt src (p + k) = c :=
    charAt_of_strFrom src (p + k) c (t ++ rest) hpk hsf
  have hlt : p + k < src.length :=
    lt_length_of_strFrom src (p + k) c (t ++ rest) hpk hsf
  have hsf1 : strFrom src (p + k + 1) = t ++ rest := by
    have := strFrom_add src _ (p + k) 1 hpk hsf
    simpa using this
  have htok : 1 + spanLen EQ_VALIDSYMB (t ++ rest) = ((c :: t).length : Int) := by
    rw [spanLen_ident t rest ht hbr]
    simp only [List.length_cons]
    push_cast
    ring
  have hz : ¬ (((c :: t).length : Int) = 0 ∧ True) := by
    simp only [List.length_cons]
    omega
  unfold parseStep
  simp only [hsk]
  rw [if_neg (by omega), hch, h2]
  simp only [Bool.false_eq_true, if_false]
  unfold parseToken
  simp only [if_true]
  unfold parseNumber
  simp only [hch, hc, if_true]
  unfold parseIdent
  simp only [hsf, hsf1, htok, hcon]
  rcases hfn with ⟨i, hi, rfl⟩ | ⟨hun, j, hj, rfl⟩
  · simp only [hi]
    unfold parseAdvance
    simp only
    rw [if_neg hz]
  · simp only [hun, hj]
    unfold parseAdvance
    simp only
    rw [if_neg hz]

/-- The scan of a source of which only blanks are left: the loop ends at the end of the source
and changes nothing else. -/
theorem scanEnd_blanks (F : Dbl D) (sz : List Char) (vars : Option (List (List Char)))
    (n : Nat) (st : Stacks D) (m : Nat) (p B e : Int) (tg : Target D) (b : Nat)
    (hreach : scanAfter F sz vars n = ⟨st, m, p, B, EQERR_NONE, e, tg⟩) (hp : 0 ≤ p)
    (hrest : strFrom (cstr sz) p = List.replicate b ' ') :
    ((cstr sz).length : Int) ≤ p + b ∧
    scanEnd F sz vars = ⟨st, m, if b = 0 then p else (cstr sz).length, B, EQERR_NONE, e, tg⟩ := by
  by_cases hb : b = 0
  · subst hb
    have hlen : ((cstr sz).length : Int) ≤ p := by
      unfold strFrom at hrest
      have := congrArg List.length hrest
      simp only [List.length_drop, List.replicate_zero, List.length_nil] at this
      omega
    refine ⟨by simpa using hlen, ?_⟩
    rw [if_pos rfl]
    exact scanEnd_of_scanAfter F sz vars n _ hreach (by
      simp only [not_and]
      intro hh
      exfalso
      omega)
  · have hL := strFrom_length (cstr sz) _ p hp hrest (by
      intro h
      have := congrArg List.length h
      simp at this
      exact hb this)
    simp only [List.length_replicate] at hL
    refine ⟨by omega, ?_⟩
    rw [if_neg hb]
    have hstep : parseStep F (cstr sz) vars ⟨st, m, p, B, EQERR_NONE, e, tg⟩ =
        ⟨st, m, (cstr sz).length, B, EQERR_NONE, e, tg⟩ := by
      unfold parseStep
      simp only [hrest, skipBlanks_blanks]
      rw [if_pos (by omega)]
      congr 1
      omega
    have h2 := scanAfter_succ F sz vars n _ _ hreach (by simp only; omega) rfl hstep
    exact scanEnd_of_scanAfter F sz vars (n + 1) _ h2 (by simp)

/-- The scan of a source that ends, where a number is expected, with the name of a built-in
function and blanks: the loop ends in the mode `LOOKFOR_BRACKET`. -/
theorem scanEnd_funcname (F : Dbl D) (sz : List Char) (n : Nat) (st : Stacks D)
    (p B e : Int) (tg : Target D) (a b : Nat) (nm : List Char) (code : Int)
    (hreach : scanAfter F sz none n = ⟨st, LOOKFOR_NUMBER, p, B, EQERR_NONE, e, tg⟩)
    (hp : 0 ≤ p) (hf : IsFunc nm code)
    (hrest : strFrom (cstr sz) p = List.replicate a ' ' ++ (nm ++ List.replicate b ' ')) :
    ∃ (st2 : Stacks D) (q : Int),
      scanEnd F sz none = ⟨st2, LOOKFOR_BRACKET, q, B, EQERR_NONE, e, tg⟩ := by
  have hnm : nm ≠ [] := by
    intro h
    have := IsFunc_noNul nm code hf
    rcases hf with ⟨i, hi, hi2, rfl, _⟩ | ⟨j, hj, rfl, _⟩
    · exact ((unaryName_props i hi).resolve_left hi2).1.1 h
    · exact (nargName_props j hj).1.1 h
  have hfol : List.replicate b ' ' = [] ∨ ∃ t, List.replicate b ' ' = ' ' :: t := by
    cases b with
    | zero => exact Or.inl rfl
    | succ b => exact Or.inr ⟨_, rfl⟩
  have hstep := parseStep_funcname F (cstr sz) st p B e tg a nm code _ hf hp hfol hrest
  have hL := strFrom_length (cstr sz) _ p hp hrest (by
    intro h
    have := congrArg List.length h
    simp only [List.length_append, List.length_replicate, List.length_nil] at this
    have : nm.length = 0 := by omega
    exact hnm (List.length_eq_zero.mp this))
  simp only [List.length_append, List.length_replicate] at hL
  have hpos : 0 < nm.length := List.length_pos.mpr hnm
  have h1 := scanAfter_succ F sz none n _ _ hreach (by simp only; push_cast at hL; omega) rfl hstep
  have hsf : strFrom (cstr sz) (p + a + (nm.length : Int)) = List.replicate b ' ' := by
    have := strFrom_add (cstr sz) _ p (a + nm.length) hp hrest
    have e1 : p + ((a + nm.length : Nat) : Int) = p + a + (nm.length : Int) := by
      push_cast; omega
    rw [e1] at this
    rw [this, List.drop_append_eq_append_drop, List.drop_append_eq_append_drop]
    simp
  obtain ⟨_, hend⟩ := scanEnd_blanks F sz none (n + 1) _ _ _ _ _ _ b h1 (by omega) hsf
  exact ⟨_, _, hend⟩

/-! ## C15: a closing bracket met with no bracket open -/

theorem scanBinaryOp_two_code (c d e : Char) (t : List Char)
    (h : (c = '|' ∧ e = '|') ∨ (c = '&' ∧ e = '&') ∨ (c = '<' ∧ e = '=') ∨ (c = '>' ∧ e = '=')
      ∨ (c = '!' ∧ e = '=') ∨ (c = '=' ∧ e = '=')) (g : d ≠ e) :
    0 ≤ (scanBinaryOp (c :: d :: t)).1 := by
  unfold scanBinaryOp scanBinaryOp.match_1
  rcases h with ⟨rfl, rfl⟩ | ⟨rfl, rfl⟩ | ⟨rfl, rfl⟩ | ⟨rfl, rfl⟩ | ⟨rfl, rfl⟩ | ⟨rfl, rfl⟩ <;>
    simp [g]

theorem scanBinaryOp_code (l : List Char) : 0 ≤ (scanBinaryOp l).1 := by
  rcases l with _ | ⟨c, t⟩
  · exact of_decide_eq_true rfl
  by_cases h1 : c = ','
  · subst h1; exact of_decide_eq_true rfl
  by_cases h2 : c = '+'
  · subst h2; exact of_decide_eq_true rfl
  by_cases h3 : c = '-'
  · subst h3; exact of_decide_eq_true rfl
  by_cases h4 : c = '*'
  · subst h4; exact of_decide_eq_true rfl
  by_cases h5 : c = '/'
  · subst h5; exact of_decide_eq_true rfl
  by_cases h6 : c = '^'
  · subst h6; exact of_decide_eq_true rfl
  by_cases h7 : c = '|'
  · subst h7
    rcases t with _ | ⟨d, t⟩
    · exact of_decide_eq_true rfl
    by_cases g : d = '|'
    · subst g; exact of_decide_eq_true rfl
    · exact scanBinaryOp_two_code _ d '|' t (Or.inl ⟨rfl, rfl⟩) g
  by_cases h8 : c = '&'
  · subst h8
    rcases t with _ | ⟨d, t⟩
    · exact of_decide_eq_true rfl
    by_cases g : d = '&'
    · subst g; exact of_decide_eq_true rfl
    · exact scanBinaryOp_two_code _ d '&' t (Or.inr (Or.inl ⟨rfl, rfl⟩)) g
  by_cases h9 : c = '<'
  · subst h9
    rcases t with _ | ⟨d, t⟩
    · exact of_decide_eq_true rfl
    by_cases g : d = '='
    · subst g; exact of_decide_eq_true rfl
    · exact scanBinaryOp_two_code _ d '=' t (Or.inr (Or.inr (Or.inl ⟨rfl, rfl⟩))) g
  by_cases h10 : c = '>'
  · subst h10
    rcases t with _ | ⟨d, t⟩
    · exact of_decide_eq_true rfl
    by_cases g : d = '='
    · subst g; exact of_decide_eq_true rfl
    · exact scanBinaryOp_two_code _ d '=' t (Or.inr (Or.inr (Or.inr (Or.inl ⟨rfl, rfl⟩)))) g
  by_cases h11 : c = '!'
  · subst h11
    rcases t with _ | ⟨d, t⟩
    · exact of_decide_eq_true rfl
    by_cases g : d = '='
    · subst g; exact of_decide_eq_true rfl
    · exact scanBinaryOp_two_code _ d '=' t (Or.inr (Or.inr (Or.inr (Or.inr (Or.inl ⟨rfl, rfl⟩))))) g
  by_cases h12 : c = '='
  · subst h12
    rcases t with _ | ⟨d, t⟩
    · exact of_decide_eq_true rfl
    by_cases g : d = '='
    · subst g; exact of_decide_eq_true rfl
    · exact scanBinaryOp_two_code _ d '=' t (Or.inr (Or.inr (Or.inr (Or.inr (Or.inr ⟨rfl, rfl⟩))))) g
  rw [scanBinaryOp_other c t h1 h2 h3 h4 h5 h6 h7 h8 h9 h10 h11 h12]

theorem Pop_clean (l : List Int) (h : ∀ x ∈ l, 0 ≤ x ∧ x ≠ OP_PSH) :
    (0 ≤ (Pop 0 l).1 ∧ (Pop 0 l).1 ≠ OP_PSH) ∧ ∀ x ∈ (Pop 0 l).2, 0 ≤ x ∧ x ≠ OP_PSH := by
  cases l with
  | nil => exact ⟨⟨le_rfl, by decide⟩, fun x hx => absurd hx (List.not_mem_nil _)⟩
  | cons a t => exact ⟨h a (List.mem_cons_self _ _), fun x hx => h x (List.mem_cons_of_mem _ hx)⟩

theorem poSet_clean (F : Dbl D) (st : Stacks D) (h : OpsClean st) : OpsClean (poSet F st) := by
  obtain ⟨h1, h2⟩ := h
  obtain ⟨_, a2⟩ := Pop_clean st.isOps h1
  obtain ⟨b1, b2⟩ := Pop_clean (Pop 0 st.isOps).2 a2
  unfold poSet
  simp only []
  split_ifs with hc
  · refine ⟨b2, fun t ht => ?_⟩
    simp only [List.mem_cons] at ht
    rcases ht with rfl | rfl | ht
    · exact fun _ => b1
    · exact fun he => absurd he (show ¬ (VOTYP_OP = VOTYP_REF) by decide)
    · exact h2 t ht
  · refine ⟨a2, fun t ht => ?_⟩
    simp only [List.mem_cons] at ht
    rcases ht with rfl | ht
    · exact fun he => absurd he (show ¬ (VOTYP_OP = VOTYP_REF) by decide)
    · exact h2 t ht

theorem poStep_clean (F : Dbl D) (st : Stacks D) (h : OpsClean st) : OpsClean (poStep F st) := by
  obtain ⟨h1, h2⟩ := poSet_clean F st h
  obtain ⟨_, a2⟩ := Pop_clean (poSet F st).isOps h1
  unfold poStep
  simp only []
  split_ifs with hc
  · refine ⟨a2, fun t ht => ?_⟩
    simp only [List.mem_cons] at ht
    rcases ht with rfl | ht
    · exact fun he => absurd he (show ¬ (VOTYP_NARGC = VOTYP_REF) by decide)
    · exact h2 t ht
  · exact ⟨h1, h2⟩

theorem processOpsLoop_clean (F : Dbl D) (op B : Int) (fuel : Nat) :
    ∀ st : Stacks D, OpsClean st → OpsClean (processOpsLoop F op B fuel st) := by
  induction fuel with
  | zero => intro st h; exact h
  | succ n ih =>
    intro st h
    unfold processOpsLoop
    split_ifs
    · exact h
    · exact ih _ (poStep_clean F st h)

theorem ProcessOps_clean (F : Dbl D) (st : Stacks D) (op B : Int) (h : OpsClean st) :
    OpsClean (_ProcessOps F st op B) :=
  processOpsLoop_clean F op B _ st h

theorem OpsClean_token (st : Stacks D) (t : VALOP D) (ht : t.uTyp ≠ VOTYP_REF)
    (h : OpsClean st) : OpsClean ⟨t :: st.vosParsEqn, st.isOps, st.isPos⟩ := by
  refine ⟨h.1, fun u hu => ?_⟩
  simp only [List.mem_cons] at hu
  rcases hu with rfl | hu
  · exact fun he => absurd he ht
  · exact h.2 u hu

theorem OpsClean_push (st : Stacks D) (x q : Int) (hx : 0 ≤ x ∧ x ≠ OP_PSH)
    (h : OpsClean st) : OpsClean ⟨st.vosParsEqn, x :: st.isOps, q :: st.isPos⟩ := by
  refine ⟨fun y hy => ?_, h.2⟩
  simp only [List.mem_cons] at hy
  rcases hy with rfl | hy
  · exact hx
  · exact h.1 y hy

theorem unitHang_clean (F : Dbl D) (m : Nat) (B p : Int) (st : Stacks D) (r : Stacks D × Int)
    (h : OpsClean st) (hB : 0 ≤ B) (hr : unitHang F m B p st = some r) :
    OpsClean r.1 ∧ 0 ≤ r.2 := by
  unfold unitHang at hr
  split_ifs at hr with h1 h2 h3
  · cases hr
    exact ⟨OpsClean_token st _ (show VOTYP_PREFIX ≠ VOTYP_REF by decide) h, by simp only [OP_BRACKETOFFSET]; omega⟩
  · cases hr
    exact ⟨⟨(Pop_clean st.isOps h.1).2, h.2⟩, hB⟩
  · cases hr
    exact ⟨ProcessOps_clean F st _ _ h, hB⟩

theorem unitPrefix_clean (F : Dbl D) (B p k : Int) (st : Stacks D) (h : OpsClean st)
    (hB : 0 ≤ B) : OpsClean (unitPrefix F B p k st) := by
  unfold unitPrefix
  exact OpsClean_push ⟨_ :: st.vosParsEqn, st.isOps, st.isPos⟩ _ _
    ⟨by simp only [OP_MUL]; omega, by simp only [OP_MUL, OP_PSH]; omega⟩
    (OpsClean_token st _ (show VOTYP_PREFIX ≠ VOTYP_REF by decide) h)

theorem unitPush_clean (F : Dbl D) (B p : Int) (u : Nat) (st : Stacks D) (h : OpsClean st) :
    OpsClean (unitPush F B p u st) := by
  unfold unitPush
  exact ProcessOps_clean F _ _ _ (OpsClean_token st _ (show VOTYP_UNIT ≠ VOTYP_REF by decide) h)

theorem unitEmit_clean (F : Dbl D) (m : Nat) (B p k : Int) (st : Stacks D) (e : Int)
    (u : Nat) (nm : List Char) (h : OpsClean st) (hB : 0 ≤ B) :
    OpsClean (unitEmit F m B p k st e u nm).st := by
  unfold unitEmit
  split
  · exact h
  · rename_i st1 B1 heq
    obtain ⟨c1, c2⟩ := unitHang_clean F m B p st (st1, B1) h hB heq
    split_ifs
    · exact c1
    · exact unitPush_clean F _ _ _ _ (unitPrefix_clean F _ _ _ _ c1 c2)
    · exact unitPush_clean F _ _ _ _ c1

theorem parseUnitsLoop_clean (F : Dbl D) (m : Nat) (B : Int) (st : Stacks D) (e : Int)
    (h : OpsClean st) (hB : 0 ≤ B) :
    ∀ (l : List Char) (p t k : Int), OpsClean (parseUnitsLoop F m B st e l p t k).st := by
  intro l
  induction l with
  | nil =>
    intro p t k
    unfold parseUnitsLoop
    split
    · exact unitEmit_clean F m B p k st e _ _ h hB
    · exact h
  | cons c rest ih =>
    intro p t k
    unfold parseUnitsLoop
    split
    · exact unitEmit_clean F m B p k st e _ _ h hB
    · split
      · exact h
      · exact ih _ _ _

theorem ParseEquationUnits_clean (F : Dbl D) (sz : List Char) (p B : Int) (st : Stacks D)
    (m : Nat) (e : Int) (h : OpsClean st) (hB : 0 ≤ B) :
    OpsClean (_ParseEquationUnits F sz p B st m e).st := by
  unfold _ParseEquationUnits
  exact parseUnitsLoop_clean F m B st e h hB _ _ _ _

theorem parseIdent_clean (F : Dbl D) (sz : List Char) (s : PState D) (h : OpsClean s.st)
    (hB : 0 ≤ s.iBrktOff) : OpsClean (parseIdent F sz none s).1.st := by
  unfold parseIdent
  simp only []
  split
  · split_ifs
    · exact OpsClean_token ⟨_ :: s.st.vosParsEqn, s.st.isOps, s.st.isPos⟩ _
        (show VOTYP_UNIT ≠ VOTYP_REF by decide)
        (OpsClean_token s.st _ (show VOTYP_VAL ≠ VOTYP_REF by decide) h)
    · exact OpsClean_token s.st _ (show VOTYP_VAL ≠ VOTYP_REF by decide) h
  · split
    · exact OpsClean_push s.st _ _
        ⟨by simp only [OP_UNARY]; omega, by simp only [OP_UNARY, OP_PSH]; omega⟩ h
    · split
      · exact OpsClean_push s.st _ _
          ⟨by simp only [OP_NARG]; omega, by simp only [OP_NARG, OP_PSH]; omega⟩ h
      · split_ifs
        · exact ParseEquationUnits_clean F sz _ _ _ _ _ h hB
        · exact ParseEquationUnits_clean F sz _ _ _ _ _ h hB

theorem parseLiteral_clean (F : Dbl D) (sz : List Char) (s : PState D) (h : OpsClean s.st) :
    OpsClean (parseLiteral F sz s).1.st := by
  unfold parseLiteral
  split
  · exact OpsClean_token s.st _ (show VOTYP_VAL ≠ VOTYP_REF by decide) h
  · split_ifs
    · exact h
    · exact h

theorem parseNumber_clean (F : Dbl D) (sz : List Char) (s : PState D) (h : OpsClean s.st)
    (hB : 0 ≤ s.iBrktOff) : OpsClean (parseNumber F sz none s).1.st := by
  unfold parseNumber
  split_ifs
  · exact parseIdent_clean F sz s h hB
  · exact OpsClean_push ⟨_ :: s.st.vosParsEqn, s.st.isOps, s.st.isPos⟩ _ _
      ⟨by simp only [OP_MUL]; omega, by simp only [OP_MUL, OP_PSH]; omega⟩
      (OpsClean_token s.st _ (show VOTYP_VAL ≠ VOTYP_REF by decide) h)
  · exact h
  · exact parseLiteral_clean F sz s h

theorem opAssign_clean (F : Dbl D) (st : Stacks D) (op : Int) (h : OpsClean st)
    (hr : op = OP_SET → (Peek (voNul F) st.vosParsEqn).uTyp = VOTYP_REF) :
    OpsClean (opAssign F st op) := by
  unfold opAssign
  split_ifs with hc
  · have hp := hr hc
    rcases hv : st.vosParsEqn with _ | ⟨t, ts⟩
    · rw [hv] at hp
      exact absurd hp (show ¬ (VOTYP_UNDEFINED = VOTYP_REF) by decide)
    · rw [hv] at hp
      have ht : t.uTyp = VOTYP_REF := hp
      have hts : ∀ u ∈ ts, u ∈ st.vosParsEqn := fun u hu => by
        rw [hv]; exact List.mem_cons_of_mem _ hu
      have htm : t ∈ st.vosParsEqn := by rw [hv]; exact List.mem_cons_self _ _
      refine ⟨fun y hy => ?_, fun u hu => ?_⟩
      · simp only [Pop, List.mem_cons] at hy
        rcases hy with rfl | hy
        · exact h.2 t htm ht
        · exact h.1 y hy
      · simp only [Pop] at hu
        exact h.2 u (hts u hu)
  · exact h

theorem opComma_clean (ops : List Int) (B op : Int) (hB : 0 ≤ B) (h0 : 0 ≤ op)
    (hn : op ≠ OP_NULL) :
    0 ≤ opComma ops B op + B ∧ opComma ops B op + B ≠ OP_PSH := by
  unfold opComma
  simp only [OP_PSH, OP_POP, OP_NULL] at *
  split_ifs <;> constructor <;> omega

theorem parseOperator_clean (F : Dbl D) (sz : List Char) (s : PState D) (h : OpsClean s.st)
    (hB : 0 ≤ s.iBrktOff) : OpsClean (parseOperator F sz s).1.st := by
  unfold parseOperator
  simp only []
  split_ifs with h1 h2
  · exact h
  · exact h
  · have hr : (scanBinaryOp (strFrom sz s.iThisPt)).1 = OP_SET →
        (Peek (voNul F) s.st.vosParsEqn).uTyp = VOTYP_REF := fun he => by
      by_contra hc
      exact h2 ⟨he, hc⟩
    have c1 := opAssign_clean F s.st _ h hr
    have c2 := ProcessOps_clean F (opAssign F s.st (scanBinaryOp (strFrom sz s.iThisPt)).1)
      (opComma (opAssign F s.st (scanBinaryOp (strFrom sz s.iThisPt)).1).isOps s.iBrktOff
        (scanBinaryOp (strFrom sz s.iThisPt)).1 + s.iBrktOff) s.iBrktOff c1
    exact OpsClean_push ⟨_, _, _⟩ _ _
      (opComma_clean _ _ _ hB (scanBinaryOp_code _) h1) c2

theorem InsertBack_clean (l : List Int) (v c : Int) (hv : 0 ≤ v ∧ v ≠ OP_PSH)
    (h : ∀ x ∈ l, 0 ≤ x ∧ x ≠ OP_PSH) : ∀ x ∈ InsertBack l v c, 0 ≤ x ∧ x ≠ OP_PSH := by
  intro x hx
  unfold InsertBack at hx
  simp only [List.mem_append, List.mem_cons] at hx
  rcases hx with hx | rfl | hx
  · exact h x (List.mem_of_mem_take hx)
  · exact hv
  · exact h x (List.mem_of_mem_drop hx)

theorem nargArgc_neg (i : Int) (h0 : 0 ≤ i) (h1 : i < NUM_NARGOP) (h : nargArgc i < 0) :
    ABS (nargArgc i) = 2 := by
  simp only [NUM_NARGOP] at h1
  interval_cases i <;> simp [nargArgc, CEquationNArgOpArgc, ABS] at h ⊢

theorem parseClose_clean (s : PState D) (h : OpsClean s.st) :
    OpsClean (parseClose s).1.st := by
  unfold parseClose
  simp only []
  split_ifs with h1 h2
  all_goals first | exact h | skip
  all_goals
    rename_i h3 _
    refine ⟨InsertBack_clean _ _ _ ?_ h.1, h.2⟩
    have := nargArgc_neg _ h1.1 h1.2 h3
    rw [this] at h2
    simp only [OP_PSH]
    omega

theorem parseUnitOrTarget_clean (F : Dbl D) (sz : List Char) (s : PState D)
    (h : OpsClean s.st) (hB : 0 ≤ s.iBrktOff) : OpsClean (parseUnitOrTarget F sz s).1.st := by
  unfold parseUnitOrTarget
  simp only []
  split_ifs <;> exact ParseEquationUnits_clean F sz _ _ _ _ _ h hB

theorem parseToken_clean (F : Dbl D) (sz : List Char) (s : PState D) (h : OpsClean s.st)
    (hB : 0 ≤ s.iBrktOff) : OpsClean (parseToken F sz none s).1.st := by
  unfold parseToken
  split_ifs
  · exact parseNumber_clean F sz s h hB
  · unfold parseBinaryOp
    simp only []
    split_ifs
    · exact parseOperator_clean F sz s h hB
    · exact parseClose_clean s h
    · exact parseUnitOrTarget_clean F sz s h hB
  · unfold parseBracket
    split_ifs
    · exact h
    · exact h
  · exact h

theorem parseStep_clean (F : Dbl D) (sz : List Char) (s : PState D) (h : OpsClean s.st)
    (hB : 0 ≤ s.iBrktOff) : OpsClean (parseStep F sz none s).st := by
  unfold parseStep
  split_ifs
  · exact h
  · exact h
  · unfold parseAdvance
    exact parseToken_clean F sz { s with iThisPt := _ } h hB

theorem parseLoop_clean (F : Dbl D) (src : List Char) (fuel : Nat) :
    ∀ s : PState D,
      (s.uLookFor = LOOKFOR_NUMBER ∨ s.uLookFor = LOOKFOR_BINARYOP ∨
        s.uLookFor = LOOKFOR_BRACKET) →
      (s.iError = EQERR_NONE → 0 ≤ s.iBrktOff ∧ 0 ≤ s.iThisPt) → OpsClean s.st →
      OpsClean (parseLoop F src none fuel s).st := by
  induction fuel with
  | zero => intro s _ _ hc; exact hc
  | succ n ih =>
    intro s hL hB hc
    unfold parseLoop
    split_ifs with hh
    · obtain ⟨g1, g2⟩ := parseStep_good F src none s hL (hB hh.2).1 hh.1
      exact ih _ g1 (fun he => ⟨(g2 he).1, by have := (g2 he).2; have := (hB hh.2).2; omega⟩)
        (parseStep_clean F src s hc (hB hh.2).1)
    · exact hc

theorem scanAfter_clean (F : Dbl D) (sz : List Char) (n : Nat) :
    OpsClean (scanAfter F sz none n).st :=
  parseLoop_clean F (cstr sz) n (parseInit F) (Or.inl rfl) (fun _ => ⟨le_rfl, le_rfl⟩)
    ⟨fun _ hx => absurd hx (List.not_mem_nil _), fun _ ht => absurd ht (List.not_mem_nil _)⟩

theorem PeekBack_clean (l : List Int) (c : Int) (h : ∀ x ∈ l, 0 ≤ x ∧ x ≠ OP_PSH) :
    0 ≤ PeekBack 0 l c ∧ PeekBack 0 l c ≠ OP_PSH := by
  unfold PeekBack
  split_ifs
  · exact ⟨le_rfl, by decide⟩
  · exact ⟨le_rfl, by decide⟩
  · rw [List.getD_eq_getElem?_getD]
    rcases hx : l[(-c - 1).toNat]? with _ | x
    · exact ⟨le_rfl, by decide⟩
    · exact h x (List.mem_iff_getElem?.mpr ⟨_, hx⟩)

theorem lookBackLoop_clean (ops : List Int) (h : ∀ x ∈ ops, 0 ≤ x ∧ x ≠ OP_PSH) (fuel : Nat) :
    ∀ c v : Int, (lookBackLoop ops 0 fuel c v).2.2 = v ∧ 0 ≤ (lookBackLoop ops 0 fuel c v).1 := by
  induction fuel with
  | zero =>
    intro c v
    unfold lookBackLoop
    exact ⟨rfl, (PeekBack_clean ops _ h).1⟩
  | succ n ih =>
    intro c v
    have hp := PeekBack_clean ops (c - 1) h
    unfold lookBackLoop
    simp only []
    split_ifs
    all_goals first
      | exact ⟨rfl, hp.1⟩
      | exact ih _ _
      | (exfalso; rename_i hx; exact hp.2 (by simpa using hx))

theorem lookBack_clean (ops : List Int) (h : ∀ x ∈ ops, 0 ≤ x ∧ x ≠ OP_PSH) :
    (lookBack ops 0).2.2 = 0 ∧ 0 ≤ (lookBack ops 0).1 :=
  lookBackLoop_clean ops h _ 0 0

theorem parseClose_unopened (s : PState D) (h : OpsClean s.st) (hb : s.iBrktOff = 0) :
    (parseClose s).1.iError = EQERR_PARSE_UNOPENEDBRACKET ∧
    (parseClose s).1.iThisPt = s.iThisPt ∧ (parseClose s).2 = 0 := by
  obtain ⟨c1, c2⟩ := lookBack_clean s.st.isOps h.1
  unfold parseClose
  simp only [hb, c1]
  rw [if_neg (by simp only [OP_BRACKETOFFSET, OP_NARG, NUM_NARGOP]; omega),
    if_neg (by decide)]
  simp [OP_BRACKETOFFSET]

/-- A closing bracket met where an operator is expected with no bracket open: when the scan
of a source parsed without variable names has gone `n` rounds without an error, expects an
operator with the bracket offset zero, and the text left is blanks and a `)`, then
`ParseEquation` returns `EQERR_PARSE_UNOPENEDBRACKET`, located at the bracket. -/
theorem ParseEquation_unopened (F : Dbl D) (this : Instance D) (sz : List Char) (n k : Nat)
    (rest : List Char) (he : (scanAfter F sz none n).iError = EQERR_NONE)
    (hm : (scanAfter F sz none n).uLookFor = LOOKFOR_BINARYOP)
    (hb : (scanAfter F sz none n).iBrktOff = 0)
    (hrest : strFrom (cstr sz) (scanAfter F sz none n).iThisPt
      = List.replicate k ' ' ++ ')' :: rest) :
    (ParseEquation F this sz none).1 = EQERR_PARSE_UNOPENEDBRACKET ∧
    (ParseEquation F this sz none).2.iErrorLocation = (scanAfter F sz none n).iThisPt + k := by
  obtain ⟨_, hp⟩ := scanAfter_nonneg F sz none n he
  have hcl := scanAfter_clean F sz n
  have hreach : scanAfter F sz none n =
      ⟨(scanAfter F sz none n).st, LOOKFOR_BINARYOP, (scanAfter F sz none n).iThisPt, 0,
        EQERR_NONE, (scanAfter F sz none n).iErrorLocation, (scanAfter F sz none n).tgt⟩ := by
    rw [← he, ← hm, ← hb]
  have hL := strFrom_length (cstr sz) _ _ hp hrest (by simp)
  simp only [List.length_append, List.length_replicate, List.length_cons] at hL
  have hstep := parseStep_closing F (cstr sz) none (scanAfter F sz none n).st
    (scanAfter F sz none n).iThisPt 0 (scanAfter F sz none n).iErrorLocation
    (scanAfter F sz none n).tgt k rest hp hrest
  obtain ⟨q1, q2, q3⟩ := parseClose_unopened
    (⟨(scanAfter F sz none n).st, LOOKFOR_BINARYOP, (scanAfter F sz none n).iThisPt + k, 0,
      EQERR_NONE, (scanAfter F sz none n).iErrorLocation, (scanAfter F sz none n).tgt⟩ : PState D)
    hcl rfl
  have h2 := scanAfter_succ F sz none n _ _ hreach (by simp only; omega) rfl hstep
  have t1 : (scanAfter F sz none (n + 1)).iError = EQERR_PARSE_UNOPENEDBRACKET := by
    rw [h2]
    unfold parseAdvance
    simp only [q1, q2, q3]
    simp [EQERR_PARSE_UNOPENEDBRACKET, EQERR_NONE]
  have t2 : (scanAfter F sz none (n + 1)).iThisPt = (scanAfter F sz none n).iThisPt + k := by
    rw [h2]
    unfold parseAdvance
    simp only [q2, q3]
    omega
  have hend := scanEnd_of_scanAfter F sz none (n + 1) _ rfl (by
    rw [t1]
    simp [EQERR_PARSE_UNOPENEDBRACKET, EQERR_NONE])
  have r := ParseEquation_error F this sz none _ EQERR_PARSE_UNOPENEDBRACKET hend (by
    unfold parseFinish
    rw [if_pos (by rw [t1]; decide)]
    exact t1) (by decide)
  exact ⟨r.1, by rw [r.2.2, t2]⟩

/-- C15 (amended): `ParseEquation` returns `EQERR_NONE` exactly when the scan loop ends
without an error in the mode `LOOKFOR_BINARYOP` with the bracket offset zero, and a scan that
ends without an error ends at or past the end of the source.  The three errors are those of a
scan that met no earlier error.  A scan that ends without an error with a bracket open
returns `EQERR_PARSE_BRACKETSOPEN`: so does every source of which, after some rounds without
an error and with a bracket open, only blanks are left.  A scan that ends with no bracket open
in the mode `LOOKFOR_BRACKET` returns `EQERR_PARSE_BRACKETEXPECTED`, the error the mode
`LOOKFOR_BRACKET` also sets at a character that is not `(`: so does every source that ends,
where a number is expected and no bracket is open, with the name of a built-in function and
blanks; with a bracket open that source returns `EQERR_PARSE_BRACKETSOPEN`.  A `)` met where
an operator is expected and no bracket is open returns `EQERR_PARSE_UNOPENEDBRACKET`, located
at the bracket, whatever follows it: so does every source parsed without variable names in
which, after some rounds without an error, the scan expects an operator with the bracket
offset zero and finds blanks and a `)`, and so does, with or without variable names, a `)`
behind a numeric literal at the start of the source.  So `(1+2`, `1)` and
`sin` fail with these three codes, as do `((1`, `1+2)`, `(1))`, `max(1,2))` and `1 + cos `. -/
theorem C15_success_needs_closed_state (F : Dbl D) (this : Instance D) (szEqtn : List Char)
    (vars : Option (List (List Char))) :
    ((ParseEquation F this szEqtn vars).1 = EQERR_NONE ↔
      (scanEnd F szEqtn vars).iError = EQERR_NONE ∧
      (scanEnd F szEqtn vars).uLookFor = LOOKFOR_BINARYOP ∧
      (scanEnd F szEqtn vars).iBrktOff = 0) ∧
    ((scanEnd F szEqtn vars).iError = EQERR_NONE →
      ((cstr szEqtn).length : Int) ≤ (scanEnd F szEqtn vars).iThisPt) ∧
    ((scanEnd F szEqtn vars).iError = EQERR_NONE → 0 < (scanEnd F szEqtn vars).iBrktOff →
      (ParseEquation F this szEqtn vars).1 = EQERR_PARSE_BRACKETSOPEN) ∧
    ((scanEnd F szEqtn vars).iError = EQERR_NONE → (scanEnd F szEqtn vars).iBrktOff = 0 →
      (scanEnd F szEqtn vars).uLookFor = LOOKFOR_BRACKET →
      (ParseEquation F this szEqtn vars).1 = EQERR_PARSE_BRACKETEXPECTED) ∧
    (∀ s : PState D, charAt szEqtn s.iThisPt ≠ '(' →
      (parseBracket szEqtn s).1.iError = EQERR_PARSE_BRACKETEXPECTED) ∧
    (∀ (n b : Nat), (scanAfter F szEqtn vars n).iError = EQERR_NONE →
      strFrom (cstr szEqtn) (scanAfter F szEqtn vars n).iThisPt = List.replicate b ' ' →
      0 < (scanAfter F szEqtn vars n).iBrktOff →
      (ParseEquation F this szEqtn vars).1 = EQERR_PARSE_BRACKETSOPEN) ∧
    (∀ (n a b : Nat) (nm : List Char) (code : Int), IsFunc nm code →
      (scanAfter F szEqtn none n).iError = EQERR_NONE →
      (scanAfter F szEqtn none n).uLookFor = LOOKFOR_NUMBER →
      strFrom (cstr szEqtn) (scanAfter F szEqtn none n).iThisPt
        = List.replicate a ' ' ++ (nm ++ List.replicate b ' ') →
      ((scanAfter F szEqtn none n).iBrktOff = 0 →
        (ParseEquation F this szEqtn none).1 = EQERR_PARSE_BRACKETEXPECTED) ∧
      (0 < (scanAfter F szEqtn none n).iBrktOff →
        (ParseEquation F this szEqtn none).1 = EQERR_PARSE_BRACKETSOPEN)) ∧
    (∀ (n k : Nat) (rest : List Char), (scanAfter F szEqtn none n).iError = EQERR_NONE →
      (scanAfter F szEqtn none n).uLookFor = LOOKFOR_BINARYOP →
      (scanAfter F szEqtn none n).iBrktOff = 0 →
      strFrom (cstr szEqtn) (scanAfter F szEqtn none n).iThisPt
        = List.replicate k ' ' ++ ')' :: rest →
      (ParseEquation F this szEqtn none).1 = EQERR_PARSE_UNOPENEDBRACKET ∧
      (ParseEquation F this szEqtn none).2.iErrorLocation
        = (scanAfter F szEqtn none n).iThisPt + k) ∧
    (∀ (la rest : List Char) (va : D), IsLiteral F la va → (∀ c ∈ rest, c ≠ '\x00') →
      (ParseEquation F this (srcClose la rest) vars).1 = EQERR_PARSE_UNOPENEDBRACKET) ∧
    ((ParseEquation Q fresh "(1+2".toList none).1 = EQERR_PARSE_BRACKETSOPEN ∧
      (ParseEquation Q fresh "1)".toList none).1 = EQERR_PARSE_UNOPENEDBRACKET ∧
      (ParseEquation Q fresh "sin".toList none).1 = EQERR_PARSE_BRACKETEXPECTED ∧
      (ParseEquation Q fresh "((1".toList none).1 = EQERR_PARSE_BRACKETSOPEN ∧
      (ParseEquation Q fresh "1+2)".toList none).1 = EQERR_PARSE_UNOPENEDBRACKET ∧
      (ParseEquation Q fresh "(1))".toList none).1 = EQERR_PARSE_UNOPENEDBRACKET ∧
      (ParseEquation Q fresh "max(1,2))".toList none).1 = EQERR_PARSE_UNOPENEDBRACKET ∧
      (ParseEquation Q fresh "1 + cos ".toList none).1 = EQERR_PARSE_BRACKETEXPECTED ∧
      (ParseEquation R64 fresh "(1+2".toList none).1 = EQERR_PARSE_BRACKETSOPEN ∧
      (ParseEquation R64 fresh "1)".toList none).1 = EQERR_PARSE_UNOPENEDBRACKET ∧
      (ParseEquation R64 fresh "sin".toList none).1 = EQERR_PARSE_BRACKETEXPECTED) := by
  obtain ⟨hL, hB⟩ := scanEnd_good F szEqtn vars
  have hcode := ParseEquation_code F this szEqtn vars
  have hscan : parseScan F (cstr szEqtn) vars = parseFinish F (scanEnd F szEqtn vars) := rfl
  refine ⟨?_, fun h => (hB h).2, fun h1 h2 => ?_, fun h1 h2 h3 => ?_, fun s h => ?_,
    fun n b he hrest hb => ?_, fun n a b nm code hf he hm hrest => ?_,
    fun n k rest he hm hb hrest => ParseEquation_unopened F this szEqtn n k rest he hm hb hrest,
    fun la rest va ha hr => ?_, ?_⟩
  · rw [hcode, hscan]
    exact parseFinish_ok_iff F _ hL (fun h => (hB h).1)
  · rw [hcode, hscan]
    unfold parseFinish
    rw [if_neg (not_not.mpr h1), if_pos h2]
  · rw [hcode, hscan]
    unfold parseFinish
    rw [if_neg (not_not.mpr h1), if_neg (by omega), if_pos h3]
  · unfold parseBracket
    rw [if_neg h]
  · obtain ⟨_, hp⟩ := scanAfter_nonneg F szEqtn vars n he
    have hreach : scanAfter F szEqtn vars n =
        ⟨(scanAfter F szEqtn vars n).st, (scanAfter F szEqtn vars n).uLookFor,
          (scanAfter F szEqtn vars n).iThisPt, (scanAfter F szEqtn vars n).iBrktOff, EQERR_NONE,
          (scanAfter F szEqtn vars n).iErrorLocation, (scanAfter F szEqtn vars n).tgt⟩ := by
      rw [← he]
    obtain ⟨_, hend⟩ := scanEnd_blanks F szEqtn vars n _ _ _ _ _ _ b hreach hp hrest
    exact (ParseEquation_error F this szEqtn vars _ EQERR_PARSE_BRACKETSOPEN hend (by
      unfold parseFinish
      simp only [ne_eq, not_true_eq_false, if_false]
      rw [if_pos hb]) (by decide)).1
  · obtain ⟨_, hp⟩ := scanAfter_nonneg F szEqtn none n he
    have hreach : scanAfter F szEqtn none n =
        ⟨(scanAfter F szEqtn none n).st, LOOKFOR_NUMBER,
          (scanAfter F szEqtn none n).iThisPt, (scanAfter F szEqtn none n).iBrktOff, EQERR_NONE,
          (scanAfter F szEqtn none n).iErrorLocation, (scanAfter F szEqtn none n).tgt⟩ := by
      rw [← he, ← hm]
    obtain ⟨st2, q, hend⟩ := scanEnd_funcname F szEqtn n _ _ _ _ _ a b nm code hreach hp hf hrest
    refine ⟨fun h0 => ?_, fun h0 => ?_⟩
    · exact (ParseEquation_error F this szEqtn none _ EQERR_PARSE_BRACKETEXPECTED hend (by
        unfold parseFinish
        simp only [ne_eq, not_true_eq_false, if_false]
        rw [if_neg (by omega), if_pos trivial]) (by decide)).1
    · exact (ParseEquation_error F this szEqtn none _ EQERR_PARSE_BRACKETSOPEN hend (by
        unfold parseFinish
        simp only [ne_eq, not_true_eq_false, if_false]
        rw [if_pos h0]) (by decide)).1
  · rw [ParseEquation_code, srcClose_cstr F la rest va ha hr]
    exact (parseScan_close F vars la rest va ha).1
  · decide!

theorem C15_witness :
    (scanEnd Q "1 + 2".toList none).iError = EQERR_NONE ∧
    (scanEnd Q "1 + 2".toList none).uLookFor = LOOKFOR_BINARYOP ∧
    (scanEnd Q "1 + 2".toList none).iBrktOff = 0 ∧
    (5 : Int) ≤ (scanEnd Q "1 + 2".toList none).iThisPt ∧
    (ParseEquation Q fresh "((1".toList none).1 = EQERR_PARSE_BRACKETSOPEN ∧
    (ParseEquation Q fresh "cos".toList none).1 = EQERR_PARSE_BRACKETEXPECTED ∧
    (ParseEquation Q fresh (srcClose ['2'] ['+', '1']) none).1 = EQERR_PARSE_UNOPENEDBRACKET ∧
    (ParseEquation Q fresh "2 * sin  ".toList none).1 = EQERR_PARSE_BRACKETEXPECTED ∧
    (ParseEquation Q fresh "(2 * (3 ".toList none).1 = EQERR_PARSE_BRACKETSOPEN ∧
    (ParseEquation Q fresh "max(1,2) ) + 3".toList none).1 = EQERR_PARSE_UNOPENEDBRACKET ∧
    (ParseEquation Q fresh "max(1,2) ) + 3".toList none).2.iErrorLocation = 9 :=
  ⟨((C15_success_needs_closed_state Q fresh "1 + 2".toList none).1.mp (by decide!)).1,
    ((C15_success_needs_closed_state Q fresh "1 + 2".toList none).1.mp (by decide!)).2.1,
    ((C15_success_needs_closed_state Q fresh "1 + 2".toList none).1.mp (by decide!)).2.2,
    (C15_success_needs_closed_state Q fresh "1 + 2".toList none).2.1
      ((C15_success_needs_closed_state Q fresh "1 + 2".toList none).1.mp (by decide!)).1,
    (C15_success_needs_closed_state Q fresh "((1".toList none).2.2.1 (by decide!) (by decide!),
    (C15_success_needs_closed_state Q fresh "cos".toList none).2.2.2.1 (by decide!) (by decide!)
      (by decide!),
    (C15_success_needs_closed_state Q fresh [] none).2.2.2.2.2.2.2.2.1 ['2'] ['+', '1'] 2
      IsLiteral_Q_123.2.1 (by decide),
    ((C15_success_needs_closed_state Q fresh "2 * sin  ".toList none).2.2.2.2.2.2.1 2 1 2
      "sin".toList (OP_UNARY + 8) (Or.inl ⟨8, by decide, by decide, by decide, rfl⟩)
      (by decide!) (by decide!) (by decide!)).1 (by decide!),
    (C15_success_needs_closed_state Q fresh "(2 * (3 ".toList none).2.2.2.2.2.1 5 1
      (by decide!) (by decide!) (by decide!),
    (fun h => ⟨h.1, h.2.trans (by decide!)⟩)
      ((C15_success_needs_closed_state Q fresh "max(1,2) ) + 3".toList none).2.2.2.2.2.2.2.1
        6 1 " + 3".toList (by decide!) (by decide!) (by decide!) (by decide!))⟩

end CEquation
